import Mathlib

/-!
# SDP offer/answer rewriting engine (`daemon/sdp.c`): shallow embedding

The C code works on one input buffer (the SDP body) through pointers into it.
Here the buffer is a `List Char`, a pointer into it is its offset (a `Nat`),
a pointer that may be `NULL` is an `Option Nat`, and a `str` (pointer plus
length) is the structure `Str`.  A read past the end of the buffer yields the
NUL character, as for a NUL-terminated C string.  C integers are `Int`/`Nat`
with explicit wrap-around where the code casts or overflows.

Functions of the repository that live outside `daemon/sdp.c` (address
parsing, codec and crypto catalogues, the call graph) are fields of the
structure `Env`; the small `str` helpers of `lib/str.h` and the libc
functions the parser relies on are defined below by their usual meaning.
-/

set_option autoImplicit false
set_option maxRecDepth 100000

namespace Sdp

/-! ## Memory, libc and `str` helpers -/

/-- The C `str`: a pointer into the body buffer (`none` is `NULL`) and a length. -/
structure Str where
  s : Option Nat := none
  len : Nat := 0
deriving DecidableEq, Repr

/-- `STR_NULL`. -/
def STR_NULL : Str := { s := none, len := 0 }

/-- Reading one byte of the buffer; past its end the byte is NUL. -/
def getc (buf : List Char) (i : Nat) : Char := buf.getD i (Char.ofNat 0)

/-- The bytes `[p, p+n)` of the buffer. -/
def bytes_at (buf : List Char) (p n : Nat) : List Char := (buf.drop p).take n

/-- The bytes a `str` designates (none for a `NULL` pointer). -/
def str_bytes (buf : List Char) (x : Str) : List Char :=
  match x.s with
  | none => []
  | some p => bytes_at buf p x.len

/-- The C string seen at pointer `p`: the buffer from `p` on. -/
def cstr (buf : List Char) (p : Nat) : List Char := buf.drop p

/-- The scan of `memchr` over the bytes `l` that start at pointer `p`: the
first of the next `n` positions that holds `c`.  Past the end of the buffer
the byte read is 0, as with `getc`. -/
def memchr_scan (l : List Char) (p : Nat) (c : Char) : Nat → Option Nat
  | 0 => none
  | n + 1 => if l.headD (Char.ofNat 0) = c then some p else memchr_scan l.tail (p + 1) c n

/-- libc `memchr(p, c, n)`: the first position in `[p, p+n)` holding `c`
(`memchr_succ`: it is `p` if the byte at `p` is `c`, else the result of the
search in `[p+1, p+n)`). -/
def memchr (buf : List Char) (p : Nat) (c : Char) (n : Nat) : Option Nat :=
  memchr_scan (buf.drop p) p c n

/-- libc `isspace` in the C locale. -/
def isspace (c : Char) : Bool :=
  c = ' ' || c = '\t' || c = '\n' || c = '\r' || c.toNat = 11 || c.toNat = 12

/-- libc `isdigit`. -/
def isdigit (c : Char) : Bool := decide ('0' ≤ c) && decide (c ≤ '9')

/-- Leading white space of a C string: how many bytes are skipped. -/
def skip_spaces : List Char → Nat
  | [] => 0
  | c :: cs => if isspace c then skip_spaces cs + 1 else 0

/-- A run of decimal digits: the value accumulated and the number of digits read. -/
def scan_digits : List Char → Nat → Nat × Nat
  | [], acc => (acc, 0)
  | c :: cs, acc =>
    if isdigit c then
      let r := scan_digits cs (acc * 10 + (c.toNat - 48))
      (r.1, r.2 + 1)
    else (acc, 0)

/-- The common front end of the `strto*` family in base 10: white space, an
optional sign, digits.  Returns `none` when there is no digit (no conversion),
else the sign, the magnitude and the number of bytes consumed. -/
def strto_core (s : List Char) : Option (Bool × Nat × Nat) :=
  let ws := skip_spaces s
  let r := s.drop ws
  let sign : Nat := match r with
    | c :: _ => if c = '-' || c = '+' then 1 else 0
    | [] => 0
  let neg : Bool := match r with
    | c :: _ => c = '-'
    | [] => false
  let d := scan_digits (r.drop sign) 0
  if d.2 = 0 then none else some (neg, d.1, ws + sign + d.2)

/-- `ULONG_MAX` / `ULLONG_MAX` on the 64-bit targets the daemon is built for. -/
def ULLONG_MAX : Nat := 2 ^ 64 - 1

/-- libc `strtoul(p, &ep, 10)` (also `strtoull`): value and end pointer.  With no
conversion the value is 0 and the end pointer is `p`. -/
def strtoul (buf : List Char) (p : Nat) : Nat × Nat :=
  match strto_core (cstr buf p) with
  | none => (0, p)
  | some (neg, v, n) =>
    if v > ULLONG_MAX then (ULLONG_MAX, p + n)
    else if neg then ((2 ^ 64 - v) % 2 ^ 64, p + n)
    else (v, p + n)

/-- libc `strtol(p, &ep, 10)`: value (saturating at the 64-bit bounds) and end pointer. -/
def strtol (buf : List Char) (p : Nat) : Int × Nat :=
  match strto_core (cstr buf p) with
  | none => (0, p)
  | some (neg, v, n) =>
    if neg then (if v > 2 ^ 63 then (-(2 ^ 63 : Int), p + n) else (-(v : Int), p + n))
    else (if v > 2 ^ 63 - 1 then ((2 ^ 63 - 1 : Int), p + n) else ((v : Int), p + n))

/-- Conversion of a C `long` to `int` (two's complement, 32 bits). -/
def to_int32 (v : Int) : Int :=
  let m := v % (2 ^ 32 : Int)
  if m ≥ (2 ^ 31 : Int) then m - (2 ^ 32 : Int) else m

/-- libc `atoi(p)`, which is `(int) strtol(p, NULL, 10)`. -/
def atoi (buf : List Char) (p : Nat) : Int := to_int32 (strtol buf p).1

/-- ASCII `tolower`. -/
def tolower (c : Char) : Char :=
  if decide ('A' ≤ c) && decide (c ≤ 'Z') then Char.ofNat (c.toNat + 32) else c

/-- Case-insensitive equality of two byte strings (`strncasecmp(a, b, n) == 0` on
equal lengths, and the key equality of the `str_case` hash tables). -/
def str_case_eq (a b : List Char) : Bool := a.map tolower == b.map tolower

/-- Modelled from the spec: `str_shift` of lib/str.h is not under src/; one of
the byte-slice token helpers of §2 item 1.  It drops `n` leading bytes and
fails (`none`, the C `-1`) when the slice is shorter than `n`. -/
def str_shift (x : Str) (n : Nat) : Option Str :=
  if x.len < n then none
  else some { s := x.s.map (· + n), len := x.len - n }

/-- Modelled from the spec: `str_chr_str` of lib/str.h is not under src/; one of
the byte-slice token helpers of §2 item 1.  It searches the slice for the first
byte `c` and returns the rest of the slice from that byte on, or `none` (`NULL`)
when the byte does not occur. -/
def str_chr_str (buf : List Char) (x : Str) (c : Char) : Option Str :=
  match x.s with
  | none => none
  | some p =>
    match memchr buf p c x.len with
    | none => none
    | some q => some { s := some q, len := x.len - (q - p) }

/-- Modelled from the spec: `str_chr` of lib/str.h is not under src/; it tells
whether byte `c` occurs in the slice (the C code only tests the pointer). -/
def str_chr (buf : List Char) (x : Str) (c : Char) : Bool :=
  (str_chr_str buf x c).isSome

/-- Modelled from the spec: `str_token_sep` of lib/str.h is not under src/; the
token helper behind the space-separated grammars of §4.1.  It cuts the slice at
the first separator into a token and the remainder after the separator; when no
separator is left the whole non-empty slice is the last token and the
remainder becomes `STR_NULL`; an empty slice yields no token (`none`). -/
def str_token_sep (buf : List Char) (x : Str) (sep : Char) : Option (Str × Str) :=
  match str_chr_str buf x sep with
  | some r =>
    some ({ s := x.s, len := r.s.getD 0 - x.s.getD 0 }, { s := r.s.map (· + 1), len := r.len - 1 })
  | none => if x.len = 0 then none else some (x, STR_NULL)

/-- Modelled from the spec: `str_cmp` of lib/str.h is not under src/; it compares
a slice with a C string literal, `true` here standing for the C result 0 (equal). -/
def str_cmp (buf : List Char) (x : Str) (lit : String) : Bool :=
  str_bytes buf x == lit.toList

/-- Modelled from the spec: `str_shift_cmp` of lib/str.h is not under src/; when
the slice starts with the literal it is shifted past it, else left as it is. -/
def str_shift_cmp (buf : List Char) (x : Str) (lit : String) : Str :=
  if x.len < lit.length then x
  else if (str_bytes buf x).take lit.length == lit.toList then
    { s := x.s.map (· + lit.length), len := x.len - lit.length }
  else x

/-- Whether the literal occurs in the byte string (`str_str(x, lit) >= 0`). -/
def has_substr (x : List Char) (lit : List Char) : Bool :=
  match x with
  | [] => lit.isEmpty
  | c :: cs => (lit.isPrefixOf (c :: cs)) || has_substr cs lit

/-! ## Data model (`daemon/sdp.c`, with the records of `sdp.h` it fills) -/

/-- The closed enumeration of attribute tags (`enum attr_id`). -/
inductive attr_id where
  | ATTR_OTHER
  | ATTR_RTCP
  | ATTR_CANDIDATE
  | ATTR_ICE
  | ATTR_ICE_LITE
  | ATTR_ICE_OPTIONS
  | ATTR_ICE_UFRAG
  | ATTR_ICE_PWD
  | ATTR_CRYPTO
  | ATTR_INACTIVE
  | ATTR_SENDRECV
  | ATTR_SENDONLY
  | ATTR_RECVONLY
  | ATTR_RTCP_MUX
  | ATTR_GROUP
  | ATTR_MID
  | ATTR_FINGERPRINT
  | ATTR_SETUP
  | ATTR_RTPMAP
  | ATTR_FMTP
  | ATTR_IGNORE
  | ATTR_RTPENGINE
  | ATTR_PTIME
  | ATTR_RTCP_FB
  | ATTR_T38FAXVERSION
  | ATTR_T38FAXUDPEC
  | ATTR_T38FAXUDPECDEPTH
  | ATTR_T38FAXUDPFECMAXSPAN
  | ATTR_T38FAXMAXDATAGRAM
  | ATTR_T38FAXMAXIFP
  | ATTR_T38FAXFILLBITREMOVAL
  | ATTR_T38FAXTRANSCODINGMMR
  | ATTR_T38FAXTRANSCODINGJBIG
  | ATTR_T38FAXRATEMANAGEMENT
  | ATTR_T38MAXBITRATE
  | ATTR_T38FAXMAXBUFFER
  | ATTR_XG726BITORDER
  | ATTR_MAXPTIME
  | ATTR_DIRECTION
  | ATTR_LABEL
  | ATTR_TLS_ID
  | ATTR_END_OF_CANDIDATES
deriving DecidableEq, Repr

open attr_id

/-- A parsed socket address (`sockaddr_t`): its family (`none` when unset) and
the address bits. -/
structure sockaddr_t where
  family : Option Nat := none
  addr : Nat := 0
deriving DecidableEq, Repr

/-- `struct network_address`: the three tokens of an address and its parsed form. -/
structure network_address where
  network_type : Str := {}
  address_type : Str := {}
  address : Str := {}
  parsed : sockaddr_t := {}
deriving DecidableEq, Repr

/-- `struct sdp_connection`. -/
structure sdp_connection where
  s : Str := {}
  address : network_address := {}
  parsed : Bool := false
deriving DecidableEq, Repr

/-- `sdp_origin`: the fields of the `o=` line. -/
structure sdp_origin where
  username : Str := {}
  session_id : Str := {}
  version_str : Str := {}
  version_num : Nat := 0
  version_output_pos : Nat := 0
  address : network_address := {}
  parsed : Bool := false
deriving DecidableEq, Repr

/-- `struct endpoint`: address and port. -/
structure endpoint where
  address : sockaddr_t := {}
  port : Int := 0
deriving DecidableEq, Repr

/-- `struct attribute_rtcp`. -/
structure attribute_rtcp where
  port_num : Int := 0
  address : network_address := {}
deriving DecidableEq, Repr

/-- `struct ice_candidate`, as far as the SDP code fills it.  `transport` and
`type` are 0 when unknown. -/
structure ice_candidate where
  foundation : Str := {}
  component_id : Nat := 0
  transport : Nat := 0
  priority : Nat := 0
  endpoint : Sdp.endpoint := {}
  type : Nat := 0
  related : Sdp.endpoint := {}
  ufrag : Str := {}
deriving DecidableEq, Repr

/-- `struct attribute_candidate`. -/
structure attribute_candidate where
  component_str : Str := {}
  transport_str : Str := {}
  priority_str : Str := {}
  address_str : Str := {}
  port_str : Str := {}
  typ_str : Str := {}
  type_str : Str := {}
  raddr_str : Str := {}
  related_address_str : Str := {}
  rport_str : Str := {}
  related_port_str : Str := {}
  cand_parsed : ice_candidate := {}
  parsed : Bool := false
deriving DecidableEq, Repr

/-- `struct crypto_suite` of the SRTP suite catalogue, as far as the SDP code reads it. -/
structure crypto_suite where
  name : List Char := []
  master_key_len : Nat := 0
  master_salt_len : Nat := 0
  srtp_lifetime : Nat := 0
  srtcp_lifetime : Nat := 0
deriving DecidableEq, Repr

/-- `struct attribute_crypto`.  The decoded key material lives in `key_salt_buf`;
`master_key` and `salt` are the two parts of it. -/
structure attribute_crypto where
  tag_str : Str := {}
  crypto_suite_str : Str := {}
  key_params_str : Str := {}
  key_base64_str : Str := {}
  lifetime_str : Str := {}
  mki_str : Str := {}
  tag : Nat := 0
  crypto_suite : Option crypto_suite := none
  master_key : List Nat := []
  salt : List Nat := []
  key_salt_buf : List Nat := []
  lifetime : Nat := 0
  mki : List Nat := []
  mki_len : Nat := 0
  unencrypted_srtcp : Bool := false
  unencrypted_srtp : Bool := false
  unauthenticated_srtp : Bool := false
deriving DecidableEq, Repr

/-- Semantics of an `a=group` attribute. -/
inductive group_semantics where
  | GROUP_OTHER
  | GROUP_BUNDLE
deriving DecidableEq, Repr

/-- `struct dtls_hash_func`, as far as the SDP code reads it. -/
structure dtls_hash_func where
  name : List Char := []
  num_bytes : Nat := 0
deriving DecidableEq, Repr

/-- `struct attribute_fingerprint`. -/
structure attribute_fingerprint where
  hash_func_str : Str := {}
  fingerprint_str : Str := {}
  hash_func : Option dtls_hash_func := none
  fingerprint : List Nat := []
deriving DecidableEq, Repr

/-- Value of an `a=setup` attribute. -/
inductive setup_value where
  | SETUP_UNKNOWN
  | SETUP_ACTPASS
  | SETUP_ACTIVE
  | SETUP_PASSIVE
  | SETUP_HOLDCONN
deriving DecidableEq, Repr

/-- `rtp_payload_type`, as far as the SDP code fills it.  Its strings may come
from the body or from the static RFC table, so they are kept by content. -/
structure rtp_payload_type where
  payload_type : Int := 0
  encoding_with_params : List Char := []
  encoding : List Char := []
  clock_rate : Nat := 0
  encoding_parameters : List Char := []
  channels : Int := 0
  format_parameters : List Char := []
  rtcp_fb : List (List Char) := []
  ptime : Int := 0
deriving DecidableEq, Repr

/-- `struct attribute_rtpmap`. -/
structure attribute_rtpmap where
  payload_type_str : Str := {}
  encoding_str : Str := {}
  clock_rate_str : Str := {}
  rtp_pt : rtp_payload_type := {}
deriving DecidableEq, Repr

/-- `struct attribute_rtcp_fb`; the wildcard payload type `-1` is `2^32 - 1` in
the unsigned field. -/
structure attribute_rtcp_fb where
  payload_type_str : Str := {}
  value : Str := {}
  payload_type : Nat := 0
deriving DecidableEq, Repr

/-- `struct attribute_fmtp`. -/
structure attribute_fmtp where
  payload_type_str : Str := {}
  format_parms_str : Str := {}
  payload_type : Nat := 0
deriving DecidableEq, Repr

/-- T.38 rate management. -/
inductive t38_rm where
  | RM_UNKNOWN
  | RM_LOCALTCF
  | RM_TRANSFERREDTCF
deriving DecidableEq, Repr

/-- T.38 error correction mode. -/
inductive t38_ec where
  | EC_UNKNOWN
  | EC_NONE
  | EC_REDUNDANCY
  | EC_FEC
deriving DecidableEq, Repr

/-- `struct attribute_t38faxudpecdepth`. -/
structure attribute_t38faxudpecdepth where
  minred_str : Str := {}
  maxred_str : Str := {}
  minred : Int := 0
  maxred : Int := 0
deriving DecidableEq, Repr

/-- `enum sdp_attr_type`: the coarse type of an uninterpreted attribute. -/
inductive sdp_attr_type where
  | SDP_ATTR_TYPE_UNKNOWN
  | SDP_ATTR_TYPE_EXTMAP
deriving DecidableEq, Repr

/-- `struct sdp_attribute_strs`: the slices carved out of an attribute line. -/
structure sdp_attribute_strs where
  name : Str := {}
  value : Str := {}
  key : Str := {}
  line_value : Str := {}
deriving DecidableEq, Repr

/-- `struct sdp_attribute`.  The C union of payloads is laid out as one field
per variant (all zero after `g_slice_alloc0`); the code only reads the variant
that the parser of the attribute wrote. -/
structure sdp_attribute where
  full_line : Str := {}
  param : Str := {}
  strs : sdp_attribute_strs := {}
  attr : attr_id := ATTR_OTHER
  rtcp : attribute_rtcp := {}
  candidate : attribute_candidate := {}
  crypto : attribute_crypto := {}
  group : group_semantics := group_semantics.GROUP_OTHER
  fingerprint : attribute_fingerprint := {}
  setup : setup_value := setup_value.SETUP_UNKNOWN
  rtpmap : attribute_rtpmap := {}
  rtcp_fb : attribute_rtcp_fb := {}
  fmtp : attribute_fmtp := {}
  t38faxudpec : t38_ec := t38_ec.EC_UNKNOWN
  i : Int := 0
  t38faxudpecdepth : attribute_t38faxudpecdepth := {}
  t38faxratemanagement : t38_rm := t38_rm.RM_UNKNOWN
  other : sdp_attr_type := sdp_attr_type.SDP_ATTR_TYPE_UNKNOWN
deriving DecidableEq, Repr

/-- `struct sdp_attributes`: the FIFO list and the two hash tables keyed by
attribute id, kept as association lists (at most one entry per key). -/
structure sdp_attributes where
  list : List sdp_attribute := []
  id_lists_hash : List (attr_id × List sdp_attribute) := []
  id_hash : List (attr_id × sdp_attribute) := []
deriving DecidableEq, Repr

/-- `struct sdp_media`.  The back pointer to the session is not stored: the
functions that follow it take the session as an argument. -/
structure sdp_media where
  s : Str := {}
  media_type_str : Str := {}
  port : Str := {}
  transport : Str := {}
  formats : Str := {}
  port_num : Int := 0
  port_count : Int := 0
  connection : sdp_connection := {}
  c_line_pos : Option Nat := none
  as : Int := 0
  rr : Int := 0
  rs : Int := 0
  attributes : sdp_attributes := {}
  format_list : List Str := []
  media_type_id : Nat := 0
  media_sdp_id : Int := 0
  legacy_osrtp : Bool := false
deriving DecidableEq, Repr

/-- `struct sdp_session`. -/
structure sdp_session where
  s : Str := {}
  origin : sdp_origin := {}
  session_name : Str := {}
  session_timing : Str := {}
  connection : sdp_connection := {}
  rr : Int := 0
  rs : Int := 0
  attributes : sdp_attributes := {}
  media_streams : List sdp_media := []
deriving DecidableEq, Repr

/-- `struct transport_protocol` of the protocol catalogue, as far as the SDP
code reads it.  `osrtp_proto` and `rtp_proto` are indices into the table
`transport_protocols`, 0 when unset. -/
structure transport_protocol where
  name : List Char := []
  rtp : Bool := false
  srtp : Bool := false
  osrtp_proto : Nat := 0
  rtp_proto : Nat := 0
deriving DecidableEq, Repr

/-- `struct sdp_attr`: a duplicated attribute, its strings held by content. -/
structure sdp_attr where
  name : List Char := []
  value : List Char := []
  type : sdp_attr_type := sdp_attr_type.SDP_ATTR_TYPE_UNKNOWN
deriving DecidableEq, Repr

/-- `struct crypto_session_params`. -/
structure crypto_session_params_t where
  unencrypted_srtcp : Bool := false
  unencrypted_srtp : Bool := false
  unauthenticated_srtp : Bool := false
deriving DecidableEq, Repr

/-- `struct crypto_params`.  `master_key` and `master_salt` hold the bytes
copied into the fixed-size arrays (the rest of the arrays stays zero). -/
structure crypto_params where
  crypto_suite : Option crypto_suite := none
  master_key : List Nat := []
  master_salt : List Nat := []
  mki : List Nat := []
  mki_len : Nat := 0
  session_params : crypto_session_params_t := {}
deriving DecidableEq, Repr

/-- `struct crypto_params_sdes`. -/
structure crypto_params_sdes where
  params : crypto_params := {}
  tag : Nat := 0
deriving DecidableEq, Repr

/-- `struct dtls_fingerprint`. -/
structure dtls_fingerprint where
  hash_func : Option dtls_hash_func := none
  digest : List Nat := []
  digest_len : Nat := 0
deriving DecidableEq, Repr

/-- `struct t38_options`. -/
structure t38_options where
  version : Int := 0
  min_ec_entries : Int := 0
  max_ec_entries : Int := 0
  fec_span : Int := 0
  max_datagram : Int := 0
  max_ifp : Int := 0
  fill_bit_removal : Bool := false
  transcoding_mmr : Bool := false
  transcoding_jbig : Bool := false
  local_tcf : Bool := false
deriving DecidableEq, Repr

/-- The `SP_FLAG_*` bits of `stream_params.sp_flags` that `sdp_streams` writes. -/
structure sp_flags_t where
  ICE : Bool := false
  TRICKLE_ICE : Bool := false
  ICE_LITE_PEER : Bool := false
  SEND : Bool := false
  RECV : Bool := false
  SETUP_ACTIVE : Bool := false
  SETUP_PASSIVE : Bool := false
  LEGACY_OSRTP : Bool := false
  LEGACY_OSRTP_REV : Bool := false
  RTCP_FB : Bool := false
  RTCP_MUX : Bool := false
  IMPLICIT_RTCP : Bool := false
  ASYMMETRIC : Bool := false
  UNIDIRECTIONAL : Bool := false
  STRICT_SOURCE : Bool := false
  MEDIA_HANDOVER : Bool := false
deriving DecidableEq, Repr

/-- `struct stream_params`, as far as `sdp_streams` fills it (all zero after
`g_slice_alloc0`).  The codec store is kept as the list of the records handed
to `codec_store_add_raw`, in call order. -/
structure stream_params where
  index : Nat := 0
  rtp_endpoint : endpoint := {}
  rtcp_endpoint : endpoint := {}
  consecutive_ports : Int := 0
  num_ports : Int := 0
  protocol_str : Str := {}
  protocol : Option transport_protocol := none
  type : Str := {}
  type_id : Nat := 0
  direction : List Char × List Char := ([], [])
  desired_family : Option Nat := none
  sp_flags : sp_flags_t := {}
  media_session_as : Int := 0
  media_session_rr : Int := 0
  media_session_rs : Int := 0
  ptime : Int := 0
  format_str : Str := {}
  codecs : List rtp_payload_type := []
  sdes_params : List crypto_params_sdes := []
  attributes : List sdp_attr := []
  fingerprint : dtls_fingerprint := {}
  tls_id : Str := {}
  media_id : Str := {}
  ice_ufrag : Str := {}
  ice_pwd : Str := {}
  ice_candidates : List ice_candidate := []
  t38_options : t38_options := {}
  media_sdp_id : Int := 0
deriving DecidableEq, Repr

/-- `stream_fd`, as far as the rewriter reads it: the local port of its socket. -/
structure stream_fd where
  local_port : Nat := 0
deriving DecidableEq, Repr

/-- `struct packet_stream`, as far as the rewriter reads it.  `rtcp_sibling`
tells whether the stream has an RTCP sibling, which is then the next stream of
the media. -/
structure packet_stream where
  selected_sfd : Option stream_fd := none
  rtcp_sibling : Bool := false
deriving DecidableEq, Repr

/-- The `MEDIA_FLAG_*` bits of `call_media` that the rewriter tests. -/
structure media_flags_t where
  ICE : Bool := false
  ICE_LITE_SELF : Bool := false
  TRICKLE_ICE : Bool := false
  PASSTHRU : Bool := false
  GENERATOR : Bool := false
  LEGACY_OSRTP : Bool := false
  LEGACY_OSRTP_REV : Bool := false
  RTCP_MUX : Bool := false
  SEND : Bool := false
  RECV : Bool := false
  SDES : Bool := false
deriving DecidableEq, Repr

/-- `struct ice_agent`, as far as the rewriter prints it: `ufrag[1]` and `pwd[1]`. -/
structure ice_agent where
  ufrag : List Char := []
  pwd : List Char := []
deriving DecidableEq, Repr

/-- `struct call_media`, as far as the rewriter reads it.  `type`, `format_str`
and `media_id` are `none` when the `str` has a `NULL` pointer; `codec_prefs`
is the queue `codecs.codec_prefs`. -/
structure call_media where
  type : Option (List Char) := none
  type_id : Nat := 0
  protocol : Option transport_protocol := none
  format_str : Option (List Char) := none
  codec_prefs : List rtp_payload_type := []
  ptime : Int := 0
  media_id : Option (List Char) := none
  label : List Char := []
  media_flags : media_flags_t := {}
  streams : List packet_stream := []
  ice_agent : Option Sdp.ice_agent := none
  sdes_out : List crypto_params_sdes := []
deriving DecidableEq, Repr

/-- The duplicated origin that a monologue remembers (`session_last_sdp_orig`). -/
structure monologue_origin where
  username : List Char := []
  session_id : List Char := []
  version_num : Nat := 0
deriving DecidableEq, Repr

/-- `struct call_monologue`, as far as the rewriter reads and writes it.  An
entry of `medias` is `none` for a `NULL` pointer. -/
structure call_monologue where
  medias : List (Option call_media) := []
  session_last_sdp_orig : Option monologue_origin := none
  sdp_session_name : Option (List Char) := none
  last_out_sdp : Option (List Char) := none
deriving DecidableEq, Repr

/-! ## The flags (`sdp_ng_flags`) and the manipulation directives -/

/-- Modelled from the spec: the `ice_option` enumeration of `sdp_ng_flags` is
declared outside src/; §6 gives it as `{default, remove, force, force_relay}`. -/
inductive ice_option_t where
  | ICE_DEFAULT
  | ICE_REMOVE
  | ICE_FORCE
  | ICE_FORCE_RELAY
deriving DecidableEq, Repr

/-- Modelled from the spec: the `opmode` enumeration of `sdp_ng_flags` is
declared outside src/; §6 gives it as `{offer, answer, publish, subscribe, request, other}`. -/
inductive call_opmode where
  | OP_OFFER
  | OP_ANSWER
  | OP_PUBLISH
  | OP_SUBSCRIBE
  | OP_REQUEST
  | OP_OTHER
deriving DecidableEq, Repr

/-- `MT_UNKNOWN` of `enum media_type`. -/
def MT_UNKNOWN : Nat := 0

/-- `MT_MESSAGE` of `enum media_type`. -/
def MT_MESSAGE : Nat := 4

/-- `struct sdp_manipulations`: the directives of one level.  The two hash
tables may be unset (`none`); their keys compare case-insensitively. -/
structure sdp_manipulations where
  add_commands : List (List Char) := []
  rem_commands : Option (List (List Char)) := none
  subst_commands : Option (List (List Char × List Char)) := none
deriving DecidableEq, Repr

/-- `sdp_ng_flags`, as far as `daemon/sdp.c` reads and writes it.  Strings that
come from the control protocol are held by content.  `sdp_manipulations` is
`sdp_manipulations_get_by_id`: the directives of a media type, `none` when
there are none. -/
structure sdp_ng_flags where
  ice_option : ice_option_t := ice_option_t.ICE_DEFAULT
  original_sendrecv : Bool := false
  sdp_manipulations : Nat → Option sdp_manipulations := fun _ => none
  opmode : call_opmode := call_opmode.OP_OTHER
  fragment : Bool := false
  trust_address : Bool := false
  asymmetric : Bool := false
  unidirectional : Bool := false
  strict_source : Bool := false
  media_handover : Bool := false
  osrtp_accept_legacy : Bool := false
  osrtp_offer_legacy : Bool := false
  siprec : Bool := false
  loop_protect : Bool := false
  no_rtcp_attr : Bool := false
  full_rtcp_attr : Bool := false
  rtcp_mux_require : Bool := false
  strip_extmap : Bool := false
  replace_username : Bool := false
  replace_origin : Bool := false
  replace_origin_full : Bool := false
  replace_sess_name : Bool := false
  replace_sdp_version : Bool := false
  force_inc_sdp_ver : Bool := false
  sdes_pad : Bool := false
  sdes_lifetime : Bool := false
  address_family : Option Nat := none
  direction : List Char × List Char := ([], [])
  media_address : Option (List Char) := none
  parsed_media_address : sockaddr_t := {}
  received_from_family : List Char := []
  received_from_address : List Char := []
  parsed_received_from : sockaddr_t := {}
  session_attributes : List sdp_attr := []
  session_sdp_orig : sdp_origin := {}
  session_sdp_name : Str := {}
  session_rr : Int := 0
  session_rs : Int := 0
  session_timing : Str := {}

/-! ## Collaborators of the parser that live outside `daemon/sdp.c` -/

/-- What the parser uses from the rest of the repository: address parsing (`socket.h`), the codec, ICE, crypto and DTLS
catalogues, glib's base64 decoder, `str_to_i`, for stream extraction the
address predicates, the protocol catalogue and the codec tables, and for the
rewriter the address printers and the printers of the crypto, DTLS and ICE
lines of a call media.  Every theorem below holds
for every such environment. -/
structure Env where
  /-- `get_socket_family_rfc`: the family named by an address-type token. -/
  get_socket_family_rfc : List Char → Option Nat
  /-- `sockaddr_parse_str`: an address literal of the given family. -/
  sockaddr_parse_str : Option Nat → List Char → Option sockaddr_t
  /-- `sockaddr_parse_any_str`: an address literal of any family. -/
  sockaddr_parse_any_str : List Char → Option sockaddr_t
  /-- `get_socket_family_enum(SF_IP4)`. -/
  sf_ip4 : Nat
  /-- `codec_get_type`: the media type enum of a media-type token. -/
  codec_get_type : List Char → Nat
  /-- `get_socket_type`: the transport of a candidate, 0 when unknown. -/
  get_socket_type : List Char → Nat
  /-- `ice_candidate_type`: the candidate type, 0 when unknown. -/
  ice_candidate_type : List Char → Nat
  /-- `ice_has_related`: whether the candidate type carries raddr/rport. -/
  ice_has_related : Nat → Bool
  /-- `crypto_find_suite`. -/
  crypto_find_suite : List Char → Option crypto_suite
  /-- `dtls_find_hash_func`. -/
  dtls_find_hash_func : List Char → Option dtls_hash_func
  /-- `g_base64_decode_step(in, len, out, &state, &save)`: decoded bytes and new state. -/
  g_base64_decode_step : List Char → Int × Nat → List Nat × (Int × Nat)
  /-- `str_to_i(s, default)`. -/
  str_to_i : List Char → Int → Int
  /-- `is_addr_unspecified`. -/
  is_addr_unspecified : sockaddr_t → Bool
  /-- `is_trickle_ice_address`. -/
  is_trickle_ice_address : endpoint → Bool
  /-- `transport_protocol`: the catalogue entry of a transport token (`none` is `NULL`). -/
  transport_protocol : List Char → Option transport_protocol
  /-- The table `transport_protocols[]`. -/
  transport_protocols : Nat → Sdp.transport_protocol
  /-- `proto_is_rtp`. -/
  proto_is_rtp : Option Sdp.transport_protocol → Bool
  /-- `rtp_get_rfc_payload_type`: the static RFC table (`none` is `NULL`). -/
  rtp_get_rfc_payload_type : Nat → Option rtp_payload_type
  /-- `codec_init_payload_type(pt, type_id)`: the record after initialisation. -/
  codec_init_payload_type : rtp_payload_type → Nat → rtp_payload_type
  /-- `call_stream_address46(buf, ps, SAF_NG, &len, NULL, keep_unspec)`: the
  address type and address printed for a stream. -/
  call_stream_address46 : packet_stream → Bool → List Char
  /-- `sockaddr_print_buf`. -/
  sockaddr_print_buf : sockaddr_t → List Char
  /-- The `family->rfc_name` of an address. -/
  family_rfc_name : sockaddr_t → List Char
  /-- `IS_OP_OTHER`. -/
  IS_OP_OTHER : call_opmode → Bool
  /-- `rtpe_instance_id`. -/
  rtpe_instance_id : List Char
  /-- `ssl_random()`, as the `unsigned int` it is cast to. -/
  ssl_random : Nat
  /-- `pt->codec_def->format_print(pt)`: `none` when there is no codec
  definition or no printer, or when the printer returns `NULL`. -/
  format_print : rtp_payload_type → Option (List Char)
  /-- What the printer installed in `media->sdp_attr_print` appends. -/
  sdp_attr_print : call_media → sdp_ng_flags → List Char
  /-- What `insert_crypto1` appends for one SDES entry. -/
  insert_crypto1 : call_media → crypto_params_sdes → sdp_ng_flags → List Char
  /-- What `insert_dtls` appends once the protocol is known to be SRTP. -/
  insert_dtls_srtp : call_media → Option stream_fd → sdp_ng_flags → List Char
  /-- What `insert_candidates` appends. -/
  insert_candidates : call_media → packet_stream → Option packet_stream → sdp_ng_flags →
    sdp_media → List Char

/-! ## Line parsers -/

/-- `__parse_address` on the contents of its three tokens (`none` is a `NULL`
argument); `none` as result is the C `-1`. -/
def __parse_address (env : Env) (network_type address_type : Option (List Char))
    (address : List Char) : Option sockaddr_t :=
  let nt_bad : Bool := match network_type with
    | none => false
    | some nt => nt.length != 2 || (nt != ['I', 'N'] && nt != ['i', 'n'])
  if nt_bad then none
  else match address_type with
    | none => env.sockaddr_parse_any_str address
    | some at_ => env.sockaddr_parse_str (env.get_socket_family_rfc at_) address

/-- `parse_address`: parse the three tokens held in a `network_address`. -/
def parse_address (env : Env) (buf : List Char) (a : network_address) : Option sockaddr_t :=
  __parse_address env (some (str_bytes buf a.network_type)) (some (str_bytes buf a.address_type))
    (str_bytes buf a.address)

/-- `EXTRACT_TOKEN`: the next space-separated token and the remaining value. -/
def extract_token (buf : List Char) (value_str : Str) : Option (Str × Str) :=
  str_token_sep buf value_str ' '

/-- `EXTRACT_NETWORK_ADDRESS_NP`: three tokens into a `network_address`. -/
def extract_network_address_np (buf : List Char) (value_str : Str) (a : network_address) :
    Option (network_address × Str) :=
  match extract_token buf value_str with
  | none => none
  | some (t1, r1) =>
    match extract_token buf r1 with
    | none => none
    | some (t2, r2) =>
      match extract_token buf r2 with
      | none => none
      | some (t3, r3) =>
        some ({ a with network_type := t1, address_type := t2, address := t3 }, r3)

/-- `EXTRACT_NETWORK_ADDRESS`: the tokens, then `parse_address`, failing when either fails. -/
def extract_network_address (env : Env) (buf : List Char) (value_str : Str)
    (a : network_address) : Option (network_address × Str) :=
  match extract_network_address_np buf value_str a with
  | none => none
  | some (a1, r) =>
    match parse_address env buf a1 with
    | none => none
    | some sa => some ({ a1 with parsed := sa }, r)

/-- `EXTRACT_NETWORK_ADDRESS_NF`: as above, but an address that does not parse
is replaced by the IPv4 address with `s_addr = 1` instead of failing. -/
def extract_network_address_nf (env : Env) (buf : List Char) (value_str : Str)
    (a : network_address) : Option (network_address × Str) :=
  match extract_network_address_np buf value_str a with
  | none => none
  | some (a1, r) =>
    match parse_address env buf a1 with
    | none => some ({ a1 with parsed := { family := some env.sf_ip4, addr := 1 } }, r)
    | some sa => some ({ a1 with parsed := sa }, r)

/-- `parse_origin`: the `o=` line.  `none` is the C `-1`. -/
def parse_origin (env : Env) (buf : List Char) (value_str : Str) (output : sdp_origin) :
    Option sdp_origin :=
  if output.parsed then none
  else match extract_token buf value_str with
    | none => none
    | some (username, r1) =>
      match extract_token buf r1 with
      | none => none
      | some (session_id, r2) =>
        match extract_token buf r2 with
        | none => none
        | some (version_str, r3) =>
          match extract_network_address_nf env buf r3 output.address with
          | none => none
          | some (address, _) =>
            some { output with
              username := username, session_id := session_id, version_str := version_str,
              address := address,
              version_num := (strtoul buf (version_str.s.getD 0)).1,
              parsed := true }

/-- `parse_connection`: the `c=` line.  `none` is the C `-1`. -/
def parse_connection (env : Env) (buf : List Char) (value_str : Str)
    (output : sdp_connection) : Option sdp_connection :=
  if output.parsed then none
  else match extract_network_address env buf value_str output.address with
    | none => none
    | some (address, _) => some { output with s := value_str, address := address, parsed := true }

/-- The loop of `parse_media` that splits the formats into tokens. -/
def split_formats (buf : List Char) : Nat → Str → List Str
  | 0, _ => []
  | fuel + 1, formats =>
    match str_token_sep buf formats ' ' with
    | none => []
    | some (format, rest) => format :: split_formats buf fuel rest

/-- `parse_media`: the `m=` line.  `none` is the C `-1`. -/
def parse_media (env : Env) (buf : List Char) (value_str : Str) (output : sdp_media) :
    Option sdp_media :=
  match extract_token buf value_str with
  | none => none
  | some (media_type_str, r1) =>
    match extract_token buf r1 with
    | none => none
    | some (port, r2) =>
      match extract_token buf r2 with
      | none => none
      | some (transport, r3) =>
        let formats := r3
        let media_type_id := env.codec_get_type (str_bytes buf media_type_str)
        let pn := strtol buf (port.s.getD 0)
        let port_num := pn.1
        let ep := pn.2
        if ep = port.s.getD 0 then none
        else if port_num < 0 || port_num > 65535 then none
        else
          let port_count : Option Int :=
            if getc buf ep = '/' then
              let pc := atoi buf (ep + 1)
              if pc ≤ 0 then none
              else if pc > 10 then none
              else some pc
            else some 1
          match port_count with
          | none => none
          | some pc =>
            some { output with
              media_type_str := media_type_str, port := port, transport := transport,
              formats := formats, media_type_id := media_type_id, port_num := port_num,
              port_count := pc,
              format_list := output.format_list ++ split_formats buf (formats.len + 1) formats }

/-- Lookup in a hash table keyed by attribute id. -/
def ht_lookup {β : Type} (ht : List (attr_id × β)) (k : attr_id) : Option β :=
  match ht with
  | [] => none
  | (k1, v) :: rest => if k1 = k then some v else ht_lookup rest k

/-- `attr_list_ht_lookup_insert` followed by `t_queue_push_tail`: append the
attribute to the queue of its id, creating the queue when the id is new. -/
def attr_list_push (ht : List (attr_id × List sdp_attribute)) (a : sdp_attribute) :
    List (attr_id × List sdp_attribute) :=
  match ht with
  | [] => [(a.attr, [a])]
  | (k, q) :: rest =>
    if k = a.attr then (k, q ++ [a]) :: rest else (k, q) :: attr_list_push rest a

/-- `attr_insert`. -/
def attr_insert (attrs : sdp_attributes) (attr : sdp_attribute) : sdp_attributes :=
  { list := attrs.list ++ [attr],
    id_hash :=
      match ht_lookup attrs.id_hash attr.attr with
      | some _ => attrs.id_hash
      | none => attrs.id_hash ++ [(attr.attr, attr)],
    id_lists_hash := attr_list_push attrs.id_lists_hash attr }

/-- `attr_get_by_id`. -/
def attr_get_by_id (a : sdp_attributes) (id : attr_id) : Option sdp_attribute :=
  ht_lookup a.id_hash id

/-- `attr_list_get_by_id` (`none` is `NULL`). -/
def attr_list_get_by_id (a : sdp_attributes) (id : attr_id) : Option (List sdp_attribute) :=
  ht_lookup a.id_lists_hash id

/-- `attr_get_by_id_m_s`: media level first, then session level. -/
def attr_get_by_id_m_s (session : sdp_session) (m : sdp_media) (id : attr_id) :
    Option sdp_attribute :=
  match attr_get_by_id m.attributes id with
  | some a => some a
  | none => attr_get_by_id session.attributes id

/-! ## Attribute parsers

Each parser takes the attribute being filled and returns the C return code
(0 or -1) with the attribute as the parser left it. -/

/-- `parse_attribute_group`. -/
def parse_attribute_group (buf : List Char) (output : sdp_attribute) : Int × sdp_attribute :=
  let v := str_bytes buf output.strs.value
  let sem :=
    if output.strs.value.len ≥ 7 && v.take 7 == "BUNDLE ".toList then group_semantics.GROUP_BUNDLE
    else group_semantics.GROUP_OTHER
  (0, { output with attr := ATTR_GROUP, group := sem })

/-- The MKI value in network byte order (`htonl`), most significant byte first. -/
def htonl_bytes (v : Nat) : List Nat :=
  [v / 2 ^ 24 % 256, v / 2 ^ 16 % 256, v / 2 ^ 8 % 256, v % 256]

/-- The `memset`/`memcpy` pair of `parse_attribute_crypto` that lays the MKI
value into the first `mki_len` bytes of the `mki` array. -/
def mki_encode (u32 : Nat) (mki_len : Nat) : List Nat :=
  if 4 ≥ mki_len then (htonl_bytes u32).drop (4 - mki_len)
  else List.replicate (mki_len - 4) 0 ++ htonl_bytes u32

/-- The trailing loop of `parse_attribute_crypto` over the session parameters. -/
def crypto_session_params (buf : List Char) : Nat → Str → attribute_crypto → attribute_crypto
  | 0, _, c => c
  | fuel + 1, value_str, c =>
    match str_token_sep buf value_str ' ' with
    | none => c
    | some (s, rest) =>
      let c1 :=
        if str_cmp buf s "UNENCRYPTED_SRTCP" then { c with unencrypted_srtcp := true }
        else if str_cmp buf s "UNENCRYPTED_SRTP" then { c with unencrypted_srtp := true }
        else if str_cmp buf s "UNAUTHENTICATED_SRTP" then { c with unauthenticated_srtp := true }
        else c
      crypto_session_params buf fuel rest c1

/-- The part of `parse_attribute_crypto` after the three tokens were extracted:
`none` is the jump to `error`, `some c` the normal end. -/
def parse_crypto_checked (env : Env) (buf : List Char) (c0 : attribute_crypto)
    (value_str : Str) : Option attribute_crypto :=
  let tg := strtoul buf (c0.tag_str.s.getD 0)
  let c1 := { c0 with tag := tg.1 % 2 ^ 32 }
  if tg.2 = c0.tag_str.s.getD 0 then none
  else match env.crypto_find_suite (str_bytes buf c0.crypto_suite_str) with
  | none => none
  | some suite =>
    let c2 := { c1 with crypto_suite := some suite }
    let salt_key_len := suite.master_key_len + suite.master_salt_len
    let enc_salt_key_len := (salt_key_len * 4 + 2) / 3
    if c2.key_params_str.len < 7 + enc_salt_key_len then none
    else if !(str_case_eq (bytes_at buf (c2.key_params_str.s.getD 0) 7) "inline:".toList) then none
    else
      let key_base64_str := (str_shift c2.key_params_str 7).getD c2.key_params_str
      let d1 := env.g_base64_decode_step
        (bytes_at buf (key_base64_str.s.getD 0) enc_salt_key_len) (0, 0)
      let d2 : List Nat × (Int × Nat) :=
        if enc_salt_key_len % 4 ≠ 0 then
          env.g_base64_decode_step (['=', '=', Char.ofNat 0].take (4 - enc_salt_key_len % 4)) d1.2
        else ([], d1.2)
      let key_salt_buf := d1.1 ++ d2.1
      if key_salt_buf.length ≠ salt_key_len then none
      else
        let c3 := { c2 with
          key_base64_str := key_base64_str, key_salt_buf := key_salt_buf,
          master_key := key_salt_buf.take suite.master_key_len,
          salt := (key_salt_buf.drop suite.master_key_len).take suite.master_salt_len }
        let l0 := (str_shift c3.key_params_str (7 + enc_salt_key_len)).getD c3.key_params_str
        let l1 :=
          if enc_salt_key_len % 4 = 2 then str_shift_cmp buf l0 "=="
          else if enc_salt_key_len % 4 = 3 then str_shift_cmp buf l0 "="
          else l0
        let split : Option (Str × Str) :=
          if l1.len ≥ 2 then
            if getc buf (l1.s.getD 0) ≠ '|' then none
            else
              let l2 := (str_shift l1 1).getD l1
              match str_chr_str buf l2 '|' with
              | none =>
                if str_chr buf l2 ':' then some (STR_NULL, l2) else some (l2, c3.mki_str)
              | some m =>
                some ({ l2 with len := m.s.getD 0 - l2.s.getD 0 }, (str_shift m 1).getD m)
          else some (STR_NULL, c3.mki_str)
        match split with
        | none => none
        | some (lifetime_str, mki_str) =>
          let c4 := { c3 with lifetime_str := lifetime_str, mki_str := mki_str }
          let lt : Option Nat :=
            match lifetime_str.s with
            | none => some c4.lifetime
            | some lp =>
              let l : Option Nat :=
                if lifetime_str.len ≥ 3 && bytes_at buf lp 2 == "2^".toList then
                  let e := (strtoul buf (lp + 2)).1
                  if e = 0 || e ≥ 64 then none else some (2 ^ e)
                else some (strtoul buf lp).1
              match l with
              | none => none
              | some v => if v = 0 || v > suite.srtp_lifetime then none else some v
          match lt with
          | none => none
          | some lifetime =>
            let c5 := { c4 with lifetime := lifetime }
            let mk : Option attribute_crypto :=
              match mki_str.s with
              | none => some c5
              | some mp =>
                match str_chr_str buf mki_str ':' with
                | none => none
                | some s =>
                  let u32 := (strtoul buf mp).1 % 2 ^ 32
                  let mki_len := (strtoul buf (s.s.getD 0 + 1)).1 % 2 ^ 32
                  if mki_len > 256 then none
                  else some { c5 with mki_len := mki_len, mki := mki_encode u32 mki_len }
            match mk with
            | none => none
            | some c6 => some (crypto_session_params buf (value_str.len + 1) value_str c6)

/-- `parse_attribute_crypto`.  A missing token returns -1; every later failure
ends at the `error` label, which tags the attribute `ATTR_IGNORE` and returns 0.
The half-filled crypto payload of an ignored attribute is reduced to its three
tokens: nothing reads the payload of an `ATTR_IGNORE` attribute. -/
def parse_attribute_crypto (env : Env) (buf : List Char) (output : sdp_attribute) :
    Int × sdp_attribute :=
  let out1 := { output with attr := ATTR_CRYPTO }
  match extract_token buf out1.strs.value with
  | none => (-1, out1)
  | some (tag_str, r1) =>
    match extract_token buf r1 with
    | none => (-1, out1)
    | some (crypto_suite_str, r2) =>
      match extract_token buf r2 with
      | none => (-1, out1)
      | some (key_params_str, r3) =>
        let c0 := { out1.crypto with
          tag_str := tag_str, crypto_suite_str := crypto_suite_str,
          key_params_str := key_params_str }
        match parse_crypto_checked env buf c0 r3 with
        | some c => (0, { out1 with crypto := c })
        | none => (0, { out1 with crypto := c0, attr := ATTR_IGNORE })

/-- `parse_attribute_rtcp`. -/
def parse_attribute_rtcp (env : Env) (buf : List Char) (output : sdp_attribute) :
    Int × sdp_attribute :=
  match output.strs.value.s with
  | none => (0, { output with attr := ATTR_IGNORE })
  | some _ =>
    let out1 := { output with attr := ATTR_RTCP }
    match str_token_sep buf out1.strs.value ' ' with
    | none => (0, { out1 with attr := ATTR_IGNORE })
    | some (portnum, rest) =>
      let port_num := env.str_to_i (str_bytes buf portnum) 0
      if port_num ≤ 0 || port_num > 65535 then
        (0, { out1 with attr := ATTR_IGNORE, rtcp := { out1.rtcp with port_num := 0 } })
      else
        let out2 := { out1 with rtcp := { out1.rtcp with port_num := port_num } }
        if rest.len ≠ 0 then
          match extract_network_address env buf rest out2.rtcp.address with
          | none => (-1, out2)
          | some (a, _) => (0, { out2 with rtcp := { out2.rtcp with address := a } })
        else (0, out2)

/-- The extended-syntax loop of `parse_attribute_candidate` over field/value pairs. -/
def candidate_extended (buf : List Char) : Nat → Str → ice_candidate → ice_candidate
  | 0, _, c => c
  | fuel + 1, value_str, c =>
    match str_token_sep buf value_str ' ' with
    | none => c
    | some (field, r1) =>
      match str_token_sep buf r1 ' ' with
      | none => c
      | some (value, r2) =>
        let c1 := if str_cmp buf field "ufrag" then { c with ufrag := value } else c
        candidate_extended buf fuel r2 c1

/-- How the raddr/rport section of `parse_attribute_candidate` ends: with a
`return` of the given code, or by falling through with the rest of the value. -/
inductive cand_flow where
  | ret (code : Int) (c : attribute_candidate)
  | go (c : attribute_candidate) (rest : Str)

/-- The `ice_has_related` section of `parse_attribute_candidate`. -/
def candidate_related (env : Env) (buf : List Char) (c5 : attribute_candidate) (r8 : Str) :
    cand_flow :=
  if env.ice_has_related c5.cand_parsed.type then
    match extract_token buf r8 with
    | none => cand_flow.ret (-1) c5
    | some (raddr_str, q1) =>
    match extract_token buf q1 with
    | none => cand_flow.ret (-1) c5
    | some (related_address_str, q2) =>
    match extract_token buf q2 with
    | none => cand_flow.ret (-1) c5
    | some (rport_str, q3) =>
    match extract_token buf q3 with
    | none => cand_flow.ret (-1) c5
    | some (related_port_str, q4) =>
      let c6 := { c5 with
        raddr_str := raddr_str, related_address_str := related_address_str,
        rport_str := rport_str, related_port_str := related_port_str }
      if !(str_cmp buf raddr_str "raddr") then cand_flow.ret (-1) c6
      else if !(str_cmp buf rport_str "rport") then cand_flow.ret (-1) c6
      else
      match __parse_address env none none (str_bytes buf related_address_str) with
      | none => cand_flow.ret 0 c6
      | some raddr =>
        let rp := strtoul buf (related_port_str.s.getD 0)
        let c7 := { c6 with cand_parsed := { c6.cand_parsed with
          related := { address := raddr, port := ((rp.1 % 2 ^ 32 : Nat) : Int) } } }
        if rp.2 = related_port_str.s.getD 0 then cand_flow.ret (-1) c7
        else cand_flow.go c7 q4
  else cand_flow.go c5 r8

/-- `parse_attribute_candidate`. -/
def parse_attribute_candidate (env : Env) (buf : List Char) (output : sdp_attribute)
    (extended : Bool) : Int × sdp_attribute :=
  let out1 := { output with attr := ATTR_CANDIDATE }
  match extract_token buf out1.strs.value with
  | none => (-1, out1)
  | some (foundation, r1) =>
  match extract_token buf r1 with
  | none => (-1, out1)
  | some (component_str, r2) =>
  match extract_token buf r2 with
  | none => (-1, out1)
  | some (transport_str, r3) =>
  match extract_token buf r3 with
  | none => (-1, out1)
  | some (priority_str, r4) =>
  match extract_token buf r4 with
  | none => (-1, out1)
  | some (address_str, r5) =>
  match extract_token buf r5 with
  | none => (-1, out1)
  | some (port_str, r6) =>
  match extract_token buf r6 with
  | none => (-1, out1)
  | some (typ_str, r7) =>
  match extract_token buf r7 with
  | none => (-1, out1)
  | some (type_str, r8) =>
    let c0 : attribute_candidate := { out1.candidate with
      component_str := component_str, transport_str := transport_str,
      priority_str := priority_str, address_str := address_str, port_str := port_str,
      typ_str := typ_str, type_str := type_str,
      cand_parsed := { out1.candidate.cand_parsed with foundation := foundation } }
    let comp := strtoul buf (component_str.s.getD 0)
    let c1 := { c0 with cand_parsed := { c0.cand_parsed with component_id := comp.1 } }
    if comp.2 = component_str.s.getD 0 then (-1, { out1 with candidate := c1 })
    else
    let c2 := { c1 with cand_parsed :=
      { c1.cand_parsed with transport := env.get_socket_type (str_bytes buf transport_str) } }
    if c2.cand_parsed.transport = 0 then (0, { out1 with candidate := c2 })
    else
    let prio := strtoul buf (priority_str.s.getD 0)
    let c3 := { c2 with cand_parsed := { c2.cand_parsed with priority := prio.1 } }
    if prio.2 = priority_str.s.getD 0 then (-1, { out1 with candidate := c3 })
    else
    match __parse_address env none none (str_bytes buf address_str) with
    | none => (0, { out1 with candidate := c3 })
    | some addr =>
    let port := strtoul buf (port_str.s.getD 0)
    let c4 := { c3 with cand_parsed := { c3.cand_parsed with
      endpoint := { address := addr, port := ((port.1 % 2 ^ 32 : Nat) : Int) } } }
    if port.2 = port_str.s.getD 0 then (-1, { out1 with candidate := c4 })
    else if !(str_cmp buf typ_str "typ") then (-1, { out1 with candidate := c4 })
    else
    let c5 := { c4 with cand_parsed :=
      { c4.cand_parsed with type := env.ice_candidate_type (str_bytes buf type_str) } }
    if c5.cand_parsed.type = 0 then (0, { out1 with candidate := c5 })
    else
    match candidate_related env buf c5 r8 with
    | cand_flow.ret code c => (code, { out1 with candidate := c })
    | cand_flow.go c6 rest =>
      let cp := if extended then candidate_extended buf (rest.len + 1) rest c6.cand_parsed
        else c6.cand_parsed
      (0, { out1 with candidate := { c6 with cand_parsed := cp, parsed := true } })

/-- `sdp_parse_candidate`: 0 with the candidate, 1 when accepted but left
unparsed, -1 on error.  The candidate is only written on 0. -/
def sdp_parse_candidate (env : Env) (buf : List Char) (s : Str) : Int × Option ice_candidate :=
  let attr : sdp_attribute := { strs := { value := s } }
  let r := parse_attribute_candidate env buf attr true
  if r.1 ≠ 0 then (-1, none)
  else if !r.2.candidate.parsed then (1, none)
  else (0, some r.2.candidate.cand_parsed)

/-- The value of a hexadecimal digit, as the three range tests of
`parse_attribute_fingerprint` compute it. -/
def hex_digit (c : Char) : Option Nat :=
  if decide ('0' ≤ c) && decide (c ≤ '9') then some (c.toNat - 48)
  else if decide ('a' ≤ c) && decide (c ≤ 'f') then some (c.toNat - 97 + 10)
  else if decide ('A' ≤ c) && decide (c ≤ 'F') then some (c.toNat - 65 + 10)
  else none

/-- The `for` loop of `parse_attribute_fingerprint`, with `k = num_bytes - i`
iterations left, `c` the read pointer and `acc` the bytes stored so far.
`none` is `return -1`; `some` is `return 0` with the digest. -/
def fingerprint_loop (buf : List Char) : Nat → Nat → List Nat → Option (List Nat)
  | 0, _, _ => none
  | k + 1, c, acc =>
    match hex_digit (getc buf c) with
    | none => none
    | some hi =>
      match hex_digit (getc buf (c + 1)) with
      | none => none
      | some lo =>
        let acc1 := acc ++ [hi * 16 % 256 + lo]
        if getc buf (c + 2) ≠ ':' then (if k = 0 then some acc1 else none)
        else fingerprint_loop buf k (c + 3) acc1

/-- `parse_attribute_fingerprint`. -/
def parse_attribute_fingerprint (env : Env) (buf : List Char) (output : sdp_attribute) :
    Int × sdp_attribute :=
  let out1 := { output with attr := ATTR_FINGERPRINT }
  match extract_token buf out1.strs.value with
  | none => (-1, out1)
  | some (hash_func_str, r1) =>
    match extract_token buf r1 with
    | none => (-1, out1)
    | some (fingerprint_str, _) =>
      let f0 := { out1.fingerprint with
        hash_func_str := hash_func_str, fingerprint_str := fingerprint_str }
      match env.dtls_find_hash_func (str_bytes buf hash_func_str) with
      | none => (-1, { out1 with fingerprint := f0 })
      | some hf =>
        let f1 := { f0 with hash_func := some hf }
        match fingerprint_loop buf hf.num_bytes (fingerprint_str.s.getD 0) [] with
        | none => (-1, { out1 with fingerprint := f1 })
        | some digest => (0, { out1 with fingerprint := { f1 with fingerprint := digest } })

/-- `parse_attribute_setup`. -/
def parse_attribute_setup (buf : List Char) (output : sdp_attribute) : Int × sdp_attribute :=
  let v := output.strs.value
  let val :=
    if str_cmp buf v "actpass" then setup_value.SETUP_ACTPASS
    else if str_cmp buf v "active" then setup_value.SETUP_ACTIVE
    else if str_cmp buf v "passive" then setup_value.SETUP_PASSIVE
    else if str_cmp buf v "holdconn" then setup_value.SETUP_HOLDCONN
    else output.setup
  (0, { output with attr := ATTR_SETUP, setup := val })

/-- Conversion of a C integer to `unsigned int`. -/
def to_uint32 (v : Int) : Nat := (v % (2 ^ 32 : Int)).toNat

/-- `parse_attribute_rtcp_fb`. -/
def parse_attribute_rtcp_fb (env : Env) (buf : List Char) (output : sdp_attribute) :
    Int × sdp_attribute :=
  let out1 := { output with attr := ATTR_RTCP_FB }
  match extract_token buf out1.strs.value with
  | none => (-1, out1)
  | some (payload_type_str, rest) =>
    let a := { out1.rtcp_fb with payload_type_str := payload_type_str, value := rest }
    if str_cmp buf payload_type_str "*" then
      (0, { out1 with rtcp_fb := { a with payload_type := to_uint32 (-1) } })
    else
      let pt := to_uint32 (env.str_to_i (str_bytes buf payload_type_str) (-1))
      let out2 := { out1 with rtcp_fb := { a with payload_type := pt } }
      if pt = to_uint32 (-1) then (-1, out2) else (0, out2)

/-- `parse_attribute_rtpmap`. -/
def parse_attribute_rtpmap (buf : List Char) (output : sdp_attribute) : Int × sdp_attribute :=
  let out1 := { output with attr := ATTR_RTPMAP }
  match extract_token buf out1.strs.value with
  | none => (-1, out1)
  | some (payload_type_str, r1) =>
    match extract_token buf r1 with
    | none => (-1, out1)
    | some (encoding_str, _) =>
      let a0 := { out1.rtpmap with
        payload_type_str := payload_type_str, encoding_str := encoding_str }
      let ptv := strtoul buf (payload_type_str.s.getD 0)
      let pt0 := { a0.rtp_pt with
        encoding_with_params := str_bytes buf encoding_str,
        payload_type := to_int32 (ptv.1 : Int) }
      if ptv.2 = payload_type_str.s.getD 0 then
        (-1, { out1 with rtpmap := { a0 with rtp_pt := pt0 } })
      else
      match str_chr_str buf encoding_str '/' with
      | none => (-1, { out1 with rtpmap := { a0 with rtp_pt := pt0 } })
      | some cr0 =>
        let encoding : Str := { encoding_str with len := encoding_str.len - cr0.len }
        let cr1 := (str_shift cr0 1).getD cr0
        let pt1 := { pt0 with encoding := str_bytes buf encoding, channels := 1 }
        let split : Str × rtp_payload_type :=
          match str_chr_str buf cr1 '/' with
          | none => (cr1, pt1)
          | some ep0 =>
            let cr2 : Str := { cr1 with len := cr1.len - ep0.len }
            let ep1 := (str_shift ep0 1).getD ep0
            let pt2 := { pt1 with encoding_parameters := str_bytes buf ep1 }
            if ep1.len ≠ 0 then
              let ch := strtol buf (ep1.s.getD 0)
              let channels := to_int32 ch.1
              if channels ≠ 0 && ch.2 = ep1.s.getD 0 + ep1.len then
                (cr2, { pt2 with channels := channels })
              else (cr2, pt2)
            else (cr2, pt2)
        let clock_rate_str := split.1
        let pt3 := split.2
        let a1 := { a0 with clock_rate_str := clock_rate_str, rtp_pt := pt3 }
        if clock_rate_str.len = 0 then (-1, { out1 with rtpmap := a1 })
        else
          let cr := strtoul buf (clock_rate_str.s.getD 0)
          let a2 := { a1 with rtp_pt := { pt3 with clock_rate := cr.1 % 2 ^ 32 } }
          if cr.2 ≠ clock_rate_str.s.getD 0 + clock_rate_str.len then
            (-1, { out1 with rtpmap := a2 })
          else (0, { out1 with rtpmap := a2 })

/-- `parse_attribute_fmtp`. -/
def parse_attribute_fmtp (env : Env) (buf : List Char) (output : sdp_attribute) :
    Int × sdp_attribute :=
  let out1 := { output with attr := ATTR_FMTP }
  match extract_token buf out1.strs.value with
  | none => (-1, out1)
  | some (payload_type_str, rest) =>
    let pt := to_uint32 (env.str_to_i (str_bytes buf payload_type_str) (-1))
    let out2 := { out1 with fmtp :=
      { out1.fmtp with payload_type_str := payload_type_str, format_parms_str := rest,
                       payload_type := pt } }
    if pt = to_uint32 (-1) then (-1, out2) else (0, out2)

/-- `parse_attribute_int`. -/
def parse_attribute_int (env : Env) (buf : List Char) (output : sdp_attribute)
    (id : attr_id) (defval : Int) : Int × sdp_attribute :=
  (0, { output with attr := id, i := env.str_to_i (str_bytes buf output.strs.value) defval })

/-- `parse_attribute_t38faxudpec`. -/
def parse_attribute_t38faxudpec (buf : List Char) (output : sdp_attribute) :
    Int × sdp_attribute :=
  let v := str_bytes buf output.strs.value
  let ec :=
    if v = "t38UDPNoEC".toList then t38_ec.EC_NONE
    else if v = "t38UDPRedundancy".toList then t38_ec.EC_REDUNDANCY
    else if v = "t38UDPFEC".toList then t38_ec.EC_FEC
    else t38_ec.EC_UNKNOWN
  (0, { output with attr := ATTR_T38FAXUDPEC, t38faxudpec := ec })

/-- `parse_attribute_t38faxratemanagement`. -/
def parse_attribute_t38faxratemanagement (buf : List Char) (output : sdp_attribute) :
    Int × sdp_attribute :=
  let v := str_bytes buf output.strs.value
  let rm :=
    if v = "localTFC".toList then t38_rm.RM_LOCALTCF
    else if v = "transferredTCF".toList then t38_rm.RM_TRANSFERREDTCF
    else t38_rm.RM_UNKNOWN
  (0, { output with attr := ATTR_T38FAXRATEMANAGEMENT, t38faxratemanagement := rm })

/-- `parse_attribute_t38faxudpecdepth`. -/
def parse_attribute_t38faxudpecdepth (env : Env) (buf : List Char) (output : sdp_attribute) :
    Int × sdp_attribute :=
  let out1 := { output with attr := ATTR_T38FAXUDPECDEPTH }
  match extract_token buf out1.strs.value with
  | none => (-1, out1)
  | some (minred_str, rest) =>
    (0, { out1 with t38faxudpecdepth :=
      { minred_str := minred_str, maxred_str := rest,
        minred := env.str_to_i (str_bytes buf minred_str) 0,
        maxred := env.str_to_i (str_bytes buf rest) (-1) } })

/-- The first part of `parse_attribute`: carve name, value, key and param out
of the line value. -/
def parse_attribute_strs (buf : List Char) (a0 : sdp_attribute) : sdp_attribute :=
  let name0 := a0.strs.line_value
  match str_chr_str buf name0 ':' with
  | none => { a0 with strs := { a0.strs with name := name0 } }
  | some v0 =>
    let name : Str := { name0 with len := name0.len - v0.len }
    let value : Str := { s := v0.s.map (· + 1), len := v0.len - 1 }
    match str_chr_str buf value ' ' with
    | some p0 =>
      let key : Str := { name with len := name.len + (1 + (value.len - p0.len)) }
      let p1 : Str := { s := p0.s.map (· + 1), len := p0.len - 1 }
      let param : Str := if p1.len = 0 then { p1 with s := none } else p1
      { a0 with param := param, strs := { a0.strs with name := name, value := value, key := key } }
    | none =>
      let key : Str := { name with len := name.len + (1 + value.len) }
      { a0 with strs := { a0.strs with name := name, value := value, key := key } }

/-- The second part of `parse_attribute`: the `switch (__csh_lookup(&a->strs.name))`,
an exact, case-sensitive match of the name. -/
def parse_attribute_switch (env : Env) (buf : List Char) (a : sdp_attribute) :
    Int × sdp_attribute :=
  let n := str_bytes buf a.strs.name
  if n = "mid".toList then (0, { a with attr := ATTR_MID })
  else if n = "rtcp".toList then parse_attribute_rtcp env buf a
  else if n = "fmtp".toList then parse_attribute_fmtp env buf a
  else if n = "group".toList then parse_attribute_group buf a
  else if n = "setup".toList then parse_attribute_setup buf a
  else if n = "ptime".toList then (0, { a with attr := ATTR_PTIME })
  else if n = "crypto".toList then parse_attribute_crypto env buf a
  else if n = "extmap".toList then (0, { a with other := sdp_attr_type.SDP_ATTR_TYPE_EXTMAP })
  else if n = "rtpmap".toList then parse_attribute_rtpmap buf a
  else if n = "ice-pwd".toList then (0, { a with attr := ATTR_ICE_PWD })
  else if n = "ice-lite".toList then (0, { a with attr := ATTR_ICE_LITE })
  else if n = "inactive".toList then (0, { a with attr := ATTR_INACTIVE })
  else if n = "sendrecv".toList then (0, { a with attr := ATTR_SENDRECV })
  else if n = "sendonly".toList then (0, { a with attr := ATTR_SENDONLY })
  else if n = "recvonly".toList then (0, { a with attr := ATTR_RECVONLY })
  else if n = "rtcp-mux".toList then (0, { a with attr := ATTR_RTCP_MUX })
  else if n = "candidate".toList then parse_attribute_candidate env buf a false
  else if n = "ice-ufrag".toList then (0, { a with attr := ATTR_ICE_UFRAG })
  else if n = "rtpengine".toList then (0, { a with attr := ATTR_RTPENGINE })
  else if n = "ice-options".toList then (0, { a with attr := ATTR_ICE_OPTIONS })
  else if n = "fingerprint".toList then parse_attribute_fingerprint env buf a
  else if n = "tls-id".toList then (0, { a with attr := ATTR_TLS_ID })
  else if n = "ice-mismatch".toList then (0, { a with attr := ATTR_ICE })
  else if n = "remote-candidates".toList then (0, { a with attr := ATTR_ICE })
  else if n = "end-of-candidates".toList then (0, { a with attr := ATTR_END_OF_CANDIDATES })
  else if n = "rtcp-fb".toList then parse_attribute_rtcp_fb env buf a
  else if n = "T38FaxVersion".toList then parse_attribute_int env buf a ATTR_T38FAXVERSION (-1)
  else if n = "T38FaxUdpEC".toList then parse_attribute_t38faxudpec buf a
  else if n = "T38FaxUdpECDepth".toList then parse_attribute_t38faxudpecdepth env buf a
  else if n = "T38FaxUdpFECMaxSpan".toList then
    parse_attribute_int env buf a ATTR_T38FAXUDPFECMAXSPAN 0
  else if n = "T38FaxMaxDatagram".toList then
    parse_attribute_int env buf a ATTR_T38FAXMAXDATAGRAM (-1)
  else if n = "T38FaxMaxIFP".toList then parse_attribute_int env buf a ATTR_T38FAXMAXIFP (-1)
  else if n = "T38FaxFillBitRemoval".toList then (0, { a with attr := ATTR_T38FAXFILLBITREMOVAL })
  else if n = "T38FaxTranscodingMMR".toList then (0, { a with attr := ATTR_T38FAXTRANSCODINGMMR })
  else if n = "T38FaxTranscodingJBIG".toList then
    (0, { a with attr := ATTR_T38FAXTRANSCODINGJBIG })
  else if n = "T38FaxRateManagement".toList then parse_attribute_t38faxratemanagement buf a
  else if n = "T38MaxBitRate".toList then (0, { a with attr := ATTR_T38MAXBITRATE })
  else if n = "T38FaxMaxBuffer".toList then (0, { a with attr := ATTR_T38FAXMAXBUFFER })
  else if n = "xg726bitorder".toList then (0, { a with attr := ATTR_XG726BITORDER })
  else if n = "maxptime".toList then (0, { a with attr := ATTR_MAXPTIME })
  else if n = "label".toList then (0, { a with attr := ATTR_LABEL })
  else if n = "direction".toList then (0, { a with attr := ATTR_DIRECTION })
  else (0, a)

/-- `parse_attribute`. -/
def parse_attribute (env : Env) (buf : List Char) (a0 : sdp_attribute) : Int × sdp_attribute :=
  parse_attribute_switch env buf (parse_attribute_strs buf a0)

/-! ## The session parser `sdp_parse`

The C loop keeps `session` and `media` pointing at the tail of the session
queue and at the tail of that session's media queue.  The state below keeps
these two records apart from the queues they are the tail of: `done` holds the
sessions before the current one, and the current session's `media_streams`
holds the media before the current one.  `sessions_of` puts them back. -/

/-- The variables of the `sdp_parse` loop. -/
structure parse_state where
  /-- Sessions of the queue before the current one (on entry: what the caller passed). -/
  done : List sdp_session := []
  /-- `session` (`none` is `NULL`). -/
  session : Option sdp_session := none
  /-- `media` (`none` is `NULL`). -/
  media : Option sdp_media := none
  /-- `media_sdp_id`. -/
  media_sdp_id : Int := 0
deriving DecidableEq, Repr

/-- The current session with its current media put back at the tail of its media queue. -/
def close_session (session : sdp_session) (media : Option sdp_media) : sdp_session :=
  { session with media_streams := session.media_streams ++ media.toList }

/-- The session queue that the state stands for. -/
def sessions_of (st : parse_state) : List sdp_session :=
  st.done ++ (st.session.map (fun s => close_session s st.media)).toList

/-- The `new_session:` label: allocate a session at `b` and push it on the queue. -/
def new_session (st : parse_state) (b : Nat) : parse_state :=
  { st with
    done := sessions_of st,
    session := some { s := { s := some b, len := 0 }, rr := -1, rs := -1 },
    media := none }

/-- `if (media && !media->c_line_pos) media->c_line_pos = b;`. -/
def set_c_line_pos (media : Option sdp_media) (b : Nat) : Option sdp_media :=
  media.map (fun m => if m.c_line_pos.isNone then { m with c_line_pos := some b } else m)

/-- The `case 'v':` of the switch: the value must be the single byte `0`; then
`new_session:`. -/
def sdp_parse_v (buf : List Char) (st : parse_state) (b value line_end : Nat) :
    Except String parse_state :=
  if line_end ≠ value + 1 then Except.error "Error in v= line"
  else if getc buf value ≠ '0' then Except.error "Error in v= line"
  else Except.ok (new_session st b)

/-- The `case 'o':` of the switch. -/
def sdp_parse_o (env : Env) (buf : List Char) (st : parse_state) (session : sdp_session)
    (value_str : Str) : Except String parse_state :=
  if st.media.isSome then Except.error "o= line found within media section"
  else match parse_origin env buf value_str session.origin with
    | none => Except.error "Error parsing o= line"
    | some o => Except.ok { st with session := some { session with origin := o } }

/-- The `case 'm':` of the switch.  The media that was current goes to the tail
of the session's media queue and the new one becomes current. -/
def sdp_parse_m (env : Env) (buf : List Char) (st : parse_state) (session : sdp_session)
    (b : Nat) (value_str : Str) : Except String parse_state :=
  let old := set_c_line_pos st.media b
  match parse_media env buf value_str {} with
  | none => Except.error "Error parsing m= line"
  | some m =>
    Except.ok { st with
      session := some (close_session session old),
      media := some { m with
        s := { s := some b, len := 0 }, rr := -1, rs := -1, as := -1,
        media_sdp_id := st.media_sdp_id },
      media_sdp_id := st.media_sdp_id + 1 }

/-- The `case 'c':` of the switch. -/
def sdp_parse_c (env : Env) (buf : List Char) (st : parse_state) (session : sdp_session)
    (value_str : Str) : Except String parse_state :=
  match st.media with
  | some m =>
    match parse_connection env buf value_str m.connection with
    | none => Except.error "Error parsing c= line"
    | some cn => Except.ok { st with media := some { m with connection := cn } }
  | none =>
    match parse_connection env buf value_str session.connection with
    | none => Except.error "Error parsing c= line"
    | some cn => Except.ok { st with session := some { session with connection := cn } }

/-- The attribute that `case 'a':` allocates and hands to `parse_attribute`. -/
def new_attribute (b value line_end : Nat) (next_line : Option Nat) : sdp_attribute :=
  { full_line := { s := some b, len := (next_line.getD line_end) - b },
    strs := { line_value := { s := some value, len := line_end - value } } }

/-- The `case 'a':` of the switch.  An attribute whose parser returns non-zero
is freed and not inserted. -/
def sdp_parse_a (env : Env) (buf : List Char) (st : parse_state) (session : sdp_session)
    (b value line_end : Nat) (next_line : Option Nat) : Except String parse_state :=
  let media := set_c_line_pos st.media b
  let r := parse_attribute env buf (new_attribute b value line_end next_line)
  if r.1 ≠ 0 then Except.ok { st with media := media }
  else match media with
    | some m =>
      Except.ok { st with media := some { m with attributes := attr_insert m.attributes r.2 } }
    | none =>
      Except.ok { st with
        session := some { session with attributes := attr_insert session.attributes r.2 } }

/-- The `case 'b':` of the switch. -/
def sdp_parse_b (buf : List Char) (st : parse_state) (session : sdp_session)
    (b value line_end : Nat) : Except String parse_state :=
  let media := set_c_line_pos st.media b
  let st1 := { st with media := media }
  if line_end - value < 4 then Except.ok st1
  else
    let tag := bytes_at buf value 3
    let v := to_int32 (strtol buf (value + 3)).1
    match media with
    | some m =>
      if tag = "AS:".toList then Except.ok { st1 with media := some { m with as := v } }
      else if tag = "RR:".toList then Except.ok { st1 with media := some { m with rr := v } }
      else if tag = "RS:".toList then Except.ok { st1 with media := some { m with rs := v } }
      else Except.ok st1
    | none =>
      if tag = "RR:".toList then Except.ok { st1 with session := some { session with rr := v } }
      else if tag = "RS:".toList then
        Except.ok { st1 with session := some { session with rs := v } }
      else Except.ok st1

/-- The `case 's':` of the switch. -/
def sdp_parse_s (st : parse_state) (session : sdp_session) (value_str : Str) :
    Except String parse_state :=
  if st.media.isSome then Except.error "s= line found within media section"
  else Except.ok { st with session := some { session with session_name := value_str } }

/-- The `case 't':` of the switch. -/
def sdp_parse_t (st : parse_state) (session : sdp_session) (value_str : Str) :
    Except String parse_state :=
  if st.media.isSome then Except.error "t= line found within media section"
  else Except.ok { st with session := some { session with session_timing := value_str } }

/-- The `switch (b[0])` of `sdp_parse` when `session` is not `NULL`.  The
result is the error string of a `goto error`, or the state after `break`. -/
def sdp_parse_switch (env : Env) (buf : List Char) (st : parse_state) (session : sdp_session)
    (b value line_end : Nat) (next_line : Option Nat) : Except String parse_state :=
  let c := getc buf b
  let value_str : Str := { s := some value, len := line_end - value }
  if c = 'v' then sdp_parse_v buf st b value line_end
  else if c = 'o' then sdp_parse_o env buf st session value_str
  else if c = 'm' then sdp_parse_m env buf st session b value_str
  else if c = 'c' then sdp_parse_c env buf st session value_str
  else if c = 'a' then sdp_parse_a env buf st session b value line_end next_line
  else if c = 'b' then sdp_parse_b buf st session b value line_end
  else if c = 'k' then Except.ok { st with media := set_c_line_pos st.media b }
  else if c = 's' then sdp_parse_s st session value_str
  else if c = 't' then sdp_parse_t st session value_str
  else if c = 'i' || c = 'u' || c = 'e' || c = 'p' || c = 'r' || c = 'z' then Except.ok st
  else Except.error "Unknown SDP line type found"

/-- How one turn of the `sdp_parse` loop ends. -/
inductive parse_step where
  /-- `goto error` with the error string. -/
  | error (errstr : String)
  /-- `break` at a bare empty line, after `body->len = b - body->s`. -/
  | stop
  /-- End of the loop body: `b = next_line`. -/
  | next (st : parse_state) (next_line : Option Nat)
deriving DecidableEq, Repr

/-- The adjustment `adj_s->len = (next_line ? : end) - adj_s->s` at the end of the loop body. -/
def adjust_len (st : parse_state) (session : sdp_session) (endp : Nat) : parse_state :=
  match st.media with
  | some m => { st with media := some { m with s := { m.s with len := endp - m.s.s.getD 0 } } }
  | none =>
    { st with session := some { session with s := { session.s with len := endp - session.s.s.getD 0 } } }

/-- `next_line`: one past the `\n` that `memchr(value, '\n', end - value)` finds,
`NULL` when the body ends without one. -/
def find_next_line (buf : List Char) (end_ value : Nat) : Option Nat :=
  (memchr buf value '\n' (end_ - value)).map (· + 1)

/-- `line_end`: the `\n` found (or the `\r` right before it), `end` when there is none. -/
def find_line_end (buf : List Char) (end_ value : Nat) : Nat :=
  match memchr buf value '\n' (end_ - value) with
  | none => end_
  | some le => if getc buf (le - 1) = '\r' then le - 1 else le

/-- The value of the line that starts at `b`: the bytes between its `x=` and its `line_end`. -/
def line_value (buf : List Char) (end_ b : Nat) : List Char :=
  bytes_at buf (b + 2) (find_line_end buf end_ (b + 2) - (b + 2))

/-- One turn of the `while` loop of `sdp_parse`, at line start `b` (with `b < end - 1`).
`strict` is the configuration switch `rtpe_config.reject_invalid_sdp`. -/
def sdp_parse_line (env : Env) (strict : Bool) (buf : List Char) (end_ : Nat) (fragment : Bool)
    (st : parse_state) (b : Nat) : parse_step :=
  if !strict && (getc buf b = '\n' || getc buf b = '\r') then parse_step.stop
  else if getc buf (b + 1) ≠ '=' then parse_step.error "Missing '=' sign"
  else
    let value := b + 2
    let line_end := find_line_end buf end_ value
    let next_line := find_next_line buf end_ value
    let switched : Except String parse_state :=
      match st.session with
      | none =>
        if getc buf b ≠ 'v' then
          if !fragment then Except.error "SDP doesn't start with a session definition"
          else Except.ok (new_session st b)
        else sdp_parse_v buf st b value line_end
      | some session => sdp_parse_switch env buf st session b value line_end next_line
    match switched with
    | Except.error e => parse_step.error e
    | Except.ok st1 =>
      match st1.session with
      | none => parse_step.error "SDP doesn't start with a valid session definition"
      | some session => parse_step.next (adjust_len st1 session (next_line.getD end_)) next_line

/-- What `sdp_parse` hands back: its return code, the session queue and `body->len`. -/
structure parse_result where
  ret : Int
  sessions : List sdp_session
  body_len : Nat
deriving DecidableEq, Repr

/-- `sdp_sessions_clear`: `t_queue_clear_full` frees every session and leaves the queue empty. -/
def sdp_sessions_clear (_sessions : List sdp_session) : List sdp_session := []

/-- The `while (b && b < end - 1)` loop of `sdp_parse` with its exits.  `end_` is
the end of the body, which is also `body->len` unless the loop stops at a bare
empty line.  The fuel bounds the number of turns; `none` means the fuel ran out. -/
def sdp_parse_loop (env : Env) (strict : Bool) (buf : List Char) (end_ : Nat)
    (fragment : Bool) : Nat → parse_state → Option Nat → Option parse_result
  | 0, _, _ => none
  | fuel + 1, st, b =>
    match b with
    | none => some { ret := 0, sessions := sessions_of st, body_len := end_ }
    | some b =>
      if b + 1 < end_ then
        match sdp_parse_line env strict buf end_ fragment st b with
        | parse_step.error _ =>
          some { ret := -1, sessions := sdp_sessions_clear (sessions_of st), body_len := end_ }
        | parse_step.stop => some { ret := 0, sessions := sessions_of st, body_len := b }
        | parse_step.next st1 next_line =>
          sdp_parse_loop env strict buf end_ fragment fuel st1 next_line
      else some { ret := 0, sessions := sessions_of st, body_len := end_ }

/-- The first `n` turns of the `sdp_parse` loop, as long as each of them goes
on to a next line: the state and line pointer at the loop head after them. -/
def run_lines (env : Env) (strict : Bool) (buf : List Char) (end_ : Nat) (fragment : Bool) :
    Nat → parse_state → Nat → Option (parse_state × Nat)
  | 0, st, b => some (st, b)
  | n + 1, st, b =>
    if b + 1 < end_ then
      match sdp_parse_line env strict buf end_ fragment st b with
      | parse_step.next st1 (some b1) => run_lines env strict buf end_ fragment n st1 b1
      | _ => none
    else none

/-- The state in which `sdp_parse` enters its loop. -/
def parse_init (sessions : List sdp_session) : parse_state :=
  { done := sessions }

/-- `sdp_parse(body, sessions, flags)`.  The body is the `str` with pointer 0 into
`buf` and length `len`; `sessions` is the queue as the caller passes it; `strict`
is `rtpe_config.reject_invalid_sdp` and `fragment` is `flags->fragment`.  Every
turn of the loop moves `b` forward by three bytes at least, so `len` turns are
more than enough (`sdp_parse_returns`). -/
def sdp_parse (env : Env) (strict : Bool) (buf : List Char) (len : Nat)
    (sessions : List sdp_session) (fragment : Bool) : Option parse_result :=
  sdp_parse_loop env strict buf len fragment (len + 1) (parse_init sessions) (some 0)

/-- The loop of `sdp_parse`, started in state `st0` at offset 0, arrives at its
head with state `st` and line pointer `b`: these are the lines the parser reaches. -/
inductive Reaches (env : Env) (strict : Bool) (buf : List Char) (end_ : Nat) (fragment : Bool)
    (st0 : parse_state) : parse_state → Option Nat → Prop where
  | start : Reaches env strict buf end_ fragment st0 st0 (some 0)
  | step {st st1 : parse_state} {b : Nat} {next_line : Option Nat} :
      Reaches env strict buf end_ fragment st0 st (some b) → b + 1 < end_ →
      sdp_parse_line env strict buf end_ fragment st b = parse_step.next st1 next_line →
      Reaches env strict buf end_ fragment st0 st1 next_line

/-! ## Invariants of the parsed tree -/

/-- The attribute lines of a section lie inside `[lo, hi]`, one after the
other in list order: each starts at or after the end of the one before. -/
def attrs_within (lo hi : Nat) : List sdp_attribute → Prop
  | [] => lo ≤ hi
  | a :: rest =>
    ∃ p, a.full_line.s = some p ∧ lo ≤ p ∧ 0 < a.full_line.len ∧
      attrs_within (p + a.full_line.len) hi rest

/-- A session whose slice lies inside the body (of length `end_`) and whose
attribute lines lie in order inside its slice. -/
def session_wf (end_ : Nat) (s : sdp_session) : Prop :=
  ∃ p, s.s.s = some p ∧ p + s.s.len ≤ end_ ∧ attrs_within p (p + s.s.len) s.attributes.list

/-- What a line dispatched by the switch of `sdp_parse` does to the parser
state: it opens a session, or touches the current session only (when there is
no current media), or opens a media, or touches the current media only.
`full_len` is the length of the full line of an attribute inserted. -/
def switch_shape (st : parse_state) (session : sdp_session) (b : Nat) (full_len : Nat)
    (st1 : parse_state) : Prop :=
  (st1 = new_session st b ∨
    (st1.done = st.done ∧ ∃ s1, st1.session = some s1 ∧ s1.s = session.s ∧
      ((st.media = none ∧ st1.media = none ∧ s1.media_streams = session.media_streams ∧
          (s1.attributes = session.attributes ∨
            ∃ a, a.full_line = { s := some b, len := full_len } ∧
              s1.attributes = attr_insert session.attributes a)) ∨
       (s1.attributes = session.attributes ∧ ∃ m1, st1.media = some m1 ∧
          ((s1.media_streams = session.media_streams ++ (set_c_line_pos st.media b).toList ∧
              m1.s = { s := some b, len := 0 } ∧ m1.attributes = {}) ∨
           (s1.media_streams = session.media_streams ∧ ∃ m, st.media = some m ∧ m1.s = m.s ∧
              (m1.attributes = m.attributes ∨
                ∃ a, a.full_line = { s := some b, len := full_len } ∧
                  m1.attributes = attr_insert m.attributes a)))))))

/-! ## Lookup of manipulation directives -/

/-- Lookup in a `str_case_value_ht`: the value of the first key that is equal
to the name up to case. -/
def str_case_lookup (ht : List (List Char × List Char)) (name : List Char) :
    Option (List Char) :=
  match ht with
  | [] => none
  | (k, v) :: rest => if str_case_eq k name then some v else str_case_lookup rest name

/-- `sdp_manipulate_remove`: whether a removal directive names `attr_name`. -/
def sdp_manipulate_remove (sm : Option sdp_manipulations) (attr_name : List Char) : Bool :=
  match sm with
  | none => false
  | some m =>
    if attr_name.isEmpty then false
    else match m.rem_commands with
      | none => false
      | some ht => ht.any (fun k => str_case_eq k attr_name)

/-- `sdp_manipulate_remove_attr`: by key, then name, then full line value. -/
def sdp_manipulate_remove_attr (sm : Option sdp_manipulations) (buf : List Char)
    (attr : sdp_attribute) : Bool :=
  if sdp_manipulate_remove sm (str_bytes buf attr.strs.key) then true
  else if sdp_manipulate_remove sm (str_bytes buf attr.strs.name) then true
  else if sdp_manipulate_remove sm (str_bytes buf attr.strs.line_value) then true
  else false

/-- `sdp_manipulations_subst`: the replacement registered for `attr_name`, if any. -/
def sdp_manipulations_subst (sm : Option sdp_manipulations) (attr_name : List Char) :
    Option (List Char) :=
  match sm with
  | none => none
  | some m =>
    match m.subst_commands with
    | none => none
    | some ht => str_case_lookup ht attr_name

/-- `sdp_manipulations_subst_attr`: by key, then name, then full line value. -/
def sdp_manipulations_subst_attr (sm : Option sdp_manipulations) (buf : List Char)
    (attr : sdp_attribute) : Option (List Char) :=
  match sdp_manipulations_subst sm (str_bytes buf attr.strs.key) with
  | some v => some v
  | none =>
    match sdp_manipulations_subst sm (str_bytes buf attr.strs.name) with
    | some v => some v
    | none => sdp_manipulations_subst sm (str_bytes buf attr.strs.line_value)

/-! ## The chopper -/

/-- `struct sdp_chopper`: the input `str` (buffer and length), the read
position, the output built so far and the offset accumulator. -/
structure sdp_chopper where
  input : List Char
  input_len : Nat
  position : Nat := 0
  output : List Char := []
  offset : Int := 0
deriving DecidableEq, Repr

/-- `chopper_append` (also `chopper_append_c`, `chopper_append_str`). -/
def chopper_append (c : sdp_chopper) (s : List Char) : sdp_chopper :=
  { c with output := c.output ++ s }

/-- `copy_up_to_ptr`: copy the input from the read position up to pointer `b`.
The two `assert`s on the offset are preconditions and not modelled. -/
def copy_up_to_ptr (chop : sdp_chopper) (b : Option Nat) : Int × sdp_chopper :=
  match b with
  | none => (0, chop)
  | some b =>
    let offset : Int := b
    let len : Int := offset - chop.position
    if len < 0 then (-1, chop)
    else
      (0, { chopper_append chop (bytes_at chop.input chop.position len.toNat) with
            position := chop.position + len.toNat })

/-- `copy_up_to`. -/
def copy_up_to (chop : sdp_chopper) (w : Str) : Int × sdp_chopper :=
  copy_up_to_ptr chop w.s

/-- `copy_up_to_end_of`. -/
def copy_up_to_end_of (chop : sdp_chopper) (w : Str) : Int × sdp_chopper :=
  copy_up_to_ptr chop (w.s.map (· + w.len))

/-- `copy_remainder`. -/
def copy_remainder (chop : sdp_chopper) : sdp_chopper :=
  (copy_up_to_ptr chop (some chop.input_len)).2

/-- `skip_over`: move the read position past the end of the slice. -/
def skip_over (chop : sdp_chopper) (w : Str) : Int × sdp_chopper :=
  match w.s with
  | none => (0, chop)
  | some p =>
    let offset : Int := (p : Int) + w.len
    let len : Int := offset - chop.position
    if len < 0 then (-1, chop)
    else (0, { chop with position := chop.position + len.toNat })

/-! ## Rewriting of the session-level attributes -/

/-- Where the loop body of `process_session_attributes` ends for an attribute:
`continue`, the `strip:` label, or the `strip_with_subst:` label. -/
inductive attr_action where
  | keep
  | strip
  | strip_with_subst (subst_str : List Char)
deriving DecidableEq, Repr

/-- The ICE test shared by the ICE attributes: strip unless `ice_option` is
none of remove, force and default. -/
def ice_strip (flags : sdp_ng_flags) : Bool :=
  !(flags.ice_option != ice_option_t.ICE_REMOVE && flags.ice_option != ice_option_t.ICE_FORCE
    && flags.ice_option != ice_option_t.ICE_DEFAULT)

/-- Whether the candidate's type token is `relay`, case-insensitively. -/
def candidate_is_relay (buf : List Char) (attr : sdp_attribute) : Bool :=
  attr.candidate.type_str.len == 5 &&
    str_case_eq (bytes_at buf (attr.candidate.type_str.s.getD 0) 5) "relay".toList

/-- The first `switch` of `process_session_attributes`: `true` is `goto strip`,
`false` is `break`. -/
def session_attr_switch (flags : sdp_ng_flags) (buf : List Char) (attr : sdp_attribute) : Bool :=
  match attr.attr with
  | ATTR_ICE | ATTR_ICE_UFRAG | ATTR_ICE_PWD | ATTR_ICE_OPTIONS | ATTR_ICE_LITE =>
    ice_strip flags
  | ATTR_CANDIDATE =>
    if flags.ice_option = ice_option_t.ICE_FORCE_RELAY then candidate_is_relay buf attr
    else ice_strip flags
  | ATTR_FINGERPRINT | ATTR_SETUP | ATTR_TLS_ID | ATTR_IGNORE => true
  | ATTR_INACTIVE | ATTR_SENDONLY | ATTR_RECVONLY | ATTR_SENDRECV => !flags.original_sendrecv
  | ATTR_GROUP => attr.group = group_semantics.GROUP_BUNDLE
  | _ => false

/-- The decision of the loop body of `process_session_attributes` for one attribute. -/
def session_attr_action (flags : sdp_ng_flags) (buf : List Char) (attr : sdp_attribute) :
    attr_action :=
  let sm := flags.sdp_manipulations MT_UNKNOWN
  if session_attr_switch flags buf attr then attr_action.strip
  else if sdp_manipulate_remove_attr sm buf attr then attr_action.strip
  else match sdp_manipulations_subst_attr sm buf attr with
    | some subst_str => attr_action.strip_with_subst subst_str
    | none => attr_action.keep

/-- The code at the labels `strip:` and `strip_with_subst:`: copy up to the
line, skip it, and for a substitution append `a=<subst>\r\n`. -/
def apply_attr_action (chop : sdp_chopper) (attr : sdp_attribute) (act : attr_action) :
    Int × sdp_chopper :=
  match act with
  | attr_action.keep => (0, chop)
  | attr_action.strip =>
    let r1 := copy_up_to chop attr.full_line
    if r1.1 ≠ 0 then (-1, r1.2)
    else
      let r2 := skip_over r1.2 attr.full_line
      if r2.1 ≠ 0 then (-1, r2.2) else (0, r2.2)
  | attr_action.strip_with_subst subst_str =>
    let r1 := copy_up_to chop attr.full_line
    if r1.1 ≠ 0 then (-1, r1.2)
    else
      let r2 := skip_over r1.2 attr.full_line
      if r2.1 ≠ 0 then (-1, r2.2)
      else (0, chopper_append r2.2 ("a=".toList ++ subst_str ++ "\r\n".toList))

/-- The loop that `process_session_attributes` and `process_media_attributes`
share: for each attribute, in list order, the decision `act` of the loop body
and then the code at the label it jumps to. -/
def process_attrs_loop (act : sdp_attribute → attr_action) :
    sdp_chopper → List sdp_attribute → Int × sdp_chopper
  | chop, [] => (0, chop)
  | chop, attr :: rest =>
    let r := apply_attr_action chop attr (act attr)
    if r.1 ≠ 0 then (-1, r.2) else process_attrs_loop act r.2 rest

/-- `process_session_attributes`. -/
def process_session_attributes (chop : sdp_chopper) (attrs : sdp_attributes)
    (flags : sdp_ng_flags) : Int × sdp_chopper :=
  process_attrs_loop (session_attr_action flags chop.input) chop attrs.list

/-- The edit that a decision stands for: `none` when the attribute is kept,
else the bytes put in the place of its line (empty when the line is only
stripped). -/
def edit_of_action (act : attr_action) : Option (List Char) :=
  match act with
  | attr_action.keep => none
  | attr_action.strip => some []
  | attr_action.strip_with_subst r => some ("a=".toList ++ r ++ "\r\n".toList)

/-- The edit that a session-level attribute undergoes. -/
def attr_edit (flags : sdp_ng_flags) (buf : List Char) (attr : sdp_attribute) :
    Option (List Char) :=
  edit_of_action (session_attr_action flags buf attr)

/-- What a rewriting by line edits yields at input offset `i`: in front of the
byte, the replacement of every edited line that starts there; then the byte
itself unless it lies in the full line of an edited attribute. -/
def expected_at (edit : sdp_attribute → Option (List Char)) (buf : List Char)
    (attrs : List sdp_attribute) (i : Nat) : List Char :=
  (attrs.filterMap (fun a =>
      if a.full_line.s = some i then edit a else none)).flatten ++
  (if attrs.any (fun a =>
      (edit a).isSome &&
        decide (a.full_line.s.getD 0 ≤ i) && decide (i < a.full_line.s.getD 0 + a.full_line.len))
    then [] else [getc buf i])

/-- The expected rewriting of the input range `[lo, hi)`: offset by offset, in order. -/
def expected_output (edit : sdp_attribute → Option (List Char)) (buf : List Char)
    (attrs : List sdp_attribute) (lo hi : Nat) : List Char :=
  ((List.range' lo (hi - lo)).map (expected_at edit buf attrs)).flatten

/-- The rewriting of `[cur, hi)` segment by segment: the input up to each
edited line, its replacement, and at the end the input up to `hi`. -/
def segment_output (edit : sdp_attribute → Option (List Char)) (buf : List Char) :
    Nat → List sdp_attribute → Nat → List Char
  | cur, [], hi => bytes_at buf cur (hi - cur)
  | cur, a :: rest, hi =>
    match edit a with
    | none => segment_output edit buf cur rest hi
    | some repl =>
      bytes_at buf cur (a.full_line.s.getD 0 - cur) ++ repl ++
        segment_output edit buf (a.full_line.s.getD 0 + a.full_line.len) rest hi

/-! ## Stream extraction (`sdp_streams`)

The functions below read the session tree that `sdp_parse` built over the
body `buf`.  A function that writes through a pointer returns the new record. -/

/-- `fill_endpoint`: the return code, the endpoint and the flags (whose
`parsed_received_from` is filled on first use).  The errstr of the caller is
only logged. -/
def fill_endpoint (env : Env) (ep : endpoint) (session : sdp_session) (media : sdp_media)
    (flags : sdp_ng_flags) (address : Option network_address) (port : Int) :
    Int × endpoint × sdp_ng_flags :=
  if !flags.trust_address then
    if env.is_addr_unspecified flags.parsed_received_from then
      match __parse_address env none (some flags.received_from_family)
          flags.received_from_address with
      | none => (-1, ep, flags)
      | some a => (0, { address := a, port := port }, { flags with parsed_received_from := a })
    else (0, { address := flags.parsed_received_from, port := port }, flags)
  else if (match address with
      | some a => !env.is_addr_unspecified a.parsed
      | none => false) then
    (0, { address := ((address.map (fun a => a.parsed)).getD {}), port := port }, flags)
  else if media.connection.parsed then
    (0, { address := media.connection.address.parsed, port := port }, flags)
  else if session.connection.parsed then
    (0, { address := session.connection.address.parsed, port := port }, flags)
  else (-1, ep, flags)

/-- `g_hash_table_insert` on a table kept as an association list: the value of
an existing key is replaced. -/
def g_hash_table_insert {κ β : Type} [DecidableEq κ] (ht : List (κ × β)) (k : κ) (v : β) :
    List (κ × β) :=
  match ht with
  | [] => [(k, v)]
  | (k1, v1) :: rest =>
    if k1 = k then (k1, v) :: rest else (k1, v1) :: g_hash_table_insert rest k v

/-- `g_hash_table_lookup` (`none` is `NULL`). -/
def g_hash_table_lookup {κ β : Type} [DecidableEq κ] (ht : List (κ × β)) (k : κ) : Option β :=
  match ht with
  | [] => none
  | (k1, v) :: rest => if k1 = k then some v else g_hash_table_lookup rest k

/-- `g_hash_table_remove`. -/
def g_hash_table_remove {κ β : Type} [DecidableEq κ] (ht : List (κ × β)) (k : κ) :
    List (κ × β) :=
  ht.filter (fun e => decide (e.1 ≠ k))

/-- The first loop of `__rtp_payload_types`: the table of `a=rtpmap` records
keyed by their payload type. -/
def rtpmap_table (q : List sdp_attribute) : List (Int × rtp_payload_type) :=
  q.foldl (fun ht attr =>
    g_hash_table_insert ht attr.rtpmap.rtp_pt.payload_type attr.rtpmap.rtp_pt) []

/-- The second loop: the table of `a=fmtp` parameter strings. -/
def fmtp_table (q : List sdp_attribute) : List (Nat × Str) :=
  q.foldl (fun ht attr =>
    g_hash_table_insert ht attr.fmtp.payload_type attr.fmtp.format_parms_str) []

/-- The third loop: per payload type the queue of `a=rtcp-fb` values, the
wildcard entries (`payload_type == -1`) skipped. -/
def rtcp_fb_table (q : List sdp_attribute) : List (Nat × List Str) :=
  q.foldl (fun ht attr =>
    if attr.rtcp_fb.payload_type = to_uint32 (-1) then ht
    else
      g_hash_table_insert ht attr.rtcp_fb.payload_type
        (((g_hash_table_lookup ht attr.rtcp_fb.payload_type).getD []) ++ [attr.rtcp_fb.value])) []

/-- The start of the record for payload type `i`: "first look in rtpmap for a
match, then check RFC types, else fall back to an unknown type". -/
def payload_type_base (ptl ptrfc : Option rtp_payload_type) (i : Nat) : rtp_payload_type :=
  match ptl with
  | some p => p
  | none =>
    match ptrfc with
    | some p => p
    | none => { payload_type := (i : Int) }

/-- The record that the format loop composes for payload type `i`, before
`codec_init_payload_type`: the base record with the fmtp parameters, the
rtcp-fb values and the ptime laid over it (`sp_ptime` is `sp->ptime`). -/
def compose_payload_type (env : Env) (buf : List Char) (sp_ptime : Int)
    (ht_rtpmap : List (Int × rtp_payload_type)) (ht_fmtp : List (Nat × Str))
    (ht_rtcp_fb : List (Nat × List Str)) (i : Nat) : rtp_payload_type :=
  let ptrfc := env.rtp_get_rfc_payload_type i
  let ptl := g_hash_table_lookup ht_rtpmap (i : Int)
  let pt0 := payload_type_base ptl ptrfc i
  let pt1 : rtp_payload_type :=
    match g_hash_table_lookup ht_fmtp i with
    | some s => { pt0 with format_parameters := str_bytes buf s }
    | none => { pt0 with format_parameters := [] }
  let pt2 : rtp_payload_type :=
    match g_hash_table_lookup ht_rtcp_fb i with
    | some rq => { pt1 with rtcp_fb := rq.map (str_bytes buf) }
    | none => pt1
  if sp_ptime ≠ 0 then { pt2 with ptime := sp_ptime }
  else if pt2.ptime = 0 then
    match ptrfc with
    | some p => { pt2 with ptime := p.ptime }
    | none => pt2
  else pt2

/-- The format loop of `__rtp_payload_types`: -1 at the first token that does
not start with a number or whose number, as `unsigned int`, is above 127. -/
def rtp_payload_types_loop (env : Env) (buf : List Char)
    (ht_rtpmap : List (Int × rtp_payload_type)) (ht_fmtp : List (Nat × Str)) :
    List (Nat × List Str) → stream_params → List Str → Int × stream_params
  | _, sp, [] => (0, sp)
  | ht_rtcp_fb, sp, s :: rest =>
    let r := strtoul buf (s.s.getD 0)
    let i := r.1 % 2 ^ 32
    if r.2 = s.s.getD 0 || i > 127 then (-1, sp)
    else
      let pt := compose_payload_type env buf sp.ptime ht_rtpmap ht_fmtp ht_rtcp_fb i
      rtp_payload_types_loop env buf ht_rtpmap ht_fmtp (g_hash_table_remove ht_rtcp_fb i)
        { sp with codecs := sp.codecs ++ [env.codec_init_payload_type pt sp.type_id] } rest

/-- `__rtp_payload_types`. -/
def __rtp_payload_types (env : Env) (buf : List Char) (sp : stream_params) (media : sdp_media) :
    Int × stream_params :=
  if !env.proto_is_rtp sp.protocol then (0, sp)
  else
    rtp_payload_types_loop env buf
      (rtpmap_table ((attr_list_get_by_id media.attributes ATTR_RTPMAP).getD []))
      (fmtp_table ((attr_list_get_by_id media.attributes ATTR_FMTP).getD []))
      (rtcp_fb_table ((attr_list_get_by_id media.attributes ATTR_RTCP_FB).getD []))
      sp media.format_list

/-- `__sdp_ice`. -/
def __sdp_ice (env : Env) (buf : List Char) (sp : stream_params) (session : sdp_session)
    (media : sdp_media) : stream_params :=
  match attr_get_by_id_m_s session media ATTR_ICE_UFRAG with
  | none => sp
  | some attr =>
    let sp1 := { sp with ice_ufrag := attr.strs.value, sp_flags := { sp.sp_flags with ICE := true } }
    let sp2 :=
      match attr_list_get_by_id media.attributes ATTR_CANDIDATE with
      | none => sp1
      | some q =>
        { sp1 with ice_candidates := sp1.ice_candidates ++
            (q.filter (fun a => a.candidate.parsed)).map (fun a => a.candidate.cand_parsed) }
    let sp3 :=
      match attr_get_by_id_m_s session media ATTR_ICE_OPTIONS with
      | some a =>
        if has_substr (str_bytes buf a.strs.value) "trickle".toList then
          { sp2 with sp_flags := { sp2.sp_flags with TRICKLE_ICE := true } }
        else sp2
      | none =>
        if env.is_trickle_ice_address sp2.rtp_endpoint then
          { sp2 with sp_flags := { sp2.sp_flags with TRICKLE_ICE := true } }
        else sp2
    let sp4 :=
      if (attr_get_by_id_m_s session media ATTR_ICE_LITE).isSome then
        { sp3 with sp_flags := { sp3.sp_flags with ICE_LITE_PEER := true } }
      else sp3
    match attr_get_by_id_m_s session media ATTR_ICE_PWD with
    | some a => { sp4 with ice_pwd := a.strs.value }
    | none => sp4

/-- The test `attr && (!attr->strs.value.len || str_cmp(&attr->strs.value, "0"))`. -/
def t38_switch_on (buf : List Char) (attr : Option sdp_attribute) : Bool :=
  match attr with
  | none => false
  | some a => a.strs.value.len = 0 || !(str_cmp buf a.strs.value "0")

/-- `__sdp_t38`. -/
def __sdp_t38 (buf : List Char) (sp : stream_params) (media : sdp_media) : stream_params :=
  let to0 := sp.t38_options
  let to1 :=
    match attr_get_by_id media.attributes ATTR_T38FAXVERSION with
    | some a => { to0 with version := a.i }
    | none => to0
  let to2 :=
    match attr_get_by_id media.attributes ATTR_T38FAXUDPEC with
    | some a =>
      if a.t38faxudpec = t38_ec.EC_REDUNDANCY then
        { to1 with max_ec_entries := 3, min_ec_entries := 3 }
      else if a.t38faxudpec = t38_ec.EC_FEC then
        { to1 with max_ec_entries := 3, min_ec_entries := 3, fec_span := 3 }
      else to1
    | none => { to1 with max_ec_entries := 3, min_ec_entries := 3 }
  let to3 :=
    match attr_get_by_id media.attributes ATTR_T38FAXUDPECDEPTH with
    | some a =>
      { to2 with min_ec_entries := a.t38faxudpecdepth.minred,
                 max_ec_entries := a.t38faxudpecdepth.maxred }
    | none => to2
  let to4 :=
    match attr_get_by_id media.attributes ATTR_T38FAXUDPFECMAXSPAN with
    | some a => { to3 with fec_span := a.i }
    | none => to3
  let to5 :=
    match attr_get_by_id media.attributes ATTR_T38FAXMAXDATAGRAM with
    | some a => { to4 with max_datagram := a.i }
    | none => to4
  let to6 :=
    match attr_get_by_id media.attributes ATTR_T38FAXMAXIFP with
    | some a => { to5 with max_ifp := a.i }
    | none => to5
  let to7 :=
    if t38_switch_on buf (attr_get_by_id media.attributes ATTR_T38FAXFILLBITREMOVAL) then
      { to6 with fill_bit_removal := true }
    else to6
  let to8 :=
    if t38_switch_on buf (attr_get_by_id media.attributes ATTR_T38FAXTRANSCODINGMMR) then
      { to7 with transcoding_mmr := true }
    else to7
  let to9 :=
    if t38_switch_on buf (attr_get_by_id media.attributes ATTR_T38FAXTRANSCODINGJBIG) then
      { to8 with transcoding_jbig := true }
    else to8
  let to10 :=
    match attr_get_by_id media.attributes ATTR_T38FAXRATEMANAGEMENT with
    | some a => { to9 with local_tcf := decide (a.t38faxratemanagement = t38_rm.RM_LOCALTCF) }
    | none => to9
  { sp with t38_options := to10 }

/-- What `legacy_osrtp_accept` hands back: whether `sp` is discarded, `sp`, the
stream queue and `num` after the call, and whether `legacy_osrtp` was set on
the previous and on the current media. -/
structure osrtp_result where
  discard : Bool
  sp : stream_params
  streams : List stream_params
  num : Nat
  prev_legacy : Bool := false
  cur_legacy : Bool := false
deriving DecidableEq, Repr

/-- `legacy_osrtp_accept`.  `has_prev` is `media_link->prev`: whether the
session has a media before this one. -/
def legacy_osrtp_accept (sp : stream_params) (streams : List stream_params) (has_prev : Bool)
    (flags : sdp_ng_flags) (num : Nat) : osrtp_result :=
  let keep : osrtp_result := { discard := false, sp := sp, streams := streams, num := num }
  match streams.getLast? with
  | none => keep
  | some last =>
    if !has_prev then keep
    else if !flags.osrtp_accept_legacy then keep
    else
      match sp.protocol, last.protocol with
      | some spp, some lastp =>
        if sp.type_id ≠ last.type_id then keep
        else if !spp.rtp then keep
        else if !lastp.rtp then keep
        else if spp.srtp && !lastp.srtp then
          if sp.rtp_endpoint.port ≠ 0 then
            { discard := false,
              sp := { sp with sp_flags := { sp.sp_flags with LEGACY_OSRTP := true },
                              index := sp.index - 1 },
              streams := streams.dropLast, num := num - 1, prev_legacy := true }
          else if last.rtp_endpoint.port ≠ 0 then
            { discard := true, sp := sp, streams := streams, num := num, cur_legacy := true }
          else keep
        else if !spp.srtp && lastp.srtp then
          if last.rtp_endpoint.port ≠ 0 then
            { discard := true, sp := sp,
              streams := streams.dropLast ++
                [{ last with sp_flags :=
                    { last.sp_flags with LEGACY_OSRTP := true, LEGACY_OSRTP_REV := true } }],
              num := num, cur_legacy := true }
          else keep
        else keep
      | _, _ => keep

/-- `sdp_attr_dup`. -/
def sdp_attr_dup (buf : List Char) (c : sdp_attribute) : sdp_attr :=
  { name := str_bytes buf c.strs.name, value := str_bytes buf c.strs.value, type := c.other }

/-- `sdp_attr_append_other`: duplicate all `ATTR_OTHER` attributes of `src`
onto the end of `dst`. -/
def sdp_attr_append_other (buf : List Char) (dst : List sdp_attr) (src : sdp_attributes) :
    List sdp_attr :=
  dst ++ ((attr_list_get_by_id src ATTR_OTHER).getD []).map (sdp_attr_dup buf)

/-- The `a=crypto` loop of `sdp_streams`: one SDES record per crypto attribute. -/
def sdes_of_crypto (attr : sdp_attribute) : crypto_params_sdes :=
  { params :=
      { crypto_suite := attr.crypto.crypto_suite,
        mki_len := attr.crypto.mki_len,
        mki := if attr.crypto.mki_len ≠ 0 then attr.crypto.mki.take attr.crypto.mki_len else [],
        master_key := attr.crypto.master_key,
        master_salt := attr.crypto.salt,
        session_params :=
          { unencrypted_srtp := attr.crypto.unencrypted_srtp,
            unencrypted_srtcp := attr.crypto.unencrypted_srtcp,
            unauthenticated_srtp := attr.crypto.unauthenticated_srtp } },
    tag := attr.crypto.tag }

/-- The state that the loops of `sdp_streams` carry: the output queue, the
flags and the counter `num`. -/
structure streams_state where
  streams : List stream_params := []
  flags : sdp_ng_flags := {}
  num : Nat := 0

/-- How the body of the media loop ends. -/
inductive media_step where
  /-- `goto error` with the error string; the state is what the call leaves behind. -/
  | error (errstr : String) (st : streams_state)
  /-- `continue` or the label `next`, with the `legacy_osrtp` marks set on the
  previous and on the current media. -/
  | next (st : streams_state) (prev_legacy cur_legacy : Bool)

/-- The blocks `a=mid` and `a=rtcp-fb` of the media loop body. -/
def sdp_streams_media_id (media : sdp_media) (sp : stream_params) : stream_params :=
  let sp1 :=
    match attr_get_by_id media.attributes ATTR_MID with
    | some a => { sp with media_id := a.strs.value }
    | none => sp
  if (attr_get_by_id media.attributes ATTR_RTCP_FB).isSome then
    { sp1 with sp_flags := { sp1.sp_flags with RTCP_FB := true } }
  else sp1

/-- The block `a=rtcp-mux` of the media loop body. -/
def sdp_streams_rtcp_mux (media : sdp_media) (sp : stream_params) : stream_params :=
  if (attr_get_by_id media.attributes ATTR_RTCP_MUX).isSome then
    { sp with sp_flags := { sp.sp_flags with RTCP_MUX := true } }
  else sp

/-- The blocks `a=mid`, `a=rtcp-fb`, `__sdp_t38` and `a=rtcp-mux` of the media
loop body. -/
def sdp_streams_mid (buf : List Char) (media : sdp_media) (sp : stream_params) : stream_params :=
  sdp_streams_rtcp_mux media (__sdp_t38 buf (sdp_streams_media_id media sp) media)

/-- The label `next`: push the stream on the output queue. -/
def sdp_streams_push (st : streams_state) (sp : stream_params) (flags : sdp_ng_flags)
    (prev_legacy : Bool) : media_step :=
  media_step.next { st with streams := st.streams ++ [sp], flags := flags } prev_legacy false

/-- The block "determine RTCP endpoint" of the media loop body, up to the
label `next`. -/
def sdp_streams_rtcp (env : Env) (session : sdp_session) (media : sdp_media)
    (st : streams_state) (sp : stream_params) (prev_legacy : Bool) : media_step :=
  match attr_get_by_id media.attributes ATTR_RTCP with
  | none =>
    sdp_streams_push st { sp with sp_flags := { sp.sp_flags with IMPLICIT_RTCP := true } }
      st.flags prev_legacy
  | some attr =>
    if media.port_count ≠ 1 then
      sdp_streams_push st { sp with sp_flags := { sp.sp_flags with IMPLICIT_RTCP := true } }
        st.flags prev_legacy
    else if attr.rtcp.port_num = sp.rtp_endpoint.port
        && !env.is_trickle_ice_address sp.rtp_endpoint then
      sdp_streams_push st { sp with sp_flags := { sp.sp_flags with RTCP_MUX := true } }
        st.flags prev_legacy
    else
      let r := fill_endpoint env sp.rtcp_endpoint session media st.flags
        (some attr.rtcp.address) attr.rtcp.port_num
      if r.1 ≠ 0 then media_step.error "Invalid RTCP attribute" { st with flags := r.2.2 }
      else sdp_streams_push st { sp with rtcp_endpoint := r.2.1 } r.2.2 prev_legacy

/-- The part of the media loop body from `a=mid` to the label `next`, after
`legacy_osrtp_accept` kept the stream. -/
def sdp_streams_finish (env : Env) (buf : List Char) (session : sdp_session) (media : sdp_media)
    (st : streams_state) (sp : stream_params) (prev_legacy : Bool) : media_step :=
  sdp_streams_rtcp env session media st (sdp_streams_mid buf media sp) prev_legacy

/-- The blocks of the media loop body after `__sdp_ice`: the context copied
from the media and the flags. -/
def sdp_streams_copy (env : Env) (buf : List Char) (media : sdp_media) (flags : sdp_ng_flags)
    (sp : stream_params) : stream_params :=
  { sp with
    consecutive_ports := media.port_count,
    num_ports := media.port_count * 2,
    protocol_str := media.transport,
    protocol := env.transport_protocol (str_bytes buf media.transport),
    type := media.media_type_str,
    type_id := media.media_type_id,
    direction := flags.direction,
    desired_family := flags.address_family,
    sp_flags := { sp.sp_flags with
      ASYMMETRIC := flags.asymmetric, UNIDIRECTIONAL := flags.unidirectional,
      STRICT_SOURCE := flags.strict_source, MEDIA_HANDOVER := flags.media_handover },
    media_session_as := media.as,
    media_session_rr := media.rr,
    media_session_rs := media.rs }

/-- The block `a=ptime` and the copy of the format string. -/
def sdp_streams_ptime (env : Env) (buf : List Char) (media : sdp_media) (sp : stream_params) :
    stream_params :=
  let sp1 :=
    match attr_get_by_id media.attributes ATTR_PTIME with
    | some a =>
      if a.strs.value.s.isSome then
        { sp with ptime := env.str_to_i (str_bytes buf a.strs.value) 0 }
      else sp
    | none => sp
  { sp1 with format_str := media.formats }

/-- The part of the media loop body between `fill_endpoint` and
`__rtp_payload_types`: ICE (which switches `trust_address` on) and the context
copied from the media and the flags. -/
def sdp_streams_context (env : Env) (buf : List Char) (session : sdp_session) (media : sdp_media)
    (flags : sdp_ng_flags) (sp : stream_params) : stream_params × sdp_ng_flags :=
  let sp1 := __sdp_ice env buf sp session media
  let flags1 := if sp1.sp_flags.ICE then { flags with trust_address := true } else flags
  (sdp_streams_ptime env buf media (sdp_streams_copy env buf media flags1 sp1), flags1)

/-- The blocks `a=crypto` and "other attributes" of the media loop body. -/
def sdp_streams_crypto (buf : List Char) (media : sdp_media) (sp : stream_params) :
    stream_params :=
  { sp with
    sdes_params := sp.sdes_params ++
      ((attr_list_get_by_id media.attributes ATTR_CRYPTO).getD []).map sdes_of_crypto,
    attributes := sdp_attr_append_other buf sp.attributes media.attributes }

/-- The block `a=sendrecv/sendonly/recvonly/inactive` of the media loop body. -/
def sdp_streams_direction (session : sdp_session) (media : sdp_media) (sp : stream_params) :
    stream_params :=
  let sp3 := { sp with sp_flags := { sp.sp_flags with SEND := true, RECV := true } }
  if (attr_get_by_id_m_s session media ATTR_RECVONLY).isSome then
    { sp3 with sp_flags := { sp3.sp_flags with SEND := false } }
  else if (attr_get_by_id_m_s session media ATTR_SENDONLY).isSome then
    { sp3 with sp_flags := { sp3.sp_flags with RECV := false } }
  else if (attr_get_by_id_m_s session media ATTR_INACTIVE).isSome then
    { sp3 with sp_flags := { sp3.sp_flags with RECV := false, SEND := false } }
  else sp3

/-- The block `a=setup` of the media loop body. -/
def sdp_streams_setup (session : sdp_session) (media : sdp_media) (sp : stream_params) :
    stream_params :=
  match attr_get_by_id_m_s session media ATTR_SETUP with
  | some a =>
    let f1 :=
      if a.setup = setup_value.SETUP_ACTPASS || a.setup = setup_value.SETUP_ACTIVE then
        { sp.sp_flags with SETUP_ACTIVE := true }
      else sp.sp_flags
    let f2 :=
      if a.setup = setup_value.SETUP_ACTPASS || a.setup = setup_value.SETUP_PASSIVE then
        { f1 with SETUP_PASSIVE := true }
      else f1
    { sp with sp_flags := f2 }
  | none => sp

/-- The blocks `a=fingerprint` and `a=tls-id` of the media loop body. -/
def sdp_streams_fingerprint (session : sdp_session) (media : sdp_media) (sp : stream_params) :
    stream_params :=
  let sp6 :=
    match attr_get_by_id_m_s session media ATTR_FINGERPRINT with
    | some a =>
      match a.fingerprint.hash_func with
      | some hf =>
        { sp with fingerprint :=
            { hash_func := some hf, digest := a.fingerprint.fingerprint.take hf.num_bytes,
              digest_len := hf.num_bytes } }
      | none => sp
    | none => sp
  match attr_get_by_id_m_s session media ATTR_TLS_ID with
  | some a => { sp6 with tls_id := a.strs.value }
  | none => sp6

/-- The block "OSRTP (RFC 8643)" of the media loop body. -/
def sdp_streams_osrtp (env : Env) (sp : stream_params) : stream_params :=
  match sp.protocol with
  | some p =>
    if p.rtp && !p.srtp && p.osrtp_proto ≠ 0 then
      if sp.fingerprint.hash_func.isSome || sp.sdes_params.length ≠ 0 then
        { sp with protocol := some (env.transport_protocols p.osrtp_proto) }
      else sp
    else sp
  | none => sp

/-- The part of the media loop body between `__rtp_payload_types` and
`legacy_osrtp_accept`: crypto, other attributes, direction, setup, fingerprint,
tls-id and the OSRTP protocol switch. -/
def sdp_streams_security (env : Env) (buf : List Char) (session : sdp_session)
    (media : sdp_media) (sp : stream_params) : stream_params :=
  sdp_streams_osrtp env
    (sdp_streams_fingerprint session media
      (sdp_streams_setup session media
        (sdp_streams_direction session media (sdp_streams_crypto buf media sp))))

/-- The first step of the media loop body: `fill_endpoint` for the RTP endpoint
of the fresh (all zero) stream, unless the fragment flag is set. -/
def sdp_streams_endpoint (env : Env) (session : sdp_session) (media : sdp_media)
    (flags : sdp_ng_flags) : Int × endpoint × sdp_ng_flags :=
  if !flags.fragment then fill_endpoint env {} session media flags none media.port_num
  else (0, {}, flags)

/-- The stream and the flags at the call of `__rtp_payload_types`, once the
RTP endpoint has been resolved. -/
def sdp_streams_before_codecs (env : Env) (buf : List Char) (session : sdp_session)
    (media : sdp_media) (st : streams_state) : stream_params × sdp_ng_flags :=
  let ep := sdp_streams_endpoint env session media st.flags
  sdp_streams_context env buf session media ep.2.2
    { index := st.num + 1, media_sdp_id := media.media_sdp_id, rtp_endpoint := ep.2.1 }

/-- The body of the media loop of `sdp_streams` for one media.  `has_prev`
tells whether the session has a media before this one. -/
def sdp_streams_media (env : Env) (buf : List Char) (session : sdp_session) (has_prev : Bool)
    (media : sdp_media) (st : streams_state) : media_step :=
  let num := st.num + 1
  let ep := sdp_streams_endpoint env session media st.flags
  if ep.1 ≠ 0 then
    media_step.error "No address info found for stream" { st with num := num, flags := ep.2.2 }
  else
    let c := sdp_streams_before_codecs env buf session media st
    let pt := __rtp_payload_types env buf c.1 media
    if pt.1 ≠ 0 then
      media_step.error "Invalid RTP payload types" { st with num := num, flags := c.2 }
    else
      let sp := sdp_streams_security env buf session media pt.2
      let o := legacy_osrtp_accept sp st.streams has_prev c.2 num
      if o.discard then
        media_step.next { streams := o.streams, flags := c.2, num := o.num }
          o.prev_legacy o.cur_legacy
      else
        sdp_streams_finish env buf session media
          { streams := o.streams, flags := c.2, num := o.num } o.sp o.prev_legacy

/-- Set `legacy_osrtp` on the last media of a list. -/
def mark_legacy_last (ms : List sdp_media) : List sdp_media :=
  match ms.getLast? with
  | none => ms
  | some m => ms.dropLast ++ [{ m with legacy_osrtp := true }]

/-- The media loop of `sdp_streams` over one session: `seen` are the media
already handled (with their marks), the list argument those still to come.
Returns the C return code (-1 after `goto error`), the state and the media of
the session with their `legacy_osrtp` marks. -/
def sdp_streams_media_loop (env : Env) (buf : List Char) (session : sdp_session) :
    List sdp_media → List sdp_media → streams_state → Int × streams_state × List sdp_media
  | seen, [], st => (0, st, seen)
  | seen, media :: rest, st =>
    match sdp_streams_media env buf session (!seen.isEmpty) media st with
    | media_step.error _ st1 => (-1, st1, seen ++ media :: rest)
    | media_step.next st1 prev_legacy cur_legacy =>
      let seen1 := if prev_legacy then mark_legacy_last seen else seen
      let media1 := if cur_legacy then { media with legacy_osrtp := true } else media
      sdp_streams_media_loop env buf session (seen1 ++ [media1]) rest st1

/-- The head of the session loop of `sdp_streams`: session-level values carried
in the flags. -/
def sdp_streams_session_flags (buf : List Char) (session : sdp_session) (flags : sdp_ng_flags) :
    sdp_ng_flags :=
  let f1 := { flags with
    session_attributes := sdp_attr_append_other buf flags.session_attributes session.attributes }
  let f2 := if !f1.session_sdp_orig.parsed then { f1 with session_sdp_orig := session.origin } else f1
  { f2 with
    session_sdp_name := session.session_name,
    session_rr := session.rr,
    session_rs := session.rs,
    session_timing := session.session_timing }

/-- The session loop of `sdp_streams`: `seen` are the sessions already handled.
Returns the C return code, the state and the sessions with the `legacy_osrtp`
marks set on their media. -/
def sdp_streams_loop (env : Env) (buf : List Char) :
    List sdp_session → List sdp_session → streams_state →
      Int × streams_state × List sdp_session
  | seen, [], st => (0, st, seen)
  | seen, session :: rest, st =>
    let st1 := { st with flags := sdp_streams_session_flags buf session st.flags }
    let r := sdp_streams_media_loop env buf session [] session.media_streams st1
    let session1 := { session with media_streams := r.2.2 }
    if r.1 ≠ 0 then (-1, r.2.1, seen ++ session1 :: rest)
    else sdp_streams_loop env buf (seen ++ [session1]) rest r.2.1

/-- What `sdp_streams` hands back: its return code, the stream queue, the flags
and the sessions (with the `legacy_osrtp` marks set on their media). -/
structure streams_result where
  ret : Int
  streams : List stream_params
  flags : sdp_ng_flags
  sessions : List sdp_session

/-- `sdp_streams`. -/
def sdp_streams (env : Env) (buf : List Char) (sessions : List sdp_session)
    (streams : List stream_params) (flags : sdp_ng_flags) : streams_result :=
  let r := sdp_streams_loop env buf [] sessions { streams := streams, flags := flags, num := 0 }
  { ret := r.1, streams := r.2.1.streams, flags := r.2.1.flags, sessions := r.2.2 }

/-- The media loop of `sdp_streams` is at `media` of `session` in state `st`:
the sessions before `session` and the media of `session` before `media` were
extracted without error, which left the state `st`; `has_prev` tells whether
there is a media before `media` in the session. -/
def streams_reach (env : Env) (buf : List Char) (sessions : List sdp_session)
    (streams : List stream_params) (flags : sdp_ng_flags) (session : sdp_session)
    (media : sdp_media) (has_prev : Bool) (st : streams_state) : Prop :=
  ∃ spre spost mpre mpost sta sseen mseen,
    sessions = spre ++ session :: spost ∧
    session.media_streams = mpre ++ media :: mpost ∧
    sdp_streams_loop env buf [] spre { streams := streams, flags := flags, num := 0 }
      = (0, sta, sseen) ∧
    sdp_streams_media_loop env buf session [] mpre
      { sta with flags := sdp_streams_session_flags buf session sta.flags } = (0, st, mseen) ∧
    has_prev = !mpre.isEmpty

/-- The record from which the entry of payload type `i` is built, in the words
of the specification: the media's `a=rtpmap` for that number if there is one
(the last one, when several name the number), else the entry of the static RFC
table, else a bare record that carries only the number. -/
def spec_payload_base (env : Env) (rtpmaps : List sdp_attribute) (i : Nat) : rtp_payload_type :=
  match rtpmaps.reverse.find? (fun a => decide (a.rtpmap.rtp_pt.payload_type = (i : Int))) with
  | some a => a.rtpmap.rtp_pt
  | none =>
    match env.rtp_get_rfc_payload_type i with
    | some p => p
    | none => { payload_type := (i : Int) }

/-- A payload-type record without what the format loop lays over its base:
the fmtp parameters, the rtcp-fb values and the ptime. -/
def payload_type_core (pt : rtp_payload_type) : rtp_payload_type :=
  { pt with format_parameters := [], rtcp_fb := [], ptime := 0 }

/-! ## The rewriter (`sdp_replace`)

A function that appends to a `GString` is modelled by the bytes it appends.
The chopper functions return the C return code and the chopper; functions
that may fill `flags->parsed_media_address` also return the flags. -/

/-- `printf("%u")` and `printf("%llu")` of a number. -/
def print_uint (n : Nat) : List Char := Nat.toDigits 10 n

/-- `printf("%i")`. -/
def print_int (n : Int) : List Char :=
  if n < 0 then '-' :: Nat.toDigits 10 n.natAbs else Nat.toDigits 10 n.natAbs

/-- `sdp_manipulations_add`: one `a=` line per add directive. -/
def sdp_manipulations_add (chop : sdp_chopper) (sm : Option sdp_manipulations) : sdp_chopper :=
  match sm with
  | none => chop
  | some m =>
    m.add_commands.foldl
      (fun c v => chopper_append c ("a=".toList ++ v ++ "\r\n".toList)) chop

/-- `generic_append_attr_to_gstring`: the bytes appended for the attribute
`attr`, with `value` after the separator when it is there and not empty. -/
def generic_append_attr_to_gstring (flags : sdp_ng_flags) (attr : List Char) (separator : Char)
    (value : Option (List Char)) (media_type : Nat) : List Char :=
  let sm := flags.sdp_manipulations media_type
  if sdp_manipulate_remove sm attr then []
  else
    match sdp_manipulations_subst sm attr with
    | some attr_subst => "a=".toList ++ attr_subst ++ "\r\n".toList
    | none =>
      if (value.getD []).length ≠ 0 then
        let complete := attr ++ [separator] ++ value.getD []
        if sdp_manipulate_remove sm complete then []
        else
          match sdp_manipulations_subst sm complete with
          | some attr_subst => "a=".toList ++ attr_subst ++ "\r\n".toList
          | none => "a=".toList ++ complete ++ "\r\n".toList
      else "a=".toList ++ attr ++ "\r\n".toList

/-- `append_str_attr_to_gstring` and `append_attr_to_gstring` (`a=name:value`). -/
def append_attr_to_gstring (flags : sdp_ng_flags) (name : List Char)
    (value : Option (List Char)) (media_type : Nat) : List Char :=
  generic_append_attr_to_gstring flags name ':' value media_type

/-- `sdp_manipulate_remove_c`. -/
def sdp_manipulate_remove_c (attr_name : List Char) (flags : sdp_ng_flags) (media_type : Nat) :
    Bool :=
  sdp_manipulate_remove (flags.sdp_manipulations media_type) attr_name

/-- `append_int_tagged_attr_to_gstring` (`a=name:uint value`). -/
def append_int_tagged_attr_to_gstring (flags : sdp_ng_flags) (name : List Char) (tag : Nat)
    (value : Option (List Char)) (media_type : Nat) : List Char :=
  if sdp_manipulate_remove_c name flags media_type then []
  else generic_append_attr_to_gstring flags (name ++ [':'] ++ print_uint tag) ' ' value media_type

/-- `append_attr_int_to_gstring`. -/
def append_attr_int_to_gstring (flags : sdp_ng_flags) (name : List Char) (value : Int)
    (media_type : Nat) : List Char :=
  append_int_tagged_attr_to_gstring flags name (to_uint32 value) none media_type

/-- `replace_transport_protocol`. -/
def replace_transport_protocol (chop : sdp_chopper) (media : sdp_media) (cm : call_media) :
    Int × sdp_chopper :=
  match cm.protocol with
  | none => (0, chop)
  | some protocol =>
    let r1 := copy_up_to chop media.transport
    if r1.1 ≠ 0 then (-1, r1.2)
    else
      let r2 := skip_over (chopper_append r1.2 protocol.name) media.transport
      if r2.1 ≠ 0 then (-1, r2.2) else (0, r2.2)

/-- `print_format_str`. -/
def print_format_str (cm : call_media) : List Char := cm.format_str.getD []

/-- `print_codec_list`: the payload type numbers of the codec preferences,
separated by single spaces; the call's format string for a protocol that is
not RTP. -/
def print_codec_list (env : Env) (media : call_media) : List Char :=
  if !env.proto_is_rtp media.protocol then print_format_str media
  else if media.codec_prefs.length = 0 then []
  else
    [' '].intercalate (media.codec_prefs.map (fun pt => print_uint (to_uint32 pt.payload_type)))

/-- `replace_codec_list`. -/
def replace_codec_list (env : Env) (chop : sdp_chopper) (media : sdp_media) (cm : call_media) :
    Int × sdp_chopper :=
  let r1 := copy_up_to chop media.formats
  if r1.1 ≠ 0 then (-1, r1.2)
  else
    let r2 := skip_over r1.2 media.formats
    if r2.1 ≠ 0 then (-1, r2.2) else (0, chopper_append r2.2 (print_codec_list env cm))

/-- The lines that `insert_codec_parameters` appends for one payload type. -/
def insert_codec_parameters1 (env : Env) (cm : call_media) (flags : sdp_ng_flags)
    (pt : rtp_payload_type) : List Char :=
  if pt.encoding_with_params.length = 0 then []
  else
    let rtpmap := append_int_tagged_attr_to_gstring flags "rtpmap".toList
      (to_uint32 pt.payload_type) (some pt.encoding_with_params) cm.type_id
    let fmtp := env.format_print pt
    let fmtp1 :=
      match fmtp with
      | some f =>
        if f.length ≠ 0 then
          append_int_tagged_attr_to_gstring flags "fmtp".toList (to_uint32 pt.payload_type)
            (some f) cm.type_id
        else []
      | none =>
        if pt.format_parameters.length ≠ 0 then
          append_int_tagged_attr_to_gstring flags "fmtp".toList (to_uint32 pt.payload_type)
            (some pt.format_parameters) cm.type_id
        else []
    let rtcp_fb := (pt.rtcp_fb.map (fun fb =>
      append_int_tagged_attr_to_gstring flags "rtcp-fb".toList (to_uint32 pt.payload_type)
        (some fb) cm.type_id)).flatten
    rtpmap ++ fmtp1 ++ rtcp_fb

/-- `insert_codec_parameters`. -/
def insert_codec_parameters (env : Env) (cm : call_media) (flags : sdp_ng_flags) : List Char :=
  (cm.codec_prefs.map (insert_codec_parameters1 env cm flags)).flatten

/-- `replace_media_type`. -/
def replace_media_type (chop : sdp_chopper) (media : sdp_media) (cm : call_media) :
    Int × sdp_chopper :=
  match cm.type with
  | none => (0, chop)
  | some type =>
    let r1 := copy_up_to chop media.media_type_str
    if r1.1 ≠ 0 then (-1, r1.2)
    else
      let r2 := skip_over (chopper_append r1.2 type) media.media_type_str
      if r2.1 ≠ 0 then (-1, r2.2) else (0, r2.2)

/-- `replace_media_port`. -/
def replace_media_port (chop : sdp_chopper) (media : sdp_media) (ps : packet_stream) :
    Int × sdp_chopper :=
  if media.port_num = 0 then (0, chop)
  else
    let r1 := copy_up_to chop media.port
    if r1.1 ≠ 0 then (-1, r1.2)
    else
      let p : Nat :=
        match ps.selected_sfd with
        | some sfd => sfd.local_port
        | none => 0
      let r2 := skip_over (chopper_append r1.2 (print_uint p)) media.port
      if r2.1 ≠ 0 then (-1, r2.2) else (0, r2.2)

/-- The `for` loop of `replace_consecutive_port_count`, started with the
count `cons`; `j` holds the streams after the current link.  The result is the
count at which the loop stops.  It is `none` when the loop reads
`ps_n->selected_sfd->socket` of a stream that has no selected socket: the
program dereferences a NULL pointer there and has no result. -/
def consecutive_ports (port_count : Int) (base : Nat) : Int → List packet_stream → Option Int
  | cons, [] => some cons
  | cons, ps_n :: rest =>
    if cons < port_count then
      match ps_n.selected_sfd with
      | none => none
      | some sfd =>
        if (sfd.local_port : Int) ≠ (base : Int) + cons then some cons
        else consecutive_ports port_count base (cons + 1) rest
    else some cons

/-- `replace_consecutive_port_count`; `j` is the stream list from the RTP stream
on.  The result is `none` when the loop dereferences a NULL pointer
(`consecutive_ports`). -/
def replace_consecutive_port_count (chop : sdp_chopper) (media : sdp_media)
    (ps : packet_stream) (j : List packet_stream) : Option (Int × sdp_chopper) :=
  if media.port_count = 1 then some (0, chop)
  else
    match ps.selected_sfd with
    | none => some (0, chop)
    | some sfd =>
      match consecutive_ports media.port_count sfd.local_port 1 j.tail with
      | none => none
      | some cons => some (0, chopper_append chop ('/' :: print_int cons))

/-- The address that `replace_network_address` and `insert_rtcp_attr` print. -/
def print_media_address (env : Env) (flags : sdp_ng_flags) (ps : packet_stream)
    (keep_unspec : Bool) : List Char :=
  if !env.is_addr_unspecified flags.parsed_media_address then
    env.family_rfc_name flags.parsed_media_address ++ [' '] ++
      env.sockaddr_print_buf flags.parsed_media_address
  else env.call_stream_address46 ps keep_unspec

/-- `replace_network_address`. -/
def replace_network_address (env : Env) (chop : sdp_chopper) (address : network_address)
    (ps : packet_stream) (flags : sdp_ng_flags) (keep_unspec : Bool) :
    Int × sdp_chopper × sdp_ng_flags :=
  let r1 := copy_up_to chop address.address_type
  if r1.1 ≠ 0 then (-1, r1.2, flags)
  else
    let flags1 :=
      match flags.media_address with
      | some ma =>
        if env.is_addr_unspecified flags.parsed_media_address then
          match __parse_address env none none ma with
          | some a => { flags with parsed_media_address := a }
          | none => flags
        else flags
      | none => flags
    let c2 := chopper_append r1.2 (print_media_address env flags1 ps keep_unspec)
    let r3 := skip_over c2 address.address
    if r3.1 ≠ 0 then (-1, r3.2, flags1) else (0, r3.2, flags1)

/-- `synth_session_connection`. -/
def synth_session_connection (buf : List Char) (chop : sdp_chopper) (session : sdp_session)
    (sdp_media : sdp_media) : Int × sdp_chopper :=
  match session.connection.s.s with
  | none => (-1, chop)
  | some _ =>
    let r1 :=
      match sdp_media.c_line_pos with
      | some p => copy_up_to_ptr chop (some p)
      | none => copy_up_to_end_of chop { s := some 0, len := chop.input_len }
    (0, chopper_append r1.2 ("c=".toList ++ str_bytes buf session.connection.s ++ "\n".toList))

/-! ### Rewriting of the media-level attributes -/

/-- The first `switch` of `process_media_attributes`: `true` is `goto strip`,
`false` is `break`. -/
def media_attr_switch (flags : sdp_ng_flags) (media : call_media) (buf : List Char)
    (attr : sdp_attribute) : Bool :=
  match attr.attr with
  | ATTR_ICE | ATTR_ICE_UFRAG | ATTR_ICE_PWD | ATTR_ICE_OPTIONS | ATTR_ICE_LITE =>
    if media.media_flags.PASSTHRU then false else ice_strip flags
  | ATTR_CANDIDATE =>
    if flags.ice_option = ice_option_t.ICE_FORCE_RELAY then candidate_is_relay buf attr
    else if media.media_flags.PASSTHRU then false
    else ice_strip flags
  | ATTR_IGNORE | ATTR_END_OF_CANDIDATES | ATTR_MID => true
  | ATTR_INACTIVE | ATTR_SENDONLY | ATTR_RECVONLY | ATTR_SENDRECV => !flags.original_sendrecv
  | ATTR_OTHER => true
  | _ => false

/-- The second `switch` of `process_media_attributes`, reached when the call
media has a protocol: `true` is `goto strip`, `false` is `break`. -/
def media_attr_switch2 (flags : sdp_ng_flags) (media : call_media) (attr : sdp_attribute) :
    Bool :=
  match attr.attr with
  | ATTR_RTCP | ATTR_RTCP_MUX =>
    if flags.ice_option = ice_option_t.ICE_FORCE_RELAY then false else true
  | ATTR_RTPMAP | ATTR_FMTP => decide (media.codec_prefs.length > 0)
  | ATTR_PTIME => decide (media.ptime ≠ 0)
  | ATTR_RTCP_FB =>
    if attr.rtcp_fb.payload_type = to_uint32 (-1) then false
    else decide (media.codec_prefs.length > 0)
  | ATTR_CRYPTO | ATTR_FINGERPRINT | ATTR_SETUP | ATTR_TLS_ID =>
    if media.media_flags.PASSTHRU then false else true
  | _ => false

/-- The decision of the loop body of `process_media_attributes` for one attribute. -/
def media_attr_action (flags : sdp_ng_flags) (media : call_media) (sdp : sdp_media)
    (buf : List Char) (attr : sdp_attribute) : attr_action :=
  if media.media_flags.GENERATOR then attr_action.strip
  else
    let sm := flags.sdp_manipulations sdp.media_type_id
    if media_attr_switch flags media buf attr then attr_action.strip
    else if media.protocol.isNone then attr_action.keep
    else if media_attr_switch2 flags media attr then attr_action.strip
    else if sdp_manipulate_remove_attr sm buf attr then attr_action.strip
    else match sdp_manipulations_subst_attr sm buf attr with
      | some subst_str => attr_action.strip_with_subst subst_str
      | none => attr_action.keep

/-- `process_media_attributes`. -/
def process_media_attributes (chop : sdp_chopper) (sdp : sdp_media) (flags : sdp_ng_flags)
    (media : call_media) : Int × sdp_chopper :=
  process_attrs_loop (media_attr_action flags media sdp chop.input) chop sdp.attributes.list

/-! ### Synthesized lines -/

/-- `sdp_get_sendrecv`. -/
def sdp_get_sendrecv (media : call_media) : List Char :=
  if media.media_flags.SEND && media.media_flags.RECV then "sendrecv".toList
  else if media.media_flags.SEND then "sendonly".toList
  else if media.media_flags.RECV then "recvonly".toList
  else "inactive".toList

/-- `insert_rtcp_attr`.  The port is that of the selected socket of the stream
(0 stands for a stream without one, which the C code does not expect here). -/
def insert_rtcp_attr (env : Env) (ps : packet_stream) (flags : sdp_ng_flags)
    (sdp_media : sdp_media) : List Char :=
  if flags.no_rtcp_attr then []
  else
    let port := print_uint ((ps.selected_sfd.map (fun sfd => sfd.local_port)).getD 0)
    let s_dst :=
      if flags.full_rtcp_attr then
        port ++ " IN ".toList ++ print_media_address env flags ps false
      else port
    append_attr_to_gstring flags "rtcp".toList (some s_dst) sdp_media.media_type_id

/-- `print_rtcp`: the bytes appended and the RTCP stream handed back (`none`
is `NULL`); `rtp_ps_link` is the stream list from the RTP stream on. -/
def print_rtcp (env : Env) (media : call_media) (rtp_ps_link : List packet_stream)
    (flags : sdp_ng_flags) (sdp_media : sdp_media) : List Char × Option packet_stream :=
  match rtp_ps_link with
  | [] => ([], none)
  | ps :: next =>
    if ps.rtcp_sibling && next.isEmpty then ([], none)
    else
      let ps_rtcp : Option packet_stream := if ps.rtcp_sibling then next.head? else none
      if env.proto_is_rtp media.protocol then
        if media.media_flags.RTCP_MUX &&
            (flags.opmode = call_opmode.OP_ANSWER || flags.opmode = call_opmode.OP_PUBLISH ||
              ((flags.opmode = call_opmode.OP_OFFER || flags.opmode = call_opmode.OP_REQUEST)
                && flags.rtcp_mux_require) ||
              env.IS_OP_OTHER flags.opmode) then
          (insert_rtcp_attr env ps flags sdp_media ++
            append_attr_to_gstring flags "rtcp-mux".toList none media.type_id, none)
        else
          match ps_rtcp with
          | some r =>
            if flags.ice_option ≠ ice_option_t.ICE_FORCE_RELAY then
              (insert_rtcp_attr env r flags sdp_media ++
                (if media.media_flags.RTCP_MUX then
                  append_attr_to_gstring flags "rtcp-mux".toList none media.type_id
                 else []), some r)
            else ([], some r)
          | none => ([], none)
      else ([], none)

/-- `print_sdp_session_section`. -/
def print_sdp_session_section (env : Env) (flags : sdp_ng_flags) (call_media : call_media) :
    List Char :=
  (if flags.loop_protect then
    append_attr_to_gstring flags "rtpengine".toList (some env.rtpe_instance_id) MT_UNKNOWN
   else []) ++
  (if call_media.media_flags.ICE && call_media.media_flags.ICE_LITE_SELF then
    append_attr_to_gstring flags "ice-lite".toList none MT_UNKNOWN
   else [])

/-- `insert_crypto`. -/
def insert_crypto (env : Env) (media : call_media) (flags : sdp_ng_flags) : List Char :=
  match media.protocol with
  | none => []
  | some p =>
    if !p.srtp then []
    else (media.sdes_out.map (fun cps => env.insert_crypto1 media cps flags)).flatten

/-- `insert_dtls`: nothing unless the protocol is SRTP. -/
def insert_dtls (env : Env) (media : call_media) (dtls : Option stream_fd)
    (flags : sdp_ng_flags) : List Char :=
  match media.protocol with
  | none => []
  | some p => if !p.srtp then [] else env.insert_dtls_srtp media dtls flags

/-- The part of `print_sdp_media_section` under `if (is_active)`. -/
def print_sdp_media_active (env : Env) (media : call_media) (sdp_media : sdp_media)
    (flags : sdp_ng_flags) (rtp_ps_link : List packet_stream) : List Char :=
  let rtcp := print_rtcp env media rtp_ps_link flags sdp_media
  (if env.proto_is_rtp media.protocol then insert_codec_parameters env media flags else []) ++
  env.sdp_attr_print media flags ++
  (if !flags.original_sendrecv then
    append_attr_to_gstring flags (sdp_get_sendrecv media) none media.type_id
   else []) ++
  rtcp.1 ++
  (if env.proto_is_rtp media.protocol then
    insert_crypto env media flags ++
    insert_dtls env media ((rtp_ps_link.head?).bind (fun ps => ps.selected_sfd)) flags ++
    (if media.ptime ≠ 0 then
      append_attr_int_to_gstring flags "ptime".toList media.ptime media.type_id
     else [])
   else []) ++
  (match media.ice_agent with
   | some ag =>
     (if media.media_flags.ICE then
       append_attr_to_gstring flags "ice-ufrag".toList (some ag.ufrag) media.type_id ++
       append_attr_to_gstring flags "ice-pwd".toList (some ag.pwd) media.type_id
      else []) ++
     (if media.media_flags.TRICKLE_ICE then
       append_attr_to_gstring flags "ice-options".toList (some "trickle".toList) media.type_id
      else [])
   | none => []) ++
  (if media.media_flags.ICE then
    match rtp_ps_link with
    | rtp_ps :: _ => env.insert_candidates media rtp_ps rtcp.2 flags sdp_media
    | [] => []
   else [])

/-- `print_sdp_media_section`: the bytes appended. -/
def print_sdp_media_section (env : Env) (media : call_media) (sdp_media : sdp_media)
    (flags : sdp_ng_flags) (rtp_ps_link : List packet_stream) (is_active : Bool)
    (force_end_of_ice : Bool) : List Char :=
  (match media.media_id with
   | some mid => append_attr_to_gstring flags "mid".toList (some mid) media.type_id
   | none => []) ++
  (if media.label.length ≠ 0 && flags.siprec then
    append_attr_to_gstring flags "label".toList (some media.label) media.type_id
   else []) ++
  (if is_active then print_sdp_media_active env media sdp_media flags rtp_ps_link else []) ++
  (if (media.media_flags.TRICKLE_ICE && media.ice_agent.isSome) || force_end_of_ice then
    append_attr_to_gstring flags "end-of-candidates".toList none media.type_id
   else [])

/-! ### Media sections

The functions of this part return the error string (`none` when there is no
error), the chopper and the flags as the call leaves them. -/

/-- The replacements on the `m=` line and the media-level `c=` line that
`replace_sdp_media_section` makes on its main path.  Where
`replace_consecutive_port_count` dereferences a NULL pointer the program has no
result; this outcome is passed on through the error string, so that a rewrite
which ends without an error string is one that the program completes. -/
def replace_media_line (env : Env) (chop : sdp_chopper) (call_media : call_media)
    (sdp_media : sdp_media) (rtp_ps_link : List packet_stream) (flags : sdp_ng_flags)
    (keep_zero_address : Bool) : Option String × sdp_chopper × sdp_ng_flags :=
  let ps := rtp_ps_link.headD {}
  let r1 := replace_media_type chop sdp_media call_media
  if r1.1 ≠ 0 then (some "failed to replace media type", r1.2, flags)
  else
    let r2 := replace_media_port r1.2 sdp_media ps
    if r2.1 ≠ 0 then (some "failed to replace media port", r2.2, flags)
    else
      match replace_consecutive_port_count r2.2 sdp_media ps rtp_ps_link with
      | none => (some "NULL pointer dereferenced in replace_consecutive_port_count", r2.2, flags)
      | some r3 =>
        if r3.1 ≠ 0 then (some "failed to replace media port count", r3.2, flags)
        else
          let r4 := replace_transport_protocol r3.2 sdp_media call_media
          if r4.1 ≠ 0 then (some "failed to replace media protocol", r4.2, flags)
          else
            let r5 := replace_codec_list env r4.2 sdp_media call_media
            if r5.1 ≠ 0 then (some "failed to replace media formats", r5.2, flags)
            else if sdp_media.connection.parsed then
              let r6 := replace_network_address env r5.2 sdp_media.connection.address ps flags
                keep_zero_address
              if r6.1 ≠ 0 then (some "failed to replace media network address", r6.2.1, r6.2.2)
              else (none, r6.2.1, r6.2.2)
            else (none, r5.2, flags)

/-- The end of `replace_sdp_media_section` from the label `next` on. -/
def replace_media_print (env : Env) (chop : sdp_chopper) (call_media : call_media)
    (sdp_media : sdp_media) (rtp_ps_link : List packet_stream) (flags : sdp_ng_flags)
    (is_active : Bool) : sdp_chopper :=
  chopper_append chop
    (print_sdp_media_section env call_media sdp_media flags rtp_ps_link is_active
      (attr_get_by_id sdp_media.attributes ATTR_END_OF_CANDIDATES).isSome)

/-- The part of `replace_sdp_media_section` after the first `if`: the media
attributes, the rest of the section, and the synthesized lines. -/
def replace_media_attributes (env : Env) (chop : sdp_chopper) (call_media : call_media)
    (sdp_media : sdp_media) (rtp_ps_link : List packet_stream) (flags : sdp_ng_flags) :
    Option String × sdp_chopper × sdp_ng_flags :=
  let ps := rtp_ps_link.headD {}
  let r := process_media_attributes chop sdp_media flags call_media
  if r.1 ≠ 0 then (some "failed to process media attributes", r.2, flags)
  else
    let c := (copy_up_to_end_of r.2 sdp_media.s).2
    let is_active := !(decide (sdp_media.port_num = 0) || ps.selected_sfd.isNone)
    (none, replace_media_print env c call_media sdp_media rtp_ps_link flags is_active, flags)

/-- `replace_sdp_media_section`.  `session` is `sdp_media->session`. -/
def replace_sdp_media_section (env : Env) (buf : List Char) (chop : sdp_chopper)
    (call_media : call_media) (session : sdp_session) (sdp_media : sdp_media)
    (rtp_ps_link : List packet_stream) (flags : sdp_ng_flags) (keep_zero_address : Bool) :
    Option String × sdp_chopper × sdp_ng_flags :=
  if flags.ice_option ≠ ice_option_t.ICE_FORCE_RELAY && call_media.type_id ≠ MT_MESSAGE then
    let r := replace_media_line env chop call_media sdp_media rtp_ps_link flags keep_zero_address
    if r.1.isSome then r
    else replace_media_attributes env r.2.1 call_media sdp_media rtp_ps_link r.2.2
  else if call_media.type_id = MT_MESSAGE then
    if !sdp_media.connection.parsed then
      let r := synth_session_connection buf chop session sdp_media
      if r.1 ≠ 0 then (some "failed to generate connection line", r.2, flags)
      else
        (none, replace_media_print env r.2 call_media sdp_media rtp_ps_link flags false, flags)
    else (none, replace_media_print env chop call_media sdp_media rtp_ps_link flags false, flags)
  else replace_media_attributes env chop call_media sdp_media rtp_ps_link flags

/-! ### The SDP version -/

/-- `g_string_overwrite` and `g_string_overwrite_len`. -/
def g_string_overwrite (s : List Char) (pos : Nat) (val : List Char) : List Char :=
  if pos > s.length then s else s.take pos ++ val ++ s.drop (pos + val.length)

/-- `g_string_insert`. -/
def g_string_insert (s : List Char) (pos : Nat) (val : List Char) : List Char :=
  if pos > s.length then s else s.take pos ++ val ++ s.drop pos

/-- `g_string_erase` with a length that is not negative. -/
def g_string_erase (s : List Char) (pos len : Nat) : List Char :=
  if pos > s.length then s
  else if pos + len > s.length then s
  else s.take pos ++ s.drop (pos + len)

/-- The C string that begins with the bytes `s`: the bytes in front of the
first NUL byte (`strlen` of them).  A NUL byte follows the bytes of `s` in memory. -/
def c_string (s : List Char) : List Char := s.takeWhile (fun c => c != Char.ofNat 0)

/-- `chopper_replace`: the chopper, and the length `old->len` and the position
`*old_pos` as the call leaves them.  `repl` holds the `repl_len` bytes at the
pointer `repl`.  `g_string_overwrite_len` writes the `old->len` bytes it is
told to, while `g_string_overwrite` and `g_string_insert` take their argument
as a C string and write the bytes in front of its first NUL byte. -/
def chopper_replace (c : sdp_chopper) (old_len old_pos : Nat) (repl : List Char) :
    sdp_chopper × Nat × Nat :=
  let pos := (((old_pos : Int) + c.offset) % 2 ^ 64).toNat
  if repl.length > old_len then
    let o1 := g_string_overwrite c.output pos (repl.take old_len)
    let o2 := g_string_insert o1 (pos + old_len) (c_string (repl.drop old_len))
    ({ c with output := o2, offset := c.offset + ((repl.length : Int) - old_len) },
      repl.length, pos)
  else
    let o1 := g_string_overwrite c.output pos (c_string repl)
    if repl.length < old_len then
      ({ c with output := g_string_erase o1 (pos + repl.length) (old_len - repl.length),
                offset := c.offset - ((old_len : Int) - repl.length) }, repl.length, pos)
    else ({ c with output := o1 }, old_len, pos)

/-- The loop of `sdp_version_replace` over the sessions. -/
def sdp_version_replace_loop (version_str : List Char) :
    sdp_chopper → List sdp_session → sdp_chopper × List sdp_session
  | chop, [] => (chop, [])
  | chop, session :: rest =>
    let r := chopper_replace chop session.origin.version_str.len
      session.origin.version_output_pos version_str
    let session1 := { session with origin := { session.origin with
      version_str := { session.origin.version_str with len := r.2.1 },
      version_output_pos := r.2.2 } }
    let t := sdp_version_replace_loop version_str r.1 rest
    (t.1, session1 :: t.2)

/-- `sdp_version_replace`. -/
def sdp_version_replace (chop : sdp_chopper) (sessions : List sdp_session)
    (orig : monologue_origin) : sdp_chopper × List sdp_session :=
  sdp_version_replace_loop (print_uint orig.version_num) { chop with offset := 0 } sessions

/-- `sdp_version_check`: the chopper, the sessions and the monologue after the call. -/
def sdp_version_check (chop : sdp_chopper) (sessions : List sdp_session)
    (monologue : call_monologue) (force_increase : Bool) :
    sdp_chopper × List sdp_session × call_monologue :=
  match monologue.session_last_sdp_orig with
  | none => (chop, sessions, monologue)
  | some origin =>
    let r1 := sdp_version_replace chop sessions origin
    let bump : Bool :=
      force_increase ||
        (match monologue.last_out_sdp with
         | none => false
         | some last => last != r1.1.output)
    if !force_increase && monologue.last_out_sdp.isNone then
      (r1.1, r1.2, { monologue with last_out_sdp := some r1.1.output })
    else if !bump then (r1.1, r1.2, monologue)
    else
      let origin1 := { origin with version_num := (origin.version_num + 1) % 2 ^ 64 }
      let r2 := sdp_version_replace r1.1 r1.2 origin1
      (r2.1, r2.2, { monologue with
        session_last_sdp_orig := some origin1, last_out_sdp := some r2.1.output })

/-! ### Sessions -/

/-- The state that the loops of `sdp_replace` carry. -/
structure replace_state where
  chop : sdp_chopper
  flags : sdp_ng_flags
  monologue : call_monologue
  media_index : Nat := 0

/-- The search loop at the head of the session loop: the first call media,
from `media_index` on, whose first stream has a selected socket. -/
def find_session_ps : List (Option call_media) → Option (call_media × packet_stream)
  | [] => none
  | none :: rest => find_session_ps rest
  | some call_media :: rest =>
    match call_media.streams with
    | [] => find_session_ps rest
    | ps :: _ => if ps.selected_sfd.isSome then some (call_media, ps) else find_session_ps rest

/-- One replacement of an `o=` or `s=` field: copy up to it, append the new
bytes, skip the old ones. -/
def replace_field (chop : sdp_chopper) (field : Str) (repl : List Char) : Int × sdp_chopper :=
  let r1 := copy_up_to chop field
  if r1.1 ≠ 0 then (-1, r1.2)
  else
    let r2 := skip_over (chopper_append r1.2 repl) field
    if r2.1 ≠ 0 then (-1, r2.2) else (0, r2.2)

/-- The `o=` line block of the session loop: username, session id, the
position of the version, a version number at its maximum, and the address. -/
def sdp_replace_origin (env : Env) (session : sdp_session) (ps : packet_stream)
    (st : replace_state) : Option String × replace_state × sdp_session :=
  let err := "error while processing o= line"
  let r1 : Int × sdp_chopper :=
    match st.monologue.session_last_sdp_orig with
    | some orig =>
      if st.flags.replace_username || st.flags.replace_origin_full then
        replace_field st.chop session.origin.username orig.username
      else (0, st.chop)
    | none => (0, st.chop)
  if r1.1 ≠ 0 then (some err, { st with chop := r1.2 }, session)
  else
    let r2 : Int × sdp_chopper :=
      match st.monologue.session_last_sdp_orig with
      | some orig =>
        if st.flags.replace_origin_full then
          replace_field r1.2 session.origin.session_id orig.session_id
        else (0, r1.2)
      | none => (0, r1.2)
    if r2.1 ≠ 0 then (some err, { st with chop := r2.2 }, session)
    else
      let r3 := copy_up_to r2.2 session.origin.version_str
      if r3.1 ≠ 0 then (some err, { st with chop := r3.2 }, session)
      else
        let session1 := { session with origin := { session.origin with
          version_output_pos := r3.2.output.length } }
        let monologue1 : call_monologue :=
          match st.monologue.session_last_sdp_orig with
          | some orig =>
            if orig.version_num = ULLONG_MAX then
              { st.monologue with
                session_last_sdp_orig := some { orig with version_num := env.ssl_random % 2 ^ 32 } }
            else st.monologue
          | none => st.monologue
        if (st.flags.replace_origin || st.flags.replace_origin_full) &&
            st.flags.ice_option ≠ ice_option_t.ICE_FORCE_RELAY then
          let r4 := replace_network_address env r3.2 session.origin.address ps st.flags false
          if r4.1 ≠ 0 then
            (some "failed to replace network address",
              { st with chop := r4.2.1, flags := r4.2.2, monologue := monologue1 }, session1)
          else
            (none, { st with chop := r4.2.1, flags := r4.2.2, monologue := monologue1 }, session1)
        else (none, { st with chop := r3.2, monologue := monologue1 }, session1)

/-- The `s=` line block of the session loop. -/
def sdp_replace_name (buf : List Char) (session : sdp_session) (st : replace_state) :
    Option String × replace_state :=
  match st.monologue.sdp_session_name with
  | none =>
    (none, { st with
      monologue := { st.monologue with
        sdp_session_name := some (str_bytes buf session.session_name) } })
  | some name =>
    if st.flags.replace_sess_name then
      let r := replace_field st.chop session.session_name name
      if r.1 ≠ 0 then (some "error while processing s= line", { st with chop := r.2 })
      else (none, { st with chop := r.2 })
    else (none, st)

/-- The session-level `c=` line block of the session loop. -/
def sdp_replace_connection (env : Env) (session : sdp_session) (ps : packet_stream)
    (keep_zero_address : Bool) (st : replace_state) : Option String × replace_state :=
  if session.connection.parsed && st.flags.ice_option ≠ ice_option_t.ICE_FORCE_RELAY then
    let r := replace_network_address env st.chop session.connection.address ps st.flags
      keep_zero_address
    if r.1 ≠ 0 then
      (some "failed to replace network address", { st with chop := r.2.1, flags := r.2.2 })
    else (none, { st with chop := r.2.1, flags := r.2.2 })
  else (none, st)

/-- The end of the session-level part of the session loop: the session
attributes, the rest of the session slice, the synthesized session lines and
the added directives. -/
def sdp_replace_session_end (env : Env) (session : sdp_session) (call_media : call_media)
    (st : replace_state) : Option String × replace_state :=
  let r : Int × sdp_chopper :=
    if !call_media.media_flags.PASSTHRU then
      process_session_attributes st.chop session.attributes st.flags
    else (0, st.chop)
  if r.1 ≠ 0 then (some "failed to process session attributes", { st with chop := r.2 })
  else
    let c1 := (copy_up_to_end_of r.2 session.s).2
    let c2 := chopper_append c1 (print_sdp_session_section env st.flags call_media)
    (none, { st with chop := sdp_manipulations_add c2 (st.flags.sdp_manipulations MT_UNKNOWN) })

/-- The rejected `m=` line generated for an accepted legacy OSRTP offer. -/
def rejected_m_line (call_media : call_media) (prtp : transport_protocol) : List Char :=
  "m=".toList ++ call_media.type.getD [] ++ " 0 ".toList ++ prtp.name ++ " ".toList ++
    call_media.format_str.getD [] ++ "\r\n".toList

/-- The body of the media loop of `sdp_replace` for one media section. -/
def sdp_replace_media (env : Env) (buf : List Char) (session : sdp_session)
    (keep_zero_address : Bool) (sdp_media : sdp_media) (st : replace_state) :
    Option String × replace_state :=
  if sdp_media.legacy_osrtp then
    let r := skip_over st.chop sdp_media.s
    if r.1 ≠ 0 then (some "skipping a legacy OSRTP section", { st with chop := r.2 })
    else (none, { st with chop := r.2 })
  else
    match st.monologue.medias.getD st.media_index none with
    | none => (some "no matching media", st)
    | some call_media =>
      if call_media.streams.isEmpty then (some "no matching media stream", st)
      else
        let prtp : Option transport_protocol :=
          match call_media.protocol with
          | some p => if p.srtp then some (env.transport_protocols p.rtp_proto) else none
          | none => none
        let legacy := call_media.media_flags.LEGACY_OSRTP
        let legacy_rev := call_media.media_flags.LEGACY_OSRTP_REV
        let pre : Option String × sdp_chopper × sdp_ng_flags :=
          match prtp with
          | some pr =>
            if legacy && !legacy_rev then
              (none, chopper_append st.chop (rejected_m_line call_media pr), st.flags)
            else if st.flags.osrtp_offer_legacy && st.flags.opmode = call_opmode.OP_OFFER then
              let d := replace_sdp_media_section env buf st.chop
                { call_media with protocol := some pr } session sdp_media call_media.streams
                st.flags keep_zero_address
              (d.1, { d.2.1 with position := st.chop.position, offset := st.chop.offset }, d.2.2)
            else (none, st.chop, st.flags)
          | none => (none, st.chop, st.flags)
        if pre.1.isSome then (pre.1, { st with chop := pre.2.1, flags := pre.2.2 })
        else
          let r := replace_sdp_media_section env buf pre.2.1 call_media session sdp_media
            call_media.streams pre.2.2 keep_zero_address
          if r.1.isSome then (r.1, { st with chop := r.2.1, flags := r.2.2 })
          else
            let c1 :=
              match prtp with
              | some pr =>
                if legacy && legacy_rev then
                  chopper_append r.2.1 (rejected_m_line call_media pr)
                else r.2.1
              | none => r.2.1
            (none, { st with
              chop := sdp_manipulations_add c1 (r.2.2.sdp_manipulations sdp_media.media_type_id),
              flags := r.2.2,
              media_index := st.media_index + 1 })

/-- The media loop of `sdp_replace` over the media sections of a session. -/
def sdp_replace_media_loop (env : Env) (buf : List Char) (session : sdp_session)
    (keep_zero_address : Bool) : List sdp_media → replace_state → Option String × replace_state
  | [], st => (none, st)
  | sdp_media :: rest, st =>
    let r := sdp_replace_media env buf session keep_zero_address sdp_media st
    if r.1.isSome then r
    else sdp_replace_media_loop env buf session keep_zero_address rest r.2

/-- The body of the session loop of `sdp_replace`: the error string, the state
and the session (whose `version_output_pos` the body records). -/
def sdp_replace_session (env : Env) (buf : List Char) (session : sdp_session)
    (st : replace_state) : Option String × replace_state × sdp_session :=
  match find_session_ps (st.monologue.medias.drop st.media_index) with
  | none => (some "no usable session media stream", st, session)
  | some (call_media, ps) =>
    let o := sdp_replace_origin env session ps st
    if o.1.isSome then o
    else
      let n := sdp_replace_name buf o.2.2 o.2.1
      if n.1.isSome then (n.1, n.2, o.2.2)
      else
        let keep_zero_address := !call_media.media_flags.ICE
        let c := sdp_replace_connection env o.2.2 ps keep_zero_address n.2
        if c.1.isSome then (c.1, c.2, o.2.2)
        else
          let e := sdp_replace_session_end env o.2.2 call_media c.2
          if e.1.isSome then (e.1, e.2, o.2.2)
          else
            let m := sdp_replace_media_loop env buf o.2.2 keep_zero_address
              o.2.2.media_streams e.2
            (m.1, m.2, o.2.2)

/-- The session loop of `sdp_replace`. -/
def sdp_replace_loop (env : Env) (buf : List Char) :
    List sdp_session → replace_state → Option String × replace_state × List sdp_session
  | [], st => (none, st, [])
  | session :: rest, st =>
    let r := sdp_replace_session env buf session st
    if r.1.isSome then (r.1, r.2.1, r.2.2 :: rest)
    else
      let t := sdp_replace_loop env buf rest r.2.1
      (t.1, t.2.1, r.2.2 :: t.2.2)

/-- What `sdp_replace` hands back: its return code, and the chopper, the
sessions, the monologue and the flags as the call leaves them. -/
structure replace_result where
  ret : Int
  chop : sdp_chopper
  sessions : List sdp_session
  monologue : call_monologue
  flags : sdp_ng_flags

/-- `sdp_replace`.  The body is `chop.input`. -/
def sdp_replace (env : Env) (chop : sdp_chopper) (sessions : List sdp_session)
    (monologue : call_monologue) (flags : sdp_ng_flags) : replace_result :=
  let r := sdp_replace_loop env chop.input sessions
    { chop := chop, flags := flags, monologue := monologue, media_index := 0 }
  if r.1.isSome then
    { ret := -1, chop := r.2.1.chop, sessions := r.2.2, monologue := r.2.1.monologue,
      flags := r.2.1.flags }
  else
    let c := copy_remainder r.2.1.chop
    if r.2.1.flags.replace_sdp_version || r.2.1.flags.replace_origin_full then
      let v := sdp_version_check c r.2.2 r.2.1.monologue r.2.1.flags.force_inc_sdp_ver
      { ret := 0, chop := v.1, sessions := v.2.1, monologue := v.2.2, flags := r.2.1.flags }
    else
      { ret := 0, chop := c, sessions := r.2.2, monologue := r.2.1.monologue,
        flags := r.2.1.flags }

/-! ## What the rewriter is expected to emit against a mirroring call

The functions of this part do not use the chopper.  They walk the parsed
tree and the call's media list side by side and say, for a call that re-emits
every rewritten field with the bytes the input has there, what the output
should be: the input in order, without the lines of the attributes that are
stripped, and with the synthesized lines after each section. -/

/-- Between the chopper states `c` and `c1` the input was copied unchanged. -/
def advanced (c c1 : sdp_chopper) : Prop :=
  c1.input = c.input ∧ c1.input_len = c.input_len ∧ c1.offset = c.offset ∧
  c.position ≤ c1.position ∧
  c1.output = c.output ++ bytes_at c.input c.position (c1.position - c.position)

/-- Between the chopper states `c` and `c1` the bytes `out` were appended to the
output and the read position moved to `pos`. -/
def emitted (c c1 : sdp_chopper) (out : List Char) (pos : Nat) : Prop :=
  c1.input = c.input ∧ c1.input_len = c.input_len ∧ c1.offset = c.offset ∧
  c1.position = pos ∧ c1.output = c.output ++ out

/-- The decidable form of `attrs_within`. -/
def attrs_within_b (lo hi : Nat) : List sdp_attribute → Bool
  | [] => decide (lo ≤ hi)
  | a :: rest =>
    match a.full_line.s with
    | some p =>
      decide (lo ≤ p) && decide (0 < a.full_line.len) &&
        attrs_within_b (p + a.full_line.len) hi rest
    | none => false

/-- The edit that a media-level attribute undergoes. -/
def media_attr_edit (flags : sdp_ng_flags) (cm : call_media) (m : sdp_media) (buf : List Char)
    (attr : sdp_attribute) : Option (List Char) :=
  edit_of_action (media_attr_action flags cm m buf attr)

/-- Invariant of the `sdp_parse` loop at its head: the sessions added to the
queue so far are well-formed, and so is the current one, which ends at or
before the line about to be read. -/
def parse_inv (sessions0 : List sdp_session) (end_ : Nat) (st : parse_state)
    (b : Option Nat) : Prop :=
  (∃ new, st.done = sessions0 ++ new ∧ ∀ s ∈ new, session_wf end_ s) ∧
  (∀ s, st.session = some s →
    session_wf end_ s ∧ ∀ x, b = some x → s.s.s.getD 0 + s.s.len ≤ x)

/-! ## A concrete environment for evaluating the definitions on examples -/

/-- Decimal value of a non-empty string of digits. -/
def demo_number (s : List Char) : Option Nat :=
  if s.isEmpty || !s.all isdigit then none else some (scan_digits s 0).1

/-- Split a byte string at every occurrence of a separator. -/
def demo_split (sep : Char) : List Char → List (List Char)
  | [] => [[]]
  | c :: cs =>
    if c = sep then [] :: demo_split sep cs
    else match demo_split sep cs with
      | [] => [[c]]
      | w :: ws => (c :: w) :: ws

/-- A dotted-quad IPv4 literal, as the 32-bit number it denotes. -/
def demo_ip4 (s : List Char) : Option Nat :=
  match (demo_split '.' s).map demo_number with
  | [some a, some b, some c, some d] =>
    if a < 256 && b < 256 && c < 256 && d < 256 then some (((a * 256 + b) * 256 + c) * 256 + d)
    else none
  | _ => none

/-- The environment of the examples: IPv4 only (family 4), media types
`audio` = 1 and `video` = 2, UDP candidates of type host (1), srflx (2), prflx
(3) and relay (4), the suite `AES_CM_128_HMAC_SHA1_80`, the hash `sha-1`, a
base64 decoder that yields three zero bytes per four characters, `str_to_i`
as a plain decimal conversion, the protocols `RTP/AVP` (1) and `RTP/SAVP` (2),
the static payload types 0 (PCMU) and 8 (PCMA), a codec initialisation that
leaves the record as it is, a call whose streams all print the address
`IP4 1.2.3.4`, and printers of crypto, DTLS and ICE lines that print nothing. -/
def demo_env : Env :=
  { get_socket_family_rfc := fun t => if t = "IP4".toList then some 4 else none,
    sockaddr_parse_str := fun af a =>
      match af with
      | none => none
      | some f => (demo_ip4 a).map (fun v => { family := some f, addr := v }),
    sockaddr_parse_any_str := fun a => (demo_ip4 a).map (fun v => { family := some 4, addr := v }),
    sf_ip4 := 4,
    codec_get_type := fun t =>
      if t = "audio".toList then 1 else if t = "video".toList then 2 else 0,
    get_socket_type := fun t => if str_case_eq t "udp".toList then 1 else 0,
    ice_candidate_type := fun t =>
      if t = "host".toList then 1 else if t = "srflx".toList then 2
      else if t = "prflx".toList then 3 else if t = "relay".toList then 4 else 0,
    ice_has_related := fun t => t != 1,
    crypto_find_suite := fun n =>
      if n = "AES_CM_128_HMAC_SHA1_80".toList then
        some { name := n, master_key_len := 16, master_salt_len := 14,
               srtp_lifetime := 2 ^ 48, srtcp_lifetime := 2 ^ 31 }
      else none,
    dtls_find_hash_func := fun n =>
      if str_case_eq n "sha-1".toList then some { name := "sha-1".toList, num_bytes := 20 }
      else none,
    g_base64_decode_step := fun i st => (List.replicate (i.length * 3 / 4) 0, st),
    str_to_i := fun s d =>
      match strto_core s with
      | none => d
      | some (neg, v, _) => if neg then -(v : Int) else (v : Int),
    is_addr_unspecified := fun a => a.family.isNone,
    is_trickle_ice_address := fun ep => ep.address.addr == 0 && ep.port == 9,
    transport_protocol := fun t =>
      if str_case_eq t "RTP/AVP".toList then
        some { name := "RTP/AVP".toList, rtp := true, osrtp_proto := 2 }
      else if str_case_eq t "RTP/SAVP".toList then
        some { name := "RTP/SAVP".toList, rtp := true, srtp := true, rtp_proto := 1 }
      else none,
    transport_protocols := fun i =>
      if i = 1 then { name := "RTP/AVP".toList, rtp := true, osrtp_proto := 2 }
      else if i = 2 then { name := "RTP/SAVP".toList, rtp := true, srtp := true, rtp_proto := 1 }
      else {},
    proto_is_rtp := fun p => match p with
      | none => false
      | some x => x.rtp,
    rtp_get_rfc_payload_type := fun i =>
      if i = 0 then
        some { payload_type := 0, encoding_with_params := "PCMU/8000".toList,
               encoding := "PCMU".toList, clock_rate := 8000, channels := 1, ptime := 20 }
      else if i = 8 then
        some { payload_type := 8, encoding_with_params := "PCMA/8000".toList,
               encoding := "PCMA".toList, clock_rate := 8000, channels := 1, ptime := 20 }
      else none,
    codec_init_payload_type := fun pt _ => pt,
    call_stream_address46 := fun _ _ => "IP4 1.2.3.4".toList,
    sockaddr_print_buf := fun _ => "0.0.0.0".toList,
    family_rfc_name := fun _ => "IP4".toList,
    IS_OP_OTHER := fun o => decide (o = call_opmode.OP_OTHER),
    rtpe_instance_id := "0123456789ab".toList,
    ssl_random := 12345,
    format_print := fun _ => none,
    sdp_attr_print := fun _ _ => [],
    insert_crypto1 := fun _ _ _ => [],
    insert_dtls_srtp := fun _ _ _ => [],
    insert_candidates := fun _ _ _ _ _ => [] }

/-- An SDP body with session-level attributes, one of them stripped by the
rewriter (`a=setup`), and one media section. -/
def demo_body : List Char :=
  ("v=0\r\no=- 1 1 IN IP4 1.2.3.4\r\ns=-\r\nt=0 0\r\nc=IN IP4 1.2.3.4\r\n" ++
   "a=tool:x\r\na=setup:actpass\r\na=foo:bar\r\nm=audio 5000 RTP/AVP 0 8\r\n" ++
   "a=rtpmap:0 PCMU/8000\r\na=sendrecv\r\n").toList

/-- What `sdp_parse` returns on `demo_body`. -/
def demo_parse : parse_result :=
  (sdp_parse demo_env false demo_body demo_body.length [] false).getD
    { ret := -1, sessions := [], body_len := 0 }

/-- The parser state at the loop head after the first `n` lines of a body. -/
def demo_state_at (env : Env) (buf : List Char) (fragment : Bool) (n : Nat) : parse_state :=
  ((run_lines env false buf buf.length fragment n (parse_init []) 0).getD (parse_init [], 0)).1

/-- A body whose third line has an unknown type letter. -/
def demo_unknown_body : List Char := "v=0\r\ns=-\r\nq=1\r\n".toList

/-- A body with an `s=` line inside a media section. -/
def demo_media_body : List Char := "v=0\r\nm=audio 5000 RTP/AVP 0\r\ns=x\r\n".toList

/-- A body with a bare empty line after its second line. -/
def demo_blank_body : List Char := "v=0\r\ns=x\r\n\r\nm=audio 1 RTP/AVP 0\r\n".toList

/-- A trickle-ICE fragment: its first line is not a `v=` line. -/
def demo_fragment_body : List Char := "a=ice-ufrag:abcd\r\na=ice-pwd:efgh\r\n".toList

/-- The sessions that `sdp_parse` builds from a body in the example environment. -/
def demo_sessions (buf : List Char) : List sdp_session :=
  ((sdp_parse demo_env false buf buf.length [] false).map (fun r => r.sessions)).getD []

/-- The session of `demo_body`. -/
def demo_session : sdp_session := (demo_sessions demo_body).headD {}

/-- The media section of `demo_body`. -/
def demo_media : sdp_media := demo_session.media_streams.headD {}

/-- The state of `sdp_streams` when it reaches the media of `demo_body`. -/
def demo_streams_state (flags : sdp_ng_flags) : streams_state :=
  { flags := sdp_streams_session_flags demo_body demo_session flags }

/-- The stream queue after the turn of the media loop on the media of `demo_body`. -/
def demo_streams_after (flags : sdp_ng_flags) : List stream_params :=
  match sdp_streams_media demo_env demo_body demo_session false demo_media
      (demo_streams_state flags) with
  | media_step.next st1 _ _ => st1.streams
  | media_step.error _ st1 => st1.streams

/-- A body whose format list holds the token `8x`. -/
def demo_lenient_body : List Char :=
  "v=0\r\nc=IN IP4 1.2.3.4\r\nm=audio 5000 RTP/AVP 8x\r\n".toList

/-- A body whose format list holds the token `x`. -/
def demo_badformat_body : List Char :=
  "v=0\r\nc=IN IP4 1.2.3.4\r\nm=audio 5000 RTP/AVP 0 x\r\n".toList

/-- A body whose format list holds the token `4294967296`, that is 2^32. -/
def demo_wrap_body : List Char :=
  "v=0\r\nc=IN IP4 1.2.3.4\r\nm=audio 5000 RTP/AVP 4294967296\r\n".toList

/-- A call media that mirrors an extracted stream: same type, protocol, format
string, codecs, ptime and direction, and one packet stream whose socket has
the port of the stream's RTP endpoint. -/
def demo_mirror_media (buf : List Char) (sp : stream_params) : call_media :=
  { type := some (str_bytes buf sp.type),
    type_id := sp.type_id,
    protocol := sp.protocol,
    format_str := some (str_bytes buf sp.format_str),
    codec_prefs := sp.codecs,
    ptime := sp.ptime,
    media_flags := { SEND := sp.sp_flags.SEND, RECV := sp.sp_flags.RECV },
    streams := [{ selected_sfd := some { local_port := sp.rtp_endpoint.port.toNat } }] }

/-- The monologue whose media list mirrors the streams that `sdp_streams`
extracts from a body in the example environment. -/
def demo_mirror (buf : List Char) : call_monologue :=
  { medias := ((sdp_streams demo_env buf (demo_sessions buf) []
      { trust_address := true }).streams.map (fun sp => some (demo_mirror_media buf sp))) }

/-- The output of `sdp_replace` on a body, against the mirroring monologue,
with all flags at their defaults; the empty string if the rewrite fails. -/
def demo_replace (buf : List Char) : List Char :=
  let r := sdp_replace demo_env { input := buf, input_len := buf.length } (demo_sessions buf)
    (demo_mirror buf) {}
  if r.ret = 0 then r.chop.output else []

/-- A body with one audio section and no attributes. -/
def demo_plain_body : List Char :=
  ("v=0\r\no=- 1 1 IN IP4 1.2.3.4\r\ns=-\r\nc=IN IP4 1.2.3.4\r\nt=0 0\r\n" ++
   "m=audio 5000 RTP/AVP 0\r\n").toList

/-- The stream of the current media at the call of `legacy_osrtp_accept`: the
fresh stream after the endpoint, ICE, context, codec and security blocks of
the media loop body. -/
def sdp_streams_current (env : Env) (buf : List Char) (session : sdp_session)
    (media : sdp_media) (st : streams_state) : stream_params :=
  sdp_streams_security env buf session media
    (__rtp_payload_types env buf (sdp_streams_before_codecs env buf session media st).1 media).2

/-- A body whose session is `recvonly` and whose media section is `sendonly`. -/
def demo_direction_body : List Char :=
  ("v=0\r\nc=IN IP4 1.2.3.4\r\na=recvonly\r\nm=audio 5000 RTP/AVP 0\r\n" ++
   "a=sendonly\r\n").toList

/-- A body whose media has the trickle sentinel `0.0.0.0:9` as RTP endpoint,
an `a=ice-ufrag` and an `a=ice-options` that does not name `trickle`. -/
def demo_trickle_body : List Char :=
  ("v=0\r\nc=IN IP4 0.0.0.0\r\nm=audio 9 RTP/AVP 0\r\na=ice-ufrag:abcd\r\n" ++
   "a=ice-options:renomination\r\n").toList

/-- The first session that `sdp_parse` builds from a body in the example
environment. -/
def demo_session_of (buf : List Char) : sdp_session := (demo_sessions buf).headD {}

/-- The first media section of that session. -/
def demo_media_of (buf : List Char) : sdp_media := (demo_session_of buf).media_streams.headD {}

/-- The stream queue that a turn of the media loop leaves behind. -/
def media_step_streams : media_step → List stream_params
  | media_step.next st1 _ _ => st1.streams
  | media_step.error _ st1 => st1.streams

/-- The turn of the media loop of `sdp_streams` on the first media of a body,
from an empty stream queue. -/
def demo_turn (buf : List Char) (flags : sdp_ng_flags) : media_step :=
  sdp_streams_media demo_env buf (demo_session_of buf) false (demo_media_of buf)
    { flags := sdp_streams_session_flags buf (demo_session_of buf) flags }

/-- A body with an `RTP/AVP` section and, right after it, an `RTP/SAVP` section
of the same media type, both with a port that is not zero. -/
def demo_osrtp_body : List Char :=
  ("v=0\r\nc=IN IP4 1.2.3.4\r\nm=audio 5000 RTP/AVP 0\r\n" ++
   "m=audio 5002 RTP/SAVP 0\r\n").toList

/-- The state that a turn of the media loop leaves behind. -/
def media_step_state : media_step → streams_state
  | media_step.next st1 _ _ => st1
  | media_step.error _ st1 => st1

/-- The second media section of the first session of a body. -/
def demo_media2_of (buf : List Char) : sdp_media :=
  (demo_session_of buf).media_streams.getD 1 {}

/-- The turn of the media loop on the second media of a body, after the turn
on the first. -/
def demo_turn2 (buf : List Char) (flags : sdp_ng_flags) : media_step :=
  sdp_streams_media demo_env buf (demo_session_of buf) true (demo_media2_of buf)
    (media_step_state (demo_turn buf flags))

/-- A body whose `m=` line asks for two consecutive ports. -/
def demo_ports_body : List Char :=
  "v=0\r\nc=IN IP4 1.2.3.4\r\nm=audio 5000/2 RTP/AVP 0\r\n".toList

/-- The call that mirrors a body, with two packet streams per media on the
local ports `p1` and `p2`. -/
def demo_ports_call (buf : List Char) (p1 p2 : Nat) : call_monologue :=
  { medias := (demo_mirror buf).medias.map (fun m => m.map (fun c =>
      { c with streams := [{ selected_sfd := some { local_port := p1 } },
                           { selected_sfd := some { local_port := p2 } }] })) }

/-- The flags with the remove set of one level put to `rem`, and everything
else (also the level's add and substitute directives) as it was. -/
def with_remove_set (flags : sdp_ng_flags) (level : Nat) (rem : Option (List (List Char))) :
    sdp_ng_flags :=
  { flags with sdp_manipulations := fun id =>
      if id = level then
        (flags.sdp_manipulations id).map (fun m => { m with rem_commands := rem })
      else flags.sdp_manipulations id }

/-- Modelled from the spec: registering a remove directive for a level puts its
name into the remove set of the level (the registration itself is done by the
control protocol code, outside `daemon/sdp.c`). -/
def register_remove_level (sm : Option sdp_manipulations) (name : List Char) :
    sdp_manipulations :=
  match sm with
  | some m => { m with rem_commands := some (name :: m.rem_commands.getD []) }
  | none => { rem_commands := some [name] }

/-- Modelled from the spec: the flags after a remove directive `name` has been
registered for `level`. -/
def register_remove (flags : sdp_ng_flags) (level : Nat) (name : List Char) : sdp_ng_flags :=
  { flags with sdp_manipulations := fun id =>
      if id = level then some (register_remove_level (flags.sdp_manipulations id) name)
      else flags.sdp_manipulations id }

/-- Flags whose remove set, at every level, holds the one name `zzz`. -/
def demo_remove_flags : sdp_ng_flags :=
  { sdp_manipulations := fun _ => some { rem_commands := some ["zzz".toList] } }

/-- A body with an attribute line that has no name and no value. -/
def demo_empty_attr_body : List Char := "v=0\r\na=\r\na=x\r\n".toList

/-- A chopper whose output is an `o=` line with the version `7` at offset 6. -/
def demo_version_chop : sdp_chopper :=
  { input := [], input_len := 0, output := "o=- 1 7 IN IP4 1.2.3.4\r\n".toList }

/-- One session whose version string (one byte long) was copied to offset 6 of
the output. -/
def demo_version_sessions : List sdp_session :=
  [{ origin := { version_str := { s := some 6, len := 1 }, version_output_pos := 6 } }]

/-- The version block of the `o=` line in `sdp_replace`: a remembered version
number at its maximum is replaced by 32 random bits. -/
def version_refresh (env : Env) (orig : monologue_origin) : monologue_origin :=
  if orig.version_num = ULLONG_MAX then { orig with version_num := env.ssl_random % 2 ^ 32 }
  else orig

/-- The flags `g` are the flags `f` up to the cached parsed media address. -/
def flags_kept (f g : sdp_ng_flags) : Prop :=
  ∃ a, g = { f with parsed_media_address := a }

/-- Between two states of the rewriter the flags differ at most in the cached
parsed media address, and the remembered origin is the same. -/
def replace_frame (st st1 : replace_state) : Prop :=
  flags_kept st.flags st1.flags ∧
  st1.monologue.session_last_sdp_orig = st.monologue.session_last_sdp_orig

/-- The monologue that mirrors a body and remembers an origin whose version
number is at its maximum. -/
def demo_wrap_monologue (buf : List Char) : call_monologue :=
  { medias := (demo_mirror buf).medias,
    session_last_sdp_orig := some { version_num := ULLONG_MAX } }

/-- The flags that ask for the version replacement with a forced increment. -/
def demo_wrap_flags : sdp_ng_flags :=
  { replace_sdp_version := true, force_inc_sdp_ver := true }

/-- `attrs_init`: the empty FIFO and the two empty hash tables. -/
def attrs_init : sdp_attributes := {}

/-- The attribute set after `attr_insert` of the attributes of `l`, in order,
into an initially empty set. -/
def attrs_inserted (l : List sdp_attribute) : sdp_attributes :=
  l.foldl attr_insert attrs_init

/-- Modelled from the spec: `str_cmp_str` of lib/str.h is not under src/; it
compares two slices, and `true` here stands for the C result 0: the lengths
and the bytes are equal.  The second slice is given by its bytes. -/
def str_cmp_str (buf : List Char) (a : Str) (b : List Char) : Bool :=
  decide (a.len = b.length) && str_bytes buf a == b

/-- The inner loop of `sdp_is_duplicate` over the `a=rtpengine` attributes of a
session: `true` is the `goto next`. -/
def sdp_is_duplicate_match (env : Env) (buf : List Char) : List sdp_attribute → Bool
  | [] => false
  | attr :: rest =>
    if str_cmp_str buf attr.strs.value env.rtpe_instance_id then true
    else sdp_is_duplicate_match env buf rest

/-- `sdp_is_duplicate`. -/
def sdp_is_duplicate (env : Env) (buf : List Char) : List sdp_session → Int
  | [] => 1
  | s :: rest =>
    match attr_list_get_by_id s.attributes attr_id.ATTR_RTPENGINE with
    | none => 0
    | some attr_list =>
      if sdp_is_duplicate_match env buf attr_list then sdp_is_duplicate env buf rest else 0

/-- A body whose session carries the instance id of the example environment. -/
def demo_loop_body : List Char :=
  ("v=0\r\no=- 1 1 IN IP4 1.2.3.4\r\ns=-\r\nc=IN IP4 1.2.3.4\r\nt=0 0\r\n" ++
   "a=rtpengine:0123456789ab\r\nm=audio 5000 RTP/AVP 0\r\n").toList

/-- The same body with another id. -/
def demo_foreign_body : List Char :=
  ("v=0\r\no=- 1 1 IN IP4 1.2.3.4\r\ns=-\r\nc=IN IP4 1.2.3.4\r\nt=0 0\r\n" ++
   "a=rtpengine:ba9876543210\r\nm=audio 5000 RTP/AVP 0\r\n").toList

/-- A run of `EXTRACT_TOKEN`: the next `n` space-separated tokens of a slice,
in order, and the rest of the slice; `none` when one of them is missing. -/
def extract_tokens (buf : List Char) : Nat → Str → Option (List Str × Str)
  | 0, s => some ([], s)
  | n + 1, s =>
    match extract_token buf s with
    | none => none
    | some (t, r) =>
      match extract_tokens buf n r with
      | none => none
      | some (ts, q) => some (t :: ts, q)

/-- The test `ep == token.s` after `strtoul(token.s, &ep, 10)` fails: the
conversion consumed something. -/
def has_digits (buf : List Char) (t : Str) : Bool :=
  decide ((strtoul buf (t.s.getD 0)).2 ≠ t.s.getD 0)
/-- The three outcomes of a candidate text. -/
inductive cand_class where
  | parsed
  | unparsed
  | error
deriving DecidableEq, Repr

/-- The outcome of the raddr/rport part of a candidate text, for a candidate
type that has a related address: the four tokens must be there, then in this
order: the keyword `raddr`, the keyword `rport`, the related address, the
digits of the related port.  The first check that fails decides. -/
def candidate_related_class (env : Env) (buf : List Char) (r8 : Str) : cand_class :=
  match extract_tokens buf 4 r8 with
  | some ([ra, rad, rp, rpo], _) =>
    if !(str_cmp buf ra "raddr") then cand_class.error
    else if !(str_cmp buf rp "rport") then cand_class.error
    else if (__parse_address env none none (str_bytes buf rad)).isNone then cand_class.unparsed
    else if !(has_digits buf rpo) then cand_class.error
    else cand_class.parsed
  | _ => cand_class.error

/-- The outcome of a candidate text by the first check that fails, in this
order: the eight mandatory tokens, the digits of the component, the transport,
the digits of the priority, the address, the digits of the port, the keyword
`typ`, the candidate type, and for a type with a related address the checks of
`candidate_related_class`.  A missing token, a numeric field without digits
and a wrong keyword are errors; an unknown transport, an address that does
not parse and an unknown candidate type leave the candidate unparsed. -/
def candidate_class (env : Env) (buf : List Char) (s : Str) : cand_class :=
  match extract_tokens buf 8 s with
  | some ([_, co, tr, pr, ad, po, ty, tp], r8) =>
    if !(has_digits buf co) then cand_class.error
    else if env.get_socket_type (str_bytes buf tr) = 0 then cand_class.unparsed
    else if !(has_digits buf pr) then cand_class.error
    else if (__parse_address env none none (str_bytes buf ad)).isNone then cand_class.unparsed
    else if !(has_digits buf po) then cand_class.error
    else if !(str_cmp buf ty "typ") then cand_class.error
    else if env.ice_candidate_type (str_bytes buf tp) = 0 then cand_class.unparsed
    else if !(env.ice_has_related (env.ice_candidate_type (str_bytes buf tp))) then
      cand_class.parsed
    else candidate_related_class env buf r8
  | _ => cand_class.error
/-- A candidate text with an unknown transport and a priority without digits. -/
def demo_candidate_mixed : List Char := "1 1 FOO abc 1.2.3.4 5 typ host".toList

/-- A candidate text with an unknown transport. -/
def demo_candidate_foo : List Char := "1 1 FOO 2130706431 1.2.3.4 5 typ host".toList

/-- A body whose media section carries a candidate with an unknown transport. -/
def demo_candidate_body : List Char :=
  ("v=0\r\no=- 1 1 IN IP4 1.2.3.4\r\ns=-\r\nc=IN IP4 1.2.3.4\r\nt=0 0\r\n" ++
   "m=audio 5000 RTP/AVP 0\r\na=candidate:1 1 FOO 2130706431 1.2.3.4 5 typ host\r\n").toList

/-- The whole of a buffer as a slice. -/
def demo_whole (buf : List Char) : Str := { s := some 0, len := buf.length }

/-- A chopper in the middle of a body: ten bytes read, four of them written. -/
def demo_copy_chop : sdp_chopper :=
  { input := "v=0\r\no=- 1 1 IN IP4 1.2.3.4\r\n".toList, input_len := 29, position := 10,
    output := "v=0\r".toList }

/-- The value of a hexadecimal digit, 0 for another character. -/
def hex_value (c : Char) : Nat := (hex_digit c).getD 0

/-- The byte that the pair of hexadecimal digits number `i` of a fingerprint
at offset `c` stands for; the pairs are three bytes apart. -/
def fingerprint_byte (buf : List Char) (c i : Nat) : Nat :=
  hex_value (getc buf (c + 3 * i)) * 16 + hex_value (getc buf (c + 3 * i + 1))

/-- The text at offset `c` begins with `n ≥ 1` pairs of hexadecimal digits, a
`:` after each pair but the last, and a byte other than `:` after the last. -/
def fingerprint_pairs (buf : List Char) (c n : Nat) : Prop :=
  1 ≤ n ∧
  (∀ i, i < n → (hex_digit (getc buf (c + 3 * i))).isSome = true ∧
    (hex_digit (getc buf (c + 3 * i + 1))).isSome = true) ∧
  (∀ i, i + 1 < n → getc buf (c + 3 * i + 2) = ':') ∧
  getc buf (c + 3 * (n - 1) + 2) ≠ ':'

/-- A fingerprint value with the twenty pairs of SHA-1 and two more bytes. -/
def demo_fingerprint_junk : List Char :=
  ("sha-1 00:01:02:03:04:05:06:07:08:09:0A:0B:0C:0D:0E:0F:10:11:12:13zz").toList

/-- A fingerprint value with the twenty pairs of SHA-1. -/
def demo_fingerprint : List Char :=
  ("sha-1 00:01:02:03:04:05:06:07:08:09:0A:0B:0C:0D:0E:0F:10:11:12:13").toList

/-! ## glib's base64 coder

`g_base64_decode_step`, `g_base64_encode_step` and `g_base64_encode_close` of
glib, which `parse_attribute_crypto` and `insert_crypto1` call.  Bytes are
numbers below 256; where the C code joins disjoint bit fields with `|`, the
model adds them. -/

/-- glib's `base64_alphabet`, indexed by a 6-bit value. -/
def base64_alphabet (n : Nat) : Char :=
  if n < 26 then Char.ofNat (65 + n)
  else if n < 52 then Char.ofNat (97 + (n - 26))
  else if n < 62 then Char.ofNat (48 + (n - 52))
  else if n = 62 then '+'
  else '/'

/-- glib's `mime_base64_rank`: the 6-bit value of a character of the alphabet,
0 for `=`, and `none` for the entry `0xff` of every other byte. -/
def mime_base64_rank (c : Char) : Option Nat :=
  if decide ('A' ≤ c) && decide (c ≤ 'Z') then some (c.toNat - 65)
  else if decide ('a' ≤ c) && decide (c ≤ 'z') then some (c.toNat - 97 + 26)
  else if decide ('0' ≤ c) && decide (c ≤ '9') then some (c.toNat - 48 + 52)
  else if c = '+' then some 62
  else if c = '/' then some 63
  else if c = '=' then some 0
  else none

/-- The variables of the loop of `g_base64_decode_step`: the accumulator `v`
(an `unsigned int`), the count `i` of characters in the current group, the
last two characters seen, and the bytes written. -/
structure base64_decode where
  v : Nat := 0
  i : Nat := 0
  last0 : Char := Char.ofNat 0
  last1 : Char := Char.ofNat 0
  out : List Nat := []
deriving DecidableEq, Repr

/-- One turn of the loop of `g_base64_decode_step`. -/
def g_base64_decode_char (st : base64_decode) (c : Char) : base64_decode :=
  match mime_base64_rank c with
  | none => st
  | some rank =>
    let v := (st.v * 64 + rank) % 2 ^ 32
    if st.i + 1 = 4 then
      { v := v, i := 0, last0 := c, last1 := st.last0,
        out := st.out ++ [v / 2 ^ 16 % 256] ++
          (if st.last0 ≠ '=' then [v / 2 ^ 8 % 256] else []) ++
          (if c ≠ '=' then [v % 256] else []) }
    else { v := v, i := st.i + 1, last0 := c, last1 := st.last0, out := st.out }

/-- glib's `g_base64_decode_step(in, len, out, &state, &save)` on the `len`
characters `inp`: the bytes written, and `state` and `save` after the call. -/
def g_base64_decode_step (inp : List Char) (state : Int × Nat) : List Nat × (Int × Nat) :=
  if inp.isEmpty then ([], state)
  else
    let st := inp.foldl g_base64_decode_char
      { v := state.2, i := state.1.natAbs,
        last0 := if state.1 < 0 then '=' else Char.ofNat 0 }
    (st.out, (if st.last0 = '=' then -(st.i : Int) else (st.i : Int), st.v))

/-- The four characters that glib's encoder writes for three bytes. -/
def base64_quad (c1 c2 c3 : Nat) : List Char :=
  [base64_alphabet (c1 / 4), base64_alphabet (c2 / 16 + c1 % 4 * 16),
   base64_alphabet (c2 % 16 * 4 + c3 / 64), base64_alphabet (c3 % 64)]

/-- The loop of `g_base64_encode_step`: the characters of the complete groups
of three bytes, and the one or two bytes left over. -/
def base64_triples : List Nat → List Char × List Nat
  | c1 :: c2 :: c3 :: rest =>
    (base64_quad c1 c2 c3 ++ (base64_triples rest).1, (base64_triples rest).2)
  | l => ([], l)

/-- glib's `g_base64_encode_step(in, len, 0, out, &state, &save)`: the
characters written and the bytes kept in `save` (at most two). -/
def g_base64_encode_step (inp save : List Nat) : List Char × List Nat :=
  if inp.isEmpty then ([], save)
  else if inp.length + save.length > 2 then base64_triples (save ++ inp)
  else ([], save ++ inp)

/-- glib's `g_base64_encode_close(0, out, &state, &save)`: the last group with
its padding. -/
def g_base64_encode_close (save : List Nat) : List Char :=
  match save with
  | [c1, c2] =>
    [base64_alphabet (c1 / 4), base64_alphabet (c2 / 16 + c1 % 4 * 16),
     base64_alphabet (c2 % 16 * 4), '=']
  | [c1] => [base64_alphabet (c1 / 4), base64_alphabet (c1 % 4 * 16), '=', '=']
  | _ => []

/-- The characters of the base64 text of a byte string without the padding. -/
def base64_body : List Nat → List Char
  | c1 :: c2 :: c3 :: rest => base64_quad c1 c2 c3 ++ base64_body rest
  | [c1, c2] =>
    [base64_alphabet (c1 / 4), base64_alphabet (c2 / 16 + c1 % 4 * 16),
     base64_alphabet (c2 % 16 * 4)]
  | [c1] => [base64_alphabet (c1 / 4), base64_alphabet (c1 % 4 * 16)]
  | [] => []

/-- The padding of the base64 text of a byte string of the given length. -/
def base64_pad (len : Nat) : List Char :=
  if len % 3 = 1 then ['=', '='] else if len % 3 = 2 then ['='] else []
/-- The two decoder calls of `parse_attribute_crypto` on the
`enc_salt_key_len` characters of the key, the second one on the padding that
the parser supplies itself: the bytes written to `key_salt_buf`. -/
def crypto_key_decode (decode : List Char → Int × Nat → List Nat × (Int × Nat))
    (chars : List Char) (enc_salt_key_len : Nat) : List Nat :=
  let d1 := decode chars (0, 0)
  let d2 : List Nat × (Int × Nat) :=
    if enc_salt_key_len % 4 ≠ 0 then
      decode (['=', '=', Char.ofNat 0].take (4 - enc_salt_key_len % 4)) d1.2
    else ([], d1.2)
  d1.1 ++ d2.1
/-! ## The blocks of `parse_attribute_crypto` and `insert_crypto1` -/

/-- The key block of `parse_attribute_crypto`: the tag, the suite, the
`inline:` key and its decoding.  `none` is the jump to `error`. -/
def crypto_key (env : Env) (buf : List Char) (c0 : attribute_crypto) :
    Option (attribute_crypto × crypto_suite) :=
  let tg := strtoul buf (c0.tag_str.s.getD 0)
  let c1 := { c0 with tag := tg.1 % 2 ^ 32 }
  if tg.2 = c0.tag_str.s.getD 0 then none
  else match env.crypto_find_suite (str_bytes buf c0.crypto_suite_str) with
  | none => none
  | some suite =>
    let c2 := { c1 with crypto_suite := some suite }
    let salt_key_len := suite.master_key_len + suite.master_salt_len
    let enc_salt_key_len := (salt_key_len * 4 + 2) / 3
    if c2.key_params_str.len < 7 + enc_salt_key_len then none
    else if !(str_case_eq (bytes_at buf (c2.key_params_str.s.getD 0) 7) "inline:".toList) then none
    else
      let key_base64_str := (str_shift c2.key_params_str 7).getD c2.key_params_str
      let key_salt_buf := crypto_key_decode env.g_base64_decode_step
        (bytes_at buf (key_base64_str.s.getD 0) enc_salt_key_len) enc_salt_key_len
      if key_salt_buf.length ≠ salt_key_len then none
      else
        some ({ c2 with
          key_base64_str := key_base64_str, key_salt_buf := key_salt_buf,
          master_key := key_salt_buf.take suite.master_key_len,
          salt := (key_salt_buf.drop suite.master_key_len).take suite.master_salt_len }, suite)

/-- The slice that `parse_attribute_crypto` looks at after the key: the key
parameters past `inline:`, the encoded key and its optional padding. -/
def crypto_key_rest (buf : List Char) (c3 : attribute_crypto) (suite : crypto_suite) : Str :=
  let enc_salt_key_len := ((suite.master_key_len + suite.master_salt_len) * 4 + 2) / 3
  let l0 := (str_shift c3.key_params_str (7 + enc_salt_key_len)).getD c3.key_params_str
  if enc_salt_key_len % 4 = 2 then str_shift_cmp buf l0 "=="
  else if enc_salt_key_len % 4 = 3 then str_shift_cmp buf l0 "="
  else l0

/-- The block of `parse_attribute_crypto` that cuts the rest of the key
parameters into the lifetime and the MKI: `none` is the jump to `error`. -/
def crypto_split (buf : List Char) (l1 : Str) (mki_str : Str) : Option (Str × Str) :=
  if l1.len ≥ 2 then
    if getc buf (l1.s.getD 0) ≠ '|' then none
    else
      let l2 := (str_shift l1 1).getD l1
      match str_chr_str buf l2 '|' with
      | none =>
        if str_chr buf l2 ':' then some (STR_NULL, l2) else some (l2, mki_str)
      | some m =>
        some ({ l2 with len := m.s.getD 0 - l2.s.getD 0 }, (str_shift m 1).getD m)
  else some (STR_NULL, mki_str)

/-- The lifetime block of `parse_attribute_crypto`: the lifetime that the
attribute ends up with, `none` for the jump to `error`. -/
def crypto_lifetime (buf : List Char) (suite : crypto_suite) (lifetime_str : Str)
    (lifetime : Nat) : Option Nat :=
  match lifetime_str.s with
  | none => some lifetime
  | some lp =>
    let l : Option Nat :=
      if lifetime_str.len ≥ 3 && bytes_at buf lp 2 == "2^".toList then
        let e := (strtoul buf (lp + 2)).1
        if e = 0 || e ≥ 64 then none else some (2 ^ e)
      else some (strtoul buf lp).1
    match l with
    | none => none
    | some v => if v = 0 || v > suite.srtp_lifetime then none else some v

/-- The MKI block of `parse_attribute_crypto`: `none` is the jump to `error`. -/
def crypto_mki (buf : List Char) (mki_str : Str) (c5 : attribute_crypto) :
    Option attribute_crypto :=
  match mki_str.s with
  | none => some c5
  | some mp =>
    match str_chr_str buf mki_str ':' with
    | none => none
    | some s =>
      let u32 := (strtoul buf mp).1 % 2 ^ 32
      let mki_len := (strtoul buf (s.s.getD 0 + 1)).1 % 2 ^ 32
      if mki_len > 256 then none
      else some { c5 with mki_len := mki_len, mki := mki_encode u32 mki_len }

/-- The first `n` bytes of a byte array that holds `l` and zeroes after it. -/
def array_bytes (l : List Nat) (n : Nat) : List Nat := (l ++ List.replicate n 0).take n

/-- The loop `while (p > b64_buf && p[-1] == '=') p--` of `insert_crypto1`. -/
def strip_padding (l : List Char) : List Char :=
  (l.reverse.dropWhile (fun c => c == '=')).reverse

/-- The key of `insert_crypto1`: the contents of `b64_buf` up to `p`. -/
def insert_crypto1_key (params : crypto_params) (suite : crypto_suite)
    (flags : sdp_ng_flags) : List Char :=
  let e1 := g_base64_encode_step (array_bytes params.master_key suite.master_key_len) []
  let e2 := g_base64_encode_step (array_bytes params.master_salt suite.master_salt_len) e1.2
  let b64 := e1.1 ++ e2.1 ++ g_base64_encode_close e2.2
  if !flags.sdes_pad then strip_padding b64 else b64

/-- The loop of `insert_crypto1` over the last bytes of the MKI, after `i`
turns: `ull |= mki[mki_len - i - 1] << (i * 8)`. -/
def insert_crypto1_ull (mki : List Nat) (mki_len : Nat) : Nat → Nat
  | 0 => 0
  | i + 1 => insert_crypto1_ull mki mki_len i ||| (mki.getD (mki_len - i - 1) 0 <<< (i * 8))

/-- The MKI field of `insert_crypto1`. -/
def insert_crypto1_mki (params : crypto_params) : List Char :=
  if params.mki_len ≠ 0 then
    "|".toList ++
      print_uint (insert_crypto1_ull params.mki params.mki_len (min params.mki_len 8)) ++
      ":".toList ++ print_uint params.mki_len
  else []

/-- `insert_crypto1`: the bytes appended for one SDES entry.  The rewriter's
`insert_crypto` takes them through the parameter `Env.insert_crypto1`. -/
def insert_crypto1 (media : call_media) (cps : crypto_params_sdes) (flags : sdp_ng_flags) :
    List Char :=
  match cps.params.crypto_suite with
  | none => []
  | some suite =>
    if !media.media_flags.SDES || media.media_flags.PASSTHRU then []
    else
      append_int_tagged_attr_to_gstring flags "crypto".toList cps.tag
        (some (suite.name ++ " inline:".toList ++ insert_crypto1_key cps.params suite flags ++
          (if flags.sdes_lifetime then "|2^31".toList else []) ++
          insert_crypto1_mki cps.params ++
          (if cps.params.session_params.unencrypted_srtp then " UNENCRYPTED_SRTP".toList
           else []) ++
          (if cps.params.session_params.unencrypted_srtcp then " UNENCRYPTED_SRTCP".toList
           else []) ++
          (if cps.params.session_params.unauthenticated_srtp then
            " UNAUTHENTICATED_SRTP".toList else [])))
        media.type_id
/-- The example environment with glib's base64 decoder and the suites
`AES_CM_128_HMAC_SHA1_80` and `AES_192_CM_HMAC_SHA1_80`. -/
def demo_env_glib : Env :=
  { demo_env with
    g_base64_decode_step := g_base64_decode_step,
    crypto_find_suite := fun n =>
      if n = "AES_CM_128_HMAC_SHA1_80".toList then
        some { name := n, master_key_len := 16, master_salt_len := 14,
               srtp_lifetime := 2 ^ 48, srtcp_lifetime := 2 ^ 31 }
      else if n = "AES_192_CM_HMAC_SHA1_80".toList then
        some { name := n, master_key_len := 24, master_salt_len := 14,
               srtp_lifetime := 2 ^ 31, srtcp_lifetime := 2 ^ 31 }
      else none }

/-- An `a=crypto` value with a lifetime and an MKI. -/
def demo_crypto_value : List Char :=
  ("1 AES_CM_128_HMAC_SHA1_80 inline:AAECAwQFBgcICQoLDA0ODxAREhMUFRYXGBkaGxwd" ++
   "|2^20|1:4").toList

/-- The same value with the lifetime `2^49`, above the lifetime of the suite. -/
def demo_crypto_long : List Char :=
  ("1 AES_CM_128_HMAC_SHA1_80 inline:AAECAwQFBgcICQoLDA0ODxAREhMUFRYXGBkaGxwd" ++
   "|2^49|1:4").toList

/-- The attribute that `parse_attribute_crypto` makes of a value in
`demo_env_glib`. -/
def demo_crypto_attr (value : List Char) : sdp_attribute :=
  (parse_attribute_crypto demo_env_glib value { strs := { value := demo_whole value } }).2
/-- The three tokens of an `a=crypto` value laid into an empty crypto payload. -/
def demo_crypto_tokens (value : List Char) : attribute_crypto :=
  match extract_tokens value 3 (demo_whole value) with
  | some ([t1, t2, t3], _) => { tag_str := t1, crypto_suite_str := t2, key_params_str := t3 }
  | _ => {}

/-- The key block of `parse_attribute_crypto` on a value in `demo_env_glib`. -/
def demo_crypto_key (value : List Char) : attribute_crypto × crypto_suite :=
  (crypto_key demo_env_glib value (demo_crypto_tokens value)).getD ({}, {})
/-- An `a=crypto` value of the suite with a 24-byte key whose 51 characters
of key and salt come without the padding. -/
def demo_crypto_unpadded : List Char :=
  "1 AES_192_CM_HMAC_SHA1_80 inline:".toList ++ List.replicate 51 'A'

/-- An `a=crypto` value of the same suite whose last character of key and
salt has bits that no byte takes up. -/
def demo_crypto_loose : List Char :=
  "1 AES_192_CM_HMAC_SHA1_80 inline:".toList ++ List.replicate 50 'A' ++ "B=".toList

/-- An `a=crypto` value of the same suite with the padded base64 text of 38
zero bytes. -/
def demo_crypto_padded : List Char :=
  "1 AES_192_CM_HMAC_SHA1_80 inline:".toList ++ List.replicate 51 'A' ++ "=".toList

/-- The flags that ask for the padding of SDES keys. -/
def demo_pad_flags : sdp_ng_flags := { sdes_pad := true }
/-- The crypto payload of `demo_crypto_value` when the parser reaches its MKI
block. -/
def demo_crypto_c5 : attribute_crypto :=
  { (demo_crypto_key demo_crypto_value).1 with
    lifetime_str := { s := some 74, len := 4 },
    mki_str := { s := some 79, len := 3 },
    lifetime := 2 ^ 20 }

/-- An `a=` line value with a name, a value of two words and a parameter. -/
def demo_attr_line : List Char := "a=rtpmap:8 PCMA/8000\r\n".toList

/-- An `a=` line value without a colon. -/
def demo_flag_line : List Char := "a=sendrecv\r\n".toList

/-- The value of `demo_crypto_value` with the MKI field `1:4294967300`, whose
length is 2^32 + 4. -/
def demo_crypto_wide : List Char :=
  ("1 AES_CM_128_HMAC_SHA1_80 inline:AAECAwQFBgcICQoLDA0ODxAREhMUFRYXGBkaGxwd" ++
   "|2^20|1:4294967300").toList

/-- The value of `demo_crypto_value` with the MKI field `258:2`. -/
def demo_crypto_short : List Char :=
  ("1 AES_CM_128_HMAC_SHA1_80 inline:AAECAwQFBgcICQoLDA0ODxAREhMUFRYXGBkaGxwd" ++
   "|2^20|258:2").toList

/-! ## The layout of the sections that `sdp_parse` records -/

/-- What the layout of a body keeps of a section (a session or a media):
whether it is a media, its slice `s` and, for a media, its `c_line_pos`. -/
structure section_view where
  is_media : Bool := false
  s : Str := {}
  c_line_pos : Option Nat := none
deriving DecidableEq, Repr

/-- The view of a media section. -/
def media_section (m : sdp_media) : section_view :=
  { is_media := true, s := m.s, c_line_pos := m.c_line_pos }

/-- The view of the session-level section of a session. -/
def session_section (s : sdp_session) : section_view :=
  { is_media := false, s := s.s, c_line_pos := none }

/-- The sections of a session in order: the session level, then its medias. -/
def session_sections (s : sdp_session) : List section_view :=
  session_section s :: s.media_streams.map media_section

/-- The sections of a list of sessions, in queue order. -/
def sections_of (l : List sdp_session) : List section_view :=
  (l.map session_sections).flatten

/-- The slices of a session in order: its own slice, then those of its medias. -/
def session_slices (s : sdp_session) : List Str :=
  s.s :: s.media_streams.map (fun m => m.s)

/-- The slices of a list of sessions, in queue order. -/
def sessions_slices (l : List sdp_session) : List Str :=
  (l.map session_slices).flatten

/-- The slices follow one another without gap or overlap from `lo` to `hi`. -/
def tiled : Nat → Nat → List Str → Prop
  | lo, hi, [] => lo = hi
  | lo, hi, x :: rest => x.s = some lo ∧ tiled (lo + x.len) hi rest

/-- The line is a `b=`, `a=` or `k=` line. -/
def is_abk (c : Char) : Bool := c = 'a' || c = 'b' || c = 'k'

/-- The start of the line after the one at `b`, the end of the body when
there is none: `next_line ? : end`. -/
def line_after (buf : List Char) (end_ b : Nat) : Nat :=
  (find_next_line buf end_ (b + 2)).getD end_

/-- The line starts that the loop of `sdp_parse` reads from `b` on, as the
conditions of the loop and the search for the line feed give them: the loop
goes on while two bytes are left and, unless `strict`, the line is not a bare
empty one. -/
def line_starts (strict : Bool) (buf : List Char) (end_ : Nat) : Nat → Nat → List Nat
  | 0, _ => []
  | fuel + 1, b =>
    if b + 1 < end_ then
      if !strict && (getc buf b = '\n' || getc buf b = '\r') then []
      else b :: line_starts strict buf end_ fuel (line_after buf end_ b)
    else []

/-- The position at which the reading of `line_starts` ends. -/
def lines_end (strict : Bool) (buf : List Char) (end_ : Nat) : Nat → Nat → Nat
  | 0, b => b
  | fuel + 1, b =>
    if b + 1 < end_ then
      if !strict && (getc buf b = '\n' || getc buf b = '\r') then b
      else lines_end strict buf end_ fuel (line_after buf end_ b)
    else b

/-- The sections of a body while its lines are read: the closed sections, the
current one, and the position of the next line. -/
structure layout_state where
  closed : List section_view := []
  cur : Option section_view := none
  pos : Nat := 0
deriving DecidableEq, Repr

/-- All sections of a layout in order. -/
def layout_sections (a : layout_state) : List section_view :=
  a.closed ++ a.cur.toList

/-- The effect of the line at `a.pos` on the layout.  The first line and every
`v=` line open a session section, an `m=` line opens a media section (and
marks the media before it, if it has no mark yet), every other line extends
the current section, and a `b=`, `a=` or `k=` line marks a media that has no
mark yet. -/
def layout_step (buf : List Char) (end_ : Nat) (a : layout_state) : layout_state :=
  let b := a.pos
  let e := line_after buf end_ b
  let c := getc buf b
  match a.cur with
  | none =>
    { closed := a.closed,
      cur := some { is_media := false, s := { s := some b, len := e - b }, c_line_pos := none },
      pos := e }
  | some x =>
    if c = 'v' then
      { closed := a.closed ++ [x],
        cur := some { is_media := false, s := { s := some b, len := e - b }, c_line_pos := none },
        pos := e }
    else if c = 'm' then
      { closed := a.closed ++
          [if x.is_media && x.c_line_pos.isNone then { x with c_line_pos := some b } else x],
        cur := some { is_media := true, s := { s := some b, len := e - b }, c_line_pos := none },
        pos := e }
    else
      { closed := a.closed,
        cur := some { x with
          s := { x.s with len := e - x.s.s.getD 0 },
          c_line_pos :=
            if x.is_media && is_abk c && x.c_line_pos.isNone then some b else x.c_line_pos },
        pos := e }

/-- The layout after the lines that the loop of `sdp_parse` reads. -/
def layout_run (strict : Bool) (buf : List Char) (end_ : Nat) :
    Nat → layout_state → layout_state
  | 0, a => a
  | fuel + 1, a =>
    if a.pos + 1 < end_ then
      if !strict && (getc buf a.pos = '\n' || getc buf a.pos = '\r') then a
      else layout_run strict buf end_ fuel (layout_step buf end_ a)
    else a

/-- The closed sections that a parser state stands for, leaving out the first
`n0` sessions of the queue (those that the caller passed in). -/
def state_closed (n0 : Nat) (st : parse_state) : List section_view :=
  sections_of (st.done.drop n0) ++
    (match st.session, st.media with
     | some s, some _ => session_sections s
     | _, _ => [])

/-- The current section of a parser state: the one whose length the end of
the loop body adjusts. -/
def state_cur (st : parse_state) : Option section_view :=
  match st.session, st.media with
  | some _, some m => some (media_section m)
  | some s, none => some (session_section s)
  | none, _ => none

/-- The parser state is in step with the queue: the sessions passed in are
still in front, without a current session nothing was added, and a current
session without a current media has no media yet. -/
def state_ok (sessions0 : List sdp_session) (st : parse_state) : Prop :=
  st.done.take sessions0.length = sessions0 ∧ sessions0.length ≤ st.done.length ∧
  (st.session = none → st.done = sessions0) ∧
  (∀ s, st.session = some s → st.media = none → s.media_streams = [])

/-- The switch left the sections as they were, up to the media `media` in the
place of the current one. -/
def same_sections (st st2 : parse_state) (session : sdp_session) (media : Option sdp_media) :
    Prop :=
  st2.done = st.done ∧
  (∃ s2, st2.session = some s2 ∧ s2.s = session.s ∧ s2.media_streams = session.media_streams) ∧
  st2.media.map media_section = media.map media_section

/-- What the switch does to the sections, by the first byte of the line. -/
def switch_kind (buf : List Char) (st : parse_state) (session : sdp_session) (b : Nat)
    (st2 : parse_state) : Prop :=
  (getc buf b = 'v' ∧ st2 = new_session st b) ∨
  (getc buf b = 'm' ∧ st2.done = st.done ∧
    st2.session = some (close_session session (set_c_line_pos st.media b)) ∧
    ∃ m1, st2.media = some m1 ∧ m1.s = { s := some b, len := 0 } ∧ m1.c_line_pos = none) ∨
  (getc buf b ≠ 'v' ∧ getc buf b ≠ 'm' ∧
    same_sections st st2 session
      (if is_abk (getc buf b) then set_c_line_pos st.media b else st.media))

/-- The line at `x` opens a section: it is the first line of the body, a
`v=` line or an `m=` line. -/
def is_section_start (buf : List Char) (x : Nat) : Bool :=
  x = 0 || getc buf x = 'v' || getc buf x = 'm'

/-- The mark `c_line_pos` of a media section `[p, p + n)` agrees with the lines
read: a mark is the first `b=`, `a=` or `k=` line of the section, or, when
the section has none, the `m=` line that follows it; without a mark the
section has no such line. -/
def mark_ok (buf : List Char) (lines : List Nat) (pos p n : Nat) (clp : Option Nat) : Prop :=
  (∀ c, clp = some c → c ∈ lines ∧ p < c ∧ c ≤ p + n ∧
    (is_abk (getc buf c) = true ∨ (c = p + n ∧ getc buf c = 'm' ∧ c < pos)) ∧
    ∀ y ∈ lines, p < y → y < c → is_abk (getc buf y) = false) ∧
  (clp = none → ∀ y ∈ lines, p < y → y < p + n → is_abk (getc buf y) = false)

/-- A section agrees with the lines read up to `pos`. -/
def section_ok (buf : List Char) (end_ : Nat) (lines : List Nat) (pos : Nat)
    (x : section_view) : Prop :=
  ∃ p, x.s.s = some p ∧ 0 < x.s.len ∧ p + x.s.len ≤ pos ∧
    (p + x.s.len = end_ ∨ getc buf (p + x.s.len - 1) = '\n') ∧
    (x.is_media = true → getc buf p = 'm' ∧ 0 < p ∧
      mark_ok buf lines pos p x.s.len x.c_line_pos) ∧
    (x.is_media = false → (p = 0 ∨ getc buf p = 'v') ∧ x.c_line_pos = none)

/-- A layout agrees with the lines read. -/
def layout_ok (buf : List Char) (end_ : Nat) (a : layout_state) (lines : List Nat) : Prop :=
  tiled 0 a.pos ((layout_sections a).map (fun x => x.s)) ∧
  a.pos ≤ end_ ∧ (∀ y ∈ lines, y < a.pos) ∧
  (a.cur = none → a.closed = [] ∧ lines = [] ∧ a.pos = 0) ∧
  (layout_sections a).map (fun x => x.s.s) =
    (lines.filter (is_section_start buf)).map some ∧
  ∀ x ∈ layout_sections a, section_ok buf end_ lines a.pos x

/-- A body with a media section in which a `c=` line comes before the first
`a=` line. -/
def demo_layout_body : List Char :=
  "v=0\r\nm=audio 9 udp 8\r\nc=IN IP4 1.2.3.4\r\na=sendrecv\r\n".toList

/-- What `sdp_parse` returns on `demo_layout_body`. -/
def demo_layout_parse : parse_result :=
  (sdp_parse demo_env false demo_layout_body 52 [] false).getD
    { ret := -1, sessions := [], body_len := 0 }

/-- What `sdp_parse` returns on the body `v=0`, line feed, line feed. -/
def demo_tail_parse : parse_result :=
  (sdp_parse demo_env false "v=0\n\n".toList 5 [] false).getD
    { ret := -1, sessions := [], body_len := 0 }

/-! ## Candidate priorities in PASSTHRU mode -/

/-- Modelled from the spec: `ice_priority_pref` of ice.h is not under src/; the
candidate priority of RFC 5245, to which §4.4 refers: 2^24 times the type
preference plus 2^8 times the local preference plus 256 minus the component. -/
def ice_priority_pref (type_pref local_pref component : Nat) : Nat :=
  2 ^ 24 * type_pref + 2 ^ 8 * local_pref + (256 - component)

/-- Modelled from the spec: `ice_type_pref_from_prio` of ice.h is not under
src/; the type preference of an RFC 5245 priority, taken as `unsigned int`:
its bits 24 to 31. -/
def ice_type_pref_from_prio (prio : Nat) : Nat := prio % 2 ^ 32 / 2 ^ 24

/-- Modelled from the spec: `ice_local_pref_from_prio` of ice.h is not under
src/; the local preference of an RFC 5245 priority: its bits 8 to 23. -/
def ice_local_pref_from_prio (prio : Nat) : Nat := prio % 2 ^ 32 / 2 ^ 8 % 2 ^ 16

/-- The body of the loop of `new_priority` on one candidate attribute; the
state is `tpref`, `lpref` and the `uint32_t prio`. -/
def new_priority_step (type : Nat) (st : Nat × Nat × Nat) (a : sdp_attribute) :
    Nat × Nat × Nat :=
  let c := a.candidate
  if c.cand_parsed.priority ≤ st.2.2 && c.cand_parsed.type = type
      && c.cand_parsed.component_id = 1 then
    let tpref := ice_type_pref_from_prio c.cand_parsed.priority
    let lpref := ice_local_pref_from_prio c.cand_parsed.priority
    let tl : Nat × Nat :=
      if lpref ≠ 0 then (tpref, lpref - 1)
      else (if tpref ≠ 0 then tpref - 1 else tpref, 65535)
    (tl.1, tl.2, ice_priority_pref tl.1 tl.2 1 % 2 ^ 32)
  else st

/-- `new_priority`: the pair written to `*tprefp` and `*lprefp`.  The table
`ice_type_preference` of ice.c, which is outside `daemon/sdp.c`, is an
argument. -/
def new_priority (ice_type_preference : Nat → Nat) (media : sdp_media) (type : Nat) :
    Nat × Nat :=
  let lpref := 0
  let tpref := ice_type_preference type
  let prio := ice_priority_pref tpref lpref 1 % 2 ^ 32
  match attr_list_get_by_id media.attributes attr_id.ATTR_CANDIDATE with
  | none => (tpref, lpref)
  | some cands =>
    let r := cands.foldl (new_priority_step type) (tpref, lpref, prio)
    (r.1, r.2.1)

/-- The candidates of a media that `new_priority` looks at for a type: those
of the type with component 1. -/
def priority_candidates (media : sdp_media) (type : Nat) : List sdp_attribute :=
  ((attr_list_get_by_id media.attributes attr_id.ATTR_CANDIDATE).getD []).filter
    (fun a => a.candidate.cand_parsed.type = type && a.candidate.cand_parsed.component_id = 1)

/-- The type preferences of RFC 5245 for the types of the example
environment: host 126, server reflexive 100, peer reflexive 110, relay 0. -/
def demo_type_preference (type : Nat) : Nat :=
  if type = 1 then 126 else if type = 2 then 100 else if type = 3 then 110 else 0

/-- A candidate attribute with a priority, for the host type and component 1. -/
def demo_priority_attr (priority : Nat) : sdp_attribute :=
  { attr := attr_id.ATTR_CANDIDATE,
    candidate := { cand_parsed := { component_id := 1, type := 1, priority := priority },
                   parsed := true } }

/-- A media with the host candidates of the given priorities. -/
def demo_priority_media (priorities : List Nat) : sdp_media :=
  { attributes := attrs_inserted (priorities.map demo_priority_attr) }

/-- Invariant of the loop of `new_priority`: `prio` is the priority of the
pair for component 1, and the pair is in range. -/
def priority_state (st : Nat × Nat × Nat) : Prop :=
  st.1 < 256 ∧ st.2.1 < 65536 ∧ st.2.2 = 2 ^ 24 * st.1 + 2 ^ 8 * st.2.1 + 255

/-! ## The layout of an output with recorded version positions -/

/-- An output text cut at the version strings: for every session, the bytes
in front of its version string (after the version string of the session
before) and the version string itself. -/
def version_body (parts : List (List Char × List Char)) : List Char :=
  (parts.map (fun x => x.1 ++ x.2)).flatten

/-- The sessions record the positions and the lengths of the version strings
of a text that is cut into `parts`, the first part starting at offset `base`. -/
def versions_at : Nat → List sdp_session → List (List Char × List Char) → Prop
  | _, [], [] => True
  | base, s :: ss, x :: ps =>
    s.origin.version_output_pos = base + x.1.length ∧
    s.origin.version_str.len = x.2.length ∧
    versions_at (base + x.1.length + x.2.length) ss ps
  | _, _, _ => False

/-- The parts with every version string replaced by `digits`. -/
def restamp (digits : List Char) (parts : List (List Char × List Char)) :
    List (List Char × List Char) :=
  parts.map (fun x => (x.1, digits))

/-- Successive calls of `sdp_version_replace`, one for each version number. -/
def sdp_version_replace_all (chop : sdp_chopper) (sessions : List sdp_session)
    (origs : List monologue_origin) : sdp_chopper × List sdp_session :=
  origs.foldl (fun cs o => sdp_version_replace cs.1 cs.2 o) (chop, sessions)

/-- A chopper whose output holds two `o=` lines, with the versions `7` at
offset 6 and `99` at offset 17. -/
def demo_versions_chop : sdp_chopper :=
  { input := [], input_len := 0, output := "o=- 1 7 X\r\no=- 2 99 Y\r\n".toList }

/-- Two sessions that recorded the positions of the versions of
`demo_versions_chop`. -/
def demo_versions_sessions : List sdp_session :=
  [{ origin := { version_str := { s := some 6, len := 1 }, version_output_pos := 6 } },
   { origin := { version_str := { s := some 17, len := 2 }, version_output_pos := 17 } }]

/-! ## The numbering of the streams -/

/-- The indices of the streams of a queue, in queue order. -/
def stream_indices (l : List stream_params) : List Nat := l.map (fun sp => sp.index)

/-- The number of media that the media loop of `sdp_streams` discards through
`legacy_osrtp_accept` (the turns that end with the mark on the current media),
counted along the run of `sdp_streams_media_loop`. -/
def media_loop_discards (env : Env) (buf : List Char) (session : sdp_session) :
    List sdp_media → List sdp_media → streams_state → Nat
  | _, [], _ => 0
  | seen, media :: rest, st =>
    match sdp_streams_media env buf session (!seen.isEmpty) media st with
    | media_step.error _ _ => 0
    | media_step.next st1 prev_legacy cur_legacy =>
      let seen1 := if prev_legacy then mark_legacy_last seen else seen
      let media1 := if cur_legacy then { media with legacy_osrtp := true } else media
      (if cur_legacy then 1 else 0) +
        media_loop_discards env buf session (seen1 ++ [media1]) rest st1

/-- The number of media that the session loop of `sdp_streams` discards, counted
along the run of `sdp_streams_loop`. -/
def streams_loop_discards (env : Env) (buf : List Char) :
    List sdp_session → List sdp_session → streams_state → Nat
  | _, [], _ => 0
  | seen, session :: rest, st =>
    let st1 := { st with flags := sdp_streams_session_flags buf session st.flags }
    let r := sdp_streams_media_loop env buf session [] session.media_streams st1
    let session1 := { session with media_streams := r.2.2 }
    media_loop_discards env buf session [] session.media_streams st1 +
      (if r.1 ≠ 0 then 0 else streams_loop_discards env buf (seen ++ [session1]) rest r.2.1)

/-- The number of media that a call of `sdp_streams` discards. -/
def sdp_streams_discards (env : Env) (buf : List Char) (sessions : List sdp_session)
    (streams : List stream_params) (flags : sdp_ng_flags) : Nat :=
  streams_loop_discards env buf [] sessions { streams := streams, flags := flags, num := 0 }

/-- Invariant of the loops of `sdp_streams` after `d` discarded media: the
counter is the length of the queue plus `d`, the indices in the queue
increase strictly and lie between 1 and the counter, and without a discarded
media they are 1, 2, … in order. -/
def index_inv (d : Nat) (st : streams_state) : Prop :=
  st.num = st.streams.length + d ∧
  (stream_indices st.streams).Pairwise (fun a b => a < b) ∧
  (∀ x ∈ stream_indices st.streams, 1 ≤ x ∧ x ≤ st.num) ∧
  (d = 0 → stream_indices st.streams = List.range' 1 st.streams.length)

/-- A body with an `RTP/AVP` audio section, a rejected `RTP/SAVP` audio section
(port 0) and a video section. -/
def demo_discard_body : List Char :=
  ("v=0\r\nc=IN IP4 1.2.3.4\r\nm=audio 5000 RTP/AVP 0\r\n" ++
   "m=audio 0 RTP/SAVP 0\r\nm=video 5004 RTP/AVP 96\r\n").toList

/-! ## What stems from the lines after the first one -/

/-- The attribute stems from a line after the first one: its full line starts
past offset 0. -/
def attr_after_first (a : sdp_attribute) : Prop := ∃ q, a.full_line.s = some q ∧ 0 < q

/-- The media and its attributes stem from lines after the first one. -/
def media_after_first (m : sdp_media) : Prop :=
  (∃ q, m.s.s = some q ∧ 0 < q) ∧ ∀ a ∈ m.attributes.list, attr_after_first a

/-- The attributes and the medias of the session stem from lines after the first one. -/
def session_after_first (s : sdp_session) : Prop :=
  (∀ a ∈ s.attributes.list, attr_after_first a) ∧ ∀ m ∈ s.media_streams, media_after_first m

/-- Invariant of the loop of `sdp_parse` once the first line is taken: the next
line is not the first one, and all attributes and medias recorded stem from lines
after the first one. -/
def state_after_first (sessions0 : List sdp_session) (st : parse_state) (b : Option Nat) :
    Prop :=
  (∀ x, b = some x → 0 < x) ∧
  (∃ new, st.done = sessions0 ++ new ∧ ∀ s ∈ new, session_after_first s) ∧
  (∀ s, st.session = some s → session_after_first s) ∧
  (∀ m, st.media = some m → media_after_first m)

/-- A fragment whose first line is an attribute line, followed by further
attribute lines. -/
def demo_mid_fragment : List Char := "a=mid:0\r\na=tool:x\r\n".toList

/-- What `sdp_parse` returns on `demo_mid_fragment` with the fragment flag set. -/
def demo_mid_parse : parse_result :=
  (sdp_parse demo_env false demo_mid_fragment 19 [] true).getD
    { ret := -1, sessions := [], body_len := 0 }

/-- Flags whose remove set, at every level, holds the name `rtpmap`. -/
def demo_remove_rtpmap_flags : sdp_ng_flags :=
  { sdp_manipulations := fun _ => some { rem_commands := some ["rtpmap".toList] } }

/-- A short body with one media section and one attribute. -/
def demo_keep_body : List Char := "v=0\r\nm=audio 9 udp 8\r\na=rtpmap:8 PCMA/8000\r\n".toList

/-- The media section of `demo_keep_body`. -/
def demo_keep_media : sdp_media :=
  ((demo_sessions demo_keep_body).headD {}).media_streams.headD {}

/-! ## The fingerprint that `insert_dtls` prints -/

/-- One upper-case hexadecimal digit, as `printf` with `%X` writes it. -/
def upper_hex (d : Nat) : Char :=
  if d < 10 then Char.ofNat (48 + d) else Char.ofNat (55 + d)

/-- The two characters of `%02X` for an `unsigned char`. -/
def printf_02X (b : Nat) : List Char := [upper_hex (b % 256 / 16), upper_hex (b % 16)]

/-- The block `prepare fingerprint` of `insert_dtls`: the name of the hash
function, a space, `%02X:` for each of the `num_bytes` bytes of the digest,
and `g_string_truncate(s_dst, s_dst->len - 1)`, which takes the last colon
away. -/
def insert_dtls_fingerprint (hf : dtls_hash_func) (digest : List Nat) : List Char :=
  let s1 := hf.name ++ " ".toList
  let s2 := (List.range hf.num_bytes).foldl
    (fun s i => s ++ (printf_02X (digest.getD i 0) ++ ":".toList)) s1
  s2.dropLast

/-- The value of an `a=fingerprint` line as `insert_dtls` prints it for the
SHA-1 digest of the bytes 236 down to 217, followed by the end of the line. -/
def demo_fingerprint_line : List Char :=
  insert_dtls_fingerprint { name := "sha-1".toList, num_bytes := 20 }
    ((List.range 20).map (fun i => 236 - i)) ++ "\r\n".toList

/-! ## Examples for the port count -/

/-- The line `m=audio 5000/2 RTP/AVP 0`. -/
def demo_count_line : List Char := "m=audio 5000/2 RTP/AVP 0\r\n".toList

/-- The media of `demo_count_line` as far as the port functions read it: port
5000, two ports, the port token `5000/2` at offset 8. -/
def demo_count_media : sdp_media :=
  { port_count := 2, port_num := 5000, port := { s := some 8, len := 6 } }

/-- The media of the line `m=audio 0/2 RTP/AVP 0`: port 0, two ports, the port
token `0/2` at offset 8. -/
def demo_count_zero : sdp_media :=
  { port_count := 2, port_num := 0, port := { s := some 8, len := 3 } }

/-! ## The layout of the media sections -/

/-- A media section whose slice lies inside the body (of length `end_`) and
whose attribute lines lie in order inside its slice. -/
def media_wf (end_ : Nat) (m : sdp_media) : Prop :=
  ∃ p, m.s.s = some p ∧ p + m.s.len ≤ end_ ∧ attrs_within p (p + m.s.len) m.attributes.list

/-- Invariant of the `sdp_parse` loop at its head for the media sections: the
media of the sessions added to the queue so far and of the current session are
well-formed, and so is the current media, which ends at or before the line
about to be read. -/
def parse_inv_media (sessions0 : List sdp_session) (end_ : Nat) (st : parse_state)
    (b : Option Nat) : Prop :=
  (∃ new, st.done = sessions0 ++ new ∧ ∀ s ∈ new, ∀ m ∈ s.media_streams, media_wf end_ m) ∧
  (∀ s, st.session = some s → ∀ m ∈ s.media_streams, media_wf end_ m) ∧
  (∀ m, st.media = some m →
    media_wf end_ m ∧ ∀ x, b = some x → m.s.s.getD 0 + m.s.len ≤ x)

/-! ## Examples and frames for the rewriter on parsed bodies -/

/-- A body whose media section has its `a=mid` line after its `c=` line. -/
def demo_mid_body : List Char :=
  "v=0\r\nm=audio 5000 RTP/AVP 0\r\nc=IN IP4 1.2.3.4\r\na=mid:1\r\n".toList

/-- A body whose media section has its `a=mid` line before its `c=` line. -/
def demo_early_mid_body : List Char :=
  "v=0\r\nm=audio 5000 RTP/AVP 0\r\na=mid:1\r\nc=IN IP4 1.2.3.4\r\n".toList

theorem with_facts2 {A1 A2 S : Prop}
    (body : A1 → A2 → S)
    (h : A1 ∧ A2) : S :=
  body h.1 h.2

theorem with_facts3 {A1 A2 A3 S : Prop}
    (body : A1 → A2 → A3 → S)
    (h : A1 ∧ A2 ∧ A3) : S :=
  body h.1 h.2.1 h.2.2

theorem with_facts4 {A1 A2 A3 A4 S : Prop}
    (body : A1 → A2 → A3 → A4 → S)
    (h : A1 ∧ A2 ∧ A3 ∧ A4) : S :=
  body h.1 h.2.1 h.2.2.1 h.2.2.2

theorem with_facts5 {A1 A2 A3 A4 A5 S : Prop}
    (body : A1 → A2 → A3 → A4 → A5 → S)
    (h : A1 ∧ A2 ∧ A3 ∧ A4 ∧ A5) : S :=
  body h.1 h.2.1 h.2.2.1 h.2.2.2.1 h.2.2.2.2

theorem with_facts6 {A1 A2 A3 A4 A5 A6 S : Prop}
    (body : A1 → A2 → A3 → A4 → A5 → A6 → S)
    (h : A1 ∧ A2 ∧ A3 ∧ A4 ∧ A5 ∧ A6) : S :=
  body h.1 h.2.1 h.2.2.1 h.2.2.2.1 h.2.2.2.2.1 h.2.2.2.2.2

theorem with_facts7 {A1 A2 A3 A4 A5 A6 A7 S : Prop}
    (body : A1 → A2 → A3 → A4 → A5 → A6 → A7 → S)
    (h : A1 ∧ A2 ∧ A3 ∧ A4 ∧ A5 ∧ A6 ∧ A7) : S :=
  body h.1 h.2.1 h.2.2.1 h.2.2.2.1 h.2.2.2.2.1 h.2.2.2.2.2.1 h.2.2.2.2.2.2

theorem with_facts9 {A1 A2 A3 A4 A5 A6 A7 A8 A9 S : Prop}
    (body : A1 → A2 → A3 → A4 → A5 → A6 → A7 → A8 → A9 → S)
    (h : A1 ∧ A2 ∧ A3 ∧ A4 ∧ A5 ∧ A6 ∧ A7 ∧ A8 ∧ A9) : S :=
  body h.1 h.2.1 h.2.2.1 h.2.2.2.1 h.2.2.2.2.1 h.2.2.2.2.2.1 h.2.2.2.2.2.2.1 h.2.2.2.2.2.2.2.1
    h.2.2.2.2.2.2.2.2

theorem with_facts12 {A1 A2 A3 A4 A5 A6 A7 A8 A9 A10 A11 A12 S : Prop}
    (body : A1 → A2 → A3 → A4 → A5 → A6 → A7 → A8 → A9 → A10 → A11 → A12 → S)
    (h : A1 ∧ A2 ∧ A3 ∧ A4 ∧ A5 ∧ A6 ∧ A7 ∧ A8 ∧ A9 ∧ A10 ∧ A11 ∧ A12) : S :=
  body h.1 h.2.1 h.2.2.1 h.2.2.2.1 h.2.2.2.2.1 h.2.2.2.2.2.1 h.2.2.2.2.2.2.1 h.2.2.2.2.2.2.2.1
    h.2.2.2.2.2.2.2.2.1 h.2.2.2.2.2.2.2.2.2.1 h.2.2.2.2.2.2.2.2.2.2.1 h.2.2.2.2.2.2.2.2.2.2.2


/-! ## libc and slice helpers -/

theorem getc_eq_headD_drop (buf : List Char) (p : Nat) :
    (buf.drop p).headD (Char.ofNat 0) = getc buf p := by
  unfold getc
  induction buf generalizing p with
  | nil => simp
  | cons a rest ih =>
    cases p with
    | zero => simp
    | succ k =>
      simp only [List.drop_succ_cons, List.getD_cons_succ]
      exact ih k

theorem memchr_zero (buf : List Char) (p : Nat) (c : Char) : memchr buf p c 0 = none := rfl

/-- The recursion of `memchr`: look at the byte at `p`, then go on at `p + 1`. -/
theorem memchr_succ (buf : List Char) (p : Nat) (c : Char) (n : Nat) :
    memchr buf p c (n + 1) = if getc buf p = c then some p else memchr buf (p + 1) c n := by
  unfold memchr
  rw [memchr_scan, getc_eq_headD_drop, List.tail_drop]

theorem memchr_some {buf : List Char} {c : Char} :
    ∀ (n p q : Nat), memchr buf p c n = some q →
      p ≤ q ∧ q < p + n ∧ getc buf q = c ∧ ∀ i, p ≤ i → i < q → getc buf i ≠ c := by
  intro n
  induction n with
  | zero => intro p q h; simp [memchr, memchr_scan] at h
  | succ n ih =>
    intro p q h
    rw [memchr_succ] at h
    split at h
    · rename_i hc
      injection h with h
      subst h
      refine ⟨le_refl _, by omega, hc, ?_⟩
      intro i h1 h2
      omega
    · rename_i hc
      obtain ⟨h1, h2, h3, h4⟩ := ih (p + 1) q h
      refine ⟨by omega, by omega, h3, ?_⟩
      intro i hi1 hi2
      by_cases hip : i = p
      · subst hip; exact hc
      · exact h4 i (by omega) hi2

theorem memchr_none {buf : List Char} {c : Char} :
    ∀ (n p : Nat), memchr buf p c n = none → ∀ i, p ≤ i → i < p + n → getc buf i ≠ c := by
  intro n
  induction n with
  | zero => intro p _ i h1 h2; omega
  | succ n ih =>
    intro p h i h1 h2
    rw [memchr_succ] at h
    split at h
    · simp at h
    · rename_i hc
      by_cases hip : i = p
      · subst hip; exact hc
      · exact ih (p + 1) h i (by omega) (by omega)

theorem find_next_line_some {buf : List Char} {end_ value n : Nat}
    (h : find_next_line buf end_ value = some n) : value + 1 ≤ n ∧ n ≤ end_ := by
  unfold find_next_line at h
  cases hm : memchr buf value '\n' (end_ - value) with
  | none => simp [hm] at h
  | some q =>
    simp [hm] at h
    obtain ⟨h1, h2, _, _⟩ := memchr_some _ _ _ hm
    omega

/-! ## The loop of `sdp_parse` -/

theorem sdp_parse_line_next {env : Env} {buf : List Char} {end_ : Nat} {strict fragment : Bool}
    {st st1 : parse_state} {b : Nat} {nl : Option Nat}
    (h : sdp_parse_line env strict buf end_ fragment st b = parse_step.next st1 nl) :
    nl = find_next_line buf end_ (b + 2) := by
  unfold sdp_parse_line at h
  split at h
  · simp at h
  · split at h
    · simp at h
    · simp only at h
      split at h
      · simp at h
      · split at h
        · simp at h
        · injection h with _ h2
          exact h2.symm

theorem sdp_parse_line_next_lt {env : Env} {buf : List Char} {end_ : Nat} {strict fragment : Bool}
    {st st1 : parse_state} {b y : Nat}
    (h : sdp_parse_line env strict buf end_ fragment st b = parse_step.next st1 (some y)) :
    b + 3 ≤ y ∧ y ≤ end_ := by
  have h1 := sdp_parse_line_next h
  have h2 := find_next_line_some h1.symm
  omega

/-- Whether the fuel is enough for the loop entered at `b`. -/
theorem sdp_parse_loop_fuel (env : Env) (strict : Bool) (buf : List Char) (end_ : Nat) (fragment : Bool) :
    ∀ (fuel : Nat) (st : parse_state) (b : Option Nat),
      (match b with | none => 0 < fuel | some x => end_ - x < fuel) →
      ∃ r, sdp_parse_loop env strict buf end_ fragment fuel st b = some r := by
  intro fuel
  induction fuel with
  | zero =>
    intro st b h
    cases b <;> simp at h
  | succ n ih =>
    intro st b h
    cases b with
    | none => exact ⟨_, rfl⟩
    | some x =>
      simp only at h
      unfold sdp_parse_loop
      simp only
      split
      · rename_i hx
        split
        · exact ⟨_, rfl⟩
        · exact ⟨_, rfl⟩
        · rename_i st1 nl hstep
          apply ih
          cases nl with
          | none => simp only; omega
          | some y =>
            have := sdp_parse_line_next_lt hstep
            simp only
            omega
      · exact ⟨_, rfl⟩

/-- The parser always returns: the fuel of `sdp_parse` never runs out. -/
theorem sdp_parse_returns (env : Env) (strict : Bool) (buf : List Char) (len : Nat)
    (sessions : List sdp_session) (fragment : Bool) :
    ∃ r, sdp_parse env strict buf len sessions fragment = some r := by
  unfold sdp_parse
  apply sdp_parse_loop_fuel
  simp only
  omega

/-- From a reached loop head on, `sdp_parse` is the loop run from there with enough fuel. -/
theorem sdp_parse_of_reaches {env : Env} {buf : List Char} {len : Nat}
    {sessions : List sdp_session} {strict fragment : Bool} {st : parse_state} {b : Option Nat}
    (h : Reaches env strict buf len fragment (parse_init sessions) st b) :
    ∃ fuel, (match b with | none => 0 < fuel | some x => len - x < fuel) ∧
      sdp_parse env strict buf len sessions fragment = sdp_parse_loop env strict buf len fragment fuel st b := by
  induction h with
  | start => exact ⟨len + 1, by simp only; omega, rfl⟩
  | step hr hb hstep ih =>
    rename_i st st1 b nl
    obtain ⟨fuel, hf, heq⟩ := ih
    simp only at hf
    obtain ⟨n, rfl⟩ : ∃ n, fuel = n + 1 := ⟨fuel - 1, by omega⟩
    refine ⟨n, ?_, ?_⟩
    · cases nl with
      | none => simp only; omega
      | some y =>
        have := sdp_parse_line_next_lt hstep
        simp only
        omega
    · rw [heq]
      conv => lhs; unfold sdp_parse_loop
      simp only [hb, if_true, hstep]

/-- What `sdp_parse` returns when the parser reaches a line: the outcome of that
turn of the loop decides it. -/
theorem sdp_parse_at_line {env : Env} {buf : List Char} {len : Nat}
    {sessions : List sdp_session} {strict fragment : Bool} {st : parse_state} {b : Nat}
    (h : Reaches env strict buf len fragment (parse_init sessions) st (some b))
    (hb : b + 1 < len) :
    (∀ e, sdp_parse_line env strict buf len fragment st b = parse_step.error e →
      sdp_parse env strict buf len sessions fragment
        = some { ret := -1, sessions := [], body_len := len }) ∧
    (sdp_parse_line env strict buf len fragment st b = parse_step.stop →
      sdp_parse env strict buf len sessions fragment
        = some { ret := 0, sessions := sessions_of st, body_len := b }) := by
  obtain ⟨fuel, hf, heq⟩ := sdp_parse_of_reaches h
  simp only at hf
  obtain ⟨n, rfl⟩ : ∃ n, fuel = n + 1 := ⟨fuel - 1, by omega⟩
  constructor
  · intro e he
    rw [heq]
    conv => lhs; unfold sdp_parse_loop
    simp only [hb, if_true, he, sdp_sessions_clear]
  · intro he
    rw [heq]
    conv => lhs; unfold sdp_parse_loop
    simp only [hb, if_true, he]

/-- What `sdp_parse` returns when the loop arrives at a head where it ends. -/
theorem sdp_parse_at_end {env : Env} {buf : List Char} {len : Nat}
    {sessions : List sdp_session} {strict fragment : Bool} {st : parse_state} {b : Option Nat}
    (h : Reaches env strict buf len fragment (parse_init sessions) st b)
    (hb : ∀ x, b = some x → ¬ (x + 1 < len)) :
    sdp_parse env strict buf len sessions fragment
      = some { ret := 0, sessions := sessions_of st, body_len := len } := by
  obtain ⟨fuel, hf, heq⟩ := sdp_parse_of_reaches h
  rw [heq]
  cases b with
  | none =>
    simp only at hf
    obtain ⟨n, rfl⟩ : ∃ n, fuel = n + 1 := ⟨fuel - 1, by omega⟩
    rfl
  | some x =>
    simp only at hf
    obtain ⟨n, rfl⟩ : ∃ n, fuel = n + 1 := ⟨fuel - 1, by omega⟩
    unfold sdp_parse_loop
    simp only [hb x rfl, if_false]

/-! ## Chopper lemmas -/

theorem bytes_at_eq_map_getc (buf : List Char) :
    ∀ (n p : Nat), p + n ≤ buf.length → bytes_at buf p n = (List.range' p n).map (getc buf) := by
  intro n
  induction n with
  | zero => intro p _; simp [bytes_at]
  | succ n ih =>
    intro p h
    have hp : p < buf.length := by omega
    have ih' := ih (p + 1) (by omega)
    unfold bytes_at at ih' ⊢
    rw [List.drop_eq_getElem_cons hp, List.take_succ_cons, ih']
    simp [List.range', getc, List.getD_eq_getElem?_getD, List.getElem?_eq_getElem hp]

theorem bytes_at_append (buf : List Char) (p m n : Nat) :
    bytes_at buf p m ++ bytes_at buf (p + m) n = bytes_at buf p (m + n) := by
  unfold bytes_at
  rw [List.take_add, List.drop_drop]
  
theorem attrs_within_le {lo hi : Nat} {l : List sdp_attribute} (h : attrs_within lo hi l) :
    lo ≤ hi := by
  induction l generalizing lo with
  | nil => exact h
  | cons a rest ih =>
    obtain ⟨p, _, h2, _, h4⟩ := h
    have := ih h4
    omega

theorem attrs_within_mono {lo lo1 hi hi1 : Nat} {l : List sdp_attribute}
    (h : attrs_within lo hi l) (h1 : lo1 ≤ lo) (h2 : hi ≤ hi1) : attrs_within lo1 hi1 l := by
  induction l generalizing lo lo1 with
  | nil => unfold attrs_within at h ⊢; omega
  | cons a rest ih =>
    obtain ⟨p, hp, hlo, hlen, hr⟩ := h
    exact ⟨p, hp, by omega, hlen, ih hr (le_refl _)⟩

theorem attrs_within_append {lo hi hi1 : Nat} {l : List sdp_attribute} {a : sdp_attribute}
    {p : Nat} (h : attrs_within lo hi l) (hp : a.full_line.s = some p) (h1 : hi ≤ p)
    (hlen : 0 < a.full_line.len) (h2 : p + a.full_line.len ≤ hi1) :
    attrs_within lo hi1 (l ++ [a]) := by
  induction l generalizing lo with
  | nil =>
    unfold attrs_within at h
    exact ⟨p, hp, by omega, hlen, h2⟩
  | cons x rest ih =>
    obtain ⟨q, hq, hlo, hl, hr⟩ := h
    exact ⟨q, hq, hlo, hl, ih hr⟩


theorem copy_skip_ok (chop : sdp_chopper) (w : Str) (p : Nat) (hp : w.s = some p)
    (hpos : chop.position ≤ p) :
    copy_up_to chop w = (0, { chop with
        output := chop.output ++ bytes_at chop.input chop.position (p - chop.position),
        position := p }) ∧
    skip_over { chop with
        output := chop.output ++ bytes_at chop.input chop.position (p - chop.position),
        position := p } w = (0, { chop with
        output := chop.output ++ bytes_at chop.input chop.position (p - chop.position),
        position := p + w.len }) := by
  constructor
  · unfold copy_up_to copy_up_to_ptr
    rw [hp]
    simp only
    have h1 : ¬ ((p : Int) - (chop.position : Int) < 0) := by omega
    have h2 : ((p : Int) - (chop.position : Int)).toNat = p - chop.position := by omega
    simp only [h1, if_false, h2, chopper_append]
    congr 2
    omega
  · unfold skip_over
    rw [hp]
    simp only
    have h1 : ¬ ((p : Int) + (w.len : Int) - (p : Int) < 0) := by omega
    have h2 : ((p : Int) + (w.len : Int) - (p : Int)).toNat = w.len := by omega
    simp only [h1, if_false, h2]


theorem apply_attr_action_ok (act : sdp_attribute → attr_action) (chop : sdp_chopper)
    (a : sdp_attribute) (p : Nat) (hp : a.full_line.s = some p) (hpos : chop.position ≤ p) :
    (edit_of_action (act a) = none ∧
      apply_attr_action chop a (act a) = (0, chop)) ∨
    (∃ repl, edit_of_action (act a) = some repl ∧
      apply_attr_action chop a (act a) =
        (0, { chop with
          output := chop.output ++ bytes_at chop.input chop.position (p - chop.position) ++ repl,
          position := p + a.full_line.len })) := by
  obtain ⟨h1, h2⟩ := copy_skip_ok chop a.full_line p hp hpos
  cases hact : act a with
  | keep => left; exact ⟨rfl, rfl⟩
  | strip =>
    right
    refine ⟨[], rfl, ?_⟩
    simp only [apply_attr_action, h1, h2, ne_eq, not_true_eq_false, if_false, List.append_nil]
  | strip_with_subst r =>
    right
    refine ⟨_, rfl, ?_⟩
    simp only [apply_attr_action, h1, h2, ne_eq, not_true_eq_false, if_false, chopper_append]

theorem process_loop_segment (act : sdp_attribute → attr_action) :
    ∀ (attrs : List sdp_attribute) (chop : sdp_chopper) (lo hi : Nat),
      attrs_within lo hi attrs → chop.position ≤ lo →
      ∃ chop1, process_attrs_loop act chop attrs = (0, chop1) ∧
        chop1.input = chop.input ∧ chop1.input_len = chop.input_len ∧
        chop1.offset = chop.offset ∧ chop1.position ≤ hi ∧
        chop.position ≤ chop1.position ∧
        chop1.output ++ bytes_at chop.input chop1.position (hi - chop1.position)
          = chop.output ++
            segment_output (fun a => edit_of_action (act a)) chop.input chop.position attrs hi := by
  intro attrs
  induction attrs with
  | nil =>
    intro chop lo hi h hpos
    unfold attrs_within at h
    exact ⟨chop, rfl, rfl, rfl, rfl, by omega, le_refl _, rfl⟩
  | cons a rest ih =>
    intro chop lo hi h hpos
    obtain ⟨p, hp, hlo, hlen, hr⟩ := h
    rcases apply_attr_action_ok act chop a p hp (by omega) with ⟨he, ha⟩ | ⟨repl, he, ha⟩
    · obtain ⟨chop1, h1, h2, h3, h4, h5, h5b, h6⟩ := ih chop _ hi hr (by omega)
      refine ⟨chop1, ?_, h2, h3, h4, h5, h5b, ?_⟩
      · simp only [process_attrs_loop, ha, ne_eq, not_true_eq_false, if_false]
        exact h1
      · rw [h6]
        simp only [segment_output, he]
    · obtain ⟨chop1, h1, h2, h3, h4, h5, h5b, h6⟩ := ih
        { chop with
          output := chop.output ++ bytes_at chop.input chop.position (p - chop.position) ++ repl,
          position := p + a.full_line.len } _ hi hr (le_refl _)
      refine ⟨chop1, ?_, h2, h3, h4, h5, ?_, ?_⟩
      · simp only [process_attrs_loop, ha, ne_eq, not_true_eq_false, if_false]
        exact h1
      · simp only at h5b
        omega
      · simp only at h6
        rw [h6]
        simp only [segment_output, he, hp, Option.getD_some, List.append_assoc]

theorem expected_before (edit : sdp_attribute → Option (List Char)) (buf : List Char) :
    ∀ (l : List sdp_attribute) (lo hi i : Nat), attrs_within lo hi l → i < lo →
      l.filterMap (fun a => if a.full_line.s = some i then edit a else none) = [] ∧
      l.any (fun a => (edit a).isSome && decide (a.full_line.s.getD 0 ≤ i)
        && decide (i < a.full_line.s.getD 0 + a.full_line.len)) = false := by
  intro l
  induction l with
  | nil => intro lo hi i _ _; exact ⟨rfl, rfl⟩
  | cons a rest ih =>
    intro lo hi i h hi'
    obtain ⟨p, hp, hlo, hlen, hr⟩ := h
    obtain ⟨h1, h2⟩ := ih _ hi i hr (by omega)
    have hne : ¬ (a.full_line.s = some i) := by
      rw [hp]; intro h; injection h with h; omega
    constructor
    · rw [List.filterMap_cons]
      simp only [hne, if_false]
      exact h1
    · rw [List.any_cons, h2]
      have : decide (a.full_line.s.getD 0 ≤ i) = false := by
        rw [hp]; simp only [Option.getD_some, decide_eq_false_iff_not]; omega
      simp [this]

theorem expected_at_before (edit : sdp_attribute → Option (List Char)) (buf : List Char)
    (l : List sdp_attribute) (lo hi i : Nat) (h : attrs_within lo hi l) (hi' : i < lo) :
    expected_at edit buf l i = [getc buf i] := by
  obtain ⟨h1, h2⟩ := expected_before edit buf l lo hi i h hi'
  unfold expected_at
  rw [h1, h2]
  simp

theorem expected_output_split (edit : sdp_attribute → Option (List Char)) (buf : List Char)
    (l : List sdp_attribute) (lo mid hi : Nat) (h1 : lo ≤ mid) (h2 : mid ≤ hi) :
    expected_output edit buf l lo hi
      = expected_output edit buf l lo mid ++ expected_output edit buf l mid hi := by
  unfold expected_output
  rw [← List.flatten_append, ← List.map_append]
  have : List.range' lo (mid - lo) ++ List.range' mid (hi - mid) = List.range' lo (hi - lo) := by
    have := List.range'_append_1 lo (mid - lo) (hi - mid)
    rw [show lo + (mid - lo) = mid by omega, show hi - mid + (mid - lo) = hi - lo by omega] at this
    exact this
  rw [this]

theorem expected_output_congr (edit : sdp_attribute → Option (List Char)) (buf : List Char)
    (l l1 : List sdp_attribute) (lo hi : Nat)
    (h : ∀ i, lo ≤ i → i < hi → expected_at edit buf l i = expected_at edit buf l1 i) :
    expected_output edit buf l lo hi = expected_output edit buf l1 lo hi := by
  unfold expected_output
  congr 1
  apply List.map_congr_left
  intro i hi'
  rw [List.mem_range'_1] at hi'
  exact h i hi'.1 (by omega)

theorem flatten_map_singleton {α β : Type} (f : α → β) (l : List α) :
    (l.map (fun i => [f i])).flatten = l.map f := by
  induction l with
  | nil => rfl
  | cons x xs ih => simp [ih]

theorem expected_output_plain (edit : sdp_attribute → Option (List Char)) (buf : List Char)
    (l : List sdp_attribute) (lo hi : Nat) (hlen : hi ≤ buf.length)
    (h : ∀ i, lo ≤ i → i < hi → expected_at edit buf l i = [getc buf i]) :
    expected_output edit buf l lo hi = bytes_at buf lo (hi - lo) := by
  by_cases hle : lo ≤ hi
  · rw [bytes_at_eq_map_getc buf _ _ (by omega)]
    unfold expected_output
    have hm : (List.range' lo (hi - lo)).map (expected_at edit buf l)
        = (List.range' lo (hi - lo)).map (fun i => [getc buf i]) := by
      apply List.map_congr_left
      intro i hi'
      rw [List.mem_range'_1] at hi'
      exact h i hi'.1 (by omega)
    rw [hm, flatten_map_singleton]
  · have : hi - lo = 0 := by omega
    simp [expected_output, this, bytes_at]


theorem expected_at_cons_skip (edit : sdp_attribute → Option (List Char)) (buf : List Char) (a : sdp_attribute)
    (rest : List sdp_attribute) (i p : Nat) (hp : a.full_line.s = some p)
    (h : edit a = none ∨ i < p ∨ p + a.full_line.len ≤ i)
    (hlen : 0 < a.full_line.len) :
    expected_at edit buf (a :: rest) i = expected_at edit buf rest i := by
  unfold expected_at
  rw [List.filterMap_cons, List.any_cons]
  have h1 : (if a.full_line.s = some i then edit a else none) = none := by
    rcases h with h | h | h
    · rw [h]; simp
    · rw [hp]
      have : ¬ (some p = some i) := by intro h'; injection h' with h'; omega
      simp [this]
    · rw [hp]
      have : ¬ (some p = some i) := by intro h'; injection h' with h'; omega
      simp [this]
  have h2 : ((edit a).isSome && decide (a.full_line.s.getD 0 ≤ i)
        && decide (i < a.full_line.s.getD 0 + a.full_line.len)) = false := by
    rcases h with h | h | h
    · rw [h]; simp
    · rw [hp]
      have : decide (p ≤ i) = false := by simp; omega
      simp [this]
    · rw [hp]
      have : decide (i < p + a.full_line.len) = false := by simp; omega
      simp [this]
  rw [h1, h2]
  simp

theorem expected_at_inside (edit : sdp_attribute → Option (List Char)) (buf : List Char) (a : sdp_attribute)
    (rest : List sdp_attribute) (i p hi : Nat) (repl : List Char)
    (hp : a.full_line.s = some p) (he : edit a = some repl)
    (hr : attrs_within (p + a.full_line.len) hi rest)
    (h1 : p ≤ i) (h2 : i < p + a.full_line.len) :
    expected_at edit buf (a :: rest) i = if i = p then repl else [] := by
  obtain ⟨hf, hg⟩ := expected_before edit buf rest _ hi i hr h2
  unfold expected_at
  rw [List.filterMap_cons, List.any_cons, hf, hg, he, hp]
  have hd1 : decide (p ≤ i) = true := by simp; omega
  have hd2 : decide (i < p + a.full_line.len) = true := by simp; omega
  simp only [Option.getD_some, hd1, hd2, Option.isSome_some, Bool.and_self, Bool.true_or,
    if_true, List.append_nil]
  by_cases hip : i = p
  · subst hip; simp
  · have : ¬ (some p = some i) := by intro h'; injection h' with h'; omega
    simp [this, hip]

theorem expected_output_inside (edit : sdp_attribute → Option (List Char)) (buf : List Char) (a : sdp_attribute)
    (rest : List sdp_attribute) (p hi : Nat) (repl : List Char)
    (hp : a.full_line.s = some p) (he : edit a = some repl)
    (hr : attrs_within (p + a.full_line.len) hi rest) (hlen : 0 < a.full_line.len) :
    expected_output edit buf (a :: rest) p (p + a.full_line.len) = repl := by
  unfold expected_output
  obtain ⟨n, hn⟩ : ∃ n, a.full_line.len = n + 1 := ⟨a.full_line.len - 1, by omega⟩
  rw [show p + a.full_line.len - p = n + 1 by omega, List.range'_succ, List.map_cons,
    List.flatten_cons]
  have h0 := expected_at_inside edit buf a rest p p hi repl hp he hr (le_refl _) (by omega)
  rw [h0]
  simp only [if_true]
  have hz : ((List.range' (p + 1) n).map (expected_at edit buf (a :: rest))).flatten = [] := by
    rw [List.flatten_eq_nil_iff]
    intro x hx
    rw [List.mem_map] at hx
    obtain ⟨i, hi1, hi2⟩ := hx
    rw [List.mem_range'_1] at hi1
    rw [← hi2, expected_at_inside edit buf a rest i p hi repl hp he hr (by omega) (by omega)]
    have : ¬ (i = p) := by omega
    simp [this]
  rw [hz]
  simp

theorem segment_eq_expected (edit : sdp_attribute → Option (List Char)) (buf : List Char) :
    ∀ (attrs : List sdp_attribute) (cur lo hi : Nat), attrs_within lo hi attrs → cur ≤ lo →
      hi ≤ buf.length →
      segment_output edit buf cur attrs hi = expected_output edit buf attrs cur hi := by
  intro attrs
  induction attrs with
  | nil =>
    intro cur lo hi h hc hlen
    rw [expected_output_plain edit buf [] cur hi hlen]
    · rfl
    · intro i _ _
      simp [expected_at]
  | cons a rest ih =>
    intro cur lo hi h hc hlen
    obtain ⟨p, hp, hlo, hl, hr⟩ := h
    have hle := attrs_within_le hr
    cases he : edit a with
    | none =>
      simp only [segment_output, he]
      rw [ih cur _ hi hr (by omega) hlen]
      apply expected_output_congr
      intro i _ _
      exact (expected_at_cons_skip edit buf a rest i p hp (Or.inl he) hl).symm
    | some repl =>
      simp only [segment_output, he, hp, Option.getD_some]
      rw [ih _ _ hi hr (le_refl _) hlen]
      rw [expected_output_split edit buf (a :: rest) cur p hi (by omega) (by omega),
        expected_output_split edit buf (a :: rest) p (p + a.full_line.len) hi (by omega) hle,
        expected_output_inside edit buf a rest p hi repl hp he hr hl]
      rw [expected_output_plain edit buf (a :: rest) cur p (by omega)]
      · rw [List.append_assoc]
        congr 2
        apply expected_output_congr
        intro i h1 _
        exact (expected_at_cons_skip edit buf a rest i p hp (Or.inr (Or.inr h1)) hl).symm
      · intro i _ h2
        exact expected_at_before edit buf (a :: rest) p hi i ⟨p, hp, le_refl _, hl, hr⟩ h2


/-! ## Attribute parsers keep the full line -/

theorem ite_ind {α : Type} (P : α → Prop) {c : Prop} [Decidable c] {x y : α}
    (hx : P x) (hy : P y) : P (if c then x else y) := by
  split <;> assumption

theorem parse_attribute_crypto_full_line (env : Env) (buf : List Char) (a : sdp_attribute) :
    (parse_attribute_crypto env buf a).2.full_line = a.full_line := by
  unfold parse_attribute_crypto
  simp only
  repeat' split
  all_goals rfl

theorem parse_attribute_rtcp_full_line (env : Env) (buf : List Char) (a : sdp_attribute) :
    (parse_attribute_rtcp env buf a).2.full_line = a.full_line := by
  unfold parse_attribute_rtcp
  simp only
  repeat' split
  all_goals rfl

theorem parse_attribute_candidate_full_line (env : Env) (buf : List Char) (a : sdp_attribute)
    (e : Bool) : (parse_attribute_candidate env buf a e).2.full_line = a.full_line := by
  unfold parse_attribute_candidate
  simp only
  repeat' split
  all_goals rfl

theorem parse_attribute_fingerprint_full_line (env : Env) (buf : List Char) (a : sdp_attribute) :
    (parse_attribute_fingerprint env buf a).2.full_line = a.full_line := by
  unfold parse_attribute_fingerprint
  simp only
  repeat' split
  all_goals rfl

theorem parse_attribute_rtcp_fb_full_line (env : Env) (buf : List Char) (a : sdp_attribute) :
    (parse_attribute_rtcp_fb env buf a).2.full_line = a.full_line := by
  unfold parse_attribute_rtcp_fb
  simp only
  repeat' split
  all_goals rfl

theorem parse_attribute_rtpmap_full_line (buf : List Char) (a : sdp_attribute) :
    (parse_attribute_rtpmap buf a).2.full_line = a.full_line := by
  unfold parse_attribute_rtpmap
  simp only
  repeat' split
  all_goals rfl

theorem parse_attribute_fmtp_full_line (env : Env) (buf : List Char) (a : sdp_attribute) :
    (parse_attribute_fmtp env buf a).2.full_line = a.full_line := by
  unfold parse_attribute_fmtp
  simp only
  repeat' split
  all_goals rfl

theorem parse_attribute_t38faxudpecdepth_full_line (env : Env) (buf : List Char)
    (a : sdp_attribute) :
    (parse_attribute_t38faxudpecdepth env buf a).2.full_line = a.full_line := by
  unfold parse_attribute_t38faxudpecdepth
  simp only
  repeat' split
  all_goals rfl

theorem parse_attribute_strs_full_line (buf : List Char) (a : sdp_attribute) :
    (parse_attribute_strs buf a).full_line = a.full_line := by
  unfold parse_attribute_strs
  simp only
  repeat' split
  all_goals rfl

theorem parse_attribute_switch_full_line (env : Env) (buf : List Char) (a : sdp_attribute) :
    (parse_attribute_switch env buf a).2.full_line = a.full_line := by
  unfold parse_attribute_switch
  simp only
  repeat' (refine ite_ind (fun (r : Int × sdp_attribute) => r.2.full_line = a.full_line) ?_ ?_)
  all_goals first
    | rfl
    | exact parse_attribute_crypto_full_line env buf a
    | exact parse_attribute_rtcp_full_line env buf a
    | exact parse_attribute_candidate_full_line env buf a false
    | exact parse_attribute_fingerprint_full_line env buf a
    | exact parse_attribute_rtcp_fb_full_line env buf a
    | exact parse_attribute_rtpmap_full_line buf a
    | exact parse_attribute_fmtp_full_line env buf a
    | exact parse_attribute_t38faxudpecdepth_full_line env buf a

theorem parse_attribute_full_line (env : Env) (buf : List Char) (a : sdp_attribute) :
    (parse_attribute env buf a).2.full_line = a.full_line := by
  unfold parse_attribute
  rw [parse_attribute_switch_full_line, parse_attribute_strs_full_line]


/-! ## Shape of one turn of the parser loop -/

theorem sdp_parse_v_ok {buf : List Char} {st st1 : parse_state} {b value line_end : Nat}
    (h : sdp_parse_v buf st b value line_end = Except.ok st1) :
    st1 = new_session st b ∧ line_end = value + 1 ∧ getc buf value = '0' := by
  unfold sdp_parse_v at h
  split at h
  · simp at h
  · split at h
    · simp at h
    · rename_i h1 h2
      injection h with h
      exact ⟨h.symm, by simpa using h1, by simpa using h2⟩

theorem parse_media_attrs {env : Env} {buf : List Char} {v : Str} {m : sdp_media}
    (h : parse_media env buf v {} = some m) : m.attributes = {} ∧ m.c_line_pos = none := by
  unfold parse_media at h
  simp only at h
  repeat' split at h
  all_goals first
    | (simp at h; done)
    | (injection h with h; subst h; exact ⟨rfl, rfl⟩)

theorem set_c_line_pos_some (m : sdp_media) (b : Nat) :
    ∃ m1, set_c_line_pos (some m) b = some m1 ∧ m1.s = m.s ∧ m1.attributes = m.attributes := by
  unfold set_c_line_pos
  simp only [Option.map_some']
  split
  · exact ⟨_, rfl, rfl, rfl⟩
  · exact ⟨_, rfl, rfl, rfl⟩

theorem shape_media_same {st st1 : parse_state} {session : sdp_session} {b n : Nat}
    {m m1 : sdp_media} (_hs : st.session = some session) (hm : st.media = some m)
    (hd : st1.done = st.done)
    (hs1 : st1.session = some session) (hm1 : st1.media = some m1) (h1 : m1.s = m.s)
    (h2 : m1.attributes = m.attributes ∨
      ∃ a, a.full_line = { s := some b, len := n } ∧ m1.attributes = attr_insert m.attributes a) :
    switch_shape st session b n st1 :=
  Or.inr ⟨hd, session, hs1, rfl, Or.inr ⟨rfl, m1, hm1, Or.inr ⟨rfl, m, hm, h1, h2⟩⟩⟩

theorem shape_session_same {st st1 : parse_state} {session s1 : sdp_session} {b n : Nat}
    (hm : st.media = none)
    (hd : st1.done = st.done)
    (hs1 : st1.session = some s1) (hm1 : st1.media = none) (h1 : s1.s = session.s)
    (h3 : s1.media_streams = session.media_streams)
    (h2 : s1.attributes = session.attributes ∨
      ∃ a, a.full_line = { s := some b, len := n } ∧
        s1.attributes = attr_insert session.attributes a) :
    switch_shape st session b n st1 :=
  Or.inr ⟨hd, s1, hs1, h1, Or.inl ⟨hm, hm1, h3, h2⟩⟩

theorem shape_c_line_pos {st : parse_state} {session : sdp_session} {b n : Nat}
    (hs : st.session = some session) :
    switch_shape st session b n { st with media := set_c_line_pos st.media b } := by
  cases hm : st.media with
  | none =>
    exact shape_session_same hm rfl hs (by simp [set_c_line_pos, hm]) rfl rfl (Or.inl rfl)
  | some m =>
    obtain ⟨m1, h1, h2, h3⟩ := set_c_line_pos_some m b
    exact shape_media_same hs hm rfl hs (by simp only [h1]) h2 (Or.inl h3)

theorem sdp_parse_o_shape {env : Env} {buf : List Char} {st st1 : parse_state}
    {session : sdp_session} {b n : Nat} {v : Str}
    (h : sdp_parse_o env buf st session v = Except.ok st1) :
    switch_shape st session b n st1 := by
  unfold sdp_parse_o at h
  split at h
  · simp at h
  · rename_i hm
    split at h
    · simp at h
    · injection h with h
      subst h
      have hm1 : st.media = none := by simpa using hm
      exact shape_session_same hm1 rfl rfl hm1 rfl rfl (Or.inl rfl)

theorem sdp_parse_m_shape {env : Env} {buf : List Char} {st st1 : parse_state}
    {session : sdp_session} {b n : Nat} {v : Str}
    (h : sdp_parse_m env buf st session b v = Except.ok st1) :
    switch_shape st session b n st1 := by
  unfold sdp_parse_m at h
  simp only at h
  split at h
  · simp at h
  · rename_i m hm
    injection h with h
    subst h
    refine Or.inr ⟨rfl, _, rfl, rfl, Or.inr ⟨rfl, _, rfl, Or.inl ⟨rfl, rfl, ?_⟩⟩⟩
    exact (parse_media_attrs hm).1

theorem sdp_parse_c_shape {env : Env} {buf : List Char} {st st1 : parse_state}
    {session : sdp_session} {b n : Nat} {v : Str} (hs : st.session = some session)
    (h : sdp_parse_c env buf st session v = Except.ok st1) :
    switch_shape st session b n st1 := by
  unfold sdp_parse_c at h
  split at h
  · rename_i m hm
    split at h
    · simp at h
    · injection h with h
      subst h
      exact shape_media_same hs hm rfl hs rfl rfl (Or.inl rfl)
  · rename_i hm
    split at h
    · simp at h
    · injection h with h
      subst h
      exact shape_session_same hm rfl rfl hm rfl rfl (Or.inl rfl)

theorem sdp_parse_a_shape {env : Env} {buf : List Char} {st st1 : parse_state}
    {session : sdp_session} {b value line_end : Nat} {next_line : Option Nat}
    (hs : st.session = some session)
    (h : sdp_parse_a env buf st session b value line_end next_line = Except.ok st1) :
    switch_shape st session b (next_line.getD line_end - b) st1 := by
  unfold sdp_parse_a at h
  simp only at h
  split at h
  · injection h with h
    subst h
    exact shape_c_line_pos hs
  · have hfl := parse_attribute_full_line env buf (new_attribute b value line_end next_line)
    split at h
    · rename_i m hm
      injection h with h
      subst h
      cases hm0 : st.media with
      | none => simp [set_c_line_pos, hm0] at hm
      | some m0 =>
        obtain ⟨m1, h1, h2, h3⟩ := set_c_line_pos_some m0 b
        rw [hm0, h1] at hm
        injection hm with hm
        subst hm
        exact shape_media_same hs hm0 rfl hs rfl h2 (Or.inr ⟨_, hfl, by rw [h3]⟩)
    · rename_i hm
      injection h with h
      subst h
      have hm0 : st.media = none := by
        cases hm0 : st.media with
        | none => rfl
        | some m0 => simp [set_c_line_pos, hm0] at hm
      exact shape_session_same hm0 rfl rfl hm0 rfl rfl (Or.inr ⟨_, hfl, rfl⟩)

theorem sdp_parse_b_shape {buf : List Char} {st st1 : parse_state}
    {session : sdp_session} {b value line_end n : Nat}
    (hs : st.session = some session)
    (h : sdp_parse_b buf st session b value line_end = Except.ok st1) :
    switch_shape st session b n st1 := by
  unfold sdp_parse_b at h
  simp only at h
  split at h
  · injection h with h
    subst h
    exact shape_c_line_pos hs
  · split at h
    · rename_i m hm
      cases hm0 : st.media with
      | none => simp [set_c_line_pos, hm0] at hm
      | some m0 =>
        obtain ⟨m1, h1, h2, h3⟩ := set_c_line_pos_some m0 b
        rw [hm0, h1] at hm
        injection hm with hm
        subst hm
        split at h
        · injection h with h
          subst h
          exact shape_media_same hs hm0 rfl hs rfl h2 (Or.inl h3)
        · split at h
          · injection h with h
            subst h
            exact shape_media_same hs hm0 rfl hs rfl h2 (Or.inl h3)
          · split at h
            · injection h with h
              subst h
              exact shape_media_same hs hm0 rfl hs rfl h2 (Or.inl h3)
            · injection h with h
              subst h
              exact shape_media_same hs hm0 rfl hs (by simp only [hm0, h1]) h2 (Or.inl h3)
    · rename_i hm
      have hm0 : st.media = none := by
        cases hm0 : st.media with
        | none => rfl
        | some m0 => simp [set_c_line_pos, hm0] at hm
      split at h
      · injection h with h
        subst h
        exact shape_session_same hm0 rfl rfl hm rfl rfl (Or.inl rfl)
      · split at h
        · injection h with h
          subst h
          exact shape_session_same hm0 rfl rfl hm rfl rfl (Or.inl rfl)
        · injection h with h
          subst h
          exact shape_session_same hm0 rfl hs hm rfl rfl (Or.inl rfl)

theorem sdp_parse_st_shape {st st1 : parse_state} {session : sdp_session} {b n : Nat} {v : Str}
    (h : sdp_parse_s st session v = Except.ok st1 ∨ sdp_parse_t st session v = Except.ok st1) :
    switch_shape st session b n st1 := by
  rcases h with h | h
  · unfold sdp_parse_s at h
    split at h
    · simp at h
    · rename_i hm
      injection h with h
      subst h
      have hm1 : st.media = none := by simpa using hm
      exact shape_session_same hm1 rfl rfl hm1 rfl rfl (Or.inl rfl)
  · unfold sdp_parse_t at h
    split at h
    · simp at h
    · rename_i hm
      injection h with h
      subst h
      have hm1 : st.media = none := by simpa using hm
      exact shape_session_same hm1 rfl rfl hm1 rfl rfl (Or.inl rfl)

theorem ite_cases {α : Type} {c : Prop} [Decidable c] {x y z : α}
    (h : (if c then x else y) = z) : (c ∧ x = z) ∨ (¬ c ∧ y = z) := by
  split at h
  · left; exact ⟨by assumption, h⟩
  · right; exact ⟨by assumption, h⟩

theorem sdp_parse_switch_shape {env : Env} {buf : List Char} {st st1 : parse_state}
    {session : sdp_session} {b value line_end : Nat} {next_line : Option Nat}
    (hs : st.session = some session)
    (h : sdp_parse_switch env buf st session b value line_end next_line = Except.ok st1) :
    switch_shape st session b (next_line.getD line_end - b) st1 := by
  unfold sdp_parse_switch at h
  rcases ite_cases h with ⟨_, h⟩ | ⟨_, h⟩
  · exact Or.inl (sdp_parse_v_ok h).1
  rcases ite_cases h with ⟨_, h⟩ | ⟨_, h⟩
  · exact sdp_parse_o_shape h
  rcases ite_cases h with ⟨_, h⟩ | ⟨_, h⟩
  · exact sdp_parse_m_shape h
  rcases ite_cases h with ⟨_, h⟩ | ⟨_, h⟩
  · exact sdp_parse_c_shape hs h
  rcases ite_cases h with ⟨_, h⟩ | ⟨_, h⟩
  · exact sdp_parse_a_shape hs h
  rcases ite_cases h with ⟨_, h⟩ | ⟨_, h⟩
  · exact sdp_parse_b_shape hs h
  rcases ite_cases h with ⟨_, h⟩ | ⟨_, h⟩
  · injection h with h
    subst h
    exact shape_c_line_pos hs
  rcases ite_cases h with ⟨_, h⟩ | ⟨_, h⟩
  · exact sdp_parse_st_shape (Or.inl h)
  rcases ite_cases h with ⟨_, h⟩ | ⟨_, h⟩
  · exact sdp_parse_st_shape (Or.inr h)
  rcases ite_cases h with ⟨_, h⟩ | ⟨_, h⟩
  · injection h with h
    subst h
    cases hm : st.media with
    | none => exact shape_session_same hm rfl hs hm rfl rfl (Or.inl rfl)
    | some m => exact shape_media_same hs hm rfl hs hm rfl (Or.inl rfl)
  · simp at h


theorem find_line_end_of_none {buf : List Char} {end_ value : Nat}
    (h : find_next_line buf end_ value = none) : find_line_end buf end_ value = end_ := by
  unfold find_next_line at h
  unfold find_line_end
  cases hm : memchr buf value '\n' (end_ - value) with
  | none => rfl
  | some q => simp [hm] at h

/-- One turn of the loop that goes on: the state it leaves is the state after
the switch (or after `new_session:`), with the length of the current section adjusted. -/
theorem sdp_parse_line_shape {env : Env} {buf : List Char} {end_ : Nat} {strict fragment : Bool}
    {st st1 : parse_state} {b : Nat} {nl : Option Nat}
    (h : sdp_parse_line env strict buf end_ fragment st b = parse_step.next st1 nl) :
    ∃ st2 session2, st2.session = some session2 ∧
      st1 = adjust_len st2 session2 (nl.getD end_) ∧
      ((st.session = none ∧ st2 = new_session st b) ∨
       (∃ session, st.session = some session ∧
          switch_shape st session b (nl.getD (find_line_end buf end_ (b + 2)) - b) st2)) := by
  have hnl := sdp_parse_line_next h
  unfold sdp_parse_line at h
  rcases ite_cases h with ⟨_, h⟩ | ⟨_, h⟩
  · simp at h
  rcases ite_cases h with ⟨_, h⟩ | ⟨_, h⟩
  · simp at h
  simp only at h
  split at h
  · simp at h
  · rename_i st2 hsw
    split at h
    · simp at h
    · rename_i session2 hs2
      injection h with h1 h2
      subst h2
      refine ⟨st2, session2, hs2, h1.symm, ?_⟩
      split at hsw
      · rename_i hs
        left
        refine ⟨hs, ?_⟩
        rcases ite_cases hsw with ⟨_, hsw⟩ | ⟨_, hsw⟩
        · rcases ite_cases hsw with ⟨_, hsw⟩ | ⟨_, hsw⟩
          · simp at hsw
          · injection hsw with hsw
            exact hsw.symm
        · exact (sdp_parse_v_ok hsw).1
      · rename_i session hs
        right
        exact ⟨session, hs, sdp_parse_switch_shape hs hsw⟩


theorem session_wf_close {end_ : Nat} {s : sdp_session} (m : Option sdp_media)
    (h : session_wf end_ s) : session_wf end_ (close_session s m) := h

theorem parse_inv_init (sessions0 : List sdp_session) (len : Nat) :
    parse_inv sessions0 len (parse_init sessions0) (some 0) := by
  refine ⟨⟨[], by simp [parse_init], by simp⟩, ?_⟩
  intro s hs
  simp [parse_init] at hs

theorem parse_inv_step {env : Env} {buf : List Char} {end_ : Nat} {strict fragment : Bool}
    {sessions0 : List sdp_session} {st st1 : parse_state} {b : Nat} {nl : Option Nat}
    (hinv : parse_inv sessions0 end_ st (some b)) (hb : b + 1 < end_)
    (h : sdp_parse_line env strict buf end_ fragment st b = parse_step.next st1 nl) :
    parse_inv sessions0 end_ st1 nl := by
  have hnl := sdp_parse_line_next h
  obtain ⟨st2, session2, hs2, hst1, hshape⟩ := sdp_parse_line_shape h
  -- facts on the end of the line
  have hend : b < nl.getD end_ ∧ nl.getD end_ ≤ end_ := by
    cases hn : nl with
    | none => simp only [Option.getD_none]; omega
    | some y =>
      rw [hn] at h
      have := sdp_parse_line_next_lt h
      simp only [Option.getD_some]; omega
  have hfull : 0 < nl.getD (find_line_end buf end_ (b + 2)) - b ∧
      b + (nl.getD (find_line_end buf end_ (b + 2)) - b) ≤ nl.getD end_ := by
    cases hn : nl with
    | none =>
      rw [hn] at hnl
      rw [find_line_end_of_none hnl.symm]
      simp only [Option.getD_none]; omega
    | some y =>
      rw [hn] at h
      have := sdp_parse_line_next_lt h
      simp only [Option.getD_some]; omega
  have hnext : ∀ x, nl = some x → nl.getD end_ = x := by
    intro x hx; rw [hx]; rfl
  obtain ⟨⟨new, hdone, hnew⟩, hcur⟩ := hinv
  have new_case : st2 = new_session st b → parse_inv sessions0 end_ st1 nl := by
    intro hst2
    subst hst2
    simp only [new_session, Option.some.injEq] at hs2
    subst hs2
    subst hst1
    constructor
    · simp only [adjust_len, new_session, sessions_of]
      cases hs : st.session with
      | none =>
        refine ⟨new, by simp [hdone], hnew⟩
      | some s =>
        refine ⟨new ++ [close_session s st.media], by simp [hdone], ?_⟩
        intro x hx
        rw [List.mem_append] at hx
        rcases hx with hx | hx
        · exact hnew x hx
        · simp only [List.mem_singleton] at hx
          subst hx
          exact session_wf_close _ (hcur s hs).1
    · intro s hs
      simp only [adjust_len, new_session, Option.some.injEq] at hs
      subst hs
      refine ⟨⟨b, rfl, ?_, ?_⟩, ?_⟩
      · simp only [Option.getD_some]; omega
      · simp only [Option.getD_some, attrs_within]; omega
      · intro x hx
        rw [hnext x hx]
        simp only [Option.getD_some]
        rw [← hnext x hx]; omega
  rcases hshape with ⟨_, hst2⟩ | ⟨session, hs, hsh⟩
  · exact new_case hst2
  · rcases hsh with hst2 | ⟨hd, s1, hs1, hss, hsh⟩
    · exact new_case hst2
    · obtain ⟨⟨p, hp, hpe, haw⟩, hbound⟩ := hcur session hs
      have hpb : p + session.s.len ≤ b := by
        have := hbound b rfl
        rw [hp] at this
        simpa using this
      rw [hs1] at hs2
      injection hs2 with hs2
      subst hs2
      rcases hsh with ⟨hm, hm1, _, hattr⟩ | ⟨hattr, m1, hm1, _⟩
      · -- a line of the session level
        subst hst1
        constructor
        · refine ⟨new, ?_, hnew⟩
          simp only [adjust_len, hm1]
          rw [hd, hdone]
        · intro s hs'
          simp only [adjust_len, hm1, Option.some.injEq] at hs'
          subst hs'
          have hsp : s1.s.s = some p := by rw [hss]; exact hp
          simp only [hsp, Option.getD_some]
          refine ⟨⟨p, rfl, ?_, ?_⟩, ?_⟩
          · show p + (nl.getD end_ - p) ≤ end_
            omega
          · show attrs_within p (p + (nl.getD end_ - p)) s1.attributes.list
            rcases hattr with ha | ⟨a, hfl, ha⟩
            · rw [ha]
              exact attrs_within_mono haw (le_refl _) (by omega)
            · rw [ha]
              simp only [attr_insert]
              exact attrs_within_append haw (by rw [hfl]) hpb (by rw [hfl]; exact hfull.1)
                (by rw [hfl]; simp only; omega)
          · intro x hx
            show p + (nl.getD end_ - p) ≤ x
            have hh := hnext x hx
            omega
      · -- a line of the media level
        subst hst1
        constructor
        · refine ⟨new, ?_, hnew⟩
          simp only [adjust_len, hm1]
          rw [hd, hdone]
        · intro s hs'
          simp only [adjust_len, hm1] at hs'
          rw [hs1] at hs'
          injection hs' with hs'
          subst hs'
          have hsp : s1.s.s = some p := by rw [hss]; exact hp
          refine ⟨⟨p, hsp, by rw [hss]; exact hpe, by rw [hss, hattr]; exact haw⟩, ?_⟩
          intro x hx
          have := hnext x hx
          rw [hsp, hss]
          simp only [Option.getD_some]
          omega


theorem reaches_inv {env : Env} {buf : List Char} {len : Nat} {strict fragment : Bool}
    {sessions0 : List sdp_session} {st : parse_state} {b : Option Nat}
    (h : Reaches env strict buf len fragment (parse_init sessions0) st b) :
    parse_inv sessions0 len st b := by
  induction h with
  | start => exact parse_inv_init sessions0 len
  | step _ hb hstep ih => exact parse_inv_step ih hb hstep

theorem sdp_parse_line_stop {env : Env} {buf : List Char} {end_ : Nat} {strict fragment : Bool}
    {st : parse_state} {b : Nat} :
    sdp_parse_line env strict buf end_ fragment st b = parse_step.stop ↔
      (strict = false ∧ (getc buf b = '\n' ∨ getc buf b = '\r')) := by
  constructor
  · intro h
    unfold sdp_parse_line at h
    rcases ite_cases h with ⟨hc, h⟩ | ⟨_, h⟩
    · simp only [Bool.and_eq_true, Bool.not_eq_true', Bool.or_eq_true, decide_eq_true_eq] at hc
      exact hc
    rcases ite_cases h with ⟨_, h⟩ | ⟨_, h⟩
    · simp at h
    simp only at h
    split at h
    · simp at h
    · split at h
      · simp at h
      · simp at h
  · intro ⟨h1, h2⟩
    unfold sdp_parse_line
    have : (!strict && (decide (getc buf b = '\n') || decide (getc buf b = '\r'))) = true := by
      rcases h2 with h2 | h2 <;> simp [h1, h2]
    simp only [this, if_true]

/-- A successful parse ends in a state the loop reached, and returns its session
queue; the loop left at that head because there was no line left or because
the line there is a bare empty one. -/
theorem sdp_parse_loop_result {env : Env} {buf : List Char} {len : Nat} {strict fragment : Bool}
    {st0 : parse_state} :
    ∀ (fuel : Nat) (st : parse_state) (b : Option Nat) (r : parse_result),
      Reaches env strict buf len fragment st0 st b →
      sdp_parse_loop env strict buf len fragment fuel st b = some r → r.ret = 0 →
      ∃ st1 b1, Reaches env strict buf len fragment st0 st1 b1 ∧ r.sessions = sessions_of st1 ∧
        ∀ x, b1 = some x → x + 1 < len →
          sdp_parse_line env strict buf len fragment st1 x = parse_step.stop := by
  intro fuel
  induction fuel with
  | zero => intro st b r _ h _; simp [sdp_parse_loop] at h
  | succ n ih =>
    intro st b r hr h hret
    unfold sdp_parse_loop at h
    cases b with
    | none =>
      simp only [Option.some.injEq] at h
      subst h
      exact ⟨st, none, hr, rfl, by intro x hx; injection hx⟩
    | some x =>
      simp only at h
      rcases ite_cases h with ⟨hx, h⟩ | ⟨hx, h⟩
      · split at h
        · simp only [Option.some.injEq] at h
          subst h
          simp at hret
        · rename_i hstop
          simp only [Option.some.injEq] at h
          subst h
          refine ⟨st, some x, hr, rfl, ?_⟩
          intro y hy _
          injection hy with hy
          subst hy
          exact hstop
        · rename_i st1 nl hstep
          exact ih st1 nl r (Reaches.step hr hx hstep) h hret
      · simp only [Option.some.injEq] at h
        subst h
        refine ⟨st, some x, hr, rfl, ?_⟩
        intro y hy hlt
        injection hy with hy
        subst hy
        exact absurd hlt hx

/-- Every session that a successful `sdp_parse` adds to the queue is well-formed. -/
theorem sdp_parse_sessions_wf {env : Env} {buf : List Char} {len : Nat} {strict fragment : Bool}
    {sessions0 : List sdp_session} {r : parse_result}
    (hp : sdp_parse env strict buf len sessions0 fragment = some r) (hret : r.ret = 0) :
    ∃ new, r.sessions = sessions0 ++ new ∧ ∀ s ∈ new, session_wf len s := by
  unfold sdp_parse at hp
  obtain ⟨st1, b1, hr, hs, _⟩ := sdp_parse_loop_result _ _ _ _ Reaches.start hp hret
  obtain ⟨⟨new, hdone, hnew⟩, hcur⟩ := reaches_inv hr
  rw [hs]
  unfold sessions_of
  cases hse : st1.session with
  | none => exact ⟨new, by simp [hdone], hnew⟩
  | some s =>
    refine ⟨new ++ [close_session s st1.media], by simp [hdone], ?_⟩
    intro x hx
    rw [List.mem_append] at hx
    rcases hx with hx | hx
    · exact hnew x hx
    · simp only [List.mem_singleton] at hx
      subst hx
      exact session_wf_close _ (hcur s hse).1


/-- C1: for every session that `sdp_parse` produces, and every flag set, running
`process_session_attributes` and then `copy_up_to_end_of` on the session slice,
from a chopper positioned at the start of the session, succeeds and appends to
the output exactly the bytes of the session slice with the full line of every
stripped attribute deleted and the full line of every substituted attribute
replaced, at the same place, by `a=<replacement>\r\n`; every other byte of the
slice is emitted unchanged and in order (`expected_output`). -/
theorem c1_session_attributes_rewrite (env : Env) (strict : Bool) (buf : List Char) (len : Nat)
    (sessions0 : List sdp_session) (fragment : Bool) (r : parse_result)
    (hlen : len ≤ buf.length)
    (hp : sdp_parse env strict buf len sessions0 fragment = some r) (hret : r.ret = 0) :
    ∃ new, r.sessions = sessions0 ++ new ∧
      ∀ s ∈ new, ∀ (flags : sdp_ng_flags) (chop : sdp_chopper) (p : Nat),
        chop.input = buf → s.s.s = some p → chop.position = p →
        ∃ chop1 chop2,
          process_session_attributes chop s.attributes flags = (0, chop1) ∧
          copy_up_to_end_of chop1 s.s = (0, chop2) ∧
          chop2.output = chop.output ++
            expected_output (attr_edit flags buf) buf s.attributes.list p (p + s.s.len) := by
  obtain ⟨new, hnew, hwf⟩ := sdp_parse_sessions_wf hp hret
  refine ⟨new, hnew, ?_⟩
  intro s hs flags chop p hin hsp hpos
  obtain ⟨q, hq, hqe, haw⟩ := hwf s hs
  rw [hsp] at hq
  injection hq with hq
  subst hq
  obtain ⟨chop1, h1, h2, _, _, h5, _, h6⟩ :=
    process_loop_segment (session_attr_action flags chop.input) s.attributes.list chop p
      (p + s.s.len) haw (by omega)
  have hcopy : copy_up_to_end_of chop1 s.s
      = (0, { chop1 with
          output := chop1.output ++ bytes_at chop1.input chop1.position (p + s.s.len - chop1.position),
          position := p + s.s.len }) := by
    unfold copy_up_to_end_of copy_up_to_ptr
    rw [hsp]
    simp only [Option.map_some']
    have e1 : ¬ (((p + s.s.len : Nat) : Int) - (chop1.position : Int) < 0) := by omega
    have e2 : (((p + s.s.len : Nat) : Int) - (chop1.position : Int)).toNat
        = p + s.s.len - chop1.position := by omega
    simp only [e1, if_false, e2, chopper_append]
    congr 2
    omega
  refine ⟨chop1, _, h1, hcopy, ?_⟩
  simp only
  rw [h2, h6, hpos, hin, segment_eq_expected _ buf _ p p _ haw (le_refl _) (by omega)]
  rfl

/-- C1 at a concrete input: the hypotheses hold there, and so does the
conclusion. -/
theorem c1_session_attributes_rewrite_witness :
    demo_body.length ≤ demo_body.length ∧
    sdp_parse demo_env false demo_body demo_body.length [] false = some demo_parse ∧
    demo_parse.ret = 0 ∧
    ∃ new, demo_parse.sessions = [] ++ new ∧
      ∀ s ∈ new, ∀ (flags : sdp_ng_flags) (chop : sdp_chopper) (p : Nat),
        chop.input = demo_body → s.s.s = some p → chop.position = p →
        ∃ chop1 chop2,
          process_session_attributes chop s.attributes flags = (0, chop1) ∧
          copy_up_to_end_of chop1 s.s = (0, chop2) ∧
          chop2.output = chop.output ++
            expected_output (attr_edit flags demo_body) demo_body s.attributes.list p (p + s.s.len) :=
  with_facts4 (fun fact1 fact2 fact3 fact4 =>
    ⟨by decide, fact1, fact2,
     c1_session_attributes_rewrite demo_env false demo_body demo_body.length [] false demo_parse
       (by decide) (fact3) (fact4)⟩) (by decide!)


/-! ## More facts on the loop of `sdp_parse` -/

theorem reaches_of_run_lines {env : Env} {buf : List Char} {end_ : Nat} {strict fragment : Bool}
    {st0 : parse_state} :
    ∀ (n : Nat) (st : parse_state) (b : Nat) (st1 : parse_state) (b1 : Nat),
      Reaches env strict buf end_ fragment st0 st (some b) →
      run_lines env strict buf end_ fragment n st b = some (st1, b1) →
      Reaches env strict buf end_ fragment st0 st1 (some b1) := by
  intro n
  induction n with
  | zero =>
    intro st b st1 b1 hr h
    simp only [run_lines, Option.some.injEq, Prod.mk.injEq] at h
    obtain ⟨h1, h2⟩ := h
    subst h1; subst h2
    exact hr
  | succ n ih =>
    intro st b st1 b1 hr h
    unfold run_lines at h
    rcases ite_cases h with ⟨hb, h⟩ | ⟨_, h⟩
    · split at h
      · rename_i st2 b2 hstep
        exact ih st2 b2 st1 b1 (Reaches.step hr hb hstep) h
      · simp at h
    · simp at h

theorem adjust_len_session (st : parse_state) (session : sdp_session) (e : Nat)
    (h : st.session = some session) : ∃ s, (adjust_len st session e).session = some s := by
  unfold adjust_len
  split
  · exact ⟨session, h⟩
  · exact ⟨_, rfl⟩

theorem sdp_parse_line_frame {env : Env} {buf : List Char} {end_ : Nat} {strict fragment : Bool}
    {st st1 : parse_state} {b : Nat} {nl : Option Nat}
    (h : sdp_parse_line env strict buf end_ fragment st b = parse_step.next st1 nl) :
    ∃ s, st1.session = some s := by
  obtain ⟨st2, session2, hs2, hst1, _⟩ := sdp_parse_line_shape h
  subst hst1
  exact adjust_len_session _ _ _ hs2

/-- At a loop head the parser reached there is a current session, unless this
is the head at the very first line, where the state is still the initial one. -/
theorem reaches_frame {env : Env} {buf : List Char} {len : Nat} {strict fragment : Bool}
    {sessions0 : List sdp_session} {st : parse_state} {b : Option Nat}
    (h : Reaches env strict buf len fragment (parse_init sessions0) st b) :
    (st = parse_init sessions0 ∧ b = some 0) ∨
      ((∃ s, st.session = some s) ∧ ∀ x, b = some x → 3 ≤ x) := by
  induction h with
  | start => exact Or.inl ⟨rfl, rfl⟩
  | step hr hb hstep ih =>
    rename_i st st1 b nl
    refine Or.inr ⟨sdp_parse_line_frame hstep, ?_⟩
    intro x hx
    subst hx
    have := sdp_parse_line_next_lt hstep
    omega

theorem sdp_parse_loop_error {env : Env} {buf : List Char} {len : Nat} {strict fragment : Bool} :
    ∀ (fuel : Nat) (st : parse_state) (b : Option Nat) (r : parse_result),
      sdp_parse_loop env strict buf len fragment fuel st b = some r →
      (r.ret = 0 ∨ r.ret = -1) ∧ (r.ret = -1 → r.sessions = []) := by
  intro fuel
  induction fuel with
  | zero => intro st b r h; simp [sdp_parse_loop] at h
  | succ n ih =>
    intro st b r h
    unfold sdp_parse_loop at h
    cases b with
    | none =>
      simp only [Option.some.injEq] at h
      subst h
      exact ⟨Or.inl rfl, by intro h; simp at h⟩
    | some x =>
      simp only at h
      rcases ite_cases h with ⟨_, h⟩ | ⟨_, h⟩
      · split at h
        · simp only [Option.some.injEq] at h
          subst h
          exact ⟨Or.inr rfl, fun _ => rfl⟩
        · simp only [Option.some.injEq] at h
          subst h
          exact ⟨Or.inl rfl, by intro h; simp at h⟩
        · exact ih _ _ r h
      · simp only [Option.some.injEq] at h
        subst h
        exact ⟨Or.inl rfl, by intro h; simp at h⟩

/-- C6, the part that holds: whenever `sdp_parse` returns -1, the session queue
it was given is empty on return.  Every -1 exit runs `sdp_sessions_clear` on
the queue, which removes the sessions built before the error, with what hangs
off them, and whatever the queue held on entry. -/
theorem c6_error_clears_sessions (env : Env) (strict : Bool) (buf : List Char) (len : Nat)
    (sessions : List sdp_session) (fragment : Bool) (r : parse_result)
    (h : sdp_parse env strict buf len sessions fragment = some r) (hret : r.ret = -1) :
    r.sessions = [] :=
  (sdp_parse_loop_error _ _ _ r h).2 hret

/-- C6 on a body whose third line has an unknown type letter, parsed into a
queue that holds a session on entry: the parse returns -1 and the queue is
empty. -/
theorem c6_error_clears_sessions_witness :
    sdp_parse demo_env false "v=0\r\ns=-\r\nq=1\r\n".toList 15 [{}] false
      = some { ret := -1, sessions := [], body_len := 15 } ∧
    ({ ret := -1, sessions := [], body_len := 15 } : parse_result).ret = -1 ∧
    ({ ret := -1, sessions := [], body_len := 15 } : parse_result).sessions = [] :=
  with_facts2 (fun fact1 fact2 =>
    ⟨fact1, by decide,
     c6_error_clears_sessions demo_env false "v=0\r\ns=-\r\nq=1\r\n".toList 15 [{}] false
       { ret := -1, sessions := [], body_len := 15 } (fact2) (by decide)⟩) (by decide!)

/-- The type letters that the switch of `sdp_parse` knows. -/
theorem sdp_parse_switch_unknown {env : Env} {buf : List Char} {st : parse_state}
    {session : sdp_session} {b value line_end : Nat} {next_line : Option Nat}
    (h : getc buf b ∉ ['v', 'o', 's', 't', 'c', 'b', 'm', 'a', 'k', 'i', 'u', 'e', 'p', 'r', 'z']) :
    sdp_parse_switch env buf st session b value line_end next_line
      = Except.error "Unknown SDP line type found" := by
  simp only [List.mem_cons, List.mem_singleton, List.not_mem_nil, or_false, not_or] at h
  obtain ⟨h1, h2, h3, h4, h5, h6, h7, h8, h9, h10, h11, h12, h13, h14, h15⟩ := h
  unfold sdp_parse_switch
  simp only [h1, h2, h3, h4, h5, h6, h7, h8, h9, h10, h11, h12, h13, h14, h15, if_false,
    decide_False, Bool.or_self, Bool.false_eq_true]

/-- A reached line that lacks its `=` or has an unknown type letter makes the
turn of the loop end in `goto error`. -/
theorem sdp_parse_line_malformed {env : Env} {buf : List Char} {end_ : Nat} {strict fragment : Bool}
    {st : parse_state} {b : Nat}
    (hblank : strict = true ∨ (getc buf b ≠ '\n' ∧ getc buf b ≠ '\r'))
    (h : getc buf (b + 1) ≠ '=' ∨
      (getc buf b ∉ ['v', 'o', 's', 't', 'c', 'b', 'm', 'a', 'k', 'i', 'u', 'e', 'p', 'r', 'z'] ∧
        ¬ (fragment = true ∧ st.session = none))) :
    ∃ e, sdp_parse_line env strict buf end_ fragment st b = parse_step.error e := by
  unfold sdp_parse_line
  have h0 : (!strict && (decide (getc buf b = '\n') || decide (getc buf b = '\r')))
      = false := by
    rcases hblank with hb | ⟨hb1, hb2⟩
    · simp [hb]
    · simp [hb1, hb2]
  simp only [h0, Bool.false_eq_true, if_false]
  by_cases heq : getc buf (b + 1) = '='
  · rcases h with h | ⟨h1, h2⟩
    · exact absurd heq h
    · simp only [heq, ne_eq, not_true_eq_false, if_false]
      have hv : getc buf b ≠ 'v' := by
        intro hv
        apply h1
        rw [hv]
        simp
      cases hs : st.session with
      | none =>
        have hf : fragment = false := by
          cases fragment with
          | false => rfl
          | true => exact absurd ⟨rfl, hs⟩ h2
        subst hf
        simp only [hv, ne_eq, not_false_eq_true, if_true, Bool.not_false]
        exact ⟨_, rfl⟩
      | some session =>
        simp only [sdp_parse_switch_unknown h1]
        exact ⟨_, rfl⟩
  · simp only [ne_eq, heq, not_false_eq_true, if_true]
    exact ⟨_, rfl⟩

/-- C4 (as amended): if a line that `sdp_parse` reaches (before a terminating bare
empty line) and of which at least two bytes are left in the body does not have
`=` as its second character, or has a type letter other than v, o, s, t, c, b,
m, a, k, i, u, e, p, r, z, then `sdp_parse` returns -1 (with the session queue
cleared), except that the type letter of the first line of a body parsed with
the fragment flag set is not inspected. -/
theorem c4_malformed_line_fatal (env : Env) (strict : Bool) (buf : List Char) (len : Nat)
    (sessions : List sdp_session) (fragment : Bool) (st : parse_state) (b : Nat)
    (hreach : Reaches env strict buf len fragment (parse_init sessions) st (some b))
    (hb : b + 1 < len)
    (hblank : strict = true ∨ (getc buf b ≠ '\n' ∧ getc buf b ≠ '\r'))
    (h : getc buf (b + 1) ≠ '=' ∨
      (getc buf b ∉ ['v', 'o', 's', 't', 'c', 'b', 'm', 'a', 'k', 'i', 'u', 'e', 'p', 'r', 'z'] ∧
        ¬ (fragment = true ∧ b = 0))) :
    sdp_parse env strict buf len sessions fragment
      = some { ret := -1, sessions := [], body_len := len } := by
  have hfr := reaches_frame hreach
  have h1 : getc buf (b + 1) ≠ '=' ∨
      (getc buf b ∉ ['v', 'o', 's', 't', 'c', 'b', 'm', 'a', 'k', 'i', 'u', 'e', 'p', 'r', 'z'] ∧
        ¬ (fragment = true ∧ st.session = none)) := by
    rcases h with h | ⟨h, h2⟩
    · exact Or.inl h
    · refine Or.inr ⟨h, ?_⟩
      intro ⟨hf, hs⟩
      apply h2
      refine ⟨hf, ?_⟩
      rcases hfr with ⟨_, hb0⟩ | ⟨⟨s, hs1⟩, _⟩
      · injection hb0
      · rw [hs1] at hs
        injection hs
  obtain ⟨e, he⟩ := @sdp_parse_line_malformed env buf len _ _ _ _ hblank h1
  rw [(sdp_parse_at_line hreach hb).1 e he]


/-- C4 at a concrete input: the hypotheses hold there, and so does the
conclusion. -/
theorem c4_malformed_line_fatal_witness :
    Reaches demo_env false demo_unknown_body 15 false (parse_init [])
      (demo_state_at demo_env demo_unknown_body false 2) (some 10) ∧
    10 + 1 < 15 ∧
    (false = true ∨
      (getc demo_unknown_body 10 ≠ '\n' ∧ getc demo_unknown_body 10 ≠ '\r')) ∧
    (getc demo_unknown_body (10 + 1) ≠ '=' ∨
      (getc demo_unknown_body 10 ∉
          ['v', 'o', 's', 't', 'c', 'b', 'm', 'a', 'k', 'i', 'u', 'e', 'p', 'r', 'z'] ∧
        ¬ (false = true ∧ 10 = 0))) ∧
    sdp_parse demo_env false demo_unknown_body 15 [] false
      = some { ret := -1, sessions := [], body_len := 15 } :=
  with_facts6 (fun fact1 fact2 fact3 fact4 fact5 fact6 =>
    ⟨reaches_of_run_lines 2 _ 0 _ 10 Reaches.start (fact1), by decide, fact2,
     fact3,
     c4_malformed_line_fatal demo_env false demo_unknown_body 15 [] false
       (demo_state_at demo_env demo_unknown_body false 2) 10
       (reaches_of_run_lines 2 _ 0 _ 10 Reaches.start (fact4)) (by decide) (fact5)
       (fact6)⟩) (by decide!)

theorem sdp_parse_line_in_media {env : Env} {buf : List Char} {end_ : Nat} {strict fragment : Bool}
    {st : parse_state} {session : sdp_session} {b : Nat}
    (hs : st.session = some session) (hm : st.media ≠ none)
    (h : getc buf b ∈ ['o', 's', 't']) :
    ∃ e, sdp_parse_line env strict buf end_ fragment st b = parse_step.error e := by
  have hmi : st.media.isSome = true := by
    cases hm' : st.media with
    | none => exact absurd hm' hm
    | some m => rfl
  unfold sdp_parse_line
  have h0 : (!strict && (decide (getc buf b = '\n') || decide (getc buf b = '\r')))
      = false := by
    simp only [List.mem_cons, List.mem_singleton, List.not_mem_nil, or_false] at h
    rcases h with h | h | h <;> rw [h] <;> simp
  simp only [h0, Bool.false_eq_true, if_false]
  by_cases heq : getc buf (b + 1) = '='
  · simp only [heq, ne_eq, not_true_eq_false, if_false, hs]
    simp only [List.mem_cons, List.mem_singleton, List.not_mem_nil, or_false] at h
    rcases h with h | h | h
    · simp only [sdp_parse_switch, h, sdp_parse_o, hmi, if_true]
      exact ⟨_, rfl⟩
    · simp only [sdp_parse_switch, h, sdp_parse_s, hmi, if_true]
      exact ⟨_, rfl⟩
    · simp only [sdp_parse_switch, h, sdp_parse_t, hmi, if_true]
      exact ⟨_, rfl⟩
  · simp only [ne_eq, heq, not_false_eq_true, if_true]
    exact ⟨_, rfl⟩

/-! ## The end of the body and the strict switch -/

theorem memchr_shorten {buf : List Char} {c : Char} :
    ∀ (n1 n2 p q : Nat), memchr buf p c n1 = some q → q < p + n2 →
      memchr buf p c n2 = some q := by
  intro n1
  induction n1 with
  | zero => intro n2 p q h; simp [memchr, memchr_scan] at h
  | succ n ih =>
    intro n2 p q h hq
    rw [memchr_succ] at h
    cases n2 with
    | zero =>
      have := (memchr_some (n + 1) p q (by rw [memchr_succ]; exact h)).1
      omega
    | succ m =>
      rw [memchr_succ]
      split at h
      · rename_i hc
        simp only [hc, if_true]
        exact h
      · rename_i hc
        simp only [hc, if_false]
        exact ih m (p + 1) q h (by omega)

/-- A turn of the loop that goes on to a next line at or before `e2` does the
same when the body ends at `e2`. -/
theorem sdp_parse_line_end_indep {env : Env} {strict fragment : Bool} {buf : List Char}
    {e1 e2 : Nat} {st st1 : parse_state} {b n : Nat}
    (h : sdp_parse_line env strict buf e1 fragment st b = parse_step.next st1 (some n))
    (hn : n ≤ e2) :
    sdp_parse_line env strict buf e2 fragment st b = parse_step.next st1 (some n) := by
  have hnl := sdp_parse_line_next h
  unfold find_next_line at hnl
  cases hm : memchr buf (b + 2) '\n' (e1 - (b + 2)) with
  | none => rw [hm] at hnl; simp at hnl
  | some q =>
    rw [hm] at hnl
    simp only [Option.map_some', Option.some.injEq] at hnl
    have hq := memchr_some _ _ _ hm
    have hm2 : memchr buf (b + 2) '\n' (e2 - (b + 2)) = some q :=
      memchr_shorten _ _ _ _ hm (by omega)
    have hfn1 : find_next_line buf e1 (b + 2) = some n := by
      unfold find_next_line; rw [hm]; simp [hnl]
    have hfn2 : find_next_line buf e2 (b + 2) = some n := by
      unfold find_next_line; rw [hm2]; simp [hnl]
    have hfe : find_line_end buf e2 (b + 2) = find_line_end buf e1 (b + 2) := by
      unfold find_line_end; rw [hm, hm2]
    rw [← h]
    unfold sdp_parse_line
    simp only [hfn1, hfn2, hfe, Option.getD_some]

theorem reaches_truncate {env : Env} {strict fragment : Bool} {buf : List Char}
    {e1 e2 : Nat} {st0 st : parse_state} {bo : Option Nat}
    (h : Reaches env strict buf e1 fragment st0 st bo) :
    ∀ b, bo = some b → b ≤ e2 → Reaches env strict buf e2 fragment st0 st (some b) := by
  induction h with
  | start =>
    intro b hb _
    injection hb with hb
    subst hb
    exact Reaches.start
  | step hr hy hstep ih =>
    rename_i st st1 y nl
    intro b hb hle
    subst hb
    have hlt := sdp_parse_line_next_lt hstep
    exact Reaches.step (ih y rfl (by omega)) (by omega) (sdp_parse_line_end_indep hstep hle)

theorem sdp_parse_line_strict {env : Env} {s1 s2 fragment : Bool} {buf : List Char}
    {end_ : Nat} {st : parse_state} {b : Nat}
    (h : ¬ (getc buf b = '\n' ∨ getc buf b = '\r')) :
    sdp_parse_line env s1 buf end_ fragment st b
      = sdp_parse_line env s2 buf end_ fragment st b := by
  have h0 : ∀ s : Bool, (!s && (decide (getc buf b = '\n') || decide (getc buf b = '\r')))
      = false := by
    intro s
    have h1 : ¬ getc buf b = '\n' := fun h' => h (Or.inl h')
    have h2 : ¬ getc buf b = '\r' := fun h' => h (Or.inr h')
    simp [h1, h2]
  unfold sdp_parse_line
  simp only [h0]

theorem reaches_strict {env : Env} {fragment : Bool} {buf : List Char}
    {end_ : Nat} {st0 st : parse_state} {bo : Option Nat}
    (h : Reaches env false buf end_ fragment st0 st bo) :
    Reaches env true buf end_ fragment st0 st bo := by
  induction h with
  | start => exact Reaches.start
  | step hr hy hstep ih =>
    rename_i st st1 y nl
    refine Reaches.step ih hy ?_
    have hnb : ¬ (getc buf y = '\n' ∨ getc buf y = '\r') := by
      intro hb
      have := (@sdp_parse_line_stop env buf end_ false fragment st y).2 ⟨rfl, hb⟩
      rw [this] at hstep
      injection hstep
    rw [@sdp_parse_line_strict _ _ false _ _ _ _ _ hnb]
    exact hstep

/-- C7 (as amended): with strict mode off, when the parser reaches a line that
begins with CR or LF and at least one more byte of the body follows it,
`sdp_parse` stops there without error, sets the body length to the offset of
that line, and returns the same session tree as parsing only the bytes that
precede the empty line (the same buffer with the body length cut to that
offset); with strict mode on, the same body is rejected with -1, unless the
empty line is the first line of a body parsed in fragment mode and its second
byte is `=`. -/
theorem c7_bare_empty_line (env : Env) (buf : List Char) (len : Nat)
    (sessions : List sdp_session) (fragment : Bool) (st : parse_state) (b : Nat)
    (hreach : Reaches env false buf len fragment (parse_init sessions) st (some b))
    (hb : b + 1 < len) (hblank : getc buf b = '\n' ∨ getc buf b = '\r') :
    sdp_parse env false buf len sessions fragment
      = some { ret := 0, sessions := sessions_of st, body_len := b } ∧
    sdp_parse env false buf b sessions fragment
      = some { ret := 0, sessions := sessions_of st, body_len := b } ∧
    (¬ (b = 0 ∧ fragment = true ∧ getc buf 1 = '=') →
      sdp_parse env true buf len sessions fragment
        = some { ret := -1, sessions := [], body_len := len }) := by
  refine ⟨?_, ?_, ?_⟩
  · exact (sdp_parse_at_line hreach hb).2 (sdp_parse_line_stop.2 ⟨rfl, hblank⟩)
  · exact sdp_parse_at_end (reaches_truncate hreach b rfl (le_refl _))
      (by intro x hx; injection hx with hx; subst hx; omega)
  · intro hex
    have hs := reaches_strict hreach
    have hfr := reaches_frame hreach
    have hnot : getc buf b ∉
        ['v', 'o', 's', 't', 'c', 'b', 'm', 'a', 'k', 'i', 'u', 'e', 'p', 'r', 'z'] := by
      rcases hblank with h | h <;> rw [h] <;> decide
    have h1 : getc buf (b + 1) ≠ '=' ∨
        (getc buf b ∉ ['v', 'o', 's', 't', 'c', 'b', 'm', 'a', 'k', 'i', 'u', 'e', 'p', 'r', 'z'] ∧
          ¬ (fragment = true ∧ st.session = none)) := by
      by_cases heq : getc buf (b + 1) = '='
      · refine Or.inr ⟨hnot, ?_⟩
        intro ⟨hf, hsn⟩
        rcases hfr with ⟨_, hb0⟩ | ⟨⟨s, hs1⟩, _⟩
        · injection hb0 with hb0
          subst hb0
          exact hex ⟨rfl, hf, heq⟩
        · rw [hs1] at hsn
          injection hsn
      · exact Or.inl heq
    obtain ⟨e, he⟩ := @sdp_parse_line_malformed env buf len true _ _ _
      (Or.inl rfl) h1
    exact (sdp_parse_at_line hs hb).1 e he


/-- C7 at a concrete input: the hypotheses hold there, and so does the
conclusion. -/
theorem c7_bare_empty_line_witness :
    Reaches demo_env false demo_blank_body 33 false (parse_init [])
      (demo_state_at demo_env demo_blank_body false 2) (some 10) ∧
    10 + 1 < 33 ∧
    (getc demo_blank_body 10 = '\n' ∨ getc demo_blank_body 10 = '\r') ∧
    sdp_parse demo_env false demo_blank_body 33 [] false
      = some { ret := 0, sessions := sessions_of (demo_state_at demo_env demo_blank_body false 2),
               body_len := 10 } ∧
    sdp_parse demo_env false demo_blank_body 10 [] false
      = some { ret := 0, sessions := sessions_of (demo_state_at demo_env demo_blank_body false 2),
               body_len := 10 } ∧
    (¬ (10 = 0 ∧ false = true ∧ getc demo_blank_body 1 = '=') →
      sdp_parse demo_env true demo_blank_body 33 [] false
        = some { ret := -1, sessions := [], body_len := 33 }) :=
  with_facts4 (fun fact1 fact2 fact3 fact4 =>
    ⟨reaches_of_run_lines 2 _ 0 _ 10 Reaches.start (fact1), by decide, fact2,
     c7_bare_empty_line demo_env demo_blank_body 33 [] false
       (demo_state_at demo_env demo_blank_body false 2) 10
       (reaches_of_run_lines 2 _ 0 _ 10 Reaches.start (fact3)) (by decide) (fact4)⟩) (by decide!)

/-- C7 as stated fails: the body `v=0\r\n\n` ends in a bare empty line of one
byte, at offset 5.  With strict mode off the body length stays 6 instead of
becoming 5, and with strict mode on the body is accepted (0) instead of rejected.
And in `q=1\r\n\r\n` the empty line at offset 5 is never reached: with strict
mode off the parse fails at the first line. -/
theorem c7_counterexample :
    getc "v=0\r\n\n".toList 5 = '\n' ∧
    (sdp_parse demo_env false "v=0\r\n\n".toList 6 [] false).map (fun r => (r.ret, r.body_len))
      = some (0, 6) ∧
    (sdp_parse demo_env true "v=0\r\n\n".toList 6 [] false).map (fun r => r.ret) = some 0 ∧
    getc "q=1\r\n\r\n".toList 5 = '\r' ∧
    (sdp_parse demo_env false "q=1\r\n\r\n".toList 7 [] false).map (fun r => r.ret)
      = some (-1) :=
  with_facts5 (fun fact1 fact2 fact3 fact4 fact5 =>
    ⟨fact1, fact2, fact3, fact4, fact5⟩) (by decide!)

/-! ## The first session of a parse -/

theorem adjust_len_keeps (st : parse_state) (session : sdp_session) (e : Nat)
    (h : st.session = some session) :
    (adjust_len st session e).done = st.done ∧
      ∃ s, (adjust_len st session e).session = some s ∧ s.s.s = session.s.s := by
  unfold adjust_len
  split
  · exact ⟨rfl, session, h, rfl⟩
  · exact ⟨rfl, _, rfl, rfl⟩

theorem sessions_of_done (st : parse_state) : ∃ tail, sessions_of st = st.done ++ tail :=
  ⟨_, rfl⟩

/-- Once the first line has been taken, the first session that the parse added
to the queue starts at offset 0. -/
theorem reaches_first_session {env : Env} {buf : List Char} {len : Nat}
    {strict fragment : Bool} {sessions0 : List sdp_session} {st : parse_state} {b : Option Nat}
    (h : Reaches env strict buf len fragment (parse_init sessions0) st b) :
    (st = parse_init sessions0 ∧ b = some 0) ∨
    ((∃ s rest, st.done = sessions0 ++ s :: rest ∧ s.s.s = some 0) ∨
     (st.done = sessions0 ∧ ∃ s, st.session = some s ∧ s.s.s = some 0)) := by
  induction h with
  | start => exact Or.inl ⟨rfl, rfl⟩
  | step hr hb hstep ih =>
    rename_i st st1 y nl
    right
    obtain ⟨st2, session2, hs2, hst1, hshape⟩ := sdp_parse_line_shape hstep
    obtain ⟨hd, s', hs', hss'⟩ := adjust_len_keeps st2 session2 (nl.getD len) hs2
    rw [← hst1] at hd hs'
    have new_case : st2 = new_session st y →
        ((∃ s rest, st1.done = sessions0 ++ s :: rest ∧ s.s.s = some 0) ∨
         (st1.done = sessions0 ∧ ∃ s, st1.session = some s ∧ s.s.s = some 0)) := by
      intro hst2
      rcases ih with ⟨h0, hb0⟩ | hq | ⟨hq1, s, hq2, hq3⟩
      · injection hb0 with hb0
        subst hb0
        right
        subst h0
        subst hst2
        simp only [new_session, Option.some.injEq] at hs2
        subst hs2
        refine ⟨by rw [hd]; simp [new_session, sessions_of, parse_init], s', hs', ?_⟩
        rw [hss']
      · left
        obtain ⟨s, rest, hq1, hq2⟩ := hq
        rw [hd, hst2]
        simp only [new_session]
        obtain ⟨tail, ht⟩ := sessions_of_done st
        exact ⟨s, rest ++ tail, by rw [ht, hq1]; simp, hq2⟩
      · left
        rw [hd, hst2]
        simp only [new_session, sessions_of, hq1, hq2, Option.map_some', Option.toList_some]
        exact ⟨_, [], rfl, hq3⟩
    rcases hshape with ⟨_, hst2⟩ | ⟨session, hs, hsh⟩
    · exact new_case hst2
    · rcases hsh with hst2 | ⟨hd2, s1, hs1, hss, _⟩
      · exact new_case hst2
      · rw [hs1] at hs2
        injection hs2 with hs2
        subst hs2
        rcases ih with ⟨h0, _⟩ | hq | ⟨hq1, s, hq2, hq3⟩
        · rw [h0] at hs
          simp [parse_init] at hs
        · left
          obtain ⟨s, rest, hq1, hq2⟩ := hq
          exact ⟨s, rest, by rw [hd, hd2, hq1], hq2⟩
        · right
          rw [hs] at hq2
          injection hq2 with hq2
          subst hq2
          exact ⟨by rw [hd, hd2, hq1], s', hs', by rw [hss', hss]; exact hq3⟩


theorem find_line_end_le {buf : List Char} {end_ value : Nat} (h : value ≤ end_) :
    find_line_end buf end_ value ≤ end_ := by
  unfold find_line_end
  cases hm : memchr buf value '\n' (end_ - value) with
  | none => exact le_refl _
  | some q =>
    have := memchr_some _ _ _ hm
    simp only
    split <;> omega

/-- The first line of a body that is not a `v=` line: fatal without the fragment
flag; with it, `new_session:` is entered and nothing of the line is dispatched. -/
theorem sdp_parse_line_first {env : Env} {strict fragment : Bool} {buf : List Char}
    {end_ : Nat} {sessions : List sdp_session}
    (hblank : strict = true ∨ (getc buf 0 ≠ '\n' ∧ getc buf 0 ≠ '\r'))
    (hv : getc buf 0 ≠ 'v') (heq : getc buf 1 = '=') :
    sdp_parse_line env strict buf end_ fragment (parse_init sessions) 0 =
      if fragment then
        parse_step.next
          { done := sessions,
            session := some { s := { s := some 0, len := (find_next_line buf end_ 2).getD end_ },
                              rr := -1, rs := -1 } }
          (find_next_line buf end_ 2)
      else parse_step.error "SDP doesn't start with a session definition" := by
  unfold sdp_parse_line
  have h0 : (!strict && (decide (getc buf 0 = '\n') || decide (getc buf 0 = '\r'))) = false := by
    rcases hblank with hb | ⟨hb1, hb2⟩
    · simp [hb]
    · simp [hb1, hb2]
  simp only [h0, Bool.false_eq_true, if_false, heq, ne_eq, not_true_eq_false, parse_init, hv,
    not_false_eq_true, if_true]
  cases fragment with
  | false => simp
  | true =>
    simp [new_session, sessions_of, adjust_len]

theorem sdp_parse_line_v_bad {env : Env} {strict fragment : Bool} {buf : List Char}
    {end_ : Nat} {st : parse_state} {b : Nat}
    (hv : getc buf b = 'v')
    (hbad : ¬ (find_line_end buf end_ (b + 2) = b + 2 + 1 ∧ getc buf (b + 2) = '0')) :
    ∃ e, sdp_parse_line env strict buf end_ fragment st b = parse_step.error e := by
  unfold sdp_parse_line
  have h0 : (!strict && (decide (getc buf b = '\n') || decide (getc buf b = '\r'))) = false := by
    rw [hv]; simp
  simp only [h0, Bool.false_eq_true, if_false]
  by_cases heq : getc buf (b + 1) = '='
  · simp only [heq, ne_eq, not_true_eq_false, if_false, hv]
    have hsv : sdp_parse_v buf st b (b + 2) (find_line_end buf end_ (b + 2))
        = Except.error "Error in v= line" := by
      unfold sdp_parse_v
      by_cases h1 : find_line_end buf end_ (b + 2) = b + 2 + 1
      · have h2 : getc buf (b + 2) ≠ '0' := fun h2 => hbad ⟨h1, h2⟩
        simp [h1, h2]
      · simp [h1]
    cases hs : st.session with
    | none =>
      simp only [hsv]
      exact ⟨_, rfl⟩
    | some session =>
      simp only [sdp_parse_switch, hv, if_true, hsv]
      exact ⟨_, rfl⟩
  · simp only [ne_eq, heq, not_false_eq_true, if_true]
    exact ⟨_, rfl⟩

/-- C3 (as amended).  For every body of at least two bytes that does not begin
with a bare empty line while strict mode is off: `sdp_parse` returns -1 if the
first line is not a `v=` line and the fragment flag is unset; with the fragment
flag set, a first line that is not `v=` but has `=` as its second byte is
accepted, a session is opened at that line (its slice starts at offset 0 and
covers the line) without anything of the line being dispatched, and a
successful parse returns that session first.  And `sdp_parse` returns -1 if any
`v=` line it reaches has a value other than exactly the single character `0`. -/
theorem c3_session_start (env : Env) (strict : Bool) (buf : List Char) (len : Nat)
    (sessions : List sdp_session) (fragment : Bool)
    (hlen : len ≤ buf.length) (h2 : 2 ≤ len)
    (hblank : strict = true ∨ (getc buf 0 ≠ '\n' ∧ getc buf 0 ≠ '\r')) :
    (¬ (getc buf 0 = 'v' ∧ getc buf 1 = '=') → fragment = false →
      sdp_parse env strict buf len sessions fragment
        = some { ret := -1, sessions := [], body_len := len }) ∧
    (∀ st b, Reaches env strict buf len fragment (parse_init sessions) st (some b) →
      b + 1 < len → getc buf b = 'v' → getc buf (b + 1) = '=' →
      line_value buf len b ≠ ['0'] →
      sdp_parse env strict buf len sessions fragment
        = some { ret := -1, sessions := [], body_len := len }) ∧
    (getc buf 0 ≠ 'v' → getc buf 1 = '=' → fragment = true →
      sdp_parse_line env strict buf len fragment (parse_init sessions) 0 =
        parse_step.next
          { done := sessions,
            session := some { s := { s := some 0, len := (find_next_line buf len 2).getD len },
                              rr := -1, rs := -1 } }
          (find_next_line buf len 2) ∧
      ∀ r, sdp_parse env strict buf len sessions fragment = some r → r.ret = 0 →
        ∃ s rest, r.sessions = sessions ++ s :: rest ∧ s.s.s = some 0) := by
  have hstart : Reaches env strict buf len fragment (parse_init sessions) (parse_init sessions)
      (some 0) := Reaches.start
  refine ⟨?_, ?_, ?_⟩
  · intro hnv hf
    subst hf
    by_cases heq : getc buf 1 = '='
    · have hv : getc buf 0 ≠ 'v' := fun hv => hnv ⟨hv, heq⟩
      have := @sdp_parse_line_first env strict false buf len sessions hblank hv heq
      simp only [Bool.false_eq_true, if_false] at this
      exact (sdp_parse_at_line hstart (by omega)).1 _ this
    · obtain ⟨e, he⟩ := @sdp_parse_line_malformed env buf len strict false
        (parse_init sessions) 0 hblank (Or.inl heq)
      exact (sdp_parse_at_line hstart (by omega)).1 e he
  · intro st b hreach hb hv _ hval
    have hbad : ¬ (find_line_end buf len (b + 2) = b + 2 + 1 ∧ getc buf (b + 2) = '0') := by
      intro ⟨h1, h2'⟩
      apply hval
      unfold line_value
      rw [h1, show b + 2 + 1 - (b + 2) = 1 by omega]
      have hle := @find_line_end_le buf len (b + 2) (by omega)
      rw [bytes_at_eq_map_getc buf 1 (b + 2) (by omega)]
      simp [List.range', h2']
    obtain ⟨e, he⟩ := @sdp_parse_line_v_bad env strict fragment buf len st b hv hbad
    exact (sdp_parse_at_line hreach hb).1 e he
  · intro hv heq hf
    subst hf
    have hline := @sdp_parse_line_first env strict true buf len sessions hblank hv heq
    simp only [if_true] at hline
    refine ⟨hline, ?_⟩
    intro r hr hret
    unfold sdp_parse at hr
    obtain ⟨st1, b1, hreach, hs, hexit⟩ := sdp_parse_loop_result _ _ _ _ Reaches.start hr hret
    rcases reaches_first_session hreach with ⟨h0, hb0⟩ | hq | ⟨hq1, s, hq2, hq3⟩
    · subst h0
      have hstop := hexit 0 hb0 (by omega)
      rw [hline] at hstop
      injection hstop
    · obtain ⟨s, rest, hq1, hq2⟩ := hq
      obtain ⟨tail, ht⟩ := sessions_of_done st1
      exact ⟨s, rest ++ tail, by rw [hs, ht, hq1]; simp, hq2⟩
    · refine ⟨close_session s st1.media, [], ?_, hq3⟩
      rw [hs]
      simp only [sessions_of, hq1, hq2, Option.map_some', Option.toList_some]


/-- C3 at a concrete input: the hypotheses hold there, and so does the
conclusion. -/
theorem c3_session_start_witness :
    demo_fragment_body.length = 34 ∧
    sdp_parse demo_env false demo_fragment_body 34 [] false
      = some { ret := -1, sessions := [], body_len := 34 } ∧
    sdp_parse demo_env false "v=1\r\n".toList 5 [] false
      = some { ret := -1, sessions := [], body_len := 5 } ∧
    (sdp_parse_line demo_env false demo_fragment_body 34 true (parse_init []) 0 =
        parse_step.next
          { done := [],
            session := some { s := { s := some 0,
                                     len := (find_next_line demo_fragment_body 34 2).getD 34 },
                              rr := -1, rs := -1 } }
          (find_next_line demo_fragment_body 34 2) ∧
      ∀ r, sdp_parse demo_env false demo_fragment_body 34 [] true = some r → r.ret = 0 →
        ∃ s rest, r.sessions = [] ++ s :: rest ∧ s.s.s = some 0) :=
  with_facts9 (fun fact1 fact2 fact3 fact4 fact5 fact6 fact7 fact8 fact9 =>
    ⟨by decide,
     (c3_session_start demo_env false demo_fragment_body 34 [] false (by decide) (by decide)
        (Or.inr (fact1))).1 (fact2) rfl,
     (c3_session_start demo_env false "v=1\r\n".toList 5 [] false (by decide) (by decide)
        (Or.inr (fact3))).2.1 (parse_init []) 0 Reaches.start (by decide) (fact4)
        (fact5) (fact6),
     (c3_session_start demo_env false demo_fragment_body 34 [] true (by decide) (by decide)
        (Or.inr (fact7))).2.2 (fact8) (fact9) rfl⟩) (by decide!)

/-- C3 as stated fails.  A body of one byte that is no `v=` line is accepted (0)
with the fragment flag unset, and so is a body that begins with a bare empty
line while strict mode is off; and with the fragment flag set the body
`candidate\r\n`, whose first line is not `v=`, is rejected (-1) because its
second byte is not `=`. -/
theorem c3_counterexample :
    sdp_parse demo_env false "x".toList 1 [] false
      = some { ret := 0, sessions := [], body_len := 1 } ∧
    sdp_parse demo_env false "\r\na=x\r\n".toList 7 [] false
      = some { ret := 0, sessions := [], body_len := 0 } ∧
    sdp_parse demo_env false "candidate\r\n".toList 11 [] true
      = some { ret := -1, sessions := [], body_len := 11 } :=
  with_facts3 (fun fact1 fact2 fact3 =>
    ⟨fact1, fact2, fact3⟩) (by decide!)


/-! ## Attributes that their parser rejects -/

theorem mark_legacy_last_length (ms : List sdp_media) :
    (mark_legacy_last ms).length = ms.length := by
  unfold mark_legacy_last
  cases h : ms.getLast? with
  | none => rfl
  | some m =>
    have hne : ms ≠ [] := by
      intro h0
      rw [h0] at h
      simp at h
    have := List.length_pos.mpr hne
    simp
    omega

/-- A media loop that ends without error has gone through all its media. -/
theorem media_loop_length (env : Env) (buf : List Char) (session : sdp_session) :
    ∀ (todo seen : List sdp_media) (st st1 : streams_state) (seen1 : List sdp_media),
      sdp_streams_media_loop env buf session seen todo st = (0, st1, seen1) →
      seen1.length = seen.length + todo.length := by
  intro todo
  induction todo with
  | nil =>
    intro seen st st1 seen1 h
    simp only [sdp_streams_media_loop, Prod.mk.injEq] at h
    rw [← h.2.2]
    rfl
  | cons media rest ih =>
    intro seen st st1 seen1 h
    rw [sdp_streams_media_loop] at h
    cases hstep : sdp_streams_media env buf session (!seen.isEmpty) media st with
    | error e st2 =>
      rw [hstep] at h
      simp at h
    | next st2 pl cl =>
      rw [hstep] at h
      have := ih _ _ _ _ h
      rw [this]
      simp only [List.length_append, List.length_cons, List.length_nil]
      split
      · rw [mark_legacy_last_length]; omega
      · omega

/-- The media loop over a list whose front part runs without error goes on
from where that front part ends. -/
theorem media_loop_append (env : Env) (buf : List Char) (session : sdp_session) :
    ∀ (mpre rest seen : List sdp_media) (st st1 : streams_state) (seen1 : List sdp_media),
      sdp_streams_media_loop env buf session seen mpre st = (0, st1, seen1) →
      sdp_streams_media_loop env buf session seen (mpre ++ rest) st
        = sdp_streams_media_loop env buf session seen1 rest st1 := by
  intro mpre
  induction mpre with
  | nil =>
    intro rest seen st st1 seen1 h
    simp only [sdp_streams_media_loop, Prod.mk.injEq] at h
    rw [← h.2.1, ← h.2.2]
    rfl
  | cons media more ih =>
    intro rest seen st st1 seen1 h
    rw [sdp_streams_media_loop] at h
    rw [List.cons_append, sdp_streams_media_loop]
    cases hstep : sdp_streams_media env buf session (!seen.isEmpty) media st with
    | error e st2 =>
      rw [hstep] at h
      simp at h
    | next st2 pl cl =>
      rw [hstep] at h
      exact ih _ _ _ _ _ h

/-- The session loop over a list whose front part runs without error goes on
from where that front part ends. -/
theorem streams_loop_append (env : Env) (buf : List Char) :
    ∀ (spre rest seen : List sdp_session) (st st1 : streams_state) (seen1 : List sdp_session),
      sdp_streams_loop env buf seen spre st = (0, st1, seen1) →
      sdp_streams_loop env buf seen (spre ++ rest) st
        = sdp_streams_loop env buf seen1 rest st1 := by
  intro spre
  induction spre with
  | nil =>
    intro rest seen st st1 seen1 h
    simp only [sdp_streams_loop, Prod.mk.injEq] at h
    rw [← h.2.1, ← h.2.2]
    rfl
  | cons session more ih =>
    intro rest seen st st1 seen1 h
    rw [sdp_streams_loop] at h
    rw [List.cons_append, sdp_streams_loop]
    split
    · rename_i hne
      rw [if_pos hne] at h
      simp at h
    · rename_i hne
      rw [if_neg hne] at h
      exact ih _ _ _ _ _ h

/-- An error in the body of the media loop makes `sdp_streams` return -1. -/
theorem sdp_streams_error {env : Env} {buf : List Char} {sessions : List sdp_session}
    {streams : List stream_params} {flags : sdp_ng_flags} {session : sdp_session}
    {media : sdp_media} {has_prev : Bool} {st : streams_state}
    (hreach : streams_reach env buf sessions streams flags session media has_prev st)
    {e : String} {st1 : streams_state}
    (hstep : sdp_streams_media env buf session has_prev media st = media_step.error e st1) :
    (sdp_streams env buf sessions streams flags).ret = -1 := by
  obtain ⟨spre, spost, mpre, mpost, sta, sseen, mseen, hs, hm, hsl, hml, hp⟩ := hreach
  unfold sdp_streams
  rw [hs, streams_loop_append env buf spre (session :: spost) [] _ sta sseen hsl]
  rw [sdp_streams_loop]
  simp only
  rw [hm, media_loop_append env buf session mpre (media :: mpost) [] _ st mseen hml]
  rw [sdp_streams_media_loop]
  have hlen := media_loop_length env buf session mpre [] _ st mseen hml
  have hpe : (!mseen.isEmpty) = has_prev := by
    rw [hp]
    cases mseen with
    | nil =>
      cases mpre with
      | nil => rfl
      | cons a l => simp at hlen
    | cons a l =>
      cases mpre with
      | nil => simp at hlen
      | cons a l => rfl
  rw [hpe, hstep]
  simp


/-! ## Stream extraction: what the later steps leave alone -/

theorem sdp_ice_frame (env : Env) (buf : List Char) (sp : stream_params) (session : sdp_session)
    (media : sdp_media) :
    (__sdp_ice env buf sp session media).rtp_endpoint = sp.rtp_endpoint ∧
      (__sdp_ice env buf sp session media).codecs = sp.codecs ∧
      (__sdp_ice env buf sp session media).ptime = sp.ptime := by
  unfold __sdp_ice
  simp only
  repeat' split
  all_goals exact ⟨rfl, rfl, rfl⟩

theorem sdp_streams_context_frame (env : Env) (buf : List Char) (session : sdp_session)
    (media : sdp_media) (flags : sdp_ng_flags) (sp : stream_params) :
    (sdp_streams_context env buf session media flags sp).1.rtp_endpoint = sp.rtp_endpoint ∧
      (sdp_streams_context env buf session media flags sp).1.codecs = sp.codecs := by
  obtain ⟨h1, h2, _⟩ := sdp_ice_frame env buf sp session media
  unfold sdp_streams_context sdp_streams_ptime sdp_streams_copy
  simp only
  repeat' split
  all_goals exact ⟨h1, h2⟩

theorem rtp_payload_types_loop_frame (env : Env) (buf : List Char)
    (ht_rtpmap : List (Int × rtp_payload_type)) (ht_fmtp : List (Nat × Str)) :
    ∀ (fmts : List Str) (ht_rtcp_fb : List (Nat × List Str)) (sp : stream_params),
      (rtp_payload_types_loop env buf ht_rtpmap ht_fmtp ht_rtcp_fb sp fmts).2.rtp_endpoint
        = sp.rtp_endpoint := by
  intro fmts
  induction fmts with
  | nil => intro ht sp; rfl
  | cons s rest ih =>
    intro ht sp
    rw [rtp_payload_types_loop]
    simp only
    split
    · rfl
    · rw [ih]

theorem rtp_payload_types_frame (env : Env) (buf : List Char) (sp : stream_params)
    (media : sdp_media) :
    (__rtp_payload_types env buf sp media).2.rtp_endpoint = sp.rtp_endpoint := by
  unfold __rtp_payload_types
  split
  · rfl
  · exact rtp_payload_types_loop_frame _ _ _ _ _ _ _

theorem sdp_streams_direction_frame (session : sdp_session) (media : sdp_media)
    (sp : stream_params) :
    (sdp_streams_direction session media sp).rtp_endpoint = sp.rtp_endpoint ∧
      (sdp_streams_direction session media sp).codecs = sp.codecs := by
  unfold sdp_streams_direction
  simp only
  repeat' split
  all_goals exact ⟨rfl, rfl⟩

theorem sdp_streams_setup_frame (session : sdp_session) (media : sdp_media)
    (sp : stream_params) :
    (sdp_streams_setup session media sp).rtp_endpoint = sp.rtp_endpoint ∧
      (sdp_streams_setup session media sp).codecs = sp.codecs := by
  unfold sdp_streams_setup
  split
  · exact ⟨rfl, rfl⟩
  · exact ⟨rfl, rfl⟩

theorem sdp_streams_fingerprint_frame (session : sdp_session) (media : sdp_media)
    (sp : stream_params) :
    (sdp_streams_fingerprint session media sp).rtp_endpoint = sp.rtp_endpoint ∧
      (sdp_streams_fingerprint session media sp).codecs = sp.codecs := by
  unfold sdp_streams_fingerprint
  simp only
  repeat' split
  all_goals exact ⟨rfl, rfl⟩

theorem sdp_streams_osrtp_frame (env : Env) (sp : stream_params) :
    (sdp_streams_osrtp env sp).rtp_endpoint = sp.rtp_endpoint ∧
      (sdp_streams_osrtp env sp).codecs = sp.codecs := by
  unfold sdp_streams_osrtp
  repeat' split
  all_goals exact ⟨rfl, rfl⟩

theorem sdp_streams_security_frame (env : Env) (buf : List Char) (session : sdp_session)
    (media : sdp_media) (sp : stream_params) :
    (sdp_streams_security env buf session media sp).rtp_endpoint = sp.rtp_endpoint ∧
      (sdp_streams_security env buf session media sp).codecs = sp.codecs := by
  unfold sdp_streams_security
  obtain ⟨a1, a2⟩ := sdp_streams_osrtp_frame env
    (sdp_streams_fingerprint session media
      (sdp_streams_setup session media
        (sdp_streams_direction session media (sdp_streams_crypto buf media sp))))
  obtain ⟨b1, b2⟩ := sdp_streams_fingerprint_frame session media
      (sdp_streams_setup session media
        (sdp_streams_direction session media (sdp_streams_crypto buf media sp)))
  obtain ⟨c1, c2⟩ := sdp_streams_setup_frame session media
        (sdp_streams_direction session media (sdp_streams_crypto buf media sp))
  obtain ⟨d1, d2⟩ := sdp_streams_direction_frame session media (sdp_streams_crypto buf media sp)
  rw [a1, a2, b1, b2, c1, c2, d1, d2]
  exact ⟨rfl, rfl⟩

theorem legacy_osrtp_accept_frame (sp : stream_params) (streams : List stream_params)
    (has_prev : Bool) (flags : sdp_ng_flags) (num : Nat) :
    (legacy_osrtp_accept sp streams has_prev flags num).sp.rtp_endpoint = sp.rtp_endpoint ∧
      (legacy_osrtp_accept sp streams has_prev flags num).sp.codecs = sp.codecs ∧
      ((legacy_osrtp_accept sp streams has_prev flags num).discard = true →
        (legacy_osrtp_accept sp streams has_prev flags num).cur_legacy = true) := by
  unfold legacy_osrtp_accept
  simp only
  repeat' split
  all_goals simp

theorem sdp_t38_frame (buf : List Char) (sp : stream_params) (media : sdp_media) :
    (__sdp_t38 buf sp media).rtp_endpoint = sp.rtp_endpoint ∧
      (__sdp_t38 buf sp media).codecs = sp.codecs ∧
      (__sdp_t38 buf sp media).rtcp_endpoint = sp.rtcp_endpoint ∧
      (__sdp_t38 buf sp media).sp_flags = sp.sp_flags := by
  unfold __sdp_t38
  exact ⟨rfl, rfl, rfl, rfl⟩

theorem sdp_streams_media_id_frame (media : sdp_media) (sp : stream_params) :
    (sdp_streams_media_id media sp).rtp_endpoint = sp.rtp_endpoint ∧
      (sdp_streams_media_id media sp).codecs = sp.codecs := by
  unfold sdp_streams_media_id
  simp only
  repeat' split
  all_goals exact ⟨rfl, rfl⟩

theorem sdp_streams_rtcp_mux_frame (media : sdp_media) (sp : stream_params) :
    (sdp_streams_rtcp_mux media sp).rtp_endpoint = sp.rtp_endpoint ∧
      (sdp_streams_rtcp_mux media sp).codecs = sp.codecs := by
  unfold sdp_streams_rtcp_mux
  split
  · exact ⟨rfl, rfl⟩
  · exact ⟨rfl, rfl⟩

theorem sdp_streams_mid_frame (buf : List Char) (media : sdp_media) (sp : stream_params) :
    (sdp_streams_mid buf media sp).rtp_endpoint = sp.rtp_endpoint ∧
      (sdp_streams_mid buf media sp).codecs = sp.codecs := by
  unfold sdp_streams_mid
  obtain ⟨a1, a2⟩ := sdp_streams_rtcp_mux_frame media
    (__sdp_t38 buf (sdp_streams_media_id media sp) media)
  obtain ⟨b1, b2, _, _⟩ := sdp_t38_frame buf (sdp_streams_media_id media sp) media
  obtain ⟨c1, c2⟩ := sdp_streams_media_id_frame media sp
  rw [a1, a2, b1, b2, c1, c2]
  exact ⟨rfl, rfl⟩

theorem sdp_streams_rtcp_next (env : Env) (session : sdp_session)
    (media : sdp_media) (st : streams_state) (sp : stream_params) (prev_legacy : Bool)
    (st1 : streams_state) (pl cl : Bool)
    (h : sdp_streams_rtcp env session media st sp prev_legacy = media_step.next st1 pl cl) :
    cl = false ∧ ∃ x, st1.streams = st.streams ++ [x] ∧ x.rtp_endpoint = sp.rtp_endpoint ∧
      x.codecs = sp.codecs := by
  unfold sdp_streams_rtcp at h
  simp only [sdp_streams_push] at h
  repeat' split at h
  all_goals first
    | (injection h with h1 h2 h3
       subst h1 h3
       exact ⟨rfl, _, rfl, rfl, rfl⟩)
    | (injection h)

/-- The end of the loop body either fails or pushes the stream, whose RTP
endpoint and codec store are those it was handed. -/
theorem sdp_streams_finish_next (env : Env) (buf : List Char) (session : sdp_session)
    (media : sdp_media) (st : streams_state) (sp : stream_params) (prev_legacy : Bool)
    (st1 : streams_state) (pl cl : Bool)
    (h : sdp_streams_finish env buf session media st sp prev_legacy = media_step.next st1 pl cl) :
    cl = false ∧ ∃ x, st1.streams = st.streams ++ [x] ∧ x.rtp_endpoint = sp.rtp_endpoint ∧
      x.codecs = sp.codecs := by
  unfold sdp_streams_finish at h
  obtain ⟨h1, x, h2, h3, h4⟩ := sdp_streams_rtcp_next _ _ _ _ _ _ _ _ _ h
  obtain ⟨m1, m2⟩ := sdp_streams_mid_frame buf media sp
  exact ⟨h1, x, h2, by rw [h3, m1], by rw [h4, m2]⟩

/-- A turn of the media loop that keeps its stream pushes it on the queue with
the RTP endpoint that the first step resolved and the codec store that
`__rtp_payload_types` filled. -/
theorem sdp_streams_media_next (env : Env) (buf : List Char) (session : sdp_session)
    (has_prev : Bool) (media : sdp_media) (st st1 : streams_state) (pl : Bool)
    (h : sdp_streams_media env buf session has_prev media st = media_step.next st1 pl false) :
    (sdp_streams_endpoint env session media st.flags).1 = 0 ∧
    (__rtp_payload_types env buf (sdp_streams_before_codecs env buf session media st).1 media).1
      = 0 ∧
    ∃ pre x, st1.streams = pre ++ [x] ∧
      x.rtp_endpoint = (sdp_streams_endpoint env session media st.flags).2.1 ∧
      x.codecs = (__rtp_payload_types env buf
        (sdp_streams_before_codecs env buf session media st).1 media).2.codecs := by
  unfold sdp_streams_media at h
  simp only at h
  by_cases h1 : (sdp_streams_endpoint env session media st.flags).1 = 0
  · rw [if_neg (by simpa using h1)] at h
    by_cases h2 : (__rtp_payload_types env buf
        (sdp_streams_before_codecs env buf session media st).1 media).1 = 0
    · rw [if_neg (by simpa using h2)] at h
      refine ⟨h1, h2, ?_⟩
      obtain ⟨l1, l2, l3⟩ := legacy_osrtp_accept_frame
        (sdp_streams_security env buf session media
          (__rtp_payload_types env buf (sdp_streams_before_codecs env buf session media st).1
            media).2) st.streams has_prev
        (sdp_streams_before_codecs env buf session media st).2 (st.num + 1)
      obtain ⟨s1, s2⟩ := sdp_streams_security_frame env buf session media
        (__rtp_payload_types env buf (sdp_streams_before_codecs env buf session media st).1
            media).2
      have p1 := rtp_payload_types_frame env buf
        (sdp_streams_before_codecs env buf session media st).1 media
      have c1 := (sdp_streams_context_frame env buf session media
        (sdp_streams_endpoint env session media st.flags).2.2
        { index := st.num + 1, media_sdp_id := media.media_sdp_id,
          rtp_endpoint := (sdp_streams_endpoint env session media st.flags).2.1 }).1
      split at h
      · rename_i hd
        injection h with e1 e2 e3
        rw [l3 hd] at e3
        exact absurd e3 (by simp)
      · obtain ⟨_, x, hx1, hx2, hx3⟩ := sdp_streams_finish_next _ _ _ _ _ _ _ _ _ _ h
        refine ⟨_, x, hx1, ?_, ?_⟩
        · rw [hx2, l1, s1, p1]
          exact c1
        · rw [hx3, l2, s2]
    · rw [if_pos (by simpa using h2)] at h
      injection h
  · rw [if_pos (by simpa using h1)] at h
    injection h


/-! ## The RTP endpoint -/

/-- The rule of `fill_endpoint` when no address is handed in. -/
theorem fill_endpoint_rule (env : Env) (ep : endpoint) (session : sdp_session)
    (media : sdp_media) (flags : sdp_ng_flags) (port : Int) :
    (flags.trust_address = false →
      env.is_addr_unspecified flags.parsed_received_from = false →
      fill_endpoint env ep session media flags none port
        = (0, { address := flags.parsed_received_from, port := port }, flags)) ∧
    (flags.trust_address = false →
      env.is_addr_unspecified flags.parsed_received_from = true →
      ∀ a, __parse_address env none (some flags.received_from_family)
          flags.received_from_address = some a →
      fill_endpoint env ep session media flags none port
        = (0, { address := a, port := port }, { flags with parsed_received_from := a })) ∧
    (flags.trust_address = false →
      env.is_addr_unspecified flags.parsed_received_from = true →
      __parse_address env none (some flags.received_from_family)
          flags.received_from_address = none →
      fill_endpoint env ep session media flags none port = (-1, ep, flags)) ∧
    (flags.trust_address = true → media.connection.parsed = true →
      fill_endpoint env ep session media flags none port
        = (0, { address := media.connection.address.parsed, port := port }, flags)) ∧
    (flags.trust_address = true → media.connection.parsed = false →
      session.connection.parsed = true →
      fill_endpoint env ep session media flags none port
        = (0, { address := session.connection.address.parsed, port := port }, flags)) ∧
    (flags.trust_address = true → media.connection.parsed = false →
      session.connection.parsed = false →
      fill_endpoint env ep session media flags none port = (-1, ep, flags)) := by
  refine ⟨?_, ?_, ?_, ?_, ?_, ?_⟩
  · intro h1 h2
    simp [fill_endpoint, h1, h2]
  · intro h1 h2 a h3
    simp [fill_endpoint, h1, h2, h3]
  · intro h1 h2 h3
    simp [fill_endpoint, h1, h2, h3]
  · intro h1 h2
    simp [fill_endpoint, h1, h2]
  · intro h1 h2 h3
    simp [fill_endpoint, h1, h2, h3]
  · intro h1 h2 h3
    simp [fill_endpoint, h1, h2, h3]

/-- C10 (as amended).  For every media that the media loop of `sdp_streams`
reaches, with the flags as they stand at that point (an earlier media with
ICE has switched `trust_address` on).  With the fragment flag set no endpoint
is resolved: the stream that the turn pushes has the all-zero RTP endpoint.
With the fragment flag unset: extraction fails with -1 if `trust_address` is
false and the received-from address is still unparsed and does not parse, or
if `trust_address` is true and neither the media nor the session has a parsed
connection; and the stream that the turn pushes has the port of the `m=` line
and as address the received-from address (as already parsed, else as parsed
now) when `trust_address` is false, otherwise the media's `c=` address if the
media has a parsed connection, otherwise the session's `c=` address. -/
theorem c10_rtp_endpoint (env : Env) (buf : List Char) (sessions : List sdp_session)
    (streams : List stream_params) (flags : sdp_ng_flags) (session : sdp_session)
    (media : sdp_media) (has_prev : Bool) (st : streams_state)
    (hreach : streams_reach env buf sessions streams flags session media has_prev st) :
    (st.flags.fragment = true →
      ∀ st1 pl,
        sdp_streams_media env buf session has_prev media st = media_step.next st1 pl false →
        ∃ pre x, st1.streams = pre ++ [x] ∧ x.rtp_endpoint = ({} : endpoint)) ∧
    (st.flags.fragment = false →
      (((st.flags.trust_address = false ∧
          env.is_addr_unspecified st.flags.parsed_received_from = true ∧
          __parse_address env none (some st.flags.received_from_family)
            st.flags.received_from_address = none) ∨
        (st.flags.trust_address = true ∧ media.connection.parsed = false ∧
          session.connection.parsed = false)) →
        (∃ st1, sdp_streams_media env buf session has_prev media st
          = media_step.error "No address info found for stream" st1) ∧
        (sdp_streams env buf sessions streams flags).ret = -1) ∧
      (∀ st1 pl,
        sdp_streams_media env buf session has_prev media st = media_step.next st1 pl false →
        ∃ pre x, st1.streams = pre ++ [x] ∧ x.rtp_endpoint.port = media.port_num ∧
          (st.flags.trust_address = false →
            env.is_addr_unspecified st.flags.parsed_received_from = false →
            x.rtp_endpoint.address = st.flags.parsed_received_from) ∧
          (st.flags.trust_address = false →
            env.is_addr_unspecified st.flags.parsed_received_from = true →
            __parse_address env none (some st.flags.received_from_family)
              st.flags.received_from_address = some x.rtp_endpoint.address) ∧
          (st.flags.trust_address = true → media.connection.parsed = true →
            x.rtp_endpoint.address = media.connection.address.parsed) ∧
          (st.flags.trust_address = true → media.connection.parsed = false →
            session.connection.parsed = true ∧
            x.rtp_endpoint.address = session.connection.address.parsed))) := by
  obtain ⟨r1, r2, r3, r4, r5, r6⟩ := fill_endpoint_rule env {} session media st.flags
    media.port_num
  refine ⟨?_, ?_⟩
  · intro hf st1 pl hstep
    obtain ⟨_, _, pre, x, hx1, hx2, _⟩ := sdp_streams_media_next _ _ _ _ _ _ _ _ hstep
    refine ⟨pre, x, hx1, ?_⟩
    rw [hx2]
    simp [sdp_streams_endpoint, hf]
  · intro hf
    have hep : sdp_streams_endpoint env session media st.flags
        = fill_endpoint env {} session media st.flags none media.port_num := by
      simp [sdp_streams_endpoint, hf]
    refine ⟨?_, ?_⟩
    · intro hfail
      have hm1 : fill_endpoint env {} session media st.flags none media.port_num
          = (-1, {}, st.flags) := by
        rcases hfail with ⟨a1, a2, a3⟩ | ⟨a1, a2, a3⟩
        · exact r3 a1 a2 a3
        · exact r6 a1 a2 a3
      have hstep : sdp_streams_media env buf session has_prev media st
          = media_step.error "No address info found for stream"
              { st with num := st.num + 1, flags := st.flags } := by
        unfold sdp_streams_media
        simp only [hep, hm1]
        rfl
      exact ⟨⟨_, hstep⟩, sdp_streams_error hreach hstep⟩
    · intro st1 pl hstep
      obtain ⟨h0, _, pre, x, hx1, hx2, _⟩ := sdp_streams_media_next _ _ _ _ _ _ _ _ hstep
      rw [hep] at h0 hx2
      refine ⟨pre, x, hx1, ?_, ?_, ?_, ?_, ?_⟩
      · cases ht : st.flags.trust_address with
        | false =>
          cases hu : env.is_addr_unspecified st.flags.parsed_received_from with
          | false => rw [hx2, r1 ht hu]
          | true =>
            cases hp : __parse_address env none (some st.flags.received_from_family)
                st.flags.received_from_address with
            | none => rw [r3 ht hu hp] at h0; simp at h0
            | some a => rw [hx2, r2 ht hu a hp]
        | true =>
          cases hmc : media.connection.parsed with
          | true => rw [hx2, r4 ht hmc]
          | false =>
            cases hsc : session.connection.parsed with
            | true => rw [hx2, r5 ht hmc hsc]
            | false => rw [r6 ht hmc hsc] at h0; simp at h0
      · intro ht hu
        rw [hx2, r1 ht hu]
      · intro ht hu
        cases hp : __parse_address env none (some st.flags.received_from_family)
            st.flags.received_from_address with
        | none => rw [r3 ht hu hp] at h0; simp at h0
        | some a => rw [hx2, r2 ht hu a hp]
      · intro ht hmc
        rw [hx2, r4 ht hmc]
      · intro ht hmc
        cases hsc : session.connection.parsed with
        | true => rw [hx2, r5 ht hmc hsc]; exact ⟨rfl, rfl⟩
        | false => rw [r6 ht hmc hsc] at h0; simp at h0


/-- C10 at a concrete input: the hypotheses hold there, and so does the
conclusion. -/
theorem c10_rtp_endpoint_witness :
    streams_reach demo_env demo_body [demo_session] [] { trust_address := true }
      demo_session demo_media false (demo_streams_state { trust_address := true }) ∧
    ∃ pre x, demo_streams_after { trust_address := true } = pre ++ [x] ∧
      x.rtp_endpoint.port = demo_media.port_num ∧
      x.rtp_endpoint.address = demo_session.connection.address.parsed :=
  with_facts2 (fun fact1 fact2 =>
    have hreach : streams_reach demo_env demo_body [demo_session] [] { trust_address := true }
        demo_session demo_media false (demo_streams_state { trust_address := true }) :=
      ⟨[], [], [], demo_session.media_streams.tail, { flags := { trust_address := true } }, [], [],
        rfl, fact1, rfl, rfl, rfl⟩
    ⟨hreach,
     (((c10_rtp_endpoint demo_env demo_body [demo_session] [] { trust_address := true }
        demo_session demo_media false (demo_streams_state { trust_address := true }) hreach).2
        rfl).2 _ _ rfl).elim
      (fun pre h => h.elim (fun x hx =>
        ⟨pre, x, hx.1, hx.2.1, (hx.2.2.2.2.2 rfl (fact2)).2⟩))⟩) (by decide!)

/-- C10 as stated fails.  With the fragment flag set the stream extracted from
the media of `demo_body` (port 5000, session-level `c=` 1.2.3.4) has the
all-zero endpoint: no address and port 0.  And with `trust_address` false and
a received-from address that does not parse, extraction fails with -1. -/
theorem c10_counterexample :
    demo_media.port_num = 5000 ∧
    (sdp_streams demo_env demo_body (demo_sessions demo_body) []
        { trust_address := true, fragment := true }).ret = 0 ∧
    (sdp_streams demo_env demo_body (demo_sessions demo_body) []
        { trust_address := true, fragment := true }).streams.map (fun sp => sp.rtp_endpoint)
      = [{ address := { family := none, addr := 0 }, port := 0 }] ∧
    (sdp_streams demo_env demo_body (demo_sessions demo_body) []
        { trust_address := false, received_from_address := "bogus".toList }).ret = -1 :=
  with_facts4 (fun fact1 fact2 fact3 fact4 =>
    ⟨fact1, fact2, fact3, fact4⟩) (by decide!)


/-! ## Codec reconciliation -/

theorem g_hash_table_lookup_insert {κ β : Type} [DecidableEq κ] (ht : List (κ × β)) (k k1 : κ)
    (v : β) :
    g_hash_table_lookup (g_hash_table_insert ht k1 v) k
      = if k1 = k then some v else g_hash_table_lookup ht k := by
  induction ht with
  | nil => simp [g_hash_table_insert, g_hash_table_lookup]
  | cons e rest ih =>
    obtain ⟨k2, v2⟩ := e
    unfold g_hash_table_insert
    by_cases h21 : k2 = k1
    · subst h21
      simp only [if_true]
      unfold g_hash_table_lookup
      by_cases h2 : k2 = k
      · simp [h2]
      · simp [h2]
    · simp only [h21, if_false]
      unfold g_hash_table_lookup
      by_cases h2 : k2 = k
      · subst h2
        have : ¬ k1 = k2 := fun h => h21 h.symm
        simp [this]
      · simp only [h2, if_false]
        exact ih

/-- The table of rtpmap records answers with the last rtpmap of the number. -/
theorem rtpmap_table_lookup (q : List sdp_attribute) (k : Int) :
    g_hash_table_lookup (rtpmap_table q) k
      = (q.reverse.find? (fun a => decide (a.rtpmap.rtp_pt.payload_type = k))).map
          (fun a => a.rtpmap.rtp_pt) := by
  unfold rtpmap_table
  induction q using List.reverseRecOn with
  | nil => rfl
  | append_singleton l a ih =>
    rw [List.foldl_append, List.reverse_append]
    simp only [List.foldl_cons, List.foldl_nil, List.reverse_cons, List.reverse_nil,
      List.nil_append, List.singleton_append, List.find?_cons]
    rw [g_hash_table_lookup_insert]
    by_cases h : a.rtpmap.rtp_pt.payload_type = k
    · simp [h]
    · simp only [h, if_false, decide_False]
      exact ih

/-- The base record of the format loop is the one the specification names. -/
theorem payload_type_base_spec (env : Env) (q : List sdp_attribute) (i : Nat) :
    payload_type_base (g_hash_table_lookup (rtpmap_table q) (i : Int))
        (env.rtp_get_rfc_payload_type i) i
      = spec_payload_base env q i := by
  rw [rtpmap_table_lookup]
  unfold payload_type_base spec_payload_base
  cases q.reverse.find? (fun a => decide (a.rtpmap.rtp_pt.payload_type = (i : Int))) with
  | none => rfl
  | some a => rfl

/-- What is laid over the base record leaves the rest of it alone. -/
theorem compose_payload_type_core (env : Env) (buf : List Char) (sp_ptime : Int)
    (ht_rtpmap : List (Int × rtp_payload_type)) (ht_fmtp : List (Nat × Str))
    (ht_rtcp_fb : List (Nat × List Str)) (i : Nat) :
    payload_type_core (compose_payload_type env buf sp_ptime ht_rtpmap ht_fmtp ht_rtcp_fb i)
      = payload_type_core (payload_type_base (g_hash_table_lookup ht_rtpmap (i : Int))
          (env.rtp_get_rfc_payload_type i) i) := by
  unfold compose_payload_type payload_type_core
  simp only
  repeat' split
  all_goals rfl

/-- The payload type of the base record is the number asked for, unless the
record comes from the static table. -/
theorem spec_payload_base_number (env : Env) (q : List sdp_attribute) (i : Nat)
    (h : (∃ a ∈ q, a.rtpmap.rtp_pt.payload_type = (i : Int)) ∨
      env.rtp_get_rfc_payload_type i = none) :
    (spec_payload_base env q i).payload_type = (i : Int) := by
  unfold spec_payload_base
  cases hf : q.reverse.find? (fun a => decide (a.rtpmap.rtp_pt.payload_type = (i : Int))) with
  | some a =>
    have := List.find?_some hf
    simpa using this
  | none =>
    rcases h with ⟨a, ha, hk⟩ | h
    · have := List.find?_eq_none.mp hf a (by simpa using ha)
      simp [hk] at this
    · simp [h]


theorem sdp_streams_before_codecs_fields (env : Env) (buf : List Char) (session : sdp_session)
    (media : sdp_media) (st : streams_state) :
    (sdp_streams_before_codecs env buf session media st).1.protocol
        = env.transport_protocol (str_bytes buf media.transport) ∧
      (sdp_streams_before_codecs env buf session media st).1.type_id = media.media_type_id ∧
      (sdp_streams_before_codecs env buf session media st).1.codecs = [] := by
  have hc := (sdp_streams_context_frame env buf session media
    (sdp_streams_endpoint env session media st.flags).2.2
    { index := st.num + 1, media_sdp_id := media.media_sdp_id,
      rtp_endpoint := (sdp_streams_endpoint env session media st.flags).2.1 }).2
  refine ⟨?_, ?_, hc⟩
  · unfold sdp_streams_before_codecs sdp_streams_context sdp_streams_ptime sdp_streams_copy
    simp only
    repeat' split
    all_goals rfl
  · unfold sdp_streams_before_codecs sdp_streams_context sdp_streams_ptime sdp_streams_copy
    simp only
    repeat' split
    all_goals rfl

/-- The format loop over tokens that all start with a number of at most 127
adds one record per token, in order. -/
theorem rtp_payload_types_loop_ok (env : Env) (buf : List Char)
    (ht_rtpmap : List (Int × rtp_payload_type)) (ht_fmtp : List (Nat × Str))
    (P : Str → Prop) :
    ∀ (fmts : List Str) (fb : List (Nat × List Str)) (sp : stream_params),
      (∀ s ∈ fmts, P s ∧ (strtoul buf (s.s.getD 0)).2 ≠ s.s.getD 0 ∧
        (strtoul buf (s.s.getD 0)).1 % 2 ^ 32 ≤ 127) →
      ∃ recs,
        (rtp_payload_types_loop env buf ht_rtpmap ht_fmtp fb sp fmts).1 = 0 ∧
        (rtp_payload_types_loop env buf ht_rtpmap ht_fmtp fb sp fmts).2.codecs
          = sp.codecs ++ recs ∧
        List.Forall₂ (fun s r => P s ∧ ∃ fb1, r = env.codec_init_payload_type
            (compose_payload_type env buf sp.ptime ht_rtpmap ht_fmtp fb1
              ((strtoul buf (s.s.getD 0)).1 % 2 ^ 32)) sp.type_id) fmts recs := by
  intro fmts
  induction fmts with
  | nil =>
    intro fb sp _
    exact ⟨[], rfl, by simp [rtp_payload_types_loop], List.Forall₂.nil⟩
  | cons s rest ih =>
    intro fb sp h
    have hs := h s (List.mem_cons_self _ _)
    have hrest : ∀ x ∈ rest, P x ∧ (strtoul buf (x.s.getD 0)).2 ≠ x.s.getD 0 ∧
        (strtoul buf (x.s.getD 0)).1 % 2 ^ 32 ≤ 127 :=
      fun x hx => h x (List.mem_cons_of_mem _ hx)
    rw [rtp_payload_types_loop]
    simp only
    have hc : ((strtoul buf (s.s.getD 0)).2 = s.s.getD 0 ||
        decide ((strtoul buf (s.s.getD 0)).1 % 2 ^ 32 > 127)) = false := by
      simp [hs.2.1]
      exact hs.2.2
    rw [hc]
    simp only [Bool.false_eq_true, if_false]
    obtain ⟨recs, r1, r2, r3⟩ := ih
      (g_hash_table_remove fb ((strtoul buf (s.s.getD 0)).1 % 2 ^ 32))
      { sp with codecs := sp.codecs ++ [env.codec_init_payload_type
          (compose_payload_type env buf sp.ptime ht_rtpmap ht_fmtp fb
            ((strtoul buf (s.s.getD 0)).1 % 2 ^ 32)) sp.type_id] } hrest
    refine ⟨_ :: recs, r1, ?_, List.Forall₂.cons ⟨hs.1, fb, rfl⟩ r3⟩
    rw [r2]
    simp

/-- The format loop fails when a token does not start with a number or its
number, as `unsigned int`, is above 127. -/
theorem rtp_payload_types_loop_fail (env : Env) (buf : List Char)
    (ht_rtpmap : List (Int × rtp_payload_type)) (ht_fmtp : List (Nat × Str)) :
    ∀ (fmts : List Str) (fb : List (Nat × List Str)) (sp : stream_params),
      (∃ s ∈ fmts, (strtoul buf (s.s.getD 0)).2 = s.s.getD 0 ∨
        127 < (strtoul buf (s.s.getD 0)).1 % 2 ^ 32) →
      (rtp_payload_types_loop env buf ht_rtpmap ht_fmtp fb sp fmts).1 = -1 := by
  intro fmts
  induction fmts with
  | nil =>
    intro fb sp h
    obtain ⟨s, hs, _⟩ := h
    simp at hs
  | cons s rest ih =>
    intro fb sp h
    rw [rtp_payload_types_loop]
    simp only
    by_cases hc : ((strtoul buf (s.s.getD 0)).2 = s.s.getD 0 ||
        decide ((strtoul buf (s.s.getD 0)).1 % 2 ^ 32 > 127)) = true
    · rw [if_pos hc]
    · rw [if_neg hc]
      apply ih
      obtain ⟨x, hx, hbad⟩ := h
      rcases List.mem_cons.mp hx with hx | hx
      · subst hx
        exfalso
        apply hc
        rcases hbad with hb | hb
        · simp [hb]
        · simp only [Bool.or_eq_true, decide_eq_true_eq]
          exact Or.inr hb
      · exact ⟨x, hx, hbad⟩

/-- C9 (as amended).  For every media that the media loop of `sdp_streams`
reaches, whose transport is an RTP protocol and whose format tokens all read
as numbers below 2^32.  If some token does not start with a number (after
optional white space and sign) or its number exceeds 127, the turn ends in an
error and `sdp_streams` returns -1.  If every token starts with a number of
at most 127 (characters after the number are not looked at), the stream that
the turn pushes has in its codec store exactly one record per token, in
format-list order: the record is what `codec_init_payload_type` makes of a
record that, apart from the fmtp parameters, rtcp-fb values and ptime laid
over it, is the media's last `a=rtpmap` record for the token's number if there
is one, else the static RFC table entry, else a bare record carrying only the
number; its payload type is the token's number when it comes from an rtpmap or
is bare. -/
theorem c9_payload_types (env : Env) (buf : List Char) (sessions : List sdp_session)
    (streams : List stream_params) (flags : sdp_ng_flags) (session : sdp_session)
    (media : sdp_media) (has_prev : Bool) (st : streams_state)
    (hreach : streams_reach env buf sessions streams flags session media has_prev st)
    (hrtp : env.proto_is_rtp (env.transport_protocol (str_bytes buf media.transport)) = true)
    (hsmall : ∀ s ∈ media.format_list, (strtoul buf (s.s.getD 0)).1 < 2 ^ 32) :
    ((∃ s ∈ media.format_list, (strtoul buf (s.s.getD 0)).2 = s.s.getD 0 ∨
        127 < (strtoul buf (s.s.getD 0)).1) →
      (∃ e st1, sdp_streams_media env buf session has_prev media st = media_step.error e st1) ∧
      (sdp_streams env buf sessions streams flags).ret = -1) ∧
    ((∀ s ∈ media.format_list, (strtoul buf (s.s.getD 0)).2 ≠ s.s.getD 0 ∧
        (strtoul buf (s.s.getD 0)).1 ≤ 127) →
      ∀ st1 pl,
        sdp_streams_media env buf session has_prev media st = media_step.next st1 pl false →
        ∃ pre x, st1.streams = pre ++ [x] ∧
          List.Forall₂ (fun s r => ∃ pt,
              r = env.codec_init_payload_type pt media.media_type_id ∧
              payload_type_core pt = payload_type_core
                (spec_payload_base env
                  ((attr_list_get_by_id media.attributes attr_id.ATTR_RTPMAP).getD [])
                  (strtoul buf (s.s.getD 0)).1) ∧
              (((∃ a ∈ (attr_list_get_by_id media.attributes attr_id.ATTR_RTPMAP).getD [],
                    a.rtpmap.rtp_pt.payload_type = ((strtoul buf (s.s.getD 0)).1 : Int)) ∨
                  env.rtp_get_rfc_payload_type (strtoul buf (s.s.getD 0)).1 = none) →
                pt.payload_type = ((strtoul buf (s.s.getD 0)).1 : Int)))
            media.format_list x.codecs) := by
  obtain ⟨f1, f2, f3⟩ := sdp_streams_before_codecs_fields env buf session media st
  have hmod : ∀ s ∈ media.format_list,
      (strtoul buf (s.s.getD 0)).1 % 2 ^ 32 = (strtoul buf (s.s.getD 0)).1 :=
    fun s hs => Nat.mod_eq_of_lt (hsmall s hs)
  have hpt : __rtp_payload_types env buf (sdp_streams_before_codecs env buf session media st).1
      media
      = rtp_payload_types_loop env buf
          (rtpmap_table ((attr_list_get_by_id media.attributes attr_id.ATTR_RTPMAP).getD []))
          (fmtp_table ((attr_list_get_by_id media.attributes attr_id.ATTR_FMTP).getD []))
          (rtcp_fb_table ((attr_list_get_by_id media.attributes attr_id.ATTR_RTCP_FB).getD []))
          (sdp_streams_before_codecs env buf session media st).1 media.format_list := by
    unfold __rtp_payload_types
    rw [f1, hrtp]
    rfl
  refine ⟨?_, ?_⟩
  · intro hbad
    have hfail : (__rtp_payload_types env buf
        (sdp_streams_before_codecs env buf session media st).1 media).1 = -1 := by
      rw [hpt]
      apply rtp_payload_types_loop_fail
      obtain ⟨s, hs, hb⟩ := hbad
      exact ⟨s, hs, by rw [hmod s hs]; exact hb⟩
    have hstep : ∃ e st1, sdp_streams_media env buf session has_prev media st
        = media_step.error e st1 := by
      unfold sdp_streams_media
      simp only
      split
      · exact ⟨_, _, rfl⟩
      · rw [if_pos (by rw [hfail]; decide)]
        exact ⟨_, _, rfl⟩
    obtain ⟨e, st1, he⟩ := hstep
    exact ⟨⟨e, st1, he⟩, sdp_streams_error hreach he⟩
  · intro hok st1 pl hstep
    obtain ⟨_, _, pre, x, hx1, _, hx3⟩ := sdp_streams_media_next _ _ _ _ _ _ _ _ hstep
    refine ⟨pre, x, hx1, ?_⟩
    obtain ⟨recs, _, r2, r3⟩ := rtp_payload_types_loop_ok env buf
      (rtpmap_table ((attr_list_get_by_id media.attributes attr_id.ATTR_RTPMAP).getD []))
      (fmtp_table ((attr_list_get_by_id media.attributes attr_id.ATTR_FMTP).getD []))
      (fun s => (strtoul buf (s.s.getD 0)).1 < 2 ^ 32)
      media.format_list
      (rtcp_fb_table ((attr_list_get_by_id media.attributes attr_id.ATTR_RTCP_FB).getD []))
      (sdp_streams_before_codecs env buf session media st).1
      (fun s hs => ⟨hsmall s hs, (hok s hs).1, by rw [hmod s hs]; exact (hok s hs).2⟩)
    rw [hx3, hpt, r2, f3, List.nil_append]
    refine List.Forall₂.imp ?_ r3
    intro s r ⟨hlt, fb1, hr⟩
    refine ⟨compose_payload_type env buf
      (sdp_streams_before_codecs env buf session media st).1.ptime
      (rtpmap_table ((attr_list_get_by_id media.attributes attr_id.ATTR_RTPMAP).getD []))
      (fmtp_table ((attr_list_get_by_id media.attributes attr_id.ATTR_FMTP).getD []))
      fb1 ((strtoul buf (s.s.getD 0)).1 % 2 ^ 32), ?_, ?_, ?_⟩
    · rw [hr, f2]
    · rw [compose_payload_type_core, payload_type_base_spec, Nat.mod_eq_of_lt hlt]
    · intro hn
      have hcore := compose_payload_type_core env buf
        (sdp_streams_before_codecs env buf session media st).1.ptime
        (rtpmap_table ((attr_list_get_by_id media.attributes attr_id.ATTR_RTPMAP).getD []))
        (fmtp_table ((attr_list_get_by_id media.attributes attr_id.ATTR_FMTP).getD []))
        fb1 ((strtoul buf (s.s.getD 0)).1 % 2 ^ 32)
      rw [payload_type_base_spec, Nat.mod_eq_of_lt hlt] at hcore
      have hp := congrArg (fun p => p.payload_type) hcore
      simp only [payload_type_core] at hp
      rw [Nat.mod_eq_of_lt hlt, hp]
      exact spec_payload_base_number env _ _ hn


/-- C9 at a concrete input: the hypotheses hold there, and so does the
conclusion. -/
theorem c9_payload_types_witness :
    streams_reach demo_env demo_body [demo_session] [] { trust_address := true }
      demo_session demo_media false (demo_streams_state { trust_address := true }) ∧
    demo_env.proto_is_rtp (demo_env.transport_protocol (str_bytes demo_body demo_media.transport))
      = true ∧
    (∀ s ∈ demo_media.format_list, (strtoul demo_body (s.s.getD 0)).1 < 2 ^ 32) ∧
    demo_media.format_list.map (str_bytes demo_body) = ["0".toList, "8".toList] ∧
    ∃ pre x, demo_streams_after { trust_address := true } = pre ++ [x] ∧
      List.Forall₂ (fun s r => ∃ pt,
          r = demo_env.codec_init_payload_type pt demo_media.media_type_id ∧
          payload_type_core pt = payload_type_core
            (spec_payload_base demo_env
              ((attr_list_get_by_id demo_media.attributes attr_id.ATTR_RTPMAP).getD [])
              (strtoul demo_body (s.s.getD 0)).1) ∧
          (((∃ a ∈ (attr_list_get_by_id demo_media.attributes attr_id.ATTR_RTPMAP).getD [],
                a.rtpmap.rtp_pt.payload_type = ((strtoul demo_body (s.s.getD 0)).1 : Int)) ∨
              demo_env.rtp_get_rfc_payload_type (strtoul demo_body (s.s.getD 0)).1 = none) →
            pt.payload_type = ((strtoul demo_body (s.s.getD 0)).1 : Int)))
        demo_media.format_list x.codecs :=
  with_facts7 (fun fact1 fact2 fact3 fact4 fact5 fact6 fact7 =>
    have hreach : streams_reach demo_env demo_body [demo_session] [] { trust_address := true }
        demo_session demo_media false (demo_streams_state { trust_address := true }) :=
      ⟨[], [], [], demo_session.media_streams.tail, { flags := { trust_address := true } }, [], [],
        rfl, fact1, rfl, rfl, rfl⟩
    ⟨hreach, fact2, fact3, fact4,
     (c9_payload_types demo_env demo_body [demo_session] [] { trust_address := true }
        demo_session demo_media false (demo_streams_state { trust_address := true }) hreach
        (fact5) (fact6)).2 (fact7) _ _ rfl⟩) (by decide!)

/-- C9 as stated fails.  The format token `8x` is not a number, yet stream
extraction succeeds and the codec store holds the record of payload type 8.
And the token `4294967296` exceeds 127, yet stream extraction succeeds and
the codec store holds the record of payload type 0. -/
theorem c9_counterexample :
    (demo_sessions demo_lenient_body).map
        (fun s => s.media_streams.map
          (fun m => m.format_list.map (str_bytes demo_lenient_body)))
      = [[["8x".toList]]] ∧
    (sdp_streams demo_env demo_lenient_body (demo_sessions demo_lenient_body) []
        { trust_address := true }).ret = 0 ∧
    (sdp_streams demo_env demo_lenient_body (demo_sessions demo_lenient_body) []
        { trust_address := true }).streams.map (fun sp => sp.codecs.map (fun pt => pt.payload_type))
      = [[8]] ∧
    (demo_sessions demo_wrap_body).map
        (fun s => s.media_streams.map
          (fun m => m.format_list.map (str_bytes demo_wrap_body)))
      = [[["4294967296".toList]]] ∧
    (sdp_streams demo_env demo_wrap_body (demo_sessions demo_wrap_body) []
        { trust_address := true }).ret = 0 ∧
    (sdp_streams demo_env demo_wrap_body (demo_sessions demo_wrap_body) []
        { trust_address := true }).streams.map (fun sp => sp.codecs.map (fun pt => pt.payload_type))
      = [[0]] :=
  with_facts6 (fun fact1 fact2 fact3 fact4 fact5 fact6 =>
    ⟨fact1, fact2, fact3, fact4, fact5, fact6⟩) (by decide!)


/-! ## The rewriter against a mirroring call -/

theorem attrs_within_of_b : ∀ (l : List sdp_attribute) (lo hi : Nat),
    attrs_within_b lo hi l = true → attrs_within lo hi l := by
  intro l
  induction l with
  | nil =>
    intro lo hi h
    simpa [attrs_within_b, attrs_within] using h
  | cons a rest ih =>
    intro lo hi h
    unfold attrs_within_b at h
    cases hp : a.full_line.s with
    | none => rw [hp] at h; simp at h
    | some p =>
      rw [hp] at h
      simp only [Bool.and_eq_true, decide_eq_true_eq] at h
      exact ⟨p, hp, h.1.1, h.1.2, ih _ _ h.2⟩

theorem advanced_refl (c : sdp_chopper) : advanced c c := by
  refine ⟨rfl, rfl, rfl, le_refl _, ?_⟩
  simp [bytes_at]

/-- The three steps of a field replacement, on a field at or after the read
position. -/
theorem edit_ok (chop : sdp_chopper) (field : Str) (p : Nat) (hp : field.s = some p)
    (hpos : chop.position ≤ p) (r : List Char) :
    copy_up_to chop field = (0, { chop with
        output := chop.output ++ bytes_at chop.input chop.position (p - chop.position),
        position := p }) ∧
    skip_over (chopper_append { chop with
        output := chop.output ++ bytes_at chop.input chop.position (p - chop.position),
        position := p } r) field = (0, { chop with
        output := chop.output ++ bytes_at chop.input chop.position (p - chop.position) ++ r,
        position := p + field.len }) := by
  obtain ⟨h1, _⟩ := copy_skip_ok chop field p hp hpos
  refine ⟨h1, ?_⟩
  unfold skip_over
  rw [hp]
  simp only [chopper_append]
  have e1 : ¬ ((p : Int) + (field.len : Int) - (p : Int) < 0) := by omega
  have e2 : ((p : Int) + (field.len : Int) - (p : Int)).toNat = field.len := by omega
  simp only [e1, if_false, e2]

theorem copy_up_to_end_of_ok (chop : sdp_chopper) (w : Str) (p : Nat) (hw : w.s = some p)
    (hpos : chop.position ≤ p + w.len) :
    copy_up_to_end_of chop w = (0, { chop with
      output := chop.output ++ bytes_at chop.input chop.position (p + w.len - chop.position),
      position := p + w.len }) := by
  unfold copy_up_to_end_of copy_up_to_ptr
  rw [hw]
  simp only [Option.map_some']
  have e1 : ¬ (((p + w.len : Nat) : Int) - (chop.position : Int) < 0) := by omega
  have e2 : (((p + w.len : Nat) : Int) - (chop.position : Int)).toNat
      = p + w.len - chop.position := by omega
  simp only [e1, if_false, e2, chopper_append]
  congr 2
  omega

/-- The attribute loop and the copy to the end of the section, on a chopper
that has copied the input from the start of the section on: the section is
emitted with its edits. -/
theorem section_rewrite (act : sdp_attribute → attr_action) (chop0 chop : sdp_chopper)
    (attrs : List sdp_attribute) (w : Str) (p : Nat)
    (hadv : advanced chop0 chop) (haw : attrs_within chop.position (p + w.len) attrs)
    (hw : w.s = some p) (hlen : p + w.len ≤ chop0.input.length) :
    ∃ chop1 chop2, process_attrs_loop act chop attrs = (0, chop1) ∧
      copy_up_to_end_of chop1 w = (0, chop2) ∧
      emitted chop0 chop2
        (expected_output (fun a => edit_of_action (act a)) chop0.input attrs chop0.position
          (p + w.len)) (p + w.len) := by
  obtain ⟨i1, i2, i3, i4, i5⟩ := hadv
  obtain ⟨chop1, h1, h2, h3, h4, h5, h6, h7⟩ :=
    process_loop_segment act attrs chop chop.position (p + w.len) haw (le_refl _)
  have hcopy := copy_up_to_end_of_ok chop1 w p hw h5
  refine ⟨chop1, _, h1, hcopy, ?_, ?_, ?_, rfl, ?_⟩
  · show chop1.input = chop0.input
    rw [h2, i1]
  · show chop1.input_len = chop0.input_len
    rw [h3, i2]
  · show chop1.offset = chop0.offset
    rw [h4, i3]
  · show chop1.output ++ bytes_at chop1.input chop1.position (p + w.len - chop1.position) = _
    have hle := attrs_within_le haw
    rw [h2, h7, i1,
      segment_eq_expected _ chop0.input attrs chop.position chop.position _ haw (le_refl _) hlen,
      i5, List.append_assoc]
    congr 1
    rw [expected_output_split _ chop0.input attrs chop0.position chop.position (p + w.len) i4 hle]
    congr 1
    symm
    apply expected_output_plain _ _ _ _ _ (by omega)
    intro i _ hi
    exact expected_at_before _ _ _ _ _ _ haw hi

theorem rtp_payload_types_loop_flags (env : Env) (buf : List Char)
    (ht_rtpmap : List (Int × rtp_payload_type)) (ht_fmtp : List (Nat × Str)) :
    ∀ (fmts : List Str) (ht_rtcp_fb : List (Nat × List Str)) (sp : stream_params),
      (rtp_payload_types_loop env buf ht_rtpmap ht_fmtp ht_rtcp_fb sp fmts).2.sp_flags
          = sp.sp_flags ∧
      (rtp_payload_types_loop env buf ht_rtpmap ht_fmtp ht_rtcp_fb sp fmts).2.index
          = sp.index ∧
      (rtp_payload_types_loop env buf ht_rtpmap ht_fmtp ht_rtcp_fb sp fmts).2.protocol
          = sp.protocol ∧
      (rtp_payload_types_loop env buf ht_rtpmap ht_fmtp ht_rtcp_fb sp fmts).2.type_id
          = sp.type_id := by
  intro fmts
  induction fmts with
  | nil => intro ht sp; exact ⟨rfl, rfl, rfl, rfl⟩
  | cons s rest ih =>
    intro ht sp
    rw [rtp_payload_types_loop]
    simp only
    split
    · exact ⟨rfl, rfl, rfl, rfl⟩
    · obtain ⟨h1, h2, h3, h4⟩ := ih (g_hash_table_remove ht (((strtoul buf (s.s.getD 0)).1) % 2 ^ 32))
        { sp with codecs := sp.codecs ++
            [env.codec_init_payload_type
              (compose_payload_type env buf sp.ptime ht_rtpmap ht_fmtp ht
                ((strtoul buf (s.s.getD 0)).1 % 2 ^ 32)) sp.type_id] }
      exact ⟨h1, h2, h3, h4⟩

theorem rtp_payload_types_flags (env : Env) (buf : List Char) (sp : stream_params)
    (media : sdp_media) :
    (__rtp_payload_types env buf sp media).2.sp_flags = sp.sp_flags ∧
    (__rtp_payload_types env buf sp media).2.index = sp.index ∧
    (__rtp_payload_types env buf sp media).2.protocol = sp.protocol ∧
    (__rtp_payload_types env buf sp media).2.type_id = sp.type_id := by
  unfold __rtp_payload_types
  split
  · exact ⟨rfl, rfl, rfl, rfl⟩
  · exact rtp_payload_types_loop_flags _ _ _ _ _ _ _

theorem sdp_streams_setup_flags (session : sdp_session) (media : sdp_media)
    (sp : stream_params) :
    (sdp_streams_setup session media sp).sp_flags.SEND = sp.sp_flags.SEND ∧
    (sdp_streams_setup session media sp).sp_flags.RECV = sp.sp_flags.RECV ∧
    (sdp_streams_setup session media sp).sp_flags.TRICKLE_ICE = sp.sp_flags.TRICKLE_ICE := by
  unfold sdp_streams_setup
  simp only
  repeat' split
  all_goals exact ⟨rfl, rfl, rfl⟩

theorem sdp_streams_fingerprint_flags (session : sdp_session) (media : sdp_media)
    (sp : stream_params) :
    (sdp_streams_fingerprint session media sp).sp_flags = sp.sp_flags := by
  unfold sdp_streams_fingerprint
  simp only
  repeat' split
  all_goals rfl

theorem sdp_streams_osrtp_flags (env : Env) (sp : stream_params) :
    (sdp_streams_osrtp env sp).sp_flags = sp.sp_flags := by
  unfold sdp_streams_osrtp
  repeat' split
  all_goals rfl

/-- The direction block sets SEND and RECV from the attributes alone, in the
order recvonly, sendonly, inactive. -/
theorem sdp_streams_direction_flags (session : sdp_session) (media : sdp_media)
    (sp : stream_params) :
    (sdp_streams_direction session media sp).sp_flags.TRICKLE_ICE = sp.sp_flags.TRICKLE_ICE ∧
    ((attr_get_by_id_m_s session media attr_id.ATTR_RECVONLY).isSome = true →
      (sdp_streams_direction session media sp).sp_flags.SEND = false ∧
      (sdp_streams_direction session media sp).sp_flags.RECV = true) ∧
    ((attr_get_by_id_m_s session media attr_id.ATTR_RECVONLY).isSome = false →
      (attr_get_by_id_m_s session media attr_id.ATTR_SENDONLY).isSome = true →
      (sdp_streams_direction session media sp).sp_flags.SEND = true ∧
      (sdp_streams_direction session media sp).sp_flags.RECV = false) ∧
    ((attr_get_by_id_m_s session media attr_id.ATTR_RECVONLY).isSome = false →
      (attr_get_by_id_m_s session media attr_id.ATTR_SENDONLY).isSome = false →
      (attr_get_by_id_m_s session media attr_id.ATTR_INACTIVE).isSome = true →
      (sdp_streams_direction session media sp).sp_flags.SEND = false ∧
      (sdp_streams_direction session media sp).sp_flags.RECV = false) ∧
    ((attr_get_by_id_m_s session media attr_id.ATTR_RECVONLY).isSome = false →
      (attr_get_by_id_m_s session media attr_id.ATTR_SENDONLY).isSome = false →
      (attr_get_by_id_m_s session media attr_id.ATTR_INACTIVE).isSome = false →
      (sdp_streams_direction session media sp).sp_flags.SEND = true ∧
      (sdp_streams_direction session media sp).sp_flags.RECV = true) := by
  unfold sdp_streams_direction
  simp only
  refine ⟨?_, ?_, ?_, ?_, ?_⟩
  · repeat' split
    all_goals rfl
  · intro h1
    rw [if_pos h1]
    exact ⟨rfl, rfl⟩
  · intro h1 h2
    rw [if_neg (by rw [h1]; simp), if_pos h2]
    exact ⟨rfl, rfl⟩
  · intro h1 h2 h3
    rw [if_neg (by rw [h1]; simp), if_neg (by rw [h2]; simp), if_pos h3]
    exact ⟨rfl, rfl⟩
  · intro h1 h2 h3
    rw [if_neg (by rw [h1]; simp), if_neg (by rw [h2]; simp), if_neg (by rw [h3]; simp)]
    exact ⟨rfl, rfl⟩

theorem legacy_osrtp_accept_flags (sp : stream_params) (streams : List stream_params)
    (has_prev : Bool) (flags : sdp_ng_flags) (num : Nat) :
    (legacy_osrtp_accept sp streams has_prev flags num).sp.sp_flags.SEND = sp.sp_flags.SEND ∧
    (legacy_osrtp_accept sp streams has_prev flags num).sp.sp_flags.RECV = sp.sp_flags.RECV ∧
    (legacy_osrtp_accept sp streams has_prev flags num).sp.sp_flags.TRICKLE_ICE
      = sp.sp_flags.TRICKLE_ICE := by
  unfold legacy_osrtp_accept
  simp only
  repeat' split
  all_goals exact ⟨rfl, rfl, rfl⟩

theorem sdp_streams_mid_flags (buf : List Char) (media : sdp_media) (sp : stream_params) :
    (sdp_streams_mid buf media sp).sp_flags.SEND = sp.sp_flags.SEND ∧
    (sdp_streams_mid buf media sp).sp_flags.RECV = sp.sp_flags.RECV ∧
    (sdp_streams_mid buf media sp).sp_flags.TRICKLE_ICE = sp.sp_flags.TRICKLE_ICE ∧
    (sdp_streams_mid buf media sp).sp_flags.LEGACY_OSRTP = sp.sp_flags.LEGACY_OSRTP ∧
    (sdp_streams_mid buf media sp).index = sp.index := by
  have h3 : ∀ s : stream_params,
      (sdp_streams_rtcp_mux media s).sp_flags.SEND = s.sp_flags.SEND ∧
      (sdp_streams_rtcp_mux media s).sp_flags.RECV = s.sp_flags.RECV ∧
      (sdp_streams_rtcp_mux media s).sp_flags.TRICKLE_ICE = s.sp_flags.TRICKLE_ICE ∧
      (sdp_streams_rtcp_mux media s).sp_flags.LEGACY_OSRTP = s.sp_flags.LEGACY_OSRTP ∧
      (sdp_streams_rtcp_mux media s).index = s.index := by
    intro s
    unfold sdp_streams_rtcp_mux
    split
    · exact ⟨rfl, rfl, rfl, rfl, rfl⟩
    · exact ⟨rfl, rfl, rfl, rfl, rfl⟩
  have h1 : (sdp_streams_media_id media sp).sp_flags.SEND = sp.sp_flags.SEND ∧
      (sdp_streams_media_id media sp).sp_flags.RECV = sp.sp_flags.RECV ∧
      (sdp_streams_media_id media sp).sp_flags.TRICKLE_ICE = sp.sp_flags.TRICKLE_ICE ∧
      (sdp_streams_media_id media sp).sp_flags.LEGACY_OSRTP = sp.sp_flags.LEGACY_OSRTP ∧
      (sdp_streams_media_id media sp).index = sp.index := by
    unfold sdp_streams_media_id
    simp only
    repeat' split
    all_goals exact ⟨rfl, rfl, rfl, rfl, rfl⟩
  have h2 : (__sdp_t38 buf (sdp_streams_media_id media sp) media).sp_flags
        = (sdp_streams_media_id media sp).sp_flags ∧
      (__sdp_t38 buf (sdp_streams_media_id media sp) media).index
        = (sdp_streams_media_id media sp).index := by
    unfold __sdp_t38
    exact ⟨rfl, rfl⟩
  unfold sdp_streams_mid
  obtain ⟨a1, a2, a3, a4, a5⟩ := h3 (__sdp_t38 buf (sdp_streams_media_id media sp) media)
  obtain ⟨b1, b2, b3, b4, b5⟩ := h1
  rw [a1, a2, a3, a4, a5, h2.1, h2.2]
  exact ⟨b1, b2, b3, b4, b5⟩

theorem sdp_streams_rtcp_flags (env : Env) (session : sdp_session)
    (media : sdp_media) (st : streams_state) (sp : stream_params) (prev_legacy : Bool)
    (st1 : streams_state) (pl cl : Bool)
    (h : sdp_streams_rtcp env session media st sp prev_legacy = media_step.next st1 pl cl) :
    cl = false ∧ pl = prev_legacy ∧ st1.num = st.num ∧
    ∃ x, st1.streams = st.streams ++ [x] ∧ x.rtp_endpoint = sp.rtp_endpoint ∧
      x.sp_flags.SEND = sp.sp_flags.SEND ∧ x.sp_flags.RECV = sp.sp_flags.RECV ∧
      x.sp_flags.TRICKLE_ICE = sp.sp_flags.TRICKLE_ICE ∧
      x.sp_flags.LEGACY_OSRTP = sp.sp_flags.LEGACY_OSRTP ∧ x.index = sp.index := by
  unfold sdp_streams_rtcp at h
  simp only [sdp_streams_push] at h
  repeat' split at h
  all_goals first
    | (injection h with h1 h2 h3
       subst h1 h2 h3
       exact ⟨rfl, rfl, rfl, _, rfl, rfl, rfl, rfl, rfl, rfl, rfl⟩)
    | (injection h)

theorem sdp_streams_finish_flags (env : Env) (buf : List Char) (session : sdp_session)
    (media : sdp_media) (st : streams_state) (sp : stream_params) (prev_legacy : Bool)
    (st1 : streams_state) (pl cl : Bool)
    (h : sdp_streams_finish env buf session media st sp prev_legacy = media_step.next st1 pl cl) :
    cl = false ∧ pl = prev_legacy ∧ st1.num = st.num ∧
    ∃ x, st1.streams = st.streams ++ [x] ∧ x.rtp_endpoint = sp.rtp_endpoint ∧
      x.sp_flags.SEND = sp.sp_flags.SEND ∧ x.sp_flags.RECV = sp.sp_flags.RECV ∧
      x.sp_flags.TRICKLE_ICE = sp.sp_flags.TRICKLE_ICE ∧
      x.sp_flags.LEGACY_OSRTP = sp.sp_flags.LEGACY_OSRTP ∧ x.index = sp.index := by
  unfold sdp_streams_finish at h
  obtain ⟨h1, h2, h3, x, x1, x2, x3, x4, x5, x6, x7⟩ :=
    sdp_streams_rtcp_flags _ _ _ _ _ _ _ _ _ h
  obtain ⟨m1, m2, m3, m4, m5⟩ := sdp_streams_mid_flags buf media sp
  obtain ⟨e1, _⟩ := sdp_streams_mid_frame buf media sp
  exact ⟨h1, h2, h3, x, x1, by rw [x2, e1], by rw [x3, m1], by rw [x4, m2], by rw [x5, m3],
    by rw [x6, m4], by rw [x7, m5]⟩

/-- A turn of the media loop that pushes its stream: `legacy_osrtp_accept`
kept the stream, and the end of the loop body pushed it. -/
theorem sdp_streams_media_kept (env : Env) (buf : List Char) (session : sdp_session)
    (has_prev : Bool) (media : sdp_media) (st st1 : streams_state) (pl : Bool)
    (h : sdp_streams_media env buf session has_prev media st = media_step.next st1 pl false) :
    (sdp_streams_endpoint env session media st.flags).1 = 0 ∧
    (legacy_osrtp_accept (sdp_streams_current env buf session media st) st.streams has_prev
      (sdp_streams_before_codecs env buf session media st).2 (st.num + 1)).discard = false ∧
    sdp_streams_finish env buf session media
      { streams := (legacy_osrtp_accept (sdp_streams_current env buf session media st)
          st.streams has_prev (sdp_streams_before_codecs env buf session media st).2
          (st.num + 1)).streams,
        flags := (sdp_streams_before_codecs env buf session media st).2,
        num := (legacy_osrtp_accept (sdp_streams_current env buf session media st)
          st.streams has_prev (sdp_streams_before_codecs env buf session media st).2
          (st.num + 1)).num }
      (legacy_osrtp_accept (sdp_streams_current env buf session media st) st.streams has_prev
        (sdp_streams_before_codecs env buf session media st).2 (st.num + 1)).sp
      (legacy_osrtp_accept (sdp_streams_current env buf session media st) st.streams has_prev
        (sdp_streams_before_codecs env buf session media st).2 (st.num + 1)).prev_legacy
      = media_step.next st1 pl false := by
  unfold sdp_streams_media at h
  simp only at h
  by_cases h1 : (sdp_streams_endpoint env session media st.flags).1 = 0
  · rw [if_neg (by simpa using h1)] at h
    by_cases h2 : (__rtp_payload_types env buf
        (sdp_streams_before_codecs env buf session media st).1 media).1 = 0
    · rw [if_neg (by simpa using h2)] at h
      obtain ⟨_, _, l3⟩ := legacy_osrtp_accept_frame
        (sdp_streams_security env buf session media
          (__rtp_payload_types env buf (sdp_streams_before_codecs env buf session media st).1
            media).2) st.streams has_prev
        (sdp_streams_before_codecs env buf session media st).2 (st.num + 1)
      unfold sdp_streams_current
      split at h
      · rename_i hd
        injection h with e1 e2 e3
        rw [l3 hd] at e3
        exact absurd e3 (by simp)
      · rename_i hd
        exact ⟨h1, by simpa using hd, h⟩
    · rw [if_pos (by simpa using h2)] at h
      injection h
  · rw [if_pos (by simpa using h1)] at h
    injection h

/-- The flags SEND, RECV and TRICKLE_ICE of the stream at the call of
`legacy_osrtp_accept`. -/
theorem sdp_streams_current_flags (env : Env) (buf : List Char) (session : sdp_session)
    (media : sdp_media) (st : streams_state) :
    (sdp_streams_current env buf session media st).sp_flags.SEND
      = (sdp_streams_direction session media {}).sp_flags.SEND ∧
    (sdp_streams_current env buf session media st).sp_flags.RECV
      = (sdp_streams_direction session media {}).sp_flags.RECV ∧
    (sdp_streams_current env buf session media st).sp_flags.TRICKLE_ICE
      = (__sdp_ice env buf
          { index := st.num + 1, media_sdp_id := media.media_sdp_id,
            rtp_endpoint := (sdp_streams_endpoint env session media st.flags).2.1 }
          session media).sp_flags.TRICKLE_ICE := by
  unfold sdp_streams_current sdp_streams_security
  rw [sdp_streams_osrtp_flags, sdp_streams_fingerprint_flags]
  obtain ⟨a1, a2, a3⟩ := sdp_streams_setup_flags session media
    (sdp_streams_direction session media (sdp_streams_crypto buf media
      (__rtp_payload_types env buf (sdp_streams_before_codecs env buf session media st).1
        media).2))
  rw [a1, a2, a3]
  refine ⟨?_, ?_, ?_⟩
  · unfold sdp_streams_direction
    simp only
    repeat' split
    all_goals rfl
  · unfold sdp_streams_direction
    simp only
    repeat' split
    all_goals rfl
  · rw [(sdp_streams_direction_flags session media _).1]
    show (__rtp_payload_types env buf (sdp_streams_before_codecs env buf session media st).1
      media).2.sp_flags.TRICKLE_ICE = _
    rw [(rtp_payload_types_flags env buf _ media).1]
    unfold sdp_streams_before_codecs sdp_streams_context sdp_streams_ptime sdp_streams_copy
    simp only
    repeat' split
    all_goals rfl

/-- A turn of the media loop that pushes its stream: the flags SEND, RECV and
TRICKLE_ICE of the pushed stream, and its RTP endpoint. -/
theorem sdp_streams_media_flags (env : Env) (buf : List Char) (session : sdp_session)
    (has_prev : Bool) (media : sdp_media) (st st1 : streams_state) (pl : Bool)
    (h : sdp_streams_media env buf session has_prev media st = media_step.next st1 pl false) :
    ∃ pre x, st1.streams = pre ++ [x] ∧
      x.rtp_endpoint = (sdp_streams_endpoint env session media st.flags).2.1 ∧
      x.sp_flags.SEND = (sdp_streams_direction session media {}).sp_flags.SEND ∧
      x.sp_flags.RECV = (sdp_streams_direction session media {}).sp_flags.RECV ∧
      x.sp_flags.TRICKLE_ICE
        = (__sdp_ice env buf
            { index := st.num + 1, media_sdp_id := media.media_sdp_id,
              rtp_endpoint := (sdp_streams_endpoint env session media st.flags).2.1 }
            session media).sp_flags.TRICKLE_ICE := by
  obtain ⟨_, _, hfin⟩ := sdp_streams_media_kept env buf session has_prev media st st1 pl h
  obtain ⟨_, _, _, x, x1, _, x3, x4, x5, _, _⟩ := sdp_streams_finish_flags _ _ _ _ _ _ _ _ _ _ hfin
  obtain ⟨l1, l2, l3⟩ := legacy_osrtp_accept_flags (sdp_streams_current env buf session media st)
    st.streams has_prev (sdp_streams_before_codecs env buf session media st).2 (st.num + 1)
  obtain ⟨c1, c2, c3⟩ := sdp_streams_current_flags env buf session media st
  obtain ⟨_, _, pre, y, y1, y2, _⟩ := sdp_streams_media_next env buf session has_prev media st st1
    pl h
  have hxy : x = y := by
    have := x1.symm.trans y1
    have h2 := List.append_inj_right' this rfl
    injection h2
  refine ⟨pre, x, by rw [hxy]; exact y1, by rw [hxy]; exact y2, ?_, ?_, ?_⟩
  · rw [x3, l1, c1]
  · rw [x4, l2, c2]
  · rw [x5, l3, c3]

/-- C11 (as amended).  For every media whose turn of the media loop of
`sdp_streams` pushes a stream, the pushed stream has SEND and RECV set from
the direction attributes that apply to the media (each looked up at media
level, else at session level), in this order of precedence: if an
`a=recvonly` applies, SEND is cleared and RECV stays set; else if an
`a=sendonly` applies, RECV is cleared and SEND stays set; else if an
`a=inactive` applies, both are cleared; else both are set. -/
theorem c11_send_recv (env : Env) (buf : List Char) (session : sdp_session)
    (has_prev : Bool) (media : sdp_media) (st st1 : streams_state) (pl : Bool)
    (h : sdp_streams_media env buf session has_prev media st = media_step.next st1 pl false) :
    ∃ pre x, st1.streams = pre ++ [x] ∧
      ((attr_get_by_id_m_s session media attr_id.ATTR_RECVONLY).isSome = true →
        x.sp_flags.SEND = false ∧ x.sp_flags.RECV = true) ∧
      ((attr_get_by_id_m_s session media attr_id.ATTR_RECVONLY).isSome = false →
        (attr_get_by_id_m_s session media attr_id.ATTR_SENDONLY).isSome = true →
        x.sp_flags.SEND = true ∧ x.sp_flags.RECV = false) ∧
      ((attr_get_by_id_m_s session media attr_id.ATTR_RECVONLY).isSome = false →
        (attr_get_by_id_m_s session media attr_id.ATTR_SENDONLY).isSome = false →
        (attr_get_by_id_m_s session media attr_id.ATTR_INACTIVE).isSome = true →
        x.sp_flags.SEND = false ∧ x.sp_flags.RECV = false) ∧
      ((attr_get_by_id_m_s session media attr_id.ATTR_RECVONLY).isSome = false →
        (attr_get_by_id_m_s session media attr_id.ATTR_SENDONLY).isSome = false →
        (attr_get_by_id_m_s session media attr_id.ATTR_INACTIVE).isSome = false →
        x.sp_flags.SEND = true ∧ x.sp_flags.RECV = true) := by
  obtain ⟨pre, x, h1, _, h3, h4, _⟩ := sdp_streams_media_flags env buf session has_prev media st
    st1 pl h
  obtain ⟨_, d1, d2, d3, d4⟩ := sdp_streams_direction_flags session media {}
  rw [← h3, ← h4] at d1 d2 d3 d4
  exact ⟨pre, x, h1, d1, d2, d3, d4⟩

/-- C11 on `demo_body`, whose media carries `a=sendrecv` only: the pushed
stream has SEND and RECV set. -/
theorem c11_send_recv_witness :
    ∃ pre x, media_step_streams (demo_turn demo_body { trust_address := true }) = pre ++ [x] ∧
      x.sp_flags.SEND = true ∧ x.sp_flags.RECV = true :=
  with_facts3 (fun fact1 fact2 fact3 =>
    (c11_send_recv demo_env demo_body (demo_session_of demo_body) false (demo_media_of demo_body)
        { flags := sdp_streams_session_flags demo_body (demo_session_of demo_body)
            { trust_address := true } } _ _ rfl).elim
      (fun pre h => h.elim (fun x hx =>
        ⟨pre, x, hx.1, hx.2.2.2.2 (fact1) (fact2) (fact3)⟩))) (by decide!)

/-- C11 as stated fails.  In this body `a=sendonly` applies to the media (at
media level) and `a=recvonly` applies too (at session level, the media having
none): extraction succeeds and the stream has SEND cleared and RECV still
set, although an `a=sendonly` applies. -/
theorem c11_counterexample :
    (demo_sessions demo_direction_body).map (fun s => s.media_streams.map (fun m =>
        ((attr_get_by_id m.attributes attr_id.ATTR_SENDONLY).isSome,
         (attr_get_by_id_m_s s m attr_id.ATTR_SENDONLY).isSome,
         (attr_get_by_id_m_s s m attr_id.ATTR_RECVONLY).isSome)))
      = [[(true, true, true)]] ∧
    (sdp_streams demo_env demo_direction_body (demo_sessions demo_direction_body) []
        { trust_address := true }).ret = 0 ∧
    (sdp_streams demo_env demo_direction_body (demo_sessions demo_direction_body) []
        { trust_address := true }).streams.map (fun sp => (sp.sp_flags.SEND, sp.sp_flags.RECV))
      = [(false, true)] :=
  with_facts3 (fun fact1 fact2 fact3 =>
    ⟨fact1, fact2, fact3⟩) (by decide!)

/-- What `__sdp_ice` makes of TRICKLE_ICE when an `a=ice-ufrag` applies. -/
theorem sdp_ice_trickle_value (env : Env) (buf : List Char) (sp : stream_params)
    (session : sdp_session) (media : sdp_media) (u : sdp_attribute)
    (hu : attr_get_by_id_m_s session media attr_id.ATTR_ICE_UFRAG = some u) :
    (__sdp_ice env buf sp session media).sp_flags.TRICKLE_ICE =
      (match attr_get_by_id_m_s session media attr_id.ATTR_ICE_OPTIONS with
       | some a => has_substr (str_bytes buf a.strs.value) "trickle".toList ||
           sp.sp_flags.TRICKLE_ICE
       | none => env.is_trickle_ice_address sp.rtp_endpoint || sp.sp_flags.TRICKLE_ICE) := by
  unfold __sdp_ice
  simp only
  repeat' split
  all_goals first
    | rfl
    | simp_all

/-- TRICKLE_ICE after `__sdp_ice` on a stream that has it clear, when an
`a=ice-ufrag` applies. -/
theorem sdp_ice_trickle (env : Env) (buf : List Char) (sp : stream_params)
    (session : sdp_session) (media : sdp_media) (u : sdp_attribute)
    (hu : attr_get_by_id_m_s session media attr_id.ATTR_ICE_UFRAG = some u)
    (h0 : sp.sp_flags.TRICKLE_ICE = false) :
    (__sdp_ice env buf sp session media).sp_flags.TRICKLE_ICE = true ↔
      ((∃ a, attr_get_by_id_m_s session media attr_id.ATTR_ICE_OPTIONS = some a ∧
          has_substr (str_bytes buf a.strs.value) "trickle".toList = true) ∨
       (attr_get_by_id_m_s session media attr_id.ATTR_ICE_OPTIONS = none ∧
          env.is_trickle_ice_address sp.rtp_endpoint = true)) := by
  rw [sdp_ice_trickle_value env buf sp session media u hu, h0]
  cases ho : attr_get_by_id_m_s session media attr_id.ATTR_ICE_OPTIONS with
  | none => simp
  | some a => simp

/-- C12 (as amended).  For every media to which an `a=ice-ufrag` applies (at
media level, else at session level) and whose turn of the media loop of
`sdp_streams` pushes a stream, the pushed stream has TRICKLE_ICE set if and
only if either an `a=ice-options` attribute applies and its value contains
`trickle`, or no `a=ice-options` attribute applies and the RTP endpoint of the
stream is the sentinel trickle address. -/
theorem c12_trickle_ice (env : Env) (buf : List Char) (session : sdp_session)
    (has_prev : Bool) (media : sdp_media) (st st1 : streams_state) (pl : Bool)
    (u : sdp_attribute)
    (hu : attr_get_by_id_m_s session media attr_id.ATTR_ICE_UFRAG = some u)
    (h : sdp_streams_media env buf session has_prev media st = media_step.next st1 pl false) :
    ∃ pre x, st1.streams = pre ++ [x] ∧
      (x.sp_flags.TRICKLE_ICE = true ↔
        ((∃ a, attr_get_by_id_m_s session media attr_id.ATTR_ICE_OPTIONS = some a ∧
            has_substr (str_bytes buf a.strs.value) "trickle".toList = true) ∨
         (attr_get_by_id_m_s session media attr_id.ATTR_ICE_OPTIONS = none ∧
            env.is_trickle_ice_address x.rtp_endpoint = true))) := by
  obtain ⟨pre, x, h1, h2, _, _, h5⟩ := sdp_streams_media_flags env buf session has_prev media st
    st1 pl h
  refine ⟨pre, x, h1, ?_⟩
  rw [h5, h2]
  exact sdp_ice_trickle env buf _ session media u hu rfl

/-- C12 on a body whose media has an `a=ice-ufrag`, an `a=ice-options` without
`trickle` and the sentinel address as endpoint: the statement holds for the
stream pushed, which has TRICKLE_ICE clear. -/
theorem c12_trickle_ice_witness :
    (attr_get_by_id_m_s (demo_session_of demo_trickle_body) (demo_media_of demo_trickle_body)
      attr_id.ATTR_ICE_UFRAG).isSome = true ∧
    ∃ pre x, media_step_streams (demo_turn demo_trickle_body { trust_address := true })
        = pre ++ [x] ∧
      (x.sp_flags.TRICKLE_ICE = true ↔
        ((∃ a, attr_get_by_id_m_s (demo_session_of demo_trickle_body)
              (demo_media_of demo_trickle_body) attr_id.ATTR_ICE_OPTIONS = some a ∧
            has_substr (str_bytes demo_trickle_body a.strs.value) "trickle".toList = true) ∨
         (attr_get_by_id_m_s (demo_session_of demo_trickle_body)
              (demo_media_of demo_trickle_body) attr_id.ATTR_ICE_OPTIONS = none ∧
            demo_env.is_trickle_ice_address x.rtp_endpoint = true))) :=
  with_facts2 (fun fact1 fact2 =>
    ⟨fact1,
     c12_trickle_ice demo_env demo_trickle_body (demo_session_of demo_trickle_body) false
       (demo_media_of demo_trickle_body)
       { flags := sdp_streams_session_flags demo_trickle_body (demo_session_of demo_trickle_body)
           { trust_address := true } } _ _
       ((attr_get_by_id_m_s (demo_session_of demo_trickle_body) (demo_media_of demo_trickle_body)
          attr_id.ATTR_ICE_UFRAG).getD {})
       (fact2) rfl⟩) (by decide!)

/-- C12 as stated fails.  The media of this body has an `a=ice-ufrag`, its RTP
endpoint `0.0.0.0:9` is the sentinel trickle address, and its
`a=ice-options:renomination` does not contain `trickle`: extraction succeeds
and the stream does not have TRICKLE_ICE set. -/
theorem c12_counterexample :
    (demo_sessions demo_trickle_body).map (fun s => s.media_streams.map (fun m =>
        ((attr_get_by_id_m_s s m attr_id.ATTR_ICE_UFRAG).isSome,
         (attr_get_by_id_m_s s m attr_id.ATTR_ICE_OPTIONS).map
           (fun a => str_bytes demo_trickle_body a.strs.value))))
      = [[(true, some "renomination".toList)]] ∧
    (sdp_streams demo_env demo_trickle_body (demo_sessions demo_trickle_body) []
        { trust_address := true }).ret = 0 ∧
    (sdp_streams demo_env demo_trickle_body (demo_sessions demo_trickle_body) []
        { trust_address := true }).streams.map
          (fun sp => (demo_env.is_trickle_ice_address sp.rtp_endpoint, sp.sp_flags.ICE,
            sp.sp_flags.TRICKLE_ICE))
      = [(true, true, false)] :=
  with_facts3 (fun fact1 fact2 fact3 =>
    ⟨fact1, fact2, fact3⟩) (by decide!)

/-! ## Legacy OSRTP -/

/-- The forward case of `legacy_osrtp_accept`: the previous stream is plain RTP,
the current one is SRTP with a port that is not zero. -/
theorem legacy_osrtp_accept_forward (sp : stream_params) (pre : List stream_params)
    (last : stream_params) (flags : sdp_ng_flags) (num : Nat)
    (spp lastp : transport_protocol)
    (hf : flags.osrtp_accept_legacy = true)
    (hp1 : sp.protocol = some spp) (hp2 : last.protocol = some lastp)
    (ht : sp.type_id = last.type_id) (h1 : spp.rtp = true) (h2 : lastp.rtp = true)
    (h3 : spp.srtp = true) (h4 : lastp.srtp = false) (hport : sp.rtp_endpoint.port ≠ 0) :
    legacy_osrtp_accept sp (pre ++ [last]) true flags num =
      { discard := false,
        sp := { sp with sp_flags := { sp.sp_flags with LEGACY_OSRTP := true },
                        index := sp.index - 1 },
        streams := pre, num := num - 1, prev_legacy := true } := by
  have hl : (pre ++ [last]).getLast? = some last := by simp
  have hd : (pre ++ [last]).dropLast = pre := by simp
  have hne : ¬ (sp.type_id ≠ last.type_id) := by simp [ht]
  unfold legacy_osrtp_accept
  rw [hl]
  simp only [Bool.not_true, Bool.false_eq_true, if_false, hf, hp1, hp2]
  rw [if_neg hne, if_neg (by simp [h1]), if_neg (by simp [h2]), if_pos (by simp [h3, h4]),
    if_pos hport, hd]

theorem sdp_ice_index (env : Env) (buf : List Char) (sp : stream_params)
    (session : sdp_session) (media : sdp_media) :
    (__sdp_ice env buf sp session media).index = sp.index := by
  unfold __sdp_ice
  simp only
  repeat' split
  all_goals rfl

/-- What the stream at the call of `legacy_osrtp_accept` has from the media and
the state. -/
theorem sdp_streams_current_fields (env : Env) (buf : List Char) (session : sdp_session)
    (media : sdp_media) (st : streams_state) :
    (sdp_streams_current env buf session media st).type_id = media.media_type_id ∧
    (sdp_streams_current env buf session media st).index = st.num + 1 ∧
    (sdp_streams_current env buf session media st).rtp_endpoint
      = (sdp_streams_endpoint env session media st.flags).2.1 := by
  have hsec : ∀ sp : stream_params,
      (sdp_streams_security env buf session media sp).type_id = sp.type_id ∧
      (sdp_streams_security env buf session media sp).index = sp.index := by
    intro sp
    have e1 : ∀ s : stream_params, (sdp_streams_osrtp env s).type_id = s.type_id ∧
        (sdp_streams_osrtp env s).index = s.index := by
      intro s
      unfold sdp_streams_osrtp
      repeat' split
      all_goals exact ⟨rfl, rfl⟩
    have e2 : ∀ s : stream_params, (sdp_streams_fingerprint session media s).type_id = s.type_id ∧
        (sdp_streams_fingerprint session media s).index = s.index := by
      intro s
      unfold sdp_streams_fingerprint
      simp only
      repeat' split
      all_goals exact ⟨rfl, rfl⟩
    have e3 : ∀ s : stream_params, (sdp_streams_setup session media s).type_id = s.type_id ∧
        (sdp_streams_setup session media s).index = s.index := by
      intro s
      unfold sdp_streams_setup
      split
      · exact ⟨rfl, rfl⟩
      · exact ⟨rfl, rfl⟩
    have e4 : ∀ s : stream_params, (sdp_streams_direction session media s).type_id = s.type_id ∧
        (sdp_streams_direction session media s).index = s.index := by
      intro s
      unfold sdp_streams_direction
      simp only
      repeat' split
      all_goals exact ⟨rfl, rfl⟩
    unfold sdp_streams_security
    rw [(e1 _).1, (e1 _).2, (e2 _).1, (e2 _).2, (e3 _).1, (e3 _).2, (e4 _).1, (e4 _).2]
    exact ⟨rfl, rfl⟩
  obtain ⟨_, p2, _, p4⟩ := rtp_payload_types_flags env buf
    (sdp_streams_before_codecs env buf session media st).1 media
  obtain ⟨_, f2, _⟩ := sdp_streams_before_codecs_fields env buf session media st
  refine ⟨?_, ?_, ?_⟩
  · unfold sdp_streams_current
    rw [(hsec _).1, p4, f2]
  · unfold sdp_streams_current
    rw [(hsec _).2, p2]
    unfold sdp_streams_before_codecs sdp_streams_context sdp_streams_ptime sdp_streams_copy
    simp only
    have := (sdp_ice_index env buf
      { index := st.num + 1, media_sdp_id := media.media_sdp_id,
        rtp_endpoint := (sdp_streams_endpoint env session media st.flags).2.1 } session media)
    repeat' split
    all_goals exact this
  · unfold sdp_streams_current
    rw [(sdp_streams_security_frame env buf session media _).1,
      rtp_payload_types_frame env buf _ media]
    exact (sdp_streams_context_frame env buf session media _ _).1

/-- The flag `osrtp_accept_legacy` at the call of `legacy_osrtp_accept` is the
one the turn started with. -/
theorem sdp_streams_before_codecs_osrtp (env : Env) (buf : List Char) (session : sdp_session)
    (media : sdp_media) (st : streams_state) :
    (sdp_streams_before_codecs env buf session media st).2.osrtp_accept_legacy
      = st.flags.osrtp_accept_legacy := by
  have he : (sdp_streams_endpoint env session media st.flags).2.2.osrtp_accept_legacy
      = st.flags.osrtp_accept_legacy := by
    unfold sdp_streams_endpoint fill_endpoint
    repeat' split
    all_goals rfl
  unfold sdp_streams_before_codecs sdp_streams_context
  simp only
  split
  · exact he
  · exact he

/-- A turn of the media loop that does not end in an error has resolved the
endpoint and the payload types, and then `legacy_osrtp_accept` either
discarded the stream or handed it to the end of the loop body. -/
theorem sdp_streams_media_cases (env : Env) (buf : List Char) (session : sdp_session)
    (has_prev : Bool) (media : sdp_media) (st st1 : streams_state) (pl cl : Bool)
    (h : sdp_streams_media env buf session has_prev media st = media_step.next st1 pl cl) :
    ((legacy_osrtp_accept (sdp_streams_current env buf session media st) st.streams has_prev
        (sdp_streams_before_codecs env buf session media st).2 (st.num + 1)).discard = true ∧
      cl = true) ∨
    ((legacy_osrtp_accept (sdp_streams_current env buf session media st) st.streams has_prev
        (sdp_streams_before_codecs env buf session media st).2 (st.num + 1)).discard = false ∧
      sdp_streams_finish env buf session media
        { streams := (legacy_osrtp_accept (sdp_streams_current env buf session media st)
            st.streams has_prev (sdp_streams_before_codecs env buf session media st).2
            (st.num + 1)).streams,
          flags := (sdp_streams_before_codecs env buf session media st).2,
          num := (legacy_osrtp_accept (sdp_streams_current env buf session media st)
            st.streams has_prev (sdp_streams_before_codecs env buf session media st).2
            (st.num + 1)).num }
        (legacy_osrtp_accept (sdp_streams_current env buf session media st) st.streams has_prev
          (sdp_streams_before_codecs env buf session media st).2 (st.num + 1)).sp
        (legacy_osrtp_accept (sdp_streams_current env buf session media st) st.streams has_prev
          (sdp_streams_before_codecs env buf session media st).2 (st.num + 1)).prev_legacy
        = media_step.next st1 pl cl) := by
  unfold sdp_streams_media at h
  simp only at h
  by_cases h1 : (sdp_streams_endpoint env session media st.flags).1 = 0
  · rw [if_neg (by simpa using h1)] at h
    by_cases h2 : (__rtp_payload_types env buf
        (sdp_streams_before_codecs env buf session media st).1 media).1 = 0
    · rw [if_neg (by simpa using h2)] at h
      obtain ⟨_, _, l3⟩ := legacy_osrtp_accept_frame
        (sdp_streams_security env buf session media
          (__rtp_payload_types env buf (sdp_streams_before_codecs env buf session media st).1
            media).2) st.streams has_prev
        (sdp_streams_before_codecs env buf session media st).2 (st.num + 1)
      unfold sdp_streams_current
      split at h
      · rename_i hd
        injection h with e1 e2 e3
        rw [l3 hd] at e3
        exact Or.inl ⟨hd, e3.symm⟩
      · rename_i hd
        exact Or.inr ⟨by simpa using hd, h⟩
    · rw [if_pos (by simpa using h2)] at h
      injection h
  · rw [if_pos (by simpa using h1)] at h
    injection h

/-- C13 (as amended).  Under `osrtp_accept_legacy`, when the media loop of
`sdp_streams` comes to a media that has a media before it in its session, the
stream at the tail of the queue being plain RTP (`last`), the stream of the
current media being SRTP of the same media type with an endpoint port that is
not zero, and the turn does not end in an error: the prior stream is dropped
from the queue and the current one is pushed in its place, tagged
LEGACY_OSRTP, with its index and the media counter decremented (so that the
stream carries the counter value the turn started with, which is the index of
the dropped stream when that carried it); the `legacy_osrtp` mark is set on
the previous `sdp_media`, the one whose stream was dropped, and not on the
current one. -/
theorem c13_legacy_osrtp (env : Env) (buf : List Char) (session : sdp_session)
    (media : sdp_media) (st st1 : streams_state) (pl cl : Bool)
    (pre : List stream_params) (last : stream_params) (spp lastp : transport_protocol)
    (hflag : st.flags.osrtp_accept_legacy = true)
    (hstreams : st.streams = pre ++ [last])
    (hp1 : (sdp_streams_current env buf session media st).protocol = some spp)
    (hp2 : last.protocol = some lastp)
    (ht : media.media_type_id = last.type_id)
    (h1 : spp.rtp = true) (h2 : lastp.rtp = true)
    (h3 : spp.srtp = true) (h4 : lastp.srtp = false)
    (hport : (sdp_streams_endpoint env session media st.flags).2.1.port ≠ 0)
    (h : sdp_streams_media env buf session true media st = media_step.next st1 pl cl) :
    (∃ x, st1.streams = pre ++ [x] ∧ x.sp_flags.LEGACY_OSRTP = true ∧ x.index = st.num ∧
      (last.index = st.num → x.index = last.index)) ∧
    st1.num = st.num ∧ pl = true ∧ cl = false ∧
    ∀ seen rest, seen ≠ [] →
      sdp_streams_media_loop env buf session seen (media :: rest) st
        = sdp_streams_media_loop env buf session (mark_legacy_last seen ++ [media]) rest st1 := by
  obtain ⟨f1, f2, f3⟩ := sdp_streams_current_fields env buf session media st
  have hfwd := legacy_osrtp_accept_forward (sdp_streams_current env buf session media st) pre last
    (sdp_streams_before_codecs env buf session media st).2 (st.num + 1) spp lastp
    (by rw [sdp_streams_before_codecs_osrtp]; exact hflag) hp1 hp2 (by rw [f1]; exact ht)
    h1 h2 h3 h4 (by rw [f3]; exact hport)
  rw [← hstreams] at hfwd
  have hstep := h
  rcases sdp_streams_media_cases env buf session true media st st1 pl cl h with ⟨hd, _⟩ | ⟨_, hfin⟩
  · rw [hfwd] at hd
    exact absurd hd (by simp)
  · rw [hfwd] at hfin
    obtain ⟨c1, c2, c3, x, x1, _, _, _, _, x6, x7⟩ :=
      sdp_streams_finish_flags _ _ _ _ _ _ _ _ _ _ hfin
    have hidx : x.index = st.num := by
      rw [x7]
      show (sdp_streams_current env buf session media st).index - 1 = st.num
      rw [f2]
      omega
    refine ⟨⟨x, x1, ?_, hidx, fun hl => by rw [hidx, hl]⟩, ?_, c2, c1, ?_⟩
    · rw [x6]
    · rw [c3]
      show st.num + 1 - 1 = st.num
      omega
    · intro seen rest hseen
      have hne : (!seen.isEmpty) = true := by
        cases seen with
        | nil => exact absurd rfl hseen
        | cons a l => rfl
      rw [sdp_streams_media_loop, hne, hstep, c1, c2]
      simp

/-- C13 on a body with an `RTP/AVP` audio section followed by an `RTP/SAVP`
audio section: the turn on the second media leaves one stream in the queue,
tagged LEGACY_OSRTP, with index 1, and marks the previous media. -/
theorem c13_legacy_osrtp_witness :
    (media_step_state (demo_turn demo_osrtp_body
      { trust_address := true, osrtp_accept_legacy := true })).streams.map
        (fun sp => sp.protocol.map (fun p => (p.rtp, p.srtp))) = [some (true, false)] ∧
    (sdp_streams_current demo_env demo_osrtp_body (demo_session_of demo_osrtp_body)
      (demo_media2_of demo_osrtp_body)
      (media_step_state (demo_turn demo_osrtp_body
        { trust_address := true, osrtp_accept_legacy := true }))).protocol.map
          (fun p => (p.rtp, p.srtp)) = some (true, true) ∧
    (∃ x, media_step_streams (demo_turn2 demo_osrtp_body
        { trust_address := true, osrtp_accept_legacy := true }) = [] ++ [x] ∧
      x.sp_flags.LEGACY_OSRTP = true ∧ x.index = 1) :=
  with_facts7 (fun fact1 fact2 fact3 fact4 fact5 fact6 fact7 =>
    ⟨fact1, fact2,
     (c13_legacy_osrtp demo_env demo_osrtp_body (demo_session_of demo_osrtp_body)
        (demo_media2_of demo_osrtp_body)
        (media_step_state (demo_turn demo_osrtp_body
          { trust_address := true, osrtp_accept_legacy := true })) _ _ _
        []
        ((media_step_state (demo_turn demo_osrtp_body
          { trust_address := true, osrtp_accept_legacy := true })).streams.headD {})
        { name := "RTP/SAVP".toList, rtp := true, srtp := true, rtp_proto := 1 }
        { name := "RTP/AVP".toList, rtp := true, osrtp_proto := 2 }
        rfl (fact3) (fact4) (fact5) (fact6) rfl rfl rfl rfl (fact7)
        rfl).1.elim
      (fun x hx => ⟨x, hx.1, hx.2.1, hx.2.2.1⟩)⟩) (by decide!)

/-- C13 as stated fails.  On this body, under `osrtp_accept_legacy`, extraction
succeeds with the SRTP stream as the only stream, tagged LEGACY_OSRTP and with
index 1, but the `legacy_osrtp` mark is on the `RTP/AVP` media, whose stream
was dropped, and the current (`RTP/SAVP`) media is not marked. -/
theorem c13_counterexample :
    (sdp_streams demo_env demo_osrtp_body (demo_sessions demo_osrtp_body) []
        { trust_address := true, osrtp_accept_legacy := true }).ret = 0 ∧
    (sdp_streams demo_env demo_osrtp_body (demo_sessions demo_osrtp_body) []
        { trust_address := true, osrtp_accept_legacy := true }).streams.map
          (fun sp => (sp.protocol.map (fun p => p.name), sp.sp_flags.LEGACY_OSRTP, sp.index))
      = [(some "RTP/SAVP".toList, true, 1)] ∧
    (sdp_streams demo_env demo_osrtp_body (demo_sessions demo_osrtp_body) []
        { trust_address := true, osrtp_accept_legacy := true }).sessions.map
          (fun s => s.media_streams.map
            (fun m => (str_bytes demo_osrtp_body m.transport, m.legacy_osrtp)))
      = [[("RTP/AVP".toList, true), ("RTP/SAVP".toList, false)]] :=
  with_facts3 (fun fact1 fact2 fact3 =>
    ⟨fact1, fact2, fact3⟩) (by decide!)

/-! ## The `m=` line: format list and port count -/

/-- C14 (as amended).  `replace_codec_list` copies the input up to the formats
field of the `m=` line, drops the field and puts in its place what
`print_codec_list` prints for the call media: if the call media's protocol is
RTP and its codec store is not empty, the payload type numbers of the codec
store (each printed with `%u`) in codec-preference order, separated by single
spaces; if the protocol is RTP and the codec store is empty, nothing (the
field is left empty); if the protocol is not RTP, the format string stored in
the call media (nothing if it has none).  The formats field of the original
line is not passed through in any case. -/
theorem c14_format_list (env : Env) (chop : sdp_chopper) (m : sdp_media) (cm : call_media)
    (p : Nat) (hp : m.formats.s = some p) (hpos : chop.position ≤ p) :
    replace_codec_list env chop m cm = (0, { chop with
      output := chop.output ++ bytes_at chop.input chop.position (p - chop.position) ++
        print_codec_list env cm,
      position := p + m.formats.len }) ∧
    (env.proto_is_rtp cm.protocol = true → cm.codec_prefs ≠ [] →
      print_codec_list env cm = [' '].intercalate
        (cm.codec_prefs.map (fun pt => Nat.toDigits 10 (to_uint32 pt.payload_type)))) ∧
    (env.proto_is_rtp cm.protocol = true → cm.codec_prefs = [] →
      print_codec_list env cm = []) ∧
    (env.proto_is_rtp cm.protocol = false →
      print_codec_list env cm = cm.format_str.getD []) := by
  refine ⟨?_, ?_, ?_, ?_⟩
  · obtain ⟨e1, e2⟩ := copy_skip_ok chop m.formats p hp hpos
    unfold replace_codec_list
    simp only [e1, e2, ne_eq, not_true_eq_false, if_false, chopper_append]
  · intro h1 h2
    unfold print_codec_list
    have hlen : ¬ (cm.codec_prefs.length = 0) := by
      intro h
      exact h2 (List.length_eq_zero.mp h)
    simp only [h1, Bool.not_true, Bool.false_eq_true, if_false, hlen, print_uint]
  · intro h1 h2
    unfold print_codec_list
    simp [h1, h2]
  · intro h1
    unfold print_codec_list print_format_str
    simp [h1]

/-- C14 on the `m=` line of `demo_body` against the call media that mirrors
it: the formats field is replaced by `0 8`, the payload types of the codec
store. -/
theorem c14_format_list_witness :
    demo_media.formats.s = some 118 ∧
    (replace_codec_list demo_env { input := demo_body, input_len := demo_body.length }
      demo_media (((demo_mirror demo_body).medias.headD none).getD {})).2.output
      = bytes_at demo_body 0 118 ++ "0 8".toList :=
  with_facts3 (fun fact1 fact2 fact3 =>
    ⟨fact1,
     (congrArg (fun r => r.2.output)
       (c14_format_list demo_env { input := demo_body, input_len := demo_body.length } demo_media
         (((demo_mirror demo_body).medias.headD none).getD {}) 118 (fact2) (by decide)).1).trans
       (fact3)⟩) (by decide!)

/-- C14 as stated fails.  Against a call media whose protocol is RTP and whose
codec store is empty, the formats field `0 8` of the `m=` line of `demo_body`
is not passed through: the rewritten line has an empty formats field.  And
against a call media whose protocol is unknown (not RTP), the field is
replaced by the format string stored in the call media, here `t38`. -/
theorem c14_counterexample :
    str_bytes demo_body demo_media.formats = "0 8".toList ∧
    demo_env.proto_is_rtp (some { name := "RTP/AVP".toList, rtp := true }) = true ∧
    (replace_codec_list demo_env { input := demo_body, input_len := demo_body.length }
      demo_media { protocol := some { name := "RTP/AVP".toList, rtp := true } }).2.output
        ++ bytes_at demo_body 121 2
      = bytes_at demo_body 0 118 ++ "\r\n".toList ∧
    (replace_codec_list demo_env { input := demo_body, input_len := demo_body.length }
      demo_media { protocol := none, format_str := some "t38".toList }).2.output
      = bytes_at demo_body 0 118 ++ "t38".toList :=
  with_facts4 (fun fact1 fact2 fact3 fact4 =>
    ⟨fact1, fact2, fact3, fact4⟩) (by decide!)

/-- The loop of `replace_consecutive_port_count`.  When it has a result, the
count is between the one it starts with and the port count, and it is the port
count exactly when the streams it walks over are there, have a selected socket
and have consecutive ports.  It has no result exactly when, before any
mismatch, it comes to a stream that has no selected socket. -/
theorem consecutive_ports_spec (port_count : Int) (base : Nat) :
    ∀ (l : List packet_stream) (cons : Int), cons ≤ port_count →
      (∀ k, consecutive_ports port_count base cons l = some k →
        cons ≤ k ∧ k ≤ port_count ∧
        (k = port_count ↔
          ∀ d : Nat, cons + (d : Int) < port_count →
            ∃ ps_n sfd, l[d]? = some ps_n ∧ ps_n.selected_sfd = some sfd ∧
              (sfd.local_port : Int) = (base : Int) + cons + d)) ∧
      (consecutive_ports port_count base cons l = none ↔
        ∃ (d : Nat) (ps_n : packet_stream), cons + (d : Int) < port_count ∧
          l[d]? = some ps_n ∧ ps_n.selected_sfd = none ∧
          ∀ i : Nat, i < d → ∃ q sfd, l[i]? = some q ∧ q.selected_sfd = some sfd ∧
            (sfd.local_port : Int) = (base : Int) + cons + i) := by
  intro l
  induction l with
  | nil =>
    intro cons hc
    unfold consecutive_ports
    constructor
    · intro k hk
      injection hk with hk
      subst hk
      refine ⟨le_refl _, hc, ?_⟩
      constructor
      · intro h d hd
        omega
      · intro h
        by_contra hne
        obtain ⟨q, sfd, h1, _⟩ := h 0 (by simp; omega)
        simp at h1
    · constructor
      · intro h
        simp at h
      · intro ⟨d, q, _, h1, _⟩
        simp at h1
  | cons ps_n rest ih =>
    intro cons hc
    unfold consecutive_ports
    by_cases hlt : cons < port_count
    · rw [if_pos hlt]
      cases hs : ps_n.selected_sfd with
      | none =>
        simp only
        constructor
        · intro k hk
          simp at hk
        · constructor
          · intro _
            exact ⟨0, ps_n, by simp; omega, by simp, hs, by intro i hi; omega⟩
          · intro _
            trivial
      | some sfd =>
        simp only
        by_cases hport : (sfd.local_port : Int) ≠ (base : Int) + cons
        · rw [if_pos hport]
          constructor
          · intro k hk
            injection hk with hk
            subst hk
            refine ⟨le_refl _, hc, ?_⟩
            constructor
            · intro h
              omega
            · intro h
              obtain ⟨q, sfd1, h1, h2, h3⟩ := h 0 (by simp; omega)
              simp only [List.getElem?_cons_zero, Option.some.injEq] at h1
              subst h1
              rw [hs] at h2
              injection h2 with h2
              subst h2
              simp only [Nat.cast_zero, add_zero] at h3
              exact absurd h3 hport
          · constructor
            · intro h
              simp at h
            · intro ⟨d, q, _, h1, h2, h3⟩
              cases d with
              | zero =>
                simp only [List.getElem?_cons_zero, Option.some.injEq] at h1
                subst h1
                rw [hs] at h2
                simp at h2
              | succ d =>
                obtain ⟨q1, sfd1, g1, g2, g3⟩ := h3 0 (by omega)
                simp only [List.getElem?_cons_zero, Option.some.injEq] at g1
                subst g1
                rw [hs] at g2
                injection g2 with g2
                subst g2
                simp only [Nat.cast_zero, add_zero] at g3
                exact absurd g3 hport
        · rw [if_neg hport]
          simp only [ne_eq, not_not] at hport
          obtain ⟨i1, i2⟩ := ih (cons + 1) (by omega)
          constructor
          · intro k hk
            obtain ⟨j1, j2, j3⟩ := i1 k hk
            refine ⟨by omega, j2, ?_⟩
            rw [j3]
            constructor
            · intro h d hd
              cases d with
              | zero =>
                refine ⟨ps_n, sfd, by simp, hs, ?_⟩
                simp only [Nat.cast_zero, add_zero]
                exact hport
              | succ d =>
                obtain ⟨q, sfd1, h1, h2, h3⟩ := h d (by push_cast at hd; omega)
                refine ⟨q, sfd1, by simpa using h1, h2, ?_⟩
                rw [h3]
                push_cast
                ring
            · intro h d hd
              obtain ⟨q, sfd1, h1, h2, h3⟩ := h (d + 1) (by push_cast; omega)
              refine ⟨q, sfd1, by simpa using h1, h2, ?_⟩
              rw [h3]
              push_cast
              ring
          · rw [i2]
            constructor
            · intro ⟨d, q, h0, h1, h2, h3⟩
              refine ⟨d + 1, q, by push_cast; omega, by simpa using h1, h2, ?_⟩
              intro i hi
              cases i with
              | zero =>
                refine ⟨ps_n, sfd, by simp, hs, ?_⟩
                simp only [Nat.cast_zero, add_zero]
                exact hport
              | succ i =>
                obtain ⟨q1, sfd1, g1, g2, g3⟩ := h3 i (by omega)
                refine ⟨q1, sfd1, by simpa using g1, g2, ?_⟩
                rw [g3]
                push_cast
                ring
            · intro ⟨d, q, h0, h1, h2, h3⟩
              cases d with
              | zero =>
                simp only [List.getElem?_cons_zero, Option.some.injEq] at h1
                subst h1
                rw [hs] at h2
                simp at h2
              | succ d =>
                refine ⟨d, q, by push_cast at h0; omega, by simpa using h1, h2, ?_⟩
                intro i hi
                obtain ⟨q1, sfd1, g1, g2, g3⟩ := h3 (i + 1) (by omega)
                refine ⟨q1, sfd1, by simpa using g1, g2, ?_⟩
                rw [g3]
                push_cast
                ring
    · rw [if_neg hlt]
      constructor
      · intro k hk
        injection hk with hk
        subst hk
        refine ⟨le_refl _, hc, ?_⟩
        constructor
        · intro h d hd
          omega
        · intro _
          omega
      · constructor
        · intro h
          simp at h
        · intro ⟨d, q, h0, _⟩
          omega

/-- C15 (as amended).  For every `m=` line with a port count N greater than 1
whose port token starts at or after the read position of the chopper.
`replace_media_port` copies the input up to the port token and puts the local
port of the first packet stream (0 when it has no selected socket) in the
place of the token, unless the parsed port number is 0: then it copies and
replaces nothing.  After it `replace_consecutive_port_count` appends nothing
when the first packet stream has no selected socket; otherwise it appends a
suffix `/k`, where k is the number of consecutive ports found, between 1 and
N, and k is N if and only if the N-1 packet streams after the first exist, have
a selected socket and the d-th of them has as local port the port of the first
plus d (so where the ports of the call are not consecutive the suffix is still
written, with the smaller count); and it has no result, a NULL pointer being
dereferenced, exactly when the loop comes to a packet stream without a
selected socket before it finds a mismatch.  So, when the count loop has the
result k, the two functions one after the other put the local port of the
first stream and the suffix `/k` in the place of the port token of the `m=`
line (the token holds the port and the count of the input); with the port
number 0 they leave the token to be copied as it is and put the suffix at the
read position, in front of it. -/
theorem c15_consecutive_port_count (chop : sdp_chopper) (m : sdp_media) (ps : packet_stream)
    (j : List packet_stream) (p : Nat)
    (hN : 1 < m.port_count) (hp : m.port.s = some p) (hpos : chop.position ≤ p) :
    replace_media_port chop m ps =
      (0, if m.port_num = 0 then chop
          else { chop with
            output := chop.output ++ bytes_at chop.input chop.position (p - chop.position) ++
              print_uint ((ps.selected_sfd.map (fun sfd => sfd.local_port)).getD 0),
            position := p + m.port.len }) ∧
    (ps.selected_sfd = none →
      ∀ c1, replace_consecutive_port_count c1 m ps j = some (0, c1)) ∧
    (∀ sfd, ps.selected_sfd = some sfd →
      (∀ c1, replace_consecutive_port_count c1 m ps j =
        (consecutive_ports m.port_count sfd.local_port 1 j.tail).map
          (fun k => (0, { c1 with output := c1.output ++ '/' :: print_int k }))) ∧
      (∀ k, consecutive_ports m.port_count sfd.local_port 1 j.tail = some k →
        1 ≤ k ∧ k ≤ m.port_count ∧
        (k = m.port_count ↔
          ∀ d : Nat, 1 + (d : Int) < m.port_count →
            ∃ ps_n s, j.tail[d]? = some ps_n ∧ ps_n.selected_sfd = some s ∧
              (s.local_port : Int) = (sfd.local_port : Int) + 1 + d)) ∧
      (consecutive_ports m.port_count sfd.local_port 1 j.tail = none ↔
        ∃ (d : Nat) (ps_n : packet_stream), 1 + (d : Int) < m.port_count ∧
          j.tail[d]? = some ps_n ∧ ps_n.selected_sfd = none ∧
          ∀ i : Nat, i < d → ∃ q s, j.tail[i]? = some q ∧ q.selected_sfd = some s ∧
            (s.local_port : Int) = (sfd.local_port : Int) + 1 + i)) ∧
    (∀ sfd k, ps.selected_sfd = some sfd →
      consecutive_ports m.port_count sfd.local_port 1 j.tail = some k →
      replace_consecutive_port_count (replace_media_port chop m ps).2 m ps j =
        some (0, if m.port_num = 0 then { chop with output := chop.output ++ '/' :: print_int k }
          else { chop with
            output := chop.output ++ bytes_at chop.input chop.position (p - chop.position) ++
              print_uint sfd.local_port ++ '/' :: print_int k,
            position := p + m.port.len })) := by
  have h1 : m.port_count ≠ 1 := by omega
  have hA : replace_media_port chop m ps =
      (0, if m.port_num = 0 then chop
          else { chop with
            output := chop.output ++ bytes_at chop.input chop.position (p - chop.position) ++
              print_uint ((ps.selected_sfd.map (fun sfd => sfd.local_port)).getD 0),
            position := p + m.port.len }) := by
    unfold replace_media_port
    by_cases h0 : m.port_num = 0
    · rw [if_pos h0, if_pos h0]
    · rw [if_neg h0, if_neg h0]
      cases hs : ps.selected_sfd with
      | none =>
        obtain ⟨e1, e2⟩ := edit_ok chop m.port p hp hpos (print_uint 0)
        simp only [e1, e2, ne_eq, not_true_eq_false, if_false, Option.map_none',
          Option.getD_none]
      | some sfd =>
        obtain ⟨e1, e2⟩ := edit_ok chop m.port p hp hpos (print_uint sfd.local_port)
        simp only [e1, e2, ne_eq, not_true_eq_false, if_false, Option.map_some',
          Option.getD_some]
  have hC : ∀ sfd, ps.selected_sfd = some sfd →
      ∀ c1, replace_consecutive_port_count c1 m ps j =
        (consecutive_ports m.port_count sfd.local_port 1 j.tail).map
          (fun k => (0, { c1 with output := c1.output ++ '/' :: print_int k })) := by
    intro sfd hs c1
    unfold replace_consecutive_port_count
    rw [if_neg h1, hs]
    simp only
    cases consecutive_ports m.port_count sfd.local_port 1 j.tail with
    | none => rfl
    | some k => rfl
  refine ⟨hA, ?_, ?_, ?_⟩
  · intro hs c1
    unfold replace_consecutive_port_count
    rw [if_neg h1, hs]
  · intro sfd hs
    obtain ⟨i1, i2⟩ := consecutive_ports_spec m.port_count sfd.local_port j.tail 1 (by omega)
    exact ⟨hC sfd hs, i1, i2⟩
  · intro sfd k hs hk
    rw [hA, hC sfd hs, hk]
    by_cases h0 : m.port_num = 0
    · simp only [if_pos h0, Option.map_some']
    · simp only [if_neg h0, Option.map_some', hs, Option.getD_some]

/-- C15 on the `m=` line `m=audio 5000/2 RTP/AVP 0` with the port token at
offset 8, against two packet streams on the ports 7000 and 7001: the token is
replaced by `7000` and the suffix written is `/2`. -/
theorem c15_consecutive_port_count_witness :
    (1 : Int) < demo_count_media.port_count ∧
    replace_media_port { input := demo_count_line, input_len := 26 } demo_count_media
        { selected_sfd := some { local_port := 7000 } }
      = (0, { input := demo_count_line, input_len := 26, output := "m=audio 7000".toList,
              position := 14 }) ∧
    replace_consecutive_port_count
        (replace_media_port { input := demo_count_line, input_len := 26 } demo_count_media
          { selected_sfd := some { local_port := 7000 } }).2
        demo_count_media { selected_sfd := some { local_port := 7000 } }
        [{ selected_sfd := some { local_port := 7000 } },
         { selected_sfd := some { local_port := 7001 } }]
      = some (0, { input := demo_count_line, input_len := 26,
                   output := "m=audio 7000/2".toList, position := 14 }) :=
  have h := c15_consecutive_port_count { input := demo_count_line, input_len := 26 }
    demo_count_media { selected_sfd := some { local_port := 7000 } }
    [{ selected_sfd := some { local_port := 7000 } },
     { selected_sfd := some { local_port := 7001 } }] 8 (by decide) rfl (by decide)
  ⟨by decide, h.1.trans (by decide),
   (h.2.2.2 { local_port := 7000 } 2 rfl (by decide)).trans (by decide)⟩

/-- C15 as stated fails.  The `m=` line of the first body asks for two ports;
the call has the local ports 7000 and 9000, which are not consecutive.  The
rewritten `m=` line still carries a port count suffix, `/1`.  For an `m=`
line with the port number 0 and two ports asked for, the port token is not
replaced and the suffix is appended at the read position, here behind the
media type.  And against a second packet stream without a selected socket
the count loop has no result. -/
theorem c15_counterexample :
    (demo_sessions demo_ports_body).map (fun s => s.media_streams.map (fun m => m.port_count))
      = [[2]] ∧
    (sdp_replace demo_env { input := demo_ports_body, input_len := demo_ports_body.length }
      (demo_sessions demo_ports_body) (demo_ports_call demo_ports_body 7000 9000) {}).ret = 0 ∧
    (sdp_replace demo_env { input := demo_ports_body, input_len := demo_ports_body.length }
      (demo_sessions demo_ports_body) (demo_ports_call demo_ports_body 7000 9000) {}).chop.output
      = ("v=0\r\nc=IN IP4 1.2.3.4\r\nm=audio 7000/1 RTP/AVP 0\r\n" ++
         "a=rtpmap:0 PCMU/8000\r\na=sendrecv\r\n").toList ∧
    replace_media_port
        { input := "m=audio 0/2 RTP/AVP 0\r\n".toList, input_len := 23,
          output := "m=audio".toList, position := 7 }
        demo_count_zero { selected_sfd := some { local_port := 7000 } }
      = (0, { input := "m=audio 0/2 RTP/AVP 0\r\n".toList, input_len := 23,
              output := "m=audio".toList, position := 7 }) ∧
    replace_consecutive_port_count
        { input := "m=audio 0/2 RTP/AVP 0\r\n".toList, input_len := 23,
          output := "m=audio".toList, position := 7 }
        demo_count_zero { selected_sfd := some { local_port := 7000 } }
        [{ selected_sfd := some { local_port := 7000 } },
         { selected_sfd := some { local_port := 7001 } }]
      = some (0, { input := "m=audio 0/2 RTP/AVP 0\r\n".toList, input_len := 23,
                   output := "m=audio/2".toList, position := 7 }) ∧
    replace_consecutive_port_count { input := [], input_len := 0 } { port_count := 2 }
        { selected_sfd := some { local_port := 7000 } }
        [{ selected_sfd := some { local_port := 7000 } }, { selected_sfd := none }]
      = none :=
  with_facts6 (fun fact1 fact2 fact3 fact4 fact5 fact6 =>
    ⟨fact1, fact2, fact3, fact4, fact5, fact6⟩) (by decide!)

/-! ## Attributes that the rewriter always strips -/

theorem attrs_within_mem {lo hi : Nat} {l : List sdp_attribute} (h : attrs_within lo hi l)
    {a : sdp_attribute} (ha : a ∈ l) :
    ∃ p, a.full_line.s = some p ∧ lo ≤ p ∧ p + a.full_line.len ≤ hi := by
  induction l generalizing lo with
  | nil => cases ha
  | cons b rest ih =>
    obtain ⟨p, hp, hlo, hlen, hr⟩ := h
    rcases List.mem_cons.mp ha with rfl | hm
    · exact ⟨p, hp, hlo, attrs_within_le hr⟩
    · obtain ⟨q, hq, h1, h2⟩ := ih hr hm
      exact ⟨q, hq, by omega, h2⟩

/-- Inside the full line of a stripped attribute of a list laid out in input
order, the expected rewriting emits nothing: neither a replacement nor the
bytes of the line. -/
theorem expected_at_stripped (edit : sdp_attribute → Option (List Char)) (buf : List Char) :
    ∀ (l : List sdp_attribute) (lo hi : Nat), attrs_within lo hi l →
      ∀ a ∈ l, edit a = some [] → ∀ p, a.full_line.s = some p →
        ∀ i, p ≤ i → i < p + a.full_line.len → expected_at edit buf l i = [] := by
  intro l
  induction l with
  | nil => intro lo hi _ a ha; cases ha
  | cons b rest ih =>
    intro lo hi h a ha he p hp i h1 h2
    obtain ⟨pb, hpb, hlo, hlen, hr⟩ := h
    rcases List.mem_cons.mp ha with rfl | hm
    · rw [hp] at hpb
      injection hpb with hpb
      subst hpb
      rw [expected_at_inside edit buf a rest i p hi [] hp he hr h1 h2]
      split <;> rfl
    · obtain ⟨q, hq, hq1, _⟩ := attrs_within_mem hr hm
      rw [hp] at hq
      injection hq with hq
      subst hq
      rw [expected_at_cons_skip edit buf b rest i pb hpb (Or.inr (Or.inr (by omega))) hlen]
      exact ih _ hi hr a hm he p hp i h1 h2

/-- The decision of `process_media_attributes` for an attribute tagged IGNORE,
end-of-candidates, mid or OTHER, and for a directional attribute when
`original_sendrecv` is unset: strip, whatever the flags, the call media and
the manipulation directives are. -/
theorem media_attr_action_strip (flags : sdp_ng_flags) (cm : call_media) (m : sdp_media)
    (buf : List Char) (a : sdp_attribute)
    (htag : a.attr = attr_id.ATTR_IGNORE ∨ a.attr = attr_id.ATTR_END_OF_CANDIDATES ∨
      a.attr = attr_id.ATTR_MID ∨ a.attr = attr_id.ATTR_OTHER ∨
      ((a.attr = attr_id.ATTR_SENDRECV ∨ a.attr = attr_id.ATTR_SENDONLY ∨
        a.attr = attr_id.ATTR_RECVONLY ∨ a.attr = attr_id.ATTR_INACTIVE) ∧
       flags.original_sendrecv = false)) :
    media_attr_action flags cm m buf a = attr_action.strip := by
  have hsw : media_attr_switch flags cm buf a = true := by
    unfold media_attr_switch
    rcases htag with h | h | h | h | ⟨h | h | h | h, ho⟩ <;> rw [h] <;> simp [ho]
  unfold media_attr_action
  split
  · rfl
  · simp only [hsw, if_true]

theorem sdp_manipulate_remove_iff (sm : Option sdp_manipulations) (x : List Char) :
    sdp_manipulate_remove sm x = true ↔
      ∃ m ht, sm = some m ∧ m.rem_commands = some ht ∧ x ≠ [] ∧
        ∃ k ∈ ht, str_case_eq k x = true := by
  unfold sdp_manipulate_remove
  cases sm with
  | none => simp
  | some m =>
    simp only
    cases hx : x with
    | nil => simp
    | cons c cs =>
      simp only [List.isEmpty_cons, Bool.false_eq_true, if_false]
      cases hr : m.rem_commands with
      | none => simp [hr]
      | some ht => simp [hr, List.any_eq_true]

/-- C18 (as amended).  `sdp_manipulations_subst_attr` returns the replacement
registered for the attribute's key if there is one, else the one registered for
its name, else the one registered for its full line value, else none, where the
replacement registered for a string is the value of the first entry of the
substitute map whose key equals the string up to case (none when there are no
directives or no map).  `sdp_manipulate_remove_attr` reports removal if and
only if the remove set contains, up to case, the attribute's key, its name or
its full line value, an empty key, name or line value never counting as
contained. -/
theorem c18_manipulation_lookup (sm : Option sdp_manipulations) (buf : List Char)
    (attr : sdp_attribute) :
    sdp_manipulations_subst_attr sm buf attr
      = ((sdp_manipulations_subst sm (str_bytes buf attr.strs.key)).orElse fun _ =>
          (sdp_manipulations_subst sm (str_bytes buf attr.strs.name)).orElse fun _ =>
            sdp_manipulations_subst sm (str_bytes buf attr.strs.line_value)) ∧
    (∀ x, sdp_manipulations_subst sm x
      = (sm.bind (fun m => m.subst_commands)).bind (fun ht =>
          (ht.find? (fun kv => str_case_eq kv.1 x)).map (fun kv => kv.2))) ∧
    (sdp_manipulate_remove_attr sm buf attr = true ↔
      ∃ m ht, sm = some m ∧ m.rem_commands = some ht ∧
        ∃ x ∈ [str_bytes buf attr.strs.key, str_bytes buf attr.strs.name,
               str_bytes buf attr.strs.line_value],
          x ≠ [] ∧ ∃ k ∈ ht, str_case_eq k x = true) := by
  refine ⟨?_, ?_, ?_⟩
  · unfold sdp_manipulations_subst_attr
    cases sdp_manipulations_subst sm (str_bytes buf attr.strs.key) with
    | some v => rfl
    | none =>
      cases sdp_manipulations_subst sm (str_bytes buf attr.strs.name) with
      | some v => rfl
      | none => rfl
  · intro x
    unfold sdp_manipulations_subst
    cases sm with
    | none => rfl
    | some m =>
      simp only [Option.some_bind]
      cases m.subst_commands with
      | none => rfl
      | some ht =>
        simp only [Option.some_bind]
        induction ht with
        | nil => rfl
        | cons kv rest ih =>
          obtain ⟨k, v⟩ := kv
          unfold str_case_lookup
          rw [List.find?_cons]
          cases hk : str_case_eq k x with
          | true => simp
          | false => simpa using ih
  · unfold sdp_manipulate_remove_attr
    constructor
    · intro h
      by_cases h1 : sdp_manipulate_remove sm (str_bytes buf attr.strs.key) = true
      · obtain ⟨m, ht, a1, a2, a3, a4⟩ := (sdp_manipulate_remove_iff sm _).mp h1
        exact ⟨m, ht, a1, a2, _, by simp, a3, a4⟩
      · by_cases h2 : sdp_manipulate_remove sm (str_bytes buf attr.strs.name) = true
        · obtain ⟨m, ht, a1, a2, a3, a4⟩ := (sdp_manipulate_remove_iff sm _).mp h2
          exact ⟨m, ht, a1, a2, _, by simp, a3, a4⟩
        · by_cases h3 : sdp_manipulate_remove sm (str_bytes buf attr.strs.line_value) = true
          · obtain ⟨m, ht, a1, a2, a3, a4⟩ := (sdp_manipulate_remove_iff sm _).mp h3
            exact ⟨m, ht, a1, a2, _, by simp, a3, a4⟩
          · simp [h1, h2, h3] at h
    · rintro ⟨m, ht, a1, a2, x, hx, a3, a4⟩
      have hr : sdp_manipulate_remove sm x = true :=
        (sdp_manipulate_remove_iff sm x).mpr ⟨m, ht, a1, a2, a3, a4⟩
      simp only [List.mem_cons, List.mem_singleton, List.not_mem_nil, or_false] at hx
      rcases hx with rfl | rfl | rfl
      · simp [hr]
      · by_cases h1 : sdp_manipulate_remove sm (str_bytes buf attr.strs.key) = true
        · simp [h1]
        · simp [h1, hr]
      · by_cases h1 : sdp_manipulate_remove sm (str_bytes buf attr.strs.key) = true
        · simp [h1]
        · by_cases h2 : sdp_manipulate_remove sm (str_bytes buf attr.strs.name) = true
          · simp [h1, h2]
          · simp [h1, h2, hr]

/-- C18 as stated fails.  The first attribute of this body is the line `a=`:
its key, its name and its full line value are empty.  A remove set that holds
the empty string contains all three, yet `sdp_manipulate_remove_attr` does not
report removal. -/
theorem c18_counterexample :
    (demo_sessions demo_empty_attr_body).map (fun s => s.attributes.list.map (fun a =>
        (str_bytes demo_empty_attr_body a.strs.key, str_bytes demo_empty_attr_body a.strs.name,
         str_bytes demo_empty_attr_body a.strs.line_value)))
      = [[([], [], []), ([], ['x'], ['x'])]] ∧
    ([[]] : List (List Char)).contains [] = true ∧
    (demo_sessions demo_empty_attr_body).map (fun s => s.attributes.list.map (fun a =>
        sdp_manipulate_remove_attr (some { rem_commands := some [[]] }) demo_empty_attr_body a))
      = [[false, false]] :=
  with_facts3 (fun fact1 fact2 fact3 =>
    ⟨fact1, fact2, fact3⟩) (by decide!)

theorem process_attrs_loop_congr (act1 act2 : sdp_attribute → attr_action) :
    ∀ (l : List sdp_attribute) (chop : sdp_chopper), (∀ a ∈ l, act1 a = act2 a) →
      process_attrs_loop act1 chop l = process_attrs_loop act2 chop l := by
  intro l
  induction l with
  | nil => intro chop _; rfl
  | cons a rest ih =>
    intro chop h
    rw [process_attrs_loop, process_attrs_loop, h a (List.mem_cons_self _ _)]
    split
    · rfl
    · exact ih _ (fun b hb => h b (List.mem_cons_of_mem _ hb))

/-- The removal test gives the same answer for two sets of directives that
answer alike on the attribute's key, name and full line value. -/
theorem sdp_manipulate_remove_attr_congr (sm1 sm2 : Option sdp_manipulations) (buf : List Char)
    (a : sdp_attribute)
    (h : ∀ x ∈ [str_bytes buf a.strs.key, str_bytes buf a.strs.name,
                str_bytes buf a.strs.line_value],
      sdp_manipulate_remove sm1 x = sdp_manipulate_remove sm2 x) :
    sdp_manipulate_remove_attr sm1 buf a = sdp_manipulate_remove_attr sm2 buf a := by
  unfold sdp_manipulate_remove_attr
  rw [h _ (by simp), h _ (by simp), h _ (by simp)]

theorem sdp_manipulations_subst_attr_congr (sm1 sm2 : Option sdp_manipulations) (buf : List Char)
    (a : sdp_attribute)
    (h : ∀ x, sdp_manipulations_subst sm1 x = sdp_manipulations_subst sm2 x) :
    sdp_manipulations_subst_attr sm1 buf a = sdp_manipulations_subst_attr sm2 buf a := by
  unfold sdp_manipulations_subst_attr
  rw [h, h, h]

/-- The two attribute decisions depend on the flags only through `ice_option`,
`original_sendrecv` and the directives of the level. -/
theorem attr_action_congr (flags1 flags2 : sdp_ng_flags) (cm : call_media) (m : sdp_media)
    (buf : List Char) (a : sdp_attribute)
    (hi : flags1.ice_option = flags2.ice_option)
    (ho : flags1.original_sendrecv = flags2.original_sendrecv)
    (hr : ∀ level, sdp_manipulate_remove_attr (flags1.sdp_manipulations level) buf a
      = sdp_manipulate_remove_attr (flags2.sdp_manipulations level) buf a)
    (hs : ∀ level, sdp_manipulations_subst_attr (flags1.sdp_manipulations level) buf a
      = sdp_manipulations_subst_attr (flags2.sdp_manipulations level) buf a) :
    session_attr_action flags1 buf a = session_attr_action flags2 buf a ∧
    media_attr_action flags1 cm m buf a = media_attr_action flags2 cm m buf a := by
  have h1 : session_attr_switch flags1 buf a = session_attr_switch flags2 buf a := by
    unfold session_attr_switch ice_strip
    rw [hi, ho]
  have h2 : media_attr_switch flags1 cm buf a = media_attr_switch flags2 cm buf a := by
    unfold media_attr_switch ice_strip
    rw [hi, ho]
  have h3 : media_attr_switch2 flags1 cm a = media_attr_switch2 flags2 cm a := by
    unfold media_attr_switch2
    rw [hi]
  constructor
  · unfold session_attr_action
    simp only [h1, hr MT_UNKNOWN, hs MT_UNKNOWN]
  · unfold media_attr_action
    simp only [h2, h3, hr m.media_type_id, hs m.media_type_id]

theorem with_remove_set_level (flags : sdp_ng_flags) (level : Nat)
    (rem : Option (List (List Char))) (id : Nat) :
    (with_remove_set flags level rem).sdp_manipulations id
      = if id = level then
          (flags.sdp_manipulations id).map (fun m => { m with rem_commands := rem })
        else flags.sdp_manipulations id := rfl

/-- Putting the remove set of a level to the empty set changes no decision on
an attribute that no entry of the set names. -/
theorem with_remove_set_actions (flags : sdp_ng_flags) (level : Nat) (cm : call_media)
    (m : sdp_media) (buf : List Char) (a : sdp_attribute)
    (hnone : ∀ sm ht, flags.sdp_manipulations level = some sm → sm.rem_commands = some ht →
      ∀ k ∈ ht, str_case_eq k (str_bytes buf a.strs.key) = false ∧
        str_case_eq k (str_bytes buf a.strs.name) = false ∧
        str_case_eq k (str_bytes buf a.strs.line_value) = false) :
    session_attr_action flags buf a
      = session_attr_action (with_remove_set flags level (some [])) buf a ∧
    media_attr_action flags cm m buf a
      = media_attr_action (with_remove_set flags level (some [])) cm m buf a := by
  apply attr_action_congr flags (with_remove_set flags level (some [])) cm m buf a rfl rfl
  · intro id
    rw [with_remove_set_level]
    by_cases hid : id = level
    · rw [if_pos hid]
      subst hid
      apply sdp_manipulate_remove_attr_congr
      intro x hx
      cases hsm : flags.sdp_manipulations id with
      | none => rfl
      | some sm =>
        have hl : sdp_manipulate_remove (some sm) x = false := by
          cases hb : sdp_manipulate_remove (some sm) x with
          | false => rfl
          | true =>
            obtain ⟨m1, ht, a1, a2, _, k, hk, a4⟩ := (sdp_manipulate_remove_iff _ _).mp hb
            injection a1 with a1
            subst a1
            obtain ⟨n1, n2, n3⟩ := hnone sm ht hsm a2 k hk
            simp only [List.mem_cons, List.mem_singleton, List.not_mem_nil, or_false] at hx
            rcases hx with rfl | rfl | rfl
            · rw [n1] at a4; exact absurd a4 (by simp)
            · rw [n2] at a4; exact absurd a4 (by simp)
            · rw [n3] at a4; exact absurd a4 (by simp)
        have hr : sdp_manipulate_remove
            (Option.map (fun m => { m with rem_commands := some [] }) (some sm)) x = false := by
          unfold sdp_manipulate_remove
          simp
        rw [hl, hr]
    · rw [if_neg hid]
  · intro id
    rw [with_remove_set_level]
    by_cases hid : id = level
    · rw [if_pos hid]
      apply sdp_manipulations_subst_attr_congr
      intro x
      cases flags.sdp_manipulations id with
      | none => rfl
      | some sm => rfl
    · rw [if_neg hid]

theorem register_remove_twice_actions (flags : sdp_ng_flags) (level : Nat) (name : List Char)
    (cm : call_media) (m : sdp_media) (buf : List Char) (a : sdp_attribute) :
    session_attr_action (register_remove (register_remove flags level name) level name) buf a
      = session_attr_action (register_remove flags level name) buf a ∧
    media_attr_action (register_remove (register_remove flags level name) level name) cm m buf a
      = media_attr_action (register_remove flags level name) cm m buf a := by
  apply attr_action_congr (register_remove (register_remove flags level name) level name)
    (register_remove flags level name) cm m buf a rfl rfl
  · intro id
    apply sdp_manipulate_remove_attr_congr
    intro x _
    show sdp_manipulate_remove
        (if id = level then some (register_remove_level
          (if id = level then some (register_remove_level (flags.sdp_manipulations id) name)
           else flags.sdp_manipulations id) name)
         else (if id = level then some (register_remove_level (flags.sdp_manipulations id) name)
           else flags.sdp_manipulations id)) x
      = sdp_manipulate_remove
        (if id = level then some (register_remove_level (flags.sdp_manipulations id) name)
         else flags.sdp_manipulations id) x
    by_cases hid : id = level
    · simp only [hid, if_true]
      unfold sdp_manipulate_remove register_remove_level
      cases flags.sdp_manipulations level with
      | none => simp
      | some sm => simp
    · simp only [hid, if_false]
  · intro id
    apply sdp_manipulations_subst_attr_congr
    intro x
    show sdp_manipulations_subst
        (if id = level then some (register_remove_level
          (if id = level then some (register_remove_level (flags.sdp_manipulations id) name)
           else flags.sdp_manipulations id) name)
         else (if id = level then some (register_remove_level (flags.sdp_manipulations id) name)
           else flags.sdp_manipulations id)) x
      = sdp_manipulations_subst
        (if id = level then some (register_remove_level (flags.sdp_manipulations id) name)
         else flags.sdp_manipulations id) x
    by_cases hid : id = level
    · simp only [hid, if_true]
      unfold sdp_manipulations_subst register_remove_level
      cases flags.sdp_manipulations level with
      | none => rfl
      | some sm => rfl
    · simp only [hid, if_false]

/-- C19.  For every attribute list and every flag set: if the remove set of the
applicable level (the global level for `process_session_attributes`, the media
type's level for `process_media_attributes`) has no entry equal, up to case, to
the key, the name or the full line value of any attribute of the list, then
both functions return the same code and chopper (so emit the same output) as
with the remove set put to the empty set; and with the same remove directive
registered twice they return the same as with the directive registered once. -/
theorem c19_remove_set_neutral (flags : sdp_ng_flags) (chop : sdp_chopper)
    (attrs : sdp_attributes) (sdp : sdp_media) (cm : call_media) (level : Nat)
    (name : List Char)
    (hsession : ∀ sm ht, flags.sdp_manipulations MT_UNKNOWN = some sm →
      sm.rem_commands = some ht → ∀ a ∈ attrs.list, ∀ k ∈ ht,
        str_case_eq k (str_bytes chop.input a.strs.key) = false ∧
        str_case_eq k (str_bytes chop.input a.strs.name) = false ∧
        str_case_eq k (str_bytes chop.input a.strs.line_value) = false)
    (hmedia : ∀ sm ht, flags.sdp_manipulations sdp.media_type_id = some sm →
      sm.rem_commands = some ht → ∀ a ∈ sdp.attributes.list, ∀ k ∈ ht,
        str_case_eq k (str_bytes chop.input a.strs.key) = false ∧
        str_case_eq k (str_bytes chop.input a.strs.name) = false ∧
        str_case_eq k (str_bytes chop.input a.strs.line_value) = false) :
    process_session_attributes chop attrs flags
      = process_session_attributes chop attrs (with_remove_set flags MT_UNKNOWN (some [])) ∧
    process_media_attributes chop sdp flags cm
      = process_media_attributes chop sdp (with_remove_set flags sdp.media_type_id (some [])) cm ∧
    process_session_attributes chop attrs (register_remove (register_remove flags level name)
        level name)
      = process_session_attributes chop attrs (register_remove flags level name) ∧
    process_media_attributes chop sdp (register_remove (register_remove flags level name)
        level name) cm
      = process_media_attributes chop sdp (register_remove flags level name) cm := by
  refine ⟨?_, ?_, ?_, ?_⟩
  · unfold process_session_attributes
    apply process_attrs_loop_congr
    intro a ha
    exact (with_remove_set_actions flags MT_UNKNOWN cm sdp chop.input a
      (fun sm ht h1 h2 k hk => hsession sm ht h1 h2 a ha k hk)).1
  · unfold process_media_attributes
    apply process_attrs_loop_congr
    intro a ha
    exact (with_remove_set_actions flags sdp.media_type_id cm sdp chop.input a
      (fun sm ht h1 h2 k hk => hmedia sm ht h1 h2 a ha k hk)).2
  · unfold process_session_attributes
    apply process_attrs_loop_congr
    intro a _
    exact (register_remove_twice_actions flags level name cm sdp chop.input a).1
  · unfold process_media_attributes
    apply process_attrs_loop_congr
    intro a _
    exact (register_remove_twice_actions flags level name cm sdp chop.input a).2

/-- C19 on the session and the media of `demo_body`, with a remove set that
names `zzz`, which no attribute of the body is called. -/
theorem c19_remove_set_neutral_witness :
    process_session_attributes { input := demo_body, input_len := demo_body.length }
        demo_session.attributes demo_remove_flags
      = process_session_attributes { input := demo_body, input_len := demo_body.length }
        demo_session.attributes (with_remove_set demo_remove_flags MT_UNKNOWN (some [])) ∧
    process_media_attributes { input := demo_body, input_len := demo_body.length }
        demo_media demo_remove_flags (((demo_mirror demo_body).medias.headD none).getD {})
      = process_media_attributes { input := demo_body, input_len := demo_body.length }
        demo_media (with_remove_set demo_remove_flags demo_media.media_type_id (some []))
        (((demo_mirror demo_body).medias.headD none).getD {}) :=
  with_facts2 (fun fact1 fact2 =>
    have h := c19_remove_set_neutral demo_remove_flags
      { input := demo_body, input_len := demo_body.length } demo_session.attributes demo_media
      (((demo_mirror demo_body).medias.headD none).getD {}) MT_UNKNOWN "zzz".toList
      (fun sm ht h1 h2 => by
        have e1 : sm = { rem_commands := some ["zzz".toList] } := by
          injection h1 with h1
          exact h1.symm
        subst e1
        have e2 : ht = ["zzz".toList] := by
          injection h2 with h2
          exact h2.symm
        subst e2
        exact fact1)
      (fun sm ht h1 h2 => by
        have e1 : sm = { rem_commands := some ["zzz".toList] } := by
          injection h1 with h1
          exact h1.symm
        subst e1
        have e2 : ht = ["zzz".toList] := by
          injection h2 with h2
          exact h2.symm
        subst e2
        exact fact2)
    ⟨h.1, h.2.1⟩) (by decide!)

/-! ## The version reconciler -/

/-- C20 (as amended).  For every monologue with a remembered origin whose
version number is N, `sdp_version_check` first stamps N into every session's
version string (`sdp_version_replace`).  Then, with `force_increase` unset: if
no previous output is cached it caches the stamped output and leaves N
unchanged; if the stamped output equals the cached output byte for byte it
changes neither N nor the cache.  In every other case, and whenever
`force_increase` is set, it sets the version number to N+1 modulo 2^64 (that
is exactly N+1 unless N is the largest 64-bit number, from which it wraps to
0), restamps every session with that number and replaces the cache with that
output.  After every call the cache holds the output of the call, so that of
two successive rewrites the second keeps the version when its stamped output
is identical to the first output, and increments it once when it differs. -/
theorem c20_version_check (chop : sdp_chopper) (sessions : List sdp_session)
    (monologue : call_monologue) (origin : monologue_origin) (force_increase : Bool)
    (ho : monologue.session_last_sdp_orig = some origin) :
    (force_increase = false → monologue.last_out_sdp = none →
      sdp_version_check chop sessions monologue force_increase
        = ((sdp_version_replace chop sessions origin).1,
           (sdp_version_replace chop sessions origin).2,
           { monologue with
             last_out_sdp := some (sdp_version_replace chop sessions origin).1.output })) ∧
    (force_increase = false →
      monologue.last_out_sdp = some (sdp_version_replace chop sessions origin).1.output →
      sdp_version_check chop sessions monologue force_increase
        = ((sdp_version_replace chop sessions origin).1,
           (sdp_version_replace chop sessions origin).2, monologue)) ∧
    ((force_increase = true ∨ ∃ last, monologue.last_out_sdp = some last ∧
        last ≠ (sdp_version_replace chop sessions origin).1.output) →
      sdp_version_check chop sessions monologue force_increase
        = ((sdp_version_replace (sdp_version_replace chop sessions origin).1
              (sdp_version_replace chop sessions origin).2
              { origin with version_num := (origin.version_num + 1) % 2 ^ 64 }).1,
           (sdp_version_replace (sdp_version_replace chop sessions origin).1
              (sdp_version_replace chop sessions origin).2
              { origin with version_num := (origin.version_num + 1) % 2 ^ 64 }).2,
           { monologue with
             session_last_sdp_orig :=
               some { origin with version_num := (origin.version_num + 1) % 2 ^ 64 },
             last_out_sdp := some (sdp_version_replace
               (sdp_version_replace chop sessions origin).1
               (sdp_version_replace chop sessions origin).2
               { origin with version_num := (origin.version_num + 1) % 2 ^ 64 }).1.output })) ∧
    (origin.version_num < 2 ^ 64 - 1 →
      (origin.version_num + 1) % 2 ^ 64 = origin.version_num + 1) ∧
    (sdp_version_check chop sessions monologue force_increase).2.2.last_out_sdp
      = some (sdp_version_check chop sessions monologue force_increase).1.output := by
  have hcase1 : force_increase = false → monologue.last_out_sdp = none →
      sdp_version_check chop sessions monologue force_increase
        = ((sdp_version_replace chop sessions origin).1,
           (sdp_version_replace chop sessions origin).2,
           { monologue with
             last_out_sdp := some (sdp_version_replace chop sessions origin).1.output }) := by
    intro hf hl
    unfold sdp_version_check
    rw [ho]
    simp [hf, hl]
  have hcase2 : force_increase = false →
      monologue.last_out_sdp = some (sdp_version_replace chop sessions origin).1.output →
      sdp_version_check chop sessions monologue force_increase
        = ((sdp_version_replace chop sessions origin).1,
           (sdp_version_replace chop sessions origin).2, monologue) := by
    intro hf hl
    unfold sdp_version_check
    rw [ho]
    simp [hf, hl]
  have hcase3 : (force_increase = true ∨ ∃ last, monologue.last_out_sdp = some last ∧
        last ≠ (sdp_version_replace chop sessions origin).1.output) →
      sdp_version_check chop sessions monologue force_increase
        = ((sdp_version_replace (sdp_version_replace chop sessions origin).1
              (sdp_version_replace chop sessions origin).2
              { origin with version_num := (origin.version_num + 1) % 2 ^ 64 }).1,
           (sdp_version_replace (sdp_version_replace chop sessions origin).1
              (sdp_version_replace chop sessions origin).2
              { origin with version_num := (origin.version_num + 1) % 2 ^ 64 }).2,
           { monologue with
             session_last_sdp_orig :=
               some { origin with version_num := (origin.version_num + 1) % 2 ^ 64 },
             last_out_sdp := some (sdp_version_replace
               (sdp_version_replace chop sessions origin).1
               (sdp_version_replace chop sessions origin).2
               { origin with version_num := (origin.version_num + 1) % 2 ^ 64 }).1.output }) := by
    intro h
    unfold sdp_version_check
    rw [ho]
    rcases h with hf | ⟨last, hl, hne⟩
    · simp [hf]
    · cases force_increase with
      | true => simp
      | false => simp [hl, hne]
  refine ⟨hcase1, hcase2, hcase3, ?_, ?_⟩
  · intro h
    exact Nat.mod_eq_of_lt (by omega)
  · cases hf : force_increase with
    | true =>
      rw [← hf, hcase3 (Or.inl hf)]
    | false =>
      cases hl : monologue.last_out_sdp with
      | none => rw [← hf, hcase1 hf hl]
      | some last =>
        by_cases he : last = (sdp_version_replace chop sessions origin).1.output
        · rw [← hf, hcase2 hf (by rw [hl, he])]
          exact hl.trans (by rw [he])
        · rw [← hf, hcase3 (Or.inr ⟨last, hl, he⟩)]

/-- C20 on an output with one `o=` line, a remembered version 12 and no cached
output: the version is stamped into the line, the stamped output is cached and
the version number stays 12. -/
theorem c20_version_check_witness :
    sdp_version_check demo_version_chop demo_version_sessions
        { session_last_sdp_orig := some { version_num := 12 } } false
      = ((sdp_version_replace demo_version_chop demo_version_sessions { version_num := 12 }).1,
         (sdp_version_replace demo_version_chop demo_version_sessions { version_num := 12 }).2,
         { session_last_sdp_orig := some { version_num := 12 },
           last_out_sdp := some (sdp_version_replace demo_version_chop demo_version_sessions
             { version_num := 12 }).1.output }) ∧
    (sdp_version_replace demo_version_chop demo_version_sessions { version_num := 12 }).1.output
      = "o=- 1 12 IN IP4 1.2.3.4\r\n".toList :=
  ⟨(c20_version_check demo_version_chop demo_version_sessions
      { session_last_sdp_orig := some { version_num := 12 } } { version_num := 12 } false
      rfl).1 rfl rfl,
   by decide!⟩

/-- C20 as stated fails.  With the remembered version number at the largest
64-bit value and `force_increase` set, `sdp_version_check` leaves the version
number 0, not N+1, and stamps `0` into the output. -/
theorem c20_counterexample :
    ULLONG_MAX = 18446744073709551615 ∧
    (sdp_version_check demo_version_chop demo_version_sessions
        { session_last_sdp_orig := some { version_num := ULLONG_MAX } }
        true).2.2.session_last_sdp_orig.map (fun o => o.version_num) = some 0 ∧
    (sdp_version_check demo_version_chop demo_version_sessions
        { session_last_sdp_orig := some { version_num := ULLONG_MAX } } true).1.output
      = "o=- 1 0 IN IP4 1.2.3.4\r\n".toList :=
  with_facts3 (fun fact1 fact2 fact3 =>
    ⟨fact1, fact2, fact3⟩) (by decide!)

/-! ## The refresh of a version number at its maximum -/

theorem not_isSome_none {α : Type} {o : Option α} (h : ¬ o.isSome = true) : o = none := by
  cases o with
  | none => rfl
  | some x => simp at h

theorem flags_address_self (flags : sdp_ng_flags) :
    flags_kept flags flags :=
  ⟨flags.parsed_media_address, rfl⟩

theorem replace_frame_refl (st : replace_state) : replace_frame st st :=
  ⟨flags_address_self st.flags, rfl⟩

theorem replace_frame_trans {a b c : replace_state} (h1 : replace_frame a b)
    (h2 : replace_frame b c) : replace_frame a c := by
  obtain ⟨⟨x, hx⟩, e1⟩ := h1
  obtain ⟨⟨y, hy⟩, e2⟩ := h2
  exact ⟨⟨y, by rw [hy, hx]⟩, e2.trans e1⟩

theorem replace_network_address_flags (env : Env) (chop : sdp_chopper)
    (address : network_address) (ps : packet_stream) (flags : sdp_ng_flags) (k : Bool) :
    flags_kept flags (replace_network_address env chop address ps flags k).2.2 := by
  unfold replace_network_address
  simp only
  repeat' split
  all_goals first
    | exact flags_address_self flags
    | exact ⟨_, rfl⟩

theorem replace_media_line_flags (env : Env) (chop : sdp_chopper) (cm : call_media)
    (m : sdp_media) (link : List packet_stream) (flags : sdp_ng_flags) (k : Bool) :
    flags_kept flags (replace_media_line env chop cm m link flags k).2.2 := by
  unfold replace_media_line
  simp only
  repeat' split
  all_goals first
    | exact flags_address_self flags
    | exact replace_network_address_flags _ _ _ _ _ _

theorem replace_media_attributes_flags (env : Env) (chop : sdp_chopper) (cm : call_media)
    (m : sdp_media) (link : List packet_stream) (flags : sdp_ng_flags) :
    (replace_media_attributes env chop cm m link flags).2.2 = flags := by
  unfold replace_media_attributes
  simp only
  split <;> rfl

theorem replace_sdp_media_section_flags (env : Env) (buf : List Char) (chop : sdp_chopper)
    (cm : call_media) (session : sdp_session) (m : sdp_media) (link : List packet_stream)
    (flags : sdp_ng_flags) (k : Bool) :
    flags_kept flags (replace_sdp_media_section env buf chop cm session m link flags k).2.2 := by
  unfold replace_sdp_media_section
  simp only
  repeat' split
  all_goals first
    | exact flags_address_self flags
    | exact replace_media_line_flags _ _ _ _ _ _ _
    | (rw [replace_media_attributes_flags]; exact replace_media_line_flags _ _ _ _ _ _ _)
    | (rw [replace_media_attributes_flags]; exact flags_address_self flags)

theorem flags_address_trans {f g h : sdp_ng_flags}
    (h1 : flags_kept f g)
    (h2 : flags_kept g h) :
    flags_kept f h := by
  obtain ⟨x, hx⟩ := h1
  obtain ⟨y, hy⟩ := h2
  exact ⟨y, by rw [hy, hx]⟩

theorem sdp_replace_media_frame (env : Env) (buf : List Char) (session : sdp_session)
    (k : Bool) (m : sdp_media) (st : replace_state) :
    replace_frame st (sdp_replace_media env buf session k m st).2 := by
  unfold sdp_replace_media
  split
  · lift_lets
    intro r
    split <;> exact replace_frame_refl st
  · split
    · exact replace_frame_refl st
    · rename_i cm hcm
      split
      · exact replace_frame_refl st
      · lift_lets
        intro prtp legacy legacy_rev pre r c1
        clear_value prtp legacy legacy_rev
        have hpre : flags_kept st.flags pre.2.2 := by
          simp only [pre]
          cases prtp with
          | none => exact flags_address_self _
          | some pr =>
            simp only
            split_ifs
            · exact flags_address_self _
            · exact replace_sdp_media_section_flags _ _ _ _ _ _ _ _ _
            · exact flags_address_self _
        have hr : flags_kept st.flags r.2.2 :=
          flags_address_trans hpre (replace_sdp_media_section_flags _ _ _ _ _ _ _ _ _)
        clear_value pre r c1
        split_ifs
        · exact ⟨hpre, rfl⟩
        · exact ⟨hr, rfl⟩
        · exact ⟨hr, rfl⟩

theorem sdp_replace_media_loop_frame (env : Env) (buf : List Char) (session : sdp_session)
    (k : Bool) :
    ∀ (ms : List sdp_media) (st : replace_state),
      replace_frame st (sdp_replace_media_loop env buf session k ms st).2 := by
  intro ms
  induction ms with
  | nil => intro st; exact replace_frame_refl st
  | cons m rest ih =>
    intro st
    unfold sdp_replace_media_loop
    simp only
    split
    · exact sdp_replace_media_frame env buf session k m st
    · exact replace_frame_trans (sdp_replace_media_frame env buf session k m st) (ih _)

theorem sdp_replace_name_frame (buf : List Char) (session : sdp_session) (st : replace_state) :
    replace_frame st (sdp_replace_name buf session st).2 := by
  unfold sdp_replace_name
  simp only
  repeat' split
  all_goals exact ⟨flags_address_self _, rfl⟩

theorem sdp_replace_connection_frame (env : Env) (session : sdp_session) (ps : packet_stream)
    (k : Bool) (st : replace_state) :
    replace_frame st (sdp_replace_connection env session ps k st).2 := by
  unfold sdp_replace_connection
  simp only
  repeat' split
  all_goals first
    | exact replace_frame_refl st
    | exact ⟨replace_network_address_flags _ _ _ _ _ _, rfl⟩

theorem sdp_replace_session_end_frame (env : Env) (session : sdp_session) (cm : call_media)
    (st : replace_state) :
    replace_frame st (sdp_replace_session_end env session cm st).2 := by
  unfold sdp_replace_session_end
  simp only
  repeat' split
  all_goals exact ⟨flags_address_self _, rfl⟩

theorem version_refresh_lt (env : Env) (orig : monologue_origin)
    (h : orig.version_num ≤ ULLONG_MAX) :
    (version_refresh env orig).version_num < ULLONG_MAX := by
  unfold version_refresh
  split
  · have : env.ssl_random % 2 ^ 32 < 2 ^ 32 := Nat.mod_lt _ (by norm_num)
    simp only [ULLONG_MAX]
    omega
  · omega

theorem version_refresh_idem (env : Env) (orig : monologue_origin) :
    version_refresh env (version_refresh env orig) = version_refresh env orig := by
  have h : env.ssl_random % 2 ^ 32 < 2 ^ 32 := Nat.mod_lt _ (by norm_num)
  by_cases hm : orig.version_num = ULLONG_MAX
  · have hne : env.ssl_random % 2 ^ 32 ≠ ULLONG_MAX := by
      simp only [ULLONG_MAX]; omega
    simp [version_refresh, hm, hne]
  · simp [version_refresh, hm]

/-- The `o=` block, when it succeeds, leaves the remembered origin with its
version number refreshed. -/
theorem sdp_replace_origin_refresh (env : Env) (session : sdp_session) (ps : packet_stream)
    (st : replace_state) (h : (sdp_replace_origin env session ps st).1 = none) :
    flags_kept st.flags (sdp_replace_origin env session ps st).2.1.flags ∧
    (sdp_replace_origin env session ps st).2.1.monologue.session_last_sdp_orig =
      st.monologue.session_last_sdp_orig.map (version_refresh env) := by
  revert h
  unfold sdp_replace_origin
  lift_lets
  intro err r1 r2 r3 src1 session1 src2 monologue1 r4
  have hmono : monologue1.session_last_sdp_orig =
      st.monologue.session_last_sdp_orig.map (version_refresh env) := by
    show (match st.monologue.session_last_sdp_orig with
      | some orig => _
      | none => st.monologue).session_last_sdp_orig = _
    cases ho : st.monologue.session_last_sdp_orig with
    | none => exact ho
    | some orig =>
      simp only [version_refresh, Option.map]
      split
      · rfl
      · exact ho
  have hflags : flags_kept st.flags r4.2.2 :=
    replace_network_address_flags _ _ _ _ _ _
  clear_value r1 r2 r3 r4 monologue1 session1
  split_ifs
  all_goals first
    | (intro h; exact ⟨flags_address_self _, hmono⟩)
    | (intro h; exact ⟨hflags, hmono⟩)
    | (intro h; exact False.elim h)

/-- The body of the session loop, when it succeeds, leaves the remembered
origin with its version number refreshed. -/
theorem sdp_replace_session_refresh (env : Env) (buf : List Char) (session : sdp_session)
    (st : replace_state) (h : (sdp_replace_session env buf session st).1 = none) :
    flags_kept st.flags (sdp_replace_session env buf session st).2.1.flags ∧
    (sdp_replace_session env buf session st).2.1.monologue.session_last_sdp_orig =
      st.monologue.session_last_sdp_orig.map (version_refresh env) := by
  revert h
  unfold sdp_replace_session
  cases hf : find_session_ps (st.monologue.medias.drop st.media_index) with
  | none => intro h; exact absurd h (Option.some_ne_none _)
  | some cp =>
    obtain ⟨cm, ps⟩ := cp
    simp only
    have ho := sdp_replace_origin_refresh env session ps st
    generalize sdp_replace_origin env session ps st = o at ho ⊢
    have hn := sdp_replace_name_frame buf o.2.2 o.2.1
    generalize sdp_replace_name buf o.2.2 o.2.1 = n at hn ⊢
    have hc := sdp_replace_connection_frame env o.2.2 ps (!cm.media_flags.ICE) n.2
    generalize sdp_replace_connection env o.2.2 ps (!cm.media_flags.ICE) n.2 = c at hc ⊢
    have he := sdp_replace_session_end_frame env o.2.2 cm c.2
    generalize sdp_replace_session_end env o.2.2 cm c.2 = e at he ⊢
    have hm := sdp_replace_media_loop_frame env buf o.2.2 (!cm.media_flags.ICE)
      o.2.2.media_streams e.2
    generalize sdp_replace_media_loop env buf o.2.2 (!cm.media_flags.ICE)
      o.2.2.media_streams e.2 = m at hm ⊢
    split_ifs with h1 h2 h3 h4
    · intro h; rw [h] at h1; simp at h1
    · intro h; rw [show n.1 = none from h] at h2; simp at h2
    · intro h; rw [show c.1 = none from h] at h3; simp at h3
    · intro h; rw [show e.1 = none from h] at h4; simp at h4
    · intro _
      have ho1 : o.1 = none := not_isSome_none h1
      obtain ⟨f1, m1⟩ := ho ho1
      have t := replace_frame_trans hn (replace_frame_trans hc (replace_frame_trans he hm))
      exact ⟨flags_address_trans f1 t.1, t.2.trans m1⟩

theorem map_version_refresh_idem (env : Env) (o : Option monologue_origin) :
    (o.map (version_refresh env)).map (version_refresh env) = o.map (version_refresh env) := by
  cases o with
  | none => rfl
  | some x => simp [version_refresh_idem]

/-- The session loop, when it succeeds: without a session the remembered origin
is untouched, with at least one its version number is refreshed. -/
theorem sdp_replace_loop_refresh (env : Env) (buf : List Char) :
    ∀ (sessions : List sdp_session) (st : replace_state),
      (sdp_replace_loop env buf sessions st).1 = none →
      flags_kept st.flags (sdp_replace_loop env buf sessions st).2.1.flags ∧
      (sdp_replace_loop env buf sessions st).2.1.monologue.session_last_sdp_orig =
        (if sessions = [] then st.monologue.session_last_sdp_orig
         else st.monologue.session_last_sdp_orig.map (version_refresh env)) := by
  intro sessions
  induction sessions with
  | nil => intro st _; exact ⟨flags_address_self _, rfl⟩
  | cons s rest ih =>
    intro st
    unfold sdp_replace_loop
    simp only
    have hs := sdp_replace_session_refresh env buf s st
    generalize sdp_replace_session env buf s st = r at hs ⊢
    have ht := ih r.2.1
    generalize sdp_replace_loop env buf rest r.2.1 = t at ht ⊢
    rw [if_neg (List.cons_ne_nil s rest)]
    by_cases h1 : r.1.isSome = true
    · rw [if_pos h1]
      intro h
      rw [show r.1 = none from h] at h1
      simp at h1
    · rw [if_neg h1]
      intro h
      have hr1 : r.1 = none := not_isSome_none h1
      obtain ⟨f1, m1⟩ := hs hr1
      obtain ⟨f2, m2⟩ := ht h
      refine ⟨flags_address_trans f1 f2, ?_⟩
      show t.2.1.monologue.session_last_sdp_orig = _
      rw [m2, m1]
      split
      · rfl
      · exact map_version_refresh_idem env _

/-- The version reconciler leaves the remembered version number as it is or
adds one to it modulo 2^64. -/
theorem sdp_version_check_version (chop : sdp_chopper) (sessions : List sdp_session)
    (monologue : call_monologue) (force : Bool) (origin : monologue_origin)
    (ho : monologue.session_last_sdp_orig = some origin) :
    ∃ o1, (sdp_version_check chop sessions monologue force).2.2.session_last_sdp_orig = some o1 ∧
      (o1.version_num = origin.version_num ∨
       o1.version_num = (origin.version_num + 1) % 2 ^ 64) := by
  unfold sdp_version_check
  rw [ho]
  simp only
  split_ifs
  · exact ⟨origin, rfl, Or.inl rfl⟩
  · exact ⟨origin, ho, Or.inl rfl⟩
  · exact ⟨_, rfl, Or.inr rfl⟩

/-- C21 (amended): for every `sdp_replace` call on at least one session, with
`replace_sdp_version` or `replace_origin_full` set, that returns 0 (the only
calls that reach the version reconciler): the monologue handed to
`sdp_version_check` remembers the origin with its version number refreshed,
which is 32 random bits if the number was at the 64-bit maximum and the
number itself otherwise; that number is below the maximum, and the version
number that the call leaves is it or its true successor, never a wrapped 0. -/
theorem c21_version_refresh (env : Env) (chop : sdp_chopper) (sessions : List sdp_session)
    (monologue : call_monologue) (flags : sdp_ng_flags) (origin : monologue_origin)
    (hs : sessions ≠ [])
    (hf : flags.replace_sdp_version = true ∨ flags.replace_origin_full = true)
    (ho : monologue.session_last_sdp_orig = some origin)
    (hle : origin.version_num ≤ ULLONG_MAX)
    (hr : (sdp_replace env chop sessions monologue flags).ret = 0) :
    (sdp_replace_loop env chop.input sessions
      ⟨chop, flags, monologue, 0⟩).2.1.monologue.session_last_sdp_orig
        = some (version_refresh env origin) ∧
    (sdp_replace env chop sessions monologue flags).monologue =
      (sdp_version_check
        (copy_remainder (sdp_replace_loop env chop.input sessions ⟨chop, flags, monologue, 0⟩).2.1.chop)
        (sdp_replace_loop env chop.input sessions ⟨chop, flags, monologue, 0⟩).2.2
        (sdp_replace_loop env chop.input sessions ⟨chop, flags, monologue, 0⟩).2.1.monologue
        flags.force_inc_sdp_ver).2.2 ∧
    (origin.version_num = ULLONG_MAX →
      (version_refresh env origin).version_num = env.ssl_random % 2 ^ 32 ∧
      (version_refresh env origin).version_num < 2 ^ 32) ∧
    (origin.version_num ≠ ULLONG_MAX → version_refresh env origin = origin) ∧
    (version_refresh env origin).version_num < ULLONG_MAX ∧
    ∃ o1, (sdp_replace env chop sessions monologue flags).monologue.session_last_sdp_orig
        = some o1 ∧
      (o1.version_num = (version_refresh env origin).version_num ∨
       o1.version_num = (version_refresh env origin).version_num + 1) := by
  have hlt := version_refresh_lt env origin hle
  have hrand : env.ssl_random % 2 ^ 32 < 2 ^ 32 := Nat.mod_lt _ (by norm_num)
  have hloop := sdp_replace_loop_refresh env chop.input sessions ⟨chop, flags, monologue, 0⟩
  revert hr
  unfold sdp_replace
  simp only
  generalize sdp_replace_loop env chop.input sessions ⟨chop, flags, monologue, 0⟩ = r at hloop ⊢
  by_cases h1 : r.1.isSome = true
  · rw [if_pos h1]
    intro hr
    simp at hr
  · rw [if_neg h1]
    obtain ⟨⟨a, fk⟩, m1⟩ := hloop (not_isSome_none h1)
    rw [if_neg hs] at m1
    simp only [ho, Option.map] at m1
    have hfl : (r.2.1.flags.replace_sdp_version || r.2.1.flags.replace_origin_full) = true := by
      rw [fk]
      cases hf with
      | inl h => simp [h]
      | inr h => simp [h]
    have hfo : r.2.1.flags.force_inc_sdp_ver = flags.force_inc_sdp_ver := by rw [fk]
    rw [if_pos hfl, hfo]
    intro _
    refine ⟨m1, rfl, ?_, ?_, hlt, ?_⟩
    · intro hm
      have e : (version_refresh env origin).version_num = env.ssl_random % 2 ^ 32 := by
        simp [version_refresh, hm]
      exact ⟨e, e ▸ hrand⟩
    · intro hm
      simp only [version_refresh, hm, if_false]
    · obtain ⟨o1, e1, e2⟩ := sdp_version_check_version (copy_remainder r.2.1.chop) r.2.2
        r.2.1.monologue flags.force_inc_sdp_ver _ m1
      refine ⟨o1, e1, ?_⟩
      have hmod : ((version_refresh env origin).version_num + 1) % 2 ^ 64
          = (version_refresh env origin).version_num + 1 := by
        apply Nat.mod_eq_of_lt
        simp only [ULLONG_MAX] at hlt
        omega
      rw [hmod] at e2
      exact e2

/-- C21 (amended) on the one-session body of `demo_plain_body`, with a
remembered version number at the maximum and the increment forced: the number
handed to the reconciler is the 32 random bits of the example environment, and
the call leaves their successor. -/
theorem c21_version_refresh_witness :
    (version_refresh demo_env { version_num := ULLONG_MAX }).version_num
      = demo_env.ssl_random % 2 ^ 32 ∧
    ∃ o1, (sdp_replace demo_env
        { input := demo_plain_body, input_len := demo_plain_body.length }
        (demo_sessions demo_plain_body) (demo_wrap_monologue demo_plain_body)
        demo_wrap_flags).monologue.session_last_sdp_orig = some o1 ∧
      (o1.version_num = (version_refresh demo_env { version_num := ULLONG_MAX }).version_num ∨
       o1.version_num
        = (version_refresh demo_env { version_num := ULLONG_MAX }).version_num + 1) :=
  with_facts2 (fun fact1 fact2 =>
    have h := c21_version_refresh demo_env
      { input := demo_plain_body, input_len := demo_plain_body.length }
      (demo_sessions demo_plain_body) (demo_wrap_monologue demo_plain_body) demo_wrap_flags
      { version_num := ULLONG_MAX } (fact1) (Or.inl rfl) rfl (by decide) (fact2)
    ⟨(h.2.2.1 rfl).1, h.2.2.2.2.2⟩) (by decide!)

/-- C21 fails as stated.  A body of one byte parses to an empty session list;
`sdp_replace` on that list with `replace_sdp_version` set and the increment
forced returns 0 without reaching the refresh, which sits in the session loop,
and the reconciler turns the remembered version number 2^64 - 1 into 0. -/
theorem c21_counterexample :
    sdp_parse demo_env false "x".toList 1 [] false
      = some { ret := 0, sessions := [], body_len := 1 } ∧
    (sdp_replace demo_env { input := "x".toList, input_len := 1 } []
      { session_last_sdp_orig := some { version_num := 2 ^ 64 - 1 } } demo_wrap_flags).ret = 0 ∧
    (sdp_replace demo_env { input := "x".toList, input_len := 1 } []
      { session_last_sdp_orig := some { version_num := 2 ^ 64 - 1 } }
      demo_wrap_flags).monologue.session_last_sdp_orig = some { version_num := 0 } :=
  with_facts3 (fun fact1 fact2 fact3 =>
    ⟨fact1, fact2, fact3⟩) (by decide!)

/-! ## The attribute set: FIFO and the two maps -/

theorem ht_lookup_append {β : Type} (ht : List (attr_id × β)) (k : attr_id) (v : β)
    (id : attr_id) :
    ht_lookup (ht ++ [(k, v)]) id =
      match ht_lookup ht id with
      | some x => some x
      | none => if k = id then some v else none := by
  induction ht with
  | nil => simp [ht_lookup]
  | cons p rest ih =>
    obtain ⟨k1, v1⟩ := p
    simp only [List.cons_append, ht_lookup]
    split
    · rfl
    · exact ih

theorem ht_lookup_push (ht : List (attr_id × List sdp_attribute)) (a : sdp_attribute)
    (id : attr_id) :
    ht_lookup (attr_list_push ht a) id =
      if a.attr = id then some ((ht_lookup ht id).getD [] ++ [a]) else ht_lookup ht id := by
  induction ht with
  | nil =>
    simp only [attr_list_push, ht_lookup]
    split <;> simp
  | cons p rest ih =>
    obtain ⟨k1, q⟩ := p
    simp only [attr_list_push]
    by_cases hk : k1 = a.attr
    · rw [if_pos hk]
      simp only [ht_lookup]
      by_cases hi : a.attr = id
      · rw [if_pos (hk.trans hi), if_pos hi, if_pos (hk.trans hi)]
        simp
      · rw [if_neg (fun h => hi (hk.symm.trans h)), if_neg hi,
          if_neg (fun h => hi (hk.symm.trans h))]
    · rw [if_neg hk]
      simp only [ht_lookup]
      by_cases h1 : k1 = id
      · rw [if_pos h1, if_pos h1, if_neg (fun h => hk (h1.trans h.symm))]
      · rw [if_neg h1, if_neg h1]
        exact ih

/-- The invariant of an attribute set: the id→first map holds the first FIFO
element of each id, and the id→list map holds the FIFO filtered by each id,
with no entry for an id that does not occur. -/
theorem attrs_inserted_spec (l : List sdp_attribute) :
    (attrs_inserted l).list = l ∧
    (∀ id, ht_lookup (attrs_inserted l).id_hash id = l.find? (fun a => decide (a.attr = id))) ∧
    (∀ id, ht_lookup (attrs_inserted l).id_lists_hash id =
      if l.filter (fun a => decide (a.attr = id)) = [] then none
      else some (l.filter (fun a => decide (a.attr = id)))) := by
  have key : ∀ (l : List sdp_attribute) (a0 : sdp_attributes),
      (∀ id, ht_lookup a0.id_hash id = a0.list.find? (fun a => decide (a.attr = id))) →
      (∀ id, ht_lookup a0.id_lists_hash id =
        if a0.list.filter (fun a => decide (a.attr = id)) = [] then none
        else some (a0.list.filter (fun a => decide (a.attr = id)))) →
      (l.foldl attr_insert a0).list = a0.list ++ l ∧
      (∀ id, ht_lookup (l.foldl attr_insert a0).id_hash id =
        (a0.list ++ l).find? (fun a => decide (a.attr = id))) ∧
      (∀ id, ht_lookup (l.foldl attr_insert a0).id_lists_hash id =
        if (a0.list ++ l).filter (fun a => decide (a.attr = id)) = [] then none
        else some ((a0.list ++ l).filter (fun a => decide (a.attr = id)))) := by
    intro l
    induction l with
    | nil =>
      intro a0 h1 h2
      simp only [List.foldl, List.append_nil]
      exact ⟨trivial, h1, h2⟩
    | cons x rest ih =>
      intro a0 h1 h2
      have hl : (attr_insert a0 x).list = a0.list ++ [x] := rfl
      have g1 : ∀ id, ht_lookup (attr_insert a0 x).id_hash id =
          (attr_insert a0 x).list.find? (fun a => decide (a.attr = id)) := by
        intro id
        rw [hl, List.find?_append]
        show ht_lookup (match ht_lookup a0.id_hash x.attr with
          | some _ => a0.id_hash
          | none => a0.id_hash ++ [(x.attr, x)]) id = _
        cases hx : ht_lookup a0.id_hash x.attr with
        | some y =>
          simp only
          rw [h1 id]
          cases hf : a0.list.find? (fun a => decide (a.attr = id)) with
          | some z => simp
          | none =>
            have : x.attr ≠ id := by
              intro e
              rw [h1 x.attr, e, hf] at hx
              exact Option.noConfusion hx
            simp [this]
        | none =>
          simp only
          rw [ht_lookup_append, h1 id]
          cases hf : a0.list.find? (fun a => decide (a.attr = id)) with
          | some z => simp
          | none =>
            by_cases e : x.attr = id <;> simp [e]
      have g2 : ∀ id, ht_lookup (attr_insert a0 x).id_lists_hash id =
          if (attr_insert a0 x).list.filter (fun a => decide (a.attr = id)) = [] then none
          else some ((attr_insert a0 x).list.filter (fun a => decide (a.attr = id))) := by
        intro id
        rw [hl, List.filter_append]
        show ht_lookup (attr_list_push a0.id_lists_hash x) id = _
        rw [ht_lookup_push, h2 id]
        by_cases e : x.attr = id
        · rw [if_pos e]
          by_cases hn : a0.list.filter (fun a => decide (a.attr = id)) = []
          · simp [hn, e]
          · simp [hn, e]
        · rw [if_neg e]
          simp [e]
      obtain ⟨r1, r2, r3⟩ := ih (attr_insert a0 x) g1 g2
      rw [hl, List.append_assoc] at r1 r2 r3
      exact ⟨r1, r2, r3⟩
  have := key l attrs_init (fun id => rfl) (fun id => rfl)
  simpa [attrs_inserted, attrs_init] using this

/-- C30: after the `attr_insert` calls of the attributes of `l`, in order, on
the empty set of `attrs_init`: the FIFO is `l`; `attr_get_by_id` gives the
first element of `l` with the id, and nothing exactly when the id does not
occur in `l`; `attr_list_get_by_id` gives the elements of `l` with the id in
the order of `l`, and no queue exactly when the id does not occur. -/
theorem c30_attr_insert (l : List sdp_attribute) (id : attr_id) :
    (attrs_inserted l).list = l ∧
    attr_get_by_id (attrs_inserted l) id = l.find? (fun a => decide (a.attr = id)) ∧
    (attr_get_by_id (attrs_inserted l) id = none ↔ ∀ a ∈ l, a.attr ≠ id) ∧
    (attr_list_get_by_id (attrs_inserted l) id).getD [] =
      l.filter (fun a => decide (a.attr = id)) ∧
    (attr_list_get_by_id (attrs_inserted l) id = none ↔ ∀ a ∈ l, a.attr ≠ id) := by
  obtain ⟨h1, h2, h3⟩ := attrs_inserted_spec l
  refine ⟨h1, h2 id, ?_, ?_, ?_⟩
  · unfold attr_get_by_id
    rw [h2 id]
    simp [List.find?_eq_none]
  · unfold attr_list_get_by_id
    rw [h3 id]
    split
    · rename_i h; rw [h]; rfl
    · rfl
  · unfold attr_list_get_by_id
    rw [h3 id]
    split
    · rename_i h
      simp only [true_iff]
      intro a ha e
      have : a ∈ l.filter (fun a => decide (a.attr = id)) := by
        simp [List.mem_filter, ha, e]
      rw [h] at this
      exact absurd this (List.not_mem_nil _)
    · rename_i h
      refine ⟨fun h0 => Option.noConfusion h0, fun hall => ?_⟩
      exfalso
      apply h
      rw [List.filter_eq_nil_iff]
      intro a ha
      simpa using hall a ha

/-! ## The duplicate detector -/

theorem sdp_is_duplicate_match_iff (env : Env) (buf : List Char) (l : List sdp_attribute) :
    sdp_is_duplicate_match env buf l = true ↔
      ∃ a ∈ l, a.strs.value.len = env.rtpe_instance_id.length ∧
        str_bytes buf a.strs.value = env.rtpe_instance_id := by
  induction l with
  | nil => simp [sdp_is_duplicate_match]
  | cons x rest ih =>
    unfold sdp_is_duplicate_match
    by_cases h : str_cmp_str buf x.strs.value env.rtpe_instance_id = true
    · rw [if_pos h]
      simp only [true_iff]
      refine ⟨x, List.mem_cons_self _ _, ?_⟩
      simpa [str_cmp_str] using h
    · rw [if_neg h, ih]
      constructor
      · rintro ⟨a, ha, hv⟩
        exact ⟨a, List.mem_cons_of_mem _ ha, hv⟩
      · rintro ⟨a, ha, hv⟩
        rcases List.mem_cons.mp ha with e | ha
        · exfalso
          apply h
          rw [← e]
          simpa [str_cmp_str] using hv
        · exact ⟨a, ha, hv⟩

theorem sdp_is_duplicate_bool (env : Env) (buf : List Char) (sessions : List sdp_session) :
    sdp_is_duplicate env buf sessions = 1 ∨ sdp_is_duplicate env buf sessions = 0 := by
  induction sessions with
  | nil => exact Or.inl rfl
  | cons s rest ih =>
    unfold sdp_is_duplicate
    split
    · exact Or.inr rfl
    · split
      · exact ih
      · exact Or.inr rfl

theorem sdp_is_duplicate_iff (env : Env) (buf : List Char) (sessions : List sdp_session) :
    sdp_is_duplicate env buf sessions = 1 ↔
      ∀ s ∈ sessions, ∃ l, attr_list_get_by_id s.attributes attr_id.ATTR_RTPENGINE = some l ∧
        ∃ a ∈ l, a.strs.value.len = env.rtpe_instance_id.length ∧
          str_bytes buf a.strs.value = env.rtpe_instance_id := by
  induction sessions with
  | nil => simp [sdp_is_duplicate]
  | cons s rest ih =>
    unfold sdp_is_duplicate
    simp only [List.forall_mem_cons]
    cases hl : attr_list_get_by_id s.attributes attr_id.ATTR_RTPENGINE with
    | none => simp
    | some l =>
      simp only
      by_cases hm : sdp_is_duplicate_match env buf l = true
      · rw [if_pos hm, ih]
        have := (sdp_is_duplicate_match_iff env buf l).mp hm
        constructor
        · intro h; exact ⟨⟨l, rfl, this⟩, h⟩
        · intro h; exact h.2
      · rw [if_neg hm]
        constructor
        · intro h; exact absurd h (by decide)
        · rintro ⟨⟨l1, e, h⟩, _⟩
          injection e with e
          rw [← e] at h
          exact absurd ((sdp_is_duplicate_match_iff env buf l).mpr h) hm

/-- C22: `sdp_is_duplicate` returns 1 or 0.  It returns 1 if and only if the
id→list map of every session has a queue for `a=rtpengine` with an attribute
whose value has the length and the bytes of the instance id; for sessions
whose attribute sets were filled by `attr_insert`, if and only if the FIFO of
every session has such an `a=rtpengine` attribute.  The result for an empty
session list is 1, and a non-empty list that has no `a=rtpengine` attribute
with the instance id as value gives 0. -/
theorem c22_is_duplicate (env : Env) (buf : List Char) (sessions : List sdp_session) :
    (sdp_is_duplicate env buf sessions = 1 ∨ sdp_is_duplicate env buf sessions = 0) ∧
    (sdp_is_duplicate env buf sessions = 1 ↔
      ∀ s ∈ sessions, ∃ l, attr_list_get_by_id s.attributes attr_id.ATTR_RTPENGINE = some l ∧
        ∃ a ∈ l, a.strs.value.len = env.rtpe_instance_id.length ∧
          str_bytes buf a.strs.value = env.rtpe_instance_id) ∧
    ((∀ s ∈ sessions, s.attributes = attrs_inserted s.attributes.list) →
      (sdp_is_duplicate env buf sessions = 1 ↔
        ∀ s ∈ sessions, ∃ a ∈ s.attributes.list, a.attr = attr_id.ATTR_RTPENGINE ∧
          a.strs.value.len = env.rtpe_instance_id.length ∧
          str_bytes buf a.strs.value = env.rtpe_instance_id)) ∧
    sdp_is_duplicate env buf [] = 1 ∧
    ((∀ s ∈ sessions, s.attributes = attrs_inserted s.attributes.list) → sessions ≠ [] →
      (∀ s ∈ sessions, ∀ a ∈ s.attributes.list, a.attr = attr_id.ATTR_RTPENGINE →
        str_bytes buf a.strs.value ≠ env.rtpe_instance_id) →
      sdp_is_duplicate env buf sessions = 0) := by
  have hfifo : (∀ s ∈ sessions, s.attributes = attrs_inserted s.attributes.list) →
      (sdp_is_duplicate env buf sessions = 1 ↔
        ∀ s ∈ sessions, ∃ a ∈ s.attributes.list, a.attr = attr_id.ATTR_RTPENGINE ∧
          a.strs.value.len = env.rtpe_instance_id.length ∧
          str_bytes buf a.strs.value = env.rtpe_instance_id) := by
    intro hw
    rw [sdp_is_duplicate_iff]
    apply forall_congr'
    intro s
    apply imp_congr_right
    intro hs
    have h3 := (attrs_inserted_spec s.attributes.list).2.2 attr_id.ATTR_RTPENGINE
    rw [← hw s hs] at h3
    unfold attr_list_get_by_id
    rw [h3]
    constructor
    · rintro ⟨l, e, a, ha, hv⟩
      split at e
      · exact Option.noConfusion e
      · injection e with e
        rw [← e, List.mem_filter] at ha
        exact ⟨a, ha.1, by simpa using ha.2, hv⟩
    · rintro ⟨a, ha, hid, hv⟩
      have hmem : a ∈ s.attributes.list.filter
          (fun a => decide (a.attr = attr_id.ATTR_RTPENGINE)) := by
        rw [List.mem_filter]
        exact ⟨ha, by simpa using hid⟩
      refine ⟨_, ?_, a, hmem, hv⟩
      rw [if_neg]
      intro e
      rw [e] at hmem
      exact absurd hmem (List.not_mem_nil _)
  refine ⟨sdp_is_duplicate_bool env buf sessions, sdp_is_duplicate_iff env buf sessions,
    hfifo, rfl, ?_⟩
  intro hw hne hdiff
  rcases sdp_is_duplicate_bool env buf sessions with h | h
  · exfalso
    cases sessions with
    | nil => exact hne rfl
    | cons s rest =>
      obtain ⟨a, ha, hid, _, hv⟩ := (hfifo hw).mp h s (List.mem_cons_self _ _)
      exact hdiff s (List.mem_cons_self _ _) a ha hid hv
  · exact h

/-- C22 on two parsed bodies: the body whose session carries the instance id of
the example environment is a duplicate, the body with another id is not. -/
theorem c22_is_duplicate_witness :
    sdp_is_duplicate demo_env demo_loop_body (demo_sessions demo_loop_body) = 1 ∧
    sdp_is_duplicate demo_env demo_foreign_body (demo_sessions demo_foreign_body) = 0 :=
  with_facts5 (fun fact1 fact2 fact3 fact4 fact5 =>
    ⟨((c22_is_duplicate demo_env demo_loop_body (demo_sessions demo_loop_body)).2.2.1
        (fact1)).mpr (fact2),
     (c22_is_duplicate demo_env demo_foreign_body (demo_sessions demo_foreign_body)).2.2.2.2
        (fact3) (fact4) (fact5)⟩) (by decide!)

/-! ## Candidates -/

theorem extract_tokens_cons (buf : List Char) (n : Nat) (s : Str) (t : Str) (ts : List Str)
    (q : Str) (h : extract_tokens buf (n + 1) s = some (t :: ts, q)) :
    ∃ r, extract_token buf s = some (t, r) ∧ extract_tokens buf n r = some (ts, q) := by
  unfold extract_tokens at h
  cases h1 : extract_token buf s with
  | none => rw [h1] at h; exact Option.noConfusion h
  | some p =>
    obtain ⟨t1, r⟩ := p
    rw [h1] at h
    simp only at h
    cases h2 : extract_tokens buf n r with
    | none => rw [h2] at h; exact Option.noConfusion h
    | some p2 =>
      obtain ⟨ts2, q2⟩ := p2
      rw [h2] at h
      simp only [Option.some.injEq, Prod.mk.injEq, List.cons.injEq] at h
      obtain ⟨⟨e1, e2⟩, e3⟩ := h
      subst e1 e2 e3
      exact ⟨r, rfl, h2⟩

theorem extract_tokens_eight (buf : List Char) (s fo co tr pr ad po ty tp r8 : Str)
    (h : extract_tokens buf 8 s = some ([fo, co, tr, pr, ad, po, ty, tp], r8)) :
    ∃ r1 r2 r3 r4 r5 r6 r7,
      extract_token buf s = some (fo, r1) ∧ extract_token buf r1 = some (co, r2) ∧
      extract_token buf r2 = some (tr, r3) ∧ extract_token buf r3 = some (pr, r4) ∧
      extract_token buf r4 = some (ad, r5) ∧ extract_token buf r5 = some (po, r6) ∧
      extract_token buf r6 = some (ty, r7) ∧ extract_token buf r7 = some (tp, r8) := by
  obtain ⟨r1, e1, h⟩ := extract_tokens_cons buf _ _ _ _ _ h
  obtain ⟨r2, e2, h⟩ := extract_tokens_cons buf _ _ _ _ _ h
  obtain ⟨r3, e3, h⟩ := extract_tokens_cons buf _ _ _ _ _ h
  obtain ⟨r4, e4, h⟩ := extract_tokens_cons buf _ _ _ _ _ h
  obtain ⟨r5, e5, h⟩ := extract_tokens_cons buf _ _ _ _ _ h
  obtain ⟨r6, e6, h⟩ := extract_tokens_cons buf _ _ _ _ _ h
  obtain ⟨r7, e7, h⟩ := extract_tokens_cons buf _ _ _ _ _ h
  obtain ⟨r9, e8, h⟩ := extract_tokens_cons buf _ _ _ _ _ h
  simp only [extract_tokens, Option.some.injEq, Prod.mk.injEq, true_and] at h
  subst h
  exact ⟨r1, r2, r3, r4, r5, r6, r7, e1, e2, e3, e4, e5, e6, e7, e8⟩

/-- Without the eight mandatory tokens the candidate parser fails. -/
theorem parse_attribute_candidate_tokens (env : Env) (buf : List Char) (output : sdp_attribute)
    (extended : Bool) (h : extract_tokens buf 8 output.strs.value = none) :
    (parse_attribute_candidate env buf output extended).1 = -1 := by
  unfold parse_attribute_candidate
  simp only
  simp only [extract_tokens] at h
  repeat' split
  all_goals first
    | rfl
    | simp_all

theorem has_digits_false (buf : List Char) (t : Str) (h : has_digits buf t = false) :
    (strtoul buf (t.s.getD 0)).2 = t.s.getD 0 := by
  simpa [has_digits] using h

theorem has_digits_true (buf : List Char) (t : Str) (h : has_digits buf t = true) :
    ¬ (strtoul buf (t.s.getD 0)).2 = t.s.getD 0 := by
  simpa [has_digits] using h

theorem extract_tokens_length (buf : List Char) :
    ∀ (n : Nat) (s : Str) (ts : List Str) (q : Str),
      extract_tokens buf n s = some (ts, q) → ts.length = n := by
  intro n
  induction n with
  | zero =>
    intro s ts q h
    simp only [extract_tokens, Option.some.injEq, Prod.mk.injEq] at h
    rw [← h.1]
    rfl
  | succ n ih =>
    intro s ts q h
    unfold extract_tokens at h
    cases h1 : extract_token buf s with
    | none => rw [h1] at h; exact Option.noConfusion h
    | some p =>
      obtain ⟨t1, r⟩ := p
      rw [h1] at h
      simp only at h
      cases h2 : extract_tokens buf n r with
      | none => rw [h2] at h; exact Option.noConfusion h
      | some p2 =>
        obtain ⟨ts2, q2⟩ := p2
        rw [h2] at h
        simp only [Option.some.injEq, Prod.mk.injEq] at h
        rw [← h.1, List.length_cons, ih r ts2 q2 h2]

theorem extract_tokens_four_cases (buf : List Char) (s : Str) :
    extract_tokens buf 4 s = none ∨
    ∃ a b c d q, extract_tokens buf 4 s = some ([a, b, c, d], q) := by
  cases h : extract_tokens buf 4 s with
  | none => exact Or.inl rfl
  | some p =>
    obtain ⟨ts, q⟩ := p
    have hl := extract_tokens_length buf 4 s ts q h
    match ts, hl with
    | [a, b, c, d], _ => exact Or.inr ⟨a, b, c, d, q, rfl⟩

theorem extract_tokens_eight_cases (buf : List Char) (s : Str) :
    extract_tokens buf 8 s = none ∨
    ∃ a b c d e f g h q, extract_tokens buf 8 s = some ([a, b, c, d, e, f, g, h], q) := by
  cases h : extract_tokens buf 8 s with
  | none => exact Or.inl rfl
  | some p =>
    obtain ⟨ts, q⟩ := p
    have hl := extract_tokens_length buf 8 s ts q h
    match ts, hl with
    | [a, b, c, d, e, f, g, h], _ => exact Or.inr ⟨a, b, c, d, e, f, g, h, q, rfl⟩

theorem extract_tokens_four (buf : List Char) (s a b c d q : Str)
    (h : extract_tokens buf 4 s = some ([a, b, c, d], q)) :
    ∃ r1 r2 r3,
      extract_token buf s = some (a, r1) ∧ extract_token buf r1 = some (b, r2) ∧
      extract_token buf r2 = some (c, r3) ∧ extract_token buf r3 = some (d, q) := by
  obtain ⟨r1, e1, h⟩ := extract_tokens_cons buf _ _ _ _ _ h
  obtain ⟨r2, e2, h⟩ := extract_tokens_cons buf _ _ _ _ _ h
  obtain ⟨r3, e3, h⟩ := extract_tokens_cons buf _ _ _ _ _ h
  obtain ⟨r4, e4, h⟩ := extract_tokens_cons buf _ _ _ _ _ h
  simp only [extract_tokens, Option.some.injEq, Prod.mk.injEq, true_and] at h
  subst h
  exact ⟨r1, r2, r3, e1, e2, e3, e4⟩

/-- The raddr/rport section against its outcome. -/
theorem candidate_related_outcome (env : Env) (buf : List Char) (c5 : attribute_candidate)
    (r8 : Str) (hr : env.ice_has_related c5.cand_parsed.type = true) :
    match candidate_related_class env buf r8 with
    | cand_class.parsed => ∃ c q, candidate_related env buf c5 r8 = cand_flow.go c q
    | cand_class.unparsed =>
      ∃ c, candidate_related env buf c5 r8 = cand_flow.ret 0 c ∧ c.parsed = c5.parsed
    | cand_class.error => ∃ c, candidate_related env buf c5 r8 = cand_flow.ret (-1) c := by
  unfold candidate_related
  rw [if_pos hr]
  rcases extract_tokens_four_cases buf r8 with h4 | ⟨ra, rad, rp, rpo, q4, h4⟩
  · have hc : candidate_related_class env buf r8 = cand_class.error := by
      unfold candidate_related_class
      rw [h4]
    rw [hc]
    simp only [extract_tokens] at h4
    simp only
    repeat' split
    all_goals first
      | exact ⟨_, rfl⟩
      | simp_all
  · obtain ⟨q1, q2, q3, e1, e2, e3, e4⟩ := extract_tokens_four buf _ _ _ _ _ _ h4
    unfold candidate_related_class
    simp only [h4, e1, e2, e3, e4]
    by_cases k2 : str_cmp buf ra "raddr" = true
    · by_cases k3 : str_cmp buf rp "rport" = true
      · cases ha : __parse_address env none none (str_bytes buf rad) with
        | none =>
          simp only [k2, k3, Bool.not_true, Bool.false_eq_true, if_false, Option.isNone_none,
            if_true]
          exact ⟨_, rfl, rfl⟩
        | some a2 =>
          simp only [k2, k3, Bool.not_true, Bool.false_eq_true, if_false, Option.isNone_some]
          cases d4 : has_digits buf rpo with
          | false =>
            rw [if_pos (has_digits_false _ _ d4)]
            simp only [Bool.not_false, if_true]
            exact ⟨_, rfl⟩
          | true =>
            rw [if_neg (has_digits_true _ _ d4)]
            simp only [Bool.not_true, Bool.false_eq_true, if_false]
            exact ⟨_, _, rfl⟩
      · simp only [k2, k3, Bool.not_true, Bool.false_eq_true, if_false, if_true,
          Bool.not_eq_true, Bool.not_false]
        exact ⟨_, rfl⟩
    · simp only [Bool.not_eq_true] at k2
      simp only [k2, Bool.not_false, if_true]
      exact ⟨_, rfl⟩

theorem candidate_related_ret (env : Env) (buf : List Char) (c5 c : attribute_candidate)
    (r8 : Str) (code : Int) (heq : candidate_related env buf c5 r8 = cand_flow.ret code c)
    (hr : env.ice_has_related c5.cand_parsed.type = true) :
    (candidate_related_class env buf r8 = cand_class.unparsed ∧ code = 0 ∧
      c.parsed = c5.parsed) ∨
    (candidate_related_class env buf r8 = cand_class.error ∧ code = -1) := by
  have h := candidate_related_outcome env buf c5 r8 hr
  cases hc : candidate_related_class env buf r8 with
  | parsed =>
    rw [hc] at h
    obtain ⟨c1, q, e⟩ := h
    rw [e] at heq
    exact cand_flow.noConfusion heq
  | unparsed =>
    rw [hc] at h
    obtain ⟨c1, e, hp⟩ := h
    rw [e] at heq
    injection heq with e1 e2
    exact Or.inl ⟨rfl, e1.symm, e2 ▸ hp⟩
  | error =>
    rw [hc] at h
    obtain ⟨c1, e⟩ := h
    rw [e] at heq
    injection heq with e1 e2
    exact Or.inr ⟨rfl, e1.symm⟩

theorem candidate_related_go (env : Env) (buf : List Char) (c5 c : attribute_candidate)
    (r8 q : Str) (heq : candidate_related env buf c5 r8 = cand_flow.go c q)
    (hr : env.ice_has_related c5.cand_parsed.type = true) :
    candidate_related_class env buf r8 = cand_class.parsed := by
  have h := candidate_related_outcome env buf c5 r8 hr
  cases hc : candidate_related_class env buf r8 with
  | parsed => rfl
  | unparsed =>
    rw [hc] at h
    obtain ⟨c1, e, _⟩ := h
    rw [e] at heq
    exact cand_flow.noConfusion heq
  | error =>
    rw [hc] at h
    obtain ⟨c1, e⟩ := h
    rw [e] at heq
    exact cand_flow.noConfusion heq

theorem candidate_related_none (env : Env) (buf : List Char) (c5 : attribute_candidate)
    (r8 : Str) (hr : env.ice_has_related c5.cand_parsed.type = false) :
    candidate_related env buf c5 r8 = cand_flow.go c5 r8 := by
  unfold candidate_related
  rw [hr]
  rfl

theorem parse_attribute_candidate_attr (env : Env) (buf : List Char) (output : sdp_attribute)
    (extended : Bool) :
    (parse_attribute_candidate env buf output extended).2.attr = attr_id.ATTR_CANDIDATE := by
  unfold parse_attribute_candidate
  simp only
  repeat' split
  all_goals rfl

/-- The code and the `parsed` mark that `parse_attribute_candidate` leaves,
against the outcome of the candidate text. -/
theorem parse_attribute_candidate_outcome (env : Env) (buf : List Char)
    (output : sdp_attribute) (extended : Bool) :
    match candidate_class env buf output.strs.value with
    | cand_class.parsed =>
      (parse_attribute_candidate env buf output extended).1 = 0 ∧
      (parse_attribute_candidate env buf output extended).2.candidate.parsed = true
    | cand_class.unparsed =>
      (parse_attribute_candidate env buf output extended).1 = 0 ∧
      (parse_attribute_candidate env buf output extended).2.candidate.parsed
        = output.candidate.parsed
    | cand_class.error => (parse_attribute_candidate env buf output extended).1 = -1 := by
  rcases extract_tokens_eight_cases buf output.strs.value with
    h8 | ⟨fo, co, tr, pr, ad, po, ty, tp, r8, h8⟩
  · have hc : candidate_class env buf output.strs.value = cand_class.error := by
      unfold candidate_class
      rw [h8]
    rw [hc]
    exact parse_attribute_candidate_tokens env buf output extended h8
  · obtain ⟨r1, r2, r3, r4, r5, r6, r7, e1, e2, e3, e4, e5, e6, e7, e8⟩ :=
      extract_tokens_eight buf _ _ _ _ _ _ _ _ _ _ h8
    unfold parse_attribute_candidate candidate_class
    simp only [h8, e1, e2, e3, e4, e5, e6, e7, e8]
    cases d1 : has_digits buf co with
    | false =>
      rw [if_pos (has_digits_false _ _ d1)]
      simp only [Bool.not_false, if_true]
    | true =>
      rw [if_neg (has_digits_true _ _ d1)]
      simp only [Bool.not_true, Bool.false_eq_true, if_false]
      by_cases t : env.get_socket_type (str_bytes buf tr) = 0
      · rw [if_pos t, if_pos t]
        exact ⟨rfl, rfl⟩
      · rw [if_neg t, if_neg t]
        cases d2 : has_digits buf pr with
        | false =>
          rw [if_pos (has_digits_false _ _ d2)]
          simp only [Bool.not_false, if_true]
        | true =>
          rw [if_neg (has_digits_true _ _ d2)]
          simp only [Bool.not_true, Bool.false_eq_true, if_false]
          cases ha : __parse_address env none none (str_bytes buf ad) with
          | none =>
            simp only [Option.isNone_none, if_true]
            exact ⟨trivial, trivial⟩
          | some addr =>
            simp only [Option.isNone_some, Bool.false_eq_true, if_false]
            cases d3 : has_digits buf po with
            | false =>
              rw [if_pos (has_digits_false _ _ d3)]
              simp only [Bool.not_false, if_true]
            | true =>
              rw [if_neg (has_digits_true _ _ d3)]
              simp only [Bool.not_true, Bool.false_eq_true, if_false]
              cases k : str_cmp buf ty "typ" with
              | false => simp only [Bool.not_false, if_true]
              | true =>
                simp only [Bool.not_true, Bool.false_eq_true, if_false]
                by_cases y : env.ice_candidate_type (str_bytes buf tp) = 0
                · rw [if_pos y, if_pos y]
                  exact ⟨rfl, rfl⟩
                · rw [if_neg y, if_neg y]
                  cases hr : env.ice_has_related (env.ice_candidate_type (str_bytes buf tp)) with
                  | false =>
                    simp only [Bool.not_false, if_true]
                    rw [candidate_related_none _ _ _ _ hr]
                    exact ⟨rfl, rfl⟩
                  | true =>
                    simp only [Bool.not_true, Bool.false_eq_true, if_false]
                    cases hcl : candidate_related_class env buf r8 with
                    | parsed =>
                      simp only
                      split
                      · rename_i code c heq
                        rcases candidate_related_ret env buf _ _ r8 code heq hr with
                          ⟨hc, _, _⟩ | ⟨hc, _⟩
                        · rw [hcl] at hc; exact cand_class.noConfusion hc
                        · rw [hcl] at hc; exact cand_class.noConfusion hc
                      · exact ⟨rfl, rfl⟩
                    | unparsed =>
                      simp only
                      split
                      · rename_i code c heq
                        rcases candidate_related_ret env buf _ _ r8 code heq hr with
                          ⟨_, h0, hp⟩ | ⟨hc, _⟩
                        · exact ⟨h0, hp⟩
                        · rw [hcl] at hc; exact cand_class.noConfusion hc
                      · rename_i c6 rest heq
                        have hc := candidate_related_go env buf _ _ r8 _ heq hr
                        rw [hcl] at hc
                        exact cand_class.noConfusion hc
                    | error =>
                      simp only
                      split
                      · rename_i code c heq
                        rcases candidate_related_ret env buf _ _ r8 code heq hr with
                          ⟨hc, _, _⟩ | ⟨_, h1⟩
                        · rw [hcl] at hc; exact cand_class.noConfusion hc
                        · exact h1
                      · rename_i c6 rest heq
                        have hc := candidate_related_go env buf _ _ r8 _ heq hr
                        rw [hcl] at hc
                        exact cand_class.noConfusion hc

/-- C23 (amended): the outcome of a candidate text is decided by the first
check that fails, in the order of `candidate_class`.  `sdp_parse_candidate`
returns 0, and fills the output candidate, exactly when no check fails;
returns 1, with no output, exactly when the first check that fails is the
transport, an address or the candidate type; and returns -1 exactly when a
mandatory token is missing or the first check that fails is the digits of a
numeric field or one of the keywords.  In attribute parsing a candidate of
the second kind comes back with code 0, tagged as a candidate, and with
`parsed` unset. -/
theorem c23_parse_candidate (env : Env) (buf : List Char) (s : Str) :
    ((sdp_parse_candidate env buf s).1 = 0 ↔ candidate_class env buf s = cand_class.parsed) ∧
    ((sdp_parse_candidate env buf s).1 = 1 ↔ candidate_class env buf s = cand_class.unparsed) ∧
    ((sdp_parse_candidate env buf s).1 = -1 ↔ candidate_class env buf s = cand_class.error) ∧
    ((sdp_parse_candidate env buf s).2.isSome ↔ (sdp_parse_candidate env buf s).1 = 0) ∧
    (∀ (output : sdp_attribute) (extended : Bool),
      output.strs.value = s → output.candidate.parsed = false →
      candidate_class env buf s = cand_class.unparsed →
      (parse_attribute_candidate env buf output extended).1 = 0 ∧
      (parse_attribute_candidate env buf output extended).2.attr = attr_id.ATTR_CANDIDATE ∧
      (parse_attribute_candidate env buf output extended).2.candidate.parsed = false) := by
  have h := parse_attribute_candidate_outcome env buf { strs := { value := s } } true
  have hlast : ∀ (output : sdp_attribute) (extended : Bool),
      output.strs.value = s → output.candidate.parsed = false →
      candidate_class env buf s = cand_class.unparsed →
      (parse_attribute_candidate env buf output extended).1 = 0 ∧
      (parse_attribute_candidate env buf output extended).2.attr = attr_id.ATTR_CANDIDATE ∧
      (parse_attribute_candidate env buf output extended).2.candidate.parsed = false := by
    intro output extended hv hp hc
    have h2 := parse_attribute_candidate_outcome env buf output extended
    rw [hv, hc] at h2
    exact ⟨h2.1, parse_attribute_candidate_attr env buf output extended, h2.2.trans hp⟩
  rw [show ({ strs := { value := s } } : sdp_attribute).strs.value = s from rfl] at h
  unfold sdp_parse_candidate
  simp only
  generalize parse_attribute_candidate env buf { strs := { value := s } } true = r at h ⊢
  refine ⟨?_, ?_, ?_, ?_, hlast⟩
  all_goals
    cases hc : candidate_class env buf s with
    | parsed =>
      rw [hc] at h
      simp [h.1, h.2]
    | unparsed =>
      rw [hc] at h
      have h3 : r.2.candidate.parsed = false := h.2
      simp [h.1, h3]
    | error =>
      rw [hc] at h
      have h3 : r.1 = -1 := h
      simp [h3]

/-- C23 (amended) on a candidate with the unknown transport `FOO`: the text is
of the second kind, `sdp_parse_candidate` returns 1, the attribute parser
returns 0 with `parsed` unset, and the parser of a body keeps the attribute
in the attribute list of its media section. -/
theorem c23_parse_candidate_witness :
    (sdp_parse_candidate demo_env demo_candidate_foo (demo_whole demo_candidate_foo)).1 = 1 ∧
    ((parse_attribute_candidate demo_env demo_candidate_foo
        { strs := { value := demo_whole demo_candidate_foo } } false).1 = 0 ∧
     (parse_attribute_candidate demo_env demo_candidate_foo
        { strs := { value := demo_whole demo_candidate_foo } } false).2.attr
        = attr_id.ATTR_CANDIDATE ∧
     (parse_attribute_candidate demo_env demo_candidate_foo
        { strs := { value := demo_whole demo_candidate_foo } } false).2.candidate.parsed
        = false) ∧
    ((demo_media_of demo_candidate_body).attributes.list.map
      (fun a => (a.attr, a.candidate.parsed))) = [(attr_id.ATTR_CANDIDATE, false)] :=
  with_facts3 (fun fact1 fact2 fact3 =>
    ⟨fact1,
     (c23_parse_candidate demo_env demo_candidate_foo (demo_whole demo_candidate_foo)).2.2.2.2
       { strs := { value := demo_whole demo_candidate_foo } } false rfl rfl (fact2),
     fact3⟩) (by decide!)

/-- C23 fails as stated.  In `1 1 FOO abc 1.2.3.4 5 typ host` all eight
mandatory tokens are there and the priority `abc`, a numeric field, has no
digits, so the claim asks for -1; but the transport `FOO`, which is unknown,
is checked before the priority, and `sdp_parse_candidate` returns 1. -/
theorem c23_counterexample :
    (extract_tokens demo_candidate_mixed 8 (demo_whole demo_candidate_mixed)).isSome = true ∧
    has_digits demo_candidate_mixed { s := some 8, len := 3 } = false ∧
    str_bytes demo_candidate_mixed { s := some 8, len := 3 } = "abc".toList ∧
    ((extract_tokens demo_candidate_mixed 8 (demo_whole demo_candidate_mixed)).map
      (fun p => p.1.map (str_bytes demo_candidate_mixed)))
      = some ["1".toList, "1".toList, "FOO".toList, "abc".toList, "1.2.3.4".toList,
          "5".toList, "typ".toList, "host".toList] ∧
    sdp_parse_candidate demo_env demo_candidate_mixed (demo_whole demo_candidate_mixed)
      = (1, none) :=
  with_facts5 (fun fact1 fact2 fact3 fact4 fact5 =>
    ⟨fact1, fact2, fact3, fact4, fact5⟩) (by decide!)

/-! ## Copying up to a pointer -/

/-- C28: for a chopper with read position `pos` and a target offset `P`.  If
`P ≥ pos`, the three copy functions return 0, append the input bytes
`[pos, P)` to the output and set the position to `P`; for `P` inside the
input these are `P - pos` bytes, the `i`-th of them the input byte at
`pos + i`.  If `P < pos` they return -1 and leave the chopper, and so the
output and the position, as it is. -/
theorem c28_copy_up_to (chop : sdp_chopper) (P : Nat) (w v : Str)
    (hw : w.s = some P) (hv : v.s.map (· + v.len) = some P) :
    (chop.position ≤ P →
      copy_up_to_ptr chop (some P) = (0, { chop with
        output := chop.output ++ bytes_at chop.input chop.position (P - chop.position),
        position := P }) ∧
      copy_up_to chop w = copy_up_to_ptr chop (some P) ∧
      copy_up_to_end_of chop v = copy_up_to_ptr chop (some P) ∧
      (P ≤ chop.input.length →
        (bytes_at chop.input chop.position (P - chop.position)).length = P - chop.position ∧
        ∀ i, i < P - chop.position →
          (bytes_at chop.input chop.position (P - chop.position)).getD i (Char.ofNat 0)
            = getc chop.input (chop.position + i))) ∧
    (P < chop.position →
      copy_up_to_ptr chop (some P) = (-1, chop) ∧
      copy_up_to chop w = (-1, chop) ∧
      copy_up_to_end_of chop v = (-1, chop)) := by
  have e1 : copy_up_to chop w = copy_up_to_ptr chop (some P) := by
    unfold copy_up_to; rw [hw]
  have e2 : copy_up_to_end_of chop v = copy_up_to_ptr chop (some P) := by
    unfold copy_up_to_end_of; rw [hv]
  constructor
  · intro hpos
    refine ⟨?_, e1, e2, ?_⟩
    · unfold copy_up_to_ptr
      simp only
      have h1 : ¬ ((P : Int) - (chop.position : Int) < 0) := by omega
      have h2 : ((P : Int) - (chop.position : Int)).toNat = P - chop.position := by omega
      simp only [h1, if_false, h2, chopper_append]
      congr 2
      omega
    · intro hin
      constructor
      · simp only [bytes_at, List.length_take, List.length_drop]
        omega
      · intro i hi
        simp only [bytes_at, getc]
        have hlen : i < ((chop.input.drop chop.position).take (P - chop.position)).length := by
          simp only [List.length_take, List.length_drop]
          omega
        rw [List.getD_eq_getElem _ _ hlen, List.getElem_take, List.getElem_drop]
        rw [List.getD_eq_getElem _ _ (by omega)]
  · intro hlt
    have h : copy_up_to_ptr chop (some P) = (-1, chop) := by
      unfold copy_up_to_ptr
      simp only
      have h1 : (P : Int) - (chop.position : Int) < 0 := by omega
      simp only [h1, if_true]
    exact ⟨h, e1.trans h, e2.trans h⟩

/-- C28 on a chopper at position 10: the copy up to offset 13 appends the
three input bytes ` 1 `, the copy up to offset 5 fails and changes nothing. -/
theorem c28_copy_up_to_witness :
    copy_up_to demo_copy_chop { s := some 13, len := 2 } =
      (0, { demo_copy_chop with output := "v=0\r 1 ".toList, position := 13 }) ∧
    copy_up_to demo_copy_chop { s := some 5, len := 2 } = (-1, demo_copy_chop) := by
  have h := (c28_copy_up_to demo_copy_chop 13 { s := some 13, len := 2 }
    { s := some 11, len := 2 } rfl rfl).1 (by decide)
  have g := (c28_copy_up_to demo_copy_chop 5 { s := some 5, len := 2 }
    { s := some 3, len := 2 } rfl rfl).2 (by decide)
  refine ⟨?_, g.2.1⟩
  rw [h.2.1, h.1]
  decide!

/-! ## Replacement in the output -/

theorem g_string_overwrite_inside (s : List Char) (pos : Nat) (val : List Char)
    (h : pos ≤ s.length) :
    g_string_overwrite s pos val = s.take pos ++ val ++ s.drop (pos + val.length) := by
  unfold g_string_overwrite
  rw [if_neg (by omega)]

theorem take_two_left (a b c : List Char) (n : Nat) (h : a.length + b.length = n) :
    (a ++ b ++ c).take n = a ++ b := by
  have : (a ++ b).length = n := by rw [List.length_append]; exact h
  exact List.take_left' this

theorem drop_two_left (a b c : List Char) (n : Nat) (h : a.length + b.length = n) :
    (a ++ b ++ c).drop n = c := by
  have : (a ++ b).length = n := by rw [List.length_append]; exact h
  exact List.drop_left' this

/-- A string without a NUL byte is the C string it begins. -/
theorem c_string_eq (r : List Char) (h : ∀ x ∈ r, x ≠ Char.ofNat 0) : c_string r = r := by
  unfold c_string
  rw [List.takeWhile_eq_self_iff]
  intro x hx
  simpa using h x hx

theorem digitChar_ne_nul (n : Nat) : Nat.digitChar n ≠ Char.ofNat 0 := by
  intro h
  have key : ∀ m, m < 36 → Nat.digitChar m ≠ Char.ofNat 0 := by decide
  by_cases hn : n < 36
  · exact key n hn h
  · have : Nat.digitChar n = '*' := by
      unfold Nat.digitChar
      repeat (rw [if_neg (by omega)])
    rw [this] at h
    exact absurd h (by decide)

theorem toDigitsCore_no_nul (b : Nat) :
    ∀ (fuel n : Nat) (ds : List Char), (∀ x ∈ ds, x ≠ Char.ofNat 0) →
      ∀ x ∈ Nat.toDigitsCore b fuel n ds, x ≠ Char.ofNat 0 := by
  intro fuel
  induction fuel with
  | zero => intro n ds h; simpa [Nat.toDigitsCore] using h
  | succ f ih =>
    intro n ds h
    unfold Nat.toDigitsCore
    simp only
    have hd : ∀ x ∈ (n % b).digitChar :: ds, x ≠ Char.ofNat 0 := by
      intro x hx
      rcases List.mem_cons.mp hx with rfl | hx
      · exact digitChar_ne_nul _
      · exact h x hx
    split
    · exact hd
    · exact ih _ _ hd

/-- The digits that `printf` writes for a number hold no NUL byte. -/
theorem print_uint_no_nul (n : Nat) : ∀ x ∈ print_uint n, x ≠ Char.ofNat 0 := by
  unfold print_uint Nat.toDigits
  exact toDigitsCore_no_nul 10 _ _ [] (by simp)

/-- `chopper_replace` when the adjusted position is `q` and the replacement
holds no NUL byte. -/
theorem chopper_replace_at (c : sdp_chopper) (L p q : Nat) (r : List Char)
    (hnul : ∀ x ∈ r, x ≠ Char.ofNat 0)
    (hpos : (p : Int) + c.offset = (q : Int)) (hq : q < 2 ^ 64)
    (hin : q + L ≤ c.output.length) :
    (chopper_replace c L p r).1.output = c.output.take q ++ r ++ c.output.drop (q + L) ∧
    (chopper_replace c L p r).1.offset = c.offset + ((r.length : Int) - (L : Int)) ∧
    (chopper_replace c L p r).2.1 = r.length ∧
    (chopper_replace c L p r).2.2 = q ∧
    (chopper_replace c L p r).1.input = c.input ∧
    (chopper_replace c L p r).1.position = c.position := by
  have hq2 : ((((p : Int) + c.offset) % 2 ^ 64).toNat) = q := by
    rw [hpos, Int.emod_eq_of_lt (by omega) (by omega)]
    rfl
  have hqlen : q ≤ c.output.length := by omega
  have htl : (c.output.take q).length = q := by
    rw [List.length_take]; omega
  have e1 : c_string r = r := c_string_eq r hnul
  have e2 : c_string (r.drop L) = r.drop L :=
    c_string_eq _ (fun x hx => hnul x (List.mem_of_mem_drop hx))
  unfold chopper_replace
  simp only [hq2, e1, e2]
  by_cases h1 : r.length > L
  · rw [if_pos h1]
    have hrt : (r.take L).length = L := by rw [List.length_take]; omega
    have o1 : g_string_overwrite c.output q (r.take L)
        = c.output.take q ++ r.take L ++ c.output.drop (q + L) := by
      rw [g_string_overwrite_inside _ _ _ hqlen, hrt]
    refine ⟨?_, rfl, rfl, rfl, rfl, rfl⟩
    show g_string_insert (g_string_overwrite c.output q (r.take L)) (q + L) (r.drop L) = _
    rw [o1]
    unfold g_string_insert
    rw [if_neg (by simp only [List.length_append, List.length_drop, htl, hrt]; omega)]
    rw [take_two_left _ _ _ _ (by omega), drop_two_left _ _ _ _ (by omega)]
    simp only [List.append_assoc, List.take_append_drop]
  · rw [if_neg h1]
    have o1 : g_string_overwrite c.output q r
        = c.output.take q ++ r ++ c.output.drop (q + r.length) :=
      g_string_overwrite_inside _ _ _ hqlen
    by_cases h2 : r.length < L
    · rw [if_pos h2]
      refine ⟨?_, ?_, rfl, rfl, rfl, rfl⟩
      · show g_string_erase (g_string_overwrite c.output q r) (q + r.length) (L - r.length) = _
        rw [o1]
        unfold g_string_erase
        have hl : (c.output.take q ++ r ++ c.output.drop (q + r.length)).length
            = c.output.length := by
          simp only [List.length_append, List.length_drop, htl]
          omega
        rw [if_neg (by rw [hl]; omega), if_neg (by rw [hl]; omega)]
        rw [take_two_left _ _ _ _ (by omega)]
        rw [← List.drop_drop, drop_two_left _ _ _ _ (by omega), List.drop_drop]
        congr 2
        omega
      · show c.offset - ((L : Int) - (r.length : Int)) = _
        omega
    · rw [if_neg h2]
      have hl : r.length = L := by omega
      refine ⟨?_, ?_, hl.symm, rfl, rfl, rfl⟩
      · show g_string_overwrite c.output q r = _
        rw [o1, hl]
      · show c.offset = _
        omega

/-- C29 (as amended): for a chopper with output `out` (shorter than 2^64
bytes) and accumulated offset `d`, a remembered position `p` and a recorded
length `L` with `0 ≤ p + d` and `p + d + L` within the output, and replacement
bytes `r` that hold no NUL byte: `chopper_replace` turns the output into
`out[0, p+d) ++ r ++ out[p+d+L, end)`, whether `r` is longer, shorter or as
long as `L`, adds `|r| - L` to the accumulated offset, sets the recorded length
to `|r|`, and leaves the caller's position at `p + d`. -/
theorem c29_chopper_replace (c : sdp_chopper) (L p : Nat) (r : List Char)
    (hnul : ∀ x ∈ r, x ≠ Char.ofNat 0)
    (hsz : c.output.length < 2 ^ 64)
    (h0 : 0 ≤ (p : Int) + c.offset)
    (hin : ((p : Int) + c.offset).toNat + L ≤ c.output.length) :
    (chopper_replace c L p r).1.output =
      c.output.take ((p : Int) + c.offset).toNat ++ r ++
        c.output.drop (((p : Int) + c.offset).toNat + L) ∧
    (chopper_replace c L p r).1.offset = c.offset + ((r.length : Int) - (L : Int)) ∧
    (chopper_replace c L p r).2.1 = r.length ∧
    (chopper_replace c L p r).2.2 = ((p : Int) + c.offset).toNat ∧
    (chopper_replace c L p r).1.input = c.input ∧
    (chopper_replace c L p r).1.position = c.position :=
  chopper_replace_at c L p ((p : Int) + c.offset).toNat r hnul (by omega) (by omega) hin

/-- C29 on the output `o=- 1 1 IN` with the version `1` at position 6: the
replacements by `12345`, by the empty string and by `7` give the three
outputs, with the offset moved by 4, by -1 and by 0. -/
theorem c29_chopper_replace_witness :
    ((chopper_replace { input := [], input_len := 0, output := "o=- 1 1 IN".toList }
        1 6 "12345".toList).1.output = "o=- 1 12345 IN".toList ∧
     (chopper_replace { input := [], input_len := 0, output := "o=- 1 1 IN".toList }
        1 6 "12345".toList).1.offset = 4) ∧
    ((chopper_replace { input := [], input_len := 0, output := "o=- 1 1 IN".toList }
        1 6 []).1.output = "o=- 1  IN".toList ∧
     (chopper_replace { input := [], input_len := 0, output := "o=- 1 1 IN".toList }
        1 6 []).1.offset = -1) ∧
    ((chopper_replace { input := [], input_len := 0, output := "o=- 1 1 IN".toList }
        1 6 "7".toList).1.output = "o=- 1 7 IN".toList ∧
     (chopper_replace { input := [], input_len := 0, output := "o=- 1 1 IN".toList }
        1 6 "7".toList).1.offset = 0) := by
  have h1 := c29_chopper_replace { input := [], input_len := 0, output := "o=- 1 1 IN".toList }
    1 6 "12345".toList (by decide) (by decide) (by decide) (by decide)
  have h2 := c29_chopper_replace { input := [], input_len := 0, output := "o=- 1 1 IN".toList }
    1 6 [] (by decide) (by decide) (by decide) (by decide)
  have h3 := c29_chopper_replace { input := [], input_len := 0, output := "o=- 1 1 IN".toList }
    1 6 "7".toList (by decide) (by decide) (by decide) (by decide)
  exact ⟨⟨h1.1.trans (by decide), h1.2.1.trans (by decide)⟩,
    ⟨h2.1.trans (by decide), h2.2.1.trans (by decide)⟩,
    ⟨h3.1.trans (by decide), h3.2.1.trans (by decide)⟩⟩

/-- C29 as stated fails.  The replacement bytes `7`, NUL, `9` have length 3.
With the version `1` of the output `o=- 1 1 IN` recorded at position 6 with
length 1, `chopper_replace` writes the `7` only, since `g_string_insert` takes
the rest as a C string, which is empty; the output is not
`out[0, 6) ++ r ++ out[7, end)`, while the offset moves by 2 and the recorded
length becomes 3. -/
theorem c29_counterexample :
    (chopper_replace { input := [], input_len := 0, output := "o=- 1 1 IN".toList }
        1 6 ['7', Char.ofNat 0, '9']).1.output = "o=- 1 7 IN".toList ∧
    (chopper_replace { input := [], input_len := 0, output := "o=- 1 1 IN".toList }
        1 6 ['7', Char.ofNat 0, '9']).1.output ≠
      "o=- 1 1 IN".toList.take 6 ++ ['7', Char.ofNat 0, '9'] ++ "o=- 1 1 IN".toList.drop 7 ∧
    (chopper_replace { input := [], input_len := 0, output := "o=- 1 1 IN".toList }
        1 6 ['7', Char.ofNat 0, '9']).1.offset = 2 ∧
    (chopper_replace { input := [], input_len := 0, output := "o=- 1 1 IN".toList }
        1 6 ['7', Char.ofNat 0, '9']).2.1 = 3 :=
  ⟨by decide, by decide, by decide, by decide⟩

/-! ## Fingerprints -/

theorem hex_digit_lt (c : Char) (v : Nat) (h : hex_digit c = some v) : v < 16 := by
  unfold hex_digit at h
  split at h
  · rename_i h1
    simp only [Bool.and_eq_true, decide_eq_true_eq] at h1
    injection h with h
    have h9 : c.toNat ≤ 57 := h1.2
    omega
  · split at h
    · rename_i h1
      simp only [Bool.and_eq_true, decide_eq_true_eq] at h1
      injection h with h
      have h9 : c.toNat ≤ 102 := h1.2
      have h8 : 97 ≤ c.toNat := h1.1
      omega
    · split at h
      · rename_i h1
        simp only [Bool.and_eq_true, decide_eq_true_eq] at h1
        injection h with h
        have h9 : c.toNat ≤ 70 := h1.2
        have h8 : 65 ≤ c.toNat := h1.1
        omega
      · exact Option.noConfusion h

/-- The loop of `parse_attribute_fingerprint` ends at `done` with the right
count exactly on `k` pairs, and then the digest is the bytes of the pairs. -/
theorem fingerprint_loop_iff (buf : List Char) :
    ∀ (k c : Nat) (acc d : List Nat),
      fingerprint_loop buf k c acc = some d ↔
        fingerprint_pairs buf c k ∧
        d = acc ++ (List.range k).map (fingerprint_byte buf c) := by
  intro k
  induction k with
  | zero =>
    intro c acc d
    simp [fingerprint_loop, fingerprint_pairs]
  | succ k ih =>
    intro c acc d
    unfold fingerprint_loop
    cases hhi : hex_digit (getc buf c) with
    | none =>
      simp only
      constructor
      · intro h; exact Option.noConfusion h
      · rintro ⟨⟨_, hp, _, _⟩, _⟩
        have := (hp 0 (by omega)).1
        simp only [Nat.mul_zero, Nat.add_zero, hhi] at this
        exact absurd this (by simp)
    | some hi =>
      cases hlo : hex_digit (getc buf (c + 1)) with
      | none =>
        simp only
        constructor
        · intro h; exact Option.noConfusion h
        · rintro ⟨⟨_, hp, _, _⟩, _⟩
          have := (hp 0 (by omega)).2
          simp only [Nat.mul_zero, Nat.add_zero, hlo] at this
          exact absurd this (by simp)
      | some lo =>
        simp only
        have hb : hi * 16 % 256 + lo = fingerprint_byte buf c 0 := by
          have := hex_digit_lt _ _ hhi
          simp only [fingerprint_byte, hex_value, Nat.mul_zero, Nat.add_zero, hhi, hlo,
            Option.getD_some]
          omega
        have hshift : ∀ i, fingerprint_byte buf (c + 3) i = fingerprint_byte buf c (i + 1) := by
          intro i
          simp only [fingerprint_byte]
          rw [show c + 3 + 3 * i = c + 3 * (i + 1) by ring]
        have hrange : (List.range (k + 1)).map (fingerprint_byte buf c)
            = fingerprint_byte buf c 0 :: (List.range k).map (fingerprint_byte buf (c + 3)) := by
          rw [List.range_succ_eq_map, List.map_cons, List.map_map]
          congr 1
          apply List.map_congr_left
          intro i _
          exact (hshift i).symm
        by_cases hcol : getc buf (c + 2) = ':'
        · rw [if_neg (by simpa using hcol), ih, hrange, hb]
          simp only [List.append_assoc, List.singleton_append]
          apply and_congr_left'
          unfold fingerprint_pairs
          constructor
          · rintro ⟨h1, hp, hs, hl⟩
            refine ⟨by omega, ?_, ?_, ?_⟩
            · intro i hi
              cases i with
              | zero => simp [hhi, hlo]
              | succ j =>
                have := hp j (by omega)
                rw [show c + 3 * (j + 1) = c + 3 + 3 * j by ring]
                exact this
            · intro i hi
              cases i with
              | zero => simpa using hcol
              | succ j =>
                have := hs j (by omega)
                rw [show c + 3 * (j + 1) = c + 3 + 3 * j by ring]
                exact this
            · rw [show c + 3 * (k + 1 - 1) = c + 3 + 3 * (k - 1) by
                have : k + 1 - 1 = (k - 1) + 1 := by omega
                rw [this]; ring]
              exact hl
          · rintro ⟨_, hp, hs, hl⟩
            have hk : 1 ≤ k := by
              by_contra hk
              have hk0 : k = 0 := by omega
              subst hk0
              simp only [Nat.zero_add, Nat.sub_self, Nat.mul_zero, Nat.add_zero] at hl
              exact hl hcol
            refine ⟨hk, ?_, ?_, ?_⟩
            · intro i hi
              have := hp (i + 1) (by omega)
              rw [show c + 3 * (i + 1) = c + 3 + 3 * i by ring] at this
              exact this
            · intro i hi
              have := hs (i + 1) (by omega)
              rw [show c + 3 * (i + 1) = c + 3 + 3 * i by ring] at this
              exact this
            · rw [show c + 3 * (k + 1 - 1) = c + 3 + 3 * (k - 1) by
                have : k + 1 - 1 = (k - 1) + 1 := by omega
                rw [this]; ring] at hl
              exact hl
        · rw [if_pos (by simpa using hcol)]
          by_cases hk : k = 0
          · subst hk
            rw [if_pos rfl]
            rw [show (List.range (0 + 1)).map (fingerprint_byte buf c)
              = [fingerprint_byte buf c 0] from rfl, ← hb]
            constructor
            · intro h
              injection h with h
              refine ⟨⟨by omega, ?_, ?_, ?_⟩, h.symm⟩
              · intro i hi
                have : i = 0 := by omega
                subst this
                simp [hhi, hlo]
              · intro i hi; omega
              · simpa using hcol
            · rintro ⟨_, h⟩
              rw [h]
          · rw [if_neg hk]
            constructor
            · intro h; exact Option.noConfusion h
            · rintro ⟨⟨_, _, hs, _⟩, _⟩
              have := hs 0 (by omega)
              simp only [Nat.mul_zero, Nat.add_zero] at this
              exact absurd this hcol

/-- C27 (amended): for an `a=fingerprint` value with two tokens whose first
names a known hash function of digest length `n`: `parse_attribute_fingerprint`
returns 0 or -1, and 0 if and only if the text at the second token begins
with `n` pairs of hexadecimal digits (`n ≥ 1`), with a `:` after each pair but
the last and a byte other than `:` after the last; whatever follows that byte
is not examined.  On acceptance the stored digest is the `n` bytes of the
pairs in order. -/
theorem c27_fingerprint (env : Env) (buf : List Char) (output : sdp_attribute)
    (hash_func_str r1 fingerprint_str r2 : Str) (hf : dtls_hash_func)
    (e1 : extract_token buf output.strs.value = some (hash_func_str, r1))
    (e2 : extract_token buf r1 = some (fingerprint_str, r2))
    (hh : env.dtls_find_hash_func (str_bytes buf hash_func_str) = some hf) :
    ((parse_attribute_fingerprint env buf output).1 = 0 ∨
      (parse_attribute_fingerprint env buf output).1 = -1) ∧
    ((parse_attribute_fingerprint env buf output).1 = 0 ↔
      fingerprint_pairs buf (fingerprint_str.s.getD 0) hf.num_bytes) ∧
    ((parse_attribute_fingerprint env buf output).1 = 0 →
      (parse_attribute_fingerprint env buf output).2.attr = attr_id.ATTR_FINGERPRINT ∧
      (parse_attribute_fingerprint env buf output).2.fingerprint.hash_func = some hf ∧
      (parse_attribute_fingerprint env buf output).2.fingerprint.fingerprint =
        (List.range hf.num_bytes).map (fingerprint_byte buf (fingerprint_str.s.getD 0))) := by
  unfold parse_attribute_fingerprint
  simp only [e1, e2, hh]
  cases hl : fingerprint_loop buf hf.num_bytes (fingerprint_str.s.getD 0) [] with
  | none =>
    have hn : ¬ fingerprint_pairs buf (fingerprint_str.s.getD 0) hf.num_bytes := by
      intro hp
      have := (fingerprint_loop_iff buf hf.num_bytes (fingerprint_str.s.getD 0) [] _).mpr
        ⟨hp, rfl⟩
      rw [hl] at this
      exact Option.noConfusion this
    simp [hn]
  | some d =>
    obtain ⟨hp, hd⟩ := (fingerprint_loop_iff buf hf.num_bytes _ [] d).mp hl
    simp [hp, hd]

/-- C27 (amended) on a SHA-1 fingerprint of twenty pairs: it is accepted and
the digest is the bytes 0 to 19. -/
theorem c27_fingerprint_witness :
    (parse_attribute_fingerprint demo_env demo_fingerprint
      { strs := { value := demo_whole demo_fingerprint } }).1 = 0 ∧
    (parse_attribute_fingerprint demo_env demo_fingerprint
      { strs := { value := demo_whole demo_fingerprint } }).2.fingerprint.fingerprint
      = List.range 20 :=
  with_facts5 (fun fact1 fact2 fact3 fact4 fact5 => by
    have h := c27_fingerprint demo_env demo_fingerprint
      { strs := { value := demo_whole demo_fingerprint } }
      { s := some 0, len := 5 } { s := some 6, len := 59 } { s := some 6, len := 59 } STR_NULL
      { name := "sha-1".toList, num_bytes := 20 } (fact1) (fact2) (fact3)
    have h0 : (parse_attribute_fingerprint demo_env demo_fingerprint
        { strs := { value := demo_whole demo_fingerprint } }).1 = 0 := fact4
    exact ⟨h0, (h.2.2 h0).2.2.trans (fact5)⟩) (by decide!)

/-- C27 fails as stated.  The hex part of `demo_fingerprint_junk` is the twenty
pairs of SHA-1 followed by `zz`: it does not consist of exactly twenty pairs
and it holds bytes that are no hexadecimal digits, and yet the parser
accepts it, with the digest of the twenty pairs. -/
theorem c27_counterexample :
    ((extract_tokens demo_fingerprint_junk 2 (demo_whole demo_fingerprint_junk)).map
      (fun p => p.1.map (str_bytes demo_fingerprint_junk)))
      = some ["sha-1".toList,
          "00:01:02:03:04:05:06:07:08:09:0A:0B:0C:0D:0E:0F:10:11:12:13zz".toList] ∧
    (parse_attribute_fingerprint demo_env demo_fingerprint_junk
      { strs := { value := demo_whole demo_fingerprint_junk } }).1 = 0 ∧
    (parse_attribute_fingerprint demo_env demo_fingerprint_junk
      { strs := { value := demo_whole demo_fingerprint_junk } }).2.fingerprint.fingerprint
      = List.range 20 :=
  with_facts3 (fun fact1 fact2 fact3 =>
    ⟨fact1, fact2, fact3⟩) (by decide!)

/-! ## Base64 -/

theorem base64_alphabet_rank :
    ∀ n, n < 64 → mime_base64_rank (base64_alphabet n) = some n ∧ base64_alphabet n ≠ '=' := by
  decide

theorem g_base64_decode_char_alphabet (st : base64_decode) (n : Nat) (h : n < 64) :
    g_base64_decode_char st (base64_alphabet n) =
      if st.i + 1 = 4 then
        { v := (st.v * 64 + n) % 2 ^ 32, i := 0, last0 := base64_alphabet n,
          last1 := st.last0,
          out := st.out ++ [(st.v * 64 + n) % 2 ^ 32 / 2 ^ 16 % 256] ++
            (if st.last0 ≠ '=' then [(st.v * 64 + n) % 2 ^ 32 / 2 ^ 8 % 256] else []) ++
            [(st.v * 64 + n) % 2 ^ 32 % 256] }
      else { v := (st.v * 64 + n) % 2 ^ 32, i := st.i + 1, last0 := base64_alphabet n,
             last1 := st.last0, out := st.out } := by
  unfold g_base64_decode_char
  rw [(base64_alphabet_rank n h).1]
  simp only [(base64_alphabet_rank n h).2, ne_eq, not_false_eq_true, if_true]

theorem g_base64_decode_char_pad (st : base64_decode) :
    g_base64_decode_char st '=' =
      if st.i + 1 = 4 then
        { v := (st.v * 64) % 2 ^ 32, i := 0, last0 := '=', last1 := st.last0,
          out := st.out ++ [(st.v * 64) % 2 ^ 32 / 2 ^ 16 % 256] ++
            (if st.last0 ≠ '=' then [(st.v * 64) % 2 ^ 32 / 2 ^ 8 % 256] else []) }
      else { v := (st.v * 64) % 2 ^ 32, i := st.i + 1, last0 := '=',
             last1 := st.last0, out := st.out } := by
  unfold g_base64_decode_char
  rw [show mime_base64_rank '=' = some 0 from by decide]
  simp

/-- The decoder on the four characters of three bytes, at the start of a group. -/
theorem g_base64_decode_quad (st : base64_decode) (c1 c2 c3 : Nat) (h1 : c1 < 256)
    (h2 : c2 < 256) (h3 : c3 < 256) (hi : st.i = 0) :
    ((base64_quad c1 c2 c3).foldl g_base64_decode_char st).i = 0 ∧
    ((base64_quad c1 c2 c3).foldl g_base64_decode_char st).last0 ≠ '=' ∧
    ((base64_quad c1 c2 c3).foldl g_base64_decode_char st).out = st.out ++ [c1, c2, c3] := by
  have a1 : c1 / 4 < 64 := by omega
  have a2 : c2 / 16 + c1 % 4 * 16 < 64 := by omega
  have a3 : c2 % 16 * 4 + c3 / 64 < 64 := by omega
  have a4 : c3 % 64 < 64 := by omega
  simp only [base64_quad, List.foldl]
  rw [g_base64_decode_char_alphabet _ _ a1, hi]
  simp only [show ¬ (0 + 1 = 4) from by decide, if_false]
  rw [g_base64_decode_char_alphabet _ _ a2]
  simp only [show ¬ (0 + 1 + 1 = 4) from by decide, if_false]
  rw [g_base64_decode_char_alphabet _ _ a3]
  simp only [show ¬ (0 + 1 + 1 + 1 = 4) from by decide, if_false]
  rw [g_base64_decode_char_alphabet _ _ a4]
  simp only [show (0 + 1 + 1 + 1 + 1 = 4) from rfl, if_true,
    (base64_alphabet_rank _ a3).2, (base64_alphabet_rank _ a4).2, ne_eq, not_false_eq_true]
  refine ⟨trivial, ?_⟩
  simp only [List.append_assoc, List.singleton_append, List.append_cancel_left_eq,
    List.cons.injEq, and_true]
  generalize st.v = v
  refine ⟨trivial, ?_⟩
  simp only [List.cons_append, List.nil_append, List.cons.injEq, and_true]
  refine ⟨?_, ?_, ?_⟩ <;> omega

/-- The decoder on the characters of a byte string without the padding,
from the start of a group: the bytes of the complete groups are written, and
the accumulator holds the bits of the one or two bytes left over. -/
theorem g_base64_decode_body :
    ∀ (n : Nat) (ks : List Nat), ks.length ≤ n → (∀ b ∈ ks, b < 256) →
      ∀ st : base64_decode, st.i = 0 → st.last0 ≠ '=' →
        (base64_body ks).length = (ks.length * 4 + 2) / 3 ∧
        ((base64_body ks).foldl g_base64_decode_char st).last0 ≠ '=' ∧
        (ks.length % 3 = 0 →
          ((base64_body ks).foldl g_base64_decode_char st).i = 0 ∧
          ((base64_body ks).foldl g_base64_decode_char st).out = st.out ++ ks) ∧
        (ks.length % 3 = 1 →
          ((base64_body ks).foldl g_base64_decode_char st).i = 2 ∧
          ∃ pre c, ks = pre ++ [c] ∧
            ((base64_body ks).foldl g_base64_decode_char st).out = st.out ++ pre ∧
            (((base64_body ks).foldl g_base64_decode_char st).v * 64 % 2 ^ 32 * 64) % 2 ^ 32
              / 2 ^ 16 % 256 = c) ∧
        (ks.length % 3 = 2 →
          ((base64_body ks).foldl g_base64_decode_char st).i = 3 ∧
          ∃ pre c1 c2, ks = pre ++ [c1, c2] ∧
            ((base64_body ks).foldl g_base64_decode_char st).out = st.out ++ pre ∧
            (((base64_body ks).foldl g_base64_decode_char st).v * 64) % 2 ^ 32
              / 2 ^ 16 % 256 = c1 ∧
            (((base64_body ks).foldl g_base64_decode_char st).v * 64) % 2 ^ 32
              / 2 ^ 8 % 256 = c2) := by
  intro n
  induction n with
  | zero =>
    intro ks hl _ st hi hne
    have : ks = [] := List.length_eq_zero.mp (by omega)
    subst this
    simp only [base64_body, List.foldl, List.length_nil, List.append_nil]
    exact ⟨by decide, hne, fun _ => ⟨hi, trivial⟩, fun h => absurd h (by decide),
      fun h => absurd h (by decide)⟩
  | succ n ih =>
    intro ks hl hb st hi hne
    match ks, hl, hb with
    | [], _, _ =>
      simp only [base64_body, List.foldl, List.length_nil, List.append_nil]
      exact ⟨by decide, hne, fun _ => ⟨hi, trivial⟩, fun h => absurd h (by decide),
        fun h => absurd h (by decide)⟩
    | [c], _, hb =>
      have h1 : c < 256 := hb c (by simp)
      have a1 : c / 4 < 64 := by omega
      have a2 : c % 4 * 16 < 64 := by omega
      simp only [base64_body, List.foldl]
      rw [g_base64_decode_char_alphabet _ _ a1, hi]
      simp only [show ¬ (0 + 1 = 4) from by decide, if_false]
      rw [g_base64_decode_char_alphabet _ _ a2]
      simp only [show ¬ (0 + 1 + 1 = 4) from by decide, if_false]
      refine ⟨by simp, (base64_alphabet_rank _ a2).2, fun h => by simp at h, ?_,
        fun h => by simp at h⟩
      intro _
      refine ⟨trivial, [], c, rfl, (List.append_nil _).symm, ?_⟩
      generalize st.v = v
      omega
    | [c1, c2], _, hb =>
      have h1 : c1 < 256 := hb c1 (by simp)
      have h2 : c2 < 256 := hb c2 (by simp)
      have a1 : c1 / 4 < 64 := by omega
      have a2 : c2 / 16 + c1 % 4 * 16 < 64 := by omega
      have a3 : c2 % 16 * 4 < 64 := by omega
      simp only [base64_body, List.foldl]
      rw [g_base64_decode_char_alphabet _ _ a1, hi]
      simp only [show ¬ (0 + 1 = 4) from by decide, if_false]
      rw [g_base64_decode_char_alphabet _ _ a2]
      simp only [show ¬ (0 + 1 + 1 = 4) from by decide, if_false]
      rw [g_base64_decode_char_alphabet _ _ a3]
      simp only [show ¬ (0 + 1 + 1 + 1 = 4) from by decide, if_false]
      refine ⟨by simp, (base64_alphabet_rank _ a3).2, fun h => by simp at h,
        fun h => by simp at h, ?_⟩
      intro _
      refine ⟨trivial, [], c1, c2, rfl, (List.append_nil _).symm, ?_, ?_⟩
      · generalize st.v = v
        omega
      · generalize st.v = v
        omega
    | c1 :: c2 :: c3 :: rest, hl, hb =>
      have h1 : c1 < 256 := hb c1 (by simp)
      have h2 : c2 < 256 := hb c2 (by simp)
      have h3 : c3 < 256 := hb c3 (by simp)
      have hq := g_base64_decode_quad st c1 c2 c3 h1 h2 h3 hi
      have hlr : rest.length ≤ n := by
        simp only [List.length_cons] at hl
        omega
      have hbr : ∀ b ∈ rest, b < 256 := fun b hm => hb b (by simp [hm])
      obtain ⟨g1, g2, g3, g4, g5⟩ := ih rest hlr hbr _ hq.1 hq.2.1
      have hbody : base64_body (c1 :: c2 :: c3 :: rest)
          = base64_quad c1 c2 c3 ++ base64_body rest := by
        simp only [base64_body]
      rw [hbody, List.foldl_append]
      have hlen : (c1 :: c2 :: c3 :: rest).length = rest.length + 3 := rfl
      rw [hlen]
      refine ⟨?_, g2, ?_, ?_, ?_⟩
      · rw [List.length_append, g1]
        simp only [base64_quad, List.length_cons, List.length_nil]
        omega
      · intro hm
        obtain ⟨e1, e2⟩ := g3 (by omega)
        refine ⟨e1, ?_⟩
        rw [e2, hq.2.2]
        simp
      · intro hm
        obtain ⟨e1, pre, c, e2, e3, e4⟩ := g4 (by omega)
        refine ⟨e1, c1 :: c2 :: c3 :: pre, c, by rw [e2]; rfl, ?_, e4⟩
        rw [e3, hq.2.2]
        simp
      · intro hm
        obtain ⟨e1, pre, d1, d2, e2, e3, e4, e5⟩ := g5 (by omega)
        refine ⟨e1, c1 :: c2 :: c3 :: pre, d1, d2, by rw [e2]; rfl, ?_, e4, e5⟩
        rw [e3, hq.2.2]
        simp

theorem g_base64_decode_flush2 (v : Nat) :
    (g_base64_decode_step (['=', '=', Char.ofNat 0].take 2) ((2 : Int), v)).1
      = [(v * 64 % 2 ^ 32 * 64) % 2 ^ 32 / 2 ^ 16 % 256] := by
  simp only [g_base64_decode_step, List.take, List.isEmpty, Bool.false_eq_true, if_false,
    List.foldl]
  rw [g_base64_decode_char_pad, g_base64_decode_char_pad]
  simp

theorem g_base64_decode_flush1 (v : Nat) :
    (g_base64_decode_step (['=', '=', Char.ofNat 0].take 1) ((3 : Int), v)).1
      = [(v * 64) % 2 ^ 32 / 2 ^ 16 % 256, (v * 64) % 2 ^ 32 / 2 ^ 8 % 256] := by
  simp only [g_base64_decode_step, List.take, List.isEmpty, Bool.false_eq_true, if_false,
    List.foldl]
  rw [g_base64_decode_char_pad]
  simp

/-- The decoding that `parse_attribute_crypto` makes of the base64 characters
of a byte string gives the byte string back. -/
theorem crypto_key_decode_body (ks : List Nat) (hb : ∀ b ∈ ks, b < 256) :
    (base64_body ks).length = (ks.length * 4 + 2) / 3 ∧
    crypto_key_decode g_base64_decode_step (base64_body ks) ((ks.length * 4 + 2) / 3) = ks := by
  obtain ⟨g1, g2, g3, g4, g5⟩ := g_base64_decode_body ks.length ks (le_refl _) hb
    { v := 0, i := 0, last0 := Char.ofNat 0 } rfl (by decide)
  refine ⟨g1, ?_⟩
  by_cases hk : ks = []
  · subst hk
    rfl
  · have hpos : 0 < ks.length := List.length_pos.mpr hk
    have hne : (base64_body ks).isEmpty = false := by
      cases hbd : base64_body ks with
      | nil => rw [hbd] at g1; simp at g1; omega
      | cons a l => rfl
    unfold crypto_key_decode
    have hd1 : g_base64_decode_step (base64_body ks) (0, 0) =
        (((base64_body ks).foldl g_base64_decode_char
            { v := 0, i := 0, last0 := Char.ofNat 0 }).out,
         ((((base64_body ks).foldl g_base64_decode_char
            { v := 0, i := 0, last0 := Char.ofNat 0 }).i : Nat) : Int),
         ((base64_body ks).foldl g_base64_decode_char
            { v := 0, i := 0, last0 := Char.ofNat 0 }).v) := by
      unfold g_base64_decode_step
      rw [hne]
      simp only [Bool.false_eq_true, if_false, Int.natAbs_zero, lt_self_iff_false, g2]
    simp only [hd1]
    generalize (base64_body ks).foldl g_base64_decode_char
      { v := 0, i := 0, last0 := Char.ofNat 0 } = st at g2 g3 g4 g5
    have hcases : ks.length % 3 = 0 ∨ ks.length % 3 = 1 ∨ ks.length % 3 = 2 := by omega
    rcases hcases with h0 | h1 | h2
    · obtain ⟨_, e2⟩ := g3 h0
      have he : (ks.length * 4 + 2) / 3 % 4 = 0 := by omega
      simp only [he, ne_eq, not_true_eq_false, if_false, List.append_nil, e2]
      rfl
    · obtain ⟨e1, pre, c, e2, e3, e4⟩ := g4 h1
      have he : (ks.length * 4 + 2) / 3 % 4 = 2 := by omega
      simp only [he, ne_eq, show ¬ (2 = 0) from by decide, not_false_eq_true, if_true, e1]
      rw [show ((2 : Nat) : Int) = 2 from rfl, show 4 - 2 = 2 from rfl, g_base64_decode_flush2,
        e3, e4, e2]
      rfl
    · obtain ⟨e1, pre, c1, c2, e2, e3, e4, e5⟩ := g5 h2
      have he : (ks.length * 4 + 2) / 3 % 4 = 3 := by omega
      simp only [he, ne_eq, show ¬ (3 = 0) from by decide, not_false_eq_true, if_true, e1]
      rw [show ((3 : Nat) : Int) = 3 from rfl, show 4 - 3 = 1 from rfl, g_base64_decode_flush1,
        e3, e4, e5, e2]
      rfl

/-! ## The blocks of the crypto parser -/

/-- `parse_attribute_crypto` after its three tokens is the sequence of its
blocks. -/
theorem parse_crypto_checked_blocks (env : Env) (buf : List Char) (c0 : attribute_crypto)
    (value_str : Str) :
    parse_crypto_checked env buf c0 value_str =
      match crypto_key env buf c0 with
      | none => none
      | some (c3, suite) =>
        match crypto_split buf (crypto_key_rest buf c3 suite) c3.mki_str with
        | none => none
        | some (lifetime_str, mki_str) =>
          match crypto_lifetime buf suite lifetime_str c3.lifetime with
          | none => none
          | some lifetime =>
            match crypto_mki buf mki_str
              { c3 with lifetime_str := lifetime_str, mki_str := mki_str,
                        lifetime := lifetime } with
            | none => none
            | some c6 => some (crypto_session_params buf (value_str.len + 1) value_str c6) := by
  unfold parse_crypto_checked crypto_key
  by_cases h1 : (strtoul buf (c0.tag_str.s.getD 0)).2 = c0.tag_str.s.getD 0
  · simp only [h1, if_true]
  · simp only [h1, if_false]
    cases hs : env.crypto_find_suite (str_bytes buf c0.crypto_suite_str) with
    | none => rfl
    | some suite =>
      simp only
      by_cases h2 : c0.key_params_str.len
          < 7 + ((suite.master_key_len + suite.master_salt_len) * 4 + 2) / 3
      · simp only [h2, if_true]
      · simp only [h2, if_false]
        by_cases h3 : (!str_case_eq (bytes_at buf (c0.key_params_str.s.getD 0) 7)
            "inline:".toList) = true
        · simp only [h3, if_true]
        · simp only [h3, Bool.false_eq_true, if_false]
          by_cases h4 : (crypto_key_decode env.g_base64_decode_step
              (bytes_at buf (((str_shift c0.key_params_str 7).getD c0.key_params_str).s.getD 0)
                (((suite.master_key_len + suite.master_salt_len) * 4 + 2) / 3))
              (((suite.master_key_len + suite.master_salt_len) * 4 + 2) / 3)).length
              ≠ suite.master_key_len + suite.master_salt_len
          · have h4b := h4
            simp only [crypto_key_decode] at h4b
            simp only [crypto_key_decode, h4b, ne_eq, not_false_eq_true, if_true]
          · have h4b := h4
            simp only [crypto_key_decode] at h4b
            simp only [ne_eq, not_not] at h4b
            simp only [crypto_key_decode, h4b, ne_eq, not_true_eq_false, if_false]
            rfl

theorem crypto_session_params_keeps (buf : List Char) :
    ∀ (fuel : Nat) (v : Str) (c : attribute_crypto),
      (crypto_session_params buf fuel v c).lifetime = c.lifetime ∧
      (crypto_session_params buf fuel v c).mki = c.mki ∧
      (crypto_session_params buf fuel v c).mki_len = c.mki_len ∧
      (crypto_session_params buf fuel v c).master_key = c.master_key ∧
      (crypto_session_params buf fuel v c).salt = c.salt ∧
      (crypto_session_params buf fuel v c).crypto_suite = c.crypto_suite ∧
      (crypto_session_params buf fuel v c).tag = c.tag := by
  intro fuel
  induction fuel with
  | zero => intro v c; exact ⟨rfl, rfl, rfl, rfl, rfl, rfl, rfl⟩
  | succ n ih =>
    intro v c
    unfold crypto_session_params
    cases h : str_token_sep buf v ' ' with
    | none => exact ⟨rfl, rfl, rfl, rfl, rfl, rfl, rfl⟩
    | some p =>
      simp only
      split_ifs
      all_goals
        obtain ⟨h1, h2, h3, h4, h5, h6, h7⟩ := ih p.2 _
        exact ⟨h1, h2, h3, h4, h5, h6, h7⟩

theorem crypto_mki_keeps (buf : List Char) (mki_str : Str) (c5 c6 : attribute_crypto)
    (h : crypto_mki buf mki_str c5 = some c6) :
    c6.lifetime = c5.lifetime ∧ c6.master_key = c5.master_key ∧ c6.salt = c5.salt ∧
    c6.crypto_suite = c5.crypto_suite ∧ c6.tag = c5.tag := by
  unfold crypto_mki at h
  split at h
  · injection h with h; rw [← h]; exact ⟨rfl, rfl, rfl, rfl, rfl⟩
  · split at h
    · exact Option.noConfusion h
    · simp only at h
      split at h
      · exact Option.noConfusion h
      · injection h with h; rw [← h]; exact ⟨rfl, rfl, rfl, rfl, rfl⟩

theorem crypto_mki_isSome (buf : List Char) (mki_str : Str) (c5 c5b : attribute_crypto) :
    (crypto_mki buf mki_str c5).isSome = (crypto_mki buf mki_str c5b).isSome := by
  unfold crypto_mki
  split
  · rfl
  · split
    · rfl
    · simp only
      split <;> rfl

/-- The lifetime block on a field of the form `2^n`. -/
theorem crypto_lifetime_power (buf : List Char) (suite : crypto_suite) (lifetime_str : Str)
    (old lp n : Nat) (hlp : lifetime_str.s = some lp) (hlen : 3 ≤ lifetime_str.len)
    (h2 : bytes_at buf lp 2 = "2^".toList) (hn : (strtoul buf (lp + 2)).1 = n) :
    crypto_lifetime buf suite lifetime_str old =
      if 1 ≤ n ∧ n < 64 ∧ 2 ^ n ≤ suite.srtp_lifetime then some (2 ^ n) else none := by
  unfold crypto_lifetime
  rw [hlp]
  simp only [hn, h2, ge_iff_le, hlen, decide_True, beq_self_eq_true, Bool.and_self, if_true]
  by_cases c1 : n = 0
  · subst c1
    simp
  · by_cases c2 : n ≥ 64
    · have : ¬ (n < 64) := by omega
      simp [c1, c2, this]
    · have hpos : 2 ^ n ≠ 0 := by positivity
      have c3 : n < 64 := by omega
      have c4 : 1 ≤ n := by omega
      simp only [c1, c2, decide_False, Bool.or_self, Bool.false_eq_true, if_false, hpos,
        Bool.false_or, decide_eq_true_eq, c3, c4, true_and]
      by_cases c5 : 2 ^ n > suite.srtp_lifetime
      · have : ¬ (2 ^ n ≤ suite.srtp_lifetime) := by omega
        simp [c5, this]
      · have : 2 ^ n ≤ suite.srtp_lifetime := by omega
        simp [c5, this]

theorem extract_tokens_three (buf : List Char) (s a b c q : Str)
    (h : extract_tokens buf 3 s = some ([a, b, c], q)) :
    ∃ r1 r2, extract_token buf s = some (a, r1) ∧ extract_token buf r1 = some (b, r2) ∧
      extract_token buf r2 = some (c, q) := by
  obtain ⟨r1, e1, h⟩ := extract_tokens_cons buf _ _ _ _ _ h
  obtain ⟨r2, e2, h⟩ := extract_tokens_cons buf _ _ _ _ _ h
  obtain ⟨r3, e3, h⟩ := extract_tokens_cons buf _ _ _ _ _ h
  simp only [extract_tokens, Option.some.injEq, Prod.mk.injEq, true_and] at h
  subst h
  exact ⟨r1, r2, e1, e2, e3⟩

/-- `parse_attribute_crypto` on a value with its three tokens, by the outcome
of the part after the tokens. -/
theorem parse_attribute_crypto_checked (env : Env) (buf : List Char) (output : sdp_attribute)
    (tag_str suite_str key_params_str r3 : Str)
    (h3 : extract_tokens buf 3 output.strs.value
      = some ([tag_str, suite_str, key_params_str], r3)) :
    parse_attribute_crypto env buf output =
      match parse_crypto_checked env buf
        { output.crypto with tag_str := tag_str, crypto_suite_str := suite_str,
                             key_params_str := key_params_str } r3 with
      | some c => (0, { output with attr := attr_id.ATTR_CRYPTO, crypto := c })
      | none => (0, { output with
          attr := attr_id.ATTR_IGNORE,
          crypto := { output.crypto with tag_str := tag_str, crypto_suite_str := suite_str,
                                         key_params_str := key_params_str } }) := by
  obtain ⟨r1, r2, e1, e2, e3⟩ := extract_tokens_three buf _ _ _ _ _ h3
  cases hc : parse_crypto_checked env buf
      { output.crypto with tag_str := tag_str, crypto_suite_str := suite_str,
                           key_params_str := key_params_str } r3 with
  | none =>
    unfold parse_attribute_crypto
    simp only [e1, e2, e3, hc]
  | some c =>
    unfold parse_attribute_crypto
    simp only [e1, e2, e3, hc]

/-- C26: for an `a=crypto` value with its three tokens, a key block that
succeeds, a lifetime field that begins with `2^` and whose exponent converts
to `n`, and an MKI block that succeeds: the parser returns 0, and the
attribute is tagged as crypto with lifetime `2^n` if and only if
`1 ≤ n < 64` and `2^n` does not exceed the SRTP lifetime of the suite;
otherwise it is tagged `ATTR_IGNORE`. -/
theorem c26_crypto_lifetime (env : Env) (buf : List Char) (output : sdp_attribute)
    (tag_str suite_str key_params_str r3 : Str) (c3 : attribute_crypto) (suite : crypto_suite)
    (lifetime_str mki_str : Str) (lp n : Nat)
    (h3 : extract_tokens buf 3 output.strs.value
      = some ([tag_str, suite_str, key_params_str], r3))
    (hk : crypto_key env buf
      { output.crypto with tag_str := tag_str, crypto_suite_str := suite_str,
                           key_params_str := key_params_str } = some (c3, suite))
    (hs : crypto_split buf (crypto_key_rest buf c3 suite) c3.mki_str
      = some (lifetime_str, mki_str))
    (hlp : lifetime_str.s = some lp) (hlen : 3 ≤ lifetime_str.len)
    (h2 : bytes_at buf lp 2 = "2^".toList) (hn : (strtoul buf (lp + 2)).1 = n)
    (hm : (crypto_mki buf mki_str {}).isSome = true) :
    (parse_attribute_crypto env buf output).1 = 0 ∧
    (((parse_attribute_crypto env buf output).2.attr = attr_id.ATTR_CRYPTO ∧
      (parse_attribute_crypto env buf output).2.crypto.lifetime = 2 ^ n) ↔
      (1 ≤ n ∧ n < 64 ∧ 2 ^ n ≤ suite.srtp_lifetime)) ∧
    (¬ (1 ≤ n ∧ n < 64 ∧ 2 ^ n ≤ suite.srtp_lifetime) →
      (parse_attribute_crypto env buf output).2.attr = attr_id.ATTR_IGNORE) := by
  rw [parse_attribute_crypto_checked env buf output _ _ _ _ h3, parse_crypto_checked_blocks, hk]
  simp only [hs, crypto_lifetime_power buf suite lifetime_str c3.lifetime lp n hlp hlen h2 hn]
  by_cases hc : 1 ≤ n ∧ n < 64 ∧ 2 ^ n ≤ suite.srtp_lifetime
  · rw [if_pos hc]
    simp only
    have hm2 := crypto_mki_isSome buf mki_str
      { c3 with lifetime_str := lifetime_str, mki_str := mki_str, lifetime := 2 ^ n } {}
    rw [hm] at hm2
    cases hq : crypto_mki buf mki_str
      { c3 with lifetime_str := lifetime_str, mki_str := mki_str, lifetime := 2 ^ n } with
    | none => rw [hq] at hm2; exact absurd hm2 (by simp)
    | some c6 =>
      simp only
      have k1 := (crypto_mki_keeps buf mki_str _ c6 hq).1
      have k2 := (crypto_session_params_keeps buf (r3.len + 1) r3 c6).1
      refine ⟨trivial, ⟨fun _ => hc, fun _ => ⟨trivial, ?_⟩⟩, fun h => absurd hc h⟩
      rw [k2, k1]
  · rw [if_neg hc]
    simp only
    refine ⟨trivial, ⟨fun h => ?_, fun h => absurd h hc⟩, fun _ => trivial⟩
    exact absurd h.1 (by decide)

/-- C26 on the value `1 AES_CM_128_HMAC_SHA1_80 inline:...|2^20|1:4`: the
attribute is crypto with tag 1, thirty bytes of key and salt, lifetime 2^20
and the MKI 1 of length 4; with `2^49`, above the lifetime 2^48 of the suite,
the attribute is ignored. -/
theorem c26_crypto_lifetime_witness :
    ((demo_crypto_attr demo_crypto_value).attr = attr_id.ATTR_CRYPTO ∧
     (demo_crypto_attr demo_crypto_value).crypto.lifetime = 2 ^ 20) ∧
    (demo_crypto_attr demo_crypto_value).crypto.tag = 1 ∧
    (demo_crypto_attr demo_crypto_value).crypto.key_salt_buf = List.range 30 ∧
    (demo_crypto_attr demo_crypto_value).crypto.mki = [0, 0, 0, 1] ∧
    (demo_crypto_attr demo_crypto_value).crypto.mki_len = 4 ∧
    (demo_crypto_attr demo_crypto_long).attr = attr_id.ATTR_IGNORE :=
  with_facts12 (fun fact1 fact2 fact3 fact4 fact5 fact6 fact7 fact8 fact9 fact10 fact11 fact12 =>
    ⟨(c26_crypto_lifetime demo_env_glib demo_crypto_value
        { strs := { value := demo_whole demo_crypto_value } }
        { s := some 0, len := 1 } { s := some 2, len := 23 } { s := some 26, len := 56 } STR_NULL
        (demo_crypto_key demo_crypto_value).1 (demo_crypto_key demo_crypto_value).2
        { s := some 74, len := 4 } { s := some 79, len := 3 } 74 20
        (fact1) (fact2) (fact3) rfl (by decide) (fact4) (fact5)
        (fact6)).2.1.mpr ⟨by decide, by decide, fact7⟩,
     fact8, fact9, fact10, fact11, fact12⟩) (by decide!)

/-! ## The encoder -/

theorem base64_triples_short (l : List Nat) (h : l.length < 3) : base64_triples l = ([], l) := by
  match l, h with
  | [], _ => rfl
  | [_], _ => rfl
  | [_, _], _ => rfl

/-- The encoder loop on a byte string: the characters without the last
group, and the bytes of the last group. -/
theorem base64_triples_body :
    ∀ (n : Nat) (ks : List Nat), ks.length ≤ n →
      base64_body ks = (base64_triples ks).1 ++ base64_body (base64_triples ks).2 ∧
      (base64_triples ks).2.length = ks.length % 3 := by
  intro n
  induction n with
  | zero =>
    intro ks hl
    have : ks = [] := List.length_eq_zero.mp (by omega)
    subst this
    exact ⟨rfl, rfl⟩
  | succ n ih =>
    intro ks hl
    match ks, hl with
    | [], _ => exact ⟨rfl, rfl⟩
    | [_], _ => exact ⟨rfl, rfl⟩
    | [_, _], _ => exact ⟨rfl, rfl⟩
    | c1 :: c2 :: c3 :: rest, hl =>
      have hlr : rest.length ≤ n := by
        simp only [List.length_cons] at hl
        omega
      obtain ⟨e1, e2⟩ := ih rest hlr
      simp only [base64_triples, base64_body, List.append_assoc, List.length_cons]
      refine ⟨by rw [e1], ?_⟩
      rw [e2]
      omega

/-- The encoder loop on two byte strings in a row. -/
theorem base64_triples_append :
    ∀ (n : Nat) (a b : List Nat), a.length ≤ n →
      base64_triples (a ++ b) =
        ((base64_triples a).1 ++ (base64_triples ((base64_triples a).2 ++ b)).1,
         (base64_triples ((base64_triples a).2 ++ b)).2) := by
  intro n
  induction n with
  | zero =>
    intro a b hl
    have : a = [] := List.length_eq_zero.mp (by omega)
    subst this
    rfl
  | succ n ih =>
    intro a b hl
    match a, hl with
    | [], _ => rfl
    | [_], _ => rfl
    | [_, _], _ => rfl
    | c1 :: c2 :: c3 :: rest, hl =>
      have hlr : rest.length ≤ n := by
        simp only [List.length_cons] at hl
        omega
      have e := ih rest b hlr
      show (base64_quad c1 c2 c3 ++ (base64_triples (rest ++ b)).1,
        (base64_triples (rest ++ b)).2) = _
      rw [e]
      simp only [base64_triples, List.append_assoc]

theorem g_base64_encode_step_eq (inp save : List Nat) (h : save.length ≤ 2) :
    g_base64_encode_step inp save = base64_triples (save ++ inp) := by
  unfold g_base64_encode_step
  split
  · rename_i he
    have : inp = [] := by simpa using he
    subst this
    rw [List.append_nil, base64_triples_short save (by omega)]
  · split
    · rfl
    · rename_i hn
      rw [base64_triples_short (save ++ inp) (by rw [List.length_append]; omega)]

theorem g_base64_encode_close_eq (save : List Nat) (h : save.length < 3) :
    g_base64_encode_close save = base64_body save ++ base64_pad save.length := by
  match save, h with
  | [], _ => rfl
  | [_], _ => rfl
  | [_, _], _ => rfl

theorem base64_pad_mod (n : Nat) : base64_pad (n % 3) = base64_pad n := by
  unfold base64_pad
  rw [Nat.mod_mod]

/-- The three encoder calls of `insert_crypto1` write the base64 text of the
key followed by the salt, with its padding. -/
theorem insert_crypto1_encode (key salt : List Nat) :
    (g_base64_encode_step key []).1 ++
      (g_base64_encode_step salt (g_base64_encode_step key []).2).1 ++
      g_base64_encode_close (g_base64_encode_step salt (g_base64_encode_step key []).2).2
      = base64_body (key ++ salt) ++ base64_pad (key ++ salt).length := by
  have h1 : g_base64_encode_step key [] = base64_triples key :=
    g_base64_encode_step_eq key [] (by decide)
  have hr1 := (base64_triples_body key.length key (le_refl _)).2
  have hl1 : (base64_triples key).2.length ≤ 2 := by omega
  rw [h1, g_base64_encode_step_eq salt _ hl1]
  have happ := base64_triples_append key.length key salt (le_refl _)
  obtain ⟨e1, e2⟩ := base64_triples_body (key ++ salt).length (key ++ salt) (le_refl _)
  rw [happ] at e1 e2
  simp only at e1 e2
  have hl2 : (base64_triples ((base64_triples key).2 ++ salt)).2.length < 3 := by omega
  rw [g_base64_encode_close_eq _ hl2, e1, e2, base64_pad_mod]
  simp only [List.append_assoc]

theorem array_bytes_exact (l : List Nat) (n : Nat) (h : l.length = n) : array_bytes l n = l := by
  unfold array_bytes
  exact List.take_left' h

theorem bytes_at_initial (buf : List Char) (p a b : Nat) (x y : List Char)
    (h : bytes_at buf p (a + b) = x ++ y) (hx : x.length = a) : bytes_at buf p a = x := by
  have : bytes_at buf p a = (bytes_at buf p (a + b)).take a := by
    simp only [bytes_at, List.take_take]
    congr 1
    omega
  rw [this, h]
  exact List.take_left' hx

/-- The key block on a value that carries the base64 text of `ks`. -/
theorem crypto_key_canonical (env : Env) (buf : List Char) (c0 : attribute_crypto)
    (suite : crypto_suite) (ks : List Nat) (kp : Nat)
    (henv : env.g_base64_decode_step = g_base64_decode_step)
    (hkp : c0.key_params_str.s = some kp)
    (htag : has_digits buf c0.tag_str = true)
    (hsuite : env.crypto_find_suite (str_bytes buf c0.crypto_suite_str) = some suite)
    (hlen : ks.length = suite.master_key_len + suite.master_salt_len)
    (hb : ∀ b ∈ ks, b < 256)
    (hklen : 7 + (ks.length * 4 + 2) / 3 ≤ c0.key_params_str.len)
    (hin : str_case_eq (bytes_at buf kp 7) "inline:".toList = true)
    (htok : bytes_at buf (kp + 7) ((ks.length * 4 + 2) / 3) = base64_body ks) :
    ∃ c3, crypto_key env buf c0 = some (c3, suite) ∧
      c3.master_key = ks.take suite.master_key_len ∧
      c3.salt = ks.drop suite.master_key_len := by
  have hdec := (crypto_key_decode_body ks hb).2
  unfold crypto_key
  simp only [hsuite, hkp, Option.getD_some, if_neg (has_digits_true _ _ htag)]
  rw [← hlen]
  have h2 : ¬ (c0.key_params_str.len < 7 + (ks.length * 4 + 2) / 3) := by omega
  have hshift : ((str_shift c0.key_params_str 7).getD c0.key_params_str).s.getD 0 = kp + 7 := by
    unfold str_shift
    rw [if_neg (by omega)]
    simp [hkp]
  simp only [h2, if_false, hin, Bool.not_true, Bool.false_eq_true, hshift, henv, htok, hdec,
    ne_eq, not_true_eq_false]
  refine ⟨_, rfl, rfl, ?_⟩
  show (ks.drop suite.master_key_len).take suite.master_salt_len = _
  apply List.take_of_length_le
  rw [List.length_drop]
  omega

/-- C24 (amended): for a suite and a byte string `ks` of the length of its
key and salt, and an `a=crypto` value whose key parameter is `inline:`
followed by the base64 text of `ks` with its padding: the key block of
`parse_attribute_crypto` decodes the key and the salt of `ks`, every
attribute that the parser accepts holds them, and the base64 text that
`insert_crypto1` makes of them with `sdes_pad` set is the token of the
input. -/
theorem c24_crypto_key_roundtrip (env : Env) (buf : List Char) (c0 : attribute_crypto)
    (suite : crypto_suite) (ks : List Nat) (kp : Nat) (flags : sdp_ng_flags)
    (henv : env.g_base64_decode_step = g_base64_decode_step)
    (hkp : c0.key_params_str.s = some kp)
    (htag : has_digits buf c0.tag_str = true)
    (hsuite : env.crypto_find_suite (str_bytes buf c0.crypto_suite_str) = some suite)
    (hlen : ks.length = suite.master_key_len + suite.master_salt_len)
    (hb : ∀ b ∈ ks, b < 256)
    (hklen : 7 + (ks.length * 4 + 2) / 3 ≤ c0.key_params_str.len)
    (hin : str_case_eq (bytes_at buf kp 7) "inline:".toList = true)
    (htok : bytes_at buf (kp + 7) ((ks.length * 4 + 2) / 3 + (base64_pad ks.length).length)
      = base64_body ks ++ base64_pad ks.length)
    (hpad : flags.sdes_pad = true) :
    (∃ c3, crypto_key env buf c0 = some (c3, suite) ∧
      c3.master_key = ks.take suite.master_key_len ∧
      c3.salt = ks.drop suite.master_key_len) ∧
    ∀ (value_str : Str) (c : attribute_crypto),
      parse_crypto_checked env buf c0 value_str = some c →
      c.master_key = ks.take suite.master_key_len ∧
      c.salt = ks.drop suite.master_key_len ∧
      ∀ attr : sdp_attribute, attr.crypto = c →
        insert_crypto1_key (sdes_of_crypto attr).params suite flags =
          bytes_at buf (kp + 7)
            ((ks.length * 4 + 2) / 3 + (base64_pad ks.length).length) := by
  have hbody := bytes_at_initial buf (kp + 7) _ _ _ _ htok (crypto_key_decode_body ks hb).1
  obtain ⟨c3, hk, hm, hs⟩ := crypto_key_canonical env buf c0 suite ks kp henv hkp htag hsuite
    hlen hb hklen hin hbody
  refine ⟨⟨c3, hk, hm, hs⟩, ?_⟩
  intro value_str c hc
  rw [parse_crypto_checked_blocks, hk] at hc
  simp only at hc
  have hkey : c.master_key = c3.master_key ∧ c.salt = c3.salt := by
    split at hc
    · exact Option.noConfusion hc
    · split at hc
      · exact Option.noConfusion hc
      · split at hc
        · exact Option.noConfusion hc
        · rename_i c6 hq
          injection hc with hc
          have k := crypto_mki_keeps _ _ _ _ hq
          have k2 := crypto_session_params_keeps buf (value_str.len + 1) value_str c6
          rw [← hc]
          exact ⟨k2.2.2.2.1.trans k.2.1, k2.2.2.2.2.1.trans k.2.2.1⟩
  refine ⟨hkey.1.trans hm, hkey.2.trans hs, ?_⟩
  intro attr ha
  rw [htok]
  unfold insert_crypto1_key
  simp only [hpad, Bool.not_true, Bool.false_eq_true, if_false, sdes_of_crypto, ha, hkey.1,
    hkey.2, hm, hs]
  rw [array_bytes_exact _ _ (by rw [List.length_take]; omega),
    array_bytes_exact _ _ (by rw [List.length_drop]; omega), insert_crypto1_encode,
    List.take_append_drop]

/-- C24 (amended) on the padded base64 text of 38 zero bytes for the suite
with a 24-byte key: the accepted attribute comes out of `insert_crypto1`
with the 52 characters of the input. -/
theorem c24_crypto_key_roundtrip_witness :
    (demo_crypto_attr demo_crypto_padded).attr = attr_id.ATTR_CRYPTO ∧
    str_bytes demo_crypto_padded (demo_crypto_attr demo_crypto_padded).crypto.key_base64_str
      = List.replicate 51 'A' ++ ['='] ∧
    insert_crypto1_key (sdes_of_crypto (demo_crypto_attr demo_crypto_padded)).params
      (demo_crypto_key demo_crypto_padded).2 demo_pad_flags
      = List.replicate 51 'A' ++ ['='] :=
  with_facts12 (fun fact1 fact2 fact3 fact4 fact5 fact6 fact7 fact8 fact9 fact10 fact11 fact12 =>
    ⟨fact1, fact2,
     (((c24_crypto_key_roundtrip demo_env_glib demo_crypto_padded
        (demo_crypto_tokens demo_crypto_padded) (demo_crypto_key demo_crypto_padded).2
        (List.replicate 38 0) 26 demo_pad_flags rfl (fact3) (fact4) (fact5)
        (fact6) (fact7) (fact8) (fact9) (fact10) rfl).2
        STR_NULL (demo_crypto_attr demo_crypto_padded).crypto (fact11)).2.2
        (demo_crypto_attr demo_crypto_padded) rfl).trans (fact12)⟩) (by decide!)

/-- C24 fails as stated.  For the suite with a 24-byte key, the value whose 51
characters of key and salt come without padding is accepted, and so is the
value whose 51st character is `B`, with bits that no byte takes up; in both
cases `insert_crypto1` with `sdes_pad` set writes 51 times `A` and `=`, which
is not the token of the input. -/
theorem c24_counterexample :
    ((demo_crypto_attr demo_crypto_unpadded).attr = attr_id.ATTR_CRYPTO ∧
     str_bytes demo_crypto_unpadded
        (demo_crypto_attr demo_crypto_unpadded).crypto.key_base64_str
        = List.replicate 51 'A' ∧
     insert_crypto1_key (sdes_of_crypto (demo_crypto_attr demo_crypto_unpadded)).params
        (demo_crypto_key demo_crypto_unpadded).2 demo_pad_flags
        = List.replicate 51 'A' ++ ['=']) ∧
    ((demo_crypto_attr demo_crypto_loose).attr = attr_id.ATTR_CRYPTO ∧
     str_bytes demo_crypto_loose (demo_crypto_attr demo_crypto_loose).crypto.key_base64_str
        = List.replicate 50 'A' ++ ['B', '='] ∧
     insert_crypto1_key (sdes_of_crypto (demo_crypto_attr demo_crypto_loose)).params
        (demo_crypto_key demo_crypto_loose).2 demo_pad_flags
        = List.replicate 51 'A' ++ ['=']) :=
  with_facts6 (fun fact1 fact2 fact3 fact4 fact5 fact6 =>
    ⟨⟨fact1, fact2, fact3⟩, ⟨fact4, fact5, fact6⟩⟩) (by decide!)

/-! ## The MKI -/

theorem lor_shift_add (a b k : Nat) (h : a < 2 ^ k) : a ||| (b <<< k) = a + b * 2 ^ k := by
  rw [Nat.shiftLeft_eq, Nat.lor_comm, Nat.mul_comm, ← Nat.mul_add_lt_is_or h, Nat.add_comm]

/-- The loop of `insert_crypto1` over bytes: the number that the bytes spell,
the last byte of the MKI being the lowest. -/
theorem insert_crypto1_ull_sum (mki : List Nat) (L : Nat) :
    ∀ i, (∀ j, j < i → mki.getD (L - j - 1) 0 < 256) →
      insert_crypto1_ull mki L i < 2 ^ (i * 8) ∧
      insert_crypto1_ull mki L i =
        Finset.sum (Finset.range i) (fun j => mki.getD (L - j - 1) 0 * 2 ^ (j * 8)) := by
  intro i
  induction i with
  | zero => intro _; exact ⟨by simp [insert_crypto1_ull], by simp [insert_crypto1_ull]⟩
  | succ i ih =>
    intro hb
    obtain ⟨h1, h2⟩ := ih (fun j hj => hb j (by omega))
    have hbi := hb i (by omega)
    unfold insert_crypto1_ull
    rw [lor_shift_add _ _ _ h1, Finset.sum_range_succ, ← h2]
    refine ⟨?_, rfl⟩
    have : 2 ^ ((i + 1) * 8) = 2 ^ (i * 8) * 256 := by
      rw [show (i + 1) * 8 = i * 8 + 8 by ring, pow_add]
      norm_num
    rw [this]
    have hp : 0 < 2 ^ (i * 8) := by positivity
    nlinarith

theorem mki_encode_getD (v L j : Nat) (h5 : 5 ≤ L) (hj : j < L) :
    (mki_encode v L).getD (L - j - 1) 0 =
      if j < 4 then (htonl_bytes v).getD (3 - j) 0 else 0 := by
  unfold mki_encode
  rw [if_neg (by omega)]
  by_cases h : j < 4
  · rw [if_pos h, List.getD_append_right _ _ _ _ (by rw [List.length_replicate]; omega),
      List.length_replicate]
    congr 1
    omega
  · rw [if_neg h, List.getD_append _ _ _ _ (by rw [List.length_replicate]; omega)]
    rw [List.getD_eq_getElem _ _ (by rw [List.length_replicate]; omega)]
    simp

theorem mki_encode_lt (v L : Nat) : ∀ b ∈ mki_encode v L, b < 256 := by
  intro b hb
  unfold mki_encode at hb
  have hh : ∀ x ∈ htonl_bytes v, x < 256 := by
    intro x hx
    simp only [htonl_bytes, List.mem_cons, List.mem_singleton, List.not_mem_nil, or_false] at hx
    rcases hx with h | h | h | h <;> omega
  split at hb
  · exact hh b (List.mem_of_mem_drop hb)
  · rcases List.mem_append.mp hb with h | h
    · rw [(List.mem_replicate.mp h).2]; decide
    · exact hh b h

theorem getD_lt_of_all (l : List Nat) (i : Nat) (h : ∀ b ∈ l, b < 256) : l.getD i 0 < 256 := by
  by_cases hi : i < l.length
  · rw [List.getD_eq_getElem _ _ hi]
    exact h _ (List.getElem_mem _)
  · rw [List.getD_eq_default _ _ (by omega)]
    decide

theorem mki_encode_length (v L : Nat) : (mki_encode v L).length = L := by
  unfold mki_encode
  split
  · simp [htonl_bytes]; omega
  · simp [htonl_bytes]; omega

/-- The value that the loop of `insert_crypto1` reads out of the MKI bytes
that `parse_attribute_crypto` laid down. -/
theorem insert_crypto1_ull_encode (v L : Nat) (h1 : 1 ≤ L) (hv : v < 2 ^ 32)
    (hfit : v < 256 ^ L) :
    insert_crypto1_ull (mki_encode v L) L (min L 8) = v := by
  have hs := (insert_crypto1_ull_sum (mki_encode v L) L (min L 8)
    (fun j _ => getD_lt_of_all _ _ (mki_encode_lt v L))).2
  rw [hs]
  by_cases h5 : 5 ≤ L
  · have hterm : ∀ j, j < min L 8 → (mki_encode v L).getD (L - j - 1) 0 * 2 ^ (j * 8)
        = (if j < 4 then (htonl_bytes v).getD (3 - j) 0 else 0) * 2 ^ (j * 8) := by
      intro j hj
      rw [mki_encode_getD v L j h5 (by omega)]
    rw [Finset.sum_congr rfl (fun j hj => hterm j (Finset.mem_range.mp hj))]
    have hm : min L 8 = 5 ∨ min L 8 = 6 ∨ min L 8 = 7 ∨ min L 8 = 8 := by omega
    rcases hm with e | e | e | e <;> rw [e] <;>
      simp [Finset.sum_range_succ, htonl_bytes] <;> omega
  · have hL : L = 1 ∨ L = 2 ∨ L = 3 ∨ L = 4 := by omega
    rcases hL with e | e | e | e <;> subst e <;>
      simp [Finset.sum_range_succ, mki_encode, htonl_bytes] <;>
      norm_num at hfit <;> omega

/-- C25: for an MKI field whose value converts to `v` and whose length
converts to `L`, with `1 ≤ L ≤ 256`, `v < 2^32` and `v` fitting in `L` bytes:
the MKI block of `parse_attribute_crypto` stores the length `L` and the bytes
of `v`, the copy into the SDES parameters of the stream keeps them, the loop
of `insert_crypto1` reads `v` out of them, and the field that
`insert_crypto1` writes is `|v:L`. -/
theorem c25_mki_roundtrip (buf : List Char) (mki_str s : Str) (c5 : attribute_crypto)
    (mp v L fuel : Nat) (value_str : Str)
    (hmp : mki_str.s = some mp) (hc : str_chr_str buf mki_str ':' = some s)
    (hv : (strtoul buf mp).1 = v) (hL : (strtoul buf (s.s.getD 0 + 1)).1 = L)
    (h1 : 1 ≤ L) (h2 : L ≤ 256) (hv32 : v < 2 ^ 32) (hfit : v < 256 ^ L) :
    crypto_mki buf mki_str c5 = some { c5 with mki_len := L, mki := mki_encode v L } ∧
    ∀ attr : sdp_attribute,
      attr.crypto = crypto_session_params buf fuel value_str
        { c5 with mki_len := L, mki := mki_encode v L } →
      (sdes_of_crypto attr).params.mki_len = L ∧
      (sdes_of_crypto attr).params.mki = mki_encode v L ∧
      insert_crypto1_ull (sdes_of_crypto attr).params.mki L (min L 8) = v ∧
      insert_crypto1_mki (sdes_of_crypto attr).params =
        "|".toList ++ print_uint v ++ ":".toList ++ print_uint L := by
  constructor
  · unfold crypto_mki
    rw [hmp]
    simp only [hc, hv, hL]
    rw [Nat.mod_eq_of_lt hv32, Nat.mod_eq_of_lt (by omega : L < 2 ^ 32),
      if_neg (by omega)]
  · intro attr ha
    have k := crypto_session_params_keeps buf fuel value_str
      { c5 with mki_len := L, mki := mki_encode v L }
    have hlen : attr.crypto.mki_len = L := by rw [ha]; exact k.2.2.1
    have hmki : attr.crypto.mki = mki_encode v L := by rw [ha]; exact k.2.1
    have hne : L ≠ 0 := by omega
    have e1 : (sdes_of_crypto attr).params.mki_len = L := hlen
    have e2 : (sdes_of_crypto attr).params.mki = mki_encode v L := by
      show (if attr.crypto.mki_len ≠ 0 then attr.crypto.mki.take attr.crypto.mki_len else [])
        = _
      rw [hlen, hmki, if_pos hne]
      exact List.take_of_length_le (by rw [mki_encode_length])
    have e3 := insert_crypto1_ull_encode v L h1 hv32 hfit
    refine ⟨e1, e2, by rw [e2]; exact e3, ?_⟩
    unfold insert_crypto1_mki
    rw [e1, e2, if_pos hne, e3]

/-- C25 on the field `1:4` of `demo_crypto_value`: the parsed attribute holds
the MKI bytes `0 0 0 1` of length 4, and `insert_crypto1` writes `|1:4`. -/
theorem c25_mki_roundtrip_witness :
    (demo_crypto_attr demo_crypto_value).crypto.mki = [0, 0, 0, 1] ∧
    insert_crypto1_mki (sdes_of_crypto (demo_crypto_attr demo_crypto_value)).params
      = "|1:4".toList :=
  with_facts5 (fun fact1 fact2 fact3 fact4 fact5 =>
    ⟨fact1,
     ((c25_mki_roundtrip demo_crypto_value { s := some 79, len := 3 } { s := some 80, len := 2 }
        demo_crypto_c5 79 1 4 1 STR_NULL rfl (fact2) (fact3) (fact4)
        (by decide) (by decide) (by decide) (by decide)).2
        (demo_crypto_attr demo_crypto_value) (fact5)).2.2.2⟩) (by decide!)

/-! ## The name, value, key and parameter of an attribute -/

theorem parse_attribute_crypto_strs (env : Env) (buf : List Char) (a : sdp_attribute) :
    (parse_attribute_crypto env buf a).2.strs = a.strs ∧
      (parse_attribute_crypto env buf a).2.param = a.param := by
  unfold parse_attribute_crypto
  simp only
  repeat' split
  all_goals exact ⟨rfl, rfl⟩

theorem parse_attribute_rtcp_strs (env : Env) (buf : List Char) (a : sdp_attribute) :
    (parse_attribute_rtcp env buf a).2.strs = a.strs ∧
      (parse_attribute_rtcp env buf a).2.param = a.param := by
  unfold parse_attribute_rtcp
  simp only
  repeat' split
  all_goals exact ⟨rfl, rfl⟩

theorem parse_attribute_candidate_strs (env : Env) (buf : List Char) (a : sdp_attribute)
    (e : Bool) : (parse_attribute_candidate env buf a e).2.strs = a.strs ∧
      (parse_attribute_candidate env buf a e).2.param = a.param := by
  unfold parse_attribute_candidate
  simp only
  repeat' split
  all_goals exact ⟨rfl, rfl⟩

theorem parse_attribute_fingerprint_strs (env : Env) (buf : List Char) (a : sdp_attribute) :
    (parse_attribute_fingerprint env buf a).2.strs = a.strs ∧
      (parse_attribute_fingerprint env buf a).2.param = a.param := by
  unfold parse_attribute_fingerprint
  simp only
  repeat' split
  all_goals exact ⟨rfl, rfl⟩

theorem parse_attribute_rtcp_fb_strs (env : Env) (buf : List Char) (a : sdp_attribute) :
    (parse_attribute_rtcp_fb env buf a).2.strs = a.strs ∧
      (parse_attribute_rtcp_fb env buf a).2.param = a.param := by
  unfold parse_attribute_rtcp_fb
  simp only
  repeat' split
  all_goals exact ⟨rfl, rfl⟩

theorem parse_attribute_rtpmap_strs (buf : List Char) (a : sdp_attribute) :
    (parse_attribute_rtpmap buf a).2.strs = a.strs ∧
      (parse_attribute_rtpmap buf a).2.param = a.param := by
  unfold parse_attribute_rtpmap
  simp only
  repeat' split
  all_goals exact ⟨rfl, rfl⟩

theorem parse_attribute_fmtp_strs (env : Env) (buf : List Char) (a : sdp_attribute) :
    (parse_attribute_fmtp env buf a).2.strs = a.strs ∧
      (parse_attribute_fmtp env buf a).2.param = a.param := by
  unfold parse_attribute_fmtp
  simp only
  repeat' split
  all_goals exact ⟨rfl, rfl⟩

theorem parse_attribute_t38faxudpecdepth_strs (env : Env) (buf : List Char)
    (a : sdp_attribute) :
    (parse_attribute_t38faxudpecdepth env buf a).2.strs = a.strs ∧
      (parse_attribute_t38faxudpecdepth env buf a).2.param = a.param := by
  unfold parse_attribute_t38faxudpecdepth
  simp only
  repeat' split
  all_goals exact ⟨rfl, rfl⟩

/-- The switch of `parse_attribute` leaves the strings of the attribute alone. -/
theorem parse_attribute_switch_strs (env : Env) (buf : List Char) (a : sdp_attribute) :
    (parse_attribute_switch env buf a).2.strs = a.strs ∧
      (parse_attribute_switch env buf a).2.param = a.param := by
  unfold parse_attribute_switch
  simp only
  repeat' (refine ite_ind (fun (r : Int × sdp_attribute) =>
      r.2.strs = a.strs ∧ r.2.param = a.param) ?_ ?_)
  all_goals first
    | exact ⟨rfl, rfl⟩
    | exact parse_attribute_crypto_strs env buf a
    | exact parse_attribute_rtcp_strs env buf a
    | exact parse_attribute_candidate_strs env buf a false
    | exact parse_attribute_fingerprint_strs env buf a
    | exact parse_attribute_rtcp_fb_strs env buf a
    | exact parse_attribute_rtpmap_strs buf a
    | exact parse_attribute_fmtp_strs env buf a
    | exact parse_attribute_t38faxudpecdepth_strs env buf a

theorem bytes_at_length (buf : List Char) (p n : Nat) (h : p + n ≤ buf.length) :
    (bytes_at buf p n).length = n := by
  unfold bytes_at
  rw [List.length_take, List.length_drop]
  omega

theorem bytes_at_mem (buf : List Char) (p n : Nat) (x : Char) (h : x ∈ bytes_at buf p n) :
    ∃ i, p ≤ i ∧ i < p + n ∧ getc buf i = x := by
  unfold bytes_at at h
  obtain ⟨i, hi, e⟩ := List.getElem_of_mem h
  have hi2 := hi
  rw [List.length_take, List.length_drop] at hi2
  rw [List.getElem_take, List.getElem_drop] at e
  refine ⟨p + i, by omega, by omega, ?_⟩
  unfold getc
  rw [List.getD_eq_getElem _ _ (by omega)]
  exact e

theorem bytes_at_cons (buf : List Char) (q k : Nat) (h : q < buf.length) :
    bytes_at buf q (k + 1) = getc buf q :: bytes_at buf (q + 1) k := by
  unfold bytes_at getc
  rw [List.drop_eq_getElem_cons h, List.take_succ_cons, List.getD_eq_getElem _ _ h]

/-- The slice cut at the byte that `memchr` finds. -/
theorem memchr_split (buf : List Char) (p n q : Nat) (c : Char) (hin : p + n ≤ buf.length)
    (h : memchr buf p c n = some q) :
    bytes_at buf p n = bytes_at buf p (q - p) ++ c :: bytes_at buf (q + 1) (n - (q - p) - 1) ∧
      c ∉ bytes_at buf p (q - p) := by
  obtain ⟨h1, h2, h3, h4⟩ := memchr_some n p q h
  constructor
  · have e : n = (q - p) + ((n - (q - p) - 1) + 1) := by omega
    conv_lhs => rw [e]
    rw [← bytes_at_append, show p + (q - p) = q by omega, bytes_at_cons buf q _ (by omega), h3]
  · intro hm
    obtain ⟨i, hi1, hi2, hi3⟩ := bytes_at_mem buf p (q - p) c hm
    exact h4 i hi1 (by omega) hi3

theorem memchr_none_mem (buf : List Char) (p n : Nat) (c : Char)
    (h : memchr buf p c n = none) : c ∉ bytes_at buf p n := by
  intro hm
  obtain ⟨i, hi1, hi2, hi3⟩ := bytes_at_mem buf p n c hm
  exact memchr_none n p h i hi1 hi2 hi3

/-- The strings that `parse_attribute_strs` carves out of a line value without
a colon. -/
theorem parse_attribute_strs_plain (buf : List Char) (a0 : sdp_attribute) (p n : Nat)
    (hlv : a0.strs.line_value = { s := some p, len := n })
    (hm : memchr buf p ':' n = none) :
    (parse_attribute_strs buf a0).strs.line_value = a0.strs.line_value ∧
    (parse_attribute_strs buf a0).strs.name = a0.strs.line_value ∧
    (parse_attribute_strs buf a0).strs.value = a0.strs.value ∧
    (parse_attribute_strs buf a0).strs.key = a0.strs.key ∧
    (parse_attribute_strs buf a0).param = a0.param := by
  have h1 : str_chr_str buf a0.strs.line_value ':' = none := by
    rw [hlv]; simp only [str_chr_str, hm]
  unfold parse_attribute_strs
  simp only [h1]
  refine ⟨?_, ?_, ?_, ?_, ?_⟩ <;> trivial

/-- The strings that `parse_attribute_strs` carves out of a line value with a
colon at `q` and no space after it. -/
theorem parse_attribute_strs_colon (buf : List Char) (a0 : sdp_attribute) (p n q : Nat)
    (hlv : a0.strs.line_value = { s := some p, len := n })
    (hm : memchr buf p ':' n = some q)
    (hm2 : memchr buf (q + 1) ' ' (n - (q - p) - 1) = none) :
    (parse_attribute_strs buf a0).strs.line_value = a0.strs.line_value ∧
    (parse_attribute_strs buf a0).strs.name = { s := some p, len := n - (n - (q - p)) } ∧
    (parse_attribute_strs buf a0).strs.value = { s := some (q + 1), len := n - (q - p) - 1 } ∧
    (parse_attribute_strs buf a0).strs.key =
      { s := some p, len := n - (n - (q - p)) + (1 + (n - (q - p) - 1)) } ∧
    (parse_attribute_strs buf a0).param = a0.param := by
  have h1 : str_chr_str buf a0.strs.line_value ':' = some { s := some q, len := n - (q - p) } := by
    rw [hlv]; simp only [str_chr_str, hm]
  have h2 : str_chr_str buf { s := some (q + 1), len := n - (q - p) - 1 } ' ' = none := by
    simp only [str_chr_str, hm2]
  unfold parse_attribute_strs
  simp only [h1, Option.map_some', h2]
  rw [hlv]
  refine ⟨?_, ?_, ?_, ?_, ?_⟩ <;> trivial

/-- The strings that `parse_attribute_strs` carves out of a line value with a
colon at `q` and the first space after it at `q2`. -/
theorem parse_attribute_strs_space (buf : List Char) (a0 : sdp_attribute) (p n q q2 : Nat)
    (hlv : a0.strs.line_value = { s := some p, len := n })
    (hm : memchr buf p ':' n = some q)
    (hm2 : memchr buf (q + 1) ' ' (n - (q - p) - 1) = some q2) :
    (parse_attribute_strs buf a0).strs.line_value = a0.strs.line_value ∧
    (parse_attribute_strs buf a0).strs.name = { s := some p, len := n - (n - (q - p)) } ∧
    (parse_attribute_strs buf a0).strs.value = { s := some (q + 1), len := n - (q - p) - 1 } ∧
    (parse_attribute_strs buf a0).strs.key =
      { s := some p, len := n - (n - (q - p)) +
          (1 + (n - (q - p) - 1 - (n - (q - p) - 1 - (q2 - (q + 1))))) } ∧
    (parse_attribute_strs buf a0).param =
      (if n - (q - p) - 1 - (q2 - (q + 1)) - 1 = 0 then
        { s := none, len := n - (q - p) - 1 - (q2 - (q + 1)) - 1 }
       else { s := some (q2 + 1), len := n - (q - p) - 1 - (q2 - (q + 1)) - 1 }) := by
  have h1 : str_chr_str buf a0.strs.line_value ':' = some { s := some q, len := n - (q - p) } := by
    rw [hlv]; simp only [str_chr_str, hm]
  have h2 : str_chr_str buf { s := some (q + 1), len := n - (q - p) - 1 } ' '
      = some { s := some q2, len := n - (q - p) - 1 - (q2 - (q + 1)) } := by
    simp only [str_chr_str, hm2]
  unfold parse_attribute_strs
  simp only [h1, Option.map_some', h2]
  rw [hlv]
  refine ⟨?_, ?_, ?_, ?_, ?_⟩ <;> trivial
/-- C31: for an attribute whose line value is the `n` bytes at `p` of the
body.  If the line value contains a colon, it is `N ++ ":" ++ V` with no
colon in `N`, and `parse_attribute` sets the name to `N` and the value to `V`;
if `V` contains a space, it is `W ++ " " ++ P` with no space in `W`, the key
is `N ++ ":" ++ W` and the parameter is `P`, with a `NULL` pointer when `P` is
empty; if `V` contains no space, the key is `N ++ ":" ++ V` and the parameter
is left as it was.  If the line value contains no colon, the name is the
line value, and value, key and parameter are left as they were: empty, for
the zeroed attribute that `sdp_parse` allocates. -/
theorem c31_parse_attribute (env : Env) (buf : List Char) (a0 : sdp_attribute) (p n : Nat)
    (hlv : a0.strs.line_value = { s := some p, len := n }) (hin : p + n ≤ buf.length) :
    ((parse_attribute env buf a0).2.strs.line_value = a0.strs.line_value) ∧
    (':' ∈ bytes_at buf p n →
      ∃ N V, bytes_at buf p n = N ++ ':' :: V ∧ ':' ∉ N ∧
        str_bytes buf (parse_attribute env buf a0).2.strs.name = N ∧
        str_bytes buf (parse_attribute env buf a0).2.strs.value = V ∧
        (' ' ∈ V → ∃ W P, V = W ++ ' ' :: P ∧ ' ' ∉ W ∧
          str_bytes buf (parse_attribute env buf a0).2.strs.key = N ++ ':' :: W ∧
          str_bytes buf (parse_attribute env buf a0).2.param = P ∧
          (P = [] → (parse_attribute env buf a0).2.param = STR_NULL) ∧
          (P ≠ [] → (parse_attribute env buf a0).2.param.s.isSome = true)) ∧
        (' ' ∉ V →
          str_bytes buf (parse_attribute env buf a0).2.strs.key = N ++ ':' :: V ∧
          (parse_attribute env buf a0).2.param = a0.param)) ∧
    (':' ∉ bytes_at buf p n →
      (parse_attribute env buf a0).2.strs.name = a0.strs.line_value ∧
      (parse_attribute env buf a0).2.strs.value = a0.strs.value ∧
      (parse_attribute env buf a0).2.strs.key = a0.strs.key ∧
      (parse_attribute env buf a0).2.param = a0.param ∧
      (a0.strs.value = {} → a0.strs.key = {} → a0.param = {} →
        str_bytes buf (parse_attribute env buf a0).2.strs.value = [] ∧
        str_bytes buf (parse_attribute env buf a0).2.strs.key = [] ∧
        str_bytes buf (parse_attribute env buf a0).2.param = [])) := by
  have hsw := parse_attribute_switch_strs env buf (parse_attribute_strs buf a0)
  unfold parse_attribute
  rw [hsw.1, hsw.2]
  clear hsw
  cases hm : memchr buf p ':' n with
  | none =>
    have hno := memchr_none_mem buf p n ':' hm
    obtain ⟨e0, e1, e2, e3, e4⟩ := parse_attribute_strs_plain buf a0 p n hlv hm
    rw [e0, e1, e2, e3, e4]
    refine ⟨rfl, fun h => absurd h hno, fun _ => ⟨rfl, rfl, rfl, rfl, ?_⟩⟩
    intro h1 h2 h3
    rw [h1, h2, h3]
    exact ⟨rfl, rfl, rfl⟩
  | some q =>
    obtain ⟨h1, h2, h3, h4⟩ := memchr_some n p q hm
    obtain ⟨hs1, hs2⟩ := memchr_split buf p n q ':' hin hm
    have hname : str_bytes buf { s := some p, len := n - (n - (q - p)) }
        = bytes_at buf p (q - p) := by
      simp only [str_bytes]
      congr 1
      omega
    have hcolon : bytes_at buf q 1 = [':'] := by
      rw [bytes_at_cons buf q 0 (by omega), h3]
      simp [bytes_at]
    have hin2 : (':' ∉ bytes_at buf p n) → False := by
      intro h
      rw [hs1] at h
      exact h (List.mem_append_right _ (List.mem_cons_self _ _))
    cases hm2 : memchr buf (q + 1) ' ' (n - (q - p) - 1) with
    | none =>
      have hno := memchr_none_mem buf (q + 1) (n - (q - p) - 1) ' ' hm2
      obtain ⟨e0, e1, e2, e3, e4⟩ := parse_attribute_strs_colon buf a0 p n q hlv hm hm2
      rw [e0, e1, e2, e3, e4, hname]
      refine ⟨rfl, fun _ => ⟨bytes_at buf p (q - p), bytes_at buf (q + 1) (n - (q - p) - 1),
        hs1, hs2, rfl, rfl, fun h => absurd h hno, fun _ => ⟨?_, rfl⟩⟩,
        fun h => (hin2 h).elim⟩
      simp only [str_bytes]
      rw [show n - (n - (q - p)) + (1 + (n - (q - p) - 1)) = (q - p) + (1 + (n - (q - p) - 1))
        by omega, ← bytes_at_append, ← bytes_at_append, show p + (q - p) = q by omega, hcolon]
      rfl
    | some q2 =>
      obtain ⟨g1, g2, g3, g4⟩ := memchr_some _ _ _ hm2
      obtain ⟨gs1, gs2⟩ := memchr_split buf (q + 1) (n - (q - p) - 1) q2 ' ' (by omega) hm2
      obtain ⟨e0, e1, e2, e3, e4⟩ := parse_attribute_strs_space buf a0 p n q q2 hlv hm hm2
      rw [e0, e1, e2, e3, e4, hname]
      have hyes : ' ' ∈ bytes_at buf (q + 1) (n - (q - p) - 1) := by
        rw [gs1]
        exact List.mem_append_right _ (List.mem_cons_self _ _)
      have hl := bytes_at_length buf (q2 + 1) (n - (q - p) - 1 - (q2 - (q + 1)) - 1) (by omega)
      refine ⟨rfl, fun _ => ⟨bytes_at buf p (q - p), bytes_at buf (q + 1) (n - (q - p) - 1),
        hs1, hs2, rfl, rfl, fun _ => ⟨bytes_at buf (q + 1) (q2 - (q + 1)),
          bytes_at buf (q2 + 1) (n - (q - p) - 1 - (q2 - (q + 1)) - 1), gs1, gs2, ?_, ?_, ?_, ?_⟩,
          fun h => absurd hyes h⟩, fun h => (hin2 h).elim⟩
      · simp only [str_bytes]
        rw [show n - (n - (q - p)) + (1 + (n - (q - p) - 1 -
            (n - (q - p) - 1 - (q2 - (q + 1))))) = (q - p) + (1 + (q2 - (q + 1))) by omega,
          ← bytes_at_append, ← bytes_at_append, show p + (q - p) = q by omega, hcolon]
        rfl
      · by_cases hz : n - (q - p) - 1 - (q2 - (q + 1)) - 1 = 0
        · rw [if_pos hz, hz]
          simp [str_bytes, bytes_at]
        · rw [if_neg hz]
          rfl
      · intro hP
        rw [hP] at hl
        have hz : n - (q - p) - 1 - (q2 - (q + 1)) - 1 = 0 := hl.symm
        rw [if_pos hz, hz]
        rfl
      · intro hP
        have hz : ¬ (n - (q - p) - 1 - (q2 - (q + 1)) - 1 = 0) := by
          intro hz
          exact hP (List.eq_nil_of_length_eq_zero (hl.trans hz))
        rw [if_neg hz]
        rfl

/-- C31 on the line `a=rtpmap:8 PCMA/8000` and on the line `a=sendrecv`. -/
theorem c31_parse_attribute_witness :
    (str_bytes demo_attr_line (parse_attribute demo_env demo_attr_line
        (new_attribute 0 2 20 (some 22))).2.strs.name = "rtpmap".toList ∧
     str_bytes demo_attr_line (parse_attribute demo_env demo_attr_line
        (new_attribute 0 2 20 (some 22))).2.strs.value = "8 PCMA/8000".toList ∧
     str_bytes demo_attr_line (parse_attribute demo_env demo_attr_line
        (new_attribute 0 2 20 (some 22))).2.strs.key = "rtpmap:8".toList ∧
     str_bytes demo_attr_line (parse_attribute demo_env demo_attr_line
        (new_attribute 0 2 20 (some 22))).2.param = "PCMA/8000".toList) ∧
    (str_bytes demo_flag_line (parse_attribute demo_env demo_flag_line
        (new_attribute 0 2 10 (some 12))).2.strs.name = "sendrecv".toList ∧
     str_bytes demo_flag_line (parse_attribute demo_env demo_flag_line
        (new_attribute 0 2 10 (some 12))).2.strs.value = [] ∧
     str_bytes demo_flag_line (parse_attribute demo_env demo_flag_line
        (new_attribute 0 2 10 (some 12))).2.strs.key = [] ∧
     str_bytes demo_flag_line (parse_attribute demo_env demo_flag_line
        (new_attribute 0 2 10 (some 12))).2.param = []) := by
  have h2 := c31_parse_attribute demo_env demo_flag_line (new_attribute 0 2 10 (some 12)) 2 8
    rfl (by decide)
  refine ⟨by decide!, ?_⟩
  obtain ⟨e1, e2, e3, e4, e5⟩ := h2.2.2 (by decide)
  obtain ⟨f1, f2, f3⟩ := e5 rfl rfl rfl
  rw [e1]
  exact ⟨by decide, f1, f2, f3⟩

/-! ## The MKI buffer -/

/-- The MKI block on a field with a colon. -/
theorem crypto_mki_field (buf : List Char) (mki_str s : Str) (c5 : attribute_crypto)
    (mp : Nat) (hmp : mki_str.s = some mp) (hc : str_chr_str buf mki_str ':' = some s) :
    crypto_mki buf mki_str c5 =
      if (strtoul buf (s.s.getD 0 + 1)).1 % 2 ^ 32 > 256 then none
      else some { c5 with
        mki_len := (strtoul buf (s.s.getD 0 + 1)).1 % 2 ^ 32,
        mki := mki_encode ((strtoul buf mp).1 % 2 ^ 32)
          ((strtoul buf (s.s.getD 0 + 1)).1 % 2 ^ 32) } := by
  unfold crypto_mki
  simp only [hmp, hc]

/-- The bytes that `mki_encode` lays down. -/
theorem mki_encode_bytes (u n : Nat) :
    (4 ≤ n → mki_encode u n =
      List.replicate (n - 4) 0 ++ [u / 2 ^ 24 % 256, u / 2 ^ 16 % 256, u / 2 ^ 8 % 256, u % 256]) ∧
    (n < 4 → mki_encode u n = (List.range n).map (fun i => u / 256 ^ (n - 1 - i) % 256)) := by
  constructor
  · intro h
    unfold mki_encode htonl_bytes
    by_cases h4 : 4 ≥ n
    · have : n = 4 := by omega
      subst this
      rfl
    · rw [if_neg h4]
  · intro h
    unfold mki_encode htonl_bytes
    rw [if_pos (by omega)]
    interval_cases n <;> simp [List.range, List.range.loop]

/-- C32, as the code computes the buffer: for an `a=crypto` value with its three tokens, a key block
and a lifetime block that succeed, and an MKI field with a colon, whose value
`strtoul` converts to `v` and whose length `strtoul` converts to `L`; the
length is stored in an `unsigned int`, as `L mod 2^32`.  If `L mod 2^32` is
at most 256 the attribute is crypto, its MKI length is `L mod 2^32` and its
MKI buffer has that many bytes: from a length of 4 on, zeroes followed by the
four big-endian bytes of `v mod 2^32`; below 4, the least significant bytes of
`v mod 2^32` in big-endian order.  If `L mod 2^32` is above 256 the attribute
is tagged `ATTR_IGNORE`. -/
theorem c32_mki_buffer (env : Env) (buf : List Char) (output : sdp_attribute)
    (tag_str suite_str key_params_str r3 : Str) (c3 : attribute_crypto) (suite : crypto_suite)
    (lifetime_str mki_str s : Str) (lifetime mp v L : Nat)
    (h3 : extract_tokens buf 3 output.strs.value
      = some ([tag_str, suite_str, key_params_str], r3))
    (hk : crypto_key env buf
      { output.crypto with tag_str := tag_str, crypto_suite_str := suite_str,
                           key_params_str := key_params_str } = some (c3, suite))
    (hs : crypto_split buf (crypto_key_rest buf c3 suite) c3.mki_str
      = some (lifetime_str, mki_str))
    (hl : crypto_lifetime buf suite lifetime_str c3.lifetime = some lifetime)
    (hmp : mki_str.s = some mp) (hc : str_chr_str buf mki_str ':' = some s)
    (hv : (strtoul buf mp).1 = v) (hL : (strtoul buf (s.s.getD 0 + 1)).1 = L) :
    (parse_attribute_crypto env buf output).1 = 0 ∧
    (L % 2 ^ 32 ≤ 256 →
      (parse_attribute_crypto env buf output).2.attr = attr_id.ATTR_CRYPTO ∧
      (parse_attribute_crypto env buf output).2.crypto.mki_len = L % 2 ^ 32 ∧
      (parse_attribute_crypto env buf output).2.crypto.mki.length = L % 2 ^ 32 ∧
      (4 ≤ L % 2 ^ 32 →
        (parse_attribute_crypto env buf output).2.crypto.mki =
          List.replicate (L % 2 ^ 32 - 4) 0 ++
            [v % 2 ^ 32 / 2 ^ 24 % 256, v % 2 ^ 32 / 2 ^ 16 % 256, v % 2 ^ 32 / 2 ^ 8 % 256,
             v % 2 ^ 32 % 256]) ∧
      (L % 2 ^ 32 < 4 →
        (parse_attribute_crypto env buf output).2.crypto.mki =
          (List.range (L % 2 ^ 32)).map
            (fun i => v % 2 ^ 32 / 256 ^ (L % 2 ^ 32 - 1 - i) % 256))) ∧
    (256 < L % 2 ^ 32 →
      (parse_attribute_crypto env buf output).2.attr = attr_id.ATTR_IGNORE) := by
  rw [parse_attribute_crypto_checked env buf output _ _ _ _ h3, parse_crypto_checked_blocks, hk]
  simp only [hs, hl, crypto_mki_field buf mki_str s _ mp hmp hc, hv, hL]
  by_cases hb : L % 2 ^ 32 > 256
  · rw [if_pos hb]
    simp only
    exact ⟨trivial, fun h => absurd hb (by omega), fun _ => trivial⟩
  · rw [if_neg hb]
    simp only
    obtain ⟨_, k2, k3, _⟩ := crypto_session_params_keeps buf (r3.len + 1) r3
      { c3 with lifetime_str := lifetime_str, mki_str := mki_str, lifetime := lifetime,
                mki_len := L % 2 ^ 32, mki := mki_encode (v % 2 ^ 32) (L % 2 ^ 32) }
    refine ⟨trivial, fun _ => ⟨trivial, ?_, ?_, ?_, ?_⟩, fun h => absurd h hb⟩
    · rw [k3]
    · rw [k2]
      exact mki_encode_length _ _
    · intro h4
      rw [k2]
      exact (mki_encode_bytes _ _).1 h4
    · intro h4
      rw [k2]
      exact (mki_encode_bytes _ _).2 h4

/-- C32 on the field `258:2`: the buffer is the two bytes `1 2`. -/
theorem c32_mki_buffer_witness :
    (demo_crypto_attr demo_crypto_short).attr = attr_id.ATTR_CRYPTO ∧
    (demo_crypto_attr demo_crypto_short).crypto.mki_len = 2 ∧
    (demo_crypto_attr demo_crypto_short).crypto.mki = [1, 2] :=
  with_facts7 (fun fact1 fact2 fact3 fact4 fact5 fact6 fact7 => by
    have h := (c32_mki_buffer demo_env_glib demo_crypto_short
        { strs := { value := demo_whole demo_crypto_short } }
        { s := some 0, len := 1 } { s := some 2, len := 23 } { s := some 26, len := 58 } STR_NULL
        (demo_crypto_key demo_crypto_short).1 (demo_crypto_key demo_crypto_short).2
        { s := some 74, len := 4 } { s := some 79, len := 5 } { s := some 82, len := 2 }
        (2 ^ 20) 79 258 2
        (fact1) (fact2) (fact3) (fact4) rfl (fact5) (fact6)
        (fact7)).2.1 (by decide)
    exact ⟨h.1, h.2.1, (h.2.2.2.2 (by decide)).trans (by decide)⟩) (by decide!)

/-- C32 fails in the code.  The MKI field `1:4294967300` has the length
2^32 + 4, which is above 256, and the attribute is not ignored: the length is
stored as 4 and the buffer is `0 0 0 1`. -/
theorem c32_counterexample :
    (strtoul demo_crypto_wide 81).1 = 2 ^ 32 + 4 ∧
    (demo_crypto_attr demo_crypto_wide).attr = attr_id.ATTR_CRYPTO ∧
    (demo_crypto_attr demo_crypto_wide).crypto.mki_len = 4 ∧
    (demo_crypto_attr demo_crypto_wide).crypto.mki = [0, 0, 0, 1] :=
  with_facts4 (fun fact1 fact2 fact3 fact4 =>
    ⟨fact1, fact2, fact3, fact4⟩) (by decide!)

theorem same_sections_refl {st : parse_state} {session : sdp_session}
    (hs : st.session = some session) : same_sections st st session st.media :=
  ⟨rfl, ⟨session, hs, rfl, rfl⟩, rfl⟩

theorem sdp_parse_o_same {env : Env} {buf : List Char} {st st2 : parse_state}
    {session : sdp_session} {v : Str}
    (h : sdp_parse_o env buf st session v = Except.ok st2) :
    same_sections st st2 session st.media := by
  unfold sdp_parse_o at h
  split at h
  · simp at h
  · split at h
    · simp at h
    · injection h with h
      subst h
      exact ⟨rfl, ⟨_, rfl, rfl, rfl⟩, rfl⟩

theorem sdp_parse_c_same {env : Env} {buf : List Char} {st st2 : parse_state}
    {session : sdp_session} {v : Str} (hs : st.session = some session)
    (h : sdp_parse_c env buf st session v = Except.ok st2) :
    same_sections st st2 session st.media := by
  unfold sdp_parse_c at h
  split at h
  · rename_i m hm
    split at h
    · simp at h
    · injection h with h
      subst h
      refine ⟨rfl, ⟨session, hs, rfl, rfl⟩, ?_⟩
      rw [hm]
      rfl
  · rename_i hm
    split at h
    · simp at h
    · injection h with h
      subst h
      refine ⟨rfl, ⟨_, rfl, rfl, rfl⟩, ?_⟩
      show st.media.map media_section = st.media.map media_section
      rfl

theorem set_c_line_pos_none {media : Option sdp_media} {b : Nat}
    (h : set_c_line_pos media b = none) : media = none := by
  cases media with
  | none => rfl
  | some m => simp [set_c_line_pos] at h

theorem sdp_parse_a_same {env : Env} {buf : List Char} {st st2 : parse_state}
    {session : sdp_session} {b value line_end : Nat} {nl : Option Nat}
    (hs : st.session = some session)
    (h : sdp_parse_a env buf st session b value line_end nl = Except.ok st2) :
    same_sections st st2 session (set_c_line_pos st.media b) := by
  unfold sdp_parse_a at h
  simp only at h
  split at h
  · injection h with h
    subst h
    exact ⟨rfl, ⟨session, hs, rfl, rfl⟩, rfl⟩
  · split at h
    · rename_i m hm
      injection h with h
      subst h
      refine ⟨rfl, ⟨session, hs, rfl, rfl⟩, ?_⟩
      rw [hm]
      rfl
    · rename_i hm
      injection h with h
      subst h
      refine ⟨rfl, ⟨_, rfl, rfl, rfl⟩, ?_⟩
      rw [hm]
      show st.media.map media_section = none
      rw [set_c_line_pos_none hm]
      rfl

theorem sdp_parse_b_same {buf : List Char} {st st2 : parse_state}
    {session : sdp_session} {b value line_end : Nat}
    (hs : st.session = some session)
    (h : sdp_parse_b buf st session b value line_end = Except.ok st2) :
    same_sections st st2 session (set_c_line_pos st.media b) := by
  unfold sdp_parse_b at h
  simp only at h
  split at h
  · injection h with h
    subst h
    exact ⟨rfl, ⟨session, hs, rfl, rfl⟩, rfl⟩
  · split at h
    · rename_i m hm
      have key : ∀ m1 : sdp_media, m1.s = m.s → m1.c_line_pos = m.c_line_pos →
          same_sections st { st with media := some m1 } session (set_c_line_pos st.media b) := by
        intro m1 h1 h2
        refine ⟨rfl, ⟨session, hs, rfl, rfl⟩, ?_⟩
        rw [hm]
        show some (media_section m1) = some (media_section m)
        simp only [media_section, h1, h2]
      rcases ite_cases h with ⟨_, h⟩ | ⟨_, h⟩
      · injection h with h
        subst h
        exact key _ rfl rfl
      rcases ite_cases h with ⟨_, h⟩ | ⟨_, h⟩
      · injection h with h
        subst h
        exact key _ rfl rfl
      rcases ite_cases h with ⟨_, h⟩ | ⟨_, h⟩
      · injection h with h
        subst h
        exact key _ rfl rfl
      · injection h with h
        subst h
        exact ⟨rfl, ⟨session, hs, rfl, rfl⟩, rfl⟩
    · rename_i hm
      have key : ∀ s1 : sdp_session, s1.s = session.s →
          s1.media_streams = session.media_streams →
          same_sections st { st with media := set_c_line_pos st.media b, session := some s1 }
            session (set_c_line_pos st.media b) := by
        intro s1 h1 h2
        exact ⟨rfl, ⟨s1, rfl, h1, h2⟩, rfl⟩
      rcases ite_cases h with ⟨_, h⟩ | ⟨_, h⟩
      · injection h with h
        subst h
        exact key _ rfl rfl
      rcases ite_cases h with ⟨_, h⟩ | ⟨_, h⟩
      · injection h with h
        subst h
        exact key _ rfl rfl
      · injection h with h
        subst h
        exact ⟨rfl, ⟨session, hs, rfl, rfl⟩, rfl⟩

theorem sdp_parse_st_same {st st2 : parse_state} {session : sdp_session} {v : Str}
    (h : sdp_parse_s st session v = Except.ok st2 ∨ sdp_parse_t st session v = Except.ok st2) :
    same_sections st st2 session st.media := by
  rcases h with h | h
  · unfold sdp_parse_s at h
    split at h
    · simp at h
    · injection h with h
      subst h
      exact ⟨rfl, ⟨_, rfl, rfl, rfl⟩, rfl⟩
  · unfold sdp_parse_t at h
    split at h
    · simp at h
    · injection h with h
      subst h
      exact ⟨rfl, ⟨_, rfl, rfl, rfl⟩, rfl⟩

theorem sdp_parse_m_kind {env : Env} {buf : List Char} {st st2 : parse_state}
    {session : sdp_session} {b : Nat} {v : Str}
    (h : sdp_parse_m env buf st session b v = Except.ok st2) :
    st2.done = st.done ∧
    st2.session = some (close_session session (set_c_line_pos st.media b)) ∧
    ∃ m1, st2.media = some m1 ∧ m1.s = { s := some b, len := 0 } ∧ m1.c_line_pos = none := by
  unfold sdp_parse_m at h
  simp only at h
  split at h
  · simp at h
  · rename_i m hm
    injection h with h
    subst h
    refine ⟨rfl, rfl, _, rfl, rfl, ?_⟩
    show m.c_line_pos = none
    exact (parse_media_attrs hm).2

theorem sdp_parse_switch_kind {env : Env} {buf : List Char} {st st2 : parse_state}
    {session : sdp_session} {b value line_end : Nat} {next_line : Option Nat}
    (hs : st.session = some session)
    (h : sdp_parse_switch env buf st session b value line_end next_line = Except.ok st2) :
    switch_kind buf st session b st2 := by
  unfold sdp_parse_switch at h
  rcases ite_cases h with ⟨hc, h⟩ | ⟨hv, h⟩
  · exact Or.inl ⟨hc, (sdp_parse_v_ok h).1⟩
  have other : ∀ c : Char, getc buf b = c → c ≠ 'v' → c ≠ 'm' →
      same_sections st st2 session (if is_abk c then set_c_line_pos st.media b else st.media) →
      switch_kind buf st session b st2 := by
    intro c hc h1 h2 hsame
    right; right
    rw [hc]
    exact ⟨h1, h2, hsame⟩
  rcases ite_cases h with ⟨hc, h⟩ | ⟨_, h⟩
  · exact other 'o' hc (by decide) (by decide) (sdp_parse_o_same h)
  rcases ite_cases h with ⟨hc, h⟩ | ⟨hm, h⟩
  · exact Or.inr (Or.inl ⟨hc, sdp_parse_m_kind h⟩)
  rcases ite_cases h with ⟨hc, h⟩ | ⟨_, h⟩
  · exact other 'c' hc (by decide) (by decide) (sdp_parse_c_same hs h)
  rcases ite_cases h with ⟨hc, h⟩ | ⟨ha, h⟩
  · exact other 'a' hc (by decide) (by decide) (sdp_parse_a_same hs h)
  rcases ite_cases h with ⟨hc, h⟩ | ⟨hb, h⟩
  · exact other 'b' hc (by decide) (by decide) (sdp_parse_b_same hs h)
  rcases ite_cases h with ⟨hc, h⟩ | ⟨hk, h⟩
  · injection h with h
    subst h
    exact other 'k' hc (by decide) (by decide) ⟨rfl, ⟨session, hs, rfl, rfl⟩, rfl⟩
  have habk : is_abk (getc buf b) = false := by
    simp only [is_abk, ha, hb, hk, decide_False, Bool.or_self]
  right; right
  rw [habk]
  refine ⟨hv, hm, ?_⟩
  rcases ite_cases h with ⟨_, h⟩ | ⟨_, h⟩
  · exact sdp_parse_st_same (Or.inl h)
  rcases ite_cases h with ⟨_, h⟩ | ⟨_, h⟩
  · exact sdp_parse_st_same (Or.inr h)
  rcases ite_cases h with ⟨_, h⟩ | ⟨_, h⟩
  · injection h with h
    subst h
    exact same_sections_refl hs
  · simp at h

/-- One turn of the loop that goes on: the state it leaves is the state after
the switch (or after `new_session:`), with the length of the current section
adjusted, and the switch acts on the sections by the kind of the line. -/
theorem sdp_parse_line_kind {env : Env} {buf : List Char} {end_ : Nat} {strict fragment : Bool}
    {st st1 : parse_state} {b : Nat} {nl : Option Nat}
    (h : sdp_parse_line env strict buf end_ fragment st b = parse_step.next st1 nl) :
    ∃ st2 session2, st2.session = some session2 ∧
      st1 = adjust_len st2 session2 (line_after buf end_ b) ∧
      ((st.session = none ∧ st2 = new_session st b) ∨
       (∃ session, st.session = some session ∧ switch_kind buf st session b st2)) := by
  have hnl := sdp_parse_line_next h
  unfold sdp_parse_line at h
  rcases ite_cases h with ⟨_, h⟩ | ⟨_, h⟩
  · simp at h
  rcases ite_cases h with ⟨_, h⟩ | ⟨_, h⟩
  · simp at h
  simp only at h
  split at h
  · simp at h
  · rename_i st2 hsw
    split at h
    · simp at h
    · rename_i session2 hs2
      injection h with h1 h2
      subst h2
      refine ⟨st2, session2, hs2, h1.symm, ?_⟩
      split at hsw
      · rename_i hs
        left
        refine ⟨hs, ?_⟩
        rcases ite_cases hsw with ⟨_, hsw⟩ | ⟨_, hsw⟩
        · rcases ite_cases hsw with ⟨_, hsw⟩ | ⟨_, hsw⟩
          · simp at hsw
          · injection hsw with hsw
            exact hsw.symm
        · exact (sdp_parse_v_ok hsw).1
      · rename_i session hs
        right
        exact ⟨session, hs, sdp_parse_switch_kind hs hsw⟩


theorem sections_of_append (A B : List sdp_session) :
    sections_of (A ++ B) = sections_of A ++ sections_of B := by
  simp only [sections_of, List.map_append, List.flatten_append]

theorem sections_of_singleton (s : sdp_session) : sections_of [s] = session_sections s := by
  simp only [sections_of, List.map_cons, List.map_nil, List.flatten_cons, List.flatten_nil,
    List.append_nil]

theorem session_sections_close (session : sdp_session) (media : Option sdp_media) :
    session_sections (close_session session media) =
      session_sections session ++ media.toList.map media_section := by
  simp only [session_sections, close_session, session_section, List.map_append,
    List.cons_append]

theorem state_ok_init (sessions0 : List sdp_session) :
    state_ok sessions0 (parse_init sessions0) := by
  refine ⟨?_, ?_, ?_, ?_⟩
  · simp only [parse_init, List.take_length]
  · simp only [parse_init, le_refl]
  · intro _; rfl
  · intro s hs; simp [parse_init] at hs

/-- The sections of the queue that a state stands for are its closed sections
and the current one. -/
theorem state_sections {sessions0 : List sdp_session} {st : parse_state}
    (hok : state_ok sessions0 st) :
    sections_of ((sessions_of st).drop sessions0.length) =
      state_closed sessions0.length st ++ (state_cur st).toList := by
  obtain ⟨_, hlen, hnone, hmed⟩ := hok
  unfold sessions_of state_closed state_cur
  rw [List.drop_append_of_le_length hlen, sections_of_append]
  cases hs : st.session with
  | none =>
    simp only [Option.map_none', Option.toList_none, sections_of, List.map_nil,
      List.flatten_nil, List.append_nil]
  | some s =>
    rw [Option.map_some', Option.toList_some, sections_of_singleton, session_sections_close]
    cases hm : st.media with
    | none =>
      have := hmed s hs hm
      simp only [Option.toList_none, List.map_nil, List.append_nil, Option.toList_some,
        session_sections, this]
    | some m =>
      simp only [Option.toList_some, List.map_cons, List.map_nil, List.append_assoc]

theorem sessions_of_take {sessions0 : List sdp_session} {st : parse_state}
    (hok : state_ok sessions0 st) :
    (sessions_of st).take sessions0.length = sessions0 := by
  obtain ⟨htake, hlen, _, _⟩ := hok
  unfold sessions_of
  rw [List.take_append_of_le_length hlen]
  exact htake

/-- One turn of the loop acts on the sections as `layout_step` does. -/
theorem sdp_parse_line_layout {env : Env} {buf : List Char} {end_ : Nat}
    {strict fragment : Bool} {sessions0 : List sdp_session}
    {st st1 : parse_state} {b : Nat} {nl : Option Nat}
    (hok : state_ok sessions0 st)
    (h : sdp_parse_line env strict buf end_ fragment st b = parse_step.next st1 nl) :
    state_ok sessions0 st1 ∧
    layout_step buf end_
        { closed := state_closed sessions0.length st, cur := state_cur st, pos := b } =
      { closed := state_closed sessions0.length st1, cur := state_cur st1,
        pos := nl.getD end_ } := by
  have hnl : nl.getD end_ = line_after buf end_ b := by
    rw [sdp_parse_line_next h]; rfl
  rw [hnl]
  obtain ⟨st2, session2, hs2, hst1, hkind⟩ := sdp_parse_line_kind h
  have hok' := hok
  obtain ⟨htake, hlen, hnone, hmed⟩ := hok
  -- the `new_session:` label
  have new_case : st2 = new_session st b →
      (st.session = none ∨ getc buf b = 'v') →
      state_ok sessions0 st1 ∧
      layout_step buf end_
          { closed := state_closed sessions0.length st, cur := state_cur st, pos := b } =
        { closed := state_closed sessions0.length st1, cur := state_cur st1,
          pos := line_after buf end_ b } := by
    intro hst2 hcase
    subst hst2
    simp only [new_session, Option.some.injEq] at hs2
    subst hs2
    subst hst1
    constructor
    · refine ⟨?_, ?_, ?_, ?_⟩
      · exact sessions_of_take hok'
      · show sessions0.length ≤ (sessions_of st).length
        unfold sessions_of
        rw [List.length_append]
        omega
      · intro hn
        simp [adjust_len, new_session] at hn
      · intro s hs _
        simp only [adjust_len, new_session, Option.some.injEq] at hs
        subst hs
        rfl
    · have hc1 : state_closed sessions0.length
          (adjust_len (new_session st b)
            { s := { s := some b, len := 0 }, rr := -1, rs := -1 } (line_after buf end_ b)) =
          state_closed sessions0.length st ++ (state_cur st).toList := by
        rw [← state_sections hok']
        simp only [state_closed, adjust_len, new_session, List.append_nil]
      have hc2 : state_cur
          (adjust_len (new_session st b)
            { s := { s := some b, len := 0 }, rr := -1, rs := -1 } (line_after buf end_ b)) =
          some { is_media := false, s := { s := some b, len := line_after buf end_ b - b },
                 c_line_pos := none } := by
        simp only [state_cur, adjust_len, new_session, session_section, Option.getD_some]
      rw [hc1, hc2]
      unfold layout_step
      simp only
      cases hcur : state_cur st with
      | none => simp only [Option.toList_none, List.append_nil]
      | some x =>
        rcases hcase with hn | hv
        · simp [state_cur, hn] at hcur
        · simp only [hv, if_true, Option.toList_some]
  rcases hkind with ⟨hn, hst2⟩ | ⟨session, hs, hk⟩
  · exact new_case hst2 (Or.inl hn)
  rcases hk with ⟨hv, hst2⟩ | ⟨hm, hd, hs2', m1, hm1, hm1s, hm1c⟩ | ⟨hv, hm, hd, ⟨s2, hs2', hss, hsm⟩, hmv⟩
  · exact new_case hst2 (Or.inr hv)
  · -- an `m=` line
    rw [hs2'] at hs2
    injection hs2 with hs2
    subst hs2
    have hst1' : st1 = { st2 with media := some { m1 with
        s := { m1.s with len := line_after buf end_ b - m1.s.s.getD 0 } } } := by
      rw [hst1]
      simp only [adjust_len, hm1]
    constructor
    · refine ⟨?_, ?_, ?_, ?_⟩
      · rw [hst1']; show st2.done.take _ = _; rw [hd]; exact htake
      · rw [hst1']; show sessions0.length ≤ st2.done.length; rw [hd]; exact hlen
      · intro hn
        rw [hst1'] at hn
        simp only [hs2'] at hn
        cases hn
      · intro s _ hmn
        rw [hst1'] at hmn
        simp at hmn
    · have hc1 : state_closed sessions0.length st1 =
          sections_of (st.done.drop sessions0.length) ++
            session_sections (close_session session (set_c_line_pos st.media b)) := by
        rw [hst1']
        simp only [state_closed, hs2', hd]
      have hc2 : state_cur st1 =
          some { is_media := true, s := { s := some b, len := line_after buf end_ b - b },
                 c_line_pos := none } := by
        rw [hst1']
        simp only [state_cur, hs2', media_section, hm1s, hm1c, Option.getD_some]
      rw [hc1, hc2, session_sections_close]
      unfold layout_step
      have hv : ('m' : Char) ≠ 'v' := by decide
      cases hmed' : st.media with
      | none =>
        have hms := hmed session hs hmed'
        simp only [state_cur, state_closed, hs, hmed', hv, hm, if_true, if_false,
          List.append_nil, set_c_line_pos, Option.map_none', Option.toList_none, List.map_nil,
          session_sections, hms, session_section, Bool.false_and, Bool.false_eq_true]
      | some m =>
        simp only [state_cur, state_closed, hs, hmed', hv, hm, if_true, if_false,
          set_c_line_pos, Option.map_some', Option.toList_some, List.map_cons, List.map_nil,
          media_section, Bool.true_and, List.append_assoc]
        cases hcl : m.c_line_pos with
        | none => simp only [Option.isNone_none, if_true, hcl]
        | some x => simp only [Option.isNone_some, Bool.false_eq_true, if_false, hcl]
  · -- a line that extends the current section
    rw [hs2'] at hs2
    injection hs2 with hs2
    subst hs2
    have hsec : session_sections s2 = session_sections session := by
      simp only [session_sections, session_section, hss, hsm]
    unfold layout_step
    cases hmed' : st.media with
    | none =>
      have hms := hmed session hs hmed'
      have hm2 : st2.media = none := by
        rw [hmed'] at hmv
        simp only [set_c_line_pos, Option.map_none', ite_self] at hmv
        cases h2 : st2.media with
        | none => rfl
        | some x => rw [h2] at hmv; simp at hmv
      have hst1' : st1 = { st2 with session := some { s2 with
          s := { s2.s with len := line_after buf end_ b - s2.s.s.getD 0 } } } := by
        rw [hst1]
        simp only [adjust_len, hm2]
      constructor
      · refine ⟨?_, ?_, ?_, ?_⟩
        · rw [hst1']; show st2.done.take _ = _; rw [hd]; exact htake
        · rw [hst1']; show sessions0.length ≤ st2.done.length; rw [hd]; exact hlen
        · intro hn
          rw [hst1'] at hn
          simp at hn
        · intro s hs' _
          rw [hst1'] at hs'
          simp only [Option.some.injEq] at hs'
          subst hs'
          show s2.media_streams = []
          rw [hsm]; exact hms
      · rw [hst1']
        simp only [state_cur, state_closed, hs, hmed', hm2, hv, hm, if_false, hd,
          session_section, hss, Bool.false_and, Bool.false_eq_true]
    | some m =>
      obtain ⟨m2, hm2, hm2s, hm2c⟩ : ∃ m2, st2.media = some m2 ∧ m2.s = m.s ∧
          m2.c_line_pos = (if is_abk (getc buf b) && m.c_line_pos.isNone then some b
            else m.c_line_pos) := by
        rw [hmed'] at hmv
        cases h2 : st2.media with
        | none =>
          rw [h2] at hmv
          split at hmv <;> simp [set_c_line_pos] at hmv
        | some m2 =>
          rw [h2] at hmv
          refine ⟨m2, rfl, ?_⟩
          cases habk : is_abk (getc buf b) with
          | false =>
            simp only [habk, Bool.false_eq_true, if_false, Option.map_some', Option.some.injEq,
              media_section, section_view.mk.injEq, true_and] at hmv
            simp only [Bool.false_and, Bool.false_eq_true, if_false]
            exact hmv
          | true =>
            simp only [habk, if_true, set_c_line_pos, Option.map_some', Option.some.injEq,
              media_section, section_view.mk.injEq, true_and] at hmv
            simp only [Bool.true_and]
            cases hcl : m.c_line_pos with
            | none =>
              simp only [hcl, Option.isNone_none, if_true] at hmv ⊢
              exact hmv
            | some x =>
              simp only [hcl, Option.isNone_some, Bool.false_eq_true, if_false] at hmv ⊢
              exact hmv
      have hst1' : st1 = { st2 with media := some { m2 with
          s := { m2.s with len := line_after buf end_ b - m2.s.s.getD 0 } } } := by
        rw [hst1]
        simp only [adjust_len, hm2]
      constructor
      · refine ⟨?_, ?_, ?_, ?_⟩
        · rw [hst1']; show st2.done.take _ = _; rw [hd]; exact htake
        · rw [hst1']; show sessions0.length ≤ st2.done.length; rw [hd]; exact hlen
        · intro hn
          rw [hst1'] at hn
          simp only [hs2'] at hn
          cases hn
        · intro s _ hmn
          rw [hst1'] at hmn
          simp at hmn
      · rw [hst1']
        simp only [state_cur, state_closed, hs, hs2', hmed', hv, hm, if_false, hd, hsec,
          media_section, hm2s, hm2c, Bool.true_and]


theorem sdp_parse_line_not_blank {env : Env} {buf : List Char} {end_ : Nat}
    {strict fragment : Bool} {st st1 : parse_state} {b : Nat} {nl : Option Nat}
    (h : sdp_parse_line env strict buf end_ fragment st b = parse_step.next st1 nl) :
    (!strict && (decide (getc buf b = '\n') || decide (getc buf b = '\r'))) = false := by
  unfold sdp_parse_line at h
  rcases ite_cases h with ⟨_, h⟩ | ⟨hc, _⟩
  · simp at h
  · simpa using hc

/-- The sections of a successful run of the loop are those of the layout of
the lines read, and `body->len` is cut where the reading ends with two
bytes or more left. -/
theorem sdp_parse_loop_layout {env : Env} {buf : List Char} {end_ : Nat}
    {strict fragment : Bool} {sessions0 : List sdp_session} :
    ∀ (fuel : Nat) (st : parse_state) (b : Option Nat) (r : parse_result),
      state_ok sessions0 st →
      sdp_parse_loop env strict buf end_ fragment fuel st b = some r → r.ret = 0 →
      r.sessions.take sessions0.length = sessions0 ∧
      sections_of (r.sessions.drop sessions0.length) =
        layout_sections (layout_run strict buf end_ fuel
          { closed := state_closed sessions0.length st, cur := state_cur st,
            pos := b.getD end_ }) ∧
      r.body_len =
        (if (layout_run strict buf end_ fuel
            { closed := state_closed sessions0.length st, cur := state_cur st,
              pos := b.getD end_ }).pos + 1 < end_ then
          (layout_run strict buf end_ fuel
            { closed := state_closed sessions0.length st, cur := state_cur st,
              pos := b.getD end_ }).pos
         else end_) := by
  intro fuel
  induction fuel with
  | zero => intro st b r _ h _; simp [sdp_parse_loop] at h
  | succ n ih =>
    intro st b r hok h hret
    unfold sdp_parse_loop at h
    have stay : ∀ (p bl : Nat),
        r = { ret := 0, sessions := sessions_of st, body_len := bl } →
        layout_run strict buf end_ (n + 1)
          { closed := state_closed sessions0.length st, cur := state_cur st, pos := p } =
          { closed := state_closed sessions0.length st, cur := state_cur st, pos := p } →
        bl = (if p + 1 < end_ then p else end_) →
        r.sessions.take sessions0.length = sessions0 ∧
        sections_of (r.sessions.drop sessions0.length) =
          layout_sections (layout_run strict buf end_ (n + 1)
            { closed := state_closed sessions0.length st, cur := state_cur st, pos := p }) ∧
        r.body_len =
          (if (layout_run strict buf end_ (n + 1)
              { closed := state_closed sessions0.length st, cur := state_cur st,
                pos := p }).pos + 1 < end_ then
            (layout_run strict buf end_ (n + 1)
              { closed := state_closed sessions0.length st, cur := state_cur st,
                pos := p }).pos
           else end_) := by
      intro p bl hr hrun hbl
      rw [hrun, hr]
      exact ⟨sessions_of_take hok, state_sections hok, hbl⟩
    cases b with
    | none =>
      simp only [Option.some.injEq] at h
      refine stay end_ end_ h.symm ?_ ?_
      · unfold layout_run
        simp only [Nat.lt_irrefl, if_false, Nat.add_one_ne_zero, add_lt_iff_neg_left,
          not_lt_zero']
      · simp only [add_lt_iff_neg_left, not_lt_zero', if_false]
    | some p =>
      simp only at h
      by_cases hb : p + 1 < end_
      · simp only [hb, if_true] at h
        cases hl : sdp_parse_line env strict buf end_ fragment st p with
        | error e =>
          rw [hl] at h
          simp only [Option.some.injEq] at h
          rw [← h] at hret
          simp at hret
        | stop =>
          rw [hl] at h
          simp only [Option.some.injEq] at h
          obtain ⟨hs, hblank⟩ := sdp_parse_line_stop.mp hl
          refine stay p p h.symm ?_ ?_
          · unfold layout_run
            have : (!strict && (decide (getc buf p = '\n') || decide (getc buf p = '\r')))
                = true := by
              rw [hs]
              rcases hblank with h1 | h1 <;> simp [h1]
            simp only [hb, if_true, this]
          · simp only [Option.getD_some, hb, if_true]
        | next st1 nl =>
          rw [hl] at h
          simp only at h
          obtain ⟨hok1, hstep⟩ := sdp_parse_line_layout hok hl
          have hnb := sdp_parse_line_not_blank hl
          have hrun : layout_run strict buf end_ (n + 1)
              { closed := state_closed sessions0.length st, cur := state_cur st,
                pos := (some p).getD end_ } =
              layout_run strict buf end_ n
                { closed := state_closed sessions0.length st1, cur := state_cur st1,
                  pos := nl.getD end_ } := by
            rw [← hstep]
            conv_lhs => unfold layout_run
            simp only [Option.getD_some, hb, if_true, hnb, Bool.false_eq_true, if_false]
          rw [hrun]
          exact ih st1 nl r hok1 h hret
      · simp only [hb, if_false, Option.some.injEq] at h
        refine stay p end_ h.symm ?_ ?_
        · unfold layout_run
          simp only [hb, if_false]
        · simp only [hb, if_false]

theorem layout_step_pos (buf : List Char) (end_ : Nat) (a : layout_state) :
    (layout_step buf end_ a).pos = line_after buf end_ a.pos := by
  unfold layout_step
  simp only
  split
  · rfl
  · split
    · rfl
    · split <;> rfl

theorem layout_run_pos (strict : Bool) (buf : List Char) (end_ : Nat) :
    ∀ (fuel : Nat) (a : layout_state),
      (layout_run strict buf end_ fuel a).pos = lines_end strict buf end_ fuel a.pos := by
  intro fuel
  induction fuel with
  | zero => intro a; rfl
  | succ n ih =>
    intro a
    unfold layout_run lines_end
    split
    · split
      · rfl
      · rw [ih, layout_step_pos]
    · rfl

theorem line_after_bounds (buf : List Char) {end_ b : Nat} (hb : b + 1 < end_) :
    b + 2 ≤ line_after buf end_ b ∧ line_after buf end_ b ≤ end_ ∧
    (line_after buf end_ b = end_ ∨ getc buf (line_after buf end_ b - 1) = '\n') := by
  unfold line_after find_next_line
  cases hm : memchr buf (b + 2) '\n' (end_ - (b + 2)) with
  | none =>
    simp only [Option.map_none', Option.getD_none, le_refl, true_or, and_true]
    omega
  | some q =>
    obtain ⟨h1, h2, h3, _⟩ := memchr_some _ _ _ hm
    simp only [Option.map_some', Option.getD_some, Nat.add_sub_cancel]
    refine ⟨by omega, by omega, Or.inr h3⟩


theorem tiled_append : ∀ (l1 : List Str) (lo mid hi : Nat) (l2 : List Str),
    tiled lo mid l1 → tiled mid hi l2 → tiled lo hi (l1 ++ l2) := by
  intro l1
  induction l1 with
  | nil =>
    intro lo mid hi l2 h1 h2
    simp only [tiled] at h1
    subst h1
    exact h2
  | cons x rest ih =>
    intro lo mid hi l2 h1 h2
    exact ⟨h1.1, ih _ _ _ _ h1.2 h2⟩

theorem tiled_snoc_inv : ∀ (l : List Str) (lo hi : Nat) (x : Str),
    tiled lo hi (l ++ [x]) → ∃ p, tiled lo p l ∧ x.s = some p ∧ p + x.len = hi := by
  intro l
  induction l with
  | nil =>
    intro lo hi x h
    exact ⟨lo, rfl, h.1, h.2⟩
  | cons y rest ih =>
    intro lo hi x h
    obtain ⟨p, h1, h2, h3⟩ := ih _ _ _ h.2
    exact ⟨p, ⟨h.1, h1⟩, h2, h3⟩

theorem tiled_le : ∀ (l : List Str) (lo hi : Nat), tiled lo hi l → lo ≤ hi := by
  intro l
  induction l with
  | nil => intro lo hi h; exact le_of_eq h
  | cons x rest ih =>
    intro lo hi h
    have := ih _ _ h.2
    omega

/-- Slices that tile a range spell out its bytes. -/
theorem tiled_bytes (buf : List Char) : ∀ (l : List Str) (lo hi : Nat), tiled lo hi l →
    (l.map (str_bytes buf)).flatten = bytes_at buf lo (hi - lo) := by
  intro l
  induction l with
  | nil =>
    intro lo hi h
    simp only [tiled] at h
    subst h
    simp [bytes_at]
  | cons x rest ih =>
    intro lo hi h
    have hle := tiled_le _ _ _ h.2
    rw [List.map_cons, List.flatten_cons, ih _ _ h.2]
    have : str_bytes buf x = bytes_at buf lo x.len := by
      unfold str_bytes
      rw [h.1]
    rw [this, bytes_at_append]
    congr 1
    omega

theorem layout_ok_init (buf : List Char) (end_ : Nat) :
    layout_ok buf end_ { closed := [], cur := none, pos := 0 } [] := by
  refine ⟨rfl, Nat.zero_le _, ?_, ?_, rfl, ?_⟩
  · intro y hy; cases hy
  · intro _; exact ⟨rfl, rfl, rfl⟩
  · intro x hx
    simp [layout_sections] at hx

/-- A section that is closed stays in agreement when a further line is read. -/
theorem section_ok_keep {buf : List Char} {end_ : Nat} {lines : List Nat} {pos pos1 : Nat}
    {x : section_view} (h : section_ok buf end_ lines pos x) (hp : pos ≤ pos1) :
    section_ok buf end_ (lines ++ [pos]) pos1 x := by
  obtain ⟨p, h1, h2, h3, h4, h5, h6⟩ := h
  refine ⟨p, h1, h2, by omega, h4, ?_, h6⟩
  intro hm
  obtain ⟨g1, g2, ⟨ga, gb⟩⟩ := h5 hm
  refine ⟨g1, g2, ?_, ?_⟩
  · intro c hc
    obtain ⟨k1, k2, k3, k4, k5⟩ := ga c hc
    refine ⟨List.mem_append_left _ k1, k2, k3, ?_, ?_⟩
    · rcases k4 with k4 | ⟨k4, k4', k4''⟩
      · exact Or.inl k4
      · exact Or.inr ⟨k4, k4', by omega⟩
    · intro y hy hpy hyc
      rw [List.mem_append, List.mem_singleton] at hy
      rcases hy with hy | hy
      · exact k5 y hy hpy hyc
      · omega
  · intro hn y hy hpy hyn
    rw [List.mem_append, List.mem_singleton] at hy
    rcases hy with hy | hy
    · exact gb hn y hy hpy hyn
    · omega

/-- The section that a line opens agrees with the lines read. -/
theorem section_ok_fresh {buf : List Char} {end_ : Nat} {lines : List Nat} {b e : Nat}
    (flag : Bool) (hbe : b + 2 ≤ e)
    (hend : e = end_ ∨ getc buf (e - 1) = '\n')
    (hlt : ∀ y ∈ lines, y < b)
    (hm : flag = true → getc buf b = 'm' ∧ 0 < b)
    (hs : flag = false → b = 0 ∨ getc buf b = 'v') :
    section_ok buf end_ (lines ++ [b]) e
      { is_media := flag, s := { s := some b, len := e - b }, c_line_pos := none } := by
  have hbe' : b + (e - b) = e := by omega
  refine ⟨b, rfl, ?_, ?_, ?_, ?_, ?_⟩
  · show 0 < e - b
    omega
  · show b + (e - b) ≤ e
    omega
  · show b + (e - b) = end_ ∨ getc buf (b + (e - b) - 1) = '\n'
    rw [hbe']
    exact hend
  · intro hf
    obtain ⟨g1, g2⟩ := hm hf
    refine ⟨g1, g2, ?_, ?_⟩
    · intro c hc
      cases hc
    · intro _ y hy hpy _
      rw [List.mem_append, List.mem_singleton] at hy
      rcases hy with hy | hy
      · have := hlt y hy
        omega
      · omega
  · intro hf
    exact ⟨hs hf, rfl⟩

theorem filter_snoc_true {p : Nat → Bool} (l : List Nat) {b : Nat} (h : p b = true) :
    (l ++ [b]).filter p = l.filter p ++ [b] := by
  rw [List.filter_append]
  simp only [List.filter_cons, h, if_true, List.filter_nil]

theorem filter_snoc_false {p : Nat → Bool} (l : List Nat) {b : Nat} (h : p b = false) :
    (l ++ [b]).filter p = l.filter p := by
  rw [List.filter_append]
  simp only [List.filter_cons, h, Bool.false_eq_true, if_false, List.filter_nil,
    List.append_nil]


/-- Reading one more line keeps the layout in agreement with the lines. -/
theorem layout_step_ok {buf : List Char} {end_ : Nat} {a : layout_state} {lines : List Nat}
    (h : layout_ok buf end_ a lines) (hb : a.pos + 1 < end_) :
    layout_ok buf end_ (layout_step buf end_ a) (lines ++ [a.pos]) := by
  obtain ⟨htile, hpos, hlt, hnone, hstarts, hsec⟩ := h
  obtain ⟨he1, he2, he3⟩ := line_after_bounds buf hb
  have hle : a.pos ≤ line_after buf end_ a.pos := by omega
  have hlt1 : ∀ y ∈ lines ++ [a.pos], y < line_after buf end_ a.pos := by
    intro y hy
    rw [List.mem_append, List.mem_singleton] at hy
    rcases hy with hy | hy
    · have := hlt y hy
      omega
    · omega
  cases hcur : a.cur with
  | none =>
    obtain ⟨hc, hl, hp⟩ := hnone hcur
    have hstep : layout_step buf end_ a =
        { closed := [],
          cur := some { is_media := false,
                        s := { s := some 0, len := line_after buf end_ 0 - 0 },
                        c_line_pos := none },
          pos := line_after buf end_ 0 } := by
      simp only [layout_step, hcur, hc, hp]
    rw [hp] at he1 he2 he3 hlt1 ⊢
    rw [hstep, hl]
    refine ⟨?_, he2, ?_, ?_, ?_, ?_⟩
    · show tiled 0 (line_after buf end_ 0) [{ s := some 0, len := line_after buf end_ 0 - 0 }]
      exact ⟨rfl, by show 0 + (line_after buf end_ 0 - 0) = _; omega⟩
    · rw [hl] at hlt1; exact hlt1
    · intro hn; cases hn
    · rfl
    · intro x hx
      simp only [layout_sections, List.nil_append, Option.toList_some,
        List.mem_singleton] at hx
      subst hx
      exact section_ok_fresh false he1 he3 (by intro y hy; cases hy) (by intro hf; cases hf)
        (fun _ => Or.inl rfl)
  | some x =>
    have hsecs : layout_sections a = a.closed ++ [x] := by
      simp only [layout_sections, hcur, Option.toList_some]
    rw [hsecs] at htile hstarts hsec
    rw [List.map_append, List.map_cons, List.map_nil] at htile hstarts
    obtain ⟨p0, ht0, hxs, hxe⟩ := tiled_snoc_inv _ _ _ _ htile
    have hx_ok := hsec x (by simp)
    have hcl_ok : ∀ y ∈ a.closed, section_ok buf end_ lines a.pos y :=
      fun y hy => hsec y (List.mem_append_left _ hy)
    have hpos0 : 0 < a.pos := by
      obtain ⟨p, _, h2, h3, _⟩ := hx_ok
      omega
    by_cases hv : getc buf a.pos = 'v'
    · -- a `v=` line
      have hstep : layout_step buf end_ a =
          { closed := a.closed ++ [x],
            cur := some { is_media := false,
                          s := { s := some a.pos, len := line_after buf end_ a.pos - a.pos },
                          c_line_pos := none },
            pos := line_after buf end_ a.pos } := by
        simp only [layout_step, hcur, hv, if_true]
      rw [hstep]
      refine ⟨?_, he2, hlt1, ?_, ?_, ?_⟩
      · simp only [layout_sections, Option.toList_some, List.map_append, List.map_cons,
          List.map_nil]
        exact tiled_append _ _ _ _ _ htile ⟨rfl, by
          show a.pos + (line_after buf end_ a.pos - a.pos) = _
          omega⟩
      · intro hn; cases hn
      · simp only [layout_sections, Option.toList_some, List.map_append, List.map_cons,
          List.map_nil]
        rw [filter_snoc_true lines (by simp [is_section_start, hv]), List.map_append, ← hstarts]
        rfl
      · intro y hy
        simp only [layout_sections, Option.toList_some, List.mem_append,
          List.mem_singleton] at hy
        rcases hy with (hy | hy) | hy
        · exact section_ok_keep (hcl_ok y hy) hle
        · subst hy
          exact section_ok_keep hx_ok hle
        · subst hy
          exact section_ok_fresh false he1 he3 hlt (by intro hf; cases hf)
            (fun _ => Or.inr hv)
    by_cases hm : getc buf a.pos = 'm'
    · -- an `m=` line
      have hstep : layout_step buf end_ a =
          { closed := a.closed ++
              [if x.is_media && x.c_line_pos.isNone then { x with c_line_pos := some a.pos }
               else x],
            cur := some { is_media := true,
                          s := { s := some a.pos, len := line_after buf end_ a.pos - a.pos },
                          c_line_pos := none },
            pos := line_after buf end_ a.pos } := by
        have hmv : ('m' : Char) ≠ 'v' := by decide
        simp only [layout_step, hcur, hm, hmv, if_true, if_false]
      have hms : (if x.is_media && x.c_line_pos.isNone then
          ({ x with c_line_pos := some a.pos } : section_view) else x).s = x.s := by
        split <;> rfl
      rw [hstep]
      refine ⟨?_, he2, hlt1, ?_, ?_, ?_⟩
      · simp only [layout_sections, Option.toList_some, List.map_append, List.map_cons,
          List.map_nil, hms]
        exact tiled_append _ _ _ _ _ htile ⟨rfl, by
          show a.pos + (line_after buf end_ a.pos - a.pos) = _
          omega⟩
      · intro hn; cases hn
      · simp only [layout_sections, Option.toList_some, List.map_append, List.map_cons,
          List.map_nil, hms]
        rw [filter_snoc_true lines (by simp [is_section_start, hm]), List.map_append, ← hstarts]
        rfl
      · intro y hy
        simp only [layout_sections, Option.toList_some, List.mem_append,
          List.mem_singleton] at hy
        rcases hy with (hy | hy) | hy
        · exact section_ok_keep (hcl_ok y hy) hle
        · subst hy
          by_cases hc : (x.is_media && x.c_line_pos.isNone) = true
          · rw [if_pos hc]
            simp only [Bool.and_eq_true, Option.isNone_iff_eq_none] at hc
            obtain ⟨hxm, hxc⟩ := hc
            obtain ⟨p, h1, h2, h3, h4, h5, _⟩ := hx_ok
            have hp : p = p0 := by
              rw [hxs] at h1
              exact (Option.some.inj h1).symm
            subst hp
            obtain ⟨g1, g2, _, gb⟩ := h5 hxm
            refine ⟨p, h1, h2, (show p + x.s.len ≤ line_after buf end_ a.pos by omega), h4,
              ?_, ?_⟩
            · intro _
              refine ⟨g1, g2, ?_, ?_⟩
              · intro c hcc
                simp only [Option.some.injEq] at hcc
                subst hcc
                refine ⟨by simp, by omega, by show a.pos ≤ p + x.s.len; omega,
                  Or.inr ⟨by show a.pos = p + x.s.len; omega, hm,
                    (show a.pos < line_after buf end_ a.pos by omega)⟩, ?_⟩
                intro z hz hpz hzc
                rw [List.mem_append, List.mem_singleton] at hz
                rcases hz with hz | hz
                · exact gb hxc z hz hpz (by omega)
                · omega
              · intro hn
                cases hn
            · intro hf
              rw [hxm] at hf
              cases hf
          · rw [if_neg hc]
            exact section_ok_keep hx_ok hle
        · subst hy
          exact section_ok_fresh true he1 he3 hlt (fun _ => ⟨hm, hpos0⟩)
            (by intro hf; cases hf)
    · -- a line that extends the current section
      have hstep : layout_step buf end_ a =
          { closed := a.closed,
            cur := some { x with
              s := { x.s with len := line_after buf end_ a.pos - x.s.s.getD 0 },
              c_line_pos :=
                if x.is_media && is_abk (getc buf a.pos) && x.c_line_pos.isNone then
                  some a.pos
                else x.c_line_pos },
            pos := line_after buf end_ a.pos } := by
        simp only [layout_step, hcur, hv, hm, if_false]
      rw [hstep]
      have hgetD : x.s.s.getD 0 = p0 := by rw [hxs]; rfl
      refine ⟨?_, he2, hlt1, ?_, ?_, ?_⟩
      · simp only [layout_sections, Option.toList_some, List.map_append, List.map_cons,
          List.map_nil, hgetD]
        exact tiled_append _ _ _ _ _ ht0 ⟨hxs, by
          show p0 + (line_after buf end_ a.pos - p0) = _
          omega⟩
      · intro hn; cases hn
      · simp only [layout_sections, Option.toList_some, List.map_append, List.map_cons,
          List.map_nil]
        rw [filter_snoc_false lines (by
          simp only [is_section_start, hv, hm, decide_False, Bool.or_false,
            decide_eq_false_iff_not]
          omega)]
        exact hstarts
      · intro y hy
        simp only [layout_sections, Option.toList_some, List.mem_append,
          List.mem_singleton] at hy
        rcases hy with hy | hy
        · exact section_ok_keep (hcl_ok y hy) hle
        · subst hy
          obtain ⟨p, h1, h2, h3, h4, h5, h6⟩ := hx_ok
          have hp : p = p0 := by
            rw [hxs] at h1
            exact (Option.some.inj h1).symm
          subst hp
          have hlen : p + (line_after buf end_ a.pos - p) = line_after buf end_ a.pos := by
            omega
          refine ⟨p, h1, ?_, ?_, ?_, ?_, ?_⟩
          · show 0 < line_after buf end_ a.pos - x.s.s.getD 0
            rw [hgetD]; omega
          · show p + (line_after buf end_ a.pos - x.s.s.getD 0) ≤ line_after buf end_ a.pos
            rw [hgetD]; omega
          · show p + (line_after buf end_ a.pos - x.s.s.getD 0) = end_ ∨
              getc buf (p + (line_after buf end_ a.pos - x.s.s.getD 0) - 1) = '\n'
            rw [hgetD, hlen]
            exact he3
          · intro hxm
            have hxm' : x.is_media = true := hxm
            obtain ⟨g1, g2, ga, gb⟩ := h5 hxm'
            refine ⟨g1, g2, ?_⟩
            show mark_ok buf (lines ++ [a.pos]) (line_after buf end_ a.pos) p
              (line_after buf end_ a.pos - x.s.s.getD 0)
              (if x.is_media && is_abk (getc buf a.pos) && x.c_line_pos.isNone then
                some a.pos else x.c_line_pos)
            rw [hgetD, hxm']
            cases hcl : x.c_line_pos with
            | none =>
              cases habk : is_abk (getc buf a.pos) with
              | true =>
                simp only [Bool.and_self, Option.isNone_none, if_true]
                constructor
                · intro c hcc
                  simp only [Option.some.injEq] at hcc
                  subst hcc
                  refine ⟨by simp, by omega, by omega, Or.inl habk, ?_⟩
                  intro z hz hpz hzc
                  rw [List.mem_append, List.mem_singleton] at hz
                  rcases hz with hz | hz
                  · exact gb hcl z hz hpz (by omega)
                  · omega
                · intro hn
                  cases hn
              | false =>
                simp only [Bool.and_false, Bool.false_and, Bool.false_eq_true, if_false]
                constructor
                · intro c hcc
                  cases hcc
                · intro _ z hz hpz hzn
                  rw [List.mem_append, List.mem_singleton] at hz
                  rcases hz with hz | hz
                  · exact gb hcl z hz hpz (by have := hlt z hz; omega)
                  · rw [hz]; exact habk
            | some c0 =>
              simp only [Option.isNone_some, Bool.and_false, Bool.false_eq_true, if_false]
              obtain ⟨k1, k2, k3, k4, k5⟩ := ga c0 hcl
              have k4' : is_abk (getc buf c0) = true := by
                rcases k4 with k4 | ⟨k4, _, k4''⟩
                · exact k4
                · omega
              constructor
              · intro c hcc
                simp only [Option.some.injEq] at hcc
                subst hcc
                refine ⟨List.mem_append_left _ k1, k2, by omega, Or.inl k4', ?_⟩
                intro z hz hpz hzc
                rw [List.mem_append, List.mem_singleton] at hz
                rcases hz with hz | hz
                · exact k5 z hz hpz hzc
                · omega
              · intro hn
                cases hn
          · intro hxm
            have hxm' : x.is_media = false := hxm
            obtain ⟨g1, g2⟩ := h6 hxm'
            refine ⟨g1, ?_⟩
            show (if x.is_media && is_abk (getc buf a.pos) && x.c_line_pos.isNone then
                some a.pos else x.c_line_pos) = none
            rw [hxm', g2]
            rfl

/-- The layout of the lines read agrees with these lines. -/
theorem layout_run_ok (strict : Bool) (buf : List Char) (end_ : Nat) :
    ∀ (fuel : Nat) (a : layout_state) (lines : List Nat), layout_ok buf end_ a lines →
      layout_ok buf end_ (layout_run strict buf end_ fuel a)
        (lines ++ line_starts strict buf end_ fuel a.pos) := by
  intro fuel
  induction fuel with
  | zero =>
    intro a lines h
    simp only [layout_run, line_starts, List.append_nil]
    exact h
  | succ n ih =>
    intro a lines h
    unfold layout_run line_starts
    by_cases hb : a.pos + 1 < end_
    · simp only [hb, if_true]
      split
      · rw [List.append_nil]
        exact h
      · have := ih _ _ (layout_step_ok h hb)
        rw [layout_step_pos, List.append_assoc] at this
        exact this
    · simp only [hb, if_false, List.append_nil]
      exact h


theorem sessions_slices_eq (l : List sdp_session) :
    sessions_slices l = (sections_of l).map (fun x => x.s) := by
  induction l with
  | nil => rfl
  | cons s rest ih =>
    simp only [sessions_slices, sections_of, List.map_cons, List.flatten_cons,
      List.map_append] at ih ⊢
    rw [ih]
    simp only [session_slices, session_sections, session_section, media_section,
      List.map_cons, List.map_map, List.cons_append, List.cons.injEq, true_and,
      List.append_cancel_right_eq]
    rfl

theorem session_section_mem {l : List sdp_session} {s : sdp_session} (h : s ∈ l) :
    session_section s ∈ sections_of l := by
  simp only [sections_of, List.mem_flatten, List.mem_map]
  exact ⟨session_sections s, ⟨s, h, rfl⟩, by simp [session_sections]⟩

theorem media_section_mem {l : List sdp_session} {s : sdp_session} {m : sdp_media}
    (h : s ∈ l) (hm : m ∈ s.media_streams) : media_section m ∈ sections_of l := by
  simp only [sections_of, List.mem_flatten, List.mem_map]
  refine ⟨session_sections s, ⟨s, h, rfl⟩, ?_⟩
  simp only [session_sections, List.mem_cons, List.mem_map]
  exact Or.inr ⟨m, hm, rfl⟩

/-- The sections of a successful parse are those of the layout of the lines
read, which agrees with these lines. -/
theorem sdp_parse_layout {env : Env} {strict : Bool} {buf : List Char} {len : Nat}
    {sessions0 : List sdp_session} {fragment : Bool} {r : parse_result}
    (hp : sdp_parse env strict buf len sessions0 fragment = some r) (hret : r.ret = 0) :
    ∃ new a, r.sessions = sessions0 ++ new ∧ sections_of new = layout_sections a ∧
      a.pos = lines_end strict buf len (len + 1) 0 ∧
      r.body_len = (if a.pos + 1 < len then a.pos else len) ∧
      layout_ok buf len a (line_starts strict buf len (len + 1) 0) := by
  unfold sdp_parse at hp
  obtain ⟨h1, h2, h3⟩ := sdp_parse_loop_layout (len + 1) _ _ _ (state_ok_init sessions0) hp hret
  have hinit : ({ closed := state_closed sessions0.length (parse_init sessions0),
                  cur := state_cur (parse_init sessions0),
                  pos := (some 0).getD len } : layout_state) =
      { closed := [], cur := none, pos := 0 } := by
    simp only [state_closed, state_cur, parse_init, List.drop_length, sections_of,
      List.map_nil, List.flatten_nil, List.append_nil, Option.getD_some]
  rw [hinit] at h2 h3
  refine ⟨r.sessions.drop sessions0.length, _, ?_, h2, ?_, h3, ?_⟩
  · conv_lhs => rw [← List.take_append_drop sessions0.length r.sessions]
    rw [h1]
  · rw [layout_run_pos]
  · have := layout_run_ok strict buf len (len + 1) _ _ (layout_ok_init buf len)
    simpa using this

/-- C33 (amended).  After a successful `sdp_parse` the slices of the new
sessions, each session's slice followed by those of its medias, follow one
another without gap from offset 0 to the position where the reading of lines
ended.  Their starts are the line starts read that are the first line, a
`v=` line or an `m=` line, in this order: a session slice starts at the first
line or at a `v=` line, a media slice at an `m=` line after the first line.
Every slice is non-empty and ends at the end of the body or right after a
line feed.  Concatenated in order the slices give the bytes of the body up to
the position where the reading ended, and this position is `body->len` as
`sdp_parse` leaves it, except when the reading stops with exactly one byte of
the body left. -/
theorem c33_section_slices (env : Env) (strict : Bool) (buf : List Char) (len : Nat)
    (sessions0 : List sdp_session) (fragment : Bool) (r : parse_result)
    (hp : sdp_parse env strict buf len sessions0 fragment = some r) (hret : r.ret = 0) :
    ∃ new, r.sessions = sessions0 ++ new ∧
      tiled 0 (lines_end strict buf len (len + 1) 0) (sessions_slices new) ∧
      (sessions_slices new).map (fun x => x.s) =
        ((line_starts strict buf len (len + 1) 0).filter (is_section_start buf)).map some ∧
      (∀ s ∈ new, (∃ p, s.s.s = some p ∧ (p = 0 ∨ getc buf p = 'v')) ∧
        ∀ m ∈ s.media_streams, ∃ q, m.s.s = some q ∧ 0 < q ∧ getc buf q = 'm') ∧
      (∀ x ∈ sessions_slices new, ∃ p, x.s = some p ∧ 0 < x.len ∧
        (p + x.len = len ∨ getc buf (p + x.len - 1) = '\n')) ∧
      ((sessions_slices new).map (str_bytes buf)).flatten =
        bytes_at buf 0 (lines_end strict buf len (len + 1) 0) ∧
      (r.body_len = lines_end strict buf len (len + 1) 0 ∨
        (r.body_len = len ∧ lines_end strict buf len (len + 1) 0 + 1 = len)) := by
  obtain ⟨new, a, hnew, hsec, hpos, hbody, htile, hle, _, _, hstarts, hok⟩ :=
    sdp_parse_layout hp hret
  rw [← hsec] at htile hstarts hok
  rw [hpos] at htile hle hbody
  have hsl := sessions_slices_eq new
  refine ⟨new, hnew, ?_, ?_, ?_, ?_, ?_, ?_⟩
  · rw [hsl]; exact htile
  · rw [hsl, List.map_map]
    exact hstarts
  · intro s hs
    constructor
    · obtain ⟨p, h1, _, _, _, _, h6⟩ := hok _ (session_section_mem hs)
      exact ⟨p, h1, (h6 rfl).1⟩
    · intro m hm
      obtain ⟨p, h1, _, _, _, h5, _⟩ := hok _ (media_section_mem hs hm)
      obtain ⟨g1, g2, _⟩ := h5 rfl
      exact ⟨p, h1, g2, g1⟩
  · intro x hx
    rw [hsl, List.mem_map] at hx
    obtain ⟨y, hy, hyx⟩ := hx
    obtain ⟨p, h1, h2, _, h4, _, _⟩ := hok y hy
    subst hyx
    exact ⟨p, h1, h2, h4⟩
  · rw [hsl]
    have := tiled_bytes buf _ _ _ htile
    rw [Nat.sub_zero] at this
    exact this
  · rw [hbody]
    split
    · exact Or.inl rfl
    · rename_i hlt
      by_cases he : lines_end strict buf len (len + 1) 0 = len
      · exact Or.inl he.symm
      · exact Or.inr ⟨rfl, by omega⟩

/-- C33 (amended) on a body with a session line and a media section of three
lines: the parse succeeds, the reading ends at the end of the body (offset
52), and the slices `[0, 5)` and `[5, 52)` tile the body. -/
theorem c33_section_slices_witness :
    (sdp_parse demo_env false demo_layout_body 52 [] false = some demo_layout_parse ∧
      demo_layout_parse.ret = 0) ∧
    lines_end false demo_layout_body 52 53 0 = 52 ∧
    sessions_slices demo_layout_parse.sessions
      = [{ s := some 0, len := 5 }, { s := some 5, len := 47 }] ∧
    ∃ new, demo_layout_parse.sessions = [] ++ new ∧
      tiled 0 (lines_end false demo_layout_body 52 53 0) (sessions_slices new) ∧
      ((sessions_slices new).map (str_bytes demo_layout_body)).flatten =
        bytes_at demo_layout_body 0 (lines_end false demo_layout_body 52 53 0) :=
  with_facts6 (fun fact1 fact2 fact3 fact4 fact5 fact6 => by
    refine ⟨⟨fact1, fact2⟩, fact3, fact4, ?_⟩
    obtain ⟨new, h1, h2, _, _, _, h6, _⟩ :=
      c33_section_slices demo_env false demo_layout_body 52 [] false demo_layout_parse
        (fact5) (fact6)
    exact ⟨new, h1, h2, h6⟩) (by decide!)

/-- C33 fails as stated.  On the body `v=0`, line feed, line feed (five
bytes) the parse succeeds and leaves `body->len` at 5, the loop stops with one
byte left, and the only slice is the session slice `[0, 4)`: the slices
concatenated are the first four bytes, not the parsed body. -/
theorem c33_counterexample :
    sdp_parse demo_env false "v=0\n\n".toList 5 [] false = some demo_tail_parse ∧
    demo_tail_parse.ret = 0 ∧ demo_tail_parse.body_len = 5 ∧
    sessions_slices demo_tail_parse.sessions = [{ s := some 0, len := 4 }] ∧
    ((sessions_slices demo_tail_parse.sessions).map (str_bytes "v=0\n\n".toList)).flatten
      = "v=0\n".toList ∧
    bytes_at "v=0\n\n".toList 0 demo_tail_parse.body_len = "v=0\n\n".toList := by
  decide!

/-- C34 (amended).  After a successful `sdp_parse`, for every media section
of the new sessions that contains at least one `b=`, `a=` or `k=` line among
the lines read, the recorded `c_line_pos` is the position of the first such
line of the section; a `c=` line does not set it.  A media without
`c_line_pos` has no such line. -/
theorem c34_c_line_pos (env : Env) (strict : Bool) (buf : List Char) (len : Nat)
    (sessions0 : List sdp_session) (fragment : Bool) (r : parse_result)
    (hp : sdp_parse env strict buf len sessions0 fragment = some r) (hret : r.ret = 0) :
    ∃ new, r.sessions = sessions0 ++ new ∧
      ∀ s ∈ new, ∀ m ∈ s.media_streams, ∃ p, m.s.s = some p ∧
        (∀ y ∈ line_starts strict buf len (len + 1) 0, p < y → y < p + m.s.len →
          is_abk (getc buf y) = true →
          ∃ x, m.c_line_pos = some x ∧ x ∈ line_starts strict buf len (len + 1) 0 ∧
            p < x ∧ x ≤ y ∧ is_abk (getc buf x) = true ∧
            ∀ z ∈ line_starts strict buf len (len + 1) 0, p < z → z < x →
              is_abk (getc buf z) = false) ∧
        (m.c_line_pos = none →
          ∀ y ∈ line_starts strict buf len (len + 1) 0, p < y → y < p + m.s.len →
            is_abk (getc buf y) = false) := by
  obtain ⟨new, a, hnew, hsec, _, _, _, _, _, _, _, hok⟩ := sdp_parse_layout hp hret
  rw [← hsec] at hok
  refine ⟨new, hnew, ?_⟩
  intro s hs m hm
  obtain ⟨p, h1, _, _, _, h5, _⟩ := hok _ (media_section_mem hs hm)
  obtain ⟨_, _, ga, gb⟩ := h5 rfl
  refine ⟨p, h1, ?_, gb⟩
  intro y hy hpy hyn habk
  cases hc : m.c_line_pos with
  | none =>
    have := gb hc y hy hpy hyn
    rw [habk] at this
    cases this
  | some x =>
    obtain ⟨k1, k2, k3, k4, k5⟩ := ga x hc
    have hxy : x ≤ y := by
      by_contra hlt
      have := k5 y hy hpy (by omega)
      rw [habk] at this
      cases this
    refine ⟨x, rfl, k1, k2, hxy, ?_, k5⟩
    rcases k4 with k4 | ⟨k4, _, _⟩
    · exact k4
    · exfalso
      have : x = p + m.s.len := k4
      omega


/-- C34 (amended) on a body whose media section `[5, 52)` has the lines
`c=` at 22 and `a=` at 40: the parse succeeds, and `c_line_pos` of the media
is 40, the first `b=`, `a=` or `k=` line of the section. -/
theorem c34_c_line_pos_witness :
    (sdp_parse demo_env false demo_layout_body 52 [] false = some demo_layout_parse ∧
      demo_layout_parse.ret = 0) ∧
    line_starts false demo_layout_body 52 53 0 = [0, 5, 22, 40] ∧
    ∃ new, demo_layout_parse.sessions = [] ++ new ∧
      ∀ s ∈ new, ∀ m ∈ s.media_streams, ∃ p, m.s.s = some p ∧
        (∀ y ∈ line_starts false demo_layout_body 52 53 0, p < y → y < p + m.s.len →
          is_abk (getc demo_layout_body y) = true →
          ∃ x, m.c_line_pos = some x ∧ x ∈ line_starts false demo_layout_body 52 53 0 ∧
            p < x ∧ x ≤ y ∧ is_abk (getc demo_layout_body x) = true ∧
            ∀ z ∈ line_starts false demo_layout_body 52 53 0, p < z → z < x →
              is_abk (getc demo_layout_body z) = false) ∧
        (m.c_line_pos = none →
          ∀ y ∈ line_starts false demo_layout_body 52 53 0, p < y → y < p + m.s.len →
            is_abk (getc demo_layout_body y) = false) :=
  with_facts5 (fun fact1 fact2 fact3 fact4 fact5 =>
    ⟨⟨fact1, fact2⟩, fact3,
     c34_c_line_pos demo_env false demo_layout_body 52 [] false demo_layout_parse
       (fact4) (fact5)⟩) (by decide!)

/-- C34 fails as stated.  The media section `[5, 52)` of the body has a `c=`
line at offset 22 and its first `a=` line at offset 40; the parse succeeds and
records `c_line_pos` 40, not the position 22 of the `c=` line. -/
theorem c34_counterexample :
    sdp_parse demo_env false demo_layout_body 52 [] false = some demo_layout_parse ∧
    demo_layout_parse.ret = 0 ∧
    demo_layout_parse.sessions.map
        (fun s => s.media_streams.map (fun m => (m.s, m.c_line_pos)))
      = [[({ s := some 5, len := 47 }, some 40)]] ∧
    line_starts false demo_layout_body 52 53 0 = [0, 5, 22, 40] ∧
    bytes_at demo_layout_body 22 2 = "c=".toList ∧
    bytes_at demo_layout_body 40 2 = "a=".toList := by
  decide!

/-! ## The priority that `new_priority` picks -/

theorem new_priority_step_pass (type : Nat) (st : Nat × Nat × Nat) (a : sdp_attribute)
    (h : ¬ (a.candidate.cand_parsed.priority ≤ st.2.2 ∧ a.candidate.cand_parsed.type = type ∧
      a.candidate.cand_parsed.component_id = 1)) :
    new_priority_step type st a = st := by
  unfold new_priority_step
  simp only
  rw [if_neg]
  simp only [Bool.and_eq_true, decide_eq_true_eq]
  intro hc
  exact h ⟨hc.1.1, hc.1.2, hc.2⟩

/-- One turn of the loop on a candidate of the type with component 1 and a
priority of at least 256: the key `2^16 * tpref + lpref` of the pair becomes
the smaller of itself and the key of the candidate minus one. -/
theorem new_priority_step_key (type : Nat) (st : Nat × Nat × Nat) (a : sdp_attribute)
    (hst : priority_state st)
    (ht : a.candidate.cand_parsed.type = type)
    (hc : a.candidate.cand_parsed.component_id = 1)
    (hp : 256 ≤ a.candidate.cand_parsed.priority) :
    priority_state (new_priority_step type st a) ∧
    2 ^ 16 * (new_priority_step type st a).1 + (new_priority_step type st a).2.1 =
      min (2 ^ 16 * st.1 + st.2.1) (a.candidate.cand_parsed.priority / 256 - 1) := by
  obtain ⟨s1, s2, s3⟩ := hst
  by_cases hle : a.candidate.cand_parsed.priority ≤ st.2.2
  · unfold new_priority_step
    simp only
    rw [if_pos (by simp only [Bool.and_eq_true, decide_eq_true_eq]; exact ⟨⟨hle, ht⟩, hc⟩)]
    generalize a.candidate.cand_parsed.priority = p at hle hp
    unfold ice_type_pref_from_prio ice_local_pref_from_prio ice_priority_pref priority_state
    have hp32 : p % 2 ^ 32 = p := Nat.mod_eq_of_lt (by omega)
    rw [hp32]
    by_cases hl : p / 2 ^ 8 % 2 ^ 16 ≠ 0
    · rw [if_pos hl]
      simp only
      refine ⟨⟨by omega, by omega, by omega⟩, ?_⟩
      omega
    · rw [if_neg hl]
      have ht0 : p / 2 ^ 24 ≠ 0 := by omega
      rw [if_pos ht0]
      simp only
      refine ⟨⟨by omega, by omega, by omega⟩, ?_⟩
      omega
  · rw [new_priority_step_pass type st a (fun h => hle h.1)]
    refine ⟨⟨s1, s2, s3⟩, ?_⟩
    omega

/-- The loop of `new_priority` over a list of candidates whose priorities, for
the type with component 1, are at least 256. -/
theorem new_priority_loop_key (type : Nat) :
    ∀ (l : List sdp_attribute) (st : Nat × Nat × Nat), priority_state st →
      (∀ a ∈ l, a.candidate.cand_parsed.type = type →
        a.candidate.cand_parsed.component_id = 1 → 256 ≤ a.candidate.cand_parsed.priority) →
      priority_state (l.foldl (new_priority_step type) st) ∧
      2 ^ 16 * (l.foldl (new_priority_step type) st).1 + (l.foldl (new_priority_step type) st).2.1
        ≤ 2 ^ 16 * st.1 + st.2.1 ∧
      (∀ a ∈ l, a.candidate.cand_parsed.type = type →
        a.candidate.cand_parsed.component_id = 1 →
        2 ^ 16 * (l.foldl (new_priority_step type) st).1 +
          (l.foldl (new_priority_step type) st).2.1 ≤ a.candidate.cand_parsed.priority / 256 - 1) ∧
      (l.foldl (new_priority_step type) st = st ∨
        ∃ a ∈ l, a.candidate.cand_parsed.type = type ∧
          a.candidate.cand_parsed.component_id = 1 ∧
          2 ^ 16 * (l.foldl (new_priority_step type) st).1 +
            (l.foldl (new_priority_step type) st).2.1 = a.candidate.cand_parsed.priority / 256 - 1)
    := by
  intro l
  induction l with
  | nil => intro st hst _; exact ⟨hst, le_refl _, fun a ha => absurd ha (List.not_mem_nil _),
      Or.inl rfl⟩
  | cons b rest ih =>
    intro st hst hall
    rw [List.foldl_cons]
    by_cases hb : b.candidate.cand_parsed.type = type ∧ b.candidate.cand_parsed.component_id = 1
    · obtain ⟨k1, k2⟩ := new_priority_step_key type st b hst hb.1 hb.2
        (hall b (List.mem_cons_self _ _) hb.1 hb.2)
      obtain ⟨i1, i2, i3, i4⟩ := ih (new_priority_step type st b) k1
        (fun a ha => hall a (List.mem_cons_of_mem _ ha))
      refine ⟨i1, by omega, ?_, ?_⟩
      · intro a ha hta hca
        rcases List.mem_cons.mp ha with rfl | hm
        · omega
        · exact i3 a hm hta hca
      · rcases i4 with e | ⟨a, ha, h1, h2, h3⟩
        · rw [e]
          by_cases hmin : 2 ^ 16 * st.1 + st.2.1 ≤ b.candidate.cand_parsed.priority / 256 - 1
          · left
            obtain ⟨p1, p2, p3⟩ := k1
            obtain ⟨s1, s2, s3⟩ := hst
            have e1 : (new_priority_step type st b).1 = st.1 := by omega
            have e2 : (new_priority_step type st b).2.1 = st.2.1 := by omega
            have e3 : (new_priority_step type st b).2.2 = st.2.2 := by rw [p3, s3, e1, e2]
            exact Prod.ext e1 (Prod.ext e2 e3)
          · right
            exact ⟨b, List.mem_cons_self _ _, hb.1, hb.2, by omega⟩
        · right
          exact ⟨a, List.mem_cons_of_mem _ ha, h1, h2, h3⟩
    · rw [new_priority_step_pass type st b (fun h => hb ⟨h.2.1, h.2.2⟩)]
      obtain ⟨i1, i2, i3, i4⟩ := ih st hst (fun a ha => hall a (List.mem_cons_of_mem _ ha))
      refine ⟨i1, i2, ?_, ?_⟩
      · intro a ha hta hca
        rcases List.mem_cons.mp ha with rfl | hm
        · exact absurd ⟨hta, hca⟩ hb
        · exact i3 a hm hta hca
      · rcases i4 with e | ⟨a, ha, h1, h2, h3⟩
        · exact Or.inl e
        · exact Or.inr ⟨a, List.mem_cons_of_mem _ ha, h1, h2, h3⟩

/-- The loop of `new_priority` over candidates none of which, for the type
with component 1, has a priority within the current one: nothing changes. -/
theorem new_priority_loop_pass (type : Nat) :
    ∀ (l : List sdp_attribute) (st : Nat × Nat × Nat),
      (∀ a ∈ l, a.candidate.cand_parsed.type = type →
        a.candidate.cand_parsed.component_id = 1 → st.2.2 < a.candidate.cand_parsed.priority) →
      l.foldl (new_priority_step type) st = st := by
  intro l
  induction l with
  | nil => intro st _; rfl
  | cons b rest ih =>
    intro st hall
    rw [List.foldl_cons, new_priority_step_pass type st b (fun h => by
      have := hall b (List.mem_cons_self _ _) h.2.1 h.2.2
      omega)]
    exact ih st (fun a ha => hall a (List.mem_cons_of_mem _ ha))

/-- C35 (amended): for a media, a candidate type whose RFC type preference `t`
is below 256, and the candidates of the media of that type with component 1.
If none of them has a priority within the priority of `t` with local
preference 0 (in particular if there is none), `new_priority` returns `t` and
local preference 0.  Otherwise, if their priorities are at least 256, it takes
the minimum `m` of their priorities and returns the type preference of `m`
together with its local preference minus one, or, when that local preference
is 0, the type preference minus one and local preference 65535. -/
theorem c35_new_priority (tp : Nat → Nat) (media : sdp_media) (type : Nat)
    (ht : tp type < 256) :
    ((∀ a ∈ priority_candidates media type,
        ice_priority_pref (tp type) 0 1 < a.candidate.cand_parsed.priority) →
      new_priority tp media type = (tp type, 0)) ∧
    (∀ m : Nat,
      (∃ a ∈ priority_candidates media type, a.candidate.cand_parsed.priority = m) →
      (∀ a ∈ priority_candidates media type, m ≤ a.candidate.cand_parsed.priority) →
      m ≤ ice_priority_pref (tp type) 0 1 → 256 ≤ m →
      new_priority tp media type =
        if ice_local_pref_from_prio m ≠ 0 then
          (ice_type_pref_from_prio m, ice_local_pref_from_prio m - 1)
        else (ice_type_pref_from_prio m - 1, 65535)) := by
  have h0 : ice_priority_pref (tp type) 0 1 % 2 ^ 32 = 2 ^ 24 * tp type + 255 := by
    unfold ice_priority_pref
    omega
  have hst : priority_state (tp type, 0, 2 ^ 24 * tp type + 255) :=
    ⟨ht, by norm_num, by simp⟩
  unfold new_priority priority_candidates
  simp only [h0]
  cases hc : attr_list_get_by_id media.attributes attr_id.ATTR_CANDIDATE with
  | none =>
    simp only [Option.getD_none, List.filter_nil, List.not_mem_nil, false_and, exists_false,
      false_implies, implies_true, true_and, IsEmpty.forall_iff]
  | some cands =>
    simp only [Option.getD_some, List.mem_filter, Bool.and_eq_true, decide_eq_true_eq]
    constructor
    · intro hall
      rw [new_priority_loop_pass type cands _ (fun a ha h1 h2 => by
        have := hall a ⟨ha, h1, h2⟩
        unfold ice_priority_pref at this
        show 2 ^ 24 * tp type + 255 < _
        omega)]
    · intro m ⟨a0, ⟨ha0, ht0, hc0⟩, hm0⟩ hmin hle h256
      obtain ⟨i1, i2, i3, i4⟩ := new_priority_loop_key type cands _ hst
        (fun a ha h1 h2 => by
          have := hmin a ⟨ha, h1, h2⟩
          omega)
      generalize cands.foldl (new_priority_step type) (tp type, 0, 2 ^ 24 * tp type + 255) = r
        at i1 i2 i3 i4 ⊢
      obtain ⟨p1, p2, p3⟩ := i1
      have hup := i3 a0 ha0 ht0 hc0
      rw [hm0] at hup
      unfold ice_priority_pref at hle
      have hkey : 2 ^ 16 * r.1 + r.2.1 = m / 256 - 1 := by
        rcases i4 with e | ⟨a, ha, h1, h2, h3⟩
        · rw [e] at hup
          simp only at hup
          omega
        · have := hmin a ⟨ha, h1, h2⟩
          omega
      unfold ice_local_pref_from_prio ice_type_pref_from_prio
      have hm32 : m % 2 ^ 32 = m := Nat.mod_eq_of_lt (by omega)
      rw [hm32]
      by_cases hl : m / 2 ^ 8 % 2 ^ 16 ≠ 0
      · rw [if_pos hl]
        exact Prod.ext (by show r.1 = _; omega) (by show r.2.1 = _; omega)
      · rw [if_neg hl]
        exact Prod.ext (by show r.1 = _; omega) (by show r.2.1 = _; omega)

/-- C35 (amended) on host candidates with the priorities 2113929471 (type
preference 126, local preference 0), 2113929727 and 1694499071 (type
preference 101, local preference 0): the last is the minimum, and `new_priority` returns the
type preference 100 with local preference 65535. -/
theorem c35_new_priority_witness :
    new_priority demo_type_preference
      (demo_priority_media [2113929471, 2113929727, 1694499071]) 1 = (100, 65535) := by
  have h := (c35_new_priority demo_type_preference
    (demo_priority_media [2113929471, 2113929727, 1694499071]) 1 (by decide)).2 1694499071
    (by decide) (by decide) (by decide) (by decide)
  exact h.trans (by decide)

/-- C35 fails as stated.  A host candidate with component 1 and the usual
priority 2130706431 (type preference 126, local preference 65535) is the
only candidate and so the one of maximum priority; the claim asks for type
preference 126 with local preference 65534, and `new_priority` returns 126
with local preference 0.  With the priorities 2113929471 and 1694499071
the maximum has type preference 126 and `new_priority` returns 100. -/
theorem c35_counterexample :
    (ice_type_pref_from_prio 2130706431, ice_local_pref_from_prio 2130706431) = (126, 65535) ∧
    new_priority demo_type_preference (demo_priority_media [2130706431]) 1 = (126, 0) ∧
    (ice_type_pref_from_prio 2113929471, ice_local_pref_from_prio 2113929471) = (126, 0) ∧
    new_priority demo_type_preference (demo_priority_media [2113929471, 1694499071]) 1
      = (100, 65535) :=
  ⟨by decide, by decide, by decide, by decide⟩

/-! ## Stamping the version -/

theorem version_body_cons (x : List Char × List Char) (ps : List (List Char × List Char)) :
    version_body (x :: ps) = x.1 ++ x.2 ++ version_body ps := by
  simp [version_body]

theorem restamp_cons (D : List Char) (x : List Char × List Char)
    (ps : List (List Char × List Char)) : restamp D (x :: ps) = (x.1, D) :: restamp D ps := rfl

/-- The loop of `sdp_version_replace` on an output whose first part `front` is
already stamped: every version string of the rest is replaced by the digits,
and the sessions record the new positions and lengths. -/
theorem sdp_version_replace_loop_stamps (D : List Char) (hD : ∀ x ∈ D, x ≠ Char.ofNat 0) :
    ∀ (sessions : List sdp_session) (parts : List (List Char × List Char))
      (front tail : List Char) (chop : sdp_chopper) (base : Nat),
      chop.output = front ++ version_body parts ++ tail →
      chop.offset = (front.length : Int) - (base : Int) →
      versions_at base sessions parts →
      (front ++ version_body (restamp D parts) ++ tail).length < 2 ^ 64 →
      (sdp_version_replace_loop D chop sessions).1.output
        = front ++ version_body (restamp D parts) ++ tail ∧
      versions_at front.length (sdp_version_replace_loop D chop sessions).2 (restamp D parts) ∧
      (sdp_version_replace_loop D chop sessions).1.input = chop.input ∧
      (sdp_version_replace_loop D chop sessions).1.position = chop.position := by
  intro sessions
  induction sessions with
  | nil =>
    intro parts front tail chop base hout _ hv _
    cases parts with
    | nil => exact ⟨hout, trivial, rfl, rfl⟩
    | cons x ps => exact False.elim hv
  | cons s ss ih =>
    intro parts front tail chop base hout hoff hv hsz
    cases parts with
    | nil => exact False.elim hv
    | cons x ps =>
      obtain ⟨hp, hl, hrest⟩ := hv
      rw [version_body_cons] at hout
      rw [restamp_cons, version_body_cons] at hsz ⊢
      simp only [List.length_append] at hsz
      have hlen : chop.output.length
          = front.length + (x.1.length + x.2.length + (version_body ps).length) + tail.length := by
        rw [hout]
        simp only [List.length_append]
      obtain ⟨r1, r2, r3, r4, r5, r6⟩ := chopper_replace_at chop s.origin.version_str.len
        s.origin.version_output_pos (front.length + x.1.length) D hD
        (by rw [hp, hoff]; push_cast; omega) (by omega) (by rw [hl, hlen]; omega)
      have hnew : (chopper_replace chop s.origin.version_str.len s.origin.version_output_pos
          D).1.output = (front ++ x.1 ++ D) ++ version_body ps ++ tail := by
        rw [r1, hout, hl]
        have e1 : (front ++ (x.1 ++ x.2 ++ version_body ps) ++ tail).take
            (front.length + x.1.length) = front ++ x.1 := by
          rw [show front ++ (x.1 ++ x.2 ++ version_body ps) ++ tail
            = front ++ x.1 ++ (x.2 ++ version_body ps ++ tail) by simp only [List.append_assoc]]
          exact take_two_left _ _ _ _ rfl
        have e2 : (front ++ (x.1 ++ x.2 ++ version_body ps) ++ tail).drop
            (front.length + x.1.length + x.2.length) = version_body ps ++ tail := by
          rw [show front ++ (x.1 ++ x.2 ++ version_body ps) ++ tail
            = (front ++ x.1 ++ x.2) ++ (version_body ps ++ tail) by
              simp only [List.append_assoc]]
          exact List.drop_left' (by simp only [List.length_append])
        rw [e1, e2]
        simp only [List.append_assoc]
      obtain ⟨i1, i2, i3, i4⟩ := ih ps (front ++ x.1 ++ D) tail
        (chopper_replace chop s.origin.version_str.len s.origin.version_output_pos D).1
        (base + x.1.length + x.2.length) hnew
        (by rw [r2, hoff, hl]; simp only [List.length_append]; push_cast; omega) hrest
        (by simp only [List.length_append] at hsz ⊢; omega)
      unfold sdp_version_replace_loop
      simp only
      refine ⟨?_, ⟨?_, ?_, ?_⟩, ?_, ?_⟩
      · rw [i1]
        simp only [List.append_assoc]
      · exact r4
      · exact r3
      · have := i2
        simp only [List.length_append] at this
        exact this
      · rw [i3, r5]
      · rw [i4, r6]

/-- One call of `sdp_version_replace` on an output with recorded positions. -/
theorem sdp_version_replace_stamps (chop : sdp_chopper) (sessions : List sdp_session)
    (parts : List (List Char × List Char)) (tail : List Char) (orig : monologue_origin)
    (hout : chop.output = version_body parts ++ tail) (hv : versions_at 0 sessions parts)
    (hsz : (version_body (restamp (print_uint orig.version_num) parts) ++ tail).length
      < 2 ^ 64) :
    (sdp_version_replace chop sessions orig).1.output
      = version_body (restamp (print_uint orig.version_num) parts) ++ tail ∧
    versions_at 0 (sdp_version_replace chop sessions orig).2
      (restamp (print_uint orig.version_num) parts) := by
  obtain ⟨h1, h2, _, _⟩ := sdp_version_replace_loop_stamps (print_uint orig.version_num)
    (print_uint_no_nul _) sessions parts [] tail { chop with offset := 0 } 0 (by simpa using hout) rfl hv
    (by simpa using hsz)
  unfold sdp_version_replace
  exact ⟨by simpa using h1, h2⟩

theorem restamp_restamp (D E : List Char) (parts : List (List Char × List Char)) :
    restamp D (restamp E parts) = restamp D parts := by
  simp [restamp, Function.comp_def]

/-- The bytes at the recorded position of every session are its version
string. -/
theorem versions_at_bytes :
    ∀ (sessions : List sdp_session) (parts : List (List Char × List Char))
      (front tail : List Char),
      versions_at front.length sessions parts →
      sessions.map (fun s => bytes_at (front ++ version_body parts ++ tail)
        s.origin.version_output_pos s.origin.version_str.len) = parts.map (fun x => x.2) := by
  intro sessions
  induction sessions with
  | nil =>
    intro parts front tail hv
    cases parts with
    | nil => rfl
    | cons x ps => exact False.elim hv
  | cons s ss ih =>
    intro parts front tail hv
    cases parts with
    | nil => exact False.elim hv
    | cons x ps =>
      obtain ⟨hp, hl, hrest⟩ := hv
      have h := ih ps (front ++ x.1 ++ x.2) tail
        (by simp only [List.length_append]; exact hrest)
      rw [List.map_cons, List.map_cons, version_body_cons]
      congr 1
      · rw [hp, hl]
        unfold bytes_at
        rw [show front ++ (x.1 ++ x.2 ++ version_body ps) ++ tail
          = (front ++ x.1) ++ (x.2 ++ (version_body ps ++ tail)) by
            simp only [List.append_assoc],
          List.drop_left' (by simp only [List.length_append]), List.take_left' rfl]
      · rw [← h]
        simp only [List.append_assoc]

/-- C36: for a chopper output that is cut into parts at the version strings,
with sessions that recorded the position and the length of their version
string, and any sequence of version numbers whose stamped outputs are shorter
than 2^64 bytes: after the successive calls of `sdp_version_replace` for the
numbers, the output is the same parts with every version string replaced by
the decimal digits of the last number, nothing else changed and in the same
order; the sessions record the positions and lengths of these digits, and the
bytes at the recorded position of every session are the digits; and one more
call with the last number leaves the output as it is. -/
theorem c36_version_stamps (chop : sdp_chopper) (sessions : List sdp_session)
    (parts : List (List Char × List Char)) (tail : List Char)
    (origs : List monologue_origin) (last : monologue_origin)
    (hout : chop.output = version_body parts ++ tail) (hv : versions_at 0 sessions parts)
    (hsz : ∀ o ∈ origs ++ [last],
      (version_body (restamp (print_uint o.version_num) parts) ++ tail).length < 2 ^ 64) :
    (sdp_version_replace_all chop sessions (origs ++ [last])).1.output
      = version_body (restamp (print_uint last.version_num) parts) ++ tail ∧
    versions_at 0 (sdp_version_replace_all chop sessions (origs ++ [last])).2
      (restamp (print_uint last.version_num) parts) ∧
    (sdp_version_replace_all chop sessions (origs ++ [last])).2.map (fun s =>
      bytes_at (sdp_version_replace_all chop sessions (origs ++ [last])).1.output
        s.origin.version_output_pos s.origin.version_str.len)
      = parts.map (fun _ => print_uint last.version_num) ∧
    (sdp_version_replace_all chop sessions (origs ++ [last] ++ [last])).1.output
      = (sdp_version_replace_all chop sessions (origs ++ [last])).1.output := by
  have key : ∀ (l : List monologue_origin) (c : sdp_chopper) (ss : List sdp_session)
      (ps : List (List Char × List Char)) (o : monologue_origin),
      c.output = version_body ps ++ tail → versions_at 0 ss ps →
      (∀ d, restamp d ps = restamp d parts) →
      (∀ x ∈ l ++ [o],
        (version_body (restamp (print_uint x.version_num) parts) ++ tail).length < 2 ^ 64) →
      (sdp_version_replace_all c ss (l ++ [o])).1.output
        = version_body (restamp (print_uint o.version_num) parts) ++ tail ∧
      versions_at 0 (sdp_version_replace_all c ss (l ++ [o])).2
        (restamp (print_uint o.version_num) parts) := by
    intro l
    induction l with
    | nil =>
      intro c ss ps o h1 h2 h3 h4
      have := sdp_version_replace_stamps c ss ps tail o h1 h2
        (by rw [h3]; exact h4 o (by simp))
      rw [h3] at this
      exact this
    | cons a rest ih =>
      intro c ss ps o h1 h2 h3 h4
      obtain ⟨g1, g2⟩ := sdp_version_replace_stamps c ss ps tail a h1 h2
        (by rw [h3]; exact h4 a (by simp))
      have := ih (sdp_version_replace c ss a).1 (sdp_version_replace c ss a).2
        (restamp (print_uint a.version_num) ps) o g1 g2
        (fun d => by rw [restamp_restamp, h3])
        (fun x hx => h4 x (by simp only [List.cons_append, List.mem_cons]; exact Or.inr hx))
      exact this
  obtain ⟨k1, k2⟩ := key origs chop sessions parts last hout hv (fun _ => rfl) hsz
  refine ⟨k1, k2, ?_, ?_⟩
  · have hb := versions_at_bytes _ _ [] tail k2
    rw [k1]
    simp only [List.nil_append] at hb
    rw [hb]
    simp [restamp, Function.comp_def]
  · have := (key (origs ++ [last]) chop sessions parts last hout hv (fun _ => rfl)
      (fun x hx => hsz x (by
        simp only [List.append_assoc, List.mem_append, List.mem_singleton] at hx ⊢
        rcases hx with h | h | h
        · exact Or.inl h
        · exact Or.inr h
        · exact Or.inr h))).1
    rw [this, k1]

/-- C36 on an output with two sessions: after the stamps 12345 and 8 both
versions read `8`, whatever was stamped before, and the rest of the two
lines is as it was. -/
theorem c36_version_stamps_witness :
    (sdp_version_replace_all demo_versions_chop demo_versions_sessions
      [{ version_num := 12345 }, { version_num := 8 }]).1.output
      = "o=- 1 8 X\r\no=- 2 8 Y\r\n".toList ∧
    (sdp_version_replace_all demo_versions_chop demo_versions_sessions
      [{ version_num := 12345 }]).1.output = "o=- 1 12345 X\r\no=- 2 12345 Y\r\n".toList ∧
    (sdp_version_replace_all demo_versions_chop demo_versions_sessions
      [{ version_num := 12345 }, { version_num := 8 }]).2.map
        (fun s => (s.origin.version_output_pos, s.origin.version_str.len)) = [(6, 1), (17, 1)] := by
  have h := c36_version_stamps demo_versions_chop demo_versions_sessions
    [("o=- 1 ".toList, "7".toList), (" X\r\no=- 2 ".toList, "99".toList)] " Y\r\n".toList
    [{ version_num := 12345 }] { version_num := 8 } (by decide) ⟨rfl, rfl, rfl, rfl, trivial⟩
    (by decide)
  exact ⟨h.1.trans (by decide), by decide, by decide⟩

/-! ## The numbering of the streams -/

/-- The four results of `legacy_osrtp_accept` on a queue that is not empty. -/
theorem legacy_osrtp_accept_forms (sp : stream_params) (streams : List stream_params)
    (has_prev : Bool) (flags : sdp_ng_flags) (num : Nat) (last : stream_params)
    (hl : streams.getLast? = some last) :
    legacy_osrtp_accept sp streams has_prev flags num =
      { discard := false, sp := sp, streams := streams, num := num } ∨
    legacy_osrtp_accept sp streams has_prev flags num =
      { discard := false,
        sp := { sp with sp_flags := { sp.sp_flags with LEGACY_OSRTP := true },
                        index := sp.index - 1 },
        streams := streams.dropLast, num := num - 1, prev_legacy := true } ∨
    legacy_osrtp_accept sp streams has_prev flags num =
      { discard := true, sp := sp, streams := streams, num := num, cur_legacy := true } ∨
    legacy_osrtp_accept sp streams has_prev flags num =
      { discard := true, sp := sp,
        streams := streams.dropLast ++
          [{ last with sp_flags :=
              { last.sp_flags with LEGACY_OSRTP := true, LEGACY_OSRTP_REV := true } }],
        num := num, cur_legacy := true } := by
  unfold legacy_osrtp_accept
  simp only [hl]
  cases has_prev with
  | false => exact Or.inl rfl
  | true =>
    cases hf : flags.osrtp_accept_legacy with
    | false => exact Or.inl rfl
    | true =>
      cases hsp : sp.protocol with
      | none => exact Or.inl rfl
      | some spp =>
        cases hlp : last.protocol with
        | none => exact Or.inl rfl
        | some lastp =>
          simp only [Bool.not_true, Bool.false_eq_true, if_false]
          by_cases ht : sp.type_id ≠ last.type_id
          · rw [if_pos ht]
            exact Or.inl rfl
          rw [if_neg ht]
          cases h1 : spp.rtp with
          | false => exact Or.inl rfl
          | true =>
            cases h2 : lastp.rtp with
            | false => exact Or.inl rfl
            | true =>
              cases h3 : spp.srtp with
              | false =>
                cases h4 : lastp.srtp with
                | false => exact Or.inl rfl
                | true =>
                  simp only [Bool.not_true, Bool.not_false, Bool.false_eq_true, if_false,
                    Bool.and_self, Bool.and_false, Bool.and_true, if_true]
                  by_cases hp : last.rtp_endpoint.port ≠ 0
                  · rw [if_pos hp]
                    exact Or.inr (Or.inr (Or.inr rfl))
                  · rw [if_neg hp]
                    exact Or.inl rfl
              | true =>
                cases h4 : lastp.srtp with
                | true => exact Or.inl rfl
                | false =>
                  simp only [Bool.not_true, Bool.not_false, Bool.false_eq_true, if_false,
                    Bool.and_self, Bool.and_false, Bool.and_true, if_true]
                  by_cases hp : sp.rtp_endpoint.port ≠ 0
                  · rw [if_pos hp]
                    exact Or.inr (Or.inl rfl)
                  · rw [if_neg hp]
                    by_cases hq : last.rtp_endpoint.port ≠ 0
                    · rw [if_pos hq]
                      exact Or.inr (Or.inr (Or.inl rfl))
                    · rw [if_neg hq]
                      exact Or.inl rfl

/-- What `legacy_osrtp_accept` does to the index, the queue and the counter:
it keeps them, or drops the tail of the queue and decrements index and
counter, or discards the stream and keeps the counter and the indices of the
queue. -/
theorem legacy_osrtp_accept_index (sp : stream_params) (streams : List stream_params)
    (has_prev : Bool) (flags : sdp_ng_flags) (num : Nat) :
    ((legacy_osrtp_accept sp streams has_prev flags num).discard = false ∧
      (legacy_osrtp_accept sp streams has_prev flags num).sp.index = sp.index ∧
      (legacy_osrtp_accept sp streams has_prev flags num).streams = streams ∧
      (legacy_osrtp_accept sp streams has_prev flags num).num = num) ∨
    ((legacy_osrtp_accept sp streams has_prev flags num).discard = false ∧
      streams ≠ [] ∧
      (legacy_osrtp_accept sp streams has_prev flags num).sp.index = sp.index - 1 ∧
      (legacy_osrtp_accept sp streams has_prev flags num).streams = streams.dropLast ∧
      (legacy_osrtp_accept sp streams has_prev flags num).num = num - 1) ∨
    ((legacy_osrtp_accept sp streams has_prev flags num).discard = true ∧
      (legacy_osrtp_accept sp streams has_prev flags num).num = num ∧
      stream_indices (legacy_osrtp_accept sp streams has_prev flags num).streams
        = stream_indices streams ∧
      (legacy_osrtp_accept sp streams has_prev flags num).streams.length = streams.length) := by
  cases hl : streams.getLast? with
  | none =>
    left
    have : legacy_osrtp_accept sp streams has_prev flags num =
        { discard := false, sp := sp, streams := streams, num := num } := by
      unfold legacy_osrtp_accept
      simp only [hl]
    rw [this]
    exact ⟨rfl, rfl, rfl, rfl⟩
  | some last =>
    have hne : streams ≠ [] := by
      intro h
      rw [h] at hl
      cases hl
    have hsplit : streams.dropLast ++ [last] = streams :=
      List.dropLast_append_getLast? last hl
    have hrev : ∀ x : stream_params, x.index = last.index →
        stream_indices (streams.dropLast ++ [x]) = stream_indices streams ∧
        (streams.dropLast ++ [x]).length = streams.length := by
      intro x hx
      constructor
      · conv_rhs => rw [← hsplit]
        simp only [stream_indices, List.map_append, List.map_cons, List.map_nil, hx]
      · conv_rhs => rw [← hsplit]
        simp only [List.length_append, List.length_singleton]
    rcases legacy_osrtp_accept_forms sp streams has_prev flags num last hl with h | h | h | h
    · rw [h]
      exact Or.inl ⟨rfl, rfl, rfl, rfl⟩
    · rw [h]
      exact Or.inr (Or.inl ⟨rfl, hne, rfl, rfl, rfl⟩)
    · rw [h]
      exact Or.inr (Or.inr ⟨rfl, rfl, rfl, rfl⟩)
    · rw [h]
      have := hrev { last with sp_flags :=
        { last.sp_flags with LEGACY_OSRTP := true, LEGACY_OSRTP_REV := true } } rfl
      exact Or.inr (Or.inr ⟨rfl, rfl, this.1, this.2⟩)

/-- A turn of the media loop that does not end in an error: either the stream
was discarded, and the queue and the counter are those that
`legacy_osrtp_accept` left, or the stream was pushed with the index that
`legacy_osrtp_accept` left. -/
theorem sdp_streams_media_index (env : Env) (buf : List Char) (session : sdp_session)
    (has_prev : Bool) (media : sdp_media) (st st1 : streams_state) (pl cl : Bool)
    (h : sdp_streams_media env buf session has_prev media st = media_step.next st1 pl cl) :
    ((legacy_osrtp_accept (sdp_streams_current env buf session media st) st.streams has_prev
        (sdp_streams_before_codecs env buf session media st).2 (st.num + 1)).discard = true ∧
      cl = true ∧
      st1.streams = (legacy_osrtp_accept (sdp_streams_current env buf session media st)
        st.streams has_prev (sdp_streams_before_codecs env buf session media st).2
        (st.num + 1)).streams ∧
      st1.num = (legacy_osrtp_accept (sdp_streams_current env buf session media st)
        st.streams has_prev (sdp_streams_before_codecs env buf session media st).2
        (st.num + 1)).num) ∨
    ((legacy_osrtp_accept (sdp_streams_current env buf session media st) st.streams has_prev
        (sdp_streams_before_codecs env buf session media st).2 (st.num + 1)).discard = false ∧
      cl = false ∧
      st1.num = (legacy_osrtp_accept (sdp_streams_current env buf session media st)
        st.streams has_prev (sdp_streams_before_codecs env buf session media st).2
        (st.num + 1)).num ∧
      ∃ x, st1.streams = (legacy_osrtp_accept (sdp_streams_current env buf session media st)
          st.streams has_prev (sdp_streams_before_codecs env buf session media st).2
          (st.num + 1)).streams ++ [x] ∧
        x.index = (legacy_osrtp_accept (sdp_streams_current env buf session media st)
          st.streams has_prev (sdp_streams_before_codecs env buf session media st).2
          (st.num + 1)).sp.index) := by
  have h0 := h
  unfold sdp_streams_media at h
  simp only at h
  by_cases h1 : (sdp_streams_endpoint env session media st.flags).1 = 0
  · rw [if_neg (by simpa using h1)] at h
    by_cases h2 : (__rtp_payload_types env buf
        (sdp_streams_before_codecs env buf session media st).1 media).1 = 0
    · rw [if_neg (by simpa using h2)] at h
      obtain ⟨_, _, l3⟩ := legacy_osrtp_accept_frame
        (sdp_streams_security env buf session media
          (__rtp_payload_types env buf (sdp_streams_before_codecs env buf session media st).1
            media).2) st.streams has_prev
        (sdp_streams_before_codecs env buf session media st).2 (st.num + 1)
      unfold sdp_streams_current
      split at h
      · rename_i hd
        injection h with e1 e2 e3
        rw [l3 hd] at e3
        left
        refine ⟨hd, e3.symm, ?_, ?_⟩
        · rw [← e1]
        · rw [← e1]
      · rename_i hd
        right
        obtain ⟨c1, _, c3, x, x1, _, _, _, _, _, x7⟩ :=
          sdp_streams_finish_flags _ _ _ _ _ _ _ _ _ _ h
        exact ⟨by simpa using hd, c1, c3, x, x1, x7⟩
    · rw [if_pos (by simpa using h2)] at h
      injection h
  · rw [if_pos (by simpa using h1)] at h
    injection h

/-- A turn of the media loop keeps the invariant of the numbering, with one
more discarded media when the turn ends with the mark on the current media. -/
theorem index_inv_step (env : Env) (buf : List Char) (session : sdp_session)
    (has_prev : Bool) (media : sdp_media) (st st1 : streams_state) (pl cl : Bool) (d : Nat)
    (hinv : index_inv d st)
    (h : sdp_streams_media env buf session has_prev media st = media_step.next st1 pl cl) :
    index_inv (d + (if cl then 1 else 0)) st1 := by
  obtain ⟨i1, i2, i3, i5⟩ := hinv
  obtain ⟨_, f2, _⟩ := sdp_streams_current_fields env buf session media st
  have hidx := legacy_osrtp_accept_index (sdp_streams_current env buf session media st)
    st.streams has_prev (sdp_streams_before_codecs env buf session media st).2 (st.num + 1)
  rcases sdp_streams_media_index env buf session has_prev media st st1 pl cl h with
    ⟨hd, hcl, hs, hn⟩ | ⟨hd, hcl, hn, x, hs, hx⟩
  · -- the stream was discarded
    rcases hidx with ⟨k1, _⟩ | ⟨k1, _⟩ | ⟨_, k2, k3, k4⟩
    · rw [k1] at hd; cases hd
    · rw [k1] at hd; cases hd
    · rw [hcl]
      simp only [if_true]
      refine ⟨?_, ?_, ?_, ?_⟩
      · rw [hn, k2, hs, k4]; omega
      · rw [hs, k3]; exact i2
      · intro y hy
        rw [hs, k3] at hy
        have := i3 y hy
        rw [hn, k2]
        omega
      · intro h0
        omega
  · -- the stream was pushed
    rw [hcl]
    simp only [Bool.false_eq_true, if_false, Nat.add_zero]
    rcases hidx with ⟨_, k2, k3, k4⟩ | ⟨_, kne, k2, k3, k4⟩ | ⟨k1, _⟩
    · -- kept as it is
      have hxi : x.index = st.num + 1 := by rw [hx, k2, f2]
      have hsi : stream_indices st1.streams = stream_indices st.streams ++ [st.num + 1] := by
        rw [hs, k3]
        simp only [stream_indices, List.map_append, List.map_cons, List.map_nil, hxi]
      have hlen : st1.streams.length = st.streams.length + 1 := by
        rw [hs, k3, List.length_append, List.length_singleton]
      refine ⟨?_, ?_, ?_, ?_⟩
      · rw [hn, k4, hlen]; omega
      · rw [hsi, List.pairwise_append]
        refine ⟨i2, List.pairwise_singleton _ _, ?_⟩
        intro a ha b hb
        rw [List.mem_singleton] at hb
        have := i3 a ha
        omega
      · intro y hy
        rw [hsi, List.mem_append, List.mem_singleton] at hy
        rw [hn, k4]
        rcases hy with hy | hy
        · have := i3 y hy
          omega
        · omega
      · intro h0
        rw [hsi, hlen, i5 h0, List.range'_concat]
        congr 2
        omega
    · -- the tail of the queue was dropped
      obtain ⟨pre, last, hpl⟩ : ∃ pre last, st.streams = pre ++ [last] :=
        ⟨st.streams.dropLast, st.streams.getLast kne,
          (List.dropLast_append_getLast kne).symm⟩
      have hdrop : st.streams.dropLast = pre := by rw [hpl]; simp
      have hxi : x.index = st.num := by rw [hx, k2, f2]; omega
      have hsi : stream_indices st1.streams = stream_indices pre ++ [st.num] := by
        rw [hs, k3, hdrop]
        simp only [stream_indices, List.map_append, List.map_cons, List.map_nil, hxi]
      have hold : stream_indices st.streams = stream_indices pre ++ [last.index] := by
        rw [hpl]
        simp only [stream_indices, List.map_append, List.map_cons, List.map_nil]
      have hlen : st1.streams.length = st.streams.length := by
        rw [hs, k3, hdrop, hpl]
        simp only [List.length_append, List.length_singleton]
      rw [hold, List.pairwise_append] at i2
      obtain ⟨p1, _, p3⟩ := i2
      have hlast : last.index ≤ st.num := (i3 last.index (by rw [hold]; simp)).2
      refine ⟨?_, ?_, ?_, ?_⟩
      · rw [hn, k4, hlen]; omega
      · rw [hsi, List.pairwise_append]
        refine ⟨p1, List.pairwise_singleton _ _, ?_⟩
        intro a ha b hb
        rw [List.mem_singleton] at hb
        have := p3 a ha last.index (by simp)
        omega
      · intro y hy
        rw [hsi, List.mem_append, List.mem_singleton] at hy
        rw [hn, k4]
        rcases hy with hy | hy
        · have := i3 y (by rw [hold]; exact List.mem_append_left _ hy)
          omega
        · have := (i3 last.index (by rw [hold]; simp)).1
          omega
      · intro h0
        have h5 := i5 h0
        have hnum : st.num = pre.length + 1 := by
          rw [i1, hpl, List.length_append, List.length_singleton]; omega
        rw [hold, hpl, List.length_append, List.length_singleton, List.range'_concat] at h5
        have hpre : stream_indices pre = List.range' 1 pre.length := by
          have := congrArg List.dropLast h5
          simpa using this
        rw [hsi, hlen, hpl, List.length_append, List.length_singleton, List.range'_concat,
          hpre, hnum]
        congr 2
        omega
    · rw [k1] at hd; cases hd

/-- The media loop keeps the invariant of the numbering. -/
theorem index_inv_media_loop (env : Env) (buf : List Char) (session : sdp_session) :
    ∀ (rest seen : List sdp_media) (st st1 : streams_state) (seen1 : List sdp_media) (d : Nat),
      index_inv d st →
      sdp_streams_media_loop env buf session seen rest st = (0, st1, seen1) →
      index_inv (d + media_loop_discards env buf session seen rest st) st1 := by
  intro rest
  induction rest with
  | nil =>
    intro seen st st1 seen1 d hinv h
    simp only [sdp_streams_media_loop, Prod.mk.injEq, true_and] at h
    rw [← h.1]
    simp only [media_loop_discards, Nat.add_zero]
    exact hinv
  | cons media more ih =>
    intro seen st st1 seen1 d hinv h
    rw [sdp_streams_media_loop] at h
    rw [media_loop_discards]
    cases hstep : sdp_streams_media env buf session (!seen.isEmpty) media st with
    | error e st2 =>
      rw [hstep] at h
      simp at h
    | next st2 pl cl =>
      rw [hstep] at h
      simp only at h ⊢
      have h2 := index_inv_step env buf session _ media st st2 pl cl d hinv hstep
      have := ih _ _ _ _ _ h2 h
      rw [Nat.add_assoc] at this
      exact this

/-- The session loop keeps the invariant of the numbering. -/
theorem index_inv_streams_loop (env : Env) (buf : List Char) :
    ∀ (rest seen : List sdp_session) (st st1 : streams_state) (seen1 : List sdp_session)
      (d : Nat),
      index_inv d st →
      sdp_streams_loop env buf seen rest st = (0, st1, seen1) →
      index_inv (d + streams_loop_discards env buf seen rest st) st1 := by
  intro rest
  induction rest with
  | nil =>
    intro seen st st1 seen1 d hinv h
    simp only [sdp_streams_loop, Prod.mk.injEq, true_and] at h
    rw [← h.1]
    simp only [streams_loop_discards, Nat.add_zero]
    exact hinv
  | cons session more ih =>
    intro seen st st1 seen1 d hinv h
    rw [sdp_streams_loop] at h
    rw [streams_loop_discards]
    by_cases hr : (sdp_streams_media_loop env buf session [] session.media_streams
        { st with flags := sdp_streams_session_flags buf session st.flags }).1 = 0
    · rw [if_neg (by simpa using hr)] at h
      rw [if_neg (by simpa using hr)]
      have hm := index_inv_media_loop env buf session session.media_streams []
        { st with flags := sdp_streams_session_flags buf session st.flags }
        (sdp_streams_media_loop env buf session [] session.media_streams
          { st with flags := sdp_streams_session_flags buf session st.flags }).2.1
        (sdp_streams_media_loop env buf session [] session.media_streams
          { st with flags := sdp_streams_session_flags buf session st.flags }).2.2
        d hinv (by rw [← hr])
      have := ih _ _ _ _ _ hm h
      rw [Nat.add_assoc] at this
      exact this
    · rw [if_pos (by simpa using hr)] at h
      simp at h

/-- In a list that increases strictly from `lo` on, the entry at position `k`
is `lo + k` at least. -/
theorem pairwise_lt_ge : ∀ (l : List Nat) (lo : Nat), l.Pairwise (fun a b => a < b) →
    (∀ x ∈ l, lo ≤ x) → ∀ k x, l[k]? = some x → lo + k ≤ x := by
  intro l
  induction l with
  | nil => intro lo _ _ k x h; simp at h
  | cons a rest ih =>
    intro lo hp hlo k x h
    rw [List.pairwise_cons] at hp
    cases k with
    | zero =>
      simp only [List.getElem?_cons_zero, Option.some.injEq] at h
      rw [← h]
      exact hlo a (List.mem_cons_self _ _)
    | succ k =>
      simp only [List.getElem?_cons_succ] at h
      have := ih (lo + 1) hp.2 (by
        intro y hy
        have h1 := hp.1 y hy
        have h2 := hlo a (List.mem_cons_self _ _)
        omega) k x h
      omega

/-- C37, as the code assigns the indices.  For every successful `sdp_streams` call that starts from
an empty output queue: the stream indices increase strictly in queue order,
the stream at position `k` (counted from 1) carries an index of `k` at least
and of `n` plus the number of discarded media at most, where `n` is the
length of the queue; and when no media is discarded through
`legacy_osrtp_accept` the indices are 1, 2, …, `n` in queue order, also when
legacy-OSRTP pairs are collapsed. -/
theorem c37_stream_indices (env : Env) (buf : List Char) (sessions : List sdp_session)
    (flags : sdp_ng_flags)
    (hret : (sdp_streams env buf sessions [] flags).ret = 0) :
    (stream_indices (sdp_streams env buf sessions [] flags).streams).Pairwise
      (fun a b => a < b) ∧
    (∀ k x, (stream_indices (sdp_streams env buf sessions [] flags).streams)[k]? = some x →
      k + 1 ≤ x ∧
      x ≤ (sdp_streams env buf sessions [] flags).streams.length +
        sdp_streams_discards env buf sessions [] flags) ∧
    (sdp_streams_discards env buf sessions [] flags = 0 →
      stream_indices (sdp_streams env buf sessions [] flags).streams =
        List.range' 1 (sdp_streams env buf sessions [] flags).streams.length) := by
  have hinit : index_inv 0 { streams := [], flags := flags, num := 0 } := by
    refine ⟨rfl, List.Pairwise.nil, ?_, fun _ => rfl⟩
    intro x hx
    cases hx
  unfold sdp_streams at hret
  simp only at hret
  have hloop : sdp_streams_loop env buf [] sessions { streams := [], flags := flags, num := 0 } =
      (0, (sdp_streams_loop env buf [] sessions
            { streams := [], flags := flags, num := 0 }).2.1,
          (sdp_streams_loop env buf [] sessions
            { streams := [], flags := flags, num := 0 }).2.2) := by
    rw [← hret]
  obtain ⟨i1, i2, i3, i5⟩ := index_inv_streams_loop env buf sessions [] _ _ _ 0 hinit hloop
  rw [Nat.zero_add] at i1 i5
  have hs : (sdp_streams env buf sessions [] flags).streams =
      (sdp_streams_loop env buf [] sessions
        { streams := [], flags := flags, num := 0 }).2.1.streams := rfl
  have hd : sdp_streams_discards env buf sessions [] flags =
      streams_loop_discards env buf [] sessions { streams := [], flags := flags, num := 0 } :=
    rfl
  rw [hs, hd]
  refine ⟨i2, ?_, i5⟩
  intro k x hk
  have h1 := pairwise_lt_ge _ 1 i2 (fun y hy => (i3 y hy).1) k x hk
  have h2 := (i3 x (List.mem_iff_getElem?.mpr ⟨k, hk⟩)).2
  rw [i1] at h2
  omega

/-- C37 on a body with an `RTP/AVP` audio section, a rejected
`RTP/SAVP` audio section and a video section: without `osrtp_accept_legacy`
no media is discarded and the indices are 1, 2, 3. -/
theorem c37_stream_indices_witness :
    (sdp_streams demo_env demo_discard_body (demo_sessions demo_discard_body) []
      { trust_address := true }).ret = 0 ∧
    sdp_streams_discards demo_env demo_discard_body (demo_sessions demo_discard_body) []
      { trust_address := true } = 0 ∧
    stream_indices (sdp_streams demo_env demo_discard_body (demo_sessions demo_discard_body) []
      { trust_address := true }).streams = [1, 2, 3] :=
  with_facts5 (fun fact1 fact2 fact3 fact4 fact5 => by
    have h := (c37_stream_indices demo_env demo_discard_body (demo_sessions demo_discard_body)
      { trust_address := true } (fact1)).2.2 (fact2)
    exact ⟨fact3, fact4, h.trans (fact5)⟩) (by decide!)

/-- C37 fails in the code.  Under `osrtp_accept_legacy` the rejected `RTP/SAVP`
section of this body is discarded after it has taken the index 2: extraction
succeeds with two streams in the queue, which carry the indices 1 and 3. -/
theorem c37_counterexample :
    (sdp_streams demo_env demo_discard_body (demo_sessions demo_discard_body) []
      { trust_address := true, osrtp_accept_legacy := true }).ret = 0 ∧
    (sdp_streams demo_env demo_discard_body (demo_sessions demo_discard_body) []
      { trust_address := true, osrtp_accept_legacy := true }).streams.map
        (fun sp => (sp.index, sp.rtp_endpoint.port)) = [(1, 5000), (3, 5004)] ∧
    sdp_streams_discards demo_env demo_discard_body (demo_sessions demo_discard_body) []
      { trust_address := true, osrtp_accept_legacy := true } = 1 :=
  with_facts3 (fun fact1 fact2 fact3 =>
    ⟨fact1, fact2, fact3⟩) (by decide!)

/-! ## The first line of a fragment -/

theorem set_c_line_pos_after_first {media : Option sdp_media} {b : Nat}
    (h : ∀ m, media = some m → media_after_first m) :
    ∀ m ∈ (set_c_line_pos media b).toList, media_after_first m := by
  intro m hm
  cases media with
  | none => simp [set_c_line_pos] at hm
  | some m0 =>
    simp only [set_c_line_pos, Option.map_some', Option.toList_some, List.mem_singleton] at hm
    have h0 := h m0 rfl
    subst hm
    split
    · exact h0
    · exact h0

theorem session_after_first_close {s : sdp_session} {media : Option sdp_media}
    (hs : session_after_first s) (hm : ∀ m ∈ media.toList, media_after_first m) :
    session_after_first (close_session s media) := by
  refine ⟨hs.1, ?_⟩
  intro m hmem
  simp only [close_session, List.mem_append] at hmem
  rcases hmem with hmem | hmem
  · exact hs.2 m hmem
  · exact hm m hmem

/-- A turn of the loop at a line after the first one keeps the invariant. -/
theorem state_after_first_step {env : Env} {buf : List Char} {end_ : Nat}
    {strict fragment : Bool} {sessions0 : List sdp_session}
    {st st1 : parse_state} {b : Nat} {nl : Option Nat}
    (hinv : (st = parse_init sessions0 ∧ b = 0) ∨ state_after_first sessions0 st (some b))
    (hstep : sdp_parse_line env strict buf end_ fragment st b = parse_step.next st1 nl) :
    state_after_first sessions0 st1 nl := by
  obtain ⟨st2, session2, hs2, hst1, hshape⟩ := sdp_parse_line_shape hstep
  have hnl : ∀ x, nl = some x → 0 < x := by
    intro x hx
    rw [hx] at hstep
    have := sdp_parse_line_next_lt hstep
    omega
  have hdone : ∃ new, st.done = sessions0 ++ new ∧ ∀ s ∈ new, session_after_first s := by
    rcases hinv with ⟨h0, _⟩ | h
    · exact ⟨[], (by rw [h0]; simp [parse_init]), (by intro s hs; cases hs)⟩
    · exact h.2.1
  have hsess : ∀ s, st.session = some s → session_after_first s := by
    rcases hinv with ⟨h0, _⟩ | h
    · intro s hs; rw [h0] at hs; simp [parse_init] at hs
    · exact h.2.2.1
  have hmedia : ∀ m, st.media = some m → media_after_first m := by
    rcases hinv with ⟨h0, _⟩ | h
    · intro m hm; rw [h0] at hm; simp [parse_init] at hm
    · exact h.2.2.2
  have hmedia' : ∀ m ∈ st.media.toList, media_after_first m := by
    intro m hm
    apply hmedia
    cases hmm : st.media with
    | none => rw [hmm] at hm; simp at hm
    | some m0 =>
      rw [hmm] at hm
      simp only [Option.toList_some, List.mem_singleton] at hm
      rw [hm]
  obtain ⟨new, hd, hnew⟩ := hdone
  have new_case : st2 = new_session st b → state_after_first sessions0 st1 nl := by
    intro hst2
    subst hst2
    simp only [new_session, Option.some.injEq] at hs2
    subst hs2
    subst hst1
    refine ⟨hnl, ?_, ?_, ?_⟩
    · simp only [adjust_len, new_session, sessions_of]
      cases hs : st.session with
      | none => exact ⟨new, by simp [hd], hnew⟩
      | some s =>
        refine ⟨new ++ [close_session s st.media], by simp [hd], ?_⟩
        intro x hx
        rw [List.mem_append, List.mem_singleton] at hx
        rcases hx with hx | hx
        · exact hnew x hx
        · subst hx
          exact session_after_first_close (hsess s hs) hmedia'
    · intro s hs
      simp only [adjust_len, new_session, Option.some.injEq] at hs
      subst hs
      exact ⟨(by intro a ha; cases ha), (by intro m hm; cases hm)⟩
    · intro m hm
      simp [adjust_len, new_session] at hm
  rcases hshape with ⟨_, hst2⟩ | ⟨session, hs, hsh⟩
  · exact new_case hst2
  have hb : 0 < b := by
    rcases hinv with ⟨h0, _⟩ | h
    · rw [h0] at hs; simp [parse_init] at hs
    · exact h.1 b rfl
  rcases hsh with hst2 | ⟨hd2, s1, hs1, hss, hsh⟩
  · exact new_case hst2
  rw [hs1] at hs2
  injection hs2 with hs2
  subst hs2
  have hins : ∀ (l : sdp_attributes) (a : sdp_attribute) (n : Nat),
      (∀ x ∈ l.list, attr_after_first x) → a.full_line = { s := some b, len := n } →
      ∀ x ∈ (attr_insert l a).list, attr_after_first x := by
    intro l a n hl ha x hx
    simp only [attr_insert, List.mem_append, List.mem_singleton] at hx
    rcases hx with hx | hx
    · exact hl x hx
    · subst hx
      exact ⟨b, by rw [ha], hb⟩
  rcases hsh with ⟨hm, hm1, hms, hattr⟩ | ⟨hattr, m1, hm1, hmm⟩
  · -- a line of the session level
    have hst1' : st1 = { st2 with session := some { s1 with
        s := { s1.s with len := nl.getD end_ - s1.s.s.getD 0 } } } := by
      rw [hst1]
      simp only [adjust_len, hm1]
    rw [hst1']
    refine ⟨hnl, ⟨new, by show st2.done = _; rw [hd2, hd], hnew⟩, ?_, ?_⟩
    · intro s hs'
      simp only [Option.some.injEq] at hs'
      subst hs'
      have h0 := hsess session hs
      constructor
      · show ∀ a ∈ s1.attributes.list, attr_after_first a
        rcases hattr with ha | ⟨a, hfl, ha⟩
        · rw [ha]; exact h0.1
        · rw [ha]; exact hins _ _ _ h0.1 hfl
      · show ∀ m ∈ s1.media_streams, media_after_first m
        rw [hms]; exact h0.2
    · intro m hm'
      rw [hm1] at hm'
      cases hm'
  · -- a line of the media level
    have hst1' : st1 = { st2 with media := some { m1 with
        s := { m1.s with len := nl.getD end_ - m1.s.s.getD 0 } } } := by
      rw [hst1]
      simp only [adjust_len, hm1]
    rw [hst1']
    have h0 := hsess session hs
    refine ⟨hnl, ⟨new, by show st2.done = _; rw [hd2, hd], hnew⟩, ?_, ?_⟩
    · intro s hs'
      have : s = s1 := by
        have h2 : st2.session = some s := hs'
        rw [hs1] at h2
        exact (Option.some.inj h2).symm
      subst this
      constructor
      · rw [hattr]; exact h0.1
      · rcases hmm with ⟨hms, _, _⟩ | ⟨hms, _⟩
        · rw [hms]
          intro m hm
          rw [List.mem_append] at hm
          rcases hm with hm | hm
          · exact h0.2 m hm
          · exact set_c_line_pos_after_first hmedia m hm
        · rw [hms]; exact h0.2
    · intro m hm'
      simp only [Option.some.injEq] at hm'
      subst hm'
      rcases hmm with ⟨_, hm1s, hm1a⟩ | ⟨_, m, hm, hm1s, hm1a⟩
      · constructor
        · exact ⟨b, by show m1.s.s = some b; rw [hm1s], hb⟩
        · show ∀ a ∈ m1.attributes.list, attr_after_first a
          rw [hm1a]
          intro a ha
          cases ha
      · have hm0 := hmedia m hm
        constructor
        · obtain ⟨q, hq, hq0⟩ := hm0.1
          exact ⟨q, by show m1.s.s = some q; rw [hm1s]; exact hq, hq0⟩
        · show ∀ a ∈ m1.attributes.list, attr_after_first a
          rcases hm1a with ha | ⟨a, hfl, ha⟩
          · rw [ha]; exact hm0.2
          · rw [ha]; exact hins _ _ _ hm0.2 hfl

theorem reaches_after_first {env : Env} {buf : List Char} {len : Nat}
    {strict fragment : Bool} {sessions0 : List sdp_session} {st : parse_state} {b : Option Nat}
    (h : Reaches env strict buf len fragment (parse_init sessions0) st b) :
    (st = parse_init sessions0 ∧ b = some 0) ∨ state_after_first sessions0 st b := by
  induction h with
  | start => exact Or.inl ⟨rfl, rfl⟩
  | step hr hb hstep ih =>
    right
    refine state_after_first_step ?_ hstep
    rcases ih with ⟨h1, h2⟩ | ih
    · exact Or.inl ⟨h1, Option.some.inj h2⟩
    · exact Or.inr ih

/-- C38 (amended).  With the fragment flag set, for every body of at least two
bytes whose first line is not a `v=` line, has `=` as its second byte and is
not a bare empty line while strict mode is off: the first turn of the loop
only opens a session at offset 0, with no origin, connection, attribute or
media, and `sdp_parse` is the loop continued at the second line from that
state.  In the result of a successful parse the first new session starts at
offset 0, and its attributes, its medias and their attributes all stem from
lines after the first one, whatever the first line is. -/
theorem c38_fragment_first_line (env : Env) (strict : Bool) (buf : List Char) (len : Nat)
    (sessions0 : List sdp_session)
    (h2 : 2 ≤ len)
    (hblank : strict = true ∨ (getc buf 0 ≠ '\n' ∧ getc buf 0 ≠ '\r'))
    (hv : getc buf 0 ≠ 'v') (heq : getc buf 1 = '=') :
    sdp_parse_line env strict buf len true (parse_init sessions0) 0 =
      parse_step.next
        { done := sessions0,
          session := some { s := { s := some 0, len := (find_next_line buf len 2).getD len },
                            rr := -1, rs := -1 } }
        (find_next_line buf len 2) ∧
    sdp_parse env strict buf len sessions0 true =
      sdp_parse_loop env strict buf len true len
        { done := sessions0,
          session := some { s := { s := some 0, len := (find_next_line buf len 2).getD len },
                            rr := -1, rs := -1 } }
        (find_next_line buf len 2) ∧
    ∀ r, sdp_parse env strict buf len sessions0 true = some r → r.ret = 0 →
      ∃ s rest, r.sessions = sessions0 ++ s :: rest ∧ s.s.s = some 0 ∧
        (∀ a ∈ s.attributes.list, ∃ q, a.full_line.s = some q ∧ 0 < q) ∧
        (∀ m ∈ s.media_streams, (∃ q, m.s.s = some q ∧ 0 < q) ∧
          ∀ a ∈ m.attributes.list, ∃ q, a.full_line.s = some q ∧ 0 < q) := by
  have hline := @sdp_parse_line_first env strict true buf len sessions0 hblank hv heq
  simp only [if_true] at hline
  refine ⟨hline, ?_, ?_⟩
  · unfold sdp_parse
    conv_lhs => unfold sdp_parse_loop
    have hb : 0 + 1 < len := by omega
    simp only [hb, if_true, hline]
  · intro r hr hret
    unfold sdp_parse at hr
    obtain ⟨st1, b1, hreach, hs, hexit⟩ := sdp_parse_loop_result _ _ _ _ Reaches.start hr hret
    rcases reaches_after_first hreach with ⟨h0, hb0⟩ | ⟨_, ⟨new, hd, hnew⟩, hsess, hmedia⟩
    · subst h0
      have hstop := hexit 0 hb0 (by omega)
      rw [hline] at hstop
      injection hstop
    have hmedia' : ∀ m ∈ st1.media.toList, media_after_first m := by
      intro m hm
      apply hmedia
      cases hmm : st1.media with
      | none => rw [hmm] at hm; simp at hm
      | some m0 =>
        rw [hmm] at hm
        simp only [Option.toList_some, List.mem_singleton] at hm
        rw [hm]
    rcases reaches_first_session hreach with ⟨h0, hb0⟩ | hq | ⟨hq1, s, hq2, hq3⟩
    · subst h0
      have hstop := hexit 0 hb0 (by omega)
      rw [hline] at hstop
      injection hstop
    · obtain ⟨s, rest, hq1, hq2⟩ := hq
      obtain ⟨tail, ht⟩ := sessions_of_done st1
      have hmem : s ∈ new := by
        rw [hd] at hq1
        have := List.append_cancel_left hq1
        rw [this]
        exact List.mem_cons_self _ _
      have := hnew s hmem
      exact ⟨s, rest ++ tail, by rw [hs, ht, hq1]; simp, hq2, this.1, this.2⟩
    · have := session_after_first_close (hsess s hq2) hmedia'
      refine ⟨close_session s st1.media, [], ?_, hq3, this.1, this.2⟩
      rw [hs]
      simp only [sessions_of, hq1, hq2, Option.map_some', Option.toList_some]

/-- C38 (amended) on a fragment of two attribute lines, `a=mid:0` and
`a=tool:x` (19 bytes): the first turn opens the session and adds nothing to it, and the
session that the parse returns holds the attribute of the second line (at
offset 9) only. -/
theorem c38_fragment_first_line_witness :
    sdp_parse_line demo_env false demo_mid_fragment 19 true (parse_init []) 0 =
      parse_step.next
        { done := [],
          session := some { s := { s := some 0, len := 9 }, rr := -1, rs := -1 } }
        (some 9) ∧
    sdp_parse demo_env false demo_mid_fragment 19 [] true = some demo_mid_parse ∧
    demo_mid_parse.ret = 0 ∧
    demo_mid_parse.sessions.map
        (fun s => (s.s, s.attributes.list.map (fun a => a.full_line), s.media_streams.length))
      = [({ s := some 0, len := 19 }, [{ s := some 9, len := 10 }], 0)] :=
  with_facts4 (fun fact1 fact2 fact3 fact4 =>
    ⟨(c38_fragment_first_line demo_env false demo_mid_fragment 19 [] (by decide)
        (Or.inr (by decide)) (by decide) (by decide)).1.trans (fact1),
     fact2, fact3, fact4⟩) (by decide!)

/-- C38 fails as stated.  With the fragment flag set, the body `candidate`
(followed by a line end), whose first line is not a `v=` line, is rejected
because its second byte is not `=`; and a body that begins with a bare empty
line is accepted without a session while strict mode is off. -/
theorem c38_counterexample :
    sdp_parse demo_env false "candidate:1 1 UDP 1 1.2.3.4 9 typ host\r\n".toList 40 [] true
      = some { ret := -1, sessions := [], body_len := 40 } ∧
    sdp_parse demo_env false "\r\na=mid:0\r\n".toList 11 [] true
      = some { ret := 0, sessions := [], body_len := 0 } :=
  with_facts2 (fun fact1 fact2 =>
    ⟨fact1, fact2⟩) (by decide!)

/-! ## Media attributes under an unknown protocol -/

/-- Inside the full line of an attribute that is not edited, of a list laid
out in input order, the expected rewriting emits the byte of the input. -/
theorem expected_at_kept (edit : sdp_attribute → Option (List Char)) (buf : List Char) :
    ∀ (l : List sdp_attribute) (lo hi : Nat), attrs_within lo hi l →
      ∀ a ∈ l, edit a = none → ∀ p, a.full_line.s = some p →
        ∀ i, p ≤ i → i < p + a.full_line.len → expected_at edit buf l i = [getc buf i] := by
  intro l
  induction l with
  | nil => intro lo hi _ a ha; cases ha
  | cons b rest ih =>
    intro lo hi h a ha he p hp i h1 h2
    obtain ⟨pb, hpb, hlo, hlen, hr⟩ := h
    rcases List.mem_cons.mp ha with rfl | hm
    · rw [hp] at hpb
      injection hpb with hpb
      subst hpb
      rw [expected_at_cons_skip edit buf a rest i p hp (Or.inl he) hlen]
      exact expected_at_before edit buf rest _ hi i hr h2
    · obtain ⟨q, hq, hq1, _⟩ := attrs_within_mem hr hm
      rw [hp] at hq
      injection hq with hq
      subst hq
      rw [expected_at_cons_skip edit buf b rest i pb hpb (Or.inr (Or.inr (by omega))) hlen]
      exact ih _ hi hr a hm he p hp i h1 h2

/-- The decision of `process_media_attributes` when the call media is no
generator and has no protocol: the first switch alone decides. -/
theorem media_attr_action_unknown (flags : sdp_ng_flags) (cm : call_media) (m : sdp_media)
    (buf : List Char) (a : sdp_attribute)
    (hgen : cm.media_flags.GENERATOR = false) (hproto : cm.protocol = none) :
    media_attr_action flags cm m buf a =
      if media_attr_switch flags cm buf a then attr_action.strip else attr_action.keep := by
  unfold media_attr_action
  rw [hgen, hproto]
  simp only [Bool.false_eq_true, if_false, Option.isNone_none, if_true]

/-! ## Printing and parsing a fingerprint -/

theorem upper_hex_digit (d : Nat) (h : d < 16) :
    hex_digit (upper_hex d) = some d ∧ upper_hex d ≠ ' ' := by
  interval_cases d <;> exact ⟨by decide, by decide⟩

theorem foldl_append_flatten {α : Type} (f : Nat → List α) :
    ∀ (l : List Nat) (s : List α),
      l.foldl (fun s i => s ++ f i) s = s ++ (l.map f).flatten := by
  intro l
  induction l with
  | nil => intro s; simp
  | cons x rest ih =>
    intro s
    rw [List.foldl_cons, ih, List.map_cons, List.flatten_cons, List.append_assoc]

/-- The characters of a text made of groups of three. -/
theorem triples_getD (f : Nat → Char × Char × Char) :
    ∀ (n : Nat),
      ((List.range n).map (fun i => [(f i).1, (f i).2.1, (f i).2.2])).flatten.length = 3 * n ∧
      ∀ i, i < n →
        ((List.range n).map (fun i => [(f i).1, (f i).2.1, (f i).2.2])).flatten.getD (3 * i) 'x'
          = (f i).1 ∧
        ((List.range n).map
          (fun i => [(f i).1, (f i).2.1, (f i).2.2])).flatten.getD (3 * i + 1) 'x' = (f i).2.1 ∧
        ((List.range n).map
          (fun i => [(f i).1, (f i).2.1, (f i).2.2])).flatten.getD (3 * i + 2) 'x' = (f i).2.2 := by
  intro n
  induction n with
  | zero => exact ⟨rfl, fun i h => absurd h (by omega)⟩
  | succ n ih =>
    obtain ⟨hl, hg⟩ := ih
    rw [List.range_succ, List.map_append, List.flatten_append]
    simp only [List.map_cons, List.map_nil, List.flatten_cons, List.flatten_nil, List.append_nil]
    constructor
    · rw [List.length_append, hl]
      simp only [List.length_cons, List.length_nil]
      omega
    · intro i hi
      by_cases hin : i < n
      · obtain ⟨g1, g2, g3⟩ := hg i hin
        rw [List.getD_append _ _ _ _ (by omega), List.getD_append _ _ _ _ (by omega),
          List.getD_append _ _ _ _ (by omega)]
        exact ⟨g1, g2, g3⟩
      · have : i = n := by omega
        subst this
        rw [List.getD_append_right _ _ _ _ (by omega),
          List.getD_append_right _ _ _ _ (by omega),
          List.getD_append_right _ _ _ _ (by omega), hl]
        simp

theorem memchr_first {buf : List Char} {c : Char} :
    ∀ (n p q : Nat), p ≤ q → q < p + n → getc buf q = c →
      (∀ i, p ≤ i → i < q → getc buf i ≠ c) → memchr buf p c n = some q := by
  intro n
  induction n with
  | zero => intro p q h1 h2; omega
  | succ n ih =>
    intro p q h1 h2 h3 h4
    rw [memchr_succ]
    by_cases hp : p = q
    · subst hp
      rw [if_pos h3]
    · rw [if_neg (h4 p (le_refl _) (by omega))]
      exact ih (p + 1) q (by omega) (by omega) h3 (fun i hi1 hi2 => h4 i (by omega) hi2)

theorem memchr_absent {buf : List Char} {c : Char} :
    ∀ (n p : Nat), (∀ i, p ≤ i → i < p + n → getc buf i ≠ c) → memchr buf p c n = none := by
  intro n
  induction n with
  | zero => intro p _; rfl
  | succ n ih =>
    intro p h
    rw [memchr_succ]
    rw [if_neg (h p (le_refl _) (by omega))]
    exact ih (p + 1) (fun i hi1 hi2 => h i (by omega) (by omega))

theorem getc_of_bytes_at (buf : List Char) (p : Nat) (t : List Char)
    (h : bytes_at buf p t.length = t) (k : Nat) (hk : k < t.length) :
    getc buf (p + k) = t.getD k 'x' := by
  have hk2 : k < (bytes_at buf p t.length).length := by rw [h]; exact hk
  have e : (bytes_at buf p t.length).getD k 'x' = t.getD k 'x' := by rw [h]
  rw [← e]
  unfold bytes_at at hk2 ⊢
  rw [List.length_take, List.length_drop] at hk2
  rw [List.getD_eq_getElem _ _ (by rw [List.length_take, List.length_drop]; omega),
    List.getElem_take, List.getElem_drop]
  unfold getc
  rw [List.getD_eq_getElem _ _ (by omega)]

/-- The text that `insert_dtls` prints: name, space, and the groups of two
digits and a colon without the last colon. -/
theorem insert_dtls_fingerprint_eq (hf : dtls_hash_func) (d : List Nat) :
    insert_dtls_fingerprint hf d =
      (hf.name ++ ' ' :: ((List.range hf.num_bytes).map (fun i =>
        [upper_hex (d.getD i 0 % 256 / 16), upper_hex (d.getD i 0 % 16), ':'])).flatten).dropLast
    := by
  unfold insert_dtls_fingerprint
  simp only
  rw [foldl_append_flatten (fun i => printf_02X (d.getD i 0) ++ ":".toList), List.append_assoc]
  rfl

/-- C40: for a hash function `hf` with a name that has no space, which
`dtls_find_hash_func` finds under its name, with digest length `n ≥ 1`, and a
digest `d` of `n` bytes: wherever the text that `insert_dtls`
prints for `d` stands in a body as the value of an attribute, followed by a
byte other than `:` (the end of its line), `parse_attribute_fingerprint`
returns 0 with the hash function `hf` and the digest `d`. -/
theorem c40_fingerprint_roundtrip (env : Env) (buf : List Char) (output : sdp_attribute)
    (hf : dtls_hash_func) (d : List Nat) (p : Nat)
    (hn : 1 ≤ hf.num_bytes) (hd : d.length = hf.num_bytes) (hb : ∀ b ∈ d, b < 256)
    (hsp : ' ' ∉ hf.name)
    (hfind : env.dtls_find_hash_func hf.name = some hf)
    (hval : output.strs.value = { s := some p, len := (insert_dtls_fingerprint hf d).length })
    (htext : bytes_at buf p (insert_dtls_fingerprint hf d).length = insert_dtls_fingerprint hf d)
    (hend : getc buf (p + (insert_dtls_fingerprint hf d).length) ≠ ':') :
    (parse_attribute_fingerprint env buf output).1 = 0 ∧
    (parse_attribute_fingerprint env buf output).2.attr = attr_id.ATTR_FINGERPRINT ∧
    (parse_attribute_fingerprint env buf output).2.fingerprint.hash_func = some hf ∧
    (parse_attribute_fingerprint env buf output).2.fingerprint.fingerprint = d := by
  -- the text
  obtain ⟨hxl, hxg⟩ := triples_getD (fun i =>
    (upper_hex (d.getD i 0 % 256 / 16), upper_hex (d.getD i 0 % 16), ':')) hf.num_bytes
  have hT := insert_dtls_fingerprint_eq hf d
  generalize insert_dtls_fingerprint hf d = T at hT hval htext hend
  generalize hX : ((List.range hf.num_bytes).map (fun i =>
    [upper_hex (d.getD i 0 % 256 / 16), upper_hex (d.getD i 0 % 16), ':'])).flatten = X
    at hT hxl hxg
  have hTlen : T.length = hf.name.length + 3 * hf.num_bytes := by
    rw [hT, List.length_dropLast, List.length_append, List.length_cons, hxl]
    omega
  have hTname : ∀ k, k < hf.name.length → T.getD k 'x' = hf.name.getD k 'x' := by
    intro k hk
    rw [hT, List.dropLast_eq_take, List.getD_eq_getElem?_getD, List.getElem?_take,
      if_pos (by rw [List.length_append, List.length_cons, hxl]; omega),
      List.getElem?_append_left hk, ← List.getD_eq_getElem?_getD]
  have hTsp : T.getD hf.name.length 'x' = ' ' := by
    rw [hT, List.dropLast_eq_take, List.getD_eq_getElem?_getD, List.getElem?_take,
      if_pos (by rw [List.length_append, List.length_cons, hxl]; omega),
      List.getElem?_append_right (le_refl _)]
    simp
  have hTx : ∀ k, k + 1 < 3 * hf.num_bytes →
      T.getD (hf.name.length + 1 + k) 'x' = X.getD k 'x' := by
    intro k hk
    rw [hT, List.dropLast_eq_take, List.getD_eq_getElem?_getD, List.getElem?_take,
      if_pos (by rw [List.length_append, List.length_cons, hxl]; omega),
      List.getElem?_append_right (by omega),
      show hf.name.length + 1 + k - hf.name.length = k + 1 by omega, List.getElem?_cons_succ,
      ← List.getD_eq_getElem?_getD]
  have hg := getc_of_bytes_at buf p T htext
  -- the bytes of the body
  have hdig : ∀ i, i < hf.num_bytes →
      hex_digit (getc buf (p + hf.name.length + 1 + 3 * i)) = some (d.getD i 0 / 16) ∧
      hex_digit (getc buf (p + hf.name.length + 1 + 3 * i + 1)) = some (d.getD i 0 % 16) ∧
      getc buf (p + hf.name.length + 1 + 3 * i) ≠ ' ' ∧
      getc buf (p + hf.name.length + 1 + 3 * i + 1) ≠ ' ' := by
    intro i hi
    have hlt : d.getD i 0 < 256 := by
      rw [List.getD_eq_getElem _ _ (by omega)]
      exact hb _ (List.getElem_mem _)
    have e1 := hg (hf.name.length + 1 + 3 * i) (by omega)
    have e2 := hg (hf.name.length + 1 + (3 * i + 1)) (by omega)
    rw [hTx _ (by omega), (hxg i hi).1] at e1
    rw [hTx _ (by omega), (hxg i hi).2.1] at e2
    rw [show p + hf.name.length + 1 + 3 * i = p + (hf.name.length + 1 + 3 * i) by omega,
      show p + (hf.name.length + 1 + 3 * i) + 1 = p + (hf.name.length + 1 + (3 * i + 1)) by omega,
      e1, e2, Nat.mod_eq_of_lt hlt]
    have u1 := upper_hex_digit (d.getD i 0 / 16) (by omega)
    have u2 := upper_hex_digit (d.getD i 0 % 16) (by omega)
    exact ⟨u1.1, u2.1, u1.2, u2.2⟩
  have hcol : ∀ i, i + 1 < hf.num_bytes →
      getc buf (p + hf.name.length + 1 + 3 * i + 2) = ':' := by
    intro i hi
    have e1 := hg (hf.name.length + 1 + (3 * i + 2)) (by omega)
    rw [hTx _ (by omega), (hxg i (by omega)).2.2] at e1
    rw [show p + hf.name.length + 1 + 3 * i + 2 = p + (hf.name.length + 1 + (3 * i + 2)) by omega]
    exact e1
  -- the two tokens
  have hm1 : memchr buf p ' ' T.length = some (p + hf.name.length) := by
    apply memchr_first _ _ _ (by omega) (by omega)
    · rw [hg _ (by omega), hTsp]
    · intro i hi1 hi2 hc
      have e := hg (i - p) (by omega)
      rw [show p + (i - p) = i by omega, hTname _ (by omega)] at e
      rw [e] at hc
      apply hsp
      rw [← hc, List.getD_eq_getElem _ _ (by omega)]
      exact List.getElem_mem _
  have hm2 : memchr buf (p + hf.name.length + 1) ' ' (T.length - hf.name.length - 1) = none := by
    apply memchr_absent
    intro i hi1 hi2 hc
    obtain ⟨j, r, hr, hj⟩ : ∃ j r, r < 3 ∧ i = p + hf.name.length + 1 + 3 * j + r :=
      ⟨(i - (p + hf.name.length + 1)) / 3, (i - (p + hf.name.length + 1)) % 3,
        Nat.mod_lt _ (by norm_num), by omega⟩
    have hjn : j < hf.num_bytes := by omega
    have hr3 : r = 0 ∨ r = 1 ∨ r = 2 := by omega
    rcases hr3 with h0 | h0 | h0
    · subst h0
      exact (hdig j hjn).2.2.1 (by rw [hj] at hc; exact hc)
    · subst h0
      exact (hdig j hjn).2.2.2 (by rw [hj] at hc; exact hc)
    · subst h0
      rw [hj, hcol j (by omega)] at hc
      exact absurd hc (by decide)
  have ht1 : extract_token buf output.strs.value =
      some ({ s := some p, len := hf.name.length },
        { s := some (p + hf.name.length + 1), len := T.length - hf.name.length - 1 }) := by
    rw [hval]
    simp only [extract_token, str_token_sep, str_chr_str, hm1, Option.getD_some,
      Option.map_some', Nat.add_sub_cancel_left]
  have ht2 : extract_token buf
      { s := some (p + hf.name.length + 1), len := T.length - hf.name.length - 1 } =
      some ({ s := some (p + hf.name.length + 1), len := T.length - hf.name.length - 1 },
        STR_NULL) := by
    simp only [extract_token, str_token_sep, str_chr_str, hm2]
    rw [if_neg (by omega)]
  have hnm : str_bytes buf { s := some p, len := hf.name.length } = hf.name := by
    simp only [str_bytes]
    have e : bytes_at buf p hf.name.length = (bytes_at buf p T.length).take hf.name.length := by
      unfold bytes_at
      rw [List.take_take, Nat.min_eq_left (by omega)]
    rw [e, htext, hT, List.dropLast_eq_take, List.take_take,
      Nat.min_eq_left (by rw [List.length_append, List.length_cons, hxl]; omega),
      List.take_left']
    rfl
  -- the loop
  have hpairs : fingerprint_pairs buf (p + hf.name.length + 1) hf.num_bytes := by
    refine ⟨hn, fun i hi => ?_, hcol, ?_⟩
    · obtain ⟨a1, a2, _, _⟩ := hdig i hi
      rw [a1, a2]
      exact ⟨rfl, rfl⟩
    · rw [show p + hf.name.length + 1 + 3 * (hf.num_bytes - 1) + 2 = p + T.length by omega]
      exact hend
  have hbytes : (List.range hf.num_bytes).map (fingerprint_byte buf (p + hf.name.length + 1))
      = d := by
    apply List.ext_getElem
    · rw [List.length_map, List.length_range, hd]
    · intro i h1 h2
      rw [List.getElem_map, List.getElem_range]
      rw [List.length_map, List.length_range] at h1
      obtain ⟨a1, a2, _, _⟩ := hdig i h1
      unfold fingerprint_byte hex_value
      rw [a1, a2, ← List.getD_eq_getElem d 0 h2]
      simp only [Option.getD_some]
      omega
  have hloop := (fingerprint_loop_iff buf hf.num_bytes (p + hf.name.length + 1) [] d).mpr
    ⟨hpairs, by rw [hbytes]; rfl⟩
  unfold parse_attribute_fingerprint
  simp only [ht1, ht2, hnm, hfind, Option.getD_some, hloop]
  exact ⟨trivial, trivial, trivial, trivial⟩

/-- C40 on the SHA-1 digest of the bytes 236 down to 217: the text is
`sha-1 EC:EB:...:D9`, and the parser reads the digest back. -/
theorem c40_fingerprint_roundtrip_witness :
    demo_fingerprint_line =
      "sha-1 EC:EB:EA:E9:E8:E7:E6:E5:E4:E3:E2:E1:E0:DF:DE:DD:DC:DB:DA:D9\r\n".toList ∧
    (parse_attribute_fingerprint demo_env demo_fingerprint_line
      { strs := { value := { s := some 0, len := 65 } } }).1 = 0 ∧
    (parse_attribute_fingerprint demo_env demo_fingerprint_line
      { strs := { value := { s := some 0, len := 65 } } }).2.fingerprint.fingerprint
      = (List.range 20).map (fun i => 236 - i) :=
  with_facts5 (fun fact1 fact2 fact3 fact4 fact5 => by
    have h := c40_fingerprint_roundtrip demo_env demo_fingerprint_line
      { strs := { value := { s := some 0, len := 65 } } }
      { name := "sha-1".toList, num_bytes := 20 } ((List.range 20).map (fun i => 236 - i)) 0
      (by decide) (by decide) (by decide) (by decide) (fact1) (fact2)
      (fact3) (fact4)
    exact ⟨fact5, h.1, h.2.2.2⟩) (by decide!)

/-! ## Session lines after an `m=` line, read off the body -/

theorem line_starts_cons {strict : Bool} {buf : List Char} {end_ fuel b y : Nat}
    {rest : List Nat} (h : line_starts strict buf end_ fuel b = y :: rest) :
    ∃ f, fuel = f + 1 ∧ y = b ∧ b + 1 < end_ ∧
      (!strict && (decide (getc buf b = '\n') || decide (getc buf b = '\r'))) = false ∧
      rest = line_starts strict buf end_ f (line_after buf end_ b) := by
  cases fuel with
  | zero => simp [line_starts] at h
  | succ f =>
    unfold line_starts at h
    by_cases hb : b + 1 < end_
    · rw [if_pos hb] at h
      by_cases hc : (!strict && (decide (getc buf b = '\n') || decide (getc buf b = '\r'))) = true
      · rw [if_pos hc] at h
        simp at h
      · rw [if_neg hc] at h
        injection h with h1 h2
        exact ⟨f, rfl, h1.symm, hb, by simpa using hc, h2.symm⟩
    · rw [if_neg hb] at h
      simp at h

theorem line_starts_at_end (strict : Bool) (buf : List Char) (end_ fuel : Nat) :
    line_starts strict buf end_ fuel end_ = [] := by
  cases fuel with
  | zero => rfl
  | succ f =>
    unfold line_starts
    rw [if_neg (by omega)]

/-- A turn of the loop at a reached line that is not a bare empty one: the
parse fails, or the loop goes on to the line after it. -/
theorem reaches_turn {env : Env} {buf : List Char} {len : Nat}
    {sessions : List sdp_session} {strict fragment : Bool} {st : parse_state} {b : Nat}
    (hr : Reaches env strict buf len fragment (parse_init sessions) st (some b))
    (hb : b + 1 < len)
    (hnb : (!strict && (decide (getc buf b = '\n') || decide (getc buf b = '\r'))) = false) :
    sdp_parse env strict buf len sessions fragment
        = some { ret := -1, sessions := [], body_len := len } ∨
      ∃ st1 nl, sdp_parse_line env strict buf len fragment st b = parse_step.next st1 nl ∧
        nl.getD len = line_after buf len b ∧
        Reaches env strict buf len fragment (parse_init sessions) st1 nl := by
  cases hl : sdp_parse_line env strict buf len fragment st b with
  | error e => exact Or.inl ((sdp_parse_at_line hr hb).1 e hl)
  | stop =>
    obtain ⟨h1, h2⟩ := sdp_parse_line_stop.mp hl
    subst h1
    rcases h2 with h2 | h2 <;> simp [h2] at hnb
  | next st1 nl =>
    refine Or.inr ⟨st1, nl, rfl, ?_, Reaches.step hr hb hl⟩
    rw [sdp_parse_line_next hl]
    rfl

/-- Reading on from a reached line over the lines `mid`: the parse fails, or
the loop reaches the line that follows them, with a property of the state
that every turn at a line of `mid` keeps. -/
theorem reaches_walk {env : Env} {buf : List Char} {len : Nat}
    {sessions : List sdp_session} {strict fragment : Bool}
    (P : parse_state → Prop) (good : Nat → Prop)
    (hstep : ∀ (st : parse_state) (b : Nat) (st1 : parse_state) (nl : Option Nat),
      P st → good b →
      sdp_parse_line env strict buf len fragment st b = parse_step.next st1 nl → P st1) :
    ∀ (mid : List Nat) (fuel : Nat) (st : parse_state) (b x : Nat) (post : List Nat),
      Reaches env strict buf len fragment (parse_init sessions) st (some b) → P st →
      line_starts strict buf len fuel b = mid ++ x :: post →
      (∀ y ∈ mid, good y) →
      sdp_parse env strict buf len sessions fragment
          = some { ret := -1, sessions := [], body_len := len } ∨
        ∃ st1 f, Reaches env strict buf len fragment (parse_init sessions) st1 (some x) ∧
          P st1 ∧ line_starts strict buf len f x = x :: post := by
  intro mid
  induction mid with
  | nil =>
    intro fuel st b x post hr hP hl _
    simp only [List.nil_append] at hl
    obtain ⟨f, _, hx, _, _, _⟩ := line_starts_cons hl
    subst hx
    exact Or.inr ⟨st, fuel, hr, hP, hl⟩
  | cons y mid ih =>
    intro fuel st b x post hr hP hl hgood
    simp only [List.cons_append] at hl
    obtain ⟨f, _, hy, hb, hnb, hrest⟩ := line_starts_cons hl
    subst hy
    rcases reaches_turn hr hb hnb with hf | ⟨st1, nl, hstep1, hnl, hr1⟩
    · exact Or.inl hf
    · cases nl with
      | none =>
        simp only [Option.getD_none] at hnl
        rw [← hnl, line_starts_at_end] at hrest
        simp at hrest
      | some b1 =>
        simp only [Option.getD_some] at hnl
        rw [← hnl] at hrest
        exact ih f st1 b1 x post hr1
          (hstep st y st1 (some b1) hP (hgood y (List.mem_cons_self _ _)) hstep1)
          hrest.symm (fun z hz => hgood z (List.mem_cons_of_mem _ hz))

/-- A turn at an `m=` line with a session open leaves a media open. -/
theorem sdp_parse_line_m_media {env : Env} {buf : List Char} {end_ : Nat}
    {strict fragment : Bool} {st st1 : parse_state} {b : Nat} {nl : Option Nat}
    (hs : st.session ≠ none) (hm : getc buf b = 'm')
    (h : sdp_parse_line env strict buf end_ fragment st b = parse_step.next st1 nl) :
    st1.session ≠ none ∧ st1.media ≠ none := by
  obtain ⟨st2, session2, hs2, hst1, hk⟩ := sdp_parse_line_kind h
  rcases hk with ⟨h0, _⟩ | ⟨session, _, hk⟩
  · exact absurd h0 hs
  · have hv : ('m' : Char) ≠ 'v' := by decide
    rcases hk with ⟨h1, _⟩ | ⟨_, _, _, m1, hm1, _⟩ | ⟨_, h2, _⟩
    · rw [hm] at h1
      exact absurd h1 hv
    · subst hst1
      simp only [adjust_len, hm1]
      exact ⟨by rw [hs2]; simp, by simp⟩
    · exact absurd hm h2

/-- A turn at a line other than a `v=` line keeps a media open. -/
theorem sdp_parse_line_keeps_media {env : Env} {buf : List Char} {end_ : Nat}
    {strict fragment : Bool} {st st1 : parse_state} {b : Nat} {nl : Option Nat}
    (hs : st.session ≠ none ∧ st.media ≠ none) (hv : getc buf b ≠ 'v')
    (h : sdp_parse_line env strict buf end_ fragment st b = parse_step.next st1 nl) :
    st1.session ≠ none ∧ st1.media ≠ none := by
  obtain ⟨st2, session2, hs2, hst1, hk⟩ := sdp_parse_line_kind h
  rcases hk with ⟨h0, _⟩ | ⟨session, _, hk⟩
  · exact absurd h0 hs.1
  · have hmed : st2.media ≠ none := by
      rcases hk with ⟨h1, _⟩ | ⟨_, _, _, m1, hm1, _⟩ | ⟨_, _, _, _, hsame⟩
      · exact absurd h1 hv
      · rw [hm1]; simp
      · intro hn
        rw [hn] at hsame
        cases hmd : st.media with
        | none => exact hs.2 hmd
        | some m =>
          rw [hmd] at hsame
          split at hsame <;> simp [set_c_line_pos] at hsame
    subst hst1
    cases hm2 : st2.media with
    | none => exact absurd hm2 hmed
    | some m2 =>
      simp only [adjust_len, hm2]
      exact ⟨by rw [hs2]; simp, by simp⟩

/-- C5 (as amended).  Take the lines that the loop of `sdp_parse` reads off the
body (`line_starts`: line after line from offset 0, as long as two bytes are
left and, unless `strict`, the line is not a bare empty one).  If among them
there is an `m=` line that is not the first line of a body parsed with the
fragment flag, and after it an `o=`, `s=` or `t=` line with no `v=` line in
between, then `sdp_parse` returns -1, with the session queue cleared. -/
theorem c5_session_line_in_media_fatal (env : Env) (strict : Bool) (buf : List Char) (len : Nat)
    (sessions : List sdp_session) (fragment : Bool) (pre mid post : List Nat) (b0 b : Nat)
    (hlines : line_starts strict buf len (len + 1) 0 = pre ++ b0 :: (mid ++ b :: post))
    (hm : getc buf b0 = 'm') (hfrag : ¬ (fragment = true ∧ b0 = 0))
    (hmid : ∀ y ∈ mid, getc buf y ≠ 'v')
    (h : getc buf b ∈ ['o', 's', 't']) :
    sdp_parse env strict buf len sessions fragment
      = some { ret := -1, sessions := [], body_len := len } := by
  -- up to the `m=` line
  rcases @reaches_walk env buf len sessions strict fragment
      (fun _ => True) (fun _ => True) (fun _ _ _ _ _ _ _ => trivial)
      pre (len + 1) (parse_init sessions) 0 b0 (mid ++ b :: post) Reaches.start trivial hlines
      (fun _ _ => trivial) with hf | ⟨st0, f0, hr0, _, hl0⟩
  · exact hf
  obtain ⟨f1, _, _, hb0, hnb0, hrest0⟩ := line_starts_cons hl0
  -- the turn at the `m=` line
  rcases reaches_turn hr0 hb0 hnb0 with hf | ⟨st1, nl, hstep1, hnl, hr1⟩
  · exact hf
  have hs0 : st0.session ≠ none := by
    rcases reaches_frame hr0 with ⟨hinit, hb⟩ | ⟨⟨s, hs⟩, _⟩
    · injection hb with hb
      subst hb
      subst hinit
      -- the first line: with the fragment flag excluded the turn is an error
      exfalso
      have hfr : fragment = false := by
        cases fragment with
        | false => rfl
        | true => exact absurd ⟨rfl, rfl⟩ hfrag
      subst hfr
      unfold sdp_parse_line at hstep1
      rw [hnb0] at hstep1
      simp only [Bool.false_eq_true, if_false] at hstep1
      by_cases heq : getc buf (0 + 1) = '='
      · have hv : getc buf 0 ≠ 'v' := by rw [hm]; decide
        simp [heq, parse_init, hv] at hstep1
      · simp [heq] at hstep1
    · rw [hs]; simp
  have hP1 := sdp_parse_line_m_media hs0 hm hstep1
  cases nl with
  | none =>
    simp only [Option.getD_none] at hnl
    rw [← hnl, line_starts_at_end] at hrest0
    simp at hrest0
  | some b1 =>
    simp only [Option.getD_some] at hnl
    rw [← hnl] at hrest0
    -- over the lines between, none of which is a `v=` line
    rcases @reaches_walk env buf len sessions strict fragment
        (fun st => st.session ≠ none ∧ st.media ≠ none) (fun y => getc buf y ≠ 'v')
        (fun st y st2 nl2 hP hg hst => sdp_parse_line_keeps_media hP hg hst)
        mid f1 st1 b1 b post hr1 hP1 hrest0.symm hmid with hf | ⟨st2, f2, hr2, hP2, hl2⟩
    · exact hf
    obtain ⟨_, _, _, hb, _, _⟩ := line_starts_cons hl2
    cases hs2 : st2.session with
    | none => exact absurd hs2 hP2.1
    | some session =>
      obtain ⟨e, he⟩ := @sdp_parse_line_in_media env buf len strict fragment _ _ _
        hs2 hP2.2 h
      exact (sdp_parse_at_line hr2 hb).1 e he

/-- C5 on `demo_media_body`, whose lines start at 0, 5 and 29: the `m=` line at
5 is followed by the `s=` line at 29, and the parse returns -1. -/
theorem c5_session_line_in_media_fatal_witness :
    line_starts false demo_media_body 34 (34 + 1) 0 = [0] ++ 5 :: ([] ++ 29 :: []) ∧
    getc demo_media_body 5 = 'm' ∧ ¬ (false = true ∧ 5 = 0) ∧
    (∀ y ∈ ([] : List Nat), getc demo_media_body y ≠ 'v') ∧
    getc demo_media_body 29 ∈ ['o', 's', 't'] ∧
    sdp_parse demo_env false demo_media_body 34 [] false
      = some { ret := -1, sessions := [], body_len := 34 } :=
  with_facts3 (fun fact1 fact2 fact3 =>
    ⟨fact1, fact2, by decide, by simp, fact3,
     c5_session_line_in_media_fatal demo_env false demo_media_body 34 [] false [0] [] [] 5 29
       fact1 fact2 (by decide) (by simp) fact3⟩) (by decide!)

/-- C5 as stated fails.  In a body parsed with the fragment flag whose first
line is the `m=` line, that line only opens a session, and the `s=` line after
it is accepted.  And with `reject_invalid_sdp` off, a bare empty line between
the `m=` line and the `s=` line stops the parse, which returns 0. -/
theorem c5_counterexample :
    (sdp_parse demo_env false "m=audio 1 RTP/AVP 0\r\ns=x\r\n".toList 26 [] true).map
        (fun r => r.ret) = some 0 ∧
    (sdp_parse demo_env false "v=0\r\nm=audio 1 RTP/AVP 0\r\n\r\ns=x\r\n".toList 33 [] false).map
        (fun r => (r.ret, r.body_len)) = some (0, 26) :=
  with_facts2 (fun fact1 fact2 => ⟨fact1, fact2⟩) (by decide!)

/-! ## Revised examples for the malformed line and for the error exit -/

/-- C4 as stated fails.  With the fragment flag set, the first line `x=1` is
reached, has `=` as its second character and the unknown type letter `x`, and
`sdp_parse` returns 0.  And in the body `v=0`, CR, LF, `x` the loop reaches the
last line, which has one byte, an unknown type letter and no `=`; the loop
stops there, since it only reads a line of which two bytes are left, and
`sdp_parse` returns 0, also with `reject_invalid_sdp` set. -/
theorem c4_counterexample :
    Reaches demo_env false "x=1\r\n".toList 5 true (parse_init []) (parse_init []) (some 0) ∧
    getc "x=1\r\n".toList 0 ∉
      ['v', 'o', 's', 't', 'c', 'b', 'm', 'a', 'k', 'i', 'u', 'e', 'p', 'r', 'z'] ∧
    (sdp_parse demo_env false "x=1\r\n".toList 5 [] true).map (fun r => r.ret) = some 0 ∧
    Reaches demo_env true "v=0\r\nx".toList 6 false (parse_init [])
      ((run_lines demo_env true "v=0\r\nx".toList 6 false 1 (parse_init []) 0).getD
        (parse_init [], 0)).1 (some 5) ∧
    getc "v=0\r\nx".toList (5 + 1) ≠ '=' ∧
    getc "v=0\r\nx".toList 5 ∉
      ['v', 'o', 's', 't', 'c', 'b', 'm', 'a', 'k', 'i', 'u', 'e', 'p', 'r', 'z'] ∧
    (sdp_parse demo_env true "v=0\r\nx".toList 6 [] false).map (fun r => r.ret) = some 0 :=
  with_facts6 (fun fact1 fact2 fact3 fact4 fact5 fact6 =>
    ⟨Reaches.start, fact1, fact2, reaches_of_run_lines 1 _ 0 _ 5 Reaches.start fact3,
     fact4, fact5, fact6⟩) (by decide!)

/-- C6 fails in the code.  The `m=` line of this body has a port that is no
number, so `parse_media` fails.  `case 'm':` has by then allocated the media
record (the record that `parse_media` is handed), and jumps to `error` before
the record is pushed on the media queue of its session: the turn ends in the
error exit, and the queue that is handed to `sdp_sessions_clear` holds the one
session, with no media.  The media record is in no queue and is not freed. -/
theorem c6_counterexample :
    sdp_parse demo_env false "v=0\r\nm=audio x RTP/AVP 0\r\n".toList 26 [] false
      = some { ret := -1, sessions := [], body_len := 26 } ∧
    Reaches demo_env false "v=0\r\nm=audio x RTP/AVP 0\r\n".toList 26 false (parse_init [])
      (demo_state_at demo_env "v=0\r\nm=audio x RTP/AVP 0\r\n".toList false 1) (some 5) ∧
    sdp_parse_line demo_env false "v=0\r\nm=audio x RTP/AVP 0\r\n".toList 26 false
      (demo_state_at demo_env "v=0\r\nm=audio x RTP/AVP 0\r\n".toList false 1) 5
      = parse_step.error "Error parsing m= line" ∧
    (sessions_of (demo_state_at demo_env "v=0\r\nm=audio x RTP/AVP 0\r\n".toList false 1)).map
      (fun s => s.media_streams.length) = [0] :=
  with_facts4 (fun fact1 fact2 fact3 fact4 =>
    ⟨fact1, reaches_of_run_lines 1 _ 0 _ 5 Reaches.start fact2, fact3, fact4⟩) (by decide!)

/-! ## The layout of the media sections that `sdp_parse` builds -/

theorem media_wf_c_line_pos {end_ : Nat} {m : sdp_media} (c : Option Nat)
    (h : media_wf end_ m) : media_wf end_ { m with c_line_pos := c } := h

theorem set_c_line_pos_wf {end_ : Nat} {media : Option sdp_media} (b : Nat)
    (h : ∀ m, media = some m → media_wf end_ m) :
    ∀ m, set_c_line_pos media b = some m → media_wf end_ m := by
  intro m hm
  cases media with
  | none => simp [set_c_line_pos] at hm
  | some m0 =>
    simp only [set_c_line_pos, Option.map_some', Option.some.injEq] at hm
    subst hm
    split
    · exact media_wf_c_line_pos _ (h m0 rfl)
    · exact h m0 rfl

theorem parse_inv_media_init (sessions0 : List sdp_session) (len : Nat) :
    parse_inv_media sessions0 len (parse_init sessions0) (some 0) := by
  refine ⟨⟨[], by simp [parse_init], by simp⟩, ?_, ?_⟩
  · intro s hs
    simp [parse_init] at hs
  · intro m hm
    simp [parse_init] at hm

theorem parse_inv_media_step {env : Env} {buf : List Char} {end_ : Nat}
    {strict fragment : Bool}
    {sessions0 : List sdp_session} {st st1 : parse_state} {b : Nat} {nl : Option Nat}
    (hinv : parse_inv_media sessions0 end_ st (some b)) (hb : b + 1 < end_)
    (h : sdp_parse_line env strict buf end_ fragment st b = parse_step.next st1 nl) :
    parse_inv_media sessions0 end_ st1 nl := by
  have hnl := sdp_parse_line_next h
  obtain ⟨st2, session2, hs2, hst1, hshape⟩ := sdp_parse_line_shape h
  have hend : b < nl.getD end_ ∧ nl.getD end_ ≤ end_ := by
    cases hn : nl with
    | none => simp only [Option.getD_none]; omega
    | some y =>
      rw [hn] at h
      have := sdp_parse_line_next_lt h
      simp only [Option.getD_some]; omega
  have hfull : 0 < nl.getD (find_line_end buf end_ (b + 2)) - b ∧
      b + (nl.getD (find_line_end buf end_ (b + 2)) - b) ≤ nl.getD end_ := by
    cases hn : nl with
    | none =>
      rw [hn] at hnl
      rw [find_line_end_of_none hnl.symm]
      simp only [Option.getD_none]; omega
    | some y =>
      rw [hn] at h
      have := sdp_parse_line_next_lt h
      simp only [Option.getD_some]; omega
  have hnext : ∀ x, nl = some x → nl.getD end_ = x := by
    intro x hx; rw [hx]; rfl
  obtain ⟨⟨new, hdone, hnew⟩, hsess, hmed⟩ := hinv
  have new_case : st2 = new_session st b → parse_inv_media sessions0 end_ st1 nl := by
    intro hst2
    subst hst2
    simp only [new_session, Option.some.injEq] at hs2
    subst hs2
    subst hst1
    refine ⟨?_, ?_, ?_⟩
    · simp only [adjust_len, new_session, sessions_of]
      cases hs : st.session with
      | none =>
        refine ⟨new, by simp [hdone], hnew⟩
      | some s =>
        refine ⟨new ++ [close_session s st.media], by simp [hdone], ?_⟩
        intro x hx
        rw [List.mem_append] at hx
        rcases hx with hx | hx
        · exact hnew x hx
        · simp only [List.mem_singleton] at hx
          subst hx
          intro m hm
          simp only [close_session, List.mem_append] at hm
          rcases hm with hm | hm
          · exact hsess s hs m hm
          · cases hmd : st.media with
            | none => rw [hmd] at hm; simp at hm
            | some m0 =>
              rw [hmd] at hm
              simp only [Option.toList_some, List.mem_singleton] at hm
              subst hm
              exact (hmed m hmd).1
    · intro s hs m hm
      simp only [adjust_len, new_session, Option.some.injEq] at hs
      subst hs
      simp at hm
    · intro m hm
      simp [adjust_len, new_session] at hm
  rcases hshape with ⟨_, hst2⟩ | ⟨session, hs, hsh⟩
  · exact new_case hst2
  · rcases hsh with hst2 | ⟨hd, s1, hs1, hss, hsh⟩
    · exact new_case hst2
    · rw [hs1] at hs2
      injection hs2 with hs2
      subst hs2
      rcases hsh with ⟨hm, hm1, hms, _⟩ | ⟨_, m1, hm1, hsh⟩
      · -- a line of the session level
        subst hst1
        refine ⟨⟨new, ?_, hnew⟩, ?_, ?_⟩
        · simp only [adjust_len, hm1]
          rw [hd, hdone]
        · intro s hs' m hmm
          simp only [adjust_len, hm1, Option.some.injEq] at hs'
          subst hs'
          simp only at hmm
          rw [hms] at hmm
          exact hsess session hs m hmm
        · intro m hmm
          simp [adjust_len, hm1] at hmm
      · -- a line of the media level
        subst hst1
        refine ⟨⟨new, ?_, hnew⟩, ?_, ?_⟩
        · simp only [adjust_len, hm1]
          rw [hd, hdone]
        · intro s hs' m hmm
          simp only [adjust_len, hm1] at hs'
          rw [hs1] at hs'
          injection hs' with hs'
          subst hs'
          rcases hsh with ⟨hms, _, _⟩ | ⟨hms, _⟩
          · rw [hms, List.mem_append] at hmm
            rcases hmm with hmm | hmm
            · exact hsess session hs m hmm
            · cases hmd : set_c_line_pos st.media b with
              | none => rw [hmd] at hmm; simp at hmm
              | some m0 =>
                rw [hmd] at hmm
                simp only [Option.toList_some, List.mem_singleton] at hmm
                subst hmm
                exact set_c_line_pos_wf b (fun x hx => (hmed x hx).1) m hmd
          · rw [hms] at hmm
            exact hsess session hs m hmm
        · intro m hmm
          simp only [adjust_len, hm1, Option.some.injEq] at hmm
          subst hmm
          rcases hsh with ⟨_, hm1s, hm1a⟩ | ⟨_, m0, hm0, hm0s, hattr⟩
          · -- the `m=` line itself
            simp only [hm1s, Option.getD_some]
            refine ⟨⟨b, rfl, ?_, ?_⟩, ?_⟩
            · show b + (nl.getD end_ - b) ≤ end_
              omega
            · show attrs_within b (b + (nl.getD end_ - b)) m1.attributes.list
              rw [hm1a]
              show b ≤ b + (nl.getD end_ - b)
              omega
            · intro x hx
              show b + (nl.getD end_ - b) ≤ x
              have := hnext x hx
              omega
          · -- a line inside the current media
            obtain ⟨⟨p, hp, hpe, haw⟩, hbound⟩ := hmed m0 hm0
            have hpb : p + m0.s.len ≤ b := by
              have := hbound b rfl
              rw [hp] at this
              simpa using this
            have hsp : m1.s.s = some p := by rw [hm0s]; exact hp
            simp only [hsp, Option.getD_some]
            refine ⟨⟨p, rfl, ?_, ?_⟩, ?_⟩
            · show p + (nl.getD end_ - p) ≤ end_
              omega
            · show attrs_within p (p + (nl.getD end_ - p)) m1.attributes.list
              rcases hattr with ha | ⟨a, hfl, ha⟩
              · rw [ha]
                exact attrs_within_mono haw (le_refl _) (by omega)
              · rw [ha]
                simp only [attr_insert]
                exact attrs_within_append haw (by rw [hfl]) hpb (by rw [hfl]; exact hfull.1)
                  (by rw [hfl]; simp only; omega)
            · intro x hx
              show p + (nl.getD end_ - p) ≤ x
              have hh := hnext x hx
              omega

theorem reaches_inv_media {env : Env} {buf : List Char} {len : Nat} {strict fragment : Bool}
    {sessions0 : List sdp_session} {st : parse_state} {b : Option Nat}
    (h : Reaches env strict buf len fragment (parse_init sessions0) st b) :
    parse_inv_media sessions0 len st b := by
  induction h with
  | start => exact parse_inv_media_init sessions0 len
  | step _ hb hstep ih => exact parse_inv_media_step ih hb hstep

/-- Every media section of a session that a successful `sdp_parse` adds to the
queue is well-formed. -/
theorem sdp_parse_medias_wf {env : Env} {buf : List Char} {len : Nat} {strict fragment : Bool}
    {sessions0 : List sdp_session} {r : parse_result}
    (hp : sdp_parse env strict buf len sessions0 fragment = some r) (hret : r.ret = 0) :
    ∃ new, r.sessions = sessions0 ++ new ∧
      ∀ s ∈ new, session_wf len s ∧ ∀ m ∈ s.media_streams, media_wf len m := by
  unfold sdp_parse at hp
  obtain ⟨st1, b1, hr, hs, _⟩ := sdp_parse_loop_result _ _ _ _ Reaches.start hp hret
  obtain ⟨⟨new, hdone, hnew⟩, hsess, hmed⟩ := reaches_inv_media hr
  obtain ⟨⟨new', hdone', hnew'⟩, hcur'⟩ := reaches_inv hr
  have hnn : new' = new := by
    rw [hdone] at hdone'
    exact (List.append_cancel_left hdone').symm
  subst hnn
  rw [hs]
  unfold sessions_of
  cases hse : st1.session with
  | none => exact ⟨new', by simp [hdone], fun s hs => ⟨hnew' s hs, hnew s hs⟩⟩
  | some s =>
    refine ⟨new' ++ [close_session s st1.media], by simp [hdone], ?_⟩
    intro x hx
    rw [List.mem_append] at hx
    rcases hx with hx | hx
    · exact ⟨hnew' x hx, hnew x hx⟩
    · simp only [List.mem_singleton] at hx
      subst hx
      refine ⟨session_wf_close _ (hcur' s hse).1, ?_⟩
      intro m hm
      simp only [close_session, List.mem_append] at hm
      rcases hm with hm | hm
      · exact hsess s hse m hm
      · cases hmd : st1.media with
        | none => rw [hmd] at hm; simp at hm
        | some m0 =>
          rw [hmd] at hm
          simp only [Option.toList_some, List.mem_singleton] at hm
          subst hm
          exact (hmed m hmd).1

/-! ## The attribute pass from any read position -/

/-- The pass over a list of attributes only acts on those whose decision is
not to keep them. -/
theorem process_attrs_loop_filter (act : sdp_attribute → attr_action) :
    ∀ (attrs : List sdp_attribute) (chop : sdp_chopper),
      process_attrs_loop act chop attrs =
        process_attrs_loop act chop
          (attrs.filter (fun a => (edit_of_action (act a)).isSome)) := by
  intro attrs
  induction attrs with
  | nil => intro chop; rfl
  | cons a rest ih =>
    intro chop
    cases hact : act a with
    | keep =>
      have hf : (edit_of_action (act a)).isSome = false := by rw [hact]; rfl
      rw [List.filter_cons_of_neg (by simp [hf])]
      rw [← ih chop]
      simp only [process_attrs_loop, hact, apply_attr_action, ne_eq, not_true_eq_false, if_false]
    | strip =>
      have hf : (edit_of_action (act a)).isSome = true := by rw [hact]; rfl
      rw [List.filter_cons_of_pos (by simp [hf])]
      simp only [process_attrs_loop]
      split
      · rfl
      · exact ih _
    | strip_with_subst r =>
      have hf : (edit_of_action (act a)).isSome = true := by rw [hact]; rfl
      rw [List.filter_cons_of_pos (by simp [hf])]
      simp only [process_attrs_loop]
      split
      · rfl
      · exact ih _

/-- The expected rewriting only depends on the attributes that are edited. -/
theorem expected_at_filter (edit : sdp_attribute → Option (List Char)) (buf : List Char) :
    ∀ (attrs : List sdp_attribute) (i : Nat),
      expected_at edit buf attrs i =
        expected_at edit buf (attrs.filter (fun a => (edit a).isSome)) i := by
  intro attrs
  induction attrs with
  | nil => intro i; rfl
  | cons a rest ih =>
    intro i
    have h := ih i
    unfold expected_at at h ⊢
    cases he : edit a with
    | none =>
      rw [List.filter_cons_of_neg (by simp [he])]
      rw [List.filterMap_cons, List.any_cons]
      simp only [he, ite_self, Option.isSome_none, Bool.false_and, Bool.false_or]
      exact h
    | some r =>
      rw [List.filter_cons_of_pos (by simp [he])]
      rw [List.filterMap_cons, List.any_cons, List.filterMap_cons, List.any_cons]
      simp only [he]
      have h1 : rest.filterMap (fun a => if a.full_line.s = some i then edit a else none)
          = (rest.filter (fun a => (edit a).isSome)).filterMap
              (fun a => if a.full_line.s = some i then edit a else none) := by
        rw [List.filterMap_filter]
        apply List.filterMap_congr
        intro x _
        cases hx : edit x <;> simp [hx]
      have h2 : rest.any (fun a => (edit a).isSome && decide (a.full_line.s.getD 0 ≤ i)
            && decide (i < a.full_line.s.getD 0 + a.full_line.len))
          = (rest.filter (fun a => (edit a).isSome)).any
              (fun a => (edit a).isSome && decide (a.full_line.s.getD 0 ≤ i)
                && decide (i < a.full_line.s.getD 0 + a.full_line.len)) := by
        rw [List.any_filter]
        congr 1
        funext x
        cases hx : (edit x).isSome <;> simp
      rw [h1, h2]

theorem expected_output_filter (edit : sdp_attribute → Option (List Char)) (buf : List Char)
    (attrs : List sdp_attribute) (lo hi : Nat) :
    expected_output edit buf attrs lo hi =
      expected_output edit buf (attrs.filter (fun a => (edit a).isSome)) lo hi :=
  expected_output_congr edit buf _ _ lo hi (fun i _ _ => expected_at_filter edit buf attrs i)

theorem attrs_within_filter (f : sdp_attribute → Bool) {lo hi : Nat} {l : List sdp_attribute}
    (h : attrs_within lo hi l) : attrs_within lo hi (l.filter f) := by
  induction l generalizing lo with
  | nil => exact h
  | cons a rest ih =>
    obtain ⟨p, hp, hlo, hlen, hr⟩ := h
    by_cases hf : f a = true
    · rw [List.filter_cons_of_pos hf]
      exact ⟨p, hp, hlo, hlen, ih hr⟩
    · rw [List.filter_cons_of_neg hf]
      exact attrs_within_mono (ih hr) (by omega) (le_refl _)

/-- Lines that lie in order and all start at or after `c` lie in order from `c` on. -/
theorem attrs_within_raise {lo hi c : Nat} {l : List sdp_attribute}
    (h : attrs_within lo hi l) (hc : c ≤ hi)
    (hall : ∀ a ∈ l, c ≤ a.full_line.s.getD 0) : attrs_within c hi l := by
  cases l with
  | nil => exact hc
  | cons a rest =>
    obtain ⟨p, hp, hlo, hlen, hr⟩ := h
    have := hall a (List.mem_cons_self _ _)
    rw [hp] at this
    exact ⟨p, hp, this, hlen, hr⟩

/-- The pass returns 0 or -1. -/
theorem process_attrs_loop_ret (act : sdp_attribute → attr_action) :
    ∀ (attrs : List sdp_attribute) (chop : sdp_chopper),
      (process_attrs_loop act chop attrs).1 = 0 ∨ (process_attrs_loop act chop attrs).1 = -1 := by
  intro attrs
  induction attrs with
  | nil => intro chop; exact Or.inl rfl
  | cons a rest ih =>
    intro chop
    simp only [process_attrs_loop]
    split
    · exact Or.inr rfl
    · exact ih _

/-- What one step of the pass does when it does not fail: for an attribute
that is acted on, the read position was at or before its line and is moved
past it. -/
theorem apply_attr_action_success (act : sdp_attribute → attr_action) (chop : sdp_chopper)
    (a : sdp_attribute) (p : Nat) (hp : a.full_line.s = some p)
    (h : (apply_attr_action chop a (act a)).1 = 0) :
    ((edit_of_action (act a)).isSome = true → chop.position ≤ p) ∧
    chop.position ≤ (apply_attr_action chop a (act a)).2.position := by
  by_cases hpos : chop.position ≤ p
  · rcases apply_attr_action_ok act chop a p hp hpos with ⟨_, ha⟩ | ⟨repl, _, ha⟩
    · rw [ha]
      exact ⟨fun _ => hpos, le_refl _⟩
    · rw [ha]
      exact ⟨fun _ => hpos, by simp only; omega⟩
  · have hcopy : (copy_up_to chop a.full_line).1 ≠ 0 := by
      unfold copy_up_to copy_up_to_ptr
      rw [hp]
      simp only
      rw [if_pos (by omega)]
      show (-1 : Int) ≠ 0
      decide
    cases hact : act a with
    | keep =>
      refine ⟨fun he => ?_, ?_⟩
      · simp [edit_of_action] at he
      · simp [apply_attr_action]
    | strip =>
      rw [hact] at h
      simp only [apply_attr_action, hcopy, ne_eq, not_false_eq_true, if_true] at h
      simp at h
    | strip_with_subst r =>
      rw [hact] at h
      simp only [apply_attr_action, hcopy, ne_eq, not_false_eq_true, if_true] at h
      simp at h

/-- A pass that returns 0 has found the line of every attribute it acts on at
or after the read position. -/
theorem process_attrs_loop_success (act : sdp_attribute → attr_action) :
    ∀ (attrs : List sdp_attribute) (chop : sdp_chopper),
      (∀ a ∈ attrs, a.full_line.s.isSome = true) →
      (process_attrs_loop act chop attrs).1 = 0 →
      ∀ a ∈ attrs, (edit_of_action (act a)).isSome = true →
        chop.position ≤ a.full_line.s.getD 0 := by
  intro attrs
  induction attrs with
  | nil => intro chop _ _ a ha; cases ha
  | cons x rest ih =>
    intro chop hsome h a ha he
    obtain ⟨p, hp⟩ := Option.isSome_iff_exists.mp (hsome x (List.mem_cons_self _ _))
    simp only [process_attrs_loop] at h
    by_cases hx : (apply_attr_action chop x (act x)).1 = 0
    · rw [if_neg (by simp [hx])] at h
      obtain ⟨g1, g2⟩ := apply_attr_action_success act chop x p hp hx
      rcases List.mem_cons.mp ha with rfl | hm
      · rw [hp]
        exact g1 he
      · have := ih _ (fun y hy => hsome y (List.mem_cons_of_mem _ hy)) h a hm he
        omega
    · rw [if_pos hx] at h
      simp at h

theorem attrs_within_isSome {lo hi : Nat} {l : List sdp_attribute} (h : attrs_within lo hi l) :
    ∀ a ∈ l, a.full_line.s.isSome = true := by
  intro a ha
  obtain ⟨p, hp, _, _⟩ := attrs_within_mem h ha
  rw [hp]
  rfl

/-- The attribute pass and the copy to the end of the section, on a section
whose attribute lines lie in input order, from a read position that none
of the lines to edit lies behind: they succeed, and the section is emitted
with its edits. -/
theorem section_rewrite_from (act : sdp_attribute → attr_action) (chop0 chop : sdp_chopper)
    (attrs : List sdp_attribute) (w : Str) (p lo : Nat)
    (hadv : advanced chop0 chop) (hwf : attrs_within lo (p + w.len) attrs)
    (hafter : ∀ a ∈ attrs, (edit_of_action (act a)).isSome = true →
      chop.position ≤ a.full_line.s.getD 0)
    (hpos : chop.position ≤ p + w.len)
    (hw : w.s = some p) (hlen : p + w.len ≤ chop0.input.length) :
    ∃ chop1 chop2, process_attrs_loop act chop attrs = (0, chop1) ∧
      copy_up_to_end_of chop1 w = (0, chop2) ∧
      emitted chop0 chop2
        (expected_output (fun a => edit_of_action (act a)) chop0.input attrs chop0.position
          (p + w.len)) (p + w.len) := by
  have haw : attrs_within chop.position (p + w.len)
      (attrs.filter (fun a => (edit_of_action (act a)).isSome)) := by
    apply attrs_within_raise (attrs_within_filter _ hwf) hpos
    intro a ha
    rw [List.mem_filter] at ha
    exact hafter a ha.1 ha.2
  obtain ⟨chop1, chop2, h1, h2, h3⟩ := section_rewrite act chop0 chop _ w p hadv haw hw hlen
  refine ⟨chop1, chop2, ?_, h2, ?_⟩
  · rw [process_attrs_loop_filter]
    exact h1
  · rw [expected_output_filter]
    exact h3

/-! ## The rewriter against a mirroring call -/

/-- A pass that returns 0 has not moved the read position back. -/
theorem process_attrs_loop_position (act : sdp_attribute → attr_action) :
    ∀ (attrs : List sdp_attribute) (chop : sdp_chopper),
      (∀ a ∈ attrs, a.full_line.s.isSome = true) →
      (process_attrs_loop act chop attrs).1 = 0 →
      chop.position ≤ (process_attrs_loop act chop attrs).2.position := by
  intro attrs
  induction attrs with
  | nil => intro chop _ _; exact le_refl _
  | cons x rest ih =>
    intro chop hsome h
    obtain ⟨p, hp⟩ := Option.isSome_iff_exists.mp (hsome x (List.mem_cons_self _ _))
    simp only [process_attrs_loop] at h ⊢
    by_cases hx : (apply_attr_action chop x (act x)).1 = 0
    · rw [if_neg (by simp [hx])] at h ⊢
      obtain ⟨_, g2⟩ := apply_attr_action_success act chop x p hp hx
      have := ih _ (fun y hy => hsome y (List.mem_cons_of_mem _ hy)) h
      omega
    · rw [if_pos hx] at h
      simp at h

/-- The attribute pass over a section that `sdp_parse` built (its attribute
lines lie in input order inside the slice `w`), from any read position: if the
pass returns 0 then every line that it edits starts at or after the read
position, and if the copy to the end of the section returns 0 as well then
the output has grown by the section from the read position on, with the
edits. -/
theorem section_pass (act : sdp_attribute → attr_action) (chop : sdp_chopper)
    (attrs : List sdp_attribute) (w : Str) (p lo : Nat)
    (hwf : attrs_within lo (p + w.len) attrs)
    (hw : w.s = some p) (hlen : p + w.len ≤ chop.input.length)
    (h0 : (process_attrs_loop act chop attrs).1 = 0) :
    (∀ a ∈ attrs, (edit_of_action (act a)).isSome = true →
      chop.position ≤ a.full_line.s.getD 0) ∧
    ∀ chop2, copy_up_to_end_of (process_attrs_loop act chop attrs).2 w = (0, chop2) →
      chop2.output = chop.output ++
        expected_output (fun a => edit_of_action (act a)) chop.input attrs chop.position
          (p + w.len) := by
  have hsome := attrs_within_isSome hwf
  have hafter := process_attrs_loop_success act attrs chop hsome h0
  refine ⟨hafter, ?_⟩
  intro chop2 hc
  have hpos1 := process_attrs_loop_position act attrs chop hsome h0
  have hpos2 : (process_attrs_loop act chop attrs).2.position ≤ p + w.len := by
    unfold copy_up_to_end_of copy_up_to_ptr at hc
    rw [hw] at hc
    simp only [Option.map_some'] at hc
    split at hc
    · simp at hc
    · rename_i hneg
      push_cast at hneg
      omega
  obtain ⟨chop1, chop2', h1, h2, _, _, _, _, e5⟩ :=
    section_rewrite_from act chop chop attrs w p lo (advanced_refl chop) hwf hafter
      (by omega) hw hlen
  rw [h1] at hc
  simp only at hc
  rw [h2] at hc
  injection hc with _ hc
  rw [← hc]
  exact e5

/-- C16 (as amended).  For every media-level attribute tagged IGNORE,
end-of-candidates, mid or OTHER, and for every directional attribute
(sendrecv, sendonly, recvonly, inactive) when `original_sendrecv` is unset:
the decision of `process_media_attributes` is to strip the line, whatever the
flags, the call media's state and the manipulation directives are.  And for
every body that `sdp_parse` accepts, every media section of it that holds the
attribute, and every state of the chopper over that body: if the line starts
before the read position then `process_media_attributes` returns -1; if
`process_media_attributes` returns 0 then the line lies at or after the read
position, inside the section, no byte of it (and no substitute for it) is in
the expected rewriting, and when the copy to the end of the section returns 0
as well the output has grown by exactly the expected rewriting of the section
from the read position on. -/
theorem c16_media_attr_strip (flags : sdp_ng_flags) (cm : call_media) (a : sdp_attribute)
    (htag : a.attr = attr_id.ATTR_IGNORE ∨ a.attr = attr_id.ATTR_END_OF_CANDIDATES ∨
      a.attr = attr_id.ATTR_MID ∨ a.attr = attr_id.ATTR_OTHER ∨
      ((a.attr = attr_id.ATTR_SENDRECV ∨ a.attr = attr_id.ATTR_SENDONLY ∨
        a.attr = attr_id.ATTR_RECVONLY ∨ a.attr = attr_id.ATTR_INACTIVE) ∧
       flags.original_sendrecv = false)) :
    (∀ (m : sdp_media) (buf : List Char),
      media_attr_action flags cm m buf a = attr_action.strip) ∧
    ∀ (env : Env) (strict fragment : Bool) (buf : List Char) (len : Nat) (r : parse_result),
      len ≤ buf.length → sdp_parse env strict buf len [] fragment = some r → r.ret = 0 →
      ∀ s ∈ r.sessions, ∀ m ∈ s.media_streams, a ∈ m.attributes.list →
      ∀ chop : sdp_chopper, chop.input = buf →
        (a.full_line.s.getD 0 < chop.position →
          (process_media_attributes chop m flags cm).1 = -1) ∧
        ((process_media_attributes chop m flags cm).1 = 0 →
          chop.position ≤ a.full_line.s.getD 0 ∧
          a.full_line.s.getD 0 + a.full_line.len ≤ m.s.s.getD 0 + m.s.len ∧
          (∀ i, a.full_line.s.getD 0 ≤ i → i < a.full_line.s.getD 0 + a.full_line.len →
            expected_at (media_attr_edit flags cm m buf) buf m.attributes.list i = []) ∧
          ∀ chop2,
            copy_up_to_end_of (process_media_attributes chop m flags cm).2 m.s = (0, chop2) →
            chop2.output = chop.output ++
              expected_output (media_attr_edit flags cm m buf) buf m.attributes.list
                chop.position (m.s.s.getD 0 + m.s.len)) := by
  refine ⟨fun m buf => media_attr_action_strip flags cm m buf a htag, ?_⟩
  intro env strict fragment buf len r hlen hp hret s hs m hm ha chop hin
  obtain ⟨new, hnew, hwf⟩ := sdp_parse_medias_wf hp hret
  simp only [List.nil_append] at hnew
  subst hnew
  obtain ⟨p, hmp, hmlen, haw⟩ := (hwf s hs).2 m hm
  obtain ⟨q, hq, hq1, hq2⟩ := attrs_within_mem haw ha
  have hact := media_attr_action_strip flags cm m chop.input a htag
  have hed : (edit_of_action (media_attr_action flags cm m chop.input a)).isSome = true := by
    rw [hact]; rfl
  have hsucc : (process_media_attributes chop m flags cm).1 = 0 →
      chop.position ≤ a.full_line.s.getD 0 := by
    intro h0
    exact process_attrs_loop_success _ _ chop (attrs_within_isSome haw) h0 a ha hed
  subst hin
  refine ⟨?_, ?_⟩
  · intro hlt
    rcases process_attrs_loop_ret (media_attr_action flags cm m chop.input)
      m.attributes.list chop with h0 | h1
    · have := hsucc h0
      omega
    · exact h1
  · intro h0
    have hs1 := section_pass (media_attr_action flags cm m chop.input) chop m.attributes.list
      m.s p p haw hmp (by omega) h0
    rw [hq, hmp]
    simp only [Option.getD_some]
    refine ⟨?_, hq2, ?_, ?_⟩
    · have := hsucc h0
      rw [hq] at this
      exact this
    · intro i hi1 hi2
      exact expected_at_stripped (media_attr_edit flags cm m chop.input) chop.input
        m.attributes.list _ _ haw a ha (by unfold media_attr_edit; rw [hact]; rfl) q hq i hi1 hi2
    · exact hs1.2

/-- C16 (as amended) on the media section of `demo_mid_body`, for its `a=mid`
line (bytes 47 to 55), with the flags at their defaults, an empty call media
and the read position behind the address of the `c=` line: the pass returns 0
and the section is emitted without the line. -/
theorem c16_media_attr_strip_witness :
    sdp_parse demo_env false demo_mid_body 56 [] false
      = some ⟨0, demo_sessions demo_mid_body, 56⟩ ∧
    ((demo_media_of demo_mid_body).attributes.list.map (fun a => (a.attr, a.full_line)))
      = [(attr_id.ATTR_MID, { s := some 47, len := 9 })] ∧
    (demo_media_of demo_mid_body).s = { s := some 5, len := 51 } ∧
    (process_media_attributes { input := demo_mid_body, input_len := 56, position := 45 }
      (demo_media_of demo_mid_body) {} {}).1 = 0 ∧
    (∀ i, 47 ≤ i → i < 56 →
      expected_at (media_attr_edit {} {} (demo_media_of demo_mid_body) demo_mid_body)
        demo_mid_body (demo_media_of demo_mid_body).attributes.list i = []) ∧
    ∀ chop2,
      copy_up_to_end_of (process_media_attributes
        { input := demo_mid_body, input_len := 56, position := 45 }
        (demo_media_of demo_mid_body) {} {}).2 (demo_media_of demo_mid_body).s = (0, chop2) →
      chop2.output = "\r\n".toList :=
  with_facts9 (fun fact1 fact2 fact3 fact4 fact5 fact6 fact7 fact8 fact9 =>
    have h := (c16_media_attr_strip {} {}
      ((demo_media_of demo_mid_body).attributes.list.headD {})
      (Or.inr (Or.inr (Or.inl (fact1))))).2 demo_env false false demo_mid_body 56
      ⟨0, demo_sessions demo_mid_body, 56⟩ (by decide) fact2 rfl
      (demo_session_of demo_mid_body) (fact3) (demo_media_of demo_mid_body) (fact4) (fact5)
      { input := demo_mid_body, input_len := 56, position := 45 } rfl
    have e : ((demo_media_of demo_mid_body).attributes.list.headD {}).full_line
        = { s := some 47, len := 9 } := fact6
    have e2 : (demo_media_of demo_mid_body).s = { s := some 5, len := 51 } := fact8
    ⟨fact2, fact7, fact8, fact9,
     fun i hi1 hi2 => (h.2 (fact9)).2.2.1 i (by rw [e]; exact hi1) (by rw [e]; exact hi2),
     fun chop2 hc => by
       have := (h.2 (fact9)).2.2.2 chop2 hc
       rw [this, e2]
       decide⟩) (by decide!)

/-- C16 fails as stated.  In the media section of `demo_early_mid_body` the
`a=mid` line (bytes 29 to 37) comes before the `c=` line, whose address is at
bytes 47 to 53.  The body is accepted by `sdp_parse`.  When `sdp_replace`
reaches the attribute pass of the section it has rewritten the address of the
`c=` line and the read position is 54: from there
`process_media_attributes` returns -1 instead of removing the line, and
`sdp_replace` against the call that mirrors the body returns -1, with the
bytes of the line copied to its output. -/
theorem c16_counterexample :
    sdp_parse demo_env false demo_early_mid_body 56 [] false
      = some ⟨0, demo_sessions demo_early_mid_body, 56⟩ ∧
    ((demo_media_of demo_early_mid_body).attributes.list.map (fun a => (a.attr, a.full_line)))
      = [(attr_id.ATTR_MID, { s := some 29, len := 9 })] ∧
    (demo_media_of demo_early_mid_body).connection.address.address
      = { s := some 47, len := 7 } ∧
    (process_media_attributes
      { input := demo_early_mid_body, input_len := 56, position := 54,
        output := bytes_at demo_early_mid_body 0 54 }
      (demo_media_of demo_early_mid_body) {}
      (((demo_mirror demo_early_mid_body).medias.headD none).getD {}))
      = (-1, { input := demo_early_mid_body, input_len := 56, position := 54,
               output := bytes_at demo_early_mid_body 0 54 }) ∧
    (sdp_replace demo_env { input := demo_early_mid_body, input_len := 56 }
      (demo_sessions demo_early_mid_body) (demo_mirror demo_early_mid_body) {}).ret = -1 ∧
    (sdp_replace demo_env { input := demo_early_mid_body, input_len := 56 }
      (demo_sessions demo_early_mid_body) (demo_mirror demo_early_mid_body) {}).chop.position
      = 54 ∧
    (sdp_replace demo_env { input := demo_early_mid_body, input_len := 56 }
      (demo_sessions demo_early_mid_body) (demo_mirror demo_early_mid_body) {}).chop.output
      = "v=0\r\nm=audio 5000 RTP/AVP 0\r\na=mid:1\r\nc=IN IP4 1.2.3.4".toList :=
  with_facts7 (fun fact1 fact2 fact3 fact4 fact5 fact6 fact7 =>
    ⟨fact1, fact2, fact3, fact4, fact5, fact6, fact7⟩) (by decide!)

/-- C39.  For every call media that is no generator and whose protocol is
unknown, whatever the flags and the manipulation directives are: the decision
of `process_media_attributes` for an attribute that the first,
protocol-agnostic switch does not strip is to keep it, and the step of the
loop for it leaves the chopper as it is; the first switch strips no attribute
whose tag is outside the ICE family, IGNORE, end-of-candidates, mid, OTHER
and the directional tags; the whole pass is the pass over the attributes that
the first switch strips, so that a section with no such attribute is left
untouched; and for every body that `sdp_parse` accepts, every media section
of it and every attribute of the section that the first switch does not
strip, the expected rewriting has every byte of the attribute's line as it
stands in the input, and when `process_media_attributes` and the copy to the
end of the section return 0 the output has grown by exactly the expected
rewriting of the section from the read position on. -/
theorem c39_unknown_protocol_keep (flags : sdp_ng_flags) (cm : call_media)
    (hgen : cm.media_flags.GENERATOR = false) (hproto : cm.protocol = none) :
    (∀ (m : sdp_media) (buf : List Char) (a : sdp_attribute) (chop : sdp_chopper),
      media_attr_switch flags cm buf a = false →
      media_attr_action flags cm m buf a = attr_action.keep ∧
      apply_attr_action chop a (media_attr_action flags cm m buf a) = (0, chop)) ∧
    (∀ (buf : List Char) (b : sdp_attribute),
      b.attr ≠ attr_id.ATTR_ICE → b.attr ≠ attr_id.ATTR_ICE_UFRAG →
      b.attr ≠ attr_id.ATTR_ICE_PWD → b.attr ≠ attr_id.ATTR_ICE_OPTIONS →
      b.attr ≠ attr_id.ATTR_ICE_LITE → b.attr ≠ attr_id.ATTR_CANDIDATE →
      b.attr ≠ attr_id.ATTR_IGNORE → b.attr ≠ attr_id.ATTR_END_OF_CANDIDATES →
      b.attr ≠ attr_id.ATTR_MID → b.attr ≠ attr_id.ATTR_OTHER →
      b.attr ≠ attr_id.ATTR_INACTIVE → b.attr ≠ attr_id.ATTR_SENDONLY →
      b.attr ≠ attr_id.ATTR_RECVONLY → b.attr ≠ attr_id.ATTR_SENDRECV →
      media_attr_switch flags cm buf b = false) ∧
    (∀ (chop : sdp_chopper) (m : sdp_media),
      process_media_attributes chop m flags cm =
        process_attrs_loop (media_attr_action flags cm m chop.input) chop
          (m.attributes.list.filter (media_attr_switch flags cm chop.input)) ∧
      ((∀ a ∈ m.attributes.list, media_attr_switch flags cm chop.input a = false) →
        process_media_attributes chop m flags cm = (0, chop))) ∧
    ∀ (env : Env) (strict fragment : Bool) (buf : List Char) (len : Nat) (r : parse_result),
      len ≤ buf.length → sdp_parse env strict buf len [] fragment = some r → r.ret = 0 →
      ∀ s ∈ r.sessions, ∀ m ∈ s.media_streams, ∀ a ∈ m.attributes.list,
      media_attr_switch flags cm buf a = false →
        (∀ i, a.full_line.s.getD 0 ≤ i → i < a.full_line.s.getD 0 + a.full_line.len →
          expected_at (media_attr_edit flags cm m buf) buf m.attributes.list i
            = [getc buf i]) ∧
        ∀ chop : sdp_chopper, chop.input = buf →
          (process_media_attributes chop m flags cm).1 = 0 →
          ∀ chop2,
            copy_up_to_end_of (process_media_attributes chop m flags cm).2 m.s = (0, chop2) →
            chop2.output = chop.output ++
              expected_output (media_attr_edit flags cm m buf) buf m.attributes.list
                chop.position (m.s.s.getD 0 + m.s.len) := by
  have hkeep : ∀ (m : sdp_media) (buf : List Char) (a : sdp_attribute),
      media_attr_switch flags cm buf a = false →
      media_attr_action flags cm m buf a = attr_action.keep := by
    intro m buf a hsw
    rw [media_attr_action_unknown flags cm m buf a hgen hproto, hsw]
    rfl
  have hfilter : ∀ (chop : sdp_chopper) (m : sdp_media),
      process_media_attributes chop m flags cm =
        process_attrs_loop (media_attr_action flags cm m chop.input) chop
          (m.attributes.list.filter (media_attr_switch flags cm chop.input)) := by
    intro chop m
    unfold process_media_attributes
    rw [process_attrs_loop_filter]
    congr 1
    apply List.filter_congr
    intro a _
    rw [media_attr_action_unknown flags cm m chop.input a hgen hproto]
    cases media_attr_switch flags cm chop.input a <;> rfl
  refine ⟨?_, ?_, ?_, ?_⟩
  · intro m buf a chop hsw
    refine ⟨hkeep m buf a hsw, ?_⟩
    rw [hkeep m buf a hsw]
    rfl
  · intro buf b h1 h2 h3 h4 h5 h6 h7 h8 h9 h10 h11 h12 h13 h14
    unfold media_attr_switch
    cases hv : b.attr <;> first | rfl | (exfalso; simp_all)
  · intro chop m
    refine ⟨hfilter chop m, ?_⟩
    intro hall
    rw [hfilter chop m]
    have : m.attributes.list.filter (media_attr_switch flags cm chop.input) = [] := by
      rw [List.filter_eq_nil_iff]
      intro a ha
      rw [hall a ha]
      simp
    rw [this]
    rfl
  · intro env strict fragment buf len r hlen hp hret s hs m hm a ha hsw
    obtain ⟨new, hnew, hwf⟩ := sdp_parse_medias_wf hp hret
    simp only [List.nil_append] at hnew
    subst hnew
    obtain ⟨p, hmp, hmlen, haw⟩ := (hwf s hs).2 m hm
    obtain ⟨q, hq, hq1, hq2⟩ := attrs_within_mem haw ha
    refine ⟨?_, ?_⟩
    · intro i hi1 hi2
      rw [hq] at hi1 hi2
      exact expected_at_kept (media_attr_edit flags cm m buf) buf
        m.attributes.list _ _ haw a ha (by unfold media_attr_edit; rw [hkeep m buf a hsw]; rfl)
        q hq i hi1 hi2
    · intro chop hin h0 chop2 hc
      subst hin
      have hs1 := section_pass (media_attr_action flags cm m chop.input) chop m.attributes.list
        m.s p p haw hmp (by omega) h0
      rw [hmp]
      exact hs1.2 chop2 hc

/-- C39 on the `a=rtpmap` line of the media section of `demo_keep_body` (bytes
22 to 43), with a remove directive for `rtpmap`: the directive matches the
attribute, and a call media with a protocol strips the line; with the
protocol of the call media unknown the line is kept, the pass leaves the
chopper as it is and the copy to the end of the section emits the line. -/
theorem c39_unknown_protocol_keep_witness :
    sdp_parse demo_env false demo_keep_body 44 [] false
      = some ⟨0, demo_sessions demo_keep_body, 44⟩ ∧
    (demo_keep_media.attributes.list.map (fun a => (a.attr, a.full_line)))
      = [(attr_id.ATTR_RTPMAP, { s := some 22, len := 22 })] ∧
    demo_keep_media.s = { s := some 5, len := 39 } ∧
    sdp_manipulate_remove_attr
      (demo_remove_rtpmap_flags.sdp_manipulations demo_keep_media.media_type_id) demo_keep_body
      (demo_keep_media.attributes.list.headD {}) = true ∧
    media_attr_action demo_remove_rtpmap_flags { protocol := some { rtp := true } }
      demo_keep_media demo_keep_body (demo_keep_media.attributes.list.headD {})
      = attr_action.strip ∧
    media_attr_action demo_remove_rtpmap_flags {} demo_keep_media demo_keep_body
      (demo_keep_media.attributes.list.headD {}) = attr_action.keep ∧
    process_media_attributes { input := demo_keep_body, input_len := 44, position := 20 }
      demo_keep_media demo_remove_rtpmap_flags {}
      = (0, { input := demo_keep_body, input_len := 44, position := 20 }) ∧
    (∀ i, 22 ≤ i → i < 44 →
      expected_at (media_attr_edit demo_remove_rtpmap_flags {} demo_keep_media
        demo_keep_body) demo_keep_body demo_keep_media.attributes.list i
        = [getc demo_keep_body i]) ∧
    ∀ chop2,
      copy_up_to_end_of { input := demo_keep_body, input_len := 44, position := 20 }
        demo_keep_media.s = (0, chop2) →
      chop2.output = "\r\na=rtpmap:8 PCMA/8000\r\n".toList :=
  with_facts12 (fun fact1 fact2 fact3 fact4 fact5 fact6 fact7 fact8 fact9 fact10 fact11 fact12 =>
    have h := c39_unknown_protocol_keep demo_remove_rtpmap_flags {} rfl rfl
    have hsw : media_attr_switch demo_remove_rtpmap_flags {} demo_keep_body
        (demo_keep_media.attributes.list.headD {}) = false := fact1
    have hall : ∀ a ∈ demo_keep_media.attributes.list,
        media_attr_switch demo_remove_rtpmap_flags {} demo_keep_body a = false := fact2
    have hpass := (h.2.2.1 { input := demo_keep_body, input_len := 44, position := 20 }
      demo_keep_media).2 hall
    have hbody := h.2.2.2 demo_env false false demo_keep_body 44
      ⟨0, demo_sessions demo_keep_body, 44⟩ (by decide) fact3 rfl
      ((demo_sessions demo_keep_body).headD {}) (fact4) demo_keep_media (fact5)
      (demo_keep_media.attributes.list.headD {}) (fact6) hsw
    have e : (demo_keep_media.attributes.list.headD {}).full_line
        = { s := some 22, len := 22 } := fact7
    ⟨fact3, fact8, fact12, fact9, fact10,
     (h.1 demo_keep_media demo_keep_body (demo_keep_media.attributes.list.headD {})
       { input := demo_keep_body, input_len := 44, position := 20 } hsw).1,
     hpass,
     fun i hi1 hi2 => hbody.1 i (by rw [e]; exact hi1) (by rw [e]; exact hi2),
     fun chop2 hc => by
       have := hbody.2 { input := demo_keep_body, input_len := 44, position := 20 } rfl
         (by rw [hpass]) chop2 (by rw [hpass]; exact hc)
       rw [this]
       exact fact11⟩) (by decide!)

end Sdp
